import Mathlib

/-!
# SQLite 3.7.14.1 B-tree layer (`btree.c`): a shallow embedding

Page buffers are functions from byte offsets to bytes, C integers are naturals
with explicit reduction modulo the width of the C type wherever the C code
can wrap, and every C function keeps its name.
-/

namespace Btree

/-! ## Bytes, big-endian fields and C integer casts -/

/-- A byte buffer (`u8 *`).  Only the residue modulo 256 of a slot is ever read. -/
abbrev Bytes := Nat → Nat

/-- Read `d[i]` as a `u8`. -/
def getByte (d : Bytes) (i : Nat) : Nat := d i % 256

/-- Store the `u8` cast of `v` at `d[i]`. -/
def setByte (d : Bytes) (i v : Nat) : Bytes := fun j => if j = i then v % 256 else d j

/-- Modelled from the spec: `get2byte` of the absent `btreeInt.h`; "all multi-byte
integers big-endian". -/
def get2byte (d : Bytes) (i : Nat) : Nat := getByte d i * 256 + getByte d (i + 1)

/-- Modelled from the spec: `put2byte` of the absent `btreeInt.h`; stores the low
16 bits of `v`, high byte first. -/
def put2byte (d : Bytes) (i v : Nat) : Bytes := setByte (setByte d i (v / 256)) (i + 1) v

/-- Modelled from the spec: `get4byte` (`sqlite3Get4byte` of the absent `util.c`);
a big-endian 32-bit field. -/
def get4byte (d : Bytes) (i : Nat) : Nat :=
  getByte d i * 16777216 + getByte d (i + 1) * 65536 + getByte d (i + 2) * 256 + getByte d (i + 3)

/-- Modelled from the spec: `put4byte` (`sqlite3Put4byte` of the absent `util.c`). -/
def put4byte (d : Bytes) (i v : Nat) : Bytes :=
  setByte (setByte (setByte (setByte d i (v / 16777216)) (i + 1) (v / 65536)) (i + 2) (v / 256))
    (i + 3) v

/-- The macro `get2byteNotZero(X)`, `(((int)get2byte(X) - 1) & 0xffff) + 1`: a stored zero
stands for 65536. -/
def get2byteNotZero (d : Bytes) (i : Nat) : Nat := (get2byte d i + 65535) % 65536 + 1

/-- The cast `(u8)x`. -/
def u8 (x : Nat) : Nat := x % 256

/-- The cast `(u16)x`. -/
def u16 (x : Nat) : Nat := x % 65536

/-- The cast `(u32)x`. -/
def u32 (x : Nat) : Nat := x % 4294967296

/-- Subtraction of 32-bit unsigned values, `a - b` in `u32` arithmetic. -/
def u32sub (a b : Nat) : Nat := (a % 4294967296 + 4294967296 - b % 4294967296) % 4294967296

/-- Subtraction of 16-bit unsigned values stored back into a `u16`. -/
def u16sub (a b : Nat) : Nat := (a % 65536 + 65536 - b % 65536) % 65536

/-- The value of a 32-bit pattern read as a C `int`. -/
def toInt32 (x : Nat) : Int :=
  if x % 4294967296 < 2147483648 then (x % 4294967296 : Nat) else (x % 4294967296 : Nat) - 4294967296

/-- The value of a 64-bit pattern read as an `i64`. -/
def toInt64 (x : Nat) : Int :=
  if x % 18446744073709551616 < 9223372036854775808 then (x % 18446744073709551616 : Nat)
  else (x % 18446744073709551616 : Nat) - 18446744073709551616

/-! ## Result codes and page-type flags -/

/-- Result code `SQLITE_OK`. -/
def SQLITE_OK : Nat := 0

/-- Result code `SQLITE_CORRUPT` (`SQLITE_CORRUPT_BKPT` evaluates to it). -/
def SQLITE_CORRUPT : Nat := 11

/-- Page flag `PTF_INTKEY` of the absent `btreeInt.h`. -/
def PTF_INTKEY : Nat := 1

/-- Page flag `PTF_ZERODATA`; `moveToRoot` documents 0x02 / 0x0A as the index pages. -/
def PTF_ZERODATA : Nat := 2

/-- Page flag `PTF_LEAFDATA`; `moveToRoot` documents 0x05 / 0x0D as the table pages. -/
def PTF_LEAFDATA : Nat := 4

/-- Page flag `PTF_LEAF`; `decodeFlags` asserts `PTF_LEAF == 1 << 3`. -/
def PTF_LEAF : Nat := 8

/-! ## Varints -/

/-- Decoder loop of `getVarintAux d p k i acc`: `k` seven-bit bytes may still follow,
`i` bytes have been consumed, `acc` is the value so far.  Returns (length, value). -/
def getVarintAux (d : Bytes) (p : Nat) : Nat → Nat → Nat → Nat × Nat
  | 0, i, acc => (i + 1, acc * 256 + getByte d (p + i))
  | k + 1, i, acc =>
    if getByte d (p + i) < 128 then (i + 1, acc * 128 + getByte d (p + i))
    else getVarintAux d p k (i + 1) (acc * 128 + (getByte d (p + i) - 128))

/-- Modelled from the spec: `getVarint` (`sqlite3GetVarint` of the absent `util.c`);
"varints: 1–9 bytes, high-bit-continuation; byte 9 uses all 8 bits", big-endian.
Returns (number of bytes read, 64-bit value). -/
def getVarint (d : Bytes) (p : Nat) : Nat × Nat := getVarintAux d p 8 0 0

/-- Modelled from the spec: `getVarint32` (macro of the absent `sqliteInt.h` over
`sqlite3GetVarint32`): the same encoding read into a `u32`; a value that
does not fit in 32 bits is reported as 0xffffffff. -/
def getVarint32 (d : Bytes) (p : Nat) : Nat × Nat :=
  ((getVarint d p).1, if (getVarint d p).2 < 4294967296 then (getVarint d p).2 else 4294967295)

/-! ## `BtShared` and `MemPage` -/

/-- The fields of `BtShared` that the page codec reads. -/
structure BtShared where
  pageSize : Nat
  usableSize : Nat
  maxLocal : Nat
  minLocal : Nat
  maxLeaf : Nat
  minLeaf : Nat
  max1bytePayload : Nat
  autoVacuum : Bool
  secureDelete : Bool

/-- The tail of `lockBtree`: the payload limits derived from `usableSize`
(`u32` arithmetic, stored in `u16` fields; `max1bytePayload` is a `u8`). -/
def lockBtree (pBt : BtShared) : BtShared :=
  let maxLocal := u16 (u32sub (u32 (u32sub pBt.usableSize 12 * 64) / 255) 23)
  { pBt with
    maxLocal := maxLocal
    minLocal := u16 (u32sub (u32 (u32sub pBt.usableSize 12 * 32) / 255) 23)
    maxLeaf := u16 (u32sub pBt.usableSize 35)
    minLeaf := u16 (u32sub (u32 (u32sub pBt.usableSize 12 * 32) / 255) 23)
    max1bytePayload := if maxLocal > 127 then 127 else u8 maxLocal }

/-- The in-memory page header `MemPage`, with the page image `aData` and the
owning `BtShared`.  `aiOvfl`/`apOvfl` list the overflow cells (index, cell bytes). -/
structure MemPage where
  isInit : Bool
  nOverflow : Nat
  intKey : Nat
  leaf : Nat
  hasData : Nat
  hdrOffset : Nat
  childPtrSize : Nat
  max1bytePayload : Nat
  maxLocal : Nat
  minLocal : Nat
  cellOffset : Nat
  nFree : Nat
  nCell : Nat
  maskPage : Nat
  aiOvfl : List Nat
  apOvfl : List Bytes
  pBt : BtShared
  aData : Bytes
  pgno : Nat

/-- `decodeFlags`: decode the flag byte of a page header.  Returns the result code
and the page with `leaf`, `childPtrSize`, `intKey`, `hasData`, `maxLocal`, `minLocal`
and `max1bytePayload` set as far as the C code got. -/
def decodeFlags (pPage : MemPage) (flagByte : Nat) : Nat × MemPage :=
  let leaf := u8 (flagByte >>> 3)
  let flagByte := flagByte - flagByte / PTF_LEAF % 2 * PTF_LEAF
  let pPage := { pPage with leaf := leaf, childPtrSize := u8 (1024 + 4 - 4 * leaf) }
  if flagByte = PTF_LEAFDATA ||| PTF_INTKEY then
    (SQLITE_OK, { pPage with
      intKey := 1
      hasData := pPage.leaf
      maxLocal := pPage.pBt.maxLeaf
      minLocal := pPage.pBt.minLeaf
      max1bytePayload := pPage.pBt.max1bytePayload })
  else if flagByte = PTF_ZERODATA then
    (SQLITE_OK, { pPage with
      intKey := 0
      hasData := 0
      maxLocal := pPage.pBt.maxLocal
      minLocal := pPage.pBt.minLocal
      max1bytePayload := pPage.pBt.max1bytePayload })
  else
    (SQLITE_CORRUPT, pPage)

/-! ## Cell parsing -/

/-- The structure `CellInfo` filled in by `btreeParseCellPtr`. -/
structure CellInfo where
  nKey : Int
  pCell : Nat
  nData : Nat
  nPayload : Nat
  nHeader : Nat
  nLocal : Nat
  iOverflow : Nat
  nSize : Nat

/-- `btreeParseCellPtr`: parse the cell that starts at offset `pCell` of the buffer `d`. -/
def btreeParseCellPtr (pPage : MemPage) (d : Bytes) (pCell : Nat) : CellInfo :=
  let n0 := pPage.childPtrSize
  let n1 := if pPage.intKey ≠ 0 then
      (if pPage.hasData ≠ 0 then u16 (n0 + u8 (getVarint32 d (pCell + n0)).1) else n0)
    else u16 (n0 + u8 (getVarint32 d (pCell + n0)).1)
  let nPayload := if pPage.intKey ≠ 0 then
      (if pPage.hasData ≠ 0 then u32 (getVarint32 d (pCell + n0)).2 else 0)
    else u32 (getVarint32 d (pCell + n0)).2
  let n := if pPage.intKey ≠ 0 then u16 (n1 + u8 (getVarint d (pCell + n1)).1) else n1
  let nKey : Int := if pPage.intKey ≠ 0 then toInt64 (getVarint d (pCell + n1)).2 else nPayload
  let nData := if pPage.intKey ≠ 0 then nPayload else 0
  if nPayload ≤ pPage.maxLocal then
    { nKey := nKey, pCell := pCell, nData := nData, nPayload := nPayload, nHeader := n
      nLocal := u16 nPayload
      iOverflow := 0
      nSize := if u16 (n + nPayload) < 4 then 4 else u16 (n + nPayload) }
  else
    let minLocal := pPage.minLocal
    let maxLocal := pPage.maxLocal
    let surplus := u32 (minLocal + u32sub nPayload minLocal % u32sub pPage.pBt.usableSize 4)
    let nLocal := if toInt32 surplus ≤ (maxLocal : Int) then u16 surplus else u16 minLocal
    { nKey := nKey, pCell := pCell, nData := nData, nPayload := nPayload, nHeader := n
      nLocal := nLocal
      iOverflow := u16 (nLocal + n)
      nSize := u16 (u16 (nLocal + n) + 4) }

/-- The usable sizes `lockBtree` lets through: at least 480 bytes, at most a 65536-byte page. -/
def usableOk (u : Nat) : Prop := 480 ≤ u ∧ u ≤ 65536

instance (u : Nat) : Decidable (usableOk u) := by unfold usableOk; infer_instance

/-! ## Auxiliary definitions used by the proofs -/

/-- The header length `n` that `btreeParseCellPtr` computes (its `nHeader`). -/
def cellHeaderSize (pPage : MemPage) (d : Bytes) (pCell : Nat) : Nat :=
  let n0 := pPage.childPtrSize
  let n1 := if pPage.intKey ≠ 0 then
      (if pPage.hasData ≠ 0 then u16 (n0 + u8 (getVarint32 d (pCell + n0)).1) else n0)
    else u16 (n0 + u8 (getVarint32 d (pCell + n0)).1)
  if pPage.intKey ≠ 0 then u16 (n1 + u8 (getVarint d (pCell + n1)).1) else n1

/-- The payload size `nPayload` that `btreeParseCellPtr` decodes. -/
def cellPayloadSize (pPage : MemPage) (d : Bytes) (pCell : Nat) : Nat :=
  if pPage.intKey ≠ 0 then
    (if pPage.hasData ≠ 0 then u32 (getVarint32 d (pCell + pPage.childPtrSize)).2 else 0)
  else u32 (getVarint32 d (pCell + pPage.childPtrSize)).2

/-- A `BtShared` with a 1024-byte usable size whose limits were computed by `lockBtree`. -/
def exBt1024 : BtShared :=
  lockBtree { pageSize := 1024, usableSize := 1024, maxLocal := 0, minLocal := 0, maxLeaf := 0,
              minLeaf := 0, max1bytePayload := 0, autoVacuum := false, secureDelete := false }

/-- A blank, uninitialised `MemPage` over `pBt` with page image `aData`. -/
def blankPage (pBt : BtShared) (aData : Bytes) (pgno : Nat) : MemPage :=
  { isInit := false, nOverflow := 0, intKey := 0, leaf := 0, hasData := 0
    hdrOffset := if pgno = 1 then 100 else 0
    childPtrSize := 0, max1bytePayload := 0, maxLocal := 0, minLocal := 0, cellOffset := 0
    nFree := 0, nCell := 0, maskPage := 0, aiOvfl := [], apOvfl := [], pBt := pBt
    aData := aData, pgno := pgno }

/-- A table-leaf cell at offset 0: payload-size varint 2000 (bytes 0x8F 0x50), key varint 7. -/
def exCell2000 : Bytes := fun i => if i = 0 then 143 else if i = 1 then 80 else if i = 2 then 7 else 0

end Btree

namespace Btree

/-! ## Page initialisation, `btreeInitPage` -/

/-- The cast `(u16)x` of a C `int` that may be negative. -/
def u16i (x : Int) : Nat := (x % 65536).toNat

/-- The macro `MX_CELL(pBt)` of the absent `btreeInt.h`, `(pBt->pageSize-8)/6`; `insertCell`
asserts `MX_CELL(pBt) <= 10921`, its value for a 65536-byte page. -/
def MX_CELL (pBt : BtShared) : Nat := u32sub pBt.pageSize 8 / 6

/-- `memcpy(&dst[dOff], &src[sOff], n)`. -/
def memcpy (dst : Bytes) (dOff : Nat) (src : Bytes) (sOff n : Nat) : Bytes :=
  fun j => if dOff ≤ j ∧ j < dOff + n then src (sOff + (j - dOff)) else dst j

/-- `memset(&dst[off], 0, n)`. -/
def memset0 (dst : Bytes) (off n : Nat) : Bytes :=
  fun j => if off ≤ j ∧ j < off + n then 0 else dst j

/-- The freeblock loop of `btreeInitPage` ("Compute the total free space on the page"),
started at freeblock offset `pc` with running total `nFree`.  `none` means the fuel ran
out; otherwise the result code and the total. -/
def freeblockWalk (data : Bytes) (usableSize iCellFirst iCellLast : Nat) :
    Nat → Nat → Nat → Option (Nat × Nat)
  | 0, _, _ => none
  | fuel + 1, pc, nFree =>
    if pc > 0 then
      if pc < iCellFirst ∨ pc > iCellLast then some (SQLITE_CORRUPT, nFree)
      else if (get2byte data pc > 0 ∧ get2byte data pc ≤ pc + get2byte data (pc + 2) + 3)
          ∨ pc + get2byte data (pc + 2) > usableSize then some (SQLITE_CORRUPT, nFree)
      else freeblockWalk data usableSize iCellFirst iCellLast fuel (get2byte data pc)
          (nFree + get2byte data (pc + 2))
    else some (SQLITE_OK, nFree)

/-- `btreeInitPage` (default build, `SQLITE_ENABLE_OVERSIZE_CELL_CHECK` undefined).  Returns
`none` when the freeblock loop runs out of `fuel`, otherwise the result code and the page. -/
def btreeInitPage (fuel : Nat) (pPage : MemPage) : Option (Nat × MemPage) :=
  if pPage.isInit then some (SQLITE_OK, pPage)
  else
    let hdr := pPage.hdrOffset
    let data := pPage.aData
    if (decodeFlags pPage (getByte data hdr)).1 ≠ 0 then
      some (SQLITE_CORRUPT, (decodeFlags pPage (getByte data hdr)).2)
    else
      let pPage := (decodeFlags pPage (getByte data hdr)).2
      let usableSize := pPage.pBt.usableSize
      let cellOffset := u16 (hdr + 12 - 4 * pPage.leaf)
      let top := get2byteNotZero data (hdr + 5)
      let nCell := get2byte data (hdr + 3)
      let pPage := { pPage with
        maskPage := u16 (u32sub pPage.pBt.pageSize 1), nOverflow := 0, aiOvfl := [], apOvfl := []
        cellOffset := cellOffset, nCell := nCell }
      if nCell > MX_CELL pPage.pBt then some (SQLITE_CORRUPT, pPage)
      else
        let iCellFirst := cellOffset + 2 * nCell
        let iCellLast := usableSize - 4
        match freeblockWalk data usableSize iCellFirst iCellLast fuel (get2byte data (hdr + 1))
            (getByte data (hdr + 7) + top) with
        | none => none
        | some (rc, nFree) =>
          if rc ≠ 0 then some (SQLITE_CORRUPT, pPage)
          else if nFree > usableSize then some (SQLITE_CORRUPT, pPage)
          else some (SQLITE_OK,
            { pPage with nFree := u16i ((nFree : Int) - (iCellFirst : Int)), isInit := true })

/-- The freeblock chain that starts at offset `pc`: the offsets reached by following the
2-byte next pointers until a zero (at most `fuel` of them). -/
def freeblockChain (data : Bytes) : Nat → Nat → List Nat
  | 0, _ => []
  | fuel + 1, pc => if pc = 0 then [] else pc :: freeblockChain data fuel (get2byte data pc)

/-- Total of the size fields of the blocks of a chain. -/
def freeblockTotal (data : Bytes) (chain : List Nat) : Nat :=
  (chain.map (fun pc => get2byte data (pc + 2))).sum

/-- The chain of the page image `data` with header at `hdr`. -/
def pageFreeblocks (data : Bytes) (hdr : Nat) : List Nat :=
  freeblockChain data 65536 (get2byte data (hdr + 1))

/-- First offset after the cell-pointer array according to the page image:
`cellOffset + 2 * nCell` with `cellOffset = hdr + 12 - 4 * leaf`. -/
def pageCellFirst (data : Bytes) (hdr : Nat) : Nat :=
  u16 (hdr + 12 - 4 * u8 (getByte data hdr >>> 3)) + 2 * get2byte data (hdr + 3)

/-- A freeblock at `pc` that `btreeInitPage` must reject: it starts below `iCellFirst` or
above `usable - 4`, ends past `usable`, or its non-zero next offset is not greater than
`pc + size + 3`. -/
def badFreeblock (data : Bytes) (usableSize iCellFirst pc : Nat) : Prop :=
  pc < iCellFirst ∨ pc > usableSize - 4 ∨ pc + get2byte data (pc + 2) > usableSize ∨
  (get2byte data pc ≠ 0 ∧ get2byte data pc ≤ pc + get2byte data (pc + 2) + 3)

instance (data : Bytes) (usableSize iCellFirst pc : Nat) :
    Decidable (badFreeblock data usableSize iCellFirst pc) := by
  unfold badFreeblock; infer_instance

/-- A chain as `btreeInitPage` accepts it: every block starts in `[lo, usable - 4]`, ends at
or before `usable`, and a following block starts more than 3 bytes after the end of
its predecessor (strictly ascending, non-overlapping). -/
def chainAscending (data : Bytes) (usableSize : Nat) : Nat → List Nat → Prop
  | _, [] => True
  | lo, pc :: rest =>
    lo ≤ pc ∧ pc ≤ usableSize - 4 ∧ pc + get2byte data (pc + 2) ≤ usableSize ∧
    chainAscending data usableSize (pc + get2byte data (pc + 2) + 4) rest

/-- The page as `btreeInitPage` has set it up when it reaches the freeblock loop: flags
decoded, `maskPage`, `nOverflow`, `cellOffset` and `nCell` filled in. -/
def initPageHeader (pPage : MemPage) : MemPage :=
  { (decodeFlags pPage (getByte pPage.aData pPage.hdrOffset)).2 with
    maskPage := u16 (u32sub (decodeFlags pPage (getByte pPage.aData pPage.hdrOffset)).2.pBt.pageSize 1)
    nOverflow := 0, aiOvfl := [], apOvfl := []
    cellOffset := u16 (pPage.hdrOffset + 12 -
      4 * (decodeFlags pPage (getByte pPage.aData pPage.hdrOffset)).2.leaf)
    nCell := get2byte pPage.aData (pPage.hdrOffset + 3) }

/-- A byte buffer given by the listed (offset, byte) pairs, zero elsewhere. -/
def mkBytes (l : List (Nat × Nat)) : Bytes :=
  fun i => match l.find? (fun e => e.1 == i) with
    | some e => e.2
    | none => 0

/-- A table-leaf page image (usable size 1024): one cell pointer, content area at 900, two
fragmented bytes and one 20-byte freeblock at 950. -/
def exInitPage : MemPage :=
  blankPage exBt1024 (mkBytes [(0, 13), (1, 3), (2, 182), (3, 0), (4, 1), (5, 3), (6, 132), (7, 2),
    (8, 3), (9, 132), (950, 0), (951, 0), (952, 0), (953, 20)]) 2

/-- A table-leaf page image (usable size 1024) whose header announces 100 cells, so that the
cell-pointer array ends at 208, and a content area starting at offset 100; no freeblocks. -/
def exLowTopPage : MemPage :=
  blankPage exBt1024 (mkBytes [(0, 13), (3, 0), (4, 100), (5, 0), (6, 100)]) 2

end Btree

namespace Btree

/-! ## Cell sizes and the in-page mutators -/

/-- The key-skipping loop of `cellSizePtr`, `while( (*pIter++)&0x80 && pIter<pEnd );` with
`pEnd = pIter + 9`: `i` bytes consumed so far; returns the number of bytes consumed. -/
def skipVarint (d : Bytes) (p : Nat) : Nat → Nat → Nat
  | 0, i => i
  | k + 1, i => if getByte d (p + i) ≥ 128 ∧ i + 1 < 9 then skipVarint d p k (i + 1) else i + 1

/-- `cellSizePtr`: the number of bytes the cell at `d[pCell]` occupies on its page. -/
def cellSizePtr (pPage : MemPage) (d : Bytes) (pCell : Nat) : Nat :=
  let pIter0 := pCell + pPage.childPtrSize
  let nSize0 := if pPage.intKey ≠ 0 then
      (if pPage.hasData ≠ 0 then u32 (getVarint32 d pIter0).2 else 0)
    else u32 (getVarint32 d pIter0).2
  let pIter1 := if pPage.intKey ≠ 0 then
      (if pPage.hasData ≠ 0 then pIter0 + u8 (getVarint32 d pIter0).1 else pIter0)
    else pIter0 + u8 (getVarint32 d pIter0).1
  let pIter := if pPage.intKey ≠ 0 then pIter1 + skipVarint d pIter1 9 0 else pIter1
  let nSize1 := if nSize0 > pPage.maxLocal then
      (let s := u32 (pPage.minLocal + u32sub nSize0 pPage.minLocal % u32sub pPage.pBt.usableSize 4)
       u32 ((if s > pPage.maxLocal then u32 pPage.minLocal else s) + 4))
    else nSize0
  let nSize2 := u32 (nSize1 + u32 (pIter - pCell))
  u16 (if nSize2 < 4 then 4 else nSize2)

/-- The cell loop of `defragmentPage`: `k` cells remain, `i` is the index of the next one.
Returns the result code, the page image and `cbrk`. -/
def defragmentLoop (pPage : MemPage) (temp : Bytes) (usableSize iCellFirst iCellLast : Nat) :
    Nat → Nat → Bytes → Nat → Nat × Bytes × Nat
  | 0, _, data, cbrk => (SQLITE_OK, data, cbrk)
  | k + 1, i, data, cbrk =>
    let pAddr := pPage.cellOffset + i * 2
    let pc := get2byte data pAddr
    if pc < iCellFirst ∨ pc > iCellLast then (SQLITE_CORRUPT, data, cbrk)
    else
      let size := cellSizePtr pPage temp pc
      if cbrk < iCellFirst + size ∨ pc + size > usableSize then (SQLITE_CORRUPT, data, cbrk - size)
      else
        defragmentLoop pPage temp usableSize iCellFirst iCellLast k (i + 1)
          (put2byte (memcpy data (cbrk - size) temp pc size) pAddr (cbrk - size)) (cbrk - size)

/-- `defragmentPage` (default build).  `temp` is the pager's scratch page
(`sqlite3PagerTempSpace`).  Returns the result code, the page and the scratch page.
The C test `cbrk - size < iCellFirst` on `int`s is written `cbrk < iCellFirst + size`. -/
def defragmentPage (pPage : MemPage) (temp : Bytes) : Nat × MemPage × Bytes :=
  let data := pPage.aData
  let hdr := pPage.hdrOffset
  let cellOffset := pPage.cellOffset
  let nCell := pPage.nCell
  let usableSize := pPage.pBt.usableSize
  let cbrk0 := get2byte data (hdr + 5)
  let temp := memcpy temp cbrk0 data cbrk0 (usableSize - cbrk0)
  let iCellFirst := cellOffset + 2 * nCell
  let iCellLast := usableSize - 4
  match defragmentLoop pPage temp usableSize iCellFirst iCellLast nCell 0 data usableSize with
  | (rc, data, cbrk) =>
    if rc ≠ 0 then (rc, { pPage with aData := data }, temp)
    else
      let data := put2byte data (hdr + 5) cbrk
      let data := setByte data (hdr + 1) 0
      let data := setByte data (hdr + 2) 0
      let data := setByte data (hdr + 7) 0
      let data := memset0 data iCellFirst (cbrk - iCellFirst)
      if cbrk - iCellFirst ≠ pPage.nFree then (SQLITE_CORRUPT, { pPage with aData := data }, temp)
      else (SQLITE_OK, { pPage with aData := data }, temp)

/-- Outcome of the freeblock search of `allocateSpace`. -/
inductive AllocSearch where
  | corrupt : AllocSearch
  | found : Bytes → Nat → AllocSearch
  | notFound : AllocSearch

/-- The freeblock search loop of `allocateSpace`,
`for(addr=hdr+1; (pc = get2byte(&data[addr]))>0; addr=pc)`; `none` when the fuel runs out. -/
def allocateSpaceSearch (data : Bytes) (hdr nFrag usableSize nByte : Nat) :
    Nat → Nat → Option AllocSearch
  | 0, _ => none
  | fuel + 1, addr =>
    if get2byte data addr > 0 then
      if get2byte data addr > usableSize - 4 ∨ get2byte data addr < addr + 4 then
        some AllocSearch.corrupt
      else if get2byte data (get2byte data addr + 2) ≥ nByte then
        if get2byte data (get2byte data addr + 2) - nByte < 4 then
          some (AllocSearch.found
            (setByte (memcpy data addr data (get2byte data addr) 2) (hdr + 7)
              (nFrag + (get2byte data (get2byte data addr + 2) - nByte)))
            (get2byte data addr + (get2byte data (get2byte data addr + 2) - nByte)))
        else if get2byte data (get2byte data addr + 2) + get2byte data addr > usableSize then
          some AllocSearch.corrupt
        else
          some (AllocSearch.found
            (put2byte data (get2byte data addr + 2) (get2byte data (get2byte data addr + 2) - nByte))
            (get2byte data addr + (get2byte data (get2byte data addr + 2) - nByte)))
      else allocateSpaceSearch data hdr nFrag usableSize nByte fuel (get2byte data addr)
    else some AllocSearch.notFound

/-- The tail of `allocateSpace` ("Check to make sure there is enough space in the gap to
satisfy the allocation.  If not, defragment."), then carve `nByte` bytes off the gap. -/
def allocateSpaceGap (pPage : MemPage) (nByte gap : Nat) (temp : Bytes) : Nat × MemPage × Nat :=
  let hdr := pPage.hdrOffset
  if gap + 2 + nByte > get2byteNotZero pPage.aData (hdr + 5) then
    match defragmentPage pPage temp with
    | (rc, pg, _) =>
      if rc ≠ 0 then (rc, pg, 0)
      else
        (SQLITE_OK,
          { pg with aData := put2byte pg.aData (hdr + 5) (get2byteNotZero pg.aData (hdr + 5) - nByte) },
          get2byteNotZero pg.aData (hdr + 5) - nByte)
  else
    (SQLITE_OK,
      { pPage with
        aData := put2byte pPage.aData (hdr + 5) (get2byteNotZero pPage.aData (hdr + 5) - nByte) },
      get2byteNotZero pPage.aData (hdr + 5) - nByte)

/-- `allocateSpace`: reserve `nByte` bytes on the page.  Returns the result code, the page and
the offset `*pIdx` of the reserved bytes; `none` when the search loop runs out of fuel.
The caller guarantees `nByte <= nFree` (an `assert`). -/
def allocateSpace (fuel : Nat) (pPage : MemPage) (nByte : Nat) (temp : Bytes) :
    Option (Nat × MemPage × Nat) :=
  let hdr := pPage.hdrOffset
  let data := pPage.aData
  let usableSize := pPage.pBt.usableSize
  let nFrag := getByte data (hdr + 7)
  let gap := pPage.cellOffset + 2 * pPage.nCell
  let top := get2byteNotZero data (hdr + 5)
  if gap > top then some (SQLITE_CORRUPT, pPage, 0)
  else if nFrag ≥ 60 then
    match defragmentPage pPage temp with
    | (rc, pg, temp1) =>
      if rc ≠ 0 then some (rc, pg, 0) else some (allocateSpaceGap pg nByte gap temp1)
  else if gap + 2 ≤ top then
    match allocateSpaceSearch data hdr nFrag usableSize nByte fuel (hdr + 1) with
    | none => none
    | some AllocSearch.corrupt => some (SQLITE_CORRUPT, pPage, 0)
    | some (AllocSearch.found data1 idx) => some (SQLITE_OK, { pPage with aData := data1 }, idx)
    | some AllocSearch.notFound => some (allocateSpaceGap pPage nByte gap temp)
  else some (allocateSpaceGap pPage nByte gap temp)

/-- First loop of `freeSpace`: find the link `addr` after which the released block goes.
`none`: out of fuel; `some none`: corrupt; `some (addr, pbegin)` otherwise. -/
def freeSpaceFind (data : Bytes) (start : Nat) : Nat → Nat → Option (Option (Nat × Nat))
  | 0, _ => none
  | fuel + 1, addr =>
    if get2byte data addr < start ∧ get2byte data addr > 0 then
      if get2byte data addr < addr + 4 then some none
      else freeSpaceFind data start fuel (get2byte data addr)
    else some (some (addr, get2byte data addr))

/-- Second loop of `freeSpace` ("Coalesce adjacent free blocks").  Returns the result code
and the page image; `none` when the fuel runs out. -/
def freeSpaceCoalesce (hdr : Nat) : Nat → Bytes → Nat → Option (Nat × Bytes)
  | 0, _, _ => none
  | fuel + 1, data, addr =>
    let pbegin := get2byte data addr
    if pbegin > 0 then
      let pnext := get2byte data pbegin
      let psize := get2byte data (pbegin + 2)
      if pbegin + psize + 3 ≥ pnext ∧ pnext > 0 then
        if pnext < pbegin + psize ∨ pnext - (pbegin + psize) > getByte data (hdr + 7) then
          some (SQLITE_CORRUPT, data)
        else
          let data1 := setByte data (hdr + 7) (getByte data (hdr + 7) - (pnext - (pbegin + psize)))
          let data2 := put2byte data1 pbegin (get2byte data1 pnext)
          let data3 := put2byte data2 (pbegin + 2) (pnext + get2byte data2 (pnext + 2) - pbegin)
          freeSpaceCoalesce hdr fuel data3 addr
      else freeSpaceCoalesce hdr fuel data pbegin
    else some (SQLITE_OK, data)

/-- `freeSpace`: return the bytes `[start, start+size)` of the page to the freeblock list.
`none` when a loop runs out of fuel. -/
def freeSpace (fuel : Nat) (pPage : MemPage) (start size : Nat) : Option (Nat × MemPage) :=
  let hdr := pPage.hdrOffset
  let data := if pPage.pBt.secureDelete then memset0 pPage.aData start size else pPage.aData
  let iLast := pPage.pBt.usableSize - 4
  match freeSpaceFind data start fuel (hdr + 1) with
  | none => none
  | some none => some (SQLITE_CORRUPT, { pPage with aData := data })
  | some (some (addr, pbegin)) =>
    if pbegin > iLast then some (SQLITE_CORRUPT, { pPage with aData := data })
    else
      let data := put2byte data addr start
      let data := put2byte data start pbegin
      let data := put2byte data (start + 2) size
      let nFree := u16 (pPage.nFree + u16 size)
      match freeSpaceCoalesce hdr fuel data (hdr + 1) with
      | none => none
      | some (rc, data) =>
        if rc ≠ 0 then some (rc, { pPage with aData := data, nFree := nFree })
        else if getByte data (hdr + 1) = getByte data (hdr + 5) ∧
            getByte data (hdr + 2) = getByte data (hdr + 6) then
          let pbegin := get2byte data (hdr + 1)
          let data1 := memcpy data (hdr + 1) data pbegin 2
          let top := get2byte data1 (hdr + 5) + get2byte data1 (pbegin + 2)
          some (SQLITE_OK, { pPage with aData := put2byte data1 (hdr + 5) top, nFree := nFree })
        else some (SQLITE_OK, { pPage with aData := data, nFree := nFree })

/-- The pointer-shifting loop of `dropCell`, `while( ptr<endPtr ){ *(u16*)ptr = *(u16*)&ptr[2]; ptr += 2; }`,
run `k` times from `ptr`. -/
def shiftPtrsDown (data : Bytes) : Nat → Nat → Bytes
  | 0, _ => data
  | k + 1, ptr => shiftPtrsDown (memcpy data ptr data (ptr + 2) 2) k (ptr + 2)

/-- The pointer-shifting loop of `insertCell`, `while( ptr>endPtr ){ *(u16*)ptr = *(u16*)&ptr[-2]; ptr -= 2; }`,
run `k` times from `ptr`. -/
def shiftPtrsUp (data : Bytes) : Nat → Nat → Bytes
  | 0, _ => data
  | k + 1, ptr => shiftPtrsUp (memcpy data ptr data (ptr - 2) 2) k (ptr - 2)

/-- `dropCell`: remove the `idx`-th cell (of `sz` bytes) from the page.  `rc` is `*pRC` on
entry; the result is `*pRC` on return and the page.  `none` when `freeSpace` runs out of fuel. -/
def dropCell (fuel : Nat) (pPage : MemPage) (idx sz rc : Nat) : Option (Nat × MemPage) :=
  if rc ≠ 0 then some (rc, pPage)
  else
    let data := pPage.aData
    let ptr := pPage.cellOffset + 2 * idx
    let pc := get2byte data ptr
    let hdr := pPage.hdrOffset
    if pc < get2byte data (hdr + 5) ∨ pc + sz > pPage.pBt.usableSize then
      some (SQLITE_CORRUPT, pPage)
    else
      match freeSpace fuel pPage pc sz with
      | none => none
      | some (rc1, pg) =>
        if rc1 ≠ 0 then some (rc1, pg)
        else
          let data := shiftPtrsDown pg.aData (pg.nCell - 1 - idx) ptr
          let nCell := u16sub pg.nCell 1
          some (SQLITE_OK,
            { pg with aData := put2byte data (hdr + 3) nCell, nCell := nCell, nFree := u16 (pg.nFree + 2) })

/-- `insertCell`: insert the cell `pCell[0..sz)` as the `i`-th cell of the page.  `rc` is `*pRC`
on entry; `rcWrite` is what `sqlite3PagerWrite` returns and `rcPtrmap` what the pointer-map
update of `ptrmapPutOvflPtr` leaves in `*pRC` (both belong to the pager); `temp` is the
pager's scratch page.  The result is `*pRC` on return and the page. -/
def insertCell (fuel : Nat) (pPage : MemPage) (i : Nat) (pCell : Bytes) (sz : Nat)
    (pTemp : Option Bytes) (iChild rc rcWrite rcPtrmap : Nat) (temp : Bytes) :
    Option (Nat × MemPage) :=
  let nSkip := if iChild ≠ 0 then 4 else 0
  if rc ≠ 0 then some (rc, pPage)
  else if pPage.nOverflow ≠ 0 ∨ sz + 2 > pPage.nFree then
    let cell := match pTemp with
      | some t => memcpy t nSkip pCell nSkip (sz - nSkip)
      | none => pCell
    let cell := if iChild ≠ 0 then put4byte cell 0 iChild else cell
    some (rc, { pPage with
      nOverflow := pPage.nOverflow + 1
      apOvfl := pPage.apOvfl ++ [cell]
      aiOvfl := pPage.aiOvfl ++ [u16 i] })
  else if rcWrite ≠ 0 then some (rcWrite, pPage)
  else
    let cellOffset := pPage.cellOffset
    let end_ := cellOffset + 2 * pPage.nCell
    let ins := cellOffset + 2 * i
    match allocateSpace fuel pPage sz temp with
    | none => none
    | some (rc1, pg, idx) =>
      if rc1 ≠ 0 then some (rc1, pg)
      else
        let nCell := u16 (pg.nCell + 1)
        let nFree := u16sub pg.nFree (u16 (2 + sz))
        let data := memcpy pg.aData (idx + nSkip) pCell nSkip (sz - nSkip)
        let data := if iChild ≠ 0 then put4byte data idx iChild else data
        let data := shiftPtrsUp data (pPage.nCell - i) end_
        let data := put2byte data ins idx
        let data := put2byte data (pg.hdrOffset + 3) nCell
        let pg := { pg with aData := data, nCell := nCell, nFree := nFree }
        if pg.pBt.autoVacuum ∧ (btreeParseCellPtr pg pCell 0).iOverflow ≠ 0 then some (rcPtrmap, pg)
        else some (SQLITE_OK, pg)

end Btree

namespace Btree

/-! ## Page invariants -/

/-- The three summands of the free-byte count kept in the page image: fragmented bytes,
start of the cell content area, and total size of the freeblocks on the chain. -/
def pageFreeSum (d : Bytes) (hdr : Nat) : Nat :=
  getByte d (hdr + 7) + get2byteNotZero d (hdr + 5) + freeblockTotal d (pageFreeblocks d hdr)

/-- Byte conservation for a page: the tracked `nFree` equals fragmented bytes + content-area
start + total freeblock size - (cellOffset + 2*nCell), the subtraction being exact. -/
def freeBytesTracked (p : MemPage) : Prop :=
  p.nFree + (p.cellOffset + 2 * p.nCell) = pageFreeSum p.aData p.hdrOffset

instance (p : MemPage) : Decidable (freeBytesTracked p) := by
  unfold freeBytesTracked; infer_instance

/-- `IsChain d pc L`: following the next pointers from `pc` visits exactly the blocks `L` and
then reaches 0. -/
def IsChain (d : Bytes) : Nat → List Nat → Prop
  | pc, [] => pc = 0
  | pc, b :: rest => pc = b ∧ b ≠ 0 ∧ IsChain d (get2byte d b) rest

/-- `chainSep g d usable lo L`: the blocks `L` lie in `[lo, usable)` in ascending order, each is
at least 4 bytes long, and each starts at least `g` bytes after the end of its predecessor. -/
def chainSep (g : Nat) (d : Bytes) (usable : Nat) : Nat → List Nat → Prop
  | _, [] => True
  | lo, b :: rest =>
    lo ≤ b ∧ 4 ≤ get2byte d (b + 2) ∧ b + get2byte d (b + 2) ≤ usable ∧
    chainSep g d usable (b + get2byte d (b + 2) + g) rest

/-- Decision procedure for `chainSep`. -/
def decChainSep (g : Nat) (d : Bytes) (usable : Nat) :
    (lo : Nat) → (L : List Nat) → Decidable (chainSep g d usable lo L)
  | _, [] => isTrue True.intro
  | lo, b :: rest =>
    match decChainSep g d usable (b + get2byte d (b + 2) + g) rest with
    | isTrue h =>
      if h1 : lo ≤ b ∧ 4 ≤ get2byte d (b + 2) ∧ b + get2byte d (b + 2) ≤ usable then
        isTrue ⟨h1.1, h1.2.1, h1.2.2, h⟩
      else isFalse (fun hh => h1 ⟨hh.1, hh.2.1, hh.2.2.1⟩)
    | isFalse h => isFalse (fun hh => h hh.2.2.2)

instance (g : Nat) (d : Bytes) (usable lo : Nat) (L : List Nat) :
    Decidable (chainSep g d usable lo L) := decChainSep g d usable lo L

/-- Offset of the `i`-th cell according to the cell-pointer array. -/
def cellPtr (p : MemPage) (i : Nat) : Nat := get2byte p.aData (p.cellOffset + 2 * i)

/-- Size of the `i`-th cell of the page. -/
def cellSz (p : MemPage) (i : Nat) : Nat := cellSizePtr p p.aData (cellPtr p i)

/-- A well-formed page without overflow cells: the header fields cached in `MemPage` match the
page image; the cell-pointer array ends at or before the content area; the freeblocks form
an ascending chain inside the content area, each at least 4 bytes long and more than 3
bytes after its predecessor; every cell lies inside the content area, is at least 4
bytes long and overlaps no freeblock and no other cell; and cells, freeblocks and
fragmented bytes together fill the content area exactly. -/
def WellFormedPage (p : MemPage) : Prop :=
  usableOk p.pBt.usableSize ∧
  p.hdrOffset = (if p.pgno = 1 then 100 else 0) ∧
  p.leaf ≤ 1 ∧
  p.cellOffset = p.hdrOffset + 12 - 4 * p.leaf ∧
  p.nCell = get2byte p.aData (p.hdrOffset + 3) ∧
  p.cellOffset + 2 * p.nCell ≤ get2byteNotZero p.aData (p.hdrOffset + 5) ∧
  get2byteNotZero p.aData (p.hdrOffset + 5) ≤ p.pBt.usableSize ∧
  chainSep 4 p.aData p.pBt.usableSize (get2byteNotZero p.aData (p.hdrOffset + 5))
    (pageFreeblocks p.aData p.hdrOffset) ∧
  (∀ i, i < p.nCell →
    get2byteNotZero p.aData (p.hdrOffset + 5) ≤ cellPtr p i ∧ 4 ≤ cellSz p i ∧
    cellPtr p i + cellSz p i ≤ p.pBt.usableSize ∧
    (∀ b ∈ pageFreeblocks p.aData p.hdrOffset,
      cellPtr p i + cellSz p i ≤ b ∨ b + get2byte p.aData (b + 2) ≤ cellPtr p i) ∧
    (∀ j, j < i → cellPtr p i + cellSz p i ≤ cellPtr p j ∨ cellPtr p j + cellSz p j ≤ cellPtr p i)) ∧
  getByte p.aData (p.hdrOffset + 7) + freeblockTotal p.aData (pageFreeblocks p.aData p.hdrOffset) +
    ((List.range p.nCell).map (cellSz p)).sum + get2byteNotZero p.aData (p.hdrOffset + 5) =
    p.pBt.usableSize

instance (p : MemPage) : Decidable (WellFormedPage p) := by
  unfold WellFormedPage; infer_instance

/-- The three stores of `freeSpace` that link the released block `[start, start+size)` into the
chain after the link at `addr`. -/
def linkFreeblock (d : Bytes) (addr start pbegin size : Nat) : Bytes :=
  put2byte (put2byte (put2byte d addr start) start pbegin) (start + 2) size

/-- The stores of one merge step of the coalescing loop of `freeSpace`: the block at `pbegin`
absorbs its successor at `pnext` together with the `frag` bytes between them. -/
def mergeFreeblocks (d : Bytes) (hdr pbegin pnext : Nat) : Bytes :=
  let psize := get2byte d (pbegin + 2)
  let data1 := setByte d (hdr + 7) (getByte d (hdr + 7) - (pnext - (pbegin + psize)))
  let data2 := put2byte data1 pbegin (get2byte data1 pnext)
  put2byte data2 (pbegin + 2) (pnext + get2byte data2 (pnext + 2) - pbegin)

/-- Post-condition shared by every successful path of `allocateSpace`: the cached header
fields are unchanged, the chain is still ascending above the (grown) cell-pointer array,
the reserved bytes `[idx, idx+nByte)` lie between the pointer array and the end of the usable
area and touch the header of no remaining freeblock, and the free-byte sum has shrunk by
`nByte`. -/
def AllocPost (p : MemPage) (nByte : Nat) (r : Nat × MemPage × Nat) : Prop :=
  r.2.1.nFree = p.nFree ∧ r.2.1.nCell = p.nCell ∧ r.2.1.cellOffset = p.cellOffset ∧
  r.2.1.hdrOffset = p.hdrOffset ∧ r.2.1.pBt = p.pBt ∧ r.2.1.nOverflow = p.nOverflow ∧
  (∃ L', IsChain r.2.1.aData (get2byte r.2.1.aData (p.hdrOffset + 1)) L' ∧
    chainSep 0 r.2.1.aData p.pBt.usableSize (p.cellOffset + 2 * p.nCell + 2) L' ∧
    (∀ b ∈ L', b + 4 ≤ r.2.2 ∨ r.2.2 + nByte ≤ b)) ∧
  pageFreeSum r.2.1.aData p.hdrOffset + nByte = pageFreeSum p.aData p.hdrOffset ∧
  p.cellOffset + 2 * p.nCell + 2 ≤ r.2.2 ∧ r.2.2 + nByte ≤ p.pBt.usableSize

/-- The last step of `allocateSpace`: lower the content-area start by `nByte` and return it. -/
def gapCarve (pg : MemPage) (hdr nByte : Nat) : Nat × MemPage × Nat :=
  (SQLITE_OK,
    { pg with aData := put2byte pg.aData (hdr + 5) (get2byteNotZero pg.aData (hdr + 5) - nByte) },
    get2byteNotZero pg.aData (hdr + 5) - nByte)

end Btree

namespace Btree

/-- A 1024-byte table-leaf page image: two cells (24 bytes at 1000, 10 bytes at 940), one
48-byte freeblock at 950 and 2 fragmented bytes. -/
def exLeafData : Bytes := mkBytes [(0, 13), (1, 3), (2, 182), (3, 0), (4, 2), (5, 3), (6, 172),
    (7, 2), (8, 3), (9, 232), (10, 3), (11, 172), (940, 8), (941, 9), (950, 0), (951, 0),
    (952, 0), (953, 48), (1000, 22), (1001, 5)]

/-- The page `exLeafData` as page 2 of a 1024-byte database, after `btreeInitPage`. -/
def exLeafPage : MemPage :=
  match btreeInitPage 1024 (blankPage exBt1024 exLeafData 2) with
  | some r => r.2
  | none => blankPage exBt1024 exLeafData 2

/-- A 4-byte table-leaf cell: payload size 2, key 7, payload bytes 0xAA 0xBB. -/
def exSmallCell : Bytes := mkBytes [(0, 2), (1, 7), (2, 170), (3, 187)]

end Btree

namespace Btree

/-! ## Page store, cursors and `sqlite3BtreeMovetoUnpacked` -/

/-- Modelled from the spec: the pager as seen by the read path of the B-tree layer.  `nPage`
is `BtShared.nPage`, the size of the database in pages; `page pgno` is the image that
`sqlite3PagerAcquire` (absent `pager.c`) hands out for page `pgno`. -/
structure PageStore where
  nPage : Nat
  page : Nat → Bytes

/-- Modelled from the spec: cursor state `CURSOR_INVALID` of the absent `btreeInt.h`. -/
def CURSOR_INVALID : Nat := 0

/-- Modelled from the spec: cursor state `CURSOR_VALID` of the absent `btreeInt.h`. -/
def CURSOR_VALID : Nat := 1

/-- Modelled from the spec: cursor state `CURSOR_REQUIRESEEK` of the absent `btreeInt.h`. -/
def CURSOR_REQUIRESEEK : Nat := 2

/-- Modelled from the spec: cursor state `CURSOR_FAULT` of the absent `btreeInt.h`. -/
def CURSOR_FAULT : Nat := 3

/-- Modelled from the spec: `BTCURSOR_MAX_DEPTH` of the absent `btreeInt.h`, the length of the
cursor's page path ("20 levels"). -/
def BTCURSOR_MAX_DEPTH : Int := 20

/-- The fields of `BtCursor` that the seek, save/restore and payload paths read or write.
`hasKeyInfo` stands for `pKeyInfo != 0`; `nKey` and `pKey` hold the saved position (`pKey`
is `none` for a null pointer); `skipNext` is the `int` that holds the error code in the
fault state; `apPage` and `aiIdx` are the path arrays, `iPage` is -1 while no page is held;
`aOverflow` is the overflow page-list cache (`none` for a null pointer). -/
structure BtCursor where
  pBt : BtShared
  pgnoRoot : Nat
  hasKeyInfo : Bool
  info : CellInfo
  nKey : Int
  pKey : Option Bytes
  eState : Nat
  skipNext : Int
  validNKey : Bool
  atLast : Bool
  iPage : Int
  apPage : Nat → MemPage
  aiIdx : Nat → Nat
  isIncrblobHandle : Bool
  aOverflow : Option (Nat → Nat)

/-- Array store `a[i] = v`. -/
def setAt {α : Type} (a : Nat → α) (i : Nat) (v : α) : Nat → α :=
  fun j => if j = i then v else a j

/-- `btreePageFromDbPage` over a page image fresh from the pager (its `MemPage` extra is
still zeroed). -/
def btreePageFromDbPage (aData : Bytes) (pgno : Nat) (pBt : BtShared) : MemPage :=
  blankPage pBt aData pgno

/-- `btreeGetPage` with `noContent = 0`.  Modelled from the spec: `sqlite3PagerAcquire`
reports `SQLITE_CORRUPT` for page 0 and otherwise succeeds.  The second component is the
value left in `*ppPage` (`old` if it is not written). -/
def btreeGetPage (pBt : BtShared) (store : PageStore) (pgno : Nat) (old : MemPage) :
    Nat × MemPage :=
  if pgno = 0 then (SQLITE_CORRUPT, old)
  else (SQLITE_OK, btreePageFromDbPage (store.page pgno) pgno pBt)

/-- `getAndInitPage`: result code and the value left in `*ppPage`. -/
def getAndInitPage (fuel : Nat) (pBt : BtShared) (store : PageStore) (pgno : Nat)
    (old : MemPage) : Option (Nat × MemPage) :=
  if pgno > store.nPage then some (SQLITE_CORRUPT, old)
  else
    if (btreeGetPage pBt store pgno old).1 = SQLITE_OK then
      btreeInitPage fuel (btreeGetPage pBt store pgno old).2
    else some ((btreeGetPage pBt store pgno old).1, (btreeGetPage pBt store pgno old).2)

/-- Macro `findCell(P, I)`: offset of cell `I` of the page. -/
def findCell (pPage : MemPage) (iCell : Nat) : Nat :=
  pPage.maskPage &&& get2byte pPage.aData (pPage.cellOffset + 2 * iCell)

/-- `moveToChild`. -/
def moveToChild (fuel : Nat) (store : PageStore) (pCur : BtCursor) (newPgno : Nat) :
    Option (Nat × BtCursor) :=
  let i := pCur.iPage
  if pCur.iPage ≥ BTCURSOR_MAX_DEPTH - 1 then some (SQLITE_CORRUPT, pCur)
  else
    match getAndInitPage fuel pCur.pBt store newPgno (pCur.apPage (i + 1).toNat) with
    | none => none
    | some (rc, pNewPage) =>
      if rc ≠ 0 then some (rc, pCur)
      else
        let pCur1 := { pCur with
          apPage := setAt pCur.apPage (i + 1).toNat pNewPage
          aiIdx := setAt pCur.aiIdx (i + 1).toNat 0
          iPage := pCur.iPage + 1
          info := { pCur.info with nSize := 0 }
          validNKey := false }
        if pNewPage.nCell < 1 ∨ pNewPage.intKey ≠ (pCur1.apPage i.toNat).intKey then
          some (SQLITE_CORRUPT, pCur1)
        else some (SQLITE_OK, pCur1)

/-- `sqlite3BtreeClearCursor`. -/
def sqlite3BtreeClearCursor (pCur : BtCursor) : BtCursor :=
  { pCur with pKey := none, eState := CURSOR_INVALID }

/-- The part of `moveToRoot` after the root page is in `apPage[0]`. -/
def moveToRootTail (fuel : Nat) (store : PageStore) (pCur : BtCursor) :
    Option (Nat × BtCursor) :=
  let pRoot := pCur.apPage 0
  let pCur := { pCur with
    aiIdx := setAt pCur.aiIdx 0 0
    info := { pCur.info with nSize := 0 }
    atLast := false
    validNKey := false }
  if pRoot.nCell = 0 ∧ pRoot.leaf = 0 then
    if pRoot.pgno ≠ 1 then some (SQLITE_CORRUPT, pCur)
    else
      moveToChild fuel store { pCur with eState := CURSOR_VALID }
        (get4byte pRoot.aData (pRoot.hdrOffset + 8))
  else
    some (SQLITE_OK,
      { pCur with eState := if pRoot.nCell > 0 then CURSOR_VALID else CURSOR_INVALID })

/-- `moveToRoot`.  In the fault state the result code is the error code kept in
`skipNext`. -/
def moveToRoot (fuel : Nat) (store : PageStore) (pCur : BtCursor) : Option (Nat × BtCursor) :=
  if pCur.eState ≥ CURSOR_REQUIRESEEK ∧ pCur.eState = CURSOR_FAULT then
    some (pCur.skipNext.toNat, pCur)
  else
    let pCur := if pCur.eState ≥ CURSOR_REQUIRESEEK then sqlite3BtreeClearCursor pCur else pCur
    if pCur.iPage ≥ 0 then moveToRootTail fuel store { pCur with iPage := 0 }
    else if pCur.pgnoRoot = 0 then some (SQLITE_OK, { pCur with eState := CURSOR_INVALID })
    else
      match getAndInitPage fuel pCur.pBt store pCur.pgnoRoot (pCur.apPage 0) with
      | none => none
      | some (rc, pg) =>
        if rc ≠ SQLITE_OK then
          some (rc, { pCur with apPage := setAt pCur.apPage 0 pg, eState := CURSOR_INVALID })
        else
          let pCur := { pCur with apPage := setAt pCur.apPage 0 pg, iPage := 0 }
          if (if pCur.hasKeyInfo then 0 else 1) ≠ pg.intKey then some (SQLITE_CORRUPT, pCur)
          else moveToRootTail fuel store pCur

/-- How the binary search of `sqlite3BtreeMovetoUnpacked` over one page ends: by a jump to
`moveto_finish` (result code, the value written to `*pRes` if any) or by leaving the loop
with `lwr` and the last comparison `c`. -/
inductive PageSearch where
  | finish (rc : Nat) (res : Option Int) (pCur : BtCursor)
  | done (lwr : Int) (c : Int) (pCur : BtCursor)

/-- The inner `for(;;)` of `sqlite3BtreeMovetoUnpacked` on page `pPage`.  The comparison of
an index key (`sqlite3VdbeRecordCompare` of the absent `vdbeaux.c`, reached only with
`pIdxKey != 0`) is the oracle `idxCmp page idx`, giving a result code and `c`. -/
def searchPage (pPage : MemPage) (idxCmp : MemPage → Nat → Nat × Int) (intKey : Int) :
    Nat → Int → Int → Int → BtCursor → Option PageSearch
  | 0, _, _, _, _ => none
  | fuel + 1, lwr, upr, idx, pCur =>
    let pCur := { pCur with info := { pCur.info with nSize := 0 } }
    let pCell := findCell pPage idx.toNat + pPage.childPtrSize
    let cmp : Nat × Int × BtCursor :=
      if pPage.intKey ≠ 0 then
        let pCell := if pPage.hasData ≠ 0 then pCell + (getVarint32 pPage.aData pCell).1 else pCell
        let nCellKey := toInt64 (getVarint pPage.aData pCell).2
        (SQLITE_OK, if nCellKey = intKey then 0 else if nCellKey < intKey then -1 else 1,
          { pCur with validNKey := true, info := { pCur.info with nKey := nCellKey } })
      else ((idxCmp pPage idx.toNat).1, (idxCmp pPage idx.toNat).2, pCur)
    let c := cmp.2.1
    let pCur := cmp.2.2
    if cmp.1 ≠ 0 then some (PageSearch.finish cmp.1 none pCur)
    else if c = 0 then
      if pPage.intKey ≠ 0 ∧ pPage.leaf = 0 then some (PageSearch.done idx c pCur)
      else some (PageSearch.finish SQLITE_OK (some 0) pCur)
    else
      let lwr := if c < 0 then idx + 1 else lwr
      let upr := if c < 0 then upr else idx - 1
      if lwr > upr then some (PageSearch.done lwr c pCur)
      else
        searchPage pPage idxCmp intKey fuel lwr upr ((lwr + upr) / 2)
          { pCur with aiIdx := setAt pCur.aiIdx pCur.iPage.toNat (u16i ((lwr + upr) / 2)) }

/-- The outer `for(;;)` of `sqlite3BtreeMovetoUnpacked`: search the current page, then stop
or descend.  `res` is the value of `*pRes`. -/
def movetoLoop (store : PageStore) (idxCmp : MemPage → Nat → Nat × Int) (intKey : Int)
    (biasRight : Bool) : Nat → BtCursor → Int → Option (Nat × Int × BtCursor)
  | 0, _, _ => none
  | fuel + 1, pCur, res =>
    let pPage := pCur.apPage pCur.iPage.toNat
    let upr : Int := (pPage.nCell : Int) - 1
    let idx : Int := if biasRight then upr else (upr + 0) / 2
    let pCur := { pCur with aiIdx := setAt pCur.aiIdx pCur.iPage.toNat (u16i idx) }
    match searchPage pPage idxCmp intKey (fuel + 1) 0 upr idx pCur with
    | none => none
    | some (PageSearch.finish rc r pCur) => some (rc, r.getD res, pCur)
    | some (PageSearch.done lwr c pCur) =>
      let chldPg :=
        if pPage.leaf ≠ 0 then 0
        else if lwr ≥ pPage.nCell then get4byte pPage.aData (pPage.hdrOffset + 8)
        else get4byte pPage.aData (findCell pPage lwr.toNat)
      if chldPg = 0 then some (SQLITE_OK, c, pCur)
      else
        let pCur := { pCur with
          aiIdx := setAt pCur.aiIdx pCur.iPage.toNat (u16i lwr)
          info := { pCur.info with nSize := 0 }
          validNKey := false }
        match moveToChild (fuel + 1) store pCur chldPg with
        | none => none
        | some (rc, pCur) =>
          if rc ≠ 0 then some (rc, res, pCur)
          else movetoLoop store idxCmp intKey biasRight fuel pCur res

/-- `sqlite3BtreeMovetoUnpacked`: result code, `*pRes` (initially `res`) and the cursor. -/
def sqlite3BtreeMovetoUnpacked (fuel : Nat) (store : PageStore) (pCur : BtCursor)
    (idxCmp : MemPage → Nat → Nat × Int) (intKey : Int) (biasRight : Bool) (res : Int) :
    Option (Nat × Int × BtCursor) :=
  if pCur.eState = CURSOR_VALID ∧ pCur.validNKey = true ∧ (pCur.apPage 0).intKey ≠ 0 ∧
      pCur.info.nKey = intKey then some (SQLITE_OK, 0, pCur)
  else if pCur.eState = CURSOR_VALID ∧ pCur.validNKey = true ∧ (pCur.apPage 0).intKey ≠ 0 ∧
      pCur.atLast = true ∧ pCur.info.nKey < intKey then some (SQLITE_OK, -1, pCur)
  else
    match moveToRoot fuel store pCur with
    | none => none
    | some (rc, pCur) =>
      if rc ≠ 0 then some (rc, res, pCur)
      else if pCur.eState = CURSOR_INVALID then some (SQLITE_OK, -1, pCur)
      else movetoLoop store idxCmp intKey biasRight fuel pCur res

end Btree

namespace Btree

/-! ## Table B-trees over a page store -/

/-- The page `pgno` as `getAndInitPage` delivers it from a cold cache, if it reports
`SQLITE_OK`. -/
def initPage (pBt : BtShared) (store : PageStore) (pgno : Nat) : Option MemPage :=
  match getAndInitPage pBt.usableSize pBt store pgno (blankPage pBt (store.page 0) 0) with
  | some (rc, pg) => if rc = SQLITE_OK then some pg else none
  | none => none

/-- The integer key of cell `i` of a table page, read as the seek does: skip the child
pointer and, on a page with data, the payload-size varint. -/
def cellKey (pg : MemPage) (i : Nat) : Int :=
  toInt64 (getVarint pg.aData
    (if pg.hasData ≠ 0 then
      findCell pg i + pg.childPtrSize +
        (getVarint32 pg.aData (findCell pg i + pg.childPtrSize)).1
     else findCell pg i + pg.childPtrSize)).2

/-- The `i`-th child of an interior page: the left child of cell `i`, or the right child
from the page header for `i = nCell`. -/
def childPgno (pg : MemPage) (i : Nat) : Nat :=
  if i ≥ pg.nCell then get4byte pg.aData (pg.hdrOffset + 8)
  else get4byte pg.aData (findCell pg i)

/-- Smallest 64-bit signed integer. -/
def I64_MIN : Int := -9223372036854775808

/-- Largest 64-bit signed integer. -/
def I64_MAX : Int := 9223372036854775807

/-- A table B-tree of at most `d` levels rooted at page `pgno`, all keys in `(lo, hi]`:
every page initialises without error, is a table page and holds at least one cell; cell
keys are strictly ascending; the keys below child `i` of an interior page lie above the
key of cell `i - 1` and at or below the key of cell `i`. -/
def TableTree (pBt : BtShared) (store : PageStore) : Nat → Nat → Int → Int → Prop
  | 0, _, _, _ => False
  | d + 1, pgno, lo, hi =>
    ∃ pg, initPage pBt store pgno = some pg ∧ pg.intKey ≠ 0 ∧ 1 ≤ pg.nCell ∧
      (∀ i, i < pg.nCell - 1 → cellKey pg i < cellKey pg (i + 1)) ∧
      lo < cellKey pg 0 ∧ cellKey pg (pg.nCell - 1) ≤ hi ∧
      (pg.leaf = 0 → ∀ i, i ≤ pg.nCell →
        TableTree pBt store d (childPgno pg i)
          (if i = 0 then lo else cellKey pg (i - 1))
          (if i = pg.nCell then hi else cellKey pg i))

/-- Key `k` is stored in the tree of at most `d` levels rooted at `pgno`: some leaf below
the root has a cell with key `k`. -/
def Stored (pBt : BtShared) (store : PageStore) : Nat → Nat → Int → Prop
  | 0, _, _ => False
  | d + 1, pgno, k =>
    ∃ pg, initPage pBt store pgno = some pg ∧
      ((pg.leaf ≠ 0 ∧ ∃ i, i < pg.nCell ∧ cellKey pg i = k) ∨
       (pg.leaf = 0 ∧ ∃ i, i ≤ pg.nCell ∧ Stored pBt store d (childPgno pg i) k))

/-- The empty table: the root is a table leaf without cells. -/
def EmptyTable (pBt : BtShared) (store : PageStore) (pgnoRoot : Nat) : Prop :=
  ∃ pg, initPage pBt store pgnoRoot = some pg ∧ pg.intKey ≠ 0 ∧ pg.leaf ≠ 0 ∧ pg.nCell = 0

/-- The cursor path `apPage[0..iPage]` is a descent from the root: `apPage[0]` is the root
page and `apPage[j+1]` is child `aiIdx[j]` of the interior page `apPage[j]`. -/
def CursorPath (store : PageStore) (pCur : BtCursor) : Prop :=
  0 ≤ pCur.iPage ∧ initPage pCur.pBt store pCur.pgnoRoot = some (pCur.apPage 0) ∧
  ∀ j, j < pCur.iPage.toNat →
    (pCur.apPage j).leaf = 0 ∧ pCur.aiIdx j ≤ (pCur.apPage j).nCell ∧
    initPage pCur.pBt store (childPgno (pCur.apPage j) (pCur.aiIdx j)) =
      some (pCur.apPage (j + 1))

/-- The cursor is valid and points at a leaf entry with key `k`, reached from the root. -/
def CursorAt (store : PageStore) (pCur : BtCursor) (k : Int) : Prop :=
  pCur.eState = CURSOR_VALID ∧ CursorPath store pCur ∧
  (pCur.apPage pCur.iPage.toNat).leaf ≠ 0 ∧
  pCur.aiIdx pCur.iPage.toNat < (pCur.apPage pCur.iPage.toNat).nCell ∧
  cellKey (pCur.apPage pCur.iPage.toNat) (pCur.aiIdx pCur.iPage.toNat) = k

/-- What the seek relies on in the cursor it is handed: a table cursor that is not in the
fault state; a held root page is the root page; and a cached key (`validNKey` on a valid
cursor) is the key of the leaf entry the cursor is on, the largest of the tree if `atLast`
is set. -/
def CursorReady (store : PageStore) (d : Nat) (pCur : BtCursor) : Prop :=
  pCur.eState ≠ CURSOR_FAULT ∧ pCur.hasKeyInfo = false ∧
  (0 ≤ pCur.iPage → initPage pCur.pBt store pCur.pgnoRoot = some (pCur.apPage 0)) ∧
  (pCur.eState = CURSOR_VALID → pCur.validNKey = true →
    CursorAt store pCur pCur.info.nKey ∧
    Stored pCur.pBt store d pCur.pgnoRoot pCur.info.nKey ∧
    (pCur.atLast = true →
      ∀ k, Stored pCur.pBt store d pCur.pgnoRoot k → k ≤ pCur.info.nKey))

instance decTableTree (pBt : BtShared) (store : PageStore) :
    ∀ (d pgno : Nat) (lo hi : Int), Decidable (TableTree pBt store d pgno lo hi)
  | 0, _, _, _ => isFalse (fun h => h)
  | d + 1, pgno, lo, hi =>
    match h : initPage pBt store pgno with
    | none => isFalse (fun ⟨pg, hpg, _⟩ => by rw [h] at hpg; cases hpg)
    | some pg =>
      have : ∀ (pgno : Nat) (lo hi : Int), Decidable (TableTree pBt store d pgno lo hi) :=
        decTableTree pBt store d
      decidable_of_iff (pg.intKey ≠ 0 ∧ 1 ≤ pg.nCell ∧
        (∀ i, i < pg.nCell - 1 → cellKey pg i < cellKey pg (i + 1)) ∧
        lo < cellKey pg 0 ∧ cellKey pg (pg.nCell - 1) ≤ hi ∧
        (pg.leaf = 0 → ∀ i, i ≤ pg.nCell →
          TableTree pBt store d (childPgno pg i)
            (if i = 0 then lo else cellKey pg (i - 1))
            (if i = pg.nCell then hi else cellKey pg i)))
        ⟨fun hp => ⟨pg, h, hp⟩,
         fun ⟨pg1, hpg, hp⟩ => by rw [h] at hpg; cases hpg; exact hp⟩

instance decStored (pBt : BtShared) (store : PageStore) :
    ∀ (d pgno : Nat) (k : Int), Decidable (Stored pBt store d pgno k)
  | 0, _, _ => isFalse (fun h => h)
  | d + 1, pgno, k =>
    match h : initPage pBt store pgno with
    | none => isFalse (fun ⟨pg, hpg, _⟩ => by rw [h] at hpg; cases hpg)
    | some pg =>
      have : ∀ (pgno : Nat) (k : Int), Decidable (Stored pBt store d pgno k) :=
        decStored pBt store d
      decidable_of_iff
        ((pg.leaf ≠ 0 ∧ ∃ i, i < pg.nCell ∧ cellKey pg i = k) ∨
         (pg.leaf = 0 ∧ ∃ i, i ≤ pg.nCell ∧ Stored pBt store d (childPgno pg i) k))
        ⟨fun hp => ⟨pg, h, hp⟩,
         fun ⟨pg1, hpg, hp⟩ => by rw [h] at hpg; cases hpg; exact hp⟩

/-! ## Example trees -/

/-- A cursor just opened on the table rooted at `pgnoRoot`: no page held, state invalid. -/
def freshCursor (pBt : BtShared) (pgnoRoot : Nat) : BtCursor :=
  { pBt := pBt, pgnoRoot := pgnoRoot, hasKeyInfo := false
    info := { nKey := 0, pCell := 0, nData := 0, nPayload := 0, nHeader := 0, nLocal := 0
              iOverflow := 0, nSize := 0 }
    nKey := 0, pKey := none
    eState := CURSOR_INVALID, skipNext := 0, validNKey := false, atLast := false, iPage := -1
    apPage := fun _ => blankPage pBt (fun _ => 0) 0, aiIdx := fun _ => 0
    isIncrblobHandle := false, aOverflow := none }

/-- Image of a table interior page with one cell at offset 1000: left child `left`,
key `key` (below 128), right child `right` (page numbers below 256). -/
def exInteriorImage (left key right : Nat) : Bytes :=
  mkBytes [(0, 5), (3, 0), (4, 1), (5, 3), (6, 232), (11, right), (12, 3), (13, 232),
    (1003, left), (1004, key)]

/-- Image of a table leaf with two 4-byte cells at offsets 1000 and 1010, keys `k1 < k2`
(below 128). -/
def exLeafImage (k1 k2 : Nat) : Bytes :=
  mkBytes [(0, 13), (3, 0), (4, 2), (5, 3), (6, 232), (8, 3), (9, 232), (10, 3), (11, 242),
    (1000, 2), (1001, k1), (1002, 170), (1003, 187), (1010, 2), (1011, k2), (1012, 204),
    (1013, 221)]

/-- A two-level table: root page 2 with divider 10, leaves 3 (keys 5, 10) and 4 (keys 20,
30); page 5 is an empty table leaf. -/
def exStore : PageStore :=
  { nPage := 5
    page := fun p =>
      if p = 2 then exInteriorImage 3 10 4
      else if p = 3 then exLeafImage 5 10
      else if p = 4 then exLeafImage 20 30
      else mkBytes [(0, 13), (5, 4), (6, 0)] }

/-- A table of 21 levels: pages 2..21 are interior pages with one cell each (divider
`126 - 2 * p`, left child `p + 1`, right child the leaf `30 + p` with the two keys above the
divider), page 22 is the leaf at the bottom with keys 50 and 60. -/
def exDeepStore : PageStore :=
  { nPage := 60
    page := fun p =>
      if p ≤ 21 then exInteriorImage (p + 1) (126 - 2 * p) (30 + p)
      else if p = 22 then exLeafImage 50 60
      else exLeafImage (187 - 2 * p) (188 - 2 * p) }

end Btree

namespace Btree

/-! ## Auxiliary definitions used by the seek proofs -/

/-- Cursor `b` differs from `a` at most in the cached cell information and in the cell index
of the current page. -/
def CursorFrame (a b : BtCursor) : Prop :=
  b.pBt = a.pBt ∧ b.pgnoRoot = a.pgnoRoot ∧ b.hasKeyInfo = a.hasKeyInfo ∧
  b.eState = a.eState ∧ b.iPage = a.iPage ∧ b.apPage = a.apPage ∧
  ∀ j, j ≠ a.iPage.toNat → b.aiIdx j = a.aiIdx j

/-- The cursor as the binary search leaves it after comparing with a cell of key `key`. -/
def searchedCursor (pCur : BtCursor) (key : Int) : BtCursor :=
  { pCur with
    validNKey := true
    info := { pCur.info with nSize := 0, nKey := key } }

/-- What the binary search over a table page establishes for the key `k`, starting from
cursor `pCur`. -/
def SearchPost (pPage : MemPage) (k : Int) (pCur : BtCursor) : PageSearch → Prop
  | PageSearch.finish rc res c1 =>
    rc = SQLITE_OK ∧ res = some 0 ∧ pPage.leaf ≠ 0 ∧ CursorFrame pCur c1 ∧
    c1.aiIdx c1.iPage.toNat < pPage.nCell ∧ cellKey pPage (c1.aiIdx c1.iPage.toNat) = k
  | PageSearch.done lwr c c1 =>
    CursorFrame pCur c1 ∧ 0 ≤ lwr ∧ lwr ≤ pPage.nCell ∧
    c1.aiIdx c1.iPage.toNat < pPage.nCell ∧
    ((c = 0 ∧ pPage.leaf = 0 ∧ lwr < pPage.nCell ∧ cellKey pPage lwr.toNat = k) ∨
     (c ≠ 0 ∧ (∀ i : Nat, (i : Int) < lwr → cellKey pPage i < k) ∧
      (∀ i : Nat, lwr ≤ (i : Int) → i < pPage.nCell → k < cellKey pPage i) ∧
      ((c < 0 ∧ (c1.aiIdx c1.iPage.toNat : Int) = lwr - 1) ∨
       (0 < c ∧ (c1.aiIdx c1.iPage.toNat : Int) = lwr))))

/-- What a seek for `k` in the table of at most `d` levels rooted at the cursor's root has
to deliver: `res = 0` exactly if `k` is stored, then with the cursor on it; otherwise the
cursor is on the stored key next below `k` (`res < 0`) or next above `k` (`res > 0`). -/
def SeekPost (store : PageStore) (pBt : BtShared) (d root : Nat) (k : Int)
    (r : Int × BtCursor) : Prop :=
  (r.1 = 0 ↔ Stored pBt store d root k) ∧
  (r.1 = 0 → CursorAt store r.2 k) ∧
  (r.1 ≠ 0 → ∃ e, CursorAt store r.2 e ∧ Stored pBt store d root e ∧
    (r.1 < 0 → e < k ∧ ∀ k1, Stored pBt store d root k1 → k1 < k → k1 ≤ e) ∧
    (0 < r.1 → k < e ∧ ∀ k1, Stored pBt store d root k1 → k < k1 → e ≤ k1))

/-- The cursor after a successful `moveToChild` onto page `pg`. -/
def descended (pCur : BtCursor) (pg : MemPage) : BtCursor :=
  { pCur with
    apPage := setAt pCur.apPage (pCur.iPage + 1).toNat pg
    aiIdx := setAt pCur.aiIdx (pCur.iPage + 1).toNat 0
    iPage := pCur.iPage + 1
    info := { pCur.info with nSize := 0 }
    validNKey := false }

/-- The cursor as the seek leaves the current page before descending through child
pointer `lwr`. -/
def leavingCursor (pCur : BtCursor) (lwr : Int) : BtCursor :=
  { pCur with
    aiIdx := setAt pCur.aiIdx pCur.iPage.toNat (u16i lwr)
    info := { pCur.info with nSize := 0 }
    validNKey := false }

end Btree

namespace Btree

/-! ## Writing varints -/

/-- Length of the varint of the 64-bit value `v`. -/
def varintLen (v : Nat) : Nat :=
  if v < 128 then 1
  else if v < 16384 then 2
  else if v < 2097152 then 3
  else if v < 268435456 then 4
  else if v < 34359738368 then 5
  else if v < 4398046511104 then 6
  else if v < 562949953421312 then 7
  else if v < 72057594037927936 then 8
  else 9

/-- Byte `i` of the `n`-byte varint of `v`: seven bits a byte, most significant group
first, the high bit set on every byte but the last; the ninth byte of a 9-byte varint
carries eight bits. -/
def varintByte (v n i : Nat) : Nat :=
  if n = 9 then
    (if i = 8 then v % 256 else v / (256 * 128 ^ (7 - i)) % 128 + 128)
  else v / 128 ^ (n - 1 - i) % 128 + (if i + 1 < n then 128 else 0)

/-- Modelled from the spec: `putVarint` (`sqlite3PutVarint` of the absent `util.c`), the
writer of the encoding that `getVarint` reads.  Returns the number of bytes written and the
buffer. -/
def putVarint (d : Bytes) (p : Nat) (v : Nat) : Nat × Bytes :=
  (varintLen (v % 18446744073709551616),
    fun j =>
      if p ≤ j ∧ j < p + varintLen (v % 18446744073709551616) then
        varintByte (v % 18446744073709551616) (varintLen (v % 18446744073709551616)) (j - p)
      else d j)

/-- The cast of a C signed integer to `u64`. -/
def u64i (x : Int) : Nat := (x % 18446744073709551616).toNat

/-! ## Pager state, pointer map and page allocation -/

/-- Modelled from the spec: the pager inside a write transaction, as the B-tree layer sees
it.  `nPage` is `BtShared.nPage`, `page pgno` the current image of page `pgno` (page 1 is
`pPage1`), `nRef pgno` the number of references held on the page.  Acquiring a page and
`sqlite3PagerWrite` succeed except that page 0 cannot be acquired; a page fetched with
`noContent` keeps whatever image the state holds for it. -/
structure DbState where
  nPage : Nat
  page : Nat → Bytes
  nRef : Nat → Nat

/-- The page images of a state, as the read path uses them. -/
def DbState.toStore (s : DbState) : PageStore := { nPage := s.nPage, page := s.page }

/-- Store `d` as the image of page `pgno`. -/
def DbState.setPage (s : DbState) (pgno : Nat) (d : Bytes) : DbState :=
  { s with page := setAt s.page pgno d }

/-- `releasePage` on a held page: drop one reference. -/
def releasePage (s : DbState) (pgno : Option Nat) : DbState :=
  match pgno with
  | none => s
  | some p => { s with nRef := setAt s.nRef p (s.nRef p - 1) }

/-- Modelled from the spec: `sqlite3PendingByte` of the absent `global.c`. -/
def PENDING_BYTE : Nat := 1073741824

/-- Modelled from the spec: macro `PENDING_BYTE_PAGE(pBt)` of the absent `btreeInt.h`. -/
def PENDING_BYTE_PAGE (pBt : BtShared) : Nat := u32 (PENDING_BYTE / pBt.pageSize + 1)

/-- `ptrmapPageno`: the pointer-map page that holds the entry of page `pgno`. -/
def ptrmapPageno (pBt : BtShared) (pgno : Nat) : Nat :=
  if pgno < 2 then 0
  else
    let nPagesPerMapPage := pBt.usableSize / 5 + 1
    let iPtrMap := (pgno - 2) / nPagesPerMapPage
    let ret := u32 (iPtrMap * nPagesPerMapPage + 2)
    if ret = PENDING_BYTE_PAGE pBt then u32 (ret + 1) else ret

/-- Modelled from the spec: macro `PTRMAP_ISPAGE(pBt, pgno)` of the absent `btreeInt.h`. -/
def PTRMAP_ISPAGE (pBt : BtShared) (pgno : Nat) : Bool := ptrmapPageno pBt pgno = pgno

/-- Modelled from the spec: macro `PTRMAP_PTROFFSET(pgptrmap, pgno)` of the absent
`btreeInt.h`, `5*(pgno-pgptrmap-1)` as an `int`. -/
def PTRMAP_PTROFFSET (pgptrmap pgno : Nat) : Int := 5 * ((pgno : Int) - (pgptrmap : Int) - 1)

/-- Modelled from the spec: pointer-map entry type `PTRMAP_FREEPAGE` (`btreeInt.h`). -/
def PTRMAP_FREEPAGE : Nat := 2

/-- Modelled from the spec: pointer-map entry type `PTRMAP_OVERFLOW1` (`btreeInt.h`). -/
def PTRMAP_OVERFLOW1 : Nat := 3

/-- Modelled from the spec: pointer-map entry type `PTRMAP_OVERFLOW2` (`btreeInt.h`). -/
def PTRMAP_OVERFLOW2 : Nat := 4

/-- `ptrmapPut`: returns the state and the value left in `*pRC`. -/
def ptrmapPut (pBt : BtShared) (s : DbState) (key eType parent rc : Nat) : DbState × Nat :=
  if rc ≠ 0 then (s, rc)
  else if key = 0 then (s, SQLITE_CORRUPT)
  else
    let iPtrmap := ptrmapPageno pBt key
    if iPtrmap = 0 then (s, SQLITE_CORRUPT)
    else
      let offset := PTRMAP_PTROFFSET iPtrmap key
      if offset < 0 then (s, SQLITE_CORRUPT)
      else if eType ≠ getByte (s.page iPtrmap) offset.toNat ∨
          get4byte (s.page iPtrmap) (offset.toNat + 1) ≠ parent then
        (s.setPage iPtrmap
          (put4byte (setByte (s.page iPtrmap) offset.toNat eType) (offset.toNat + 1) parent),
          SQLITE_OK)
      else (s, SQLITE_OK)

/-- `ptrmapGet` over the page images `page`: result code, entry type and parent page. -/
def ptrmapGet (pBt : BtShared) (page : Nat → Bytes) (key : Nat) : Nat × Nat × Nat :=
  let iPtrmap := ptrmapPageno pBt key
  if iPtrmap = 0 then (SQLITE_CORRUPT, 0, 0)
  else
    let offset := PTRMAP_PTROFFSET iPtrmap key
    if offset < 0 then (SQLITE_CORRUPT, 0, 0)
    else
      let eType := getByte (page iPtrmap) offset.toNat
      let pgno := get4byte (page iPtrmap) (offset.toNat + 1)
      if eType < 1 ∨ eType > 5 then (SQLITE_CORRUPT, eType, pgno)
      else (SQLITE_OK, eType, pgno)

/-- Modelled from the spec: `sqlite3AbsInt32` of the absent `util.c`. -/
def sqlite3AbsInt32 (x : Int) : Int :=
  if x ≥ 0 then x else if x = -2147483648 then 2147483647 else -x

/-- The search for the free-list leaf closest to `nearby` in `allocateBtreePage`
(`for(i=1; i<k; i++)`): returns `closest`. -/
def closestLeaf (aData : Bytes) (nearby k : Nat) : Nat → Nat → Nat → Int → Nat
  | 0, _, closest, _ => closest
  | fuel + 1, i, closest, dist =>
    if i < k then
      if sqlite3AbsInt32 (toInt32 (u32sub (get4byte aData (8 + i * 4)) nearby)) < dist then
        closestLeaf aData nearby k fuel (i + 1) i
          (sqlite3AbsInt32 (toInt32 (u32sub (get4byte aData (8 + i * 4)) nearby)))
      else closestLeaf aData nearby k fuel (i + 1) closest dist
    else closest

/-- The leaf of the trunk image `aData` that `allocateBtreePage` picks ("Extract a leaf from
the trunk"): the index `closest`. -/
def closestTo (aData : Bytes) (nearby : Nat) : Nat :=
  if nearby > 0 then
    closestLeaf aData nearby (get4byte aData 4) (get4byte aData 4) 1 0
      (sqlite3AbsInt32 (toInt32 (u32sub (get4byte aData 8) nearby)))
  else 0

/-- The stores that take leaf `closest` off the trunk `iTrunk`: the last leaf moves into its
slot and the leaf count drops by one. -/
def takeLeaf (s : DbState) (iTrunk closest : Nat) : DbState :=
  let k := get4byte (s.page iTrunk) 4
  let s1 :=
    if closest < k - 1 then
      s.setPage iTrunk (memcpy (s.page iTrunk) (8 + closest * 4) (s.page iTrunk) (4 + k * 4) 4)
    else s
  s1.setPage iTrunk (put4byte (s1.page iTrunk) 4 (k - 1))

/-- The `do ... while( searchList )` loop of `allocateBtreePage` over the free-list trunks.
Arguments: the state, the trunk held in `pTrunk`, `searchList`, `*pPgno`.  Returns the
result code, the state, `*pPgno` and the page left in `*ppPage`. -/
def allocateFromFreelist (pBt : BtShared) (nearby mxPage : Nat) :
    Nat → DbState → Option Nat → Bool → Nat → Option (Nat × DbState × Nat × Option Nat)
  | 0, _, _, _, _ => none
  | fuel + 1, s, pPrevTrunk, searchList, pgno =>
    let iTrunk := match pPrevTrunk with
      | some t => get4byte (s.page t) 0
      | none => get4byte (s.page 1) 32
    if iTrunk > mxPage then some (SQLITE_CORRUPT, s, pgno, none)
    else if iTrunk = 0 then some (SQLITE_CORRUPT, s, pgno, none)
    else
      let k := get4byte (s.page iTrunk) 4
      if k = 0 ∧ searchList = false then
        some (SQLITE_OK, s.setPage 1 (memcpy (s.page 1) 32 (s.page iTrunk) 0 4), iTrunk,
          some iTrunk)
      else if k > u32 (pBt.usableSize / 4 - 2) then some (SQLITE_CORRUPT, s, pgno, none)
      else if searchList = true ∧ nearby = iTrunk then
        if k = 0 then
          match pPrevTrunk with
          | none =>
            some (SQLITE_OK, s.setPage 1 (memcpy (s.page 1) 32 (s.page iTrunk) 0 4), pgno,
              some iTrunk)
          | some t =>
            some (SQLITE_OK, s.setPage t (memcpy (s.page t) 0 (s.page iTrunk) 0 4), pgno,
              some iTrunk)
        else
          let iNewTrunk := get4byte (s.page iTrunk) 8
          if iNewTrunk > mxPage then some (SQLITE_CORRUPT, s, pgno, none)
          else if iNewTrunk = 0 then some (SQLITE_CORRUPT, s, pgno, none)
          else
            let s1 := s.setPage iNewTrunk (memcpy (s.page iNewTrunk) 0 (s.page iTrunk) 0 4)
            let s2 := s1.setPage iNewTrunk (put4byte (s1.page iNewTrunk) 4 (k - 1))
            let s3 := s2.setPage iNewTrunk
              (memcpy (s2.page iNewTrunk) 8 (s2.page iTrunk) 12 ((k - 1) * 4))
            match pPrevTrunk with
            | none =>
              some (SQLITE_OK, s3.setPage 1 (put4byte (s3.page 1) 32 iNewTrunk), pgno,
                some iTrunk)
            | some t =>
              some (SQLITE_OK, s3.setPage t (put4byte (s3.page t) 0 iNewTrunk), pgno,
                some iTrunk)
      else if k > 0 then
        let closest := closestTo (s.page iTrunk) nearby
        let iPage := get4byte (s.page iTrunk) (8 + closest * 4)
        if iPage > mxPage then some (SQLITE_CORRUPT, s, pgno, none)
        else if searchList = false ∨ iPage = nearby then
          if iPage = 0 then some (SQLITE_CORRUPT, takeLeaf s iTrunk closest, iPage, none)
          else some (SQLITE_OK, takeLeaf s iTrunk closest, iPage, some iPage)
        else allocateFromFreelist pBt nearby mxPage fuel s (some iTrunk) searchList pgno
      else allocateFromFreelist pBt nearby mxPage fuel s (some iTrunk) searchList pgno

/-- The end of `allocateBtreePage` (`end_allocate_page:`): a page that is referenced
elsewhere is refused; otherwise the caller holds one reference on it.  The references on the
trunk pages are dropped before this point and are not counted. -/
def allocateFinish (r : Nat × DbState × Nat × Option Nat) : Nat × DbState × Nat :=
  if r.1 = SQLITE_OK then
    match r.2.2.2 with
    | none => (SQLITE_CORRUPT, r.2.1, r.2.2.1)
    | some p =>
      if r.2.1.nRef p + 1 > 1 then (SQLITE_CORRUPT, r.2.1, r.2.2.1)
      else (SQLITE_OK, { r.2.1 with nRef := setAt r.2.1.nRef p (r.2.1.nRef p + 1) }, r.2.2.1)
  else (r.1, r.2.1, r.2.2.1)

/-- `allocateBtreePage`.  `pgno0` is the value of `*pPgno` on entry; returns the result
code, the state and `*pPgno`, the page handed out in `*ppPage`. -/
def allocateBtreePage (fuel : Nat) (pBt : BtShared) (s : DbState) (pgno0 nearby : Nat)
    (exact : Nat) : Option (Nat × DbState × Nat) :=
  let mxPage := s.nPage
  let n := get4byte (s.page 1) 36
  if n ≥ mxPage then some (SQLITE_CORRUPT, s, pgno0)
  else if n > 0 then
    let probe : Nat × Bool × Nat :=
      if exact ≠ 0 ∧ nearby ≤ mxPage then
        ((ptrmapGet pBt s.page nearby).1,
          decide ((ptrmapGet pBt s.page nearby).2.1 = PTRMAP_FREEPAGE), nearby)
      else (SQLITE_OK, false, pgno0)
    if probe.1 ≠ 0 then some (probe.1, s, pgno0)
    else
      match allocateFromFreelist pBt nearby mxPage fuel
          (s.setPage 1 (put4byte (s.page 1) 36 (n - 1))) none probe.2.1 probe.2.2 with
      | none => none
      | some r => some (allocateFinish r)
  else
    let nPage1 := u32 (s.nPage + 1)
    let nPage2 := if nPage1 = PENDING_BYTE_PAGE pBt then u32 (nPage1 + 1) else nPage1
    let nPage3 :=
      if pBt.autoVacuum = true ∧ PTRMAP_ISPAGE pBt nPage2 = true then
        (if u32 (nPage2 + 1) = PENDING_BYTE_PAGE pBt then u32 (nPage2 + 1 + 1)
         else u32 (nPage2 + 1))
      else nPage2
    if pBt.autoVacuum = true ∧ PTRMAP_ISPAGE pBt nPage2 = true ∧ nPage2 = 0 then
      some (SQLITE_CORRUPT, { s with nPage := nPage2 }, pgno0)
    else
      let s1 := { s with nPage := nPage3 }
      let s2 := s1.setPage 1 (put4byte (s1.page 1) 28 nPage3)
      if nPage3 = 0 then some (SQLITE_CORRUPT, s2, nPage3)
      else some (allocateFinish (SQLITE_OK, s2, nPage3, some nPage3))

end Btree

namespace Btree

/-! ## Building a cell, `fillInCell` -/

/-- Where `fillInCell` writes: into the cell buffer `pCell` or into the image of an overflow
page, at a byte offset. -/
inductive Loc where
  | cell (off : Nat)
  | ovfl (pgno : Nat) (off : Nat)

/-- The variables of the `while( nPayload>0 )` loop of `fillInCell`. -/
structure FillState where
  s : DbState
  pCell : Bytes
  nPayload : Int
  pSrc : Bytes
  srcOff : Nat
  nSrc : Int
  nData : Int
  spaceLeft : Int
  pPayload : Loc
  pPrior : Loc
  pToRelease : Option Nat
  pgnoOvfl : Nat

/-- `put4byte` through a `Loc`. -/
def FillState.put4 (st : FillState) (l : Loc) (v : Nat) : FillState :=
  match l with
  | Loc.cell off => { st with pCell := put4byte st.pCell off v }
  | Loc.ovfl pgno off => { st with s := st.s.setPage pgno (put4byte (st.s.page pgno) off v) }

/-- `memcpy(pPayload, pSrc, n)` or `memset(pPayload, 0, n)` through a `Loc`. -/
def FillState.store (st : FillState) (copy : Bool) (n : Nat) : FillState :=
  match st.pPayload with
  | Loc.cell off =>
    { st with pCell := if copy then memcpy st.pCell off st.pSrc st.srcOff n
                       else memset0 st.pCell off n }
  | Loc.ovfl pgno off =>
    { st with
      s := st.s.setPage pgno
        (if copy then memcpy (st.s.page pgno) off st.pSrc st.srcOff n
         else memset0 (st.s.page pgno) off n) }

/-- Advance a `Loc` by `n` bytes. -/
def Loc.add (l : Loc) (n : Nat) : Loc :=
  match l with
  | Loc.cell off => Loc.cell (off + n)
  | Loc.ovfl pgno off => Loc.ovfl pgno (off + n)

/-- The loop `do{ pgnoOvfl++; }while( PTRMAP_ISPAGE(pBt, pgnoOvfl) ||
pgnoOvfl==PENDING_BYTE_PAGE(pBt) )` of `fillInCell` and the like loop of
`getOverflowPage`, entered after the first increment. -/
def skipMapPages (pBt : BtShared) : Nat → Nat → Option Nat
  | 0, _ => none
  | fuel + 1, pgno =>
    if PTRMAP_ISPAGE pBt pgno = true ∨ pgno = PENDING_BYTE_PAGE pBt then
      skipMapPages pBt fuel (u32 (pgno + 1))
    else some pgno

/-- The block `if( spaceLeft==0 ){ ... }` of `fillInCell`: allocate the next overflow page
and link it.  Returns the result code and the loop variables; on an error the page held
in `pToRelease` has been released. -/
def fillAllocate (fuel : Nat) (pBt : BtShared) (st : FillState) : Option (Nat × FillState) :=
  match (if pBt.autoVacuum then skipMapPages pBt fuel (u32 (st.pgnoOvfl + 1))
         else some st.pgnoOvfl) with
  | none => none
  | some nearby =>
    match allocateBtreePage fuel pBt st.s nearby nearby 0 with
    | none => none
    | some (rc0, s1, pgnoOvfl) =>
      let put : DbState × Nat :=
        if pBt.autoVacuum = true ∧ rc0 = SQLITE_OK then
          ptrmapPut pBt s1 pgnoOvfl
            (if st.pgnoOvfl ≠ 0 then PTRMAP_OVERFLOW2 else PTRMAP_OVERFLOW1) st.pgnoOvfl rc0
        else (s1, rc0)
      let s2 :=
        if pBt.autoVacuum = true ∧ rc0 = SQLITE_OK ∧ put.2 ≠ 0 then
          releasePage put.1 (some pgnoOvfl)
        else put.1
      if put.2 ≠ 0 then
        some (put.2, { st with s := releasePage s2 st.pToRelease, pgnoOvfl := pgnoOvfl })
      else
        let st1 := ({ st with s := s2, pgnoOvfl := pgnoOvfl } : FillState).put4 st.pPrior pgnoOvfl
        let st2 := { st1 with s := releasePage st1.s st.pToRelease, pToRelease := some pgnoOvfl,
                              pPrior := Loc.ovfl pgnoOvfl 0 }
        let st3 := st2.put4 (Loc.ovfl pgnoOvfl 0) 0
        some (SQLITE_OK, { st3 with pPayload := Loc.ovfl pgnoOvfl 4,
                                    spaceLeft := (u32sub pBt.usableSize 4 : Nat) })

/-- The `while( nPayload>0 )` loop of `fillInCell`, followed by the final
`releasePage(pToRelease)`. -/
def fillLoop (pBt : BtShared) (pData : Bytes) : Nat → FillState → Option (Nat × FillState)
  | 0, _ => none
  | fuel + 1, st =>
    if st.nPayload > 0 then
      match (if st.spaceLeft = 0 then fillAllocate (fuel + 1) pBt st
             else some (SQLITE_OK, st)) with
      | none => none
      | some (rc, st1) =>
        if rc ≠ 0 then some (rc, st1)
        else
          let n0 := if st1.nPayload > st1.spaceLeft then st1.spaceLeft else st1.nPayload
          let n := if st1.nSrc > 0 then (if n0 > st1.nSrc then st1.nSrc else n0) else n0
          let st2 := st1.store (decide (st1.nSrc > 0)) n.toNat
          let st3 := { st2 with
            nPayload := st2.nPayload - n
            pPayload := st2.pPayload.add n.toNat
            srcOff := st2.srcOff + n.toNat
            nSrc := st2.nSrc - n
            spaceLeft := st2.spaceLeft - n }
          fillLoop pBt pData fuel
            (if st3.nSrc = 0 then { st3 with nSrc := st3.nData, pSrc := pData, srcOff := 0 }
             else st3)
    else some (SQLITE_OK, { st with s := releasePage st.s st.pToRelease })

/-- `fillInCell`: build the cell for (`pKey`, `nKey`, `pData`, `nData`, `nZero`) in the
buffer `pCell`, allocating overflow pages as needed.  `pKey` is `none` for a null pointer,
`nSize0` the value of `*pnSize` on entry.  Returns the result code, the pager state, the
cell buffer and `*pnSize`. -/
def fillInCell (fuel : Nat) (pPage : MemPage) (s : DbState) (pCell : Bytes)
    (pKey : Option Bytes) (nKey : Int) (pData : Bytes) (nData nZero : Int) (nSize0 : Nat) :
    Option (Nat × DbState × Bytes × Nat) :=
  let nHeader0 := if pPage.leaf = 0 then 4 else 0
  let w1 : Nat × Bytes :=
    if pPage.hasData ≠ 0 then putVarint pCell nHeader0 (u64i (nData + nZero)) else (0, pCell)
  let nData := if pPage.hasData ≠ 0 then nData else 0
  let nZero := if pPage.hasData ≠ 0 then nZero else 0
  let w2 := putVarint w1.2 (nHeader0 + w1.1) (u64i nKey)
  let nHeader := nHeader0 + w1.1 + w2.1
  let info := btreeParseCellPtr pPage w2.2 0
  if pPage.intKey = 0 ∧ (nKey > 2147483647 ∨ pKey.isNone = true) then
    some (SQLITE_CORRUPT, s, w2.2, nSize0)
  else
    match fillLoop pPage.pBt pData fuel
        { s := s, pCell := w2.2
          nPayload := if pPage.intKey ≠ 0 then nData + nZero
                      else nData + nZero + toInt32 (u64i nKey)
          pSrc := if pPage.intKey ≠ 0 then pData else pKey.getD pData
          srcOff := 0
          nSrc := if pPage.intKey ≠ 0 then nData else toInt32 (u64i nKey)
          nData := if pPage.intKey ≠ 0 then 0 else nData
          spaceLeft := info.nLocal
          pPayload := Loc.cell nHeader
          pPrior := Loc.cell info.iOverflow
          pToRelease := none
          pgnoOvfl := 0 } with
    | none => none
    | some (rc, st) => some (rc, st.s, st.pCell, info.nSize)

end Btree

namespace Btree

/-! ## Reading a payload, `accessPayload` -/

/-- Result code `SQLITE_DONE`. -/
def SQLITE_DONE : Nat := 101

/-- `btreeParseCell` (macro `parseCell`): parse cell `iCell` of the page. -/
def btreeParseCell (pPage : MemPage) (iCell : Nat) : CellInfo :=
  btreeParseCellPtr pPage pPage.aData (findCell pPage iCell)

/-- Macro `getCellInfo(pCur)`. -/
def getCellInfo (pCur : BtCursor) : BtCursor :=
  if pCur.info.nSize = 0 then
    { pCur with
      info := btreeParseCell (pCur.apPage pCur.iPage.toNat) (pCur.aiIdx pCur.iPage.toNat)
      validNKey := true }
  else pCur

/-- `getOverflowPage` with `ppPage = 0`: result code and `*pPgnoNext`, the page after
overflow page `ovfl`. -/
def getOverflowPage (fuel : Nat) (pBt : BtShared) (store : PageStore) (ovfl : Nat) :
    Option (Nat × Nat) :=
  match (if pBt.autoVacuum then skipMapPages pBt fuel (u32 (ovfl + 1)) else some 0) with
  | none => none
  | some iGuess =>
    let guess : Nat × Nat :=
      if pBt.autoVacuum = true ∧ iGuess ≤ store.nPage then
        (if (ptrmapGet pBt store.page iGuess).1 = SQLITE_OK ∧
            (ptrmapGet pBt store.page iGuess).2.1 = PTRMAP_OVERFLOW2 ∧
            (ptrmapGet pBt store.page iGuess).2.2 = ovfl then (SQLITE_DONE, iGuess)
         else ((ptrmapGet pBt store.page iGuess).1, 0))
      else (SQLITE_OK, 0)
    if guess.1 = SQLITE_OK then
      (if ovfl = 0 then some (SQLITE_CORRUPT, 0)
       else some (SQLITE_OK, get4byte (store.page ovfl) 0))
    else some (if guess.1 = SQLITE_DONE then SQLITE_OK else guess.1, guess.2)

/-- The variables of the overflow loop of `accessPayload`. -/
structure AccessState where
  rc : Nat
  offset : Nat
  amt : Nat
  pBuf : Bytes
  bufOff : Nat
  nextPage : Nat
  iIdx : Nat
  aOverflow : Option (Nat → Nat)

/-- The loop `for(; rc==SQLITE_OK && amt>0 && nextPage; iIdx++)` of `accessPayload` in read
mode. -/
def accessLoop (pBt : BtShared) (store : PageStore) : Nat → AccessState → Option AccessState
  | 0, _ => none
  | fuel + 1, st =>
    if st.rc = SQLITE_OK ∧ st.amt > 0 ∧ st.nextPage ≠ 0 then
      let ovflSize := u32sub pBt.usableSize 4
      let aOverflow := st.aOverflow.map (fun a => setAt a st.iIdx st.nextPage)
      if st.offset ≥ ovflSize then
        match (match aOverflow with
               | some a =>
                 if a (st.iIdx + 1) ≠ 0 then some (SQLITE_OK, a (st.iIdx + 1))
                 else getOverflowPage (fuel + 1) pBt store st.nextPage
               | none => getOverflowPage (fuel + 1) pBt store st.nextPage) with
        | none => none
        | some (rc, next) =>
          accessLoop pBt store fuel
            { st with rc := rc, nextPage := next, offset := u32sub st.offset ovflSize
                      iIdx := st.iIdx + 1, aOverflow := aOverflow }
      else
        let a := if st.amt + st.offset > ovflSize then ovflSize - st.offset else st.amt
        accessLoop pBt store fuel
          { st with
            nextPage := get4byte (store.page st.nextPage) 0
            pBuf := memcpy st.pBuf st.bufOff (store.page st.nextPage) (st.offset + 4) a
            offset := 0
            amt := st.amt - a
            bufOff := st.bufOff + a
            iIdx := st.iIdx + 1
            aOverflow := aOverflow }
    else some st

/-- `accessPayload` in read mode (`eOp = 0`): copy `amt` bytes of the payload of the entry
under the cursor, starting at `offset`, to `pBuf`.  The allocation of the overflow
page-list cache succeeds.  Returns the result code, the buffer and the cursor. -/
def accessPayload (fuel : Nat) (store : PageStore) (pCur : BtCursor) (offset amt : Nat)
    (pBuf : Bytes) : Option (Nat × Bytes × BtCursor) :=
  let pPage := pCur.apPage pCur.iPage.toNat
  let pBt := pCur.pBt
  let pCur := getCellInfo pCur
  let aPayload := pCur.info.pCell + pCur.info.nHeader
  let nKey := if pPage.intKey ≠ 0 then 0 else u32 (u64i pCur.info.nKey)
  if u32 (offset + amt) > u32 (nKey + pCur.info.nData) ∨
      aPayload + pCur.info.nLocal > pBt.usableSize then
    some (SQLITE_CORRUPT, pBuf, pCur)
  else
    let a := if amt + offset > pCur.info.nLocal then pCur.info.nLocal - offset else amt
    let pBuf1 := if offset < pCur.info.nLocal then memcpy pBuf 0 pPage.aData (aPayload + offset) a
                 else pBuf
    let bufOff := if offset < pCur.info.nLocal then a else 0
    let amt1 := if offset < pCur.info.nLocal then amt - a else amt
    let offset1 := if offset < pCur.info.nLocal then 0 else offset - pCur.info.nLocal
    if amt1 > 0 then
      let ovflSize := u32sub pBt.usableSize 4
      let aOverflow0 : Option (Nat → Nat) :=
        if pCur.isIncrblobHandle = true ∧ pCur.aOverflow.isNone = true then some (fun _ => 0)
        else pCur.aOverflow
      let cached : Bool := match aOverflow0 with
        | some a => decide (a (offset1 / ovflSize) ≠ 0)
        | none => false
      let start : AccessState :=
        { rc := SQLITE_OK
          offset := if cached then offset1 % ovflSize else offset1
          amt := amt1
          pBuf := pBuf1
          bufOff := bufOff
          nextPage := if cached then (aOverflow0.getD (fun _ => 0)) (offset1 / ovflSize)
                      else get4byte pPage.aData (aPayload + pCur.info.nLocal)
          iIdx := if cached then offset1 / ovflSize else 0
          aOverflow := aOverflow0 }
      match accessLoop pBt store fuel start with
      | none => none
      | some st =>
        some (if st.rc = SQLITE_OK ∧ st.amt > 0 then SQLITE_CORRUPT else st.rc, st.pBuf,
          { pCur with aOverflow := st.aOverflow })
    else some (SQLITE_OK, pBuf1, pCur)

end Btree

namespace Btree

/-! ## Auxiliary definitions used by the payload proofs -/

/-- Two pages parse cells alike: same child-pointer size, tree kind, payload limits and
usable size. -/
def SameKind (a b : MemPage) : Prop :=
  a.childPtrSize = b.childPtrSize ∧ a.intKey = b.intKey ∧ a.hasData = b.hasData ∧
  a.maxLocal = b.maxLocal ∧ a.minLocal = b.minLocal ∧ a.pBt.usableSize = b.pBt.usableSize

/-- Length of the payload that `fillInCell` stores on page `pPage`: the key bytes on an
index page, data plus zero padding on a table page with data, nothing on an interior
table page. -/
def payloadLen (pPage : MemPage) (nKey nData nZero : Int) : Int :=
  if pPage.intKey ≠ 0 then (if pPage.hasData ≠ 0 then nData + nZero else 0) else nKey

/-- Byte `i` of that payload. -/
def payloadByte (pPage : MemPage) (pKey : Option Bytes) (pData : Bytes) (nData : Int)
    (i : Nat) : Nat :=
  if pPage.intKey ≠ 0 then (if (i : Int) < nData then getByte pData i else 0)
  else getByte (pKey.getD pData) i

end Btree

namespace Btree

/-! ## Example database states -/

/-- A 1024-byte-page database in auto-vacuum mode. -/
def exAutoBt : BtShared := { exBt1024 with autoVacuum := true }

/-- A 300-page pager state whose page images are all zero. -/
def exZeroDb : DbState := { nPage := 300, page := fun _ _ => 0, nRef := fun _ => 0 }

/-- A 1024-byte table-leaf page image: three cells (24 bytes at 1000, 70 bytes at 930, 18
bytes at 912), one 10-byte freeblock at 900 and the 2 fragmented bytes 910..911 between
the freeblock and the cell at 912. -/
def exGapData : Bytes := mkBytes [(0, 13), (1, 3), (2, 132), (3, 0), (4, 3), (5, 3), (6, 132),
    (7, 2), (8, 3), (9, 232), (10, 3), (11, 162), (12, 3), (13, 144), (900, 0), (901, 0),
    (902, 0), (903, 10), (912, 16), (913, 7), (930, 68), (931, 6), (1000, 22), (1001, 5)]

/-- The page `exGapData` as page 2 of a 1024-byte database, after `btreeInitPage`. -/
def exGapPage : MemPage :=
  match btreeInitPage 1024 (blankPage exBt1024 exGapData 2) with
  | some r => r.2
  | none => blankPage exBt1024 exGapData 2

end Btree

namespace Btree

/-! ## Saving and restoring a cursor position -/

/-- Result code `SQLITE_NOMEM`. -/
def SQLITE_NOMEM : Nat := 7

/-- `sqlite3BtreeKeySize`: the cursor (its cell info may have been filled in) and `*pSize`. -/
def sqlite3BtreeKeySize (pCur : BtCursor) : BtCursor × Int :=
  if pCur.eState ≠ CURSOR_VALID then (pCur, 0)
  else ((getCellInfo pCur), (getCellInfo pCur).info.nKey)

/-- `saveCursorPosition`.  For an index cursor the key buffer comes from `sqlite3Malloc` and
`sqlite3BtreeKey`, which are the oracle `keyBuf`: `none` when the allocation fails, otherwise
the result code of the read and the buffer. -/
def saveCursorPosition (pCur : BtCursor) (keyBuf : Option (Nat × Bytes)) : Nat × BtCursor :=
  let pCur := { (sqlite3BtreeKeySize pCur).1 with nKey := (sqlite3BtreeKeySize pCur).2 }
  let r : Nat × BtCursor :=
    if (pCur.apPage 0).intKey = 0 then
      match keyBuf with
      | some (rc, pKey) =>
        if rc = SQLITE_OK then (SQLITE_OK, { pCur with pKey := some pKey }) else (rc, pCur)
      | none => (SQLITE_NOMEM, pCur)
    else (SQLITE_OK, pCur)
  let pCur := r.2
  let pCur :=
    if r.1 = SQLITE_OK then
      { pCur with
        apPage := fun i => if (i : Int) ≤ pCur.iPage then blankPage pCur.pBt (fun _ => 0) 0
                           else pCur.apPage i
        iPage := -1
        eState := CURSOR_REQUIRESEEK }
    else pCur
  (r.1, { pCur with aOverflow := none })

/-- `btreeMoveto`: with a packed key the record is unpacked first (`allocOk` tells whether
`sqlite3VdbeAllocUnpackedRecord` succeeds) and compared through the oracle `idxCmp`. -/
def btreeMoveto (fuel : Nat) (store : PageStore) (pCur : BtCursor)
    (idxCmp : MemPage → Nat → Nat × Int) (allocOk : Bool) (pKey : Option Bytes) (nKey : Int)
    (bias : Bool) (res : Int) : Option (Nat × Int × BtCursor) :=
  if pKey.isSome ∧ allocOk = false then some (SQLITE_NOMEM, res, pCur)
  else sqlite3BtreeMovetoUnpacked fuel store pCur idxCmp nKey bias res

/-- `btreeRestoreCursorPosition`; the seek writes its result into `pCur->skipNext`. -/
def btreeRestoreCursorPosition (fuel : Nat) (store : PageStore) (pCur : BtCursor)
    (idxCmp : MemPage → Nat → Nat × Int) (allocOk : Bool) : Option (Nat × BtCursor) :=
  if pCur.eState = CURSOR_FAULT then some (pCur.skipNext.toNat, pCur)
  else
    match btreeMoveto fuel store { pCur with eState := CURSOR_INVALID } idxCmp allocOk
        pCur.pKey pCur.nKey false pCur.skipNext with
    | none => none
    | some (rc, res, c) =>
      if rc = SQLITE_OK then some (rc, { c with skipNext := res, pKey := none })
      else some (rc, { c with skipNext := res })

/-- The cursor is a table cursor that holds no saved key: its root and its current page are
table pages, and the cached cell information, if any (`info.nSize ≠ 0`), carries the key of
the entry the cursor is on. -/
def TableCursor (pCur : BtCursor) : Prop :=
  pCur.hasKeyInfo = false ∧ pCur.pKey.isNone = true ∧ (pCur.apPage 0).intKey ≠ 0 ∧
  (pCur.apPage pCur.iPage.toNat).intKey ≠ 0 ∧
  (pCur.info.nSize = 0 ∨
    pCur.info.nKey = cellKey (pCur.apPage pCur.iPage.toNat) (pCur.aiIdx pCur.iPage.toNat))

instance (pCur : BtCursor) : Decidable (TableCursor pCur) := by
  unfold TableCursor; infer_instance

/-! ## Example tables for save and restore -/

/-- Image of a table leaf with the 4-byte cells at offsets 1000, 1010, 1020, ... holding the
keys `ks` (each below 128), in that order. -/
def exLeafKeys (ks : List Nat) : Bytes :=
  mkBytes ([(0, 13), (3, 0), (4, ks.length), (5, 3), (6, 232)] ++
    (List.range ks.length).map (fun i => (8 + 2 * i, (1000 + 10 * i) / 256)) ++
    (List.range ks.length).map (fun i => (9 + 2 * i, (1000 + 10 * i) % 256)) ++
    (List.range ks.length).map (fun i => (1000 + 10 * i, 2)) ++
    (List.range ks.length).map (fun i => (1001 + 10 * i, ks.getD i 0)))

/-- A one-page table rooted at page 2 with the keys 5, 7, 10. -/
def exStoreBefore : PageStore :=
  { nPage := 2, page := fun _ => exLeafKeys [5, 7, 10] }

/-- The same table after key 7 has been deleted and 20 inserted: keys 5, 10, 20. -/
def exStoreAfter : PageStore :=
  { nPage := 2, page := fun _ => exLeafKeys [5, 10, 20] }

/-- The cursor that a seek for key 7 leaves on `exStoreBefore`. -/
def exCursorAt7 : BtCursor :=
  match sqlite3BtreeMovetoUnpacked 65556 exStoreBefore (freshCursor exBt1024 2)
      (fun _ _ => (0, 0)) 7 false 0 with
  | some r => r.2.2
  | none => freshCursor exBt1024 2

end Btree

namespace Btree

/-! ## Auxiliary definitions for `defragmentPage` -/

/-- The number of header bytes that `cellSizePtr` walks over (`pIter - pCell`): the child
pointer, the payload-size varint and, on a table page, the key varint. -/
def cellSizeHdr (pPage : MemPage) (d : Bytes) (pCell : Nat) : Nat :=
  let pIter0 := pCell + pPage.childPtrSize
  let pIter1 := if pPage.intKey ≠ 0 then
      (if pPage.hasData ≠ 0 then pIter0 + u8 (getVarint32 d pIter0).1 else pIter0)
    else pIter0 + u8 (getVarint32 d pIter0).1
  let pIter := if pPage.intKey ≠ 0 then pIter1 + skipVarint d pIter1 9 0 else pIter1
  pIter - pCell

/-- Total size of the cells `0 .. i-1` of the page. -/
def cellSum (p : MemPage) (i : Nat) : Nat := ((List.range i).map (cellSz p)).sum

/-- What `defragmentPage` expects of its page: a usable size of at most 65536, the
cell-pointer array behind the 8-byte header and inside the usable area, a child-pointer
size of at most 4, local-payload limits that fit a 16-bit cell size, no overflow cells,
and every cell inside the cell content area. -/
def CellsInContent (p : MemPage) : Prop :=
  p.pBt.usableSize ≤ 65536 ∧ p.hdrOffset + 8 ≤ p.cellOffset ∧
  p.cellOffset + 2 * p.nCell ≤ p.pBt.usableSize ∧
  p.childPtrSize ≤ 4 ∧ p.minLocal ≤ p.maxLocal ∧ p.maxLocal + 27 ≤ 65536 ∧
  p.nOverflow = 0 ∧
  ∀ i, i < p.nCell →
    get2byteNotZero p.aData (p.hdrOffset + 5) ≤ cellPtr p i ∧
    cellPtr p i + cellSz p i ≤ p.pBt.usableSize

instance (p : MemPage) : Decidable (CellsInContent p) := by
  unfold CellsInContent; infer_instance

/-- A defragmented page: the cells are packed against the end of the usable area in
cell-pointer order, there is no freeblock and no fragmented byte, the content area starts
at the last cell, the gap below it is zeroed and is exactly the `nFree` free bytes. -/
def Packed (q : MemPage) : Prop :=
  CellsInContent q ∧
  (∀ i, i < q.nCell →
    cellPtr q i + cellSz q i = (if i = 0 then q.pBt.usableSize else cellPtr q (i - 1)) ∧
    q.cellOffset + 2 * q.nCell ≤ cellPtr q i) ∧
  get2byte q.aData (q.hdrOffset + 1) = 0 ∧ getByte q.aData (q.hdrOffset + 7) = 0 ∧
  get2byteNotZero q.aData (q.hdrOffset + 5) =
    (if q.nCell = 0 then q.pBt.usableSize else cellPtr q (q.nCell - 1)) ∧
  (∀ x, q.cellOffset + 2 * q.nCell ≤ x → x < get2byteNotZero q.aData (q.hdrOffset + 5) →
    getByte q.aData x = 0) ∧
  q.nFree + (q.cellOffset + 2 * q.nCell) = get2byteNotZero q.aData (q.hdrOffset + 5)

end Btree

namespace Btree

/-! ## The free list -/

/-- The second half of `freePage2` ("Now manipulate the actual database free-list
structure"): `nFree` is the free-page count read at entry, `held` tells whether `pPage` is
non-null, `rcHasContent` is the result of `btreeSetHasContent`, which belongs to the
allocator of the bit vector. -/
def freePage2Link (pBt : BtShared) (s : DbState) (nFree iPage : Nat) (held : Bool)
    (rcHasContent : Nat) : Nat × DbState :=
  let iTrunk := if nFree ≠ 0 then get4byte (s.page 1) 32 else 0
  if nFree ≠ 0 ∧ iTrunk = 0 then (SQLITE_CORRUPT, s)
  else if nFree ≠ 0 ∧ get4byte (s.page iTrunk) 4 > u32sub (u32 pBt.usableSize / 4) 2 then
    (SQLITE_CORRUPT, s)
  else if nFree ≠ 0 ∧ get4byte (s.page iTrunk) 4 < u32sub (u32 pBt.usableSize / 4) 8 then
    let nLeaf := get4byte (s.page iTrunk) 4
    let trunk := put4byte (s.page iTrunk) 4 (u32 (nLeaf + 1))
    let trunk := put4byte trunk (8 + nLeaf * 4) iPage
    (rcHasContent, s.setPage iTrunk trunk)
  else if held = false ∧ iPage = 0 then (SQLITE_CORRUPT, s)
  else
    let s := s.setPage iPage (put4byte (put4byte (s.page iPage) 0 iTrunk) 4 0)
    (SQLITE_OK, s.setPage 1 (put4byte (s.page 1) 32 iPage))

/-- `freePage2`: put page `iPage` on the free list.  `held` tells whether a `MemPage` for the
page is at hand (`pMemPage` was passed or `btreePageLookup` found one).  Returns the result
code and the state; the reference taken on the page is dropped again before the return. -/
def freePage2 (pBt : BtShared) (s : DbState) (iPage : Nat) (held : Bool) (rcHasContent : Nat) :
    Nat × DbState :=
  let nFree := get4byte (s.page 1) 36
  let s := s.setPage 1 (put4byte (s.page 1) 36 (u32 (nFree + 1)))
  if pBt.secureDelete = true ∧ held = false ∧ iPage = 0 then (SQLITE_CORRUPT, s)
  else
    let s := if pBt.secureDelete then s.setPage iPage (memset0 (s.page iPage) 0 pBt.pageSize) else s
    let r := if pBt.autoVacuum then ptrmapPut pBt s iPage PTRMAP_FREEPAGE 0 SQLITE_OK
      else (s, SQLITE_OK)
    if r.2 ≠ 0 then (r.2, r.1)
    else freePage2Link pBt r.1 nFree iPage (held || pBt.secureDelete) rcHasContent

/-- What one pass of the trunk loop of `allocateBtreePage` yields when no exact page is
searched for (`searchList = 0`): the head trunk if it has no leaves, otherwise the leaf
closest to `nearby`. -/
def allocHead (pBt : BtShared) (nearby mxPage : Nat) (s : DbState) (pgno : Nat) :
    Nat × DbState × Nat × Option Nat :=
  if get4byte (s.page 1) 32 > mxPage then (SQLITE_CORRUPT, s, pgno, none)
  else if get4byte (s.page 1) 32 = 0 then (SQLITE_CORRUPT, s, pgno, none)
  else if get4byte (s.page (get4byte (s.page 1) 32)) 4 = 0 then
    (SQLITE_OK, s.setPage 1 (memcpy (s.page 1) 32 (s.page (get4byte (s.page 1) 32)) 0 4),
      get4byte (s.page 1) 32, some (get4byte (s.page 1) 32))
  else if get4byte (s.page (get4byte (s.page 1) 32)) 4 > u32 (pBt.usableSize / 4 - 2) then
    (SQLITE_CORRUPT, s, pgno, none)
  else if get4byte (s.page (get4byte (s.page 1) 32))
      (8 + closestTo (s.page (get4byte (s.page 1) 32)) nearby * 4) > mxPage then
    (SQLITE_CORRUPT, s, pgno, none)
  else if get4byte (s.page (get4byte (s.page 1) 32))
      (8 + closestTo (s.page (get4byte (s.page 1) 32)) nearby * 4) = 0 then
    (SQLITE_CORRUPT,
      takeLeaf s (get4byte (s.page 1) 32) (closestTo (s.page (get4byte (s.page 1) 32)) nearby),
      get4byte (s.page (get4byte (s.page 1) 32))
        (8 + closestTo (s.page (get4byte (s.page 1) 32)) nearby * 4), none)
  else
    (SQLITE_OK,
      takeLeaf s (get4byte (s.page 1) 32) (closestTo (s.page (get4byte (s.page 1) 32)) nearby),
      get4byte (s.page (get4byte (s.page 1) 32))
        (8 + closestTo (s.page (get4byte (s.page 1) 32)) nearby * 4),
      some (get4byte (s.page (get4byte (s.page 1) 32))
        (8 + closestTo (s.page (get4byte (s.page 1) 32)) nearby * 4)))

/-- The leaves listed on a free-list trunk page: the `get4byte(&aData[4])` page numbers
stored from offset 8 on. -/
def trunkLeaves (d : Bytes) : List Nat :=
  (List.range (get4byte d 4)).map (fun i => get4byte d (8 + i * 4))

/-- `IsTrunkChain page t Ts`: following the next-trunk pointers (offset 0) from trunk `t`
visits exactly the trunk pages `Ts` and then reaches 0. -/
def IsTrunkChain (page : Nat → Bytes) : Nat → List Nat → Prop
  | t, [] => t = 0
  | t, a :: rest => t = a ∧ a ≠ 0 ∧ IsTrunkChain page (get4byte (page a) 0) rest

/-- Decision procedure for `IsTrunkChain`. -/
def decIsTrunkChain (page : Nat → Bytes) :
    (t : Nat) → (Ts : List Nat) → Decidable (IsTrunkChain page t Ts)
  | t, [] => if h : t = 0 then isTrue h else isFalse h
  | t, a :: rest =>
    match decIsTrunkChain page (get4byte (page a) 0) rest with
    | isTrue h =>
      if h1 : t = a ∧ a ≠ 0 then isTrue ⟨h1.1, h1.2, h⟩
      else isFalse (fun hh => h1 ⟨hh.1, hh.2.1⟩)
    | isFalse h => isFalse (fun hh => h hh.2.2)

instance (page : Nat → Bytes) (t : Nat) (Ts : List Nat) : Decidable (IsTrunkChain page t Ts) :=
  decIsTrunkChain page t Ts

/-- The pages on the free list whose trunks are `Ts`: every trunk followed by its leaves. -/
def freeListPages (page : Nat → Bytes) : List Nat → List Nat
  | [] => []
  | a :: rest => (a :: trunkLeaves (page a)) ++ freeListPages page rest

/-- A well-formed free list with trunk pages `Ts`: the trunks are chained from the head at
offset 32 of page 1, no page occurs twice, page 1 is not on the list, every trunk holds at
most `usableSize/4 - 2` leaves, and the page numbers are below 2^31. -/
def FreeListOk (pBt : BtShared) (s : DbState) (Ts : List Nat) : Prop :=
  IsTrunkChain s.page (get4byte (s.page 1) 32) Ts ∧
  (freeListPages s.page Ts).Nodup ∧
  (∀ x ∈ freeListPages s.page Ts, x ≠ 1 ∧ x < 2147483648) ∧
  (∀ t ∈ Ts, get4byte (s.page t) 4 + 2 ≤ pBt.usableSize / 4)

instance (pBt : BtShared) (s : DbState) (Ts : List Nat) : Decidable (FreeListOk pBt s Ts) := by
  unfold FreeListOk; infer_instance

/-- Image of a free-list trunk page: next trunk `next` and the leaves `leaves` (page numbers
below 256). -/
def exTrunk (next : Nat) (leaves : List Nat) : Bytes :=
  mkBytes ([(3, next), (7, leaves.length)] ++
    (List.range leaves.length).map (fun i => (11 + 4 * i, leaves.getD i 0)))

/-- A 20-page database with the free list 5 -> 9: trunk 5 holds the leaves 12, 7, 15, trunk 9
holds none; the header of page 1 counts 5 free pages. -/
def exFreeDb : DbState :=
  { nPage := 20
    page := fun p =>
      if p = 1 then mkBytes [(35, 5), (39, 5)]
      else if p = 5 then exTrunk 9 [12, 7, 15]
      else if p = 9 then exTrunk 0 []
      else fun _ => 0
    nRef := fun _ => 0 }

/-- A 20-page database with an empty free list. -/
def exNoFreeDb : DbState :=
  { nPage := 20, page := fun _ _ => 0, nRef := fun _ => 0 }

end Btree

namespace Btree

/-! ## Balancing: `balance_quick`, `balance_deeper` and `balance`

A `MemPage` whose page is held keeps its `aData` pointer into the pager's buffer of that page,
so the routines below read a held page through the state (`s.page pgno`) and store every write
back into it.  The overflow arrays `apOvfl[]`, `aiOvfl[]` are kept as lists of their first
`nOverflow` entries. -/

/-- Modelled from the spec: pointer-map entry type `PTRMAP_BTREE` (`btreeInt.h`). -/
def PTRMAP_BTREE : Nat := 5

/-- `ptrmapPutOvflPtr` for the cell at `d[pCell]`: returns the state and the value left in
`*pRC`. -/
def ptrmapPutOvflPtr (s : DbState) (pPage : MemPage) (d : Bytes) (pCell : Nat) (rc : Nat) :
    DbState × Nat :=
  if rc ≠ 0 then (s, rc)
  else if (btreeParseCellPtr pPage d pCell).iOverflow ≠ 0 then
    ptrmapPut pPage.pBt s (get4byte d (pCell + (btreeParseCellPtr pPage d pCell).iOverflow))
      PTRMAP_OVERFLOW1 pPage.pgno rc
  else (s, rc)

/-- `zeroPage`: make the page image an empty b-tree page with the flag byte `flags`. -/
def zeroPage (pPage : MemPage) (flags : Nat) : MemPage :=
  let pBt := pPage.pBt
  let hdr := u8 pPage.hdrOffset
  let data := if pBt.secureDelete then memset0 pPage.aData hdr (pBt.usableSize - hdr)
    else pPage.aData
  let data := setByte data hdr flags
  let first := u16 (hdr + 8 + 4 * (if flags / PTF_LEAF % 2 = 0 then 1 else 0))
  let data := memset0 data (hdr + 1) 4
  let data := setByte data (hdr + 7) 0
  let data := put2byte data (hdr + 5) pBt.usableSize
  let pPage := { pPage with aData := data, nFree := u16 (u32sub pBt.usableSize first) }
  let pPage := (decodeFlags pPage flags).2
  { pPage with
    hdrOffset := hdr, cellOffset := first, nOverflow := 0, aiOvfl := [], apOvfl := []
    maskPage := u16 (u32sub pBt.pageSize 1), nCell := 0, isInit := true }

/-- The loop of `assemblePage`, `for(i=nCell-1; i>=0; i--)`: the cells below index `k` remain
to be placed.  Returns the page image and `cellbody`.  The cells are guaranteed to fit, so
`cellbody` does not go below zero. -/
def assembleLoop (apCell : List Bytes) (aSize : List Nat) (cellOffset : Nat) :
    Nat → Bytes → Nat → Bytes × Nat
  | 0, data, cellbody => (data, cellbody)
  | k + 1, data, cellbody =>
    let sz := u16 (aSize.getD k 0)
    assembleLoop apCell aSize cellOffset k
      (memcpy (put2byte data (cellOffset + 2 * k) (cellbody - sz)) (cellbody - sz)
        (apCell.getD k (fun _ => 0)) 0 sz)
      (cellbody - sz)

/-- `assemblePage`: add the cells `apCell` of sizes `aSize` to the page, which has just been
zeroed by `zeroPage`. -/
def assemblePage (pPage : MemPage) (nCell : Nat) (apCell : List Bytes) (aSize : List Nat) :
    MemPage :=
  let hdr := pPage.hdrOffset
  let nUsable := pPage.pBt.usableSize
  let r := assembleLoop apCell aSize pPage.cellOffset nCell pPage.aData nUsable
  let data := put2byte r.1 (hdr + 3) nCell
  let data := put2byte data (hdr + 5) r.2
  { pPage with
    aData := data
    nFree := u16i ((pPage.nFree : Int) - ((nCell * 2 + nUsable : Nat) : Int) + (r.2 : Int))
    nCell := u16 nCell }

/-- The key-copying loop of `balance_quick`,
`while( ((*(pOut++) = *(pCell++))&0x80) && pCell<pStop );` with `pStop = pCell + 9`: the key
starts at `d[p]` and is copied to `out[o]`; `i` bytes are copied so far.  Returns the buffer
and the number of bytes copied. -/
def copyVarint (d : Bytes) (p o : Nat) : Nat → Nat → Bytes → Bytes × Nat
  | 0, i, out => (out, i)
  | k + 1, i, out =>
    if getByte d (p + i) ≥ 128 ∧ i + 1 < 9 then
      copyVarint d p o k (i + 1) (setByte out (o + i) (getByte d (p + i)))
    else (setByte out (o + i) (getByte d (p + i)), i + 1)

/-- `insertCell` on a held page of the state: the page image is read from the state and the
result stored back; the pointer-map update that `insertCell` makes for a cell stored on the
page goes to the state.  `rcWrite` is what `sqlite3PagerWrite` returns. -/
def insertCellDb (fuel : Nat) (s : DbState) (pPage : MemPage) (i : Nat) (pCell : Bytes)
    (sz : Nat) (pTemp : Option Bytes) (iChild rc rcWrite : Nat) (temp : Bytes) :
    Option (Nat × DbState × MemPage) :=
  let pg := { pPage with aData := s.page pPage.pgno }
  match insertCell fuel pg i pCell sz pTemp iChild rc rcWrite SQLITE_OK temp with
  | none => none
  | some (rc1, pg1) =>
    let s1 := s.setPage pPage.pgno pg1.aData
    if rc = 0 ∧ rc1 = 0 ∧ ¬ (pg.nOverflow ≠ 0 ∨ sz + 2 > pg.nFree) ∧ pg.pBt.autoVacuum = true then
      let r := ptrmapPutOvflPtr s1 pg1 pCell 0 SQLITE_OK
      some (r.2, r.1, { pg1 with aData := r.1.page pPage.pgno })
    else some (rc1, s1, pg1)

/-- `balance_quick`.  `rcWrite` is what `sqlite3PagerWrite` returns inside `insertCell`, `temp`
the pager's scratch page.  The caller holds references on `pParent` and `pPage`, so that
`allocateBtreePage` hands out neither.  Returns the result code, the state, `pParent` and
the new sibling (`none` if no page was allocated); the reference on the sibling is dropped
before the return. -/
def balance_quick (fuel : Nat) (s : DbState) (pParent pPage : MemPage) (pSpace : Bytes)
    (rcWrite : Nat) (temp : Bytes) : Option (Nat × DbState × MemPage × Option MemPage) :=
  let pBt := pPage.pBt
  if pPage.nCell ≤ 0 then some (SQLITE_CORRUPT, s, pParent, none)
  else
    match allocateBtreePage fuel pBt s 0 0 0 with
    | none => none
    | some (rc, s1, pgnoNew) =>
      if rc ≠ SQLITE_OK then some (rc, s1, pParent, none)
      else
        let pCell := pPage.apOvfl.getD 0 (fun _ => 0)
        let szCell := cellSizePtr pPage pCell 0
        let pNew := assemblePage
          (zeroPage (btreePageFromDbPage (s1.page pgnoNew) pgnoNew pBt)
            (PTF_INTKEY ||| PTF_LEAFDATA ||| PTF_LEAF)) 1 [pCell] [szCell]
        let s2 := s1.setPage pgnoNew pNew.aData
        let r :=
          if pBt.autoVacuum then
            (if szCell > pNew.minLocal then
              ptrmapPutOvflPtr (ptrmapPut pBt s2 pgnoNew PTRMAP_BTREE pParent.pgno rc).1 pNew pCell 0
                (ptrmapPut pBt s2 pgnoNew PTRMAP_BTREE pParent.pgno rc).2
             else ptrmapPut pBt s2 pgnoNew PTRMAP_BTREE pParent.pgno rc)
          else (s2, rc)
        let aData := r.1.page pPage.pgno
        let pLast := findCell { pPage with aData := aData } (pPage.nCell - 1)
        let pKey := pLast + skipVarint aData pLast 9 0
        let out := copyVarint aData pKey 4 9 0 pSpace
        match insertCellDb fuel r.1 pParent pParent.nCell out.1 (4 + out.2) none pPage.pgno r.2
            rcWrite temp with
        | none => none
        | some (rc3, s3, par) =>
          let data := put4byte (s3.page pParent.pgno) (pParent.hdrOffset + 8) pgnoNew
          let s4 := s3.setPage pParent.pgno data
          some (rc3, releasePage s4 (some pgnoNew), { par with aData := data },
            some { pNew with aData := s4.page pgnoNew })

/-- The cell loop of `setChildPtrmaps`: `k` cells remain, `i` is the index of the next one. -/
def setChildPtrmapsLoop (pPage : MemPage) : Nat → Nat → DbState → Nat → DbState × Nat
  | 0, _, s, rc => (s, rc)
  | k + 1, i, s, rc =>
    let pCell := findCell { pPage with aData := s.page pPage.pgno } i
    let r := ptrmapPutOvflPtr s pPage (s.page pPage.pgno) pCell rc
    let r := if pPage.leaf = 0 then
        ptrmapPut pPage.pBt r.1 (get4byte (r.1.page pPage.pgno) pCell) PTRMAP_BTREE pPage.pgno r.2
      else r
    setChildPtrmapsLoop pPage k (i + 1) r.1 r.2

/-- `setChildPtrmaps`: returns the result code, the state and the page. -/
def setChildPtrmaps (fuel : Nat) (s : DbState) (pPage : MemPage) :
    Option (Nat × DbState × MemPage) :=
  match btreeInitPage fuel pPage with
  | none => none
  | some (rc, pg) =>
    if rc ≠ SQLITE_OK then some (rc, s, { pg with isInit := pPage.isInit })
    else
      let r := setChildPtrmapsLoop pg pg.nCell 0 s rc
      let r := if pg.leaf = 0 then
          ptrmapPut pg.pBt r.1 (get4byte (r.1.page pg.pgno) (pg.hdrOffset + 8)) PTRMAP_BTREE
            pg.pgno r.2
        else r
      some (r.2, r.1, { pg with isInit := pPage.isInit, aData := r.1.page pg.pgno })

/-- `copyNodeContent`: returns `*pRC`, the state and `pTo`. -/
def copyNodeContent (fuel : Nat) (s : DbState) (pFrom pTo : MemPage) (rc : Nat) :
    Option (Nat × DbState × MemPage) :=
  if rc ≠ SQLITE_OK then some (rc, s, pTo)
  else
    let pBt := pFrom.pBt
    let aFrom := s.page pFrom.pgno
    let iFromHdr := pFrom.hdrOffset
    let iToHdr := if pTo.pgno = 1 then 100 else 0
    let iData := get2byte aFrom (iFromHdr + 5)
    let aTo := memcpy (s.page pTo.pgno) iData aFrom iData (pBt.usableSize - iData)
    let aTo := memcpy aTo iToHdr aFrom iFromHdr (pFrom.cellOffset + 2 * pFrom.nCell)
    let s1 := s.setPage pTo.pgno aTo
    match btreeInitPage fuel { pTo with isInit := false, aData := aTo } with
    | none => none
    | some (rc1, pTo1) =>
      if rc1 ≠ SQLITE_OK then some (rc1, s1, pTo1)
      else if pBt.autoVacuum then setChildPtrmaps fuel s1 pTo1
      else some (rc, s1, pTo1)

/-- `balance_deeper`.  `rcWrite` is what `sqlite3PagerWrite` returns for the root;
`aiOvflOld` are the entries that `aiOvfl[]` of the child's `MemPage` holds from its last use
(zeros in a new cache entry), which this routine does not write.  Returns the result code,
the state, `pRoot` and `*ppChild`. -/
def balance_deeper (fuel : Nat) (s : DbState) (pRoot : MemPage) (rcWrite : Nat)
    (aiOvflOld : List Nat) : Option (Nat × DbState × MemPage × Option MemPage) :=
  let pBt := pRoot.pBt
  if rcWrite ≠ SQLITE_OK then some (rcWrite, s, pRoot, none)
  else
    match allocateBtreePage fuel pBt s 0 pRoot.pgno 0 with
    | none => none
    | some (rc, s1, pgnoChild) =>
      match copyNodeContent fuel s1 pRoot (btreePageFromDbPage (s1.page pgnoChild) pgnoChild pBt)
          rc with
      | none => none
      | some (rc2, s2, pChild) =>
        let r := if pBt.autoVacuum then ptrmapPut pBt s2 pgnoChild PTRMAP_BTREE pRoot.pgno rc2
          else (s2, rc2)
        if r.2 ≠ 0 then
          some (r.2, if rc = SQLITE_OK then releasePage r.1 (some pgnoChild) else r.1, pRoot, none)
        else
          let pChild := { pChild with
            aData := r.1.page pgnoChild
            apOvfl := pRoot.apOvfl.take pRoot.nOverflow ++ pChild.apOvfl.drop pRoot.nOverflow
            aiOvfl := aiOvflOld.take pRoot.nOverflow
            nOverflow := pRoot.nOverflow }
          let root := zeroPage { pRoot with aData := r.1.page pRoot.pgno }
            (getByte (r.1.page pgnoChild) 0 - getByte (r.1.page pgnoChild) 0 / PTF_LEAF % 2 * PTF_LEAF)
          let data := put4byte root.aData (root.hdrOffset + 8) pgnoChild
          let s3 := r.1.setPage pRoot.pgno data
          some (SQLITE_OK, s3, { root with aData := data },
            some { pChild with aData := s3.page pgnoChild })

/-- The test of `balance` that sends a page to `balance_quick`: `iIdx` is the index of the
page in its parent, `aiIdx[iPage-1]`. -/
def balanceUsesQuick (pPage pParent : MemPage) (iIdx : Nat) : Bool :=
  decide (pPage.hasData ≠ 0 ∧ pPage.nOverflow = 1 ∧ pPage.aiOvfl.getD 0 0 = pPage.nCell ∧
    pParent.pgno ≠ 1 ∧ pParent.nCell = iIdx)

/-- The repair of a page that is not the root, in `balance`: `balance_quick` or
`balance_nonroot` on its parent.  `nonroot pParent iIdx isRoot s` stands for the call
`balance_nonroot(pParent, iIdx, pSpace, iPage==1, pCur->hints)`, which yields a result code,
the state and the parent; `rcWrite pgno` is what `sqlite3PagerWrite` returns for page
`pgno`.  Returns the result code, the state and the parent. -/
def balanceChild (nonroot : MemPage → Nat → Bool → DbState → Nat × DbState × MemPage)
    (rcWrite : Nat → Nat) (fuel : Nat) (s : DbState) (pParent pPage : MemPage) (iIdx : Nat)
    (isRoot : Bool) (aBalanceQuickSpace temp : Bytes) : Option (Nat × DbState × MemPage) :=
  if rcWrite pParent.pgno ≠ SQLITE_OK then some (rcWrite pParent.pgno, s, pParent)
  else if balanceUsesQuick pPage pParent iIdx = true then
    match balance_quick fuel s pParent pPage aBalanceQuickSpace (rcWrite pParent.pgno) temp with
    | none => none
    | some r => some (r.1, r.2.1, r.2.2.1)
  else some (nonroot pParent iIdx isRoot s)

/-- `balance`: the loop that walks from the cursor's page towards the root, `n` iterations
at most.  `fuel` bounds the loops of the routines that are called. -/
def balance (nonroot : MemPage → Nat → Bool → DbState → Nat × DbState × MemPage)
    (rcWrite : Nat → Nat) (fuel : Nat) (aBalanceQuickSpace temp : Bytes) (aiOvflOld : List Nat) :
    Nat → DbState → BtCursor → Option (Nat × DbState × BtCursor)
  | 0, _, _ => none
  | n + 1, s, pCur =>
    let nMin := u32 (pCur.pBt.usableSize * 2) / 3
    let iPage := pCur.iPage.toNat
    let pPage := pCur.apPage iPage
    if pCur.iPage = 0 then
      if pPage.nOverflow ≠ 0 then
        match balance_deeper fuel s pPage (rcWrite pPage.pgno) aiOvflOld with
        | none => none
        | some (rc, s1, root, child) =>
          if rc = SQLITE_OK then
            balance nonroot rcWrite fuel aBalanceQuickSpace temp aiOvflOld n s1
              { pCur with
                iPage := 1
                apPage := setAt (setAt pCur.apPage 0 root) 1 (child.getD (pCur.apPage 1))
                aiIdx := setAt (setAt pCur.aiIdx 0 0) 1 0 }
          else some (rc, s1, { pCur with apPage := setAt pCur.apPage 0 root })
      else some (SQLITE_OK, s, pCur)
    else if pPage.nOverflow = 0 ∧ pPage.nFree ≤ nMin then some (SQLITE_OK, s, pCur)
    else
      match balanceChild nonroot rcWrite fuel s (pCur.apPage (iPage - 1)) pPage
          (pCur.aiIdx (iPage - 1)) (decide (iPage = 1)) aBalanceQuickSpace temp with
      | none => none
      | some (rc, s1, parent) =>
        let cur := { pCur with
          iPage := pCur.iPage - 1
          apPage := setAt (setAt pCur.apPage (iPage - 1) parent) iPage
            { pPage with nOverflow := 0, aiOvfl := [], apOvfl := [] } }
        if rc = SQLITE_OK then
          balance nonroot rcWrite fuel aBalanceQuickSpace temp aiOvflOld n
            (releasePage s1 (some pPage.pgno)) cur
        else some (rc, releasePage s1 (some pPage.pgno), cur)

/-- Image of an empty table interior page whose right child is page 3. -/
def exRootImage : Bytes := mkBytes [(0, 5), (5, 4), (6, 0), (11, 3)]

/-- A 3-page database without free pages: the table rooted at page 2 has the single leaf
page 3 with the keys 5, 7, 10; both pages are held by a cursor, page 1 by the connection. -/
def exQuickDb : DbState :=
  { nPage := 3
    page := fun p => if p = 2 then exRootImage else if p = 3 then exLeafKeys [5, 7, 10]
      else fun _ => 0
    nRef := fun p => if p = 1 ∨ p = 2 ∨ p = 3 then 1 else 0 }

/-- The root page 2 of `exQuickDb`, after `btreeInitPage`. -/
def exQuickParent : MemPage :=
  match btreeInitPage 1024 (blankPage exBt1024 exRootImage 2) with
  | some r => r.2
  | none => blankPage exBt1024 exRootImage 2

/-- A 4-byte table-leaf cell: payload size 2, key 20, payload bytes 0xAA 0xBB. -/
def exOvflCell : Bytes := mkBytes [(0, 2), (1, 20), (2, 170), (3, 187)]

/-- The leaf page 3 of `exQuickDb` after an insert of key 20 behind its last cell that found
no room: the cell `exOvflCell` is its overflow cell, at index 3. -/
def exQuickPage : MemPage :=
  match btreeInitPage 1024 (blankPage exBt1024 (exLeafKeys [5, 7, 10]) 3) with
  | some r => { r.2 with nOverflow := 1, apOvfl := [exOvflCell], aiOvfl := [3] }
  | none => blankPage exBt1024 (exLeafKeys [5, 7, 10]) 3

/-- The cursor of the insert: on leaf page 3, reached through the right-child pointer of the
root page 2. -/
def exQuickCur : BtCursor :=
  { freshCursor exBt1024 2 with
    eState := CURSOR_VALID, iPage := 1
    apPage := setAt (setAt (freshCursor exBt1024 2).apPage 0 exQuickParent) 1 exQuickPage
    aiIdx := fun _ => 0 }

/-- A 2-page database without free pages: the table rooted at page 2 is the single leaf
with the keys 5, 7, 10, held by a cursor. -/
def exDeeperDb : DbState :=
  { nPage := 2
    page := fun p => if p = 2 then exLeafKeys [5, 7, 10] else fun _ => 0
    nRef := fun p => if p = 2 then 1 else 0 }

/-- A 4-byte table-leaf cell: payload size 2, key 6, payload bytes 0xAA 0xBB. -/
def exMidCell : Bytes := mkBytes [(0, 2), (1, 6), (2, 170), (3, 187)]

/-- The root page 2 of `exDeeperDb` after an insert of key 6 that found no room: the cell
`exMidCell` is its overflow cell, at index 1 (between the keys 5 and 7). -/
def exDeeperRoot : MemPage :=
  match btreeInitPage 1024 (blankPage exBt1024 (exLeafKeys [5, 7, 10]) 2) with
  | some r => { r.2 with nOverflow := 1, apOvfl := [exMidCell], aiOvfl := [1] }
  | none => blankPage exBt1024 (exLeafKeys [5, 7, 10]) 2

end Btree

namespace Btree

/-! ## Transactions and shared-cache table locks -/

/-- Modelled from the spec: transaction state `TRANS_NONE` of the absent `btreeInt.h`. -/
def TRANS_NONE : Nat := 0

/-- Modelled from the spec: transaction state `TRANS_READ` of the absent `btreeInt.h`. -/
def TRANS_READ : Nat := 1

/-- Modelled from the spec: transaction state `TRANS_WRITE` of the absent `btreeInt.h`. -/
def TRANS_WRITE : Nat := 2

/-- Modelled from the spec: lock type `READ_LOCK` of the absent `btreeInt.h`. -/
def READ_LOCK : Nat := 1

/-- Modelled from the spec: lock type `WRITE_LOCK` of the absent `btreeInt.h`; the code
asserts `READ_LOCK+1==WRITE_LOCK`. -/
def WRITE_LOCK : Nat := 2

/-- Modelled from the spec: `MASTER_ROOT` of the absent `sqliteInt.h`, the root page of the
schema table. -/
def MASTER_ROOT : Nat := 1

/-- Result code `SQLITE_ERROR`. -/
def SQLITE_ERROR : Nat := 1

/-- Result code `SQLITE_ABORT`. -/
def SQLITE_ABORT : Nat := 4

/-- Result code `SQLITE_BUSY`. -/
def SQLITE_BUSY : Nat := 5

/-- Result code `SQLITE_READONLY`. -/
def SQLITE_READONLY : Nat := 8

/-- Result code `SQLITE_LOCKED_SHAREDCACHE`, that is `SQLITE_LOCKED | (1<<8)`. -/
def SQLITE_LOCKED_SHAREDCACHE : Nat := 262

/-- Modelled from the spec: `struct BtLock` of the absent `btreeInt.h`.  A handle (`Btree*`)
is named by its number. -/
structure BtLock where
  pBtree : Nat
  iTable : Nat
  eLock : Nat
deriving DecidableEq

/-- The transaction and lock fields of one `BtShared` and of the `Btree` handles `0 ..
nHandle - 1` that share it: `inTrans p` and `sharable p` are the fields of handle `p`;
`pWriter` is `none` for a null pointer; `readOnly`, `exclusive` and `pending` are the bits
`BTS_READ_ONLY`, `BTS_EXCLUSIVE` and `BTS_PENDING` of `btsFlags`; `pLock` is the lock list
from its head; `hasPage1` stands for `pPage1 != 0`. -/
structure BtTrans where
  nHandle : Nat
  inTrans : Nat → Nat
  sharable : Nat → Bool
  inTransaction : Nat
  nTransaction : Int
  pWriter : Option Nat
  readOnly : Bool
  exclusive : Bool
  pending : Bool
  pLock : List BtLock
  hasPage1 : Bool

/-- The `for` loop of `querySharedCacheTableLock`: whether it meets a lock of another handle
on table `iTab` whose type differs from `eLock`. -/
def lockConflict (p iTab eLock : Nat) : List BtLock → Bool
  | [] => false
  | l :: rest =>
    if l.pBtree ≠ p ∧ l.iTable = iTab ∧ l.eLock ≠ eLock then true
    else lockConflict p iTab eLock rest

/-- `querySharedCacheTableLock`: result code and the shared state (the refusal of a write
lock sets `BTS_PENDING`). -/
def querySharedCacheTableLock (s : BtTrans) (p iTab eLock : Nat) : Nat × BtTrans :=
  if s.sharable p = false then (SQLITE_OK, s)
  else if s.pWriter ≠ some p ∧ s.exclusive = true then (SQLITE_LOCKED_SHAREDCACHE, s)
  else if lockConflict p iTab eLock s.pLock = true then
    (SQLITE_LOCKED_SHAREDCACHE, if eLock = WRITE_LOCK then { s with pending := true } else s)
  else (SQLITE_OK, s)

/-- The search loop of `setSharedCacheTableLock`: whether handle `p` has a lock entry for
table `iTable`. -/
def hasLock (p iTable : Nat) : List BtLock → Bool
  | [] => false
  | l :: rest => if l.iTable = iTable ∧ l.pBtree = p then true else hasLock p iTable rest

/-- The end of `setSharedCacheTableLock`: the first entry of handle `p` for table `iTable`
gets `eLock` if that is more than it has. -/
def raiseLock (p iTable eLock : Nat) : List BtLock → List BtLock
  | [] => []
  | l :: rest =>
    if l.iTable = iTable ∧ l.pBtree = p then
      (if eLock > l.eLock then { l with eLock := eLock } else l) :: rest
    else l :: raiseLock p iTable eLock rest

/-- `setSharedCacheTableLock`; `allocOk` tells whether `sqlite3MallocZero` succeeds.  A new
entry is zeroed and linked at the head of the list. -/
def setSharedCacheTableLock (s : BtTrans) (p iTable eLock : Nat) (allocOk : Bool) :
    Nat × BtTrans :=
  if hasLock p iTable s.pLock = true then
    (SQLITE_OK, { s with pLock := raiseLock p iTable eLock s.pLock })
  else if allocOk = false then (SQLITE_NOMEM, s)
  else
    let pNew : BtLock := { pBtree := p, iTable := iTable, eLock := 0 }
    (SQLITE_OK, { s with pLock := raiseLock p iTable eLock (pNew :: s.pLock) })

/-- `clearAllSharedCacheTableLocks`. -/
def clearAllSharedCacheTableLocks (s : BtTrans) (p : Nat) : BtTrans :=
  let s := { s with pLock := s.pLock.filter (fun l => l.pBtree ≠ p) }
  if s.pWriter = some p then { s with pWriter := none, exclusive := false, pending := false }
  else if s.nTransaction = 2 then { s with pending := false }
  else s

/-- `downgradeAllSharedCacheTableLocks`. -/
def downgradeAllSharedCacheTableLocks (s : BtTrans) (p : Nat) : BtTrans :=
  if s.pWriter = some p then
    { s with
      pWriter := none
      exclusive := false
      pending := false
      pLock := s.pLock.map (fun l => { l with eLock := READ_LOCK }) }
  else s

/-- `sqlite3BtreeLockTable`. -/
def sqlite3BtreeLockTable (s : BtTrans) (p iTab isWriteLock : Nat) (allocOk : Bool) :
    Nat × BtTrans :=
  if s.sharable p = true then
    if (querySharedCacheTableLock s p iTab (READ_LOCK + isWriteLock)).1 = SQLITE_OK then
      setSharedCacheTableLock (querySharedCacheTableLock s p iTab (READ_LOCK + isWriteLock)).2
        p iTab (READ_LOCK + isWriteLock) allocOk
    else querySharedCacheTableLock s p iTab (READ_LOCK + isWriteLock)
  else (SQLITE_OK, s)

/-- `unlockBtreeIfUnused`. -/
def unlockBtreeIfUnused (s : BtTrans) : BtTrans :=
  if s.inTransaction = TRANS_NONE ∧ s.hasPage1 = true then { s with hasPage1 := false } else s

/-- What one call of `lockBtree` does, as far as the pager (absent `pager.c`) and the header
of page 1 decide it: the result code, whether the call leaves `pPage1` set, and whether it
finds a file format that makes the database read-only. -/
structure LockOutcome where
  rc : Nat
  page1 : Bool
  readOnly : Bool

/-- The part of `lockBtree` that touches the transaction state: it may set `BTS_READ_ONLY`,
and it leaves `pPage1` set only when it returns `SQLITE_OK`. -/
def lockBtreeTrans (s : BtTrans) (o : LockOutcome) : Nat × BtTrans :=
  (o.rc, { s with readOnly := s.readOnly || o.readOnly
                  hasPage1 := decide (o.rc = SQLITE_OK) && o.page1 })

/-- What `sqlite3BtreeBeginTrans` gets from outside the transaction state: the outcome of
the `k`-th call of `lockBtree`; in the `j`-th round of the `do` loop the result code of
`sqlite3PagerBegin` followed by `newDatabase`, and whether the busy handler asks for another
round; whether the database size in the header of page 1 is stale, the result code of
`sqlite3PagerWrite` on page 1 and that of `sqlite3PagerOpenSavepoint`. -/
structure BeginEnv where
  lockOutcome : Nat → LockOutcome
  pagerBegin : Nat → Nat
  busyHandler : Nat → Bool
  sizeStale : Bool
  rcWrite : Nat
  rcSavepoint : Nat

/-- The loop `while( pBt->pPage1==0 && SQLITE_OK==(rc = lockBtree(pBt)) )`; `k` counts the
calls of `lockBtree`. -/
def lockLoop (env : BeginEnv) : Nat → Nat → BtTrans → Nat → Option (Nat × Nat × BtTrans)
  | 0, _, _, _ => none
  | fuel + 1, k, s, rc =>
    if s.hasPage1 = true then some (rc, k, s)
    else if (lockBtreeTrans s (env.lockOutcome k)).1 = SQLITE_OK then
      lockLoop env fuel (k + 1) (lockBtreeTrans s (env.lockOutcome k)).2 SQLITE_OK
    else some ((lockBtreeTrans s (env.lockOutcome k)).1, k + 1, (lockBtreeTrans s (env.lockOutcome k)).2)

/-- The `do ... while` loop of `sqlite3BtreeBeginTrans`; `j` counts its rounds. -/
def beginLoop (env : BeginEnv) (wrflag : Nat) :
    Nat → Nat → Nat → BtTrans → Nat → Option (Nat × BtTrans)
  | 0, _, _, _, _ => none
  | fuel + 1, k, j, s, rc =>
    match lockLoop env (fuel + 1) k s rc with
    | none => none
    | some (rc, k, s) =>
      let rc :=
        if rc = SQLITE_OK ∧ wrflag ≠ 0 then
          if s.readOnly = true then SQLITE_READONLY else env.pagerBegin j
        else rc
      let s := if rc ≠ SQLITE_OK then unlockBtreeIfUnused s else s
      if rc % 256 = SQLITE_BUSY ∧ s.inTransaction = TRANS_NONE ∧ env.busyHandler j = true then
        beginLoop env wrflag fuel k (j + 1) s rc
      else some (rc, s)

/-- The part of `sqlite3BtreeBeginTrans` that runs when the `do` loop ends with
`SQLITE_OK`: result code and state. -/
def beginCommit (env : BeginEnv) (s : BtTrans) (p wrflag : Nat) : Nat × BtTrans :=
  let s :=
    if s.inTrans p = TRANS_NONE then
      let s := { s with nTransaction := s.nTransaction + 1 }
      if s.sharable p = true then
        { s with pLock := { pBtree := p, iTable := 1, eLock := READ_LOCK } :: s.pLock }
      else s
    else s
  let s := { s with inTrans := setAt s.inTrans p (if wrflag ≠ 0 then TRANS_WRITE else TRANS_READ) }
  let s := if s.inTrans p > s.inTransaction then { s with inTransaction := s.inTrans p } else s
  if wrflag ≠ 0 then
    let s := { s with pWriter := some p, exclusive := decide (wrflag > 1) }
    if env.sizeStale = true then (env.rcWrite, s) else (SQLITE_OK, s)
  else (SQLITE_OK, s)

/-- The label `trans_begun` of `sqlite3BtreeBeginTrans`. -/
def transBegun (env : BeginEnv) (wrflag : Nat) (r : Nat × BtTrans) : Nat × BtTrans :=
  if r.1 = SQLITE_OK ∧ wrflag ≠ 0 then (env.rcSavepoint, r.2) else r

/-- The handle whose connection blocks the request in `sqlite3BtreeBeginTrans` (`pBlock`),
for an exclusive request: the owner of the first lock of another handle. -/
def firstOtherLock (p : Nat) : List BtLock → Option Nat
  | [] => none
  | l :: rest => if l.pBtree ≠ p then some l.pBtree else firstOtherLock p rest

/-- `sqlite3BtreeBeginTrans`.  There is no result if the lock loop does not come to an end
within `fuel` rounds, or where the code follows the null `pWriter`. -/
def sqlite3BtreeBeginTrans (fuel : Nat) (s : BtTrans) (p wrflag : Nat) (env : BeginEnv) :
    Option (Nat × BtTrans) :=
  if s.inTrans p = TRANS_WRITE ∨ (s.inTrans p = TRANS_READ ∧ wrflag = 0) then
    some (transBegun env wrflag (SQLITE_OK, s))
  else if s.readOnly = true ∧ wrflag ≠ 0 then some (transBegun env wrflag (SQLITE_READONLY, s))
  else if (wrflag ≠ 0 ∧ s.inTransaction = TRANS_WRITE) ∨ s.pending = true then
    match s.pWriter with
    | none => none
    | some _ => some (transBegun env wrflag (SQLITE_LOCKED_SHAREDCACHE, s))
  else if wrflag > 1 ∧ (firstOtherLock p s.pLock).isSome = true then
    some (transBegun env wrflag (SQLITE_LOCKED_SHAREDCACHE, s))
  else if (querySharedCacheTableLock s p MASTER_ROOT READ_LOCK).1 ≠ SQLITE_OK then
    some (transBegun env wrflag (querySharedCacheTableLock s p MASTER_ROOT READ_LOCK))
  else
    match beginLoop env wrflag fuel 0 0 (querySharedCacheTableLock s p MASTER_ROOT READ_LOCK).2
        SQLITE_OK with
    | none => none
    | some (rc, s) =>
      if rc = SQLITE_OK then some (transBegun env wrflag (beginCommit env s p wrflag))
      else some (transBegun env wrflag (rc, s))

/-- `btreeEndTransaction`; `activeVdbeCnt` is the field of the connection `p->db`. -/
def btreeEndTransaction (s : BtTrans) (p : Nat) (activeVdbeCnt : Int) : BtTrans :=
  if s.inTrans p > TRANS_NONE ∧ activeVdbeCnt > 1 then
    { downgradeAllSharedCacheTableLocks s p with
      inTrans := setAt (downgradeAllSharedCacheTableLocks s p).inTrans p TRANS_READ }
  else
    let s :=
      if s.inTrans p ≠ TRANS_NONE then
        let s := clearAllSharedCacheTableLocks s p
        let s := { s with nTransaction := s.nTransaction - 1 }
        if s.nTransaction = 0 then { s with inTransaction := TRANS_NONE } else s
      else s
    unlockBtreeIfUnused { s with inTrans := setAt s.inTrans p TRANS_NONE }

/-- `sqlite3BtreeCommitPhaseTwo`; `rcPager` is the result code of
`sqlite3PagerCommitPhaseTwo`. -/
def sqlite3BtreeCommitPhaseTwo (s : BtTrans) (p : Nat) (bCleanup : Int) (rcPager : Nat)
    (activeVdbeCnt : Int) : Nat × BtTrans :=
  if s.inTrans p = TRANS_NONE then (SQLITE_OK, s)
  else if s.inTrans p = TRANS_WRITE then
    if rcPager ≠ SQLITE_OK ∧ bCleanup = 0 then (rcPager, s)
    else (SQLITE_OK, btreeEndTransaction { s with inTransaction := TRANS_READ } p activeVdbeCnt)
  else (SQLITE_OK, btreeEndTransaction s p activeVdbeCnt)

/-- `sqlite3BtreeCommitPhaseOne` on the transaction state: without a write transaction it is
a no-op, otherwise `rcOne` is the result code of `autoVacuumCommit` and
`sqlite3PagerCommitPhaseOne`. -/
def sqlite3BtreeCommitPhaseOne (s : BtTrans) (p : Nat) (rcOne : Nat) : Nat :=
  if s.inTrans p = TRANS_WRITE then rcOne else SQLITE_OK

/-- `sqlite3BtreeCommit`. -/
def sqlite3BtreeCommit (s : BtTrans) (p : Nat) (rcOne rcPager : Nat) (activeVdbeCnt : Int) :
    Nat × BtTrans :=
  if sqlite3BtreeCommitPhaseOne s p rcOne = SQLITE_OK then
    sqlite3BtreeCommitPhaseTwo s p 0 rcPager activeVdbeCnt
  else (sqlite3BtreeCommitPhaseOne s p rcOne, s)

/-! ## Cursors under a rollback -/

/-- `saveAllCursors(pBt, 0, 0)` over the cursor list of the `BtShared`: every valid cursor is
saved, and the first failure ends the loop.  `keyBuf i` is the key buffer oracle of
`saveCursorPosition` for the `i`-th cursor of the list. -/
def saveAllCursors (keyBuf : Nat → Option (Nat × Bytes)) : Nat → List BtCursor →
    Nat × List BtCursor
  | _, [] => (SQLITE_OK, [])
  | i, c :: rest =>
    if c.eState = CURSOR_VALID then
      if (saveCursorPosition c (keyBuf i)).1 ≠ SQLITE_OK then
        ((saveCursorPosition c (keyBuf i)).1, (saveCursorPosition c (keyBuf i)).2 :: rest)
      else
        ((saveAllCursors keyBuf (i + 1) rest).1,
          (saveCursorPosition c (keyBuf i)).2 :: (saveAllCursors keyBuf (i + 1) rest).2)
    else ((saveAllCursors keyBuf (i + 1) rest).1, c :: (saveAllCursors keyBuf (i + 1) rest).2)

/-- The body of the loop of `sqlite3BtreeTripAllCursors` for one cursor.  The pointers
`apPage[0..iPage]` are set to 0: a null page pointer is the blank page with the page number 0,
a number that no page of a database has. -/
def tripCursor (errCode : Int) (c : BtCursor) : BtCursor :=
  { sqlite3BtreeClearCursor c with
    eState := CURSOR_FAULT
    skipNext := errCode
    apPage := fun i => if (i : Int) ≤ c.iPage then blankPage c.pBt (fun _ => 0) 0
                       else c.apPage i }

/-- `sqlite3BtreeTripAllCursors` over the cursor list of the `BtShared`. -/
def sqlite3BtreeTripAllCursors (errCode : Int) (cursors : List BtCursor) : List BtCursor :=
  cursors.map (tripCursor errCode)

/-- `sqlite3BtreeRollback`: result code, transaction state and cursor list.  `rcPager` is
the result code of `sqlite3PagerRollback`; the page count re-read from page 1 is outside the
state kept here. -/
def sqlite3BtreeRollback (s : BtTrans) (cursors : List BtCursor) (p : Nat) (tripCode : Int)
    (keyBuf : Nat → Option (Nat × Bytes)) (rcPager : Nat) (activeVdbeCnt : Int) :
    Nat × BtTrans × List BtCursor :=
  let saved : Nat × List BtCursor :=
    if tripCode = 0 then saveAllCursors keyBuf 0 cursors else (SQLITE_OK, cursors)
  let tripCode : Int := if tripCode = 0 then (saved.1 : Int) else tripCode
  let rc : Nat := saved.1
  let cursors := if tripCode ≠ 0 then sqlite3BtreeTripAllCursors tripCode saved.2 else saved.2
  if s.inTrans p = TRANS_WRITE then
    (if rcPager ≠ SQLITE_OK then rcPager else rc,
      btreeEndTransaction { s with inTransaction := TRANS_READ } p activeVdbeCnt, cursors)
  else (rc, btreeEndTransaction s p activeVdbeCnt, cursors)

end Btree

namespace Btree

/-! ## Reachable transaction states -/

/-- Number of the handles `0 .. n - 1` whose `inTrans` is not `TRANS_NONE`. -/
def nActive (inTrans : Nat → Nat) : Nat → Nat
  | 0 => 0
  | n + 1 => nActive inTrans n + (if inTrans n ≠ TRANS_NONE then 1 else 0)

/-- Maximum of `inTrans` over the handles `0 .. n - 1`. -/
def maxTrans (inTrans : Nat → Nat) : Nat → Nat
  | 0 => TRANS_NONE
  | n + 1 => max (maxTrans inTrans n) (inTrans n)

/-- All handles idle: no handle has a transaction, the shared state is that of a `BtShared`
without transactions. -/
def AllIdle (s : BtTrans) : Prop :=
  (∀ p, p < s.nHandle → s.inTrans p = TRANS_NONE) ∧ s.inTransaction = TRANS_NONE ∧
  s.nTransaction = 0 ∧ s.pWriter = none ∧ s.exclusive = false ∧ s.pending = false ∧
  s.pLock = [] ∧ s.hasPage1 = false

instance (s : BtTrans) : Decidable (AllIdle s) := by
  unfold AllIdle; infer_instance

/-- One call on a handle of the `BtShared`.  `sqlite3BtreeLockTable` is called as its
assertions demand: by a handle with an open transaction, and for a write lock by the writer
(`p==pBt->pWriter && p->inTrans==TRANS_WRITE`). -/
inductive TransStep : BtTrans → BtTrans → Prop
  | beginTrans (s : BtTrans) (fuel p wrflag : Nat) (env : BeginEnv) (r : Nat × BtTrans) :
      p < s.nHandle → sqlite3BtreeBeginTrans fuel s p wrflag env = some r → TransStep s r.2
  | commitPhaseTwo (s : BtTrans) (p : Nat) (bCleanup : Int) (rcPager : Nat) (cnt : Int) :
      p < s.nHandle → TransStep s (sqlite3BtreeCommitPhaseTwo s p bCleanup rcPager cnt).2
  | rollback (s : BtTrans) (cursors : List BtCursor) (p : Nat) (tripCode : Int)
      (keyBuf : Nat → Option (Nat × Bytes)) (rcPager : Nat) (cnt : Int) :
      p < s.nHandle →
      TransStep s (sqlite3BtreeRollback s cursors p tripCode keyBuf rcPager cnt).2.1
  | lockTable (s : BtTrans) (p iTab isWriteLock : Nat) (allocOk : Bool) :
      p < s.nHandle → s.inTrans p ≠ TRANS_NONE → isWriteLock ≤ 1 →
      (isWriteLock = 1 → s.pWriter = some p ∧ s.inTrans p = TRANS_WRITE) →
      TransStep s (sqlite3BtreeLockTable s p iTab isWriteLock allocOk).2

/-- State `s` is reached from the all-idle state `s0` by calls on the handles. -/
def TransReachable (s0 s : BtTrans) : Prop :=
  AllIdle s0 ∧ Relation.ReflTransGen TransStep s0 s

/-- What holds in every reachable transaction state. -/
def TransInv (s : BtTrans) : Prop :=
  (∀ p, p < s.nHandle → s.inTrans p ≤ TRANS_WRITE) ∧
  (∀ p, p < s.nHandle → s.inTrans p = TRANS_WRITE → s.pWriter = some p) ∧
  (∀ p, s.pWriter = some p → p < s.nHandle ∧ s.inTrans p = TRANS_WRITE) ∧
  s.inTransaction = maxTrans s.inTrans s.nHandle ∧
  s.nTransaction = (nActive s.inTrans s.nHandle : Int) ∧
  (s.exclusive = true → s.pWriter ≠ none) ∧
  (s.pending = true → s.pWriter ≠ none) ∧
  (∀ l, l ∈ s.pLock → l.pBtree < s.nHandle ∧ s.inTrans l.pBtree ≠ TRANS_NONE ∧
    (l.eLock = READ_LOCK ∨ (l.eLock = WRITE_LOCK ∧ s.pWriter = some l.pBtree))) ∧
  (s.pLock.map (fun l => (l.pBtree, l.iTable))).Nodup ∧
  (s.inTransaction ≠ TRANS_NONE → s.hasPage1 = true) ∧
  (s.pWriter ≠ none → s.readOnly = false)

/-- Handle `q` holds an exclusive transaction. -/
def HoldsExclusive (s : BtTrans) (q : Nat) : Prop :=
  s.pWriter = some q ∧ s.exclusive = true

/-! ## Example states -/

/-- Three sharable idle handles on a `BtShared` without transactions. -/
def exIdle : BtTrans :=
  { nHandle := 3, inTrans := fun _ => TRANS_NONE, sharable := fun _ => true
    inTransaction := TRANS_NONE, nTransaction := 0, pWriter := none
    readOnly := false, exclusive := false, pending := false, pLock := [], hasPage1 := false }

/-- An environment in which the pager grants everything at once. -/
def exEnv : BeginEnv :=
  { lockOutcome := fun _ => { rc := SQLITE_OK, page1 := true, readOnly := false }
    pagerBegin := fun _ => SQLITE_OK
    busyHandler := fun _ => false
    sizeStale := false
    rcWrite := SQLITE_OK
    rcSavepoint := SQLITE_OK }

/-- The state after handle 0 has begun a write transaction and handle 1 a read
transaction. -/
def exWriterReader : BtTrans :=
  ((sqlite3BtreeBeginTrans 2
      ((sqlite3BtreeBeginTrans 2 exIdle 0 1 exEnv).getD (SQLITE_OK, exIdle)).2 1 0 exEnv).getD
    (SQLITE_OK, exIdle)).2

/-- The state `exWriterReader` after handle 1 has taken a read lock on table 5. -/
def exReaderLocked : BtTrans :=
  (sqlite3BtreeLockTable exWriterReader 1 5 0 true).2

/-- The state `exWriterReader` after the writer, handle 0, has taken the write lock on
table 7. -/
def exWriterLocked : BtTrans :=
  (sqlite3BtreeLockTable exWriterReader 0 7 1 true).2

/-- The state `exReaderLocked` after the writer, handle 0, has been refused the write lock
on table 5. -/
def exPending : BtTrans :=
  (sqlite3BtreeLockTable exReaderLocked 0 5 1 true).2

end Btree

namespace Btree

/-! ## Stepping a cursor -/

/-- Macro `restoreCursorPosition(p)`. -/
def restoreCursorPosition (fuel : Nat) (store : PageStore) (pCur : BtCursor)
    (idxCmp : MemPage → Nat → Nat × Int) (allocOk : Bool) : Option (Nat × BtCursor) :=
  if pCur.eState ≥ CURSOR_REQUIRESEEK then
    btreeRestoreCursorPosition fuel store pCur idxCmp allocOk
  else some (SQLITE_OK, pCur)

/-- `moveToParent`.  The released page stays in `apPage` above `iPage`. -/
def moveToParent (pCur : BtCursor) : BtCursor :=
  { pCur with
    iPage := pCur.iPage - 1
    info := { pCur.info with nSize := 0 }
    validNKey := false }

/-- `moveToLeftmost`. -/
def moveToLeftmost (store : PageStore) : Nat → BtCursor → Option (Nat × BtCursor)
  | 0, _ => none
  | fuel + 1, pCur =>
    let pPage := pCur.apPage pCur.iPage.toNat
    if pPage.leaf ≠ 0 then some (SQLITE_OK, pCur)
    else
      match moveToChild (fuel + 1) store pCur
          (get4byte pPage.aData (findCell pPage (pCur.aiIdx pCur.iPage.toNat))) with
      | none => none
      | some (rc, pCur) =>
        if rc ≠ 0 then some (rc, pCur) else moveToLeftmost store fuel pCur

/-- `moveToRightmost`. -/
def moveToRightmost (store : PageStore) : Nat → BtCursor → Option (Nat × BtCursor)
  | 0, _ => none
  | fuel + 1, pCur =>
    let pPage := pCur.apPage pCur.iPage.toNat
    if pPage.leaf ≠ 0 then
      some (SQLITE_OK, { pCur with
        aiIdx := setAt pCur.aiIdx pCur.iPage.toNat (u16i ((pPage.nCell : Int) - 1))
        info := { pCur.info with nSize := 0 }
        validNKey := false })
    else
      match moveToChild (fuel + 1) store
          { pCur with aiIdx := setAt pCur.aiIdx pCur.iPage.toNat pPage.nCell }
          (get4byte pPage.aData (pPage.hdrOffset + 8)) with
      | none => none
      | some (rc, pCur) =>
        if rc ≠ 0 then some (rc, pCur) else moveToRightmost store fuel pCur

/-- `sqlite3BtreeFirst`: result code, `*pRes` (initially `res`) and the cursor. -/
def sqlite3BtreeFirst (fuel : Nat) (store : PageStore) (pCur : BtCursor) (res : Int) :
    Option (Nat × Int × BtCursor) :=
  match moveToRoot fuel store pCur with
  | none => none
  | some (rc, pCur) =>
    if rc = SQLITE_OK then
      if pCur.eState = CURSOR_INVALID then some (SQLITE_OK, 1, pCur)
      else
        match moveToLeftmost store fuel pCur with
        | none => none
        | some (rc, pCur) => some (rc, 0, pCur)
    else some (rc, res, pCur)

/-- `sqlite3BtreeLast`. -/
def sqlite3BtreeLast (fuel : Nat) (store : PageStore) (pCur : BtCursor) (res : Int) :
    Option (Nat × Int × BtCursor) :=
  if CURSOR_VALID = pCur.eState ∧ pCur.atLast = true then some (SQLITE_OK, res, pCur)
  else
    match moveToRoot fuel store pCur with
    | none => none
    | some (rc, pCur) =>
      if rc = SQLITE_OK then
        if CURSOR_INVALID = pCur.eState then some (SQLITE_OK, 1, pCur)
        else
          match moveToRightmost store fuel pCur with
          | none => none
          | some (rc, pCur) => some (rc, 0, { pCur with atLast := decide (rc = SQLITE_OK) })
      else some (rc, res, pCur)

/-- The `do ... while` loop of `sqlite3BtreeNext` that leaves an exhausted leaf: `(true, c)`
when it ends on an ancestor with a cell left, `(false, c)` when it ends at the root, with the
cursor invalid. -/
def nextClimb : Nat → BtCursor → Option (Bool × BtCursor)
  | 0, _ => none
  | fuel + 1, pCur =>
    if pCur.iPage = 0 then some (false, { pCur with eState := CURSOR_INVALID })
    else
      if (moveToParent pCur).aiIdx (moveToParent pCur).iPage.toNat ≥
          ((moveToParent pCur).apPage (moveToParent pCur).iPage.toNat).nCell then
        nextClimb fuel (moveToParent pCur)
      else some (true, moveToParent pCur)

/-- `sqlite3BtreeNext`: result code, `*pRes` (initially `res`) and the cursor. -/
def sqlite3BtreeNext (store : PageStore) (idxCmp : MemPage → Nat → Nat × Int) (allocOk : Bool) :
    Nat → BtCursor → Int → Option (Nat × Int × BtCursor)
  | 0, _, _ => none
  | fuel + 1, pCur, res =>
    match restoreCursorPosition (fuel + 1) store pCur idxCmp allocOk with
    | none => none
    | some (rc, pCur) =>
      if rc ≠ SQLITE_OK then some (rc, res, pCur)
      else if CURSOR_INVALID = pCur.eState then some (SQLITE_OK, 1, pCur)
      else if pCur.skipNext > 0 then some (SQLITE_OK, 0, { pCur with skipNext := 0 })
      else
        let pPage := pCur.apPage pCur.iPage.toNat
        let idx := u16 (pCur.aiIdx pCur.iPage.toNat + 1)
        let pCur := { pCur with
          skipNext := 0
          aiIdx := setAt pCur.aiIdx pCur.iPage.toNat idx
          info := { pCur.info with nSize := 0 }
          validNKey := false }
        if idx ≥ pPage.nCell then
          if pPage.leaf = 0 then
            match moveToChild (fuel + 1) store pCur
                (get4byte pPage.aData (pPage.hdrOffset + 8)) with
            | none => none
            | some (rc, pCur) =>
              if rc ≠ 0 then some (rc, res, pCur)
              else
                match moveToLeftmost store (fuel + 1) pCur with
                | none => none
                | some (rc, pCur) => some (rc, 0, pCur)
          else
            match nextClimb (fuel + 1) pCur with
            | none => none
            | some (false, pCur) => some (SQLITE_OK, 1, pCur)
            | some (true, pCur) =>
              if (pCur.apPage pCur.iPage.toNat).intKey ≠ 0 then
                sqlite3BtreeNext store idxCmp allocOk fuel pCur 0
              else some (SQLITE_OK, 0, pCur)
        else if pPage.leaf ≠ 0 then some (SQLITE_OK, 0, pCur)
        else
          match moveToLeftmost store (fuel + 1) pCur with
          | none => none
          | some (rc, pCur) => some (rc, 0, pCur)

/-- The `while` loop of `sqlite3BtreePrevious` that leaves a leaf at its first cell:
`(true, c)` when it ends on a page with a cell before the current one, `(false, c)` when it
ends at the root, with the cursor invalid. -/
def prevClimb : Nat → BtCursor → Option (Bool × BtCursor)
  | 0, _ => none
  | fuel + 1, pCur =>
    if pCur.aiIdx pCur.iPage.toNat = 0 then
      if pCur.iPage = 0 then some (false, { pCur with eState := CURSOR_INVALID })
      else prevClimb fuel (moveToParent pCur)
    else some (true, pCur)

/-- `sqlite3BtreePrevious`: result code, `*pRes` (initially `res`) and the cursor. -/
def sqlite3BtreePrevious (store : PageStore) (idxCmp : MemPage → Nat → Nat × Int)
    (allocOk : Bool) : Nat → BtCursor → Int → Option (Nat × Int × BtCursor)
  | 0, _, _ => none
  | fuel + 1, pCur, res =>
    match restoreCursorPosition (fuel + 1) store pCur idxCmp allocOk with
    | none => none
    | some (rc, pCur) =>
      if rc ≠ SQLITE_OK then some (rc, res, pCur)
      else
        let pCur := { pCur with atLast := false }
        if CURSOR_INVALID = pCur.eState then some (SQLITE_OK, 1, pCur)
        else if pCur.skipNext < 0 then some (SQLITE_OK, 0, { pCur with skipNext := 0 })
        else
          let pCur := { pCur with skipNext := 0 }
          let pPage := pCur.apPage pCur.iPage.toNat
          if pPage.leaf = 0 then
            match moveToChild (fuel + 1) store pCur
                (get4byte pPage.aData (findCell pPage (pCur.aiIdx pCur.iPage.toNat))) with
            | none => none
            | some (rc, pCur) =>
              if rc ≠ 0 then some (rc, res, pCur)
              else
                match moveToRightmost store (fuel + 1) pCur with
                | none => none
                | some (rc, pCur) => some (rc, 0, pCur)
          else
            match prevClimb (fuel + 1) pCur with
            | none => none
            | some (false, pCur) => some (SQLITE_OK, 1, pCur)
            | some (true, pCur) =>
              let pCur := { pCur with
                info := { pCur.info with nSize := 0 }
                validNKey := false
                aiIdx := setAt pCur.aiIdx pCur.iPage.toNat
                  (u16sub (pCur.aiIdx pCur.iPage.toNat) 1) }
              let pPage := pCur.apPage pCur.iPage.toNat
              if pPage.intKey ≠ 0 ∧ pPage.leaf = 0 then
                match sqlite3BtreePrevious store idxCmp allocOk fuel pCur res with
                | none => none
                | some (rc, _, pCur) => some (rc, 0, pCur)
              else some (SQLITE_OK, 0, pCur)

/-- `sqlite3BtreeCursorHasMoved`: result code, `*pHasMoved` (written on every path) and the
cursor. -/
def sqlite3BtreeCursorHasMoved (fuel : Nat) (store : PageStore) (pCur : BtCursor)
    (idxCmp : MemPage → Nat → Nat × Int) (allocOk : Bool) : Option (Nat × Int × BtCursor) :=
  match restoreCursorPosition fuel store pCur idxCmp allocOk with
  | none => none
  | some (rc, pCur) =>
    if rc ≠ 0 then some (rc, 1, pCur)
    else if pCur.eState ≠ CURSOR_VALID ∨ pCur.skipNext ≠ 0 then some (SQLITE_OK, 1, pCur)
    else some (SQLITE_OK, 0, pCur)

/-- `sqlite3BtreeKeySize` with its result code, which is `SQLITE_OK` on either path. -/
def sqlite3BtreeKeySizeCall (pCur : BtCursor) : Nat × BtCursor × Int :=
  (SQLITE_OK, (sqlite3BtreeKeySize pCur).1, (sqlite3BtreeKeySize pCur).2)

/-- `sqlite3BtreeData`: result code, the buffer and the cursor. -/
def sqlite3BtreeData (fuel : Nat) (store : PageStore) (pCur : BtCursor)
    (idxCmp : MemPage → Nat → Nat × Int) (allocOk : Bool) (offset amt : Nat) (pBuf : Bytes) :
    Option (Nat × Bytes × BtCursor) :=
  if pCur.eState = CURSOR_INVALID then some (SQLITE_ABORT, pBuf, pCur)
  else
    match restoreCursorPosition fuel store pCur idxCmp allocOk with
    | none => none
    | some (rc, pCur) =>
      if rc = SQLITE_OK then accessPayload fuel store pCur offset amt pBuf
      else some (rc, pBuf, pCur)

/-- `sqlite3BtreePutData`.  `wrFlag` is the field of the cursor; the write access to the
payload (`accessPayload` with `eOp = 1`), reached by a valid writable cursor only, is the
parameter `accessWrite`. -/
def sqlite3BtreePutData (fuel : Nat) (store : PageStore) (pCsr : BtCursor)
    (idxCmp : MemPage → Nat → Nat × Int) (allocOk : Bool) (wrFlag : Bool)
    (accessWrite : BtCursor → Nat × BtCursor) : Option (Nat × BtCursor) :=
  match restoreCursorPosition fuel store pCsr idxCmp allocOk with
  | none => none
  | some (rc, pCsr) =>
    if rc ≠ SQLITE_OK then some (rc, pCsr)
    else if pCsr.eState ≠ CURSOR_VALID then some (SQLITE_ABORT, pCsr)
    else if wrFlag = false then some (SQLITE_READONLY, pCsr)
    else some (accessWrite pCsr)

/-- The head of `sqlite3BtreeInsert`: a cursor in the fault state gets its error code; the
insertion proper, which follows, is the parameter `body`. -/
def sqlite3BtreeInsert (pCur : BtCursor) (body : BtCursor → Nat × BtCursor) : Nat × BtCursor :=
  if pCur.eState = CURSOR_FAULT then (pCur.skipNext.toNat, pCur) else body pCur

/-- The head of `sqlite3BtreeDelete`.  Its first test reads
`pCur->apPage[pCur->iPage]->nCell` before it looks at `pCur->eState`, so there is no result
when `iPage` is negative (the index is outside the array) or when that page pointer is null
(a pointer set to 0 is the blank page with the page number 0, see `tripCursor`).  With a page
behind the pointer, a cursor that is not on an entry gets `SQLITE_ERROR`; the deletion proper,
which follows, is the parameter `body`. -/
def sqlite3BtreeDelete (pCur : BtCursor) (body : BtCursor → Nat × BtCursor) :
    Option (Nat × BtCursor) :=
  if pCur.iPage < 0 ∨ (pCur.apPage pCur.iPage.toNat).pgno = 0 then none
  else if pCur.aiIdx pCur.iPage.toNat ≥ (pCur.apPage pCur.iPage.toNat).nCell ∨
      pCur.eState ≠ CURSOR_VALID then some (SQLITE_ERROR, pCur)
  else some (body pCur)

/-! ## Example cursors -/

/-- The cursor `exCursorAt7` after a rollback has tripped it with `SQLITE_ABORT`. -/
def exFaultCursor : BtCursor := tripCursor 4 exCursorAt7

end Btree

namespace Btree

/-! ## The sorter: records in memory -/

/-- The bytes of a list as a buffer. -/
def listBytes (l : List Nat) : Bytes := fun i => l.getD i 0

/-- What the sorter gets from the record comparison of the absent `vdbeaux.c`:
`recordCompare key1 r2` is `sqlite3VdbeRecordCompare` of the packed key `key1` with the
unpacked key `r2`, `prefixCompare` is the same with `UNPACKED_PREFIX_MATCH` set, and
`hasNull r2` tells whether one of the first `nField` fields of `r2` is a NULL.  An unpacked
record is kept as the packed record it was unpacked from. -/
structure SorterCmp where
  recordCompare : List Nat → List Nat → Int
  prefixCompare : List Nat → List Nat → Int
  hasNull : List Nat → Bool

/-- `vdbeSorterCompare`: `*pRes` and the content of `pSorter->pUnpacked`, which is unpacked
afresh from `pKey2` unless that is a null pointer (`none`). -/
def vdbeSorterCompare (k : SorterCmp) (bOmitRowid : Bool) (pKey1 : List Nat)
    (pKey2 : Option (List Nat)) (r2 : List Nat) : Int × List Nat :=
  let r2 := match pKey2 with
    | some key2 => key2
    | none => r2
  if bOmitRowid = true then
    if k.hasNull r2 = true then (-1, r2) else (k.prefixCompare pKey1 r2, r2)
  else (k.recordCompare pKey1 r2, r2)

/-- The `while` loop of `vdbeSorterMerge` with the assignment to `*pp` that follows it: the
merged list, linked in the order in which the records are taken, and the content of
`pUnpacked`.  `pVal2` is the pointer of that name.  The loop takes one record a round, so
`fuel` rounds suffice when `fuel` is the number of records. -/
def mergeLoop (k : SorterCmp) :
    Nat → List (List Nat) → List (List Nat) → Option (List Nat) → List Nat →
      List (List Nat) × List Nat
  | 0, p1, p2, _, r2 => (if p1 ≠ [] then p1 else p2, r2)
  | _ + 1, [], p2, _, r2 => (p2, r2)
  | _ + 1, a :: p1, [], _, r2 => (a :: p1, r2)
  | fuel + 1, a :: p1, b :: p2, pVal2, r2 =>
    if (vdbeSorterCompare k false a pVal2 r2).1 ≤ 0 then
      (a :: (mergeLoop k fuel p1 (b :: p2) none (vdbeSorterCompare k false a pVal2 r2).2).1,
        (mergeLoop k fuel p1 (b :: p2) none (vdbeSorterCompare k false a pVal2 r2).2).2)
    else
      match p2 with
      | [] => (b :: a :: p1, (vdbeSorterCompare k false a pVal2 r2).2)
      | c :: p3 =>
        (b :: (mergeLoop k fuel (a :: p1) (c :: p3) (some c)
            (vdbeSorterCompare k false a pVal2 r2).2).1,
          (mergeLoop k fuel (a :: p1) (c :: p3) (some c)
            (vdbeSorterCompare k false a pVal2 r2).2).2)

/-- `vdbeSorterMerge`: `*ppOut` and the content of `pUnpacked`. -/
def vdbeSorterMerge (k : SorterCmp) (p1 p2 : List (List Nat)) (r2 : List Nat) :
    List (List Nat) × List Nat :=
  mergeLoop k (p1.length + p2.length) p1 p2 p2.head? r2

/-- The loop `for(i=0; aSlot[i]; i++)` of `vdbeSorterSort`: the list `p` is merged with the
occupied slots from slot `i` on and put into the first empty one.  There is no result when
the loop runs past the 64 slots. -/
def slotInsert (k : SorterCmp) :
    Nat → Nat → List (List Nat) → (Nat → List (List Nat)) → List Nat →
      Option ((Nat → List (List Nat)) × List Nat)
  | 0, _, _, _, _ => none
  | fuel + 1, i, p, aSlot, r2 =>
    if i ≥ 64 then none
    else if aSlot i ≠ [] then
      slotInsert k fuel (i + 1) (vdbeSorterMerge k p (aSlot i) r2).1 (setAt aSlot i [])
        (vdbeSorterMerge k p (aSlot i) r2).2
    else some (setAt aSlot i p, r2)

/-- The `while( p )` loop of `vdbeSorterSort` over the record list. -/
def slotFill (k : SorterCmp) :
    List (List Nat) → (Nat → List (List Nat)) → List Nat →
      Option ((Nat → List (List Nat)) × List Nat)
  | [], aSlot, r2 => some (aSlot, r2)
  | a :: rest, aSlot, r2 =>
    match slotInsert k 65 0 [a] aSlot r2 with
    | none => none
    | some (aSlot, r2) => slotFill k rest aSlot r2

/-- The last loop of `vdbeSorterSort`: the slots `i .. 63` are merged into `p` in turn. -/
def slotCollect (k : SorterCmp) (aSlot : Nat → List (List Nat)) :
    Nat → Nat → List (List Nat) → List Nat → List (List Nat) × List Nat
  | 0, _, p, r2 => (p, r2)
  | n + 1, i, p, r2 =>
    slotCollect k aSlot n (i + 1) (vdbeSorterMerge k p (aSlot i) r2).1
      (vdbeSorterMerge k p (aSlot i) r2).2

/-- The state of a `VdbeSorter` before the merge is set up: the record list `pRecord` from
its head, the content `unpacked` of `pUnpacked`, and the temporary file `pTemp1`, whose
content is `temp1` (`hasTemp1` stands for `pTemp1 != 0`). -/
structure VdbeSorter where
  iWriteOff : Nat
  iReadOff : Nat
  nInMemory : Nat
  nPMA : Nat
  mnPmaSize : Nat
  mxPmaSize : Nat
  hasTemp1 : Bool
  temp1 : Bytes
  pRecord : List (List Nat)
  unpacked : List Nat

/-- `vdbeSorterSort`; `allocOk` tells whether the 64 slots can be allocated. -/
def vdbeSorterSort (k : SorterCmp) (s : VdbeSorter) (allocOk : Bool) :
    Option (Nat × VdbeSorter) :=
  if allocOk = false then some (SQLITE_NOMEM, s)
  else
    match slotFill k s.pRecord (fun _ => []) s.unpacked with
    | none => none
    | some (aSlot, r2) =>
      some (SQLITE_OK, { s with
        pRecord := (slotCollect k aSlot 64 0 [] r2).1
        unpacked := (slotCollect k aSlot 64 0 [] r2).2 })

/-! ## The sorter: writing a run to the temporary file -/

/-- The `FileWriter` together with the file it writes to. -/
structure FileWriter where
  eFWErr : Nat
  aBuffer : Bytes
  nBuffer : Nat
  iBufStart : Nat
  iBufEnd : Nat
  iWriteOff : Nat
  file : Bytes

/-- Modelled from the spec: `sqlite3OsWrite` of the absent `os.c` on the file of the writer:
`n` bytes of the buffer from `bufOff` go to the file at offset `fileOff`; the result code is
the oracle `rcWrite` at that offset, and a failed write leaves the file as it is. -/
def osWrite (rcWrite : Nat → Nat) (file buf : Bytes) (bufOff n fileOff : Nat) : Nat × Bytes :=
  (rcWrite fileOff, if rcWrite fileOff = SQLITE_OK then memcpy file fileOff buf bufOff n else file)

/-- `fileWriterInit`: `nBuf` is the page size of the main database, `allocOk` tells whether
the buffer can be allocated, `raw` is its content after the allocation. -/
def fileWriterInit (nBuf : Nat) (allocOk : Bool) (raw : Bytes) (file : Bytes) (iStart : Nat) :
    FileWriter :=
  if allocOk = false then
    { eFWErr := SQLITE_NOMEM, aBuffer := fun _ => 0, nBuffer := 0, iBufStart := 0, iBufEnd := 0
      iWriteOff := 0, file := file }
  else
    { eFWErr := 0, aBuffer := raw, nBuffer := nBuf, iBufStart := iStart % nBuf
      iBufEnd := iStart % nBuf, iWriteOff := iStart - iStart % nBuf, file := file }

/-- The loop of `fileWriterWrite`; `nRem` bytes of the `nData` bytes of `pData` are left. -/
def fileWriterLoop (rcWrite : Nat → Nat) (pData : Bytes) (nData : Nat) :
    Nat → Nat → FileWriter → Option FileWriter
  | 0, _, _ => none
  | fuel + 1, nRem, p =>
    if nRem > 0 ∧ p.eFWErr = 0 then
      let nCopy := if nRem > p.nBuffer - p.iBufEnd then p.nBuffer - p.iBufEnd else nRem
      let p := { p with
        aBuffer := memcpy p.aBuffer p.iBufEnd pData (nData - nRem) nCopy
        iBufEnd := p.iBufEnd + nCopy }
      let p :=
        if p.iBufEnd = p.nBuffer then
          { p with
            eFWErr := (osWrite rcWrite p.file p.aBuffer p.iBufStart (p.iBufEnd - p.iBufStart)
              (p.iWriteOff + p.iBufStart)).1
            file := (osWrite rcWrite p.file p.aBuffer p.iBufStart (p.iBufEnd - p.iBufStart)
              (p.iWriteOff + p.iBufStart)).2
            iBufStart := 0
            iBufEnd := 0
            iWriteOff := p.iWriteOff + p.nBuffer }
        else p
      fileWriterLoop rcWrite pData nData fuel (nRem - nCopy) p
    else some p

/-- `fileWriterWrite`. -/
def fileWriterWrite (rcWrite : Nat → Nat) (fuel : Nat) (p : FileWriter) (pData : Bytes)
    (nData : Nat) : Option FileWriter :=
  fileWriterLoop rcWrite pData nData fuel nData p

/-- `fileWriterWriteVarint`. -/
def fileWriterWriteVarint (rcWrite : Nat → Nat) (fuel : Nat) (p : FileWriter) (iVal : Nat) :
    Option FileWriter :=
  fileWriterWrite rcWrite fuel p (putVarint (fun _ => 0) 0 iVal).2 (putVarint (fun _ => 0) 0 iVal).1

/-- `fileWriterFinish`: result code, `*piEof` and the file. -/
def fileWriterFinish (rcWrite : Nat → Nat) (p : FileWriter) : Nat × Nat × Bytes :=
  if p.eFWErr = 0 ∧ p.iBufEnd > p.iBufStart then
    ((osWrite rcWrite p.file p.aBuffer p.iBufStart (p.iBufEnd - p.iBufStart)
        (p.iWriteOff + p.iBufStart)).1,
      p.iWriteOff + p.iBufEnd,
      (osWrite rcWrite p.file p.aBuffer p.iBufStart (p.iBufEnd - p.iBufStart)
        (p.iWriteOff + p.iBufStart)).2)
  else (p.eFWErr, p.iWriteOff + p.iBufEnd, p.file)

/-- The `for` loop of `vdbeSorterListToPMA` over the sorted records. -/
def writeRecords (rcWrite : Nat → Nat) (fuel : Nat) :
    List (List Nat) → FileWriter → Option FileWriter
  | [], p => some p
  | a :: rest, p =>
    match fileWriterWriteVarint rcWrite fuel p a.length with
    | none => none
    | some p =>
      match fileWriterWrite rcWrite fuel p (listBytes a) a.length with
      | none => none
      | some p => writeRecords rcWrite fuel rest p

/-- What `vdbeSorterListToPMA` gets from outside the sorter: whether the allocations of the
sort and of the write buffer succeed, the result code of `vdbeSorterOpenTempFile`, the page
size of the main database, the content of the fresh write buffer and the result codes of
`sqlite3OsWrite` by file offset. -/
structure PmaEnv where
  sortAllocOk : Bool
  rcOpenTemp : Nat
  nBuf : Nat
  bufAllocOk : Bool
  raw : Bytes
  rcWrite : Nat → Nat

/-- `vdbeSorterListToPMA`. -/
def vdbeSorterListToPMA (k : SorterCmp) (env : PmaEnv) (fuel : Nat) (s : VdbeSorter) :
    Option (Nat × VdbeSorter) :=
  if s.nInMemory = 0 then some (SQLITE_OK, s)
  else
    match vdbeSorterSort k s env.sortAllocOk with
    | none => none
    | some (rc, s) =>
      let rc := if rc = SQLITE_OK ∧ s.hasTemp1 = false then env.rcOpenTemp else rc
      let s := if rc = SQLITE_OK ∧ s.hasTemp1 = false then { s with hasTemp1 := true } else s
      if rc = SQLITE_OK then
        match fileWriterWriteVarint env.rcWrite fuel
            (fileWriterInit env.nBuf env.bufAllocOk env.raw s.temp1 s.iWriteOff) s.nInMemory with
        | none => none
        | some w =>
          match writeRecords env.rcWrite fuel s.pRecord w with
          | none => none
          | some w =>
            some ((fileWriterFinish env.rcWrite w).1,
              { s with
                nPMA := s.nPMA + 1
                pRecord := []
                iWriteOff := (fileWriterFinish env.rcWrite w).2.1
                temp1 := (fileWriterFinish env.rcWrite w).2.2 })
      else some (rc, s)

/-- `sqlite3VdbeSorterWrite`: `val` is the record in the memory cell, `allocOk` tells whether
the list element can be allocated, `heapNearlyFull` is `sqlite3HeapNearlyFull()`. -/
def sqlite3VdbeSorterWrite (k : SorterCmp) (env : PmaEnv) (fuel : Nat) (s : VdbeSorter)
    (val : List Nat) (allocOk heapNearlyFull : Bool) : Option (Nat × VdbeSorter) :=
  let s := { s with nInMemory := s.nInMemory + (varintLen val.length + val.length) }
  let rc := if allocOk = false then SQLITE_NOMEM else SQLITE_OK
  let s := if allocOk = false then s else { s with pRecord := val :: s.pRecord }
  if rc = SQLITE_OK ∧ s.mxPmaSize > 0 ∧
      (s.nInMemory > s.mxPmaSize ∨ (s.nInMemory > s.mnPmaSize ∧ heapNearlyFull = true)) then
    match vdbeSorterListToPMA k env fuel s with
    | none => none
    | some (rc, s) => some (rc, { s with nInMemory := 0 })
  else some (rc, s)

end Btree

namespace Btree

/-! ## The sorter: order of the keys and format of a run -/

/-- The order of the keys: `a` is not greater than `b` under the record comparison. -/
def keyLe (k : SorterCmp) (a b : List Nat) : Prop := k.recordCompare a b ≤ 0

instance (k : SorterCmp) (a b : List Nat) : Decidable (keyLe k a b) := by
  unfold keyLe
  exact inferInstance

/-- The record comparison is a total preorder of the keys. -/
def KeyPreorder (k : SorterCmp) : Prop :=
  (∀ a b, keyLe k a b ∨ keyLe k b a) ∧ (∀ a b c, keyLe k a b → keyLe k b c → keyLe k a c)

/-- The records held by the slots `0 .. n-1` of `vdbeSorterSort`. -/
def slotRecords (aSlot : Nat → List (List Nat)) : Nat → List (List Nat)
  | 0 => []
  | n + 1 => slotRecords aSlot n ++ aSlot n

/-- The slots of `vdbeSorterSort` as a binary counter: slot `i` is empty or holds a sorted
list of `2^i` records. -/
def SlotInv (k : SorterCmp) (aSlot : Nat → List (List Nat)) : Prop :=
  ∀ i, i < 64 → List.Sorted (keyLe k) (aSlot i) ∧ (aSlot i = [] ∨ (aSlot i).length = 2 ^ i)

/-- The bytes of the varint of `v`. -/
def varintBytes (v : Nat) : List Nat :=
  (List.range (varintLen v)).map (varintByte v (varintLen v))

/-- The records of a run packed end to end: each one is the varint of its length followed
by its bytes. -/
def recordBytes : List (List Nat) → List Nat
  | [] => []
  | a :: rest => varintBytes a.length ++ a ++ recordBytes rest

/-- The format of a PMA: the varint of the number of bytes of content, then the content. -/
def pmaBytes (recs : List (List Nat)) : List Nat :=
  varintBytes (recordBytes recs).length ++ recordBytes recs

/-- The writer has taken the first `n` bytes of the stream `X`, to be put at offset `iStart`
of the file that was `file0`: the part below the start of the pending buffer range is in the
file, the rest is in the buffer.  Nothing is said of a writer in the error state. -/
def WriterHolds (w : FileWriter) (file0 : Bytes) (iStart : Nat) (X : Nat → Nat) (n : Nat) :
    Prop :=
  w.eFWErr = 0 →
    w.iWriteOff + w.iBufEnd = iStart + n ∧
    w.iBufStart ≤ w.iBufEnd ∧ w.iBufEnd < w.nBuffer ∧
    iStart ≤ w.iWriteOff + w.iBufStart ∧
    (∀ i, i < n → iStart + i < w.iWriteOff + w.iBufStart → w.file (iStart + i) = X i) ∧
    (∀ i, i < n → w.iWriteOff + w.iBufStart ≤ iStart + i →
      w.aBuffer (iStart + i - w.iWriteOff) = X i) ∧
    (∀ j, j < iStart → w.file j = file0 j)

/-- A sorter with three records in memory, none flushed. -/
def exSorter : VdbeSorter :=
  { iWriteOff := 0, iReadOff := 0, nInMemory := 9, nPMA := 0, mnPmaSize := 5120
    mxPmaSize := 10240, hasTemp1 := false, temp1 := fun _ => 0
    pRecord := [[3, 7], [1], [2, 5, 5]], unpacked := [] }

/-- The comparison of the examples: keys are ordered by their first byte. -/
def exCmp : SorterCmp :=
  { recordCompare := fun a b => (a.headD 0 : Int) - (b.headD 0 : Int)
    prefixCompare := fun a b => (a.headD 0 : Int) - (b.headD 0 : Int)
    hasNull := fun _ => false }

/-- The surroundings of the examples: all allocations and writes succeed, the write buffer
has the size of a 512-byte page. -/
def exPmaEnv : PmaEnv :=
  { sortAllocOk := true, rcOpenTemp := 0, nBuf := 512, bufAllocOk := true, raw := fun _ => 0
    rcWrite := fun _ => 0 }

end Btree

namespace Btree

/-! ## The sorter: iterators over the runs of the temporary file -/

/-- Where a pointer into the memory of an iterator points: nowhere, to `&aBuffer[off]`, or
to `aAlloc`. -/
inductive IterPtr where
  | null : IterPtr
  | buffer (off : Nat) : IterPtr
  | alloc : IterPtr
  deriving DecidableEq

/-- A `VdbeSorterIter`; `pFile` stands for `pFile != 0`. -/
structure VdbeSorterIter where
  iReadOff : Nat
  iEof : Nat
  nAlloc : Nat
  nKey : Nat
  pFile : Bool
  aAlloc : Bytes
  aKey : IterPtr
  aBuffer : Bytes
  nBuffer : Nat

/-- The iterator that `vdbeSorterIterZero` leaves, which is also an entry of the zeroed
array `aIter`. -/
def iterZero : VdbeSorterIter :=
  { iReadOff := 0, iEof := 0, nAlloc := 0, nKey := 0, pFile := false, aAlloc := fun _ => 0
    aKey := IterPtr.null, aBuffer := fun _ => 0, nBuffer := 0 }

/-- The memory a pointer of the iterator points to. -/
def derefPtr (p : VdbeSorterIter) : IterPtr → Bytes
  | IterPtr.null => fun _ => 0
  | IterPtr.buffer off => fun i => p.aBuffer (off + i)
  | IterPtr.alloc => p.aAlloc

/-- The current key of an iterator: the `nKey` bytes at `aKey`. -/
def iterKey (p : VdbeSorterIter) : List Nat :=
  (List.range p.nKey).map (derefPtr p p.aKey)

/-- What the merge gets from outside the sorter besides what `vdbeSorterListToPMA` gets: the
result codes of `sqlite3OsRead` by file offset, whether the two buffers of an iterator can be
allocated (by the start offset of its run), whether `aAlloc` can be grown to a size, whether
the arrays `aIter` and `aTree` can be allocated, and the result code of opening the second
temporary file. -/
structure MergeEnv where
  pma : PmaEnv
  rcRead : Nat → Nat
  iterAllocOk : Nat → Bool
  reallocOk : Nat → Bool
  treeAllocOk : Bool
  rcOpenTemp2 : Nat

/-- The cast of a 64-bit count to `int`.  A count that does not fit has no result. -/
def castInt (x : Nat) : Option Nat := if x < 2147483648 then some x else none

/-- Modelled from the spec: `sqlite3OsRead` of the absent `os.c`: `n` bytes of the file from
offset `off` go to the buffer at `bufOff`; the result code is the oracle `rcRead` at that
offset, and a failed read leaves the buffer as it is. -/
def osRead (rcRead : Nat → Nat) (buf : Bytes) (bufOff : Nat) (file : Bytes) (n off : Nat) :
    Nat × Bytes :=
  (rcRead off, if rcRead off = SQLITE_OK then memcpy buf bufOff file off n else buf)

/-- The cast `(int)` of a non-negative 64-bit count as the compilers that SQLite is built
with perform it: the low 32 bits, read as a signed number. -/
def castIntWrap (x : Nat) : Int := toInt32 (x % 4294967296)

/-- The head of `vdbeSorterIterRead`: at the start of a buffer-sized block the next block of
the run is read into `aBuffer`; the number of bytes is `(int)(iEof - iReadOff)`, or
`nBuffer` if that is greater.  There is no result when the read offset lies behind `iEof`,
or when the count is negative, with which `sqlite3OsRead` must not be called. -/
def iterLoad (env : MergeEnv) (file : Bytes) (p : VdbeSorterIter) :
    Option (Nat × VdbeSorterIter) :=
  if p.iReadOff % p.nBuffer = 0 then
    if p.iEof < p.iReadOff then none
    else if castIntWrap (p.iEof - p.iReadOff) < 0 then none
    else
      some ((osRead env.rcRead p.aBuffer 0 file
          (if castIntWrap (p.iEof - p.iReadOff) > p.nBuffer then p.nBuffer
            else (castIntWrap (p.iEof - p.iReadOff)).toNat) p.iReadOff).1,
        { p with aBuffer := (osRead env.rcRead p.aBuffer 0 file
          (if castIntWrap (p.iEof - p.iReadOff) > p.nBuffer then p.nBuffer
            else (castIntWrap (p.iEof - p.iReadOff)).toNat) p.iReadOff).2 })
  else some (SQLITE_OK, p)

/-- The loop `while( nByte>nNew ) nNew = nNew*2` of `vdbeSorterIterRead`.  There is no
result when the size leaves the range of `int`. -/
def growAlloc (nByte : Nat) : Nat → Nat → Option Nat
  | 0, _ => none
  | fuel + 1, nNew =>
    if nByte > nNew then
      if nNew * 2 < 2147483648 then growAlloc nByte fuel (nNew * 2) else none
    else some nNew

/-- "Extend the p->aAlloc[] allocation if required": `sqlite3DbReallocOrFree` keeps the
content, and a failed one leaves a null pointer. -/
def iterGrow (env : MergeEnv) (p : VdbeSorterIter) (nByte : Nat) :
    Option (Nat × VdbeSorterIter) :=
  if p.nAlloc < nByte then
    if p.nAlloc * 2 < 2147483648 then
      match growAlloc nByte 32 (p.nAlloc * 2) with
      | none => none
      | some nNew =>
        if env.reallocOk nNew = false then
          some (SQLITE_NOMEM, { p with aAlloc := fun _ => 0 })
        else some (SQLITE_OK, { p with nAlloc := nNew })
    else none
  else some (SQLITE_OK, p)

/-- The loop `while( nRem>0 )` of `vdbeSorterIterRead`, which copies up to `nBuffer` bytes a
round into `aAlloc`; `read` is the recursive call of `vdbeSorterIterRead`. -/
def iterCopyLoop (read : VdbeSorterIter → Nat → Option (Nat × VdbeSorterIter × IterPtr))
    (nByte : Nat) : Nat → Nat → VdbeSorterIter → Option (Nat × VdbeSorterIter)
  | 0, _, _ => none
  | fuel + 1, nRem, p =>
    if nRem > 0 then
      match read p (if nRem > p.nBuffer then p.nBuffer else nRem) with
      | none => none
      | some (rc, q, aNext) =>
        if rc ≠ SQLITE_OK then some (rc, q)
        else
          iterCopyLoop read nByte fuel (nRem - (if nRem > p.nBuffer then p.nBuffer else nRem))
            { q with
              aAlloc := memcpy q.aAlloc (nByte - nRem) (derefPtr q aNext) 0
                (if nRem > p.nBuffer then p.nBuffer else nRem) }
    else some (SQLITE_OK, p)

/-- `vdbeSorterIterRead`: result code, iterator and `*ppOut`, which is meaningful when the
result code is `SQLITE_OK`.  The fuel bounds the depth of the recursion.  A buffer of size
zero has no result. -/
def vdbeSorterIterRead (env : MergeEnv) (file : Bytes) :
    Nat → VdbeSorterIter → Nat → Option (Nat × VdbeSorterIter × IterPtr)
  | 0, _, _ => none
  | fuel + 1, p, nByte =>
    if p.nBuffer = 0 then none
    else
      match iterLoad env file p with
      | none => none
      | some (rc, q) =>
        if rc ≠ SQLITE_OK then some (rc, q, IterPtr.null)
        else if nByte ≤ q.nBuffer - q.iReadOff % q.nBuffer then
          some (SQLITE_OK, { q with iReadOff := q.iReadOff + nByte },
            IterPtr.buffer (q.iReadOff % q.nBuffer))
        else
          match iterGrow env q nByte with
          | none => none
          | some (rc, g) =>
            if rc ≠ SQLITE_OK then some (rc, g, IterPtr.null)
            else
              match iterCopyLoop (vdbeSorterIterRead env file fuel) nByte (nByte + 1)
                  (nByte - (g.nBuffer - g.iReadOff % g.nBuffer))
                  { g with
                    aAlloc := memcpy g.aAlloc 0 g.aBuffer (g.iReadOff % g.nBuffer)
                      (g.nBuffer - g.iReadOff % g.nBuffer)
                    iReadOff := g.iReadOff + (g.nBuffer - g.iReadOff % g.nBuffer) } with
              | none => none
              | some (rc, c) =>
                if rc ≠ SQLITE_OK then some (rc, c, IterPtr.null)
                else some (SQLITE_OK, c, IterPtr.alloc)

/-- The `do ... while( (a[0]&0x80)!=0 )` loop of `vdbeSorterIterVarint`, which reads a varint
byte by byte into `aVarint`. -/
def iterVarintLoop (env : MergeEnv) (file : Bytes) (fuelRead : Nat) :
    Nat → Nat → Bytes → VdbeSorterIter → Option (Nat × VdbeSorterIter × Bytes)
  | 0, _, _, _ => none
  | fuel + 1, i, aVarint, p =>
    match vdbeSorterIterRead env file fuelRead p 1 with
    | none => none
    | some (rc, q, a) =>
      if rc ≠ SQLITE_OK then some (rc, q, aVarint)
      else if getByte (derefPtr q a) 0 ≥ 128 then
        iterVarintLoop env file fuelRead fuel (i + 1)
          (setByte aVarint (i % 16) (getByte (derefPtr q a) 0)) q
      else some (SQLITE_OK, q, setByte aVarint (i % 16) (getByte (derefPtr q a) 0))

/-- `vdbeSorterIterVarint`: result code, iterator and `*pnOut`, which keeps the value `old`
when the read fails. -/
def vdbeSorterIterVarint (env : MergeEnv) (file : Bytes) (fuel : Nat) (p : VdbeSorterIter)
    (old : Nat) : Option (Nat × VdbeSorterIter × Nat) :=
  if p.nBuffer = 0 then none
  else if p.iReadOff % p.nBuffer ≠ 0 ∧ p.nBuffer - p.iReadOff % p.nBuffer ≥ 9 then
    some (SQLITE_OK,
      { p with iReadOff := p.iReadOff + (getVarint p.aBuffer (p.iReadOff % p.nBuffer)).1 },
      (getVarint p.aBuffer (p.iReadOff % p.nBuffer)).2)
  else
    match iterVarintLoop env file fuel fuel 0 env.pma.raw p with
    | none => none
    | some (rc, q, aVarint) =>
      if rc ≠ SQLITE_OK then some (rc, q, old)
      else some (SQLITE_OK, q, (getVarint aVarint 0).2)

/-- `vdbeSorterIterNext`. -/
def vdbeSorterIterNext (env : MergeEnv) (file : Bytes) (fuel : Nat) (pIter : VdbeSorterIter) :
    Option (Nat × VdbeSorterIter) :=
  if pIter.iReadOff ≥ pIter.iEof then some (SQLITE_OK, iterZero)
  else
    match vdbeSorterIterVarint env file fuel pIter 0 with
    | none => none
    | some (rc, p, nRec) =>
      if rc = SQLITE_OK then
        match castInt nRec with
        | none => none
        | some nKey =>
          match vdbeSorterIterRead env file fuel { p with nKey := nKey } nKey with
          | none => none
          | some (rc, q, ptr) =>
            some (rc, if rc = SQLITE_OK then { q with aKey := ptr } else q)
      else some (rc, p)

/-- `vdbeSorterIterInit` for the run that starts at `iStart` of the file of `iWriteOff`
bytes: result code, iterator and `*pnByte`. -/
def vdbeSorterIterInit (env : MergeEnv) (file : Bytes) (fuel : Nat) (iWriteOff iStart : Nat)
    (pIter : VdbeSorterIter) (nByte : Nat) : Option (Nat × VdbeSorterIter × Nat) :=
  if env.iterAllocOk iStart = false then
    some (SQLITE_NOMEM,
      { pIter with
        pFile := true
        iReadOff := iStart
        nAlloc := 128
        aAlloc := fun _ => 0
        nBuffer := env.pma.nBuf
        aBuffer := fun _ => 0 }, nByte)
  else if env.pma.nBuf = 0 then none
  else if iWriteOff < iStart then none
  else
    match
      (if iStart % env.pma.nBuf ≠ 0 then
        (if iStart + (env.pma.nBuf - iStart % env.pma.nBuf) > iWriteOff then
          castInt (iWriteOff - iStart)
        else some (env.pma.nBuf - iStart % env.pma.nBuf))
      else some 0) with
    | none => none
    | some nRead =>
      if iStart % env.pma.nBuf ≠ 0 ∧
          (osRead env.rcRead env.pma.raw (iStart % env.pma.nBuf) file nRead iStart).1
            ≠ SQLITE_OK then
        some ((osRead env.rcRead env.pma.raw (iStart % env.pma.nBuf) file nRead iStart).1,
          { pIter with
            pFile := true
            iReadOff := iStart
            nAlloc := 128
            aAlloc := env.pma.raw
            nBuffer := env.pma.nBuf
            aBuffer := env.pma.raw }, nByte)
      else
        match vdbeSorterIterVarint env file fuel
            { pIter with
              pFile := true
              iReadOff := iStart
              nAlloc := 128
              aAlloc := env.pma.raw
              nBuffer := env.pma.nBuf
              aBuffer :=
                if iStart % env.pma.nBuf ≠ 0 then
                  (osRead env.rcRead env.pma.raw (iStart % env.pma.nBuf) file nRead iStart).2
                else env.pma.raw
              iEof := iWriteOff } 0 with
        | none => none
        | some (rc, p, n) =>
          if rc = SQLITE_OK then
            match vdbeSorterIterNext env file fuel { p with iEof := p.iReadOff + n } with
            | none => none
            | some (rc, q) => some (rc, q, nByte + n)
          else some (rc, { p with iEof := p.iReadOff + n }, nByte + n)

/-! ## The sorter: the merge tree -/

/-- The sorter during a merge: the sorter itself, whether `aTree` has been allocated, and
`nTree`, `aIter`, `aTree`. -/
structure SorterMerge where
  s : VdbeSorter
  hasTree : Bool
  nTree : Nat
  aIter : Nat → VdbeSorterIter
  aTree : Nat → Nat

/-- `vdbeSorterDoCompare`: the slot `iOut` of `aTree` is recomputed. -/
def vdbeSorterDoCompare (k : SorterCmp) (m : SorterMerge) (iOut : Nat) : SorterMerge :=
  let i1 := if iOut ≥ m.nTree / 2 then (iOut - m.nTree / 2) * 2 else m.aTree (iOut * 2)
  let i2 := if iOut ≥ m.nTree / 2 then (iOut - m.nTree / 2) * 2 + 1 else m.aTree (iOut * 2 + 1)
  if (m.aIter i1).pFile = false then { m with aTree := setAt m.aTree iOut i2 }
  else if (m.aIter i2).pFile = false then { m with aTree := setAt m.aTree iOut i1 }
  else
    { m with
      s := { m.s with
        unpacked := (vdbeSorterCompare k false (iterKey (m.aIter i1))
          (some (iterKey (m.aIter i2))) m.s.unpacked).2 }
      aTree := setAt m.aTree iOut
        (if (vdbeSorterCompare k false (iterKey (m.aIter i1))
            (some (iterKey (m.aIter i2))) m.s.unpacked).1 ≤ 0 then i1 else i2) }

/-- The first loop of `vdbeSorterInitMerge`: `n` iterators are still to be set up, iterator
`i` is the next one. -/
def initIterLoop (env : MergeEnv) (fuel : Nat) :
    Nat → Nat → SorterMerge → Nat → Option (Nat × SorterMerge × Nat)
  | 0, _, m, nByte => some (SQLITE_OK, m, nByte)
  | n + 1, i, m, nByte =>
    match vdbeSorterIterInit env m.s.temp1 fuel m.s.iWriteOff m.s.iReadOff (m.aIter i)
        nByte with
    | none => none
    | some (rc, it, nByte) =>
      if rc ≠ SQLITE_OK ∨ it.iEof ≥ m.s.iWriteOff then
        some (rc, { m with s := { m.s with iReadOff := it.iEof }, aIter := setAt m.aIter i it },
          nByte)
      else
        initIterLoop env fuel n (i + 1)
          { m with s := { m.s with iReadOff := it.iEof }, aIter := setAt m.aIter i it } nByte

/-- The second loop of `vdbeSorterInitMerge`: the slots `i, i-1, .., 1` are computed. -/
def initTreeLoop (k : SorterCmp) : Nat → SorterMerge → SorterMerge
  | 0, m => m
  | i + 1, m => initTreeLoop k i (vdbeSorterDoCompare k m (i + 1))

/-- `vdbeSorterInitMerge`: result code, sorter and `*pnByte`. -/
def vdbeSorterInitMerge (k : SorterCmp) (env : MergeEnv) (fuel : Nat) (m : SorterMerge) :
    Option (Nat × SorterMerge × Nat) :=
  match initIterLoop env fuel 16 0 m 0 with
  | none => none
  | some (rc, m, nByte) =>
    if rc = SQLITE_OK then some (rc, initTreeLoop k (m.nTree - 1) m, nByte)
    else some (rc, m, nByte)

/-- The loop of `sqlite3VdbeSorterNext` over the slots `i, i/2, .., 1`. -/
def nextTreeLoop (k : SorterCmp) : Nat → Nat → SorterMerge → Option SorterMerge
  | 0, _, _ => none
  | fuel + 1, i, m =>
    if i > 0 then nextTreeLoop k fuel (i / 2) (vdbeSorterDoCompare k m i) else some m

/-- `sqlite3VdbeSorterNext`: result code, `*pbEof` and sorter.  The record list of a sorter
without a tree must not be empty. -/
def sqlite3VdbeSorterNext (k : SorterCmp) (env : MergeEnv) (fuel : Nat) (m : SorterMerge) :
    Option (Nat × Bool × SorterMerge) :=
  if m.hasTree = true then
    match vdbeSorterIterNext env m.s.temp1 fuel (m.aIter (m.aTree 1)) with
    | none => none
    | some (rc, it) =>
      if rc = SQLITE_OK then
        match nextTreeLoop k fuel ((m.nTree + m.aTree 1) / 2)
            { m with aIter := setAt m.aIter (m.aTree 1) it } with
        | none => none
        | some r => some (rc, (r.aIter (r.aTree 1)).pFile = false, r)
      else
        some (rc, ((setAt m.aIter (m.aTree 1) it) (m.aTree 1)).pFile = false,
          { m with aIter := setAt m.aIter (m.aTree 1) it })
  else
    match m.s.pRecord with
    | [] => none
    | _ :: rest => some (SQLITE_OK, rest = [], { m with s := { m.s with pRecord := rest } })

/-- `vdbeSorterRowkey`: the current key.  The record list of a sorter without a tree must
not be empty. -/
def vdbeSorterRowkey (m : SorterMerge) : Option (List Nat) :=
  if m.hasTree = true then some (iterKey (m.aIter (m.aTree 1)))
  else m.s.pRecord.head?

/-- `sqlite3VdbeSorterRowkey`: result code and the content of `pOut`; `growOk` tells whether
the memory cell can be grown. -/
def sqlite3VdbeSorterRowkey (m : SorterMerge) (growOk : Bool) (pOut : List Nat) :
    Option (Nat × List Nat) :=
  match vdbeSorterRowkey m with
  | none => none
  | some key => if growOk = false then some (SQLITE_NOMEM, pOut) else some (SQLITE_OK, key)

end Btree

namespace Btree

/-! ## The sorter: what the merge tree holds -/

/-- The iterator `w` is the winner among the iterators `lo .. lo+len-1`: it is one of them;
it is at EOF only when all of them are; and otherwise its key is not greater than the key of
any of them that is not at EOF, and every such iterator of lower index has a strictly
greater key. -/
def IsRangeWinner (k : SorterCmp) (aIter : Nat → VdbeSorterIter) (lo len w : Nat) : Prop :=
  lo ≤ w ∧ w < lo + len ∧
  ((aIter w).pFile = false → ∀ j, lo ≤ j → j < lo + len → (aIter j).pFile = false) ∧
  ((aIter w).pFile = true → ∀ j, lo ≤ j → j < lo + len → (aIter j).pFile = true →
    keyLe k (iterKey (aIter w)) (iterKey (aIter j)) ∧
    (j < w → ¬ keyLe k (iterKey (aIter j)) (iterKey (aIter w))))

/-- The merge tree over `2^h` iterators holds the winners: the slots `2^(h-d) .. 2^(h-d+1)-1`
are the nodes at height `d` above the iterators, and the `c`-th of them names the winner of
the `c`-th block of `2^d` iterators.  Every slot from 1 to `nTree - 1` is one of these. -/
def TreeInv (k : SorterCmp) (h : Nat) (m : SorterMerge) : Prop :=
  m.nTree = 2 ^ h ∧
  ∀ d c, 1 ≤ d → d ≤ h → c < 2 ^ (h - d) →
    IsRangeWinner k m.aIter (c * 2 ^ d) (2 ^ d) (m.aTree (2 ^ (h - d) + c))

/-- The slots that the loop of `sqlite3VdbeSorterNext` visits from slot `i` on:
`i, i/2, .., 1`. -/
def treePath : Nat → Nat → List Nat
  | 0, _ => []
  | fuel + 1, i => if i > 0 then i :: treePath fuel (i / 2) else []

/-- An iterator of the examples: it stands on the key `key`, kept in `aAlloc`, of a file
that it has read to its end. -/
def exIter (key : List Nat) : VdbeSorterIter :=
  { iReadOff := 8, iEof := 8, nAlloc := 128, nKey := key.length, pFile := true
    aAlloc := listBytes key, aKey := IterPtr.alloc, aBuffer := fun _ => 0, nBuffer := 512 }

/-- A merge over two iterators, on the keys `[3, 7]` and `[1]`; the tree names the second. -/
def exMerge : SorterMerge :=
  { s := { exSorter with nPMA := 2, pRecord := [], nInMemory := 0, iWriteOff := 8 }
    hasTree := true
    nTree := 2
    aIter := fun i => if i = 0 then exIter [3, 7] else if i = 1 then exIter [1] else iterZero
    aTree := fun i => if i = 1 then 1 else 0 }

/-- The surroundings of the examples for a merge: reads and allocations succeed. -/
def exMergeEnv : MergeEnv :=
  { pma := exPmaEnv, rcRead := fun _ => 0, iterAllocOk := fun _ => true
    reallocOk := fun _ => true, treeAllocOk := true, rcOpenTemp2 := 0 }

end Btree

namespace Btree

/-! ## The cursor path inside a table B-tree -/

/-- The page number of the page at level `j` of the cursor path. -/
def pathPgno (c : BtCursor) : Nat → Nat
  | 0 => c.pgnoRoot
  | j + 1 => childPgno (c.apPage j) (c.aiIdx j)

/-- The keys below level `j` of the cursor path lie above `pathLo c j`. -/
def pathLo (c : BtCursor) : Nat → Int
  | 0 => I64_MIN - 1
  | j + 1 => if c.aiIdx j = 0 then pathLo c j else cellKey (c.apPage j) (c.aiIdx j - 1)

/-- The keys below level `j` of the cursor path lie at or below `pathHi c j`. -/
def pathHi (c : BtCursor) : Nat → Int
  | 0 => I64_MAX
  | j + 1 =>
    if c.aiIdx j = (c.apPage j).nCell then pathHi c j else cellKey (c.apPage j) (c.aiIdx j)

end Btree

namespace Btree

/-! ## The meta values of page 1 -/

/-- `BTREE_INCR_VACUUM` of the absent `btree.h`: the index of the incremental-vacuum flag
among the meta values. -/
def BTREE_INCR_VACUUM : Nat := 7

/-- `sqlite3BtreeGetMeta` (auto-vacuum compiled in): the value written to `*pMeta`, read
from the image of page 1 in the state. -/
def sqlite3BtreeGetMeta (s : DbState) (idx : Nat) : Nat :=
  get4byte (s.page 1) (36 + idx * 4)

/-- `sqlite3BtreeUpdateMeta`: result code, state and `pBt->incrVacuum` (a `u8`, initially
`incrVacuum`).  `rcWrite` is what `sqlite3PagerWrite` returns for page 1. -/
def sqlite3BtreeUpdateMeta (s : DbState) (rcWrite incrVacuum idx iMeta : Nat) :
    Nat × DbState × Nat :=
  if rcWrite = SQLITE_OK then
    (rcWrite, s.setPage 1 (put4byte (s.page 1) (36 + idx * 4) iMeta),
      if idx = BTREE_INCR_VACUUM then u8 iMeta else incrVacuum)
  else (rcWrite, s, incrVacuum)

/-- A state of four 1024-byte pages whose page 1 holds the meta values 0, 1, 2, .. 15. -/
def exMetaDb : DbState :=
  { nPage := 4
    page := fun _ => mkBytes ((List.range 16).map (fun i => (39 + 4 * i, i)))
    nRef := fun _ => 1 }

/-! ## `balance_nonroot`: the siblings that take part -/

/-- The head of `balance_nonroot` that finds "the sibling pages to balance": `nxDiv`, the
index in the parent of the first child that takes part, and `nOld`, the number of children
that take part.  The parent has `nCell` cells and `nOverflow` overflow cells. -/
def balanceSiblings (nCell nOverflow iParentIdx bBulk : Nat) : Nat × Nat :=
  let i := nOverflow + nCell
  if i < 2 then (0, i + 1)
  else
    (if iParentIdx = 0 then 0
     else if iParentIdx = i then i - 2 + bBulk
     else iParentIdx - 1,
     2 - bBulk + 1)

/-! ## A page with a freeblock below the cell content area -/

/-- A table-leaf page image (usable size 1024) with one cell of 124 bytes at offset 900,
which fills the cell content area, and a freeblock chain that consists of one block of 20
bytes at offset 10, right behind the cell-pointer array: the block lies in the gap below the
content area. -/
def exGapBlockPage : MemPage :=
  blankPage exBt1024 (mkBytes [(0, 13), (1, 0), (2, 10), (3, 0), (4, 1), (5, 3), (6, 132),
    (7, 0), (8, 3), (9, 132), (10, 0), (11, 0), (12, 0), (13, 20), (900, 122), (901, 5)]) 2

/-! ## An example cursor on the last entry -/

/-- The cursor that `sqlite3BtreeLast` leaves on the one-page table with the keys 5, 7, 10,
starting from a fresh cursor. -/
def exCursorLast : BtCursor :=
  match sqlite3BtreeLast 65556 exStoreBefore (freshCursor exBt1024 2) 0 with
  | some r => r.2.2
  | none => freshCursor exBt1024 2

end Btree

namespace Btree

/-! ## The integrity check -/

/-- Result code `SQLITE_IOERR_NOMEM`, that is `SQLITE_IOERR | (12<<8)`. -/
def SQLITE_IOERR_NOMEM : Nat := 3082

/-- Modelled from the spec: pointer-map entry type `PTRMAP_ROOTPAGE` (`btreeInt.h`). -/
def PTRMAP_ROOTPAGE : Nat := 1

/-- The messages of the integrity check without their wording and without the context
prefix `zMsg1`: one constructor for each format string handed to `checkAppendMsg`, with
the values that are printed. -/
inductive CkMsg where
  | invalidPage (iPage : Nat)
  | secondRef (iPage : Nat)
  | ptrmapRead (iChild : Nat)
  | ptrmapBad (iChild eType iParent ePtrmapType iPtrmapParent : Nat)
  | listMissing (n expected iFirst : Int)
  | getPage (iPage : Nat)
  | leafCount (iPage : Nat)
  | unableToGet (rc : Nat)
  | initPage (rc : Nat)
  | rowidOrder (nKey previous : Int)
  | depthDiffers
  | maxAboveParentMin (nMaxKey parentMin : Int)
  | minBelowParentMin (nMinKey parentMin : Int)
  | maxAboveParentMax (nMaxKey parentMax : Int)
  | minBelowParentMax (nMinKey parentMax : Int)
  | cellCorrupt (i iPage : Nat)
  | multipleUses (i iPage : Nat)
  | fragmentation (cnt reported iPage : Nat)
  | neverUsed (i : Nat)
  | ptrmapReferenced (i : Nat)
deriving DecidableEq

/-- What the integrity check gets from its surroundings: the page images; `rcGet p`, the
result code of `sqlite3PagerGet` for page `p` in `checkList`; `hitAllocOk p`, whether
`sqlite3PageMalloc` succeeds in `checkTreePage` of page `p`; `strFailed n`, whether the
string accumulator `errMsg` (of the absent `printf.c`) has failed to allocate when the
`n`-th message has been appended; `refAllocOk`, whether `aPgRef` can be allocated. -/
structure CkEnv where
  store : PageStore
  rcGet : Nat → Nat
  hitAllocOk : Nat → Bool
  strFailed : Nat → Bool
  refAllocOk : Bool

/-- The structure `IntegrityCk`; `errMsg` is the list of the messages appended.  The field
`refLog` is not in the C structure: it lists, latest first, the non-zero page numbers that
`checkRef` has been called with, so that the number of references to a page can be stated;
nothing reads it. -/
structure IntegrityCk where
  pBt : BtShared
  nPage : Nat
  aPgRef : Bytes
  mxErr : Int
  nErr : Nat
  mallocFailed : Bool
  errMsg : List CkMsg
  refLog : List Nat

/-- `checkAppendMsg`. -/
def checkAppendMsg (env : CkEnv) (ck : IntegrityCk) (msg : CkMsg) : IntegrityCk :=
  if ck.mxErr = 0 then ck
  else
    { ck with
      mxErr := ck.mxErr - 1
      nErr := ck.nErr + 1
      errMsg := ck.errMsg ++ [msg]
      mallocFailed := if env.strFailed (ck.nErr + 1) then true else ck.mallocFailed }

/-- `getPageReferenced`: non-zero if the bit of page `iPg` is set. -/
def getPageReferenced (ck : IntegrityCk) (iPg : Nat) : Nat :=
  ck.aPgRef (iPg / 8) &&& (1 <<< (iPg % 8))

/-- `setPageReferenced`. -/
def setPageReferenced (ck : IntegrityCk) (iPg : Nat) : IntegrityCk :=
  { ck with aPgRef := setAt ck.aPgRef (iPg / 8) (ck.aPgRef (iPg / 8) ||| (1 <<< (iPg % 8))) }

/-- `checkRef`: the value returned and the checker. -/
def checkRef (env : CkEnv) (ck : IntegrityCk) (iPage : Nat) : Nat × IntegrityCk :=
  if iPage = 0 then (1, ck)
  else if iPage > ck.nPage then
    (1, checkAppendMsg env { ck with refLog := iPage :: ck.refLog } (CkMsg.invalidPage iPage))
  else if getPageReferenced ck iPage ≠ 0 then
    (1, checkAppendMsg env { ck with refLog := iPage :: ck.refLog } (CkMsg.secondRef iPage))
  else (0, setPageReferenced { ck with refLog := iPage :: ck.refLog } iPage)

/-- `checkPtrmap`. -/
def checkPtrmap (env : CkEnv) (ck : IntegrityCk) (iChild eType iParent : Nat) : IntegrityCk :=
  if (ptrmapGet ck.pBt env.store.page iChild).1 ≠ SQLITE_OK then
    checkAppendMsg env
      (if (ptrmapGet ck.pBt env.store.page iChild).1 = SQLITE_NOMEM ∨
          (ptrmapGet ck.pBt env.store.page iChild).1 = SQLITE_IOERR_NOMEM then
        { ck with mallocFailed := true }
      else ck)
      (CkMsg.ptrmapRead iChild)
  else if (ptrmapGet ck.pBt env.store.page iChild).2.1 ≠ eType ∨
      (ptrmapGet ck.pBt env.store.page iChild).2.2 ≠ iParent then
    checkAppendMsg env ck
      (CkMsg.ptrmapBad iChild eType iParent (ptrmapGet ck.pBt env.store.page iChild).2.1
        (ptrmapGet ck.pBt env.store.page iChild).2.2)
  else ck

/-- The value of an `int` expression that has left the range of `int`, taken modulo
`2^32`. -/
def wrapInt (x : Int) : Int := toInt32 (x % 4294967296).toNat

/-- The loop `for(i=0; i<n; i++)` of `checkList` over the leaves of a free-list trunk page
with the image `data`: `k` leaves remain, the next one is leaf `i`. -/
def checkListLeaves (env : CkEnv) (data : Bytes) : Nat → Nat → IntegrityCk → IntegrityCk
  | 0, _, ck => ck
  | k + 1, i, ck =>
    checkListLeaves env data k (i + 1)
      (checkRef env
        (if ck.pBt.autoVacuum then
          checkPtrmap env ck (get4byte data (8 + i * 4)) PTRMAP_FREEPAGE 0
        else ck)
        (get4byte data (8 + i * 4))).2

/-- `checkList`: the loop `while( N-- > 0 && pCheck->mxErr )`, with `iPage` and `N` as they
are when the condition is evaluated. -/
def checkList (env : CkEnv) (isFreeList : Bool) (expected iFirst : Int) :
    Nat → IntegrityCk → Int → Int → Option IntegrityCk
  | 0, _, _, _ => none
  | fuel + 1, ck, iPage, N =>
    if N > 0 ∧ ck.mxErr ≠ 0 then
      if iPage < 1 then
        some (checkAppendMsg env ck (CkMsg.listMissing (wrapInt (N - 1) + 1) expected iFirst))
      else if (checkRef env ck iPage.toNat).1 ≠ 0 then some (checkRef env ck iPage.toNat).2
      else if env.rcGet iPage.toNat ≠ 0 then
        some (checkAppendMsg env (checkRef env ck iPage.toNat).2 (CkMsg.getPage iPage.toNat))
      else if isFreeList then
        if toInt32 (get4byte (env.store.page iPage.toNat) 4) > toInt32 ck.pBt.usableSize / 4 - 2 then
          checkList env isFreeList expected iFirst fuel
            (checkAppendMsg env
              (if ck.pBt.autoVacuum then
                checkPtrmap env (checkRef env ck iPage.toNat).2 iPage.toNat PTRMAP_FREEPAGE 0
              else (checkRef env ck iPage.toNat).2)
              (CkMsg.leafCount iPage.toNat))
            (toInt32 (get4byte (env.store.page iPage.toNat) 0)) (wrapInt (wrapInt (N - 1) - 1))
        else
          checkList env isFreeList expected iFirst fuel
            (checkListLeaves env (env.store.page iPage.toNat)
              (toInt32 (get4byte (env.store.page iPage.toNat) 4)).toNat 0
              (if ck.pBt.autoVacuum then
                checkPtrmap env (checkRef env ck iPage.toNat).2 iPage.toNat PTRMAP_FREEPAGE 0
              else (checkRef env ck iPage.toNat).2))
            (toInt32 (get4byte (env.store.page iPage.toNat) 0))
            (wrapInt (wrapInt (N - 1) - toInt32 (get4byte (env.store.page iPage.toNat) 4)))
      else
        checkList env isFreeList expected iFirst fuel
          (if ck.pBt.autoVacuum = true ∧ wrapInt (N - 1) > 0 then
            checkPtrmap env (checkRef env ck iPage.toNat).2
              (get4byte (env.store.page iPage.toNat) 0) PTRMAP_OVERFLOW2 iPage.toNat
          else (checkRef env ck iPage.toNat).2)
          (toInt32 (get4byte (env.store.page iPage.toNat) 0)) (wrapInt (N - 1))
    else some ck

/-- The loop `for(j=pc+size-1; j>=pc; j--) hit[j]++`.  The counts, of type `char` in the
source, are kept as natural numbers. -/
def hitRange (hit : Nat → Nat) (pc size : Nat) : Nat → Nat :=
  fun j => if pc ≤ j ∧ j < pc + size then hit j + 1 else hit j

/-- The loop over the cells in the coverage check of `checkTreePage`: `k` cells remain, the
next one is cell `i`. -/
def coverCells (env : CkEnv) (pPage : MemPage) (iPage usableSize cellStart : Nat) :
    Nat → Nat → IntegrityCk → (Nat → Nat) → IntegrityCk × (Nat → Nat)
  | 0, _, ck, hit => (ck, hit)
  | k + 1, i, ck, hit =>
    if get2byte pPage.aData (cellStart + i * 2) +
        (if get2byte pPage.aData (cellStart + i * 2) + 4 ≤ usableSize then
          cellSizePtr pPage pPage.aData (get2byte pPage.aData (cellStart + i * 2))
        else 65536) - 1 ≥ usableSize then
      coverCells env pPage iPage usableSize cellStart k (i + 1)
        (checkAppendMsg env ck (CkMsg.cellCorrupt i iPage)) hit
    else
      coverCells env pPage iPage usableSize cellStart k (i + 1) ck
        (hitRange hit (get2byte pPage.aData (cellStart + i * 2))
          (if get2byte pPage.aData (cellStart + i * 2) + 4 ≤ usableSize then
            cellSizePtr pPage pPage.aData (get2byte pPage.aData (cellStart + i * 2))
          else 65536))

/-- The loop `while( i>0 )` over the freeblocks in the coverage check of `checkTreePage`. -/
def coverFree (data : Bytes) : Nat → Nat → (Nat → Nat) → Option (Nat → Nat)
  | 0, _, _ => none
  | fuel + 1, i, hit =>
    if i > 0 then
      coverFree data fuel (get2byte data i) (hitRange hit i (get2byte data (i + 2)))
    else some hit

/-- The loop `for(i=cnt=0; i<usableSize; i++)` of `checkTreePage`: `k` bytes remain, the
next one is byte `i`.  The checker and `cnt`. -/
def coverCount (env : CkEnv) (iPage : Nat) (hit : Nat → Nat) :
    Nat → Nat → Nat → IntegrityCk → IntegrityCk × Nat
  | 0, _, cnt, ck => (ck, cnt)
  | k + 1, i, cnt, ck =>
    if hit i = 0 then coverCount env iPage hit k (i + 1) (cnt + 1) ck
    else if hit i > 1 then (checkAppendMsg env ck (CkMsg.multipleUses i iPage), cnt)
    else coverCount env iPage hit k (i + 1) cnt ck

/-- The part of `checkTreePage` under "Check for complete coverage of the page". -/
def checkCoverage (env : CkEnv) (fuel : Nat) (ck : IntegrityCk) (pPage : MemPage)
    (iPage : Nat) : Option IntegrityCk :=
  if env.hitAllocOk iPage = false then some { ck with mallocFailed := true }
  else
    match coverFree pPage.aData fuel (get2byte pPage.aData (pPage.hdrOffset + 1))
        (coverCells env pPage iPage ck.pBt.usableSize (pPage.hdrOffset + 12 - 4 * pPage.leaf)
          (get2byte pPage.aData (pPage.hdrOffset + 3)) 0 ck
          (fun j => if j < get2byteNotZero pPage.aData (pPage.hdrOffset + 5) then 1 else 0)).2 with
    | none => none
    | some hit =>
      if (coverCount env iPage hit ck.pBt.usableSize 0 0
          (coverCells env pPage iPage ck.pBt.usableSize (pPage.hdrOffset + 12 - 4 * pPage.leaf)
            (get2byte pPage.aData (pPage.hdrOffset + 3)) 0 ck
            (fun j => if j < get2byteNotZero pPage.aData (pPage.hdrOffset + 5) then 1 else 0)).1).2
          ≠ getByte pPage.aData (pPage.hdrOffset + 7) then
        some (checkAppendMsg env
          (coverCount env iPage hit ck.pBt.usableSize 0 0
            (coverCells env pPage iPage ck.pBt.usableSize (pPage.hdrOffset + 12 - 4 * pPage.leaf)
              (get2byte pPage.aData (pPage.hdrOffset + 3)) 0 ck
              (fun j =>
                if j < get2byteNotZero pPage.aData (pPage.hdrOffset + 5) then 1 else 0)).1).1
          (CkMsg.fragmentation
            (coverCount env iPage hit ck.pBt.usableSize 0 0
              (coverCells env pPage iPage ck.pBt.usableSize
                (pPage.hdrOffset + 12 - 4 * pPage.leaf)
                (get2byte pPage.aData (pPage.hdrOffset + 3)) 0 ck
                (fun j =>
                  if j < get2byteNotZero pPage.aData (pPage.hdrOffset + 5) then 1 else 0)).1).2
            (getByte pPage.aData (pPage.hdrOffset + 7)) iPage))
      else
        some (coverCount env iPage hit ck.pBt.usableSize 0 0
          (coverCells env pPage iPage ck.pBt.usableSize (pPage.hdrOffset + 12 - 4 * pPage.leaf)
            (get2byte pPage.aData (pPage.hdrOffset + 3)) 0 ck
            (fun j =>
              if j < get2byteNotZero pPage.aData (pPage.hdrOffset + 5) then 1 else 0)).1).1

/-- The part of `checkTreePage` under "For intKey leaf pages, check that the min/max keys
are in order with any left/parent/right pages": the checker and `*pnParentMinKey` (`none`
for a null pointer). -/
def checkLeafKeys (env : CkEnv) (ck : IntegrityCk) (pPage : MemPage) (nMinKey nMaxKey : Int)
    (pnParentMinKey pnParentMaxKey : Option Int) : IntegrityCk × Option Int :=
  if pPage.leaf ≠ 0 ∧ pPage.intKey ≠ 0 then
    match pnParentMinKey, pnParentMaxKey with
    | some pmin, none =>
      (if nMaxKey > pmin then checkAppendMsg env ck (CkMsg.maxAboveParentMin nMaxKey pmin)
        else ck, some pmin)
    | some pmin, some pmax =>
      (if nMaxKey > pmax then
          checkAppendMsg env
            (if nMinKey ≤ pmin then checkAppendMsg env ck (CkMsg.minBelowParentMin nMinKey pmin)
              else ck)
            (CkMsg.maxAboveParentMax nMaxKey pmax)
        else
          (if nMinKey ≤ pmin then checkAppendMsg env ck (CkMsg.minBelowParentMin nMinKey pmin)
            else ck),
        some nMaxKey)
    | none, some pmax =>
      (if nMinKey ≤ pmax then checkAppendMsg env ck (CkMsg.minBelowParentMax nMinKey pmax)
        else ck, none)
    | none, none => (ck, none)
  else (ck, pnParentMinKey)

/-- The loop "Check out all the cells" of `checkTreePage`: `k` cells remain, the next one is
cell `i`; `child` is the recursive call of `checkTreePage`.  The checker, `depth`,
`nMinKey` and `nMaxKey`. -/
def checkCells (env : CkEnv)
    (child : IntegrityCk → Nat → Option Int → Option Int → Option (Nat × IntegrityCk × Option Int))
    (listFuel : Nat) (pPage : MemPage) (iPage : Nat) :
    Nat → Nat → IntegrityCk → Nat → Int → Int → Option (IntegrityCk × Nat × Int × Int)
  | 0, _, ck, depth, nMinKey, nMaxKey => some (ck, depth, nMinKey, nMaxKey)
  | k + 1, i, ck, depth, nMinKey, nMaxKey =>
    if ck.mxErr = 0 then some (ck, depth, nMinKey, nMaxKey)
    else
      match
        (if (if pPage.intKey = 0 then
              u32 ((btreeParseCellPtr pPage pPage.aData (findCell pPage i)).nData +
                ((btreeParseCellPtr pPage pPage.aData (findCell pPage i)).nKey %
                  4294967296).toNat)
            else (btreeParseCellPtr pPage pPage.aData (findCell pPage i)).nData) >
              (btreeParseCellPtr pPage pPage.aData (findCell pPage i)).nLocal ∧
            findCell pPage i + (btreeParseCellPtr pPage pPage.aData (findCell pPage i)).iOverflow
              ≤ ck.pBt.usableSize then
          checkList env false
            (toInt32 (u32sub (u32 (u32sub
              (if pPage.intKey = 0 then
                u32 ((btreeParseCellPtr pPage pPage.aData (findCell pPage i)).nData +
                  ((btreeParseCellPtr pPage pPage.aData (findCell pPage i)).nKey %
                    4294967296).toNat)
              else (btreeParseCellPtr pPage pPage.aData (findCell pPage i)).nData)
              (btreeParseCellPtr pPage pPage.aData (findCell pPage i)).nLocal +
                ck.pBt.usableSize)) 5 / u32sub ck.pBt.usableSize 4))
            (toInt32 (get4byte pPage.aData (findCell pPage i +
              (btreeParseCellPtr pPage pPage.aData (findCell pPage i)).iOverflow)))
            listFuel
            (if ck.pBt.autoVacuum then
              checkPtrmap env
                (if pPage.intKey ≠ 0 ∧ i ≠ 0 ∧
                    (btreeParseCellPtr pPage pPage.aData (findCell pPage i)).nKey ≤ nMaxKey then
                  checkAppendMsg env ck (CkMsg.rowidOrder
                    (btreeParseCellPtr pPage pPage.aData (findCell pPage i)).nKey nMaxKey)
                else ck)
                (get4byte pPage.aData (findCell pPage i +
                  (btreeParseCellPtr pPage pPage.aData (findCell pPage i)).iOverflow))
                PTRMAP_OVERFLOW1 iPage
            else
              (if pPage.intKey ≠ 0 ∧ i ≠ 0 ∧
                  (btreeParseCellPtr pPage pPage.aData (findCell pPage i)).nKey ≤ nMaxKey then
                checkAppendMsg env ck (CkMsg.rowidOrder
                  (btreeParseCellPtr pPage pPage.aData (findCell pPage i)).nKey nMaxKey)
              else ck))
            (toInt32 (get4byte pPage.aData (findCell pPage i +
              (btreeParseCellPtr pPage pPage.aData (findCell pPage i)).iOverflow)))
            (toInt32 (u32sub (u32 (u32sub
              (if pPage.intKey = 0 then
                u32 ((btreeParseCellPtr pPage pPage.aData (findCell pPage i)).nData +
                  ((btreeParseCellPtr pPage pPage.aData (findCell pPage i)).nKey %
                    4294967296).toNat)
              else (btreeParseCellPtr pPage pPage.aData (findCell pPage i)).nData)
              (btreeParseCellPtr pPage pPage.aData (findCell pPage i)).nLocal +
                ck.pBt.usableSize)) 5 / u32sub ck.pBt.usableSize 4))
        else
          some (if pPage.intKey ≠ 0 ∧ i ≠ 0 ∧
              (btreeParseCellPtr pPage pPage.aData (findCell pPage i)).nKey ≤ nMaxKey then
            checkAppendMsg env ck (CkMsg.rowidOrder
              (btreeParseCellPtr pPage pPage.aData (findCell pPage i)).nKey nMaxKey)
          else ck)) with
      | none => none
      | some ck2 =>
        if pPage.leaf = 0 then
          match child
              (if ck2.pBt.autoVacuum then
                checkPtrmap env ck2 (get4byte pPage.aData (findCell pPage i)) PTRMAP_BTREE iPage
              else ck2)
              (get4byte pPage.aData (findCell pPage i))
              (some (if pPage.intKey ≠ 0 ∧ i = 0 then
                (btreeParseCellPtr pPage pPage.aData (findCell pPage i)).nKey else nMinKey))
              (if i = 0 then none
                else some (if pPage.intKey ≠ 0 then
                  (btreeParseCellPtr pPage pPage.aData (findCell pPage i)).nKey else nMaxKey)) with
          | none => none
          | some (d2, ck4, pMin) =>
            checkCells env child listFuel pPage iPage k (i + 1)
              (if i > 0 ∧ d2 ≠ depth then checkAppendMsg env ck4 CkMsg.depthDiffers else ck4)
              d2
              (pMin.getD (if pPage.intKey ≠ 0 ∧ i = 0 then
                (btreeParseCellPtr pPage pPage.aData (findCell pPage i)).nKey else nMinKey))
              (if pPage.intKey ≠ 0 then
                (btreeParseCellPtr pPage pPage.aData (findCell pPage i)).nKey else nMaxKey)
        else
          checkCells env child listFuel pPage iPage k (i + 1) ck2 depth
            (if pPage.intKey ≠ 0 ∧ i = 0 then
              (btreeParseCellPtr pPage pPage.aData (findCell pPage i)).nKey else nMinKey)
            (if pPage.intKey ≠ 0 then
              (btreeParseCellPtr pPage pPage.aData (findCell pPage i)).nKey else nMaxKey)

/-- `checkTreePage`: the depth returned, the checker and `*pnParentMinKey` (`none` for a
null pointer).  `fuel` bounds the depth of the recursion, `fi` is the fuel of
`btreeInitPage` and of the freeblock loop, `listFuel` that of `checkList`. -/
def checkTreePage (env : CkEnv) (fi listFuel : Nat) :
    Nat → IntegrityCk → Nat → Option Int → Option Int → Option (Nat × IntegrityCk × Option Int)
  | 0, _, _, _, _ => none
  | fuel + 1, ck, iPage, pnParentMinKey, pnParentMaxKey =>
    if iPage = 0 then some (0, ck, pnParentMinKey)
    else if (checkRef env ck iPage).1 ≠ 0 then some (0, (checkRef env ck iPage).2, pnParentMinKey)
    else if (btreeGetPage ck.pBt env.store iPage (blankPage ck.pBt (fun _ => 0) 0)).1 ≠ 0 then
      some (0, checkAppendMsg env (checkRef env ck iPage).2
        (CkMsg.unableToGet (btreeGetPage ck.pBt env.store iPage (blankPage ck.pBt (fun _ => 0) 0)).1),
        pnParentMinKey)
    else
      match btreeInitPage fi
          { (btreeGetPage ck.pBt env.store iPage (blankPage ck.pBt (fun _ => 0) 0)).2 with
            isInit := false } with
      | none => none
      | some (rc, pPage) =>
        if rc ≠ 0 then
          some (0, checkAppendMsg env (checkRef env ck iPage).2 (CkMsg.initPage rc),
            pnParentMinKey)
        else
          match checkCells env (checkTreePage env fi listFuel fuel) listFuel pPage iPage
              pPage.nCell 0 (checkRef env ck iPage).2 0 0 0 with
          | none => none
          | some (ck1, depth, nMinKey, nMaxKey) =>
            match
              (if pPage.leaf = 0 then
                (checkTreePage env fi listFuel fuel
                  (if ck1.pBt.autoVacuum then
                    checkPtrmap env ck1 (get4byte pPage.aData (pPage.hdrOffset + 8))
                      PTRMAP_BTREE iPage
                  else ck1)
                  (get4byte pPage.aData (pPage.hdrOffset + 8)) none
                  (if pPage.nCell = 0 then none else some nMaxKey)).map (fun r => r.2.1)
              else some ck1) with
            | none => none
            | some ck2 =>
              match checkCoverage env fi
                  (checkLeafKeys env ck2 pPage nMinKey nMaxKey pnParentMinKey pnParentMaxKey).1
                  pPage iPage with
              | none => none
              | some ck3 =>
                some (depth + 1, ck3,
                  (checkLeafKeys env ck2 pPage nMinKey nMaxKey pnParentMinKey
                    pnParentMaxKey).2)

/-- The loop "Check all the tables" of `sqlite3BtreeIntegrityCheck` over `aRoot`, an array
of `int`; a root is handed on as the page number it is modulo `2^32`. -/
def checkRoots (env : CkEnv) (fi listFuel fuel : Nat) :
    List Int → IntegrityCk → Option IntegrityCk
  | [], ck => some ck
  | root :: rest, ck =>
    if ck.mxErr = 0 then some ck
    else if root = 0 then checkRoots env fi listFuel fuel rest ck
    else
      match checkTreePage env fi listFuel fuel
          (if ck.pBt.autoVacuum = true ∧ root > 1 then
            checkPtrmap env ck (root % 4294967296).toNat PTRMAP_ROOTPAGE 0
          else ck) (root % 4294967296).toNat none none with
      | none => none
      | some r => checkRoots env fi listFuel fuel rest r.2.1

/-- The first `if` of the body of the loop "Make sure every page in the file is referenced"
(auto-vacuum compiled in), for page `i`. -/
def checkNeverUsed (env : CkEnv) (ck : IntegrityCk) (i : Nat) : IntegrityCk :=
  if getPageReferenced ck i = 0 ∧ (ptrmapPageno ck.pBt i ≠ i ∨ ck.pBt.autoVacuum = false) then
    checkAppendMsg env ck (CkMsg.neverUsed i)
  else ck

/-- The body of the loop "Make sure every page in the file is referenced" for page `i`: the
first `if` and then the second. -/
def checkPageUsed (env : CkEnv) (ck : IntegrityCk) (i : Nat) : IntegrityCk :=
  if getPageReferenced (checkNeverUsed env ck i) i ≠ 0 ∧
      (ptrmapPageno ck.pBt i = i ∧ ck.pBt.autoVacuum = true) then
    checkAppendMsg env (checkNeverUsed env ck i) (CkMsg.ptrmapReferenced i)
  else checkNeverUsed env ck i

/-- The loop "Make sure every page in the file is referenced" of
`sqlite3BtreeIntegrityCheck`: `k` pages remain, the next one is page `i`. -/
def checkPages (env : CkEnv) : Nat → Nat → IntegrityCk → IntegrityCk
  | 0, _, ck => ck
  | k + 1, i, ck =>
    if ck.mxErr = 0 then ck
    else checkPages env k (i + 1) (checkPageUsed env ck i)

/-- The checker as `sqlite3BtreeIntegrityCheck` sets it up. -/
def checkStart (env : CkEnv) (pBt : BtShared) (mxErr : Int) : IntegrityCk :=
  { pBt := pBt, nPage := env.store.nPage, aPgRef := fun _ => 0, mxErr := mxErr, nErr := 0
    mallocFailed := false, errMsg := [], refLog := [] }

/-- `sqlite3BtreeIntegrityCheck`: `*pnErr` and the checker at the end.  The pages the check
fetches are all released again, so the reference count of the pager is what it was and the
`NEVER` branch is not taken. -/
def sqlite3BtreeIntegrityCheck (env : CkEnv) (fi listFuel fuel : Nat) (pBt : BtShared)
    (aRoot : List Int) (mxErr : Int) : Option (Nat × IntegrityCk) :=
  if env.store.nPage = 0 then some (0, checkStart env pBt mxErr)
  else if env.refAllocOk = false then some (1, checkStart env pBt mxErr)
  else
    match checkList env true (toInt32 (get4byte (env.store.page 1) 36))
        (toInt32 (get4byte (env.store.page 1) 32)) listFuel
        (if PENDING_BYTE_PAGE pBt ≤ env.store.nPage then
          setPageReferenced (checkStart env pBt mxErr) (PENDING_BYTE_PAGE pBt)
        else checkStart env pBt mxErr)
        (toInt32 (get4byte (env.store.page 1) 32))
        (toInt32 (get4byte (env.store.page 1) 36)) with
    | none => none
    | some ck1 =>
      match checkRoots env fi listFuel fuel aRoot ck1 with
      | none => none
      | some ck2 =>
        if (checkPages env ck2.nPage 1 ck2).mallocFailed then
          some ((checkPages env ck2.nPage 1 ck2).nErr + 1, checkPages env ck2.nPage 1 ck2)
        else some ((checkPages env ck2.nPage 1 ck2).nErr, checkPages env ck2.nPage 1 ck2)

/-! ## An example for the integrity check: a tree of uneven depth -/

/-- Image of page 1 (header at offset 100): an empty table leaf, the free list empty. -/
def exCkPage1 : Bytes :=
  mkBytes [(100, 13), (105, 4), (106, 0)]

/-- Image of a table interior page with one 5-byte cell at offset 1019: left child `left`,
key `key` (below 128), right child `right` (page numbers below 256).  The cell fills the
cell content area. -/
def exCkInterior (left key right : Nat) : Bytes :=
  mkBytes [(0, 5), (4, 1), (5, 3), (6, 251), (11, right), (12, 3), (13, 251),
    (1022, left), (1023, key)]

/-- Image of a table leaf with one 4-byte cell at offset 1020: key `key` (below 128) and
two bytes of data.  The cell fills the cell content area. -/
def exCkLeaf (key : Nat) : Bytes :=
  mkBytes [(0, 13), (4, 1), (5, 3), (6, 252), (8, 3), (9, 252), (1020, 2), (1021, key),
    (1022, 170), (1023, 187)]

/-- A database of six pages.  The table rooted at page 2 has the leaf 3 (key 5) as its left
child and the interior page 4 (divider 20, leaves 5 and 6 with the keys 15 and 30) as its
right child: the subtree under the right-child pointer of page 2 is one level deeper than
the one under its cell. -/
def exCkEnv : CkEnv :=
  { store :=
      { nPage := 6
        page := fun p =>
          if p = 1 then exCkPage1
          else if p = 2 then exCkInterior 3 10 4
          else if p = 3 then exCkLeaf 5
          else if p = 4 then exCkInterior 5 20 6
          else if p = 5 then exCkLeaf 15
          else exCkLeaf 30 }
    rcGet := fun _ => 0
    hitAllocOk := fun _ => true
    strFailed := fun _ => false
    refAllocOk := true }

/-- The database `exCkEnv` read while no page buffer can be allocated for the coverage
check. -/
def exCkEnvNoMem : CkEnv :=
  { exCkEnv with hitAllocOk := fun _ => false }

/-! ## What the integrity check keeps true while it runs -/

/-- Number of the page numbers in `[0, nPage]` whose bit in `aPgRef` is clear. -/
def unrefCount (ck : IntegrityCk) : Nat :=
  (List.range (ck.nPage + 1)).countP (fun p => decide (getPageReferenced ck p = 0))

/-- The checker `ck2` comes after `ck1`: same database, the budget `mxErr` has gone down by
what `nErr` has gone up, an exhausted budget stays exhausted, and no bit of `aPgRef` has
been cleared. -/
def CkAfter (ck1 ck2 : IntegrityCk) : Prop :=
  ck2.pBt = ck1.pBt ∧ ck2.nPage = ck1.nPage ∧
  ck2.mxErr + ck2.nErr = ck1.mxErr + ck1.nErr ∧
  ck2.mxErr ≤ ck1.mxErr ∧
  (ck1.mxErr = 0 → ck2.mxErr = 0) ∧
  (0 ≤ ck1.mxErr → 0 ≤ ck2.mxErr) ∧
  (∀ p, getPageReferenced ck1 p ≠ 0 → getPageReferenced ck2 p ≠ 0)

/-- The state of the checker, `pend` being the pending-byte page: one message for each
error counted; the bit of a page of the file is set exactly if it is the pending-byte page
or `checkRef` has been called with it; and, while the budget is not exhausted, a page that
`checkRef` has been called with twice, or once if it is the pending-byte page, has its
"2nd reference" message. -/
def CkInv (pend : Nat) (ck : IntegrityCk) : Prop :=
  ck.errMsg.length = ck.nErr ∧
  (∀ p, p ≤ ck.nPage → (getPageReferenced ck p ≠ 0 ↔ p = pend ∨ p ∈ ck.refLog)) ∧
  (ck.mxErr ≠ 0 → ∀ p, p ≤ ck.nPage → p ∈ ck.refLog →
    (2 ≤ ck.refLog.count p ∨ p = pend) → CkMsg.secondRef p ∈ ck.errMsg)

/-- A step of the check from `ck1` to `ck2`: `ck2` comes after `ck1` and is in a state
described by `CkInv` if `ck1` is. -/
def CkStep (pend : Nat) (ck1 ck2 : IntegrityCk) : Prop :=
  CkAfter ck1 ck2 ∧ (CkInv pend ck1 → CkInv pend ck2)

end Btree

namespace Btree

/-! ## `balance_nonroot`: how the cells are packed on the new pages -/

/-- Macro `NB`: the number of pages taking part in a balance, `NN*2+1` with `NN = 1`. -/
def NB : Nat := 3

/-- The `int` variable `usableSpace` of `balance_nonroot`:
`pBt->usableSize - 12 + leafCorrection` with `leafCorrection = 4 * leaf`. -/
def balanceUsableSpace (usableSize leaf : Nat) : Int :=
  toInt32 (u32 (u32sub usableSize 12 + 4 * leaf))

/-- The element `szCell[i]` for an `int` index `i`.  Outside the array, where the C
program reads whatever memory is there, the value is taken as 0. -/
def szAt (szCell : List Nat) (i : Int) : Int :=
  if 0 ≤ i then ((szCell.getD i.toNat 0 : Nat) : Int) else 0

/-- The variables `k`, `szNew[]` and `cntNew[]` of `balance_nonroot`.  The field `reads` is
not in the C program: it lists, latest first, the indices at which `szCell[]` has been
read. -/
structure PackState where
  k : Nat
  szNew : Nat → Int
  cntNew : Nat → Int
  reads : List Int

/-- The loop `for(subtotal=k=i=0; i<nCell; i++)` of `balance_nonroot` with the statements
that follow it, entered with `i` and `subtotal`: the result code and the state. -/
def packFill (szCell : List Nat) (usableSpace : Int) (leafData : Nat) :
    Nat → Int → Int → PackState → Option (Nat × PackState)
  | 0, _, _, _ => none
  | fuel + 1, i, subtotal, st =>
    if i < szCell.length then
      if subtotal + (szAt szCell i + 2) > usableSpace then
        if st.k + 1 > NB + 1 then
          some (SQLITE_CORRUPT,
            { k := st.k + 1
              szNew := setAt st.szNew st.k (subtotal + (szAt szCell i + 2) - szAt szCell i)
              cntNew := setAt st.cntNew st.k i
              reads := i :: st.reads })
        else
          packFill szCell usableSpace leafData fuel
            ((if leafData ≠ 0 then i - 1 else i) + 1) 0
            { k := st.k + 1
              szNew := setAt st.szNew st.k (subtotal + (szAt szCell i + 2) - szAt szCell i)
              cntNew := setAt st.cntNew st.k i
              reads := i :: st.reads }
      else
        packFill szCell usableSpace leafData fuel (i + 1) (subtotal + (szAt szCell i + 2))
          { st with reads := i :: st.reads }
    else
      some (SQLITE_OK,
        { st with
          k := st.k + 1
          szNew := setAt st.szNew st.k subtotal
          cntNew := setAt st.cntNew st.k szCell.length })

/-- The loop `while( szRight==0 || (!bBulk && ...) )` of `balance_nonroot` for one pair of
neighbouring pages, `cnt` being `cntNew[i-1]`: `szRight`, `szLeft`, `cntNew[i-1]` and the
indices read.  The condition reads `szCell[d]` and `szCell[r]` unless `szRight` is zero or
`bBulk` is set, and the body reads the same two elements. -/
def packShift (szCell : List Nat) (leafData bBulk : Nat) :
    Nat → Int → Int → Int → List Int → Option (Int × Int × Int × List Int)
  | 0, _, _, _, _ => none
  | fuel + 1, szRight, szLeft, cnt, reads =>
    if szRight = 0 ∨ (bBulk = 0 ∧
        szRight + szAt szCell (cnt - 1 + 1 - leafData) + 2 ≤
          szLeft - (szAt szCell (cnt - 1) + 2)) then
      packShift szCell leafData bBulk fuel
        (szRight + (szAt szCell (cnt - 1 + 1 - leafData) + 2))
        (szLeft - (szAt szCell (cnt - 1) + 2)) (cnt - 1)
        ((cnt - 1) :: (cnt - 1 + 1 - leafData) :: reads)
    else
      some (szRight, szLeft, cnt,
        if bBulk = 0 then (cnt - 1) :: (cnt - 1 + 1 - leafData) :: reads else reads)

/-- The loop `for(i=k-1; i>0; i--)` of `balance_nonroot`, entered with `i = n`. -/
def packAdjust (szCell : List Nat) (leafData bBulk fuel : Nat) :
    Nat → PackState → Option PackState
  | 0, st => some st
  | n + 1, st =>
    match packShift szCell leafData bBulk fuel (st.szNew (n + 1)) (st.szNew n) (st.cntNew n)
        st.reads with
    | none => none
    | some (szRight, szLeft, cnt, reads) =>
      packAdjust szCell leafData bBulk fuel n
        { st with
          szNew := setAt (setAt st.szNew (n + 1) szRight) n szLeft
          cntNew := setAt st.cntNew n cnt
          reads := reads }

/-- The packing computed by `balance_nonroot` for the cell sizes `szCell`: the left-to-right
fill and, unless that ends with `SQLITE_CORRUPT`, the right-to-left adjustment.  `szNew0`
and `cntNew0` are the arrays as the computation finds them. -/
def balancePacking (szCell : List Nat) (usableSpace : Int) (leafData bBulk fuel : Nat)
    (szNew0 cntNew0 : Nat → Int) : Option (Nat × PackState) :=
  match packFill szCell usableSpace leafData fuel 0 0
      { k := 0, szNew := szNew0, cntNew := cntNew0, reads := [] } with
  | none => none
  | some (rc, st) =>
    if rc ≠ 0 then some (rc, st)
    else (packAdjust szCell leafData bBulk fuel (st.k - 1) st).map (fun s => (SQLITE_OK, s))

/-- The bookkeeping of the loop "Evenly distribute the data in apCell[] across the new
pages": for each of the `n` new pages from page `i` on, with `j` as it is at the top of the
loop body, the first cell and the end `cntNew[i]` of the cells that `assemblePage` puts on
the page, and the index of the cell that goes to the parent as a divider, if one does (for
a table leaf the divider is built from a key and no cell is used). -/
def distributeCells (nCell : Int) (leaf leafData : Nat) (cntNew : Nat → Int) :
    Nat → Nat → Int → List (Int × Int × Option Int)
  | 0, _, _ => []
  | n + 1, i, j =>
    (j, cntNew i,
      if cntNew i < nCell ∧ (leaf = 0 ∨ leafData = 0) then some (cntNew i) else none) ::
    distributeCells nCell leaf leafData cntNew n (i + 1)
      (if cntNew i < nCell then
        (if leaf = 0 then cntNew i else if leafData ≠ 0 then cntNew i - 1 else cntNew i) + 1
      else cntNew i)

/-- First cell of new page `j` according to `cntNew[]`: a page starts after the end of the
one before, and after the divider if the cells themselves serve as dividers. -/
def pageStart (leafData : Nat) (cntNew : Nat → Int) (j : Nat) : Int :=
  if j = 0 then 0 else cntNew (j - 1) + 1 - leafData

/-- Sum of `szCell[i] + 2` over the `n` cells from index `a` on. -/
def cellBytesN (szCell : List Nat) (a : Int) : Nat → Int
  | 0 => 0
  | n + 1 => cellBytesN szCell a n + (szAt szCell (a + n) + 2)

/-- Sum of `szCell[i] + 2` over the cells with `a ≤ i < b`: the bytes the cells and their
pointers take on a page. -/
def cellBytes (szCell : List Nat) (a b : Int) : Int :=
  cellBytesN szCell a (b - a).toNat

/-- How often cell `x` is used by the distribution `d`: the number of pages it is put on
plus the number of times it is the divider. -/
def timesPlaced (d : List (Int × Int × Option Int)) (x : Int) : Nat :=
  d.countP (fun r => decide (r.1 ≤ x ∧ x < r.2.1)) +
  d.countP (fun r => decide (r.2.2 = some x))

/-- Page `j` as the left-to-right fill closes it: it starts inside the array and holds at
least one cell, and at least two if the cells serve as dividers; the cell after it exists;
`szNew[j]` is the bytes of its cells plus two; these bytes fit `usableSpace`, and with the
cell after the page they do not. -/
def ClosedPage (szCell : List Nat) (usableSpace : Int) (leafData : Nat) (st : PackState)
    (j : Nat) : Prop :=
  0 ≤ pageStart leafData st.cntNew j ∧
  pageStart leafData st.cntNew j < st.cntNew j ∧
  (leafData = 0 → pageStart leafData st.cntNew j + 2 ≤ st.cntNew j) ∧
  st.cntNew j < szCell.length ∧
  st.szNew j = cellBytes szCell (pageStart leafData st.cntNew j) (st.cntNew j) + 2 ∧
  cellBytes szCell (pageStart leafData st.cntNew j) (st.cntNew j) ≤ usableSpace ∧
  cellBytes szCell (pageStart leafData st.cntNew j) (st.cntNew j) +
    (szAt szCell (st.cntNew j) + 2) > usableSpace

/-- Page `j` as the adjustment leaves it: it starts inside the array, holds at least one
cell and the bytes of its cells fit `usableSpace`. -/
def FinalPage (szCell : List Nat) (usableSpace : Int) (leafData : Nat) (cntNew : Nat → Int)
    (j : Nat) : Prop :=
  0 ≤ pageStart leafData cntNew j ∧
  pageStart leafData cntNew j < cntNew j ∧
  cellBytes szCell (pageStart leafData cntNew j) (cntNew j) ≤ usableSpace

/-- Cell sizes for the example: twelve cells of 300 bytes. -/
def exSzCell : List Nat := List.replicate 12 300

end Btree

namespace Btree

/-! ## Writing a payload, `accessPayload` with `eOp = 1` -/

/-- What `accessPayload` gets from the pager and the allocator in write mode: `pagerGet p`
and `pagerWrite p` are the result codes of `sqlite3PagerGet` and `sqlite3PagerWrite` for
page `p`, `allocOk` tells whether `sqlite3MallocZero` can allocate the overflow page-list
cache. -/
structure WriteEnv where
  pagerGet : Nat → Nat
  pagerWrite : Nat → Nat
  allocOk : Bool

/-- The variables of the overflow loop of `accessPayload` in write mode: those of the read
loop except the buffer, which is only read, and the page images. -/
structure WriteState where
  rc : Nat
  offset : Nat
  amt : Nat
  bufOff : Nat
  nextPage : Nat
  iIdx : Nat
  aOverflow : Option (Nat → Nat)
  page : Nat → Bytes

/-- The `int` variable `a` of `accessPayload` after
`a = amt; if( a+offset>limit ) a = limit - offset;` where the sum is computed in `u32`. -/
def accessChunk (amt offset limit : Nat) : Int :=
  if u32 (amt + offset) > limit then toInt32 (u32sub limit offset) else toInt32 amt

/-- The loop `for(; rc==SQLITE_OK && amt>0 && nextPage; iIdx++)` of `accessPayload` in write
mode.  `copyPayload` copies `a` bytes of the buffer to the page; the model copies nothing
where `a` is negative, a case in which the C program calls `memcpy` with a length above
`2^63`. -/
def accessLoopWrite (env : WriteEnv) (pBt : BtShared) (nPage : Nat) (pBuf : Bytes) :
    Nat → WriteState → Option WriteState
  | 0, _ => none
  | fuel + 1, st =>
    if st.rc = SQLITE_OK ∧ st.amt > 0 ∧ st.nextPage ≠ 0 then
      let ovflSize := u32sub pBt.usableSize 4
      let aOverflow := st.aOverflow.map (fun a => setAt a st.iIdx st.nextPage)
      if st.offset ≥ ovflSize then
        match (match aOverflow with
               | some a =>
                 if a (st.iIdx + 1) ≠ 0 then some (SQLITE_OK, a (st.iIdx + 1))
                 else getOverflowPage (fuel + 1) pBt { nPage := nPage, page := st.page }
                   st.nextPage
               | none => getOverflowPage (fuel + 1) pBt { nPage := nPage, page := st.page }
                   st.nextPage) with
        | none => none
        | some (rc, next) =>
          accessLoopWrite env pBt nPage pBuf fuel
            { st with rc := rc, nextPage := next, offset := u32sub st.offset ovflSize
                      iIdx := st.iIdx + 1, aOverflow := aOverflow }
      else
        let a := accessChunk st.amt st.offset ovflSize
        if env.pagerGet st.nextPage ≠ SQLITE_OK then
          accessLoopWrite env pBt nPage pBuf fuel
            { st with
              rc := env.pagerGet st.nextPage
              amt := (((st.amt : Int) - a) % 4294967296).toNat
              bufOff := st.bufOff + a.toNat
              iIdx := st.iIdx + 1
              aOverflow := aOverflow }
        else
          accessLoopWrite env pBt nPage pBuf fuel
            { st with
              nextPage := get4byte (st.page st.nextPage) 0
              rc := env.pagerWrite st.nextPage
              page :=
                if env.pagerWrite st.nextPage = SQLITE_OK then
                  setAt st.page st.nextPage
                    (memcpy (st.page st.nextPage) (st.offset + 4) pBuf st.bufOff a.toNat)
                else st.page
              offset := 0
              amt := (((st.amt : Int) - a) % 4294967296).toNat
              bufOff := st.bufOff + a.toNat
              iIdx := st.iIdx + 1
              aOverflow := aOverflow }
    else some st

/-- `accessPayload` in write mode (`eOp = 1`): copy `amt` bytes of `pBuf` over the payload
of the entry under the cursor, starting at `offset`.  Returns the result code, the page
images and the cursor; the image of the cursor's page is the one held by the pager.
Modelled from the spec: `sqlite3MallocZero` returns a null pointer for a size of zero.
Entries of `aOverflow` past the allocated ones read as 0. -/
def accessPayloadWrite (fuel : Nat) (env : WriteEnv) (store : PageStore) (pCur : BtCursor)
    (offset amt : Nat) (pBuf : Bytes) : Option (Nat × PageStore × BtCursor) :=
  let pPage := pCur.apPage pCur.iPage.toNat
  let pBt := pCur.pBt
  let pCur := getCellInfo pCur
  let aPayload := pCur.info.pCell + pCur.info.nHeader
  let nKey := if pPage.intKey ≠ 0 then 0 else u32 (u64i pCur.info.nKey)
  if u32 (offset + amt) > u32 (nKey + pCur.info.nData) ∨
      aPayload + pCur.info.nLocal > pBt.usableSize then
    some (SQLITE_CORRUPT, store, pCur)
  else
    let a := accessChunk amt offset pCur.info.nLocal
    let rc1 := if offset < pCur.info.nLocal then env.pagerWrite pPage.pgno else SQLITE_OK
    let aData1 :=
      if offset < pCur.info.nLocal ∧ rc1 = SQLITE_OK then
        memcpy pPage.aData (aPayload + offset) pBuf 0 a.toNat
      else pPage.aData
    let page1 :=
      if offset < pCur.info.nLocal ∧ rc1 = SQLITE_OK then setAt store.page pPage.pgno aData1
      else store.page
    let pCur1 :=
      { pCur with
        apPage := setAt pCur.apPage pCur.iPage.toNat { pPage with aData := aData1 } }
    let bufOff := if offset < pCur.info.nLocal then a.toNat else 0
    let amt1 := if offset < pCur.info.nLocal then (((amt : Int) - a) % 4294967296).toNat
                else amt
    let offset1 := if offset < pCur.info.nLocal then 0 else offset - pCur.info.nLocal
    if rc1 = SQLITE_OK ∧ amt1 > 0 then
      let ovflSize := u32sub pBt.usableSize 4
      let nOvfl := toInt32 (u32 (u32sub pCur.info.nPayload pCur.info.nLocal + ovflSize - 1) /
        ovflSize)
      let fresh : Bool := pCur.isIncrblobHandle && pCur.aOverflow.isNone
      let aOverflow0 : Option (Nat → Nat) :=
        if fresh then (if nOvfl ≠ 0 ∧ env.allocOk = true then some (fun _ => 0) else none)
        else pCur.aOverflow
      let rc2 := if fresh = true ∧ nOvfl ≠ 0 ∧ env.allocOk = false then SQLITE_NOMEM
                 else SQLITE_OK
      let cached : Bool := match aOverflow0 with
        | some c => decide (c (offset1 / ovflSize) ≠ 0)
        | none => false
      let start : WriteState :=
        { rc := rc2
          offset := if cached then offset1 % ovflSize else offset1
          amt := amt1
          bufOff := bufOff
          nextPage := if cached then (aOverflow0.getD (fun _ => 0)) (offset1 / ovflSize)
                      else get4byte aData1 (aPayload + pCur.info.nLocal)
          iIdx := if cached then offset1 / ovflSize else 0
          aOverflow := aOverflow0
          page := page1 }
      match accessLoopWrite env pBt store.nPage pBuf fuel start with
      | none => none
      | some st =>
        some (if st.rc = SQLITE_OK ∧ st.amt > 0 then SQLITE_CORRUPT else st.rc,
          { nPage := store.nPage, page := st.page },
          { pCur1 with
            aOverflow := st.aOverflow
            apPage := setAt pCur.apPage pCur.iPage.toNat
              { pPage with aData := st.page pPage.pgno } })
    else some (rc1, { nPage := store.nPage, page := page1 }, pCur1)

/-- `sqlite3BtreePutData` with the page images: the write access to the payload is
`accessPayloadWrite`.  Returns the result code, the page images and the cursor. -/
def sqlite3BtreePutDataPages (fuel : Nat) (env : WriteEnv) (store : PageStore)
    (pCsr : BtCursor) (idxCmp : MemPage → Nat → Nat × Int) (allocOk : Bool) (wrFlag : Bool)
    (offset amt : Nat) (z : Bytes) : Option (Nat × PageStore × BtCursor) :=
  match restoreCursorPosition fuel store pCsr idxCmp allocOk with
  | none => none
  | some (rc, pCsr) =>
    if rc ≠ SQLITE_OK then some (rc, store, pCsr)
    else if pCsr.eState ≠ CURSOR_VALID then some (SQLITE_ABORT, store, pCsr)
    else if wrFlag = false then some (SQLITE_READONLY, store, pCsr)
    else accessPayloadWrite fuel env store pCsr offset amt z

/-! ## An example for writing a payload: a row with one overflow page -/

/-- Image of a table leaf (page 2, usable size 1024) with one cell at offset 837: payload
size 1200 (varint bytes 0x89 0x30), key 7, 180 local bytes of payload, all of value 17, and
the number 3 of the first overflow page. -/
def exBlobLeaf : Bytes :=
  fun i =>
    if 840 ≤ i ∧ i < 1020 then 17
    else mkBytes [(0, 13), (3, 0), (4, 1), (5, 3), (6, 69), (8, 3), (9, 69), (837, 137),
      (838, 48), (839, 7), (1023, 3)] i

/-- Image of the overflow page 3: the last of its chain, with the remaining 1020 bytes of
the payload, all of value 34. -/
def exBlobOverflow : Bytes :=
  fun i => if 4 ≤ i ∧ i < 1024 then 34 else 0

/-- A database of three pages: the table rooted at page 2 holds one row, key 7, with a
payload of 1200 bytes of which 1020 are on the overflow page 3. -/
def exBlobStore : PageStore :=
  { nPage := 3, page := fun p => if p = 3 then exBlobOverflow else exBlobLeaf }

/-- The cursor of an incremental-blob handle on the row of `exBlobStore`. -/
def exBlobCursor : BtCursor :=
  match sqlite3BtreeLast 65556 exBlobStore (freshCursor exBt1024 2) 0 with
  | some r => { r.2.2 with isIncrblobHandle := true }
  | none => freshCursor exBt1024 2

/-- A pager and an allocator that do not fail. -/
def exWriteEnv : WriteEnv :=
  { pagerGet := fun _ => SQLITE_OK, pagerWrite := fun _ => SQLITE_OK, allocOk := true }

end Btree

namespace Btree

/-! ## An example for the sorter: a temporary file of more than 4 GiB -/

/-- The temporary file after 4193560 records of 1022 bytes, each byte 1, have been written
to a sorter with `mxPmaSize = 10240` and pages of 1024 bytes, and `sqlite3VdbeSorterRewind`
has flushed the last eight records: 381232 runs of eleven records (the varint of 11264 and,
for each record, the varint of 1022 and the record: 11266 bytes a run) and one run of eight
records (the varint of 8192 and the records: 8194 bytes), together `2^32 + 610` bytes. -/
def exBigTemp : Bytes :=
  fun i =>
    if i < 4294959712 then
      (if i % 11266 = 0 then 216 else if i % 11266 = 1 then 0
        else if (i % 11266 - 2) % 1024 = 0 then 135
        else if (i % 11266 - 2) % 1024 = 1 then 126 else 1)
    else if i < 4294967906 then
      (if i - 4294959712 = 0 then 192 else if i - 4294959712 = 1 then 0
        else if (i - 4294959712 - 2) % 1024 = 0 then 135
        else if (i - 4294959712 - 2) % 1024 = 1 then 126 else 1)
    else 0

/-- The surroundings of that example: pages of 1024 bytes, memory that holds the byte 255
when it is allocated, and no failing read, write or allocation. -/
def exBigEnv : MergeEnv :=
  { pma := { sortAllocOk := true, rcOpenTemp := 0, nBuf := 1024, bufAllocOk := true
             raw := fun _ => 255, rcWrite := fun _ => 0 }
    rcRead := fun _ => 0, iterAllocOk := fun _ => true, reallocOk := fun _ => true
    treeAllocOk := true, rcOpenTemp2 := 0 }

end Btree

namespace Btree

/-! ## Basic facts about the byte codec -/

theorem getByte_lt (d : Bytes) (i : Nat) : getByte d i < 256 := by
  unfold getByte; omega

theorem get2byte_lt (d : Bytes) (i : Nat) : get2byte d i < 65536 := by
  have h1 := getByte_lt d i
  have h2 := getByte_lt d (i + 1)
  unfold get2byte; omega

theorem getVarintAux_len (d : Bytes) (p : Nat) :
    ∀ k i acc, i + 1 ≤ (getVarintAux d p k i acc).1 ∧ (getVarintAux d p k i acc).1 ≤ i + k + 1 := by
  intro k
  induction k with
  | zero => intro i acc; simp [getVarintAux]
  | succ k ih =>
    intro i acc
    unfold getVarintAux
    split
    · simp
    · have := ih (i + 1) (acc * 128 + (getByte d (p + i) - 128))
      omega

theorem getVarint_len (d : Bytes) (p : Nat) :
    1 ≤ (getVarint d p).1 ∧ (getVarint d p).1 ≤ 9 := by
  have := getVarintAux_len d p 8 0 0
  unfold getVarint; omega

theorem getVarint32_len (d : Bytes) (p : Nat) :
    1 ≤ (getVarint32 d p).1 ∧ (getVarint32 d p).1 ≤ 9 := by
  have := getVarint_len d p
  simpa [getVarint32] using this

theorem getVarint32_val (d : Bytes) (p : Nat) : (getVarint32 d p).2 < 4294967296 := by
  simp only [getVarint32]; split <;> omega

/-! ## `lockBtree` limits -/

theorem u8_eq {a : Nat} (h : a < 256) : u8 a = a := Nat.mod_eq_of_lt h

theorem u16_eq {a : Nat} (h : a < 65536) : u16 a = a := Nat.mod_eq_of_lt h

theorem u32_eq {a : Nat} (h : a < 4294967296) : u32 a = a := Nat.mod_eq_of_lt h

theorem u32sub_eq {a b : Nat} (h1 : b ≤ a) (h2 : a < 4294967296) : u32sub a b = a - b := by
  unfold u32sub; omega

theorem u16sub_eq {a b : Nat} (h1 : b ≤ a) (h2 : a < 65536) : u16sub a b = a - b := by
  unfold u16sub; omega

theorem lockBtree_limits (pBt : BtShared) (hu : usableOk pBt.usableSize) :
    (lockBtree pBt).usableSize = pBt.usableSize ∧
    (lockBtree pBt).maxLocal = (pBt.usableSize - 12) * 64 / 255 - 23 ∧
    (lockBtree pBt).minLocal = (pBt.usableSize - 12) * 32 / 255 - 23 ∧
    (lockBtree pBt).maxLeaf = pBt.usableSize - 35 ∧
    (lockBtree pBt).minLeaf = (pBt.usableSize - 12) * 32 / 255 - 23 := by
  obtain ⟨h1, h2⟩ := hu
  have e12 : u32sub pBt.usableSize 12 = pBt.usableSize - 12 := u32sub_eq (by omega) (by omega)
  have e35 : u32sub pBt.usableSize 35 = pBt.usableSize - 35 := u32sub_eq (by omega) (by omega)
  have e64 : u32 ((pBt.usableSize - 12) * 64) = (pBt.usableSize - 12) * 64 := u32_eq (by omega)
  have e32 : u32 ((pBt.usableSize - 12) * 32) = (pBt.usableSize - 12) * 32 := u32_eq (by omega)
  have f64 : u32sub ((pBt.usableSize - 12) * 64 / 255) 23 = (pBt.usableSize - 12) * 64 / 255 - 23 :=
    u32sub_eq (by omega) (by omega)
  have f32 : u32sub ((pBt.usableSize - 12) * 32 / 255) 23 = (pBt.usableSize - 12) * 32 / 255 - 23 :=
    u32sub_eq (by omega) (by omega)
  simp only [lockBtree, e12, e35, e64, e32, f64, f32]
  refine ⟨trivial, ?_, ?_, ?_, ?_⟩ <;> apply u16_eq <;> omega

theorem decodeFlags_cases (pPage : MemPage) (flagByte : Nat) (h : flagByte < 256)
    (hok : (decodeFlags pPage flagByte).1 = SQLITE_OK) :
    (flagByte = 2 ∨ flagByte = 10 ∨ flagByte = 5 ∨ flagByte = 13) := by
  simp only [decodeFlags, PTF_LEAFDATA, PTF_INTKEY, PTF_ZERODATA, PTF_LEAF, SQLITE_OK,
    SQLITE_CORRUPT, show (4 ||| 1 : Nat) = 5 from rfl] at hok
  split at hok
  · omega
  · split at hok
    · omega
    · simp at hok

theorem decodeFlags_spec (pPage : MemPage) (flagByte : Nat) (h : flagByte < 256) :
    ((decodeFlags pPage flagByte).1 = SQLITE_OK ↔
      (flagByte = 0x02 ∨ flagByte = 0x0A ∨ flagByte = 0x05 ∨ flagByte = 0x0D)) ∧
    (¬(flagByte = 0x02 ∨ flagByte = 0x0A ∨ flagByte = 0x05 ∨ flagByte = 0x0D) →
      (decodeFlags pPage flagByte).1 = SQLITE_CORRUPT) ∧
    ((decodeFlags pPage flagByte).1 = SQLITE_OK →
      (decodeFlags pPage flagByte).2.leaf = (if flagByte = 0x0A ∨ flagByte = 0x0D then 1 else 0) ∧
      (decodeFlags pPage flagByte).2.intKey = (if flagByte = 0x05 ∨ flagByte = 0x0D then 1 else 0) ∧
      (decodeFlags pPage flagByte).2.hasData =
        (if flagByte = 0x05 ∨ flagByte = 0x0D then (decodeFlags pPage flagByte).2.leaf else 0) ∧
      (decodeFlags pPage flagByte).2.childPtrSize = 4 - 4 * (decodeFlags pPage flagByte).2.leaf) := by
  have e5 : (PTF_LEAFDATA ||| PTF_INTKEY) = 5 := rfl
  have hsh : flagByte >>> 3 = flagByte / 8 := by
    rw [Nat.shiftRight_eq_div_pow]
  have key : ∀ f : Nat, f < 256 →
      (f - f / 8 % 2 * 8 = 5 ↔ (f = 5 ∨ f = 13)) ∧ (f - f / 8 % 2 * 8 = 2 ↔ (f = 2 ∨ f = 10)) := by
    intro f hf; omega
  obtain ⟨k5, k2⟩ := key flagByte h
  simp only [decodeFlags, e5, PTF_ZERODATA, PTF_LEAF, SQLITE_OK, SQLITE_CORRUPT, hsh, u8]
  by_cases c5 : flagByte - flagByte / 8 % 2 * 8 = 5
  · have h5 := k5.mp c5
    simp only [c5, if_true]
    refine ⟨?_, ?_, ?_⟩
    · simp; omega
    · intro hn; exfalso; omega
    · intro _
      rcases h5 with rfl | rfl <;> simp
  · have n5 : ¬(flagByte = 5 ∨ flagByte = 13) := fun hh => c5 (k5.mpr hh)
    simp only [c5, if_false]
    by_cases c2 : flagByte - flagByte / 8 % 2 * 8 = 2
    · have h2 := k2.mp c2
      simp only [c2, if_true]
      refine ⟨?_, ?_, ?_⟩
      · simp; omega
      · intro hn; exfalso; omega
      · intro _
        rcases h2 with rfl | rfl <;> simp
    · have n2 : ¬(flagByte = 2 ∨ flagByte = 10) := fun hh => c2 (k2.mpr hh)
      simp only [c2, if_false]
      refine ⟨?_, ?_, ?_⟩
      · simp; omega
      · intro _; trivial
      · intro hh; simp at hh

/-- C9: `decodeFlags` returns `SQLITE_OK` exactly for the flag bytes 0x02, 0x0A, 0x05 and 0x0D
and `SQLITE_CORRUPT` for every other byte value; on success `leaf` is the leaf bit, `intKey`
marks the table pages, `hasData` is `leaf` on table pages and 0 on index pages, and
`childPtrSize = 4 - 4 * leaf`. -/
theorem decodeFlags_accepts_iff (pPage : MemPage) (flagByte : Nat) (h : flagByte < 256) :
    ((decodeFlags pPage flagByte).1 = SQLITE_OK ↔
      (flagByte = 0x02 ∨ flagByte = 0x0A ∨ flagByte = 0x05 ∨ flagByte = 0x0D)) ∧
    (¬(flagByte = 0x02 ∨ flagByte = 0x0A ∨ flagByte = 0x05 ∨ flagByte = 0x0D) →
      (decodeFlags pPage flagByte).1 = SQLITE_CORRUPT) ∧
    ((decodeFlags pPage flagByte).1 = SQLITE_OK →
      (decodeFlags pPage flagByte).2.leaf = (if flagByte = 0x0A ∨ flagByte = 0x0D then 1 else 0) ∧
      (decodeFlags pPage flagByte).2.intKey = (if flagByte = 0x05 ∨ flagByte = 0x0D then 1 else 0) ∧
      (decodeFlags pPage flagByte).2.hasData =
        (if flagByte = 0x05 ∨ flagByte = 0x0D then (decodeFlags pPage flagByte).2.leaf else 0) ∧
      (decodeFlags pPage flagByte).2.childPtrSize = 4 - 4 * (decodeFlags pPage flagByte).2.leaf) :=
  decodeFlags_spec pPage flagByte h

/-- Witness for C9 at the table-leaf flag byte 0x0D. -/
theorem decodeFlags_accepts_iff_witness :
    (decodeFlags (blankPage exBt1024 (fun _ => 0) 2) 0x0D).1 = SQLITE_OK ∧
    (decodeFlags (blankPage exBt1024 (fun _ => 0) 2) 0x0D).2.leaf = 1 ∧
    (decodeFlags (blankPage exBt1024 (fun _ => 0) 2) 0x0D).2.childPtrSize = 0 := by
  have h := decodeFlags_accepts_iff (blankPage exBt1024 (fun _ => 0) 2) 0x0D (by decide)
  have hok := h.1.mpr (by decide)
  have h3 := h.2.2 hok
  refine ⟨hok, ?_, ?_⟩
  · rw [h3.1]; decide
  · rw [h3.2.2.2, h3.1]; decide

theorem decodeFlags_pBt (pPage : MemPage) (flagByte : Nat) :
    (decodeFlags pPage flagByte).2.pBt = pPage.pBt := by
  simp only [decodeFlags]
  split
  · rfl
  · split <;> rfl

/-- The local-payload limits of a page accepted by `decodeFlags`, for limits computed by
`lockBtree`: they are chosen by tree kind (table or index), not by the leaf bit. -/
theorem decodeFlags_limits (pBt : BtShared) (hu : usableOk pBt.usableSize) (pPage : MemPage)
    (hbt : pPage.pBt = lockBtree pBt) (flagByte : Nat)
    (hok : (decodeFlags pPage flagByte).1 = SQLITE_OK) :
    (decodeFlags pPage flagByte).2.minLocal = (pBt.usableSize - 12) * 32 / 255 - 23 ∧
    (decodeFlags pPage flagByte).2.maxLocal =
      (if (decodeFlags pPage flagByte).2.intKey = 0 then (pBt.usableSize - 12) * 64 / 255 - 23
       else pBt.usableSize - 35) := by
  obtain ⟨_, hmaxL, hminL, hmaxLeaf, hminLeaf⟩ := lockBtree_limits pBt hu
  have e5 : (PTF_LEAFDATA ||| PTF_INTKEY) = 5 := rfl
  simp only [decodeFlags, e5, PTF_ZERODATA, PTF_LEAF, SQLITE_OK, SQLITE_CORRUPT] at hok ⊢
  by_cases c5 : flagByte - flagByte / 8 % 2 * 8 = 5
  · simp only [c5, if_true, hbt, hmaxLeaf, hminLeaf]
    simp
  · simp only [c5, if_false] at hok ⊢
    by_cases c2 : flagByte - flagByte / 8 % 2 * 8 = 2
    · simp only [c2, if_true, hbt, hmaxL, hminL]
      simp
    · simp [c2] at hok

/-- C10 (as amended): for every page whose flag byte `decodeFlags` accepts, with the limits
`lockBtree` computes from a usable size in 480..65536, `minLocal` is
`(usable-12)*32/255 - 23`, and `maxLocal` is `(usable-12)*64/255 - 23` when the page is an
index page (interior or leaf) and `usable - 35` when it is a table page (interior or leaf). -/
theorem decodeFlags_minLocal_maxLocal (pBt : BtShared) (hu : usableOk pBt.usableSize)
    (pPage : MemPage) (hbt : pPage.pBt = lockBtree pBt) (flagByte : Nat) (h : flagByte < 256)
    (hok : (decodeFlags pPage flagByte).1 = SQLITE_OK) :
    (decodeFlags pPage flagByte).2.minLocal = (pBt.usableSize - 12) * 32 / 255 - 23 ∧
    ((flagByte = 0x02 ∨ flagByte = 0x0A) →
      (decodeFlags pPage flagByte).2.maxLocal = (pBt.usableSize - 12) * 64 / 255 - 23) ∧
    ((flagByte = 0x05 ∨ flagByte = 0x0D) →
      (decodeFlags pPage flagByte).2.maxLocal = pBt.usableSize - 35) := by
  have hl := decodeFlags_limits pBt hu pPage hbt flagByte hok
  have hk := (decodeFlags_spec pPage flagByte h).2.2 hok
  refine ⟨hl.1, ?_, ?_⟩
  · intro hf
    have hik : (decodeFlags pPage flagByte).2.intKey = 0 := by
      rw [hk.2.1]; rcases hf with rfl | rfl <;> simp
    rw [hl.2, if_pos hik]
  · intro hf
    have hik : ¬ (decodeFlags pPage flagByte).2.intKey = 0 := by
      rw [hk.2.1]; rcases hf with rfl | rfl <;> simp
    rw [hl.2, if_neg hik]

/-- Witness for C10 (amended): a table-interior page (flag 0x05) with usable size 1024. -/
theorem decodeFlags_minLocal_maxLocal_witness :
    usableOk 1024 ∧
    (decodeFlags (blankPage exBt1024 (fun _ => 0) 2) 0x05).2.minLocal = (1024 - 12) * 32 / 255 - 23 ∧
    (decodeFlags (blankPage exBt1024 (fun _ => 0) 2) 0x05).2.maxLocal = 1024 - 35 :=
  have h := decodeFlags_minLocal_maxLocal
    { pageSize := 1024, usableSize := 1024, maxLocal := 0, minLocal := 0, maxLeaf := 0,
      minLeaf := 0, max1bytePayload := 0, autoVacuum := false, secureDelete := false }
    (by decide) (blankPage exBt1024 (fun _ => 0) 2) rfl 0x05 (by decide) (by decide)
  ⟨by decide, h.1, h.2.2 (Or.inl rfl)⟩

/-- C10 (counterexample): with usable size 1024, the index-leaf flag byte 0x0A is accepted and
yields a leaf page whose `maxLocal` is 230, not `usable - 35 = 989`; the table-interior flag
byte 0x05 is accepted and yields an interior page whose `maxLocal` is 989, not
`(usable-12)*64/255 - 23 = 230`. -/
theorem decodeFlags_maxLocal_by_leaf_counterexample :
    (decodeFlags (blankPage exBt1024 (fun _ => 0) 2) 0x0A).1 = SQLITE_OK ∧
    (decodeFlags (blankPage exBt1024 (fun _ => 0) 2) 0x0A).2.leaf = 1 ∧
    (decodeFlags (blankPage exBt1024 (fun _ => 0) 2) 0x0A).2.maxLocal = 230 ∧
    (decodeFlags (blankPage exBt1024 (fun _ => 0) 2) 0x0A).2.maxLocal ≠ 1024 - 35 ∧
    (decodeFlags (blankPage exBt1024 (fun _ => 0) 2) 0x05).1 = SQLITE_OK ∧
    (decodeFlags (blankPage exBt1024 (fun _ => 0) 2) 0x05).2.leaf = 0 ∧
    (decodeFlags (blankPage exBt1024 (fun _ => 0) 2) 0x05).2.maxLocal = 989 ∧
    (decodeFlags (blankPage exBt1024 (fun _ => 0) 2) 0x05).2.maxLocal ≠ (1024 - 12) * 64 / 255 - 23 := by
  decide

/-- Header-size bound: the `u16` counter `n` of `btreeParseCellPtr` never exceeds
`childPtrSize + 18`, and the decoded payload size is a `u32`. -/
theorem btreeParseCellPtr_header (pPage : MemPage) (d : Bytes) (pCell : Nat)
    (hc : pPage.childPtrSize ≤ 4) :
    (btreeParseCellPtr pPage d pCell).nHeader ≤ pPage.childPtrSize + 18 ∧
    (btreeParseCellPtr pPage d pCell).nPayload < 4294967296 ∧
    (pPage.intKey ≠ 0 → pPage.hasData = 0 → (btreeParseCellPtr pPage d pCell).nPayload = 0) ∧
    (pPage.intKey = 0 → (btreeParseCellPtr pPage d pCell).nHeader ≤ pPage.childPtrSize + 9) ∧
    (pPage.intKey ≠ 0 → pPage.hasData = 0 →
      (btreeParseCellPtr pPage d pCell).nHeader ≤ pPage.childPtrSize + 9) := by
  have l32 := getVarint32_len d (pCell + pPage.childPtrSize)
  have v32 := getVarint32_val d (pCell + pPage.childPtrSize)
  have e1 : u8 (getVarint32 d (pCell + pPage.childPtrSize)).1 =
      (getVarint32 d (pCell + pPage.childPtrSize)).1 := u8_eq (by omega)
  have e2 : u16 (pPage.childPtrSize + (getVarint32 d (pCell + pPage.childPtrSize)).1) =
      pPage.childPtrSize + (getVarint32 d (pCell + pPage.childPtrSize)).1 := u16_eq (by omega)
  have e3 : u32 (getVarint32 d (pCell + pPage.childPtrSize)).2 =
      (getVarint32 d (pCell + pPage.childPtrSize)).2 := u32_eq v32
  have hk : ∀ q, q ≤ 13 → u16 (q + u8 (getVarint d (pCell + q)).1) ≤ q + 9 := by
    intro q hq
    have := getVarint_len d (pCell + q)
    rw [u8_eq (by omega), u16_eq (by omega)]; omega
  have k1 := hk pPage.childPtrSize (by omega)
  have k2 := hk (pPage.childPtrSize + (getVarint32 d (pCell + pPage.childPtrSize)).1) (by omega)
  simp only [btreeParseCellPtr, e1, e2, e3]
  by_cases hi : pPage.intKey = 0
  · simp only [hi, ne_eq, not_true_eq_false, if_false]
    split <;> simp <;> omega
  · by_cases hd : pPage.hasData = 0
    · simp only [hi, hd, ne_eq, not_false_eq_true, not_true_eq_false, if_true, if_false]
      split <;> simp <;> omega
    · simp only [hi, hd, ne_eq, not_false_eq_true, if_true]
      split <;> simp <;> omega

theorem btreeParseCellPtr_nHeader (pPage : MemPage) (d : Bytes) (pCell : Nat) :
    (btreeParseCellPtr pPage d pCell).nHeader = cellHeaderSize pPage d pCell := by
  by_cases h : cellPayloadSize pPage d pCell ≤ pPage.maxLocal
  · unfold cellPayloadSize at h
    simp only [btreeParseCellPtr, cellHeaderSize, if_pos h]
  · unfold cellPayloadSize at h
    simp only [btreeParseCellPtr, cellHeaderSize, if_neg h]

theorem btreeParseCellPtr_nPayload (pPage : MemPage) (d : Bytes) (pCell : Nat) :
    (btreeParseCellPtr pPage d pCell).nPayload = cellPayloadSize pPage d pCell := by
  by_cases h : cellPayloadSize pPage d pCell ≤ pPage.maxLocal
  · unfold cellPayloadSize at h
    simp only [btreeParseCellPtr, cellPayloadSize, if_pos h]
  · unfold cellPayloadSize at h
    simp only [btreeParseCellPtr, cellPayloadSize, if_neg h]

theorem btreeParseCellPtr_small (pPage : MemPage) (d : Bytes) (pCell : Nat)
    (h : cellPayloadSize pPage d pCell ≤ pPage.maxLocal) :
    (btreeParseCellPtr pPage d pCell).nLocal = u16 (cellPayloadSize pPage d pCell) ∧
    (btreeParseCellPtr pPage d pCell).iOverflow = 0 ∧
    (btreeParseCellPtr pPage d pCell).nSize =
      (if u16 (cellHeaderSize pPage d pCell + cellPayloadSize pPage d pCell) < 4 then 4
       else u16 (cellHeaderSize pPage d pCell + cellPayloadSize pPage d pCell)) := by
  unfold cellPayloadSize at h
  simp only [btreeParseCellPtr, cellHeaderSize, cellPayloadSize, if_pos h]
  simp

theorem btreeParseCellPtr_large (pPage : MemPage) (d : Bytes) (pCell : Nat)
    (h : ¬ cellPayloadSize pPage d pCell ≤ pPage.maxLocal) :
    (btreeParseCellPtr pPage d pCell).nLocal =
      (if toInt32 (u32 (pPage.minLocal + u32sub (cellPayloadSize pPage d pCell) pPage.minLocal %
            u32sub pPage.pBt.usableSize 4)) ≤ (pPage.maxLocal : Int)
       then u16 (u32 (pPage.minLocal + u32sub (cellPayloadSize pPage d pCell) pPage.minLocal %
            u32sub pPage.pBt.usableSize 4))
       else u16 pPage.minLocal) ∧
    (btreeParseCellPtr pPage d pCell).iOverflow =
      u16 ((btreeParseCellPtr pPage d pCell).nLocal + cellHeaderSize pPage d pCell) ∧
    (btreeParseCellPtr pPage d pCell).nSize =
      u16 ((btreeParseCellPtr pPage d pCell).iOverflow + 4) := by
  unfold cellPayloadSize at h
  simp only [btreeParseCellPtr, cellHeaderSize, cellPayloadSize, if_neg h]
  simp


/-- Facts about a page decoded by `decodeFlags` under `lockBtree` limits that the cell
parser relies on: no `u16`/`u32` computation in `btreeParseCellPtr` can wrap. -/
theorem decoded_page_bounds (pBt : BtShared) (hu : usableOk pBt.usableSize) (pPage : MemPage)
    (hbt : pPage.pBt = lockBtree pBt) (flagByte : Nat) (h : flagByte < 256)
    (hok : (decodeFlags pPage flagByte).1 = SQLITE_OK) (d : Bytes) (pCell : Nat) :
    (decodeFlags pPage flagByte).2.minLocal ≤ (decodeFlags pPage flagByte).2.maxLocal ∧
    (decodeFlags pPage flagByte).2.pBt.usableSize = pBt.usableSize ∧
    cellPayloadSize (decodeFlags pPage flagByte).2 d pCell < 4294967296 ∧
    cellHeaderSize (decodeFlags pPage flagByte).2 d pCell +
      (decodeFlags pPage flagByte).2.maxLocal + 4 < 65536 ∧
    ((decodeFlags pPage flagByte).2.maxLocal < cellPayloadSize (decodeFlags pPage flagByte).2 d pCell →
      (decodeFlags pPage flagByte).2.maxLocal + 35 ≤ pBt.usableSize) := by
  obtain ⟨hmin, hmax⟩ := decodeFlags_limits pBt hu pPage hbt flagByte hok
  obtain ⟨hleaf, hik, hhd, hcp⟩ := (decodeFlags_spec pPage flagByte h).2.2 hok
  have hcases := (decodeFlags_spec pPage flagByte h).1.mp hok
  have hpb : (decodeFlags pPage flagByte).2.pBt.usableSize = pBt.usableSize := by
    rw [decodeFlags_pBt, hbt]; exact (lockBtree_limits pBt hu).1
  obtain ⟨hu1, hu2⟩ := hu
  have hc4 : (decodeFlags pPage flagByte).2.childPtrSize ≤ 4 := by rw [hcp]; omega
  have hh := btreeParseCellPtr_header (decodeFlags pPage flagByte).2 d pCell hc4
  rw [btreeParseCellPtr_nHeader, btreeParseCellPtr_nPayload] at hh
  obtain ⟨hh1, hh2, hh3, hh4, hh5⟩ := hh
  rw [hmin, hmax]
  rw [hmax] at *
  rcases hcases with rfl | rfl | rfl | rfl
  · -- index interior
    simp only [Nat.reduceEqDiff, or_self, or_false, or_true, if_true, if_false] at hleaf hik hhd
    have := hh4 hik
    simp only [hik, if_true]
    refine ⟨by omega, hpb, hh2, by omega, fun _ => by omega⟩
  · -- index leaf
    simp only [Nat.reduceEqDiff, or_self, or_false, or_true, if_true, if_false] at hleaf hik hhd
    have := hh4 hik
    simp only [hik, if_true]
    refine ⟨by omega, hpb, hh2, by omega, fun _ => by omega⟩
  · -- table interior
    simp only [Nat.reduceEqDiff, or_self, or_false, or_true, if_true, if_false] at hleaf hik hhd
    have hik' : (decodeFlags pPage 5).2.intKey ≠ 0 := by rw [hik]; decide
    have hhd' : (decodeFlags pPage 5).2.hasData = 0 := by rw [hhd, hleaf]
    have := hh5 hik' hhd'
    have hz := hh3 hik' hhd'
    simp only [hik', if_false]
    refine ⟨by omega, hpb, hh2, by omega, fun hlt => by omega⟩
  · -- table leaf
    simp only [Nat.reduceEqDiff, or_self, or_false, or_true, if_true, if_false] at hleaf hik hhd
    have hik' : (decodeFlags pPage 13).2.intKey ≠ 0 := by rw [hik]; decide
    rw [hleaf] at hcp
    simp only [hik', if_false]
    refine ⟨by omega, hpb, hh2, by omega, fun _ => by omega⟩

/-- The local/overflow split of `btreeParseCellPtr` on a page for which no machine
computation wraps (see `decoded_page_bounds`). -/
theorem btreeParseCellPtr_split (pg : MemPage) (d : Bytes) (pCell : Nat) (u : Nat)
    (hmin : pg.minLocal ≤ pg.maxLocal) (hu : pg.pBt.usableSize = u) (hu2 : u ≤ 65536)
    (hP : cellPayloadSize pg d pCell < 4294967296)
    (hn : cellHeaderSize pg d pCell + pg.maxLocal + 4 < 65536)
    (hbig : pg.maxLocal < cellPayloadSize pg d pCell → pg.maxLocal + 35 ≤ u) :
    (pg.maxLocal < (btreeParseCellPtr pg d pCell).nPayload →
      (btreeParseCellPtr pg d pCell).nLocal =
        (if pg.minLocal + ((btreeParseCellPtr pg d pCell).nPayload - pg.minLocal) % (u - 4) ≤ pg.maxLocal
         then pg.minLocal + ((btreeParseCellPtr pg d pCell).nPayload - pg.minLocal) % (u - 4)
         else pg.minLocal) ∧
      (btreeParseCellPtr pg d pCell).iOverflow =
        (btreeParseCellPtr pg d pCell).nHeader + (btreeParseCellPtr pg d pCell).nLocal ∧
      (btreeParseCellPtr pg d pCell).nSize = (btreeParseCellPtr pg d pCell).iOverflow + 4) ∧
    ((btreeParseCellPtr pg d pCell).nPayload ≤ pg.maxLocal →
      (btreeParseCellPtr pg d pCell).nLocal = (btreeParseCellPtr pg d pCell).nPayload ∧
      (btreeParseCellPtr pg d pCell).iOverflow = 0 ∧
      (btreeParseCellPtr pg d pCell).nSize =
        max 4 ((btreeParseCellPtr pg d pCell).nHeader + (btreeParseCellPtr pg d pCell).nPayload)) := by
  rw [btreeParseCellPtr_nHeader, btreeParseCellPtr_nPayload]
  constructor
  · intro hlt
    have hnle : ¬ cellPayloadSize pg d pCell ≤ pg.maxLocal := by omega
    obtain ⟨h1, h2, h3⟩ := btreeParseCellPtr_large pg d pCell hnle
    have hub := hbig hlt
    have e1 : u32sub (cellPayloadSize pg d pCell) pg.minLocal = cellPayloadSize pg d pCell - pg.minLocal :=
      u32sub_eq (by omega) hP
    have e2 : u32sub pg.pBt.usableSize 4 = u - 4 := by
      rw [hu]; exact u32sub_eq (by omega) (by omega)
    have hmod : (cellPayloadSize pg d pCell - pg.minLocal) % (u - 4) < u - 4 :=
      Nat.mod_lt _ (by omega)
    have e3 : u32 (pg.minLocal + (cellPayloadSize pg d pCell - pg.minLocal) % (u - 4)) =
        pg.minLocal + (cellPayloadSize pg d pCell - pg.minLocal) % (u - 4) := u32_eq (by omega)
    have e4 : toInt32 (pg.minLocal + (cellPayloadSize pg d pCell - pg.minLocal) % (u - 4)) =
        ((pg.minLocal + (cellPayloadSize pg d pCell - pg.minLocal) % (u - 4) : Nat) : Int) := by
      unfold toInt32
      rw [Nat.mod_eq_of_lt (by omega), if_pos (by omega)]
    rw [e1, e2, e3, e4] at h1
    have hloc : (btreeParseCellPtr pg d pCell).nLocal =
        (if pg.minLocal + (cellPayloadSize pg d pCell - pg.minLocal) % (u - 4) ≤ pg.maxLocal
         then pg.minLocal + (cellPayloadSize pg d pCell - pg.minLocal) % (u - 4)
         else pg.minLocal) := by
      rw [h1]
      by_cases hc : pg.minLocal + (cellPayloadSize pg d pCell - pg.minLocal) % (u - 4) ≤ pg.maxLocal
      · rw [if_pos hc, if_pos (by exact_mod_cast hc)]; exact u16_eq (by omega)
      · rw [if_neg hc, if_neg (by exact_mod_cast hc)]; exact u16_eq (by omega)
    have hle : (btreeParseCellPtr pg d pCell).nLocal ≤ pg.maxLocal := by
      rw [hloc]; split <;> omega
    have hio : (btreeParseCellPtr pg d pCell).iOverflow =
        cellHeaderSize pg d pCell + (btreeParseCellPtr pg d pCell).nLocal := by
      rw [h2, u16_eq (by omega)]; omega
    refine ⟨hloc, hio, ?_⟩
    rw [h3, u16_eq (by omega)]
  · intro hle
    obtain ⟨h1, h2, h3⟩ := btreeParseCellPtr_small pg d pCell hle
    refine ⟨by rw [h1]; exact u16_eq (by omega), h2, ?_⟩
    rw [h3, u16_eq (by omega)]
    split <;> omega

/-- C5: on a page decoded by `decodeFlags` (limits from `lockBtree`, usable size in
480..65536), for a cell with payload size P > maxLocal, `btreeParseCellPtr` sets `nLocal` to
`minLocal + (P - minLocal) mod (usable - 4)` when that is at most `maxLocal` and to `minLocal`
otherwise, `iOverflow = nHeader + nLocal` and `nSize = iOverflow + 4`; for P ≤ maxLocal it
sets `nLocal = P`, `iOverflow = 0` and `nSize = max 4 (nHeader + P)`. -/
theorem btreeParseCellPtr_local_payload (pBt : BtShared) (hu : usableOk pBt.usableSize)
    (pPage : MemPage) (hbt : pPage.pBt = lockBtree pBt) (flagByte : Nat) (h : flagByte < 256)
    (hok : (decodeFlags pPage flagByte).1 = SQLITE_OK) (d : Bytes) (pCell : Nat) :
    ((decodeFlags pPage flagByte).2.maxLocal <
        (btreeParseCellPtr (decodeFlags pPage flagByte).2 d pCell).nPayload →
      (btreeParseCellPtr (decodeFlags pPage flagByte).2 d pCell).nLocal =
        (if (decodeFlags pPage flagByte).2.minLocal +
              ((btreeParseCellPtr (decodeFlags pPage flagByte).2 d pCell).nPayload -
                (decodeFlags pPage flagByte).2.minLocal) % (pBt.usableSize - 4) ≤
              (decodeFlags pPage flagByte).2.maxLocal
         then (decodeFlags pPage flagByte).2.minLocal +
              ((btreeParseCellPtr (decodeFlags pPage flagByte).2 d pCell).nPayload -
                (decodeFlags pPage flagByte).2.minLocal) % (pBt.usableSize - 4)
         else (decodeFlags pPage flagByte).2.minLocal) ∧
      (btreeParseCellPtr (decodeFlags pPage flagByte).2 d pCell).iOverflow =
        (btreeParseCellPtr (decodeFlags pPage flagByte).2 d pCell).nHeader +
          (btreeParseCellPtr (decodeFlags pPage flagByte).2 d pCell).nLocal ∧
      (btreeParseCellPtr (decodeFlags pPage flagByte).2 d pCell).nSize =
        (btreeParseCellPtr (decodeFlags pPage flagByte).2 d pCell).iOverflow + 4) ∧
    ((btreeParseCellPtr (decodeFlags pPage flagByte).2 d pCell).nPayload ≤
        (decodeFlags pPage flagByte).2.maxLocal →
      (btreeParseCellPtr (decodeFlags pPage flagByte).2 d pCell).nLocal =
        (btreeParseCellPtr (decodeFlags pPage flagByte).2 d pCell).nPayload ∧
      (btreeParseCellPtr (decodeFlags pPage flagByte).2 d pCell).iOverflow = 0 ∧
      (btreeParseCellPtr (decodeFlags pPage flagByte).2 d pCell).nSize =
        max 4 ((btreeParseCellPtr (decodeFlags pPage flagByte).2 d pCell).nHeader +
          (btreeParseCellPtr (decodeFlags pPage flagByte).2 d pCell).nPayload)) := by
  obtain ⟨b1, b2, b3, b4, b5⟩ := decoded_page_bounds pBt hu pPage hbt flagByte h hok d pCell
  exact btreeParseCellPtr_split _ d pCell pBt.usableSize b1 b2 hu.2 b3 b4 b5

/-- Witness for C5: a table-leaf cell with a 2000-byte payload on a 1024-byte page. -/
theorem btreeParseCellPtr_local_payload_witness :
    usableOk 1024 ∧ (decodeFlags (blankPage exBt1024 (fun _ => 0) 2) 0x0D).1 = SQLITE_OK ∧
    (btreeParseCellPtr (decodeFlags (blankPage exBt1024 (fun _ => 0) 2) 0x0D).2 exCell2000 0).nPayload = 2000 ∧
    (btreeParseCellPtr (decodeFlags (blankPage exBt1024 (fun _ => 0) 2) 0x0D).2 exCell2000 0).nLocal = 980 ∧
    (btreeParseCellPtr (decodeFlags (blankPage exBt1024 (fun _ => 0) 2) 0x0D).2 exCell2000 0).iOverflow =
      (btreeParseCellPtr (decodeFlags (blankPage exBt1024 (fun _ => 0) 2) 0x0D).2 exCell2000 0).nHeader +
      (btreeParseCellPtr (decodeFlags (blankPage exBt1024 (fun _ => 0) 2) 0x0D).2 exCell2000 0).nLocal ∧
    (btreeParseCellPtr (decodeFlags (blankPage exBt1024 (fun _ => 0) 2) 0x0D).2 exCell2000 0).nSize =
      (btreeParseCellPtr (decodeFlags (blankPage exBt1024 (fun _ => 0) 2) 0x0D).2 exCell2000 0).iOverflow + 4 :=
  have h := btreeParseCellPtr_local_payload
    { pageSize := 1024, usableSize := 1024, maxLocal := 0, minLocal := 0, maxLeaf := 0,
      minLeaf := 0, max1bytePayload := 0, autoVacuum := false, secureDelete := false }
    (by decide) (blankPage exBt1024 (fun _ => 0) 2) rfl 0x0D (by decide) (by decide) exCell2000 0
  ⟨by decide, by decide, by decide, by decide, (h.1 (by decide)).2.1, (h.1 (by decide)).2.2⟩

/-- C6: for every usable size 480..65536 with the limits of `lockBtree`, both tree kinds have
`0 ≤ minLocal ≤ maxLocal` (the `u32` computations do not wrap below zero), and for every
cell whose payload size exceeds the page's `maxLocal` the local size chosen by
`btreeParseCellPtr` satisfies `minLocal ≤ nLocal ≤ maxLocal`. -/
theorem btreeParseCellPtr_nLocal_bounds (pBt : BtShared) (hu : usableOk pBt.usableSize) :
    (23 ≤ (pBt.usableSize - 12) * 32 / 255 ∧
      (lockBtree pBt).minLocal = (pBt.usableSize - 12) * 32 / 255 - 23 ∧
      (lockBtree pBt).minLeaf = (pBt.usableSize - 12) * 32 / 255 - 23 ∧
      (lockBtree pBt).minLocal ≤ (lockBtree pBt).maxLocal ∧
      (lockBtree pBt).minLeaf ≤ (lockBtree pBt).maxLeaf) ∧
    (∀ (pPage : MemPage) (flagByte : Nat) (d : Bytes) (pCell : Nat),
      pPage.pBt = lockBtree pBt → flagByte < 256 →
      (decodeFlags pPage flagByte).1 = SQLITE_OK →
      (decodeFlags pPage flagByte).2.maxLocal <
        (btreeParseCellPtr (decodeFlags pPage flagByte).2 d pCell).nPayload →
      (decodeFlags pPage flagByte).2.minLocal ≤
        (btreeParseCellPtr (decodeFlags pPage flagByte).2 d pCell).nLocal ∧
      (btreeParseCellPtr (decodeFlags pPage flagByte).2 d pCell).nLocal ≤
        (decodeFlags pPage flagByte).2.maxLocal) := by
  constructor
  · obtain ⟨_, l1, l2, l3, l4⟩ := lockBtree_limits pBt hu
    obtain ⟨hu1, hu2⟩ := hu
    rw [l1, l2, l3, l4]
    refine ⟨by omega, rfl, rfl, by omega, by omega⟩
  · intro pPage flagByte d pCell hbt h hok hlt
    obtain ⟨b1, b2, b3, b4, b5⟩ := decoded_page_bounds pBt hu pPage hbt flagByte h hok d pCell
    have hs := (btreeParseCellPtr_split _ d pCell pBt.usableSize b1 b2 hu.2 b3 b4 b5).1 hlt
    rw [hs.1]
    split <;> omega

/-- Witness for C6: the same 2000-byte table-leaf cell; `103 ≤ nLocal = 980 ≤ 989`. -/
theorem btreeParseCellPtr_nLocal_bounds_witness :
    usableOk 1024 ∧
    (decodeFlags (blankPage exBt1024 (fun _ => 0) 2) 0x0D).2.minLocal ≤
      (btreeParseCellPtr (decodeFlags (blankPage exBt1024 (fun _ => 0) 2) 0x0D).2 exCell2000 0).nLocal ∧
    (btreeParseCellPtr (decodeFlags (blankPage exBt1024 (fun _ => 0) 2) 0x0D).2 exCell2000 0).nLocal ≤
      (decodeFlags (blankPage exBt1024 (fun _ => 0) 2) 0x0D).2.maxLocal :=
  have h := (btreeParseCellPtr_nLocal_bounds
    { pageSize := 1024, usableSize := 1024, maxLocal := 0, minLocal := 0, maxLeaf := 0,
      minLeaf := 0, max1bytePayload := 0, autoVacuum := false, secureDelete := false }
    (by decide)).2 (blankPage exBt1024 (fun _ => 0) 2) 0x0D exCell2000 0 rfl (by decide) (by decide)
    (by decide)
  ⟨by decide, h.1, h.2⟩

end Btree

namespace Btree

/-! ## The freeblock walk of `btreeInitPage` -/

theorem freeblockWalk_rc (data : Bytes) (usableSize iCellFirst iCellLast : Nat) :
    ∀ fuel pc nFree r, freeblockWalk data usableSize iCellFirst iCellLast fuel pc nFree = some r →
      r.1 = SQLITE_OK ∨ r.1 = SQLITE_CORRUPT := by
  intro fuel
  induction fuel with
  | zero => intro pc nFree r h; simp [freeblockWalk] at h
  | succ fuel ih =>
    intro pc nFree r h
    unfold freeblockWalk at h
    split at h
    · split at h
      · injection h with h; subst h; right; rfl
      · split at h
        · injection h with h; subst h; right; rfl
        · exact ih _ _ _ h
    · injection h with h; subst h; left; rfl

/-- The walk terminates: with `usable + 8 ≤ 4 * fuel + pc` (or `pc = 0`) it returns a result,
and every larger amount of fuel gives the same result. -/
theorem freeblockWalk_terminates (data : Bytes) (usableSize iCellFirst : Nat) :
    ∀ fuel pc nFree, 1 ≤ fuel → (pc = 0 ∨ usableSize + 8 ≤ 4 * fuel + pc) →
      ∃ r, ∀ fuel', fuel ≤ fuel' →
        freeblockWalk data usableSize iCellFirst (usableSize - 4) fuel' pc nFree = some r := by
  intro fuel
  induction fuel with
  | zero => intro pc nFree h; omega
  | succ fuel ih =>
    intro pc nFree _ hm
    by_cases hpc : pc > 0
    · by_cases hr : pc < iCellFirst ∨ pc > usableSize - 4
      · refine ⟨(SQLITE_CORRUPT, nFree), ?_⟩
        intro fuel' hf
        obtain ⟨f, rfl⟩ : ∃ f, fuel' = f + 1 := ⟨fuel' - 1, by omega⟩
        simp only [freeblockWalk, if_pos hpc, if_pos hr]
      · by_cases hb : (get2byte data pc > 0 ∧ get2byte data pc ≤ pc + get2byte data (pc + 2) + 3)
            ∨ pc + get2byte data (pc + 2) > usableSize
        · refine ⟨(SQLITE_CORRUPT, nFree), ?_⟩
          intro fuel' hf
          obtain ⟨f, rfl⟩ : ∃ f, fuel' = f + 1 := ⟨fuel' - 1, by omega⟩
          simp only [freeblockWalk, if_pos hpc, if_neg hr, if_pos hb]
        · have hfuel : 1 ≤ fuel := by omega
          have hm' : get2byte data pc = 0 ∨ usableSize + 8 ≤ 4 * fuel + get2byte data pc := by
            by_cases hz : get2byte data pc = 0
            · left; exact hz
            · right; omega
          obtain ⟨r, hr'⟩ := ih (get2byte data pc) (nFree + get2byte data (pc + 2)) hfuel hm'
          refine ⟨r, ?_⟩
          intro fuel' hf
          obtain ⟨f, rfl⟩ : ∃ f, fuel' = f + 1 := ⟨fuel' - 1, by omega⟩
          simp only [freeblockWalk, if_pos hpc, if_neg hr, if_neg hb]
          exact hr' f (by omega)
    · refine ⟨(SQLITE_OK, nFree), ?_⟩
      intro fuel' hf
      obtain ⟨f, rfl⟩ : ∃ f, fuel' = f + 1 := ⟨fuel' - 1, by omega⟩
      simp only [freeblockWalk, if_neg hpc]

/-- A successful walk has visited exactly the freeblock chain, every block of which passed
the checks, and has added up the size fields. -/
theorem freeblockWalk_ok (data : Bytes) (usableSize iCellFirst : Nat) :
    ∀ fuel pc nFree n lo cf, fuel ≤ cf →
      freeblockWalk data usableSize iCellFirst (usableSize - 4) fuel pc nFree = some (SQLITE_OK, n) →
      (pc ≠ 0 → lo ≤ pc) →
      chainAscending data usableSize lo (freeblockChain data cf pc) ∧
      (∀ b ∈ freeblockChain data cf pc, ¬ badFreeblock data usableSize iCellFirst b) ∧
      n = nFree + freeblockTotal data (freeblockChain data cf pc) := by
  intro fuel
  induction fuel with
  | zero => intro pc nFree n lo cf _ h; simp [freeblockWalk] at h
  | succ fuel ih =>
    intro pc nFree n lo cf hcf h hlo
    obtain ⟨c, rfl⟩ : ∃ c, cf = c + 1 := ⟨cf - 1, by omega⟩
    unfold freeblockWalk at h
    by_cases hpc : pc > 0
    · rw [if_pos hpc] at h
      have hne : pc ≠ 0 := by omega
      by_cases hr : pc < iCellFirst ∨ pc > usableSize - 4
      · rw [if_pos hr] at h; simp [SQLITE_OK, SQLITE_CORRUPT] at h
      · rw [if_neg hr] at h
        by_cases hb : (get2byte data pc > 0 ∧ get2byte data pc ≤ pc + get2byte data (pc + 2) + 3)
            ∨ pc + get2byte data (pc + 2) > usableSize
        · rw [if_pos hb] at h; simp [SQLITE_OK, SQLITE_CORRUPT] at h
        · rw [if_neg hb] at h
          have hnext : get2byte data pc ≠ 0 → pc + get2byte data (pc + 2) + 4 ≤ get2byte data pc := by
            intro hz; omega
          obtain ⟨h1, h2, h3⟩ := ih (get2byte data pc) (nFree + get2byte data (pc + 2)) n
            (pc + get2byte data (pc + 2) + 4) c (by omega) h hnext
          simp only [freeblockChain, if_neg hne]
          refine ⟨⟨hlo hne, by omega, by omega, h1⟩, ?_, ?_⟩
          · intro b hbm
            rcases List.mem_cons.mp hbm with rfl | hbm
            · unfold badFreeblock; omega
            · exact h2 b hbm
          · simp only [freeblockTotal, List.map_cons, List.sum_cons] at h3 ⊢
            omega
    · rw [if_neg hpc] at h
      have hz : pc = 0 := by omega
      injection h with h
      injection h with _ h
      subst hz
      simp [freeblockChain, chainAscending, freeblockTotal, h.symm]

theorem u16i_of_nonneg (a b : Nat) (h1 : b ≤ a) (h2 : a - b < 65536) :
    u16i ((a : Int) - (b : Int)) = a - b := by
  unfold u16i
  have : ((a : Int) - (b : Int)) = ((a - b : Nat) : Int) := by omega
  rw [this]
  have h3 : (((a - b : Nat) : Int) % 65536) = ((a - b : Nat) : Int) := by omega
  rw [h3]
  simp

/-- What `btreeInitPage` does with the freeblock chain of an uninitialised page. -/
theorem btreeInitPage_spec (pPage : MemPage) (hinit : pPage.isInit = false)
    (hu : usableOk pPage.pBt.usableSize)
    (hhdr : pPage.hdrOffset = if pPage.pgno = 1 then 100 else 0) :
    ∃ r : Nat × MemPage,
      (∀ fuel, pPage.pBt.usableSize ≤ fuel → btreeInitPage fuel pPage = some r) ∧
      (r.1 = SQLITE_OK ∨ r.1 = SQLITE_CORRUPT) ∧
      ((∃ pc ∈ pageFreeblocks pPage.aData pPage.hdrOffset,
          badFreeblock pPage.aData pPage.pBt.usableSize
            (pageCellFirst pPage.aData pPage.hdrOffset) pc) → r.1 = SQLITE_CORRUPT) ∧
      (get2byteNotZero pPage.aData (pPage.hdrOffset + 5) + getByte pPage.aData (pPage.hdrOffset + 7) +
          freeblockTotal pPage.aData (pageFreeblocks pPage.aData pPage.hdrOffset) >
          pPage.pBt.usableSize → r.1 = SQLITE_CORRUPT) ∧
      (r.1 = SQLITE_OK →
        chainAscending pPage.aData pPage.pBt.usableSize (pageCellFirst pPage.aData pPage.hdrOffset)
          (pageFreeblocks pPage.aData pPage.hdrOffset) ∧
        (∀ pc ∈ pageFreeblocks pPage.aData pPage.hdrOffset,
          ¬ badFreeblock pPage.aData pPage.pBt.usableSize
            (pageCellFirst pPage.aData pPage.hdrOffset) pc) ∧
        r.2.cellOffset + 2 * r.2.nCell = pageCellFirst pPage.aData pPage.hdrOffset ∧
        r.2.nFree = u16i (((get2byteNotZero pPage.aData (pPage.hdrOffset + 5) +
            getByte pPage.aData (pPage.hdrOffset + 7) +
            freeblockTotal pPage.aData (pageFreeblocks pPage.aData pPage.hdrOffset) : Nat) : Int) -
            ((pageCellFirst pPage.aData pPage.hdrOffset : Nat) : Int)) ∧
        (pageCellFirst pPage.aData pPage.hdrOffset ≤
            get2byteNotZero pPage.aData (pPage.hdrOffset + 5) +
            getByte pPage.aData (pPage.hdrOffset + 7) +
            freeblockTotal pPage.aData (pageFreeblocks pPage.aData pPage.hdrOffset) →
          r.2.nFree = get2byteNotZero pPage.aData (pPage.hdrOffset + 5) +
            getByte pPage.aData (pPage.hdrOffset + 7) +
            freeblockTotal pPage.aData (pageFreeblocks pPage.aData pPage.hdrOffset) -
            pageCellFirst pPage.aData pPage.hdrOffset)) := by
  obtain ⟨hu1, hu2⟩ := hu
  have hbyte := getByte_lt pPage.aData pPage.hdrOffset
  by_cases hdf : (decodeFlags pPage (getByte pPage.aData pPage.hdrOffset)).1 ≠ 0
  · refine ⟨(SQLITE_CORRUPT, (decodeFlags pPage (getByte pPage.aData pPage.hdrOffset)).2), ?_, ?_, ?_, ?_, ?_⟩
    · intro fuel _
      simp only [btreeInitPage, hinit, Bool.false_eq_true, if_false, if_pos hdf]
    · right; rfl
    · intro _; rfl
    · intro _; rfl
    · intro h; simp [SQLITE_OK, SQLITE_CORRUPT] at h
  · have hok : (decodeFlags pPage (getByte pPage.aData pPage.hdrOffset)).1 = SQLITE_OK := by
      simpa [SQLITE_OK] using hdf
    obtain ⟨hleaf, _, _, _⟩ := (decodeFlags_spec pPage _ hbyte).2.2 hok
    have hpbt := decodeFlags_pBt pPage (getByte pPage.aData pPage.hdrOffset)
    have hleaf' : (decodeFlags pPage (getByte pPage.aData pPage.hdrOffset)).2.leaf =
        u8 (getByte pPage.aData pPage.hdrOffset >>> 3) := by
      simp only [decodeFlags]
      split
      · rfl
      · split <;> rfl
    have hcf : u16 (pPage.hdrOffset + 12 -
          4 * (decodeFlags pPage (getByte pPage.aData pPage.hdrOffset)).2.leaf) +
        2 * get2byte pPage.aData (pPage.hdrOffset + 3) = pageCellFirst pPage.aData pPage.hdrOffset := by
      rw [hleaf']; rfl
    by_cases hmx : get2byte pPage.aData (pPage.hdrOffset + 3) > MX_CELL pPage.pBt
    · refine ⟨(SQLITE_CORRUPT, initPageHeader pPage), ?_, ?_, ?_, ?_, ?_⟩
      · intro fuel _
        simp only [btreeInitPage, initPageHeader, hinit, Bool.false_eq_true, if_false, if_neg hdf,
          hpbt, if_pos hmx]
      · right; rfl
      · intro _; rfl
      · intro _; rfl
      · intro h; simp [SQLITE_OK, SQLITE_CORRUPT] at h
    · obtain ⟨w, hw⟩ := freeblockWalk_terminates pPage.aData pPage.pBt.usableSize
        (pageCellFirst pPage.aData pPage.hdrOffset) pPage.pBt.usableSize
        (get2byte pPage.aData (pPage.hdrOffset + 1))
        (getByte pPage.aData (pPage.hdrOffset + 7) + get2byteNotZero pPage.aData (pPage.hdrOffset + 5))
        (by omega) (by right; omega)
      have hwrc := freeblockWalk_rc _ _ _ _ _ _ _ _ (hw _ (le_refl _))
      obtain ⟨wrc, wn⟩ := w
      have hunf : ∀ fuel, pPage.pBt.usableSize ≤ fuel → btreeInitPage fuel pPage =
          (if wrc ≠ 0 then some (SQLITE_CORRUPT, initPageHeader pPage)
           else if wn > pPage.pBt.usableSize then some (SQLITE_CORRUPT, initPageHeader pPage)
           else some (SQLITE_OK, { initPageHeader pPage with
              nFree := u16i ((wn : Int) - ((pageCellFirst pPage.aData pPage.hdrOffset : Nat) : Int))
              isInit := true })) := by
        intro fuel hf
        simp only [btreeInitPage, initPageHeader, hinit, Bool.false_eq_true, if_false, if_neg hdf,
          hpbt, if_neg hmx, hcf, hw fuel hf]
      by_cases hwok : wrc ≠ 0
      · refine ⟨(SQLITE_CORRUPT, initPageHeader pPage), ?_, ?_, ?_, ?_, ?_⟩
        · intro fuel hf
          rw [hunf fuel hf, if_pos hwok]
        · right; rfl
        · intro _; rfl
        · intro _; rfl
        · intro h; simp [SQLITE_OK, SQLITE_CORRUPT] at h
      · have hw0 : wrc = SQLITE_OK := by simpa [SQLITE_OK] using hwok
        subst hw0
        obtain ⟨ha, hb, hn⟩ := freeblockWalk_ok pPage.aData pPage.pBt.usableSize
          (pageCellFirst pPage.aData pPage.hdrOffset) pPage.pBt.usableSize
          (get2byte pPage.aData (pPage.hdrOffset + 1)) _ wn
          (pageCellFirst pPage.aData pPage.hdrOffset) 65536 hu2 (hw _ (le_refl _))
          (by
            intro hne
            have hh := hw _ (le_refl _)
            obtain ⟨f, hf⟩ : ∃ f, pPage.pBt.usableSize = f + 1 := ⟨pPage.pBt.usableSize - 1, by omega⟩
            rw [hf] at hh
            unfold freeblockWalk at hh
            rw [if_pos (by omega)] at hh
            by_contra hlt
            rw [if_pos (by left; omega)] at hh
            simp [SQLITE_OK, SQLITE_CORRUPT] at hh)
        change chainAscending _ _ _ (pageFreeblocks pPage.aData pPage.hdrOffset) at ha
        change ∀ b ∈ pageFreeblocks pPage.aData pPage.hdrOffset, _ at hb
        change wn = _ + freeblockTotal pPage.aData (pageFreeblocks pPage.aData pPage.hdrOffset) at hn
        by_cases hbig : wn > pPage.pBt.usableSize
        · refine ⟨(SQLITE_CORRUPT, initPageHeader pPage), ?_, ?_, ?_, ?_, ?_⟩
          · intro fuel hf
            rw [hunf fuel hf, if_neg hwok, if_pos hbig]
          · right; rfl
          · intro _; rfl
          · intro _; rfl
          · intro h; simp [SQLITE_OK, SQLITE_CORRUPT] at h
        · refine ⟨(SQLITE_OK, { initPageHeader pPage with
              nFree := u16i ((wn : Int) - ((pageCellFirst pPage.aData pPage.hdrOffset : Nat) : Int))
              isInit := true }), ?_, ?_, ?_, ?_, ?_⟩
          · intro fuel hf
            rw [hunf fuel hf, if_neg hwok, if_neg hbig]
          · left; rfl
          · rintro ⟨pc, hpc, hbad⟩
            exact absurd hbad (hb pc hpc)
          · intro hgt; exfalso; omega
          · intro _
            have hnn : wn = get2byteNotZero pPage.aData (pPage.hdrOffset + 5) +
                getByte pPage.aData (pPage.hdrOffset + 7) +
                freeblockTotal pPage.aData (pageFreeblocks pPage.aData pPage.hdrOffset) := by omega
            refine ⟨ha, hb, hcf, ?_, ?_⟩
            · show u16i _ = _
              rw [hnn]
            · intro hle
              show u16i _ = _
              rw [hnn]
              apply u16i_of_nonneg _ _ hle
              have : 8 ≤ pageCellFirst pPage.aData pPage.hdrOffset := by
                rw [← hcf, hleaf]
                have : pPage.hdrOffset ≤ 100 := by rw [hhdr]; split <;> omega
                unfold u16
                split <;> omega
              omega

/-- C8 (as amended): on an uninitialised page `btreeInitPage`'s walk of the freeblock chain
terminates (every fuel of at least `usable` gives the same result); it returns
`SQLITE_CORRUPT` whenever some block on the chain starts below `cellOffset + 2*nCell` or above
`usable - 4`, ends past `usable`, or has a non-zero next offset not greater than its
start + size + 3, or when content-area start + fragmented bytes + total freeblock size exceeds
`usable`; whenever it returns `SQLITE_OK` the chain is strictly ascending, non-overlapping and
inside that range, and, provided `cellOffset + 2*nCell` does not exceed content-area start +
fragmented bytes + total freeblock size, `nFree` is set to their difference. -/
theorem btreeInitPage_freeblocks (pPage : MemPage) (hinit : pPage.isInit = false)
    (hu : usableOk pPage.pBt.usableSize)
    (hhdr : pPage.hdrOffset = if pPage.pgno = 1 then 100 else 0) :
    ∃ r : Nat × MemPage,
      (∀ fuel, pPage.pBt.usableSize ≤ fuel → btreeInitPage fuel pPage = some r) ∧
      (r.1 = SQLITE_OK ∨ r.1 = SQLITE_CORRUPT) ∧
      ((∃ pc ∈ pageFreeblocks pPage.aData pPage.hdrOffset,
          badFreeblock pPage.aData pPage.pBt.usableSize
            (pageCellFirst pPage.aData pPage.hdrOffset) pc) → r.1 = SQLITE_CORRUPT) ∧
      (get2byteNotZero pPage.aData (pPage.hdrOffset + 5) + getByte pPage.aData (pPage.hdrOffset + 7) +
          freeblockTotal pPage.aData (pageFreeblocks pPage.aData pPage.hdrOffset) >
          pPage.pBt.usableSize → r.1 = SQLITE_CORRUPT) ∧
      (r.1 = SQLITE_OK →
        chainAscending pPage.aData pPage.pBt.usableSize (pageCellFirst pPage.aData pPage.hdrOffset)
          (pageFreeblocks pPage.aData pPage.hdrOffset) ∧
        (∀ pc ∈ pageFreeblocks pPage.aData pPage.hdrOffset,
          ¬ badFreeblock pPage.aData pPage.pBt.usableSize
            (pageCellFirst pPage.aData pPage.hdrOffset) pc) ∧
        r.2.cellOffset + 2 * r.2.nCell = pageCellFirst pPage.aData pPage.hdrOffset ∧
        (pageCellFirst pPage.aData pPage.hdrOffset ≤
            get2byteNotZero pPage.aData (pPage.hdrOffset + 5) +
            getByte pPage.aData (pPage.hdrOffset + 7) +
            freeblockTotal pPage.aData (pageFreeblocks pPage.aData pPage.hdrOffset) →
          r.2.nFree = get2byteNotZero pPage.aData (pPage.hdrOffset + 5) +
            getByte pPage.aData (pPage.hdrOffset + 7) +
            freeblockTotal pPage.aData (pageFreeblocks pPage.aData pPage.hdrOffset) -
            pageCellFirst pPage.aData pPage.hdrOffset)) := by
  obtain ⟨r, h1, h2, h3, h4, h5⟩ := btreeInitPage_spec pPage hinit hu hhdr
  exact ⟨r, h1, h2, h3, h4, fun hok => ⟨(h5 hok).1, (h5 hok).2.1, (h5 hok).2.2.1, (h5 hok).2.2.2.2⟩⟩

/-- Witness for C8: a 1024-byte table-leaf page with one freeblock is accepted with
`nFree = 900 + 2 + 20 - 10 = 912`. -/
theorem btreeInitPage_freeblocks_witness :
    exInitPage.isInit = false ∧ usableOk exInitPage.pBt.usableSize ∧
    ∃ r : Nat × MemPage, btreeInitPage 1024 exInitPage = some r ∧ r.1 = SQLITE_OK ∧
      r.2.nFree = 912 := by
  obtain ⟨r, h1, _, _, _, h5⟩ := btreeInitPage_freeblocks exInitPage rfl (by decide) rfl
  have hr := h1 1024 (by decide)
  have hrc : (btreeInitPage 1024 exInitPage).map (fun r => r.1) = some SQLITE_OK := by decide
  rw [hr] at hrc
  have hok : r.1 = SQLITE_OK := by simpa using hrc
  refine ⟨rfl, by decide, r, hr, hok, ?_⟩
  have h6 := (h5 hok).2.2.2 (by decide)
  rw [h6]
  decide

/-- C8 (counterexample): a page whose content-area start (100) lies below the end of its
cell-pointer array (208) is accepted with `SQLITE_OK`, and `nFree` is set to 65428, which
is not 100 + 0 + 0 - 208. -/
theorem btreeInitPage_nFree_wraps_counterexample :
    (btreeInitPage 65536 exLowTopPage).map (fun r => (r.1, r.2.nFree)) = some (SQLITE_OK, 65428) ∧
    get2byteNotZero exLowTopPage.aData (exLowTopPage.hdrOffset + 5) = 100 ∧
    getByte exLowTopPage.aData (exLowTopPage.hdrOffset + 7) = 0 ∧
    freeblockTotal exLowTopPage.aData (pageFreeblocks exLowTopPage.aData exLowTopPage.hdrOffset) = 0 ∧
    (btreeInitPage 65536 exLowTopPage).map (fun r => r.2.cellOffset + 2 * r.2.nCell) = some 208 ∧
    ((65428 : Int) ≠ 100 + 0 + 0 - 208) ∧ (65428 ≠ 100 + 0 + 0 - 208) := by
  decide

end Btree

namespace Btree

/-! ## Reading back bytes after writes -/

theorem setByte_same (d : Bytes) (i v : Nat) : setByte d i v i = v % 256 := by
  simp [setByte]

theorem setByte_other (d : Bytes) (i v j : Nat) (h : j ≠ i) : setByte d i v j = d j := by
  simp [setByte, h]

theorem put2byte_other (d : Bytes) (i v j : Nat) (h1 : j ≠ i) (h2 : j ≠ i + 1) :
    put2byte d i v j = d j := by
  simp [put2byte, setByte, h1, h2]

theorem put4byte_other (d : Bytes) (i v j : Nat) (h : j < i ∨ i + 4 ≤ j) :
    put4byte d i v j = d j := by
  have h0 : j ≠ i := by omega
  have h1 : j ≠ i + 1 := by omega
  have h2 : j ≠ i + 2 := by omega
  have h3 : j ≠ i + 3 := by omega
  simp [put4byte, setByte, h0, h1, h2, h3]

theorem memcpy_other (dst : Bytes) (dOff : Nat) (src : Bytes) (sOff n j : Nat)
    (h : j < dOff ∨ dOff + n ≤ j) : memcpy dst dOff src sOff n j = dst j := by
  unfold memcpy
  rw [if_neg (by omega)]

theorem memcpy_inside (dst : Bytes) (dOff : Nat) (src : Bytes) (sOff n j : Nat)
    (h1 : dOff ≤ j) (h2 : j < dOff + n) : memcpy dst dOff src sOff n j = src (sOff + (j - dOff)) := by
  unfold memcpy
  rw [if_pos ⟨h1, h2⟩]

theorem memset0_other (dst : Bytes) (off n j : Nat) (h : j < off ∨ off + n ≤ j) :
    memset0 dst off n j = dst j := by
  unfold memset0
  rw [if_neg (by omega)]

theorem getByte_congr {d d' : Bytes} {i : Nat} (h : d' i = d i) : getByte d' i = getByte d i := by
  unfold getByte; rw [h]

theorem get2byte_congr {d d' : Bytes} {i : Nat} (h0 : d' i = d i) (h1 : d' (i + 1) = d (i + 1)) :
    get2byte d' i = get2byte d i := by
  unfold get2byte getByte; rw [h0, h1]

theorem get2byteNotZero_congr {d d' : Bytes} {i : Nat} (h0 : d' i = d i)
    (h1 : d' (i + 1) = d (i + 1)) : get2byteNotZero d' i = get2byteNotZero d i := by
  unfold get2byteNotZero; rw [get2byte_congr h0 h1]

theorem get2byte_put2byte (d : Bytes) (i v : Nat) : get2byte (put2byte d i v) i = v % 65536 := by
  simp only [get2byte, getByte, put2byte, setByte]
  simp
  omega

theorem getByte_setByte (d : Bytes) (i v : Nat) : getByte (setByte d i v) i = v % 256 := by
  simp [getByte, setByte]

theorem get2byteNotZero_pos (d : Bytes) (i : Nat) :
    1 ≤ get2byteNotZero d i ∧ get2byteNotZero d i ≤ 65536 := by
  unfold get2byteNotZero; omega

theorem get2byteNotZero_eq (d : Bytes) (i : Nat) (h : get2byte d i ≠ 0) :
    get2byteNotZero d i = get2byte d i := by
  have := get2byte_lt d i
  unfold get2byteNotZero; omega

theorem get2byteNotZero_put2byte (d : Bytes) (i v : Nat) (h1 : 1 ≤ v) (h2 : v ≤ 65536) :
    get2byteNotZero (put2byte d i v) i = v := by
  unfold get2byteNotZero
  rw [get2byte_put2byte]
  omega

/-! ## Freeblock chains -/

theorem IsChain_congr {d d' : Bytes} :
    ∀ (L : List Nat) (pc : Nat), (∀ b ∈ L, d' b = d b ∧ d' (b + 1) = d (b + 1)) →
      IsChain d pc L → IsChain d' pc L := by
  intro L
  induction L with
  | nil => intro pc _ h; exact h
  | cons b rest ih =>
    intro pc hf h
    obtain ⟨h1, h2, h3⟩ := h
    have hb := hf b (List.mem_cons_self _ _)
    refine ⟨h1, h2, ?_⟩
    rw [get2byte_congr hb.1 hb.2]
    exact ih _ (fun c hc => hf c (List.mem_cons_of_mem _ hc)) h3

theorem chainSep_congr {d d' : Bytes} (g usable : Nat) :
    ∀ (L : List Nat) (lo : Nat), (∀ b ∈ L, d' (b + 2) = d (b + 2) ∧ d' (b + 3) = d (b + 3)) →
      chainSep g d usable lo L → chainSep g d' usable lo L := by
  intro L
  induction L with
  | nil => intro lo _ h; exact h
  | cons b rest ih =>
    intro lo hf h
    obtain ⟨h1, h2, h3, h4⟩ := h
    have hb := hf b (List.mem_cons_self _ _)
    have e : get2byte d' (b + 2) = get2byte d (b + 2) := get2byte_congr hb.1 hb.2
    refine ⟨h1, by rw [e]; exact h2, by rw [e]; exact h3, ?_⟩
    rw [e]
    exact ih _ (fun c hc => hf c (List.mem_cons_of_mem _ hc)) h4

theorem freeblockTotal_congr {d d' : Bytes} :
    ∀ (L : List Nat), (∀ b ∈ L, d' (b + 2) = d (b + 2) ∧ d' (b + 3) = d (b + 3)) →
      freeblockTotal d' L = freeblockTotal d L := by
  intro L
  induction L with
  | nil => intro _; simp [freeblockTotal]
  | cons b rest ih =>
    intro hf
    have hb := hf b (List.mem_cons_self _ _)
    have e : get2byte d' (b + 2) = get2byte d (b + 2) := get2byte_congr hb.1 hb.2
    have := ih (fun c hc => hf c (List.mem_cons_of_mem _ hc))
    simp only [freeblockTotal, List.map_cons, List.sum_cons] at this ⊢
    rw [e, this]

theorem freeblockTotal_cons (d : Bytes) (b : Nat) (L : List Nat) :
    freeblockTotal d (b :: L) = get2byte d (b + 2) + freeblockTotal d L := by
  simp [freeblockTotal]

theorem chainSep_mono {g k : Nat} {d : Bytes} {usable : Nat} (hg : k ≤ g) :
    ∀ (L : List Nat) (lo lo' : Nat), lo' ≤ lo → chainSep g d usable lo L → chainSep k d usable lo' L := by
  intro L
  induction L with
  | nil => intro _ _ _ h; exact h
  | cons b rest ih =>
    intro lo lo' hlo h
    obtain ⟨h1, h2, h3, h4⟩ := h
    exact ⟨by omega, h2, h3, ih _ _ (by omega) h4⟩

theorem chainSep_mem {g : Nat} {d : Bytes} {usable : Nat} :
    ∀ (L : List Nat) (lo : Nat), chainSep g d usable lo L → ∀ b ∈ L,
      lo ≤ b ∧ 4 ≤ get2byte d (b + 2) ∧ b + get2byte d (b + 2) ≤ usable := by
  intro L
  induction L with
  | nil => intro _ _ b hb; simp at hb
  | cons c rest ih =>
    intro lo h b hb
    obtain ⟨h1, h2, h3, h4⟩ := h
    rcases List.mem_cons.mp hb with rfl | hb
    · exact ⟨h1, h2, h3⟩
    · have := ih _ h4 b hb
      exact ⟨by omega, this.2.1, this.2.2⟩

theorem chainSep_length {g : Nat} {d : Bytes} {usable : Nat} :
    ∀ (L : List Nat) (lo : Nat), chainSep g d usable lo L → 4 * L.length ≤ usable + g - lo := by
  intro L
  induction L with
  | nil => intro lo _; simp
  | cons c rest ih =>
    intro lo h
    obtain ⟨h1, h2, h3, h4⟩ := h
    have := ih _ h4
    simp only [List.length_cons]
    omega

theorem freeblockChain_of_IsChain (d : Bytes) :
    ∀ (L : List Nat) (pc fuel : Nat), IsChain d pc L → L.length < fuel →
      freeblockChain d fuel pc = L := by
  intro L
  induction L with
  | nil =>
    intro pc fuel h hl
    obtain ⟨f, rfl⟩ : ∃ f, fuel = f + 1 := ⟨fuel - 1, by simp at hl; omega⟩
    simp only [IsChain] at h
    simp [freeblockChain, h]
  | cons b rest ih =>
    intro pc fuel h hl
    obtain ⟨h1, h2, h3⟩ := h
    obtain ⟨f, rfl⟩ : ∃ f, fuel = f + 1 := ⟨fuel - 1, by simp at hl; omega⟩
    subst h1
    simp only [freeblockChain, if_neg h2]
    rw [ih _ f h3 (by simp at hl; omega)]

/-- A separated chain computed with enough fuel is complete: it ends at a zero link. -/
theorem IsChain_of_chainSep (d : Bytes) (usable : Nat) :
    ∀ (fuel pc lo : Nat), lo ≤ usable + 4 → usable + 4 < lo + 4 * fuel →
      chainSep 4 d usable lo (freeblockChain d fuel pc) → IsChain d pc (freeblockChain d fuel pc) := by
  intro fuel
  induction fuel with
  | zero => intro pc lo h1 h2 _; omega
  | succ f ih =>
    intro pc lo h1 h2 h
    by_cases hz : pc = 0
    · simp [freeblockChain, hz, IsChain]
    · simp only [freeblockChain, if_neg hz] at h ⊢
      obtain ⟨c1, c2, c3, c4⟩ := h
      exact ⟨rfl, hz, ih _ _ (by omega) (by omega) c4⟩

end Btree

namespace Btree

/-! ## `defragmentPage` -/

theorem defragmentLoop_cbrk (pPage : MemPage) (temp : Bytes) (usableSize iCellFirst iCellLast : Nat) :
    ∀ (k i : Nat) (data : Bytes) (cbrk : Nat) (data' : Bytes) (cbrk' : Nat),
      defragmentLoop pPage temp usableSize iCellFirst iCellLast k i data cbrk = (SQLITE_OK, data', cbrk') →
      cbrk' ≤ cbrk ∧ (0 < k → iCellFirst ≤ cbrk') := by
  intro k
  induction k with
  | zero =>
    intro i data cbrk data' cbrk' h
    simp only [defragmentLoop] at h
    injection h with _ h
    injection h with _ h
    omega
  | succ k ih =>
    intro i data cbrk data' cbrk' h
    unfold defragmentLoop at h
    simp only at h
    split at h
    · simp [SQLITE_OK, SQLITE_CORRUPT] at h
    · split at h
      · simp [SQLITE_OK, SQLITE_CORRUPT] at h
      · rename_i hc
        have := ih _ _ _ _ _ h
        by_cases hk : 0 < k
        · exact ⟨by omega, fun _ => this.2 hk⟩
        · have hk0 : k = 0 := by omega
          subst hk0
          simp only [defragmentLoop] at h
          injection h with _ h
          injection h with _ h
          omega

theorem freeblockChain_zero (d : Bytes) (fuel : Nat) : freeblockChain d fuel 0 = [] := by
  cases fuel <;> simp [freeblockChain]

/-- What a successful `defragmentPage` leaves behind: no freeblocks, no fragmented bytes,
and a content area that starts `nFree` bytes after the cell-pointer array. -/
theorem defragmentPage_ok (pPage : MemPage) (temp : Bytes)
    (hgap : pPage.hdrOffset + 8 ≤ pPage.cellOffset)
    (hfit : pPage.cellOffset + 2 * pPage.nCell ≤ pPage.pBt.usableSize)
    (hu : pPage.pBt.usableSize ≤ 65536)
    (hok : (defragmentPage pPage temp).1 = SQLITE_OK) :
    (defragmentPage pPage temp).2.1.nFree = pPage.nFree ∧
    (defragmentPage pPage temp).2.1.nCell = pPage.nCell ∧
    (defragmentPage pPage temp).2.1.cellOffset = pPage.cellOffset ∧
    (defragmentPage pPage temp).2.1.hdrOffset = pPage.hdrOffset ∧
    (defragmentPage pPage temp).2.1.pBt = pPage.pBt ∧
    (defragmentPage pPage temp).2.1.nOverflow = pPage.nOverflow ∧
    getByte (defragmentPage pPage temp).2.1.aData (pPage.hdrOffset + 7) = 0 ∧
    get2byte (defragmentPage pPage temp).2.1.aData (pPage.hdrOffset + 1) = 0 ∧
    get2byteNotZero (defragmentPage pPage temp).2.1.aData (pPage.hdrOffset + 5) =
      pPage.nFree + (pPage.cellOffset + 2 * pPage.nCell) ∧
    pPage.nFree + (pPage.cellOffset + 2 * pPage.nCell) ≤ pPage.pBt.usableSize := by
  unfold defragmentPage at hok ⊢
  simp only at hok ⊢
  generalize hloop : defragmentLoop pPage
      (memcpy temp (get2byte pPage.aData (pPage.hdrOffset + 5)) pPage.aData
        (get2byte pPage.aData (pPage.hdrOffset + 5))
        (pPage.pBt.usableSize - get2byte pPage.aData (pPage.hdrOffset + 5)))
      pPage.pBt.usableSize (pPage.cellOffset + 2 * pPage.nCell) (pPage.pBt.usableSize - 4)
      pPage.nCell 0 pPage.aData pPage.pBt.usableSize = res at hok ⊢
  obtain ⟨rc, data, cbrk⟩ := res
  simp only at hok ⊢
  by_cases hrc : rc ≠ 0
  · rw [if_pos hrc] at hok
    simp only at hok
    exact absurd hok hrc
  · rw [if_neg hrc] at hok ⊢
    have hrc0 : rc = SQLITE_OK := by simpa [SQLITE_OK] using hrc
    subst hrc0
    by_cases hnf : cbrk - (pPage.cellOffset + 2 * pPage.nCell) ≠ pPage.nFree
    · rw [if_pos hnf] at hok
      simp [SQLITE_OK, SQLITE_CORRUPT] at hok
    · rw [if_neg hnf]
      have hnf' : cbrk - (pPage.cellOffset + 2 * pPage.nCell) = pPage.nFree := by
        simpa using hnf
      obtain ⟨hle, hge⟩ := defragmentLoop_cbrk _ _ _ _ _ _ _ _ _ _ _ hloop
      have hcb : pPage.cellOffset + 2 * pPage.nCell ≤ cbrk := by
        by_cases hk : 0 < pPage.nCell
        · exact hge hk
        · have hk0 : pPage.nCell = 0 := by omega
          rw [hk0] at hloop
          simp only [defragmentLoop] at hloop
          injection hloop with _ hloop
          injection hloop with _ hloop
          omega
      have e7 : getByte (memset0 (setByte (setByte (setByte (put2byte data (pPage.hdrOffset + 5) cbrk)
          (pPage.hdrOffset + 1) 0) (pPage.hdrOffset + 2) 0) (pPage.hdrOffset + 7) 0)
          (pPage.cellOffset + 2 * pPage.nCell) (cbrk - (pPage.cellOffset + 2 * pPage.nCell)))
          (pPage.hdrOffset + 7) = 0 := by
        unfold getByte
        rw [memset0_other _ _ _ _ (by omega), setByte_same]
      have e1 : get2byte (memset0 (setByte (setByte (setByte (put2byte data (pPage.hdrOffset + 5) cbrk)
          (pPage.hdrOffset + 1) 0) (pPage.hdrOffset + 2) 0) (pPage.hdrOffset + 7) 0)
          (pPage.cellOffset + 2 * pPage.nCell) (cbrk - (pPage.cellOffset + 2 * pPage.nCell)))
          (pPage.hdrOffset + 1) = 0 := by
        unfold get2byte getByte
        rw [memset0_other _ _ _ _ (by omega), memset0_other _ _ _ _ (by omega),
          setByte_other _ _ _ _ (by omega), setByte_other _ _ _ _ (by omega), setByte_same,
          setByte_other _ _ _ _ (by omega), setByte_same]
      have e5 : get2byteNotZero (memset0 (setByte (setByte (setByte (put2byte data (pPage.hdrOffset + 5) cbrk)
          (pPage.hdrOffset + 1) 0) (pPage.hdrOffset + 2) 0) (pPage.hdrOffset + 7) 0)
          (pPage.cellOffset + 2 * pPage.nCell) (cbrk - (pPage.cellOffset + 2 * pPage.nCell)))
          (pPage.hdrOffset + 5) = cbrk := by
        rw [get2byteNotZero_congr (d := put2byte data (pPage.hdrOffset + 5) cbrk)]
        · exact get2byteNotZero_put2byte _ _ _ (by omega) (by omega)
        · rw [memset0_other _ _ _ _ (by omega), setByte_other _ _ _ _ (by omega),
            setByte_other _ _ _ _ (by omega), setByte_other _ _ _ _ (by omega)]
        · rw [memset0_other _ _ _ _ (by omega), setByte_other _ _ _ _ (by omega),
            setByte_other _ _ _ _ (by omega), setByte_other _ _ _ _ (by omega)]
      refine ⟨rfl, rfl, rfl, rfl, rfl, rfl, e7, e1, ?_, ?_⟩
      · rw [e5]; omega
      · omega

end Btree

namespace Btree

/-! ## Page views: the freeblock chain as a list -/

theorem pageFreeblocks_eq (d : Bytes) (hdr usable lo : Nat) (L : List Nat) (hu : usable ≤ 65536)
    (hc : IsChain d (get2byte d (hdr + 1)) L) (hs : chainSep 0 d usable lo L) :
    pageFreeblocks d hdr = L := by
  have hl := chainSep_length L lo hs
  exact freeblockChain_of_IsChain d L _ 65536 hc (by omega)

theorem pageFreeSum_eq (d : Bytes) (hdr usable lo : Nat) (L : List Nat) (hu : usable ≤ 65536)
    (hc : IsChain d (get2byte d (hdr + 1)) L) (hs : chainSep 0 d usable lo L) :
    pageFreeSum d hdr = getByte d (hdr + 7) + get2byteNotZero d (hdr + 5) + freeblockTotal d L := by
  unfold pageFreeSum
  rw [pageFreeblocks_eq d hdr usable lo L hu hc hs]

/-- The chain of a well-formed page is complete and separated. -/
theorem WellFormedPage.chain {p : MemPage} (h : WellFormedPage p) :
    IsChain p.aData (get2byte p.aData (p.hdrOffset + 1)) (pageFreeblocks p.aData p.hdrOffset) ∧
    chainSep 4 p.aData p.pBt.usableSize (get2byteNotZero p.aData (p.hdrOffset + 5))
      (pageFreeblocks p.aData p.hdrOffset) := by
  obtain ⟨⟨hu1, hu2⟩, _, _, _, _, _, htop, hsep, _⟩ := h
  refine ⟨?_, hsep⟩
  exact IsChain_of_chainSep p.aData p.pBt.usableSize 65536 _ _ (by omega) (by omega) hsep

theorem chain_frame {d e : Bytes} {usable lo : Nat} {g : Nat} (L : List Nat) (pc : Nat)
    (hc : IsChain d pc L) (hs : chainSep g d usable lo L)
    (hf : ∀ j, lo ≤ j → e j = d j) :
    IsChain e pc L ∧ chainSep g e usable lo L ∧ freeblockTotal e L = freeblockTotal d L := by
  have hm := chainSep_mem L lo hs
  refine ⟨IsChain_congr L pc ?_ hc, chainSep_congr g usable L lo ?_ hs, freeblockTotal_congr L ?_⟩
  · intro b hb
    have := hm b hb
    exact ⟨hf _ (by omega), hf _ (by omega)⟩
  · intro b hb
    have := hm b hb
    exact ⟨hf _ (by omega), hf _ (by omega)⟩
  · intro b hb
    have := hm b hb
    exact ⟨hf _ (by omega), hf _ (by omega)⟩

/-- Writes that leave the five header bytes of the free-space accounting and everything from
`lo` on untouched do not change the free-byte sum. -/
theorem pageFreeSum_frame {d d' : Bytes} {hdr usable lo : Nat} (L : List Nat) (hu : usable ≤ 65536)
    (hc : IsChain d (get2byte d (hdr + 1)) L) (hs : chainSep 0 d usable lo L)
    (hf : ∀ j, (j = hdr + 1 ∨ j = hdr + 2 ∨ j = hdr + 5 ∨ j = hdr + 6 ∨ j = hdr + 7 ∨ lo ≤ j) →
      d' j = d j) :
    pageFreeSum d' hdr = pageFreeSum d hdr := by
  have e1 : get2byte d' (hdr + 1) = get2byte d (hdr + 1) :=
    get2byte_congr (hf _ (by omega)) (hf _ (by omega))
  obtain ⟨hc', hs', ht'⟩ := chain_frame L _ hc hs (fun j hj => hf j (by omega))
  rw [← e1] at hc'
  rw [pageFreeSum_eq d hdr usable lo L hu hc hs, pageFreeSum_eq d' hdr usable lo L hu hc' hs', ht',
    getByte_congr (hf _ (by omega)), get2byteNotZero_congr (hf _ (by omega)) (hf _ (by omega))]

/-! ## `freeSpace` -/

theorem linkFreeblock_other (d : Bytes) (addr start pbegin size j : Nat)
    (h1 : j < addr ∨ addr + 2 ≤ j) (h2 : j < start ∨ start + 4 ≤ j) :
    linkFreeblock d addr start pbegin size j = d j := by
  unfold linkFreeblock
  rw [put2byte_other _ _ _ _ (by omega) (by omega), put2byte_other _ _ _ _ (by omega) (by omega),
    put2byte_other _ _ _ _ (by omega) (by omega)]

theorem linkFreeblock_link (d : Bytes) (addr start pbegin size : Nat) (h : addr + 2 ≤ start)
    (hs : start < 65536) : get2byte (linkFreeblock d addr start pbegin size) addr = start := by
  unfold linkFreeblock
  rw [get2byte_congr (d := put2byte d addr start), get2byte_put2byte, Nat.mod_eq_of_lt hs]
  · rw [put2byte_other _ _ _ _ (by omega) (by omega), put2byte_other _ _ _ _ (by omega) (by omega)]
  · rw [put2byte_other _ _ _ _ (by omega) (by omega), put2byte_other _ _ _ _ (by omega) (by omega)]

theorem linkFreeblock_next (d : Bytes) (addr start pbegin size : Nat) (hp : pbegin < 65536) :
    get2byte (linkFreeblock d addr start pbegin size) start = pbegin := by
  unfold linkFreeblock
  rw [get2byte_congr (d := put2byte (put2byte d addr start) start pbegin), get2byte_put2byte,
    Nat.mod_eq_of_lt hp]
  · rw [put2byte_other _ _ _ _ (by omega) (by omega)]
  · rw [put2byte_other _ _ _ _ (by omega) (by omega)]

theorem linkFreeblock_size (d : Bytes) (addr start pbegin size : Nat) (hp : size < 65536) :
    get2byte (linkFreeblock d addr start pbegin size) (start + 2) = size := by
  unfold linkFreeblock
  rw [get2byte_put2byte, Nat.mod_eq_of_lt hp]

/-- The first loop of `freeSpace` on a well-formed chain: it stops at the link after which the
released block belongs, and the three stores that follow produce a chain with the block
inserted in ascending order. -/
theorem freeSpaceFind_insert (d : Bytes) (usable start size : Nat) (hsz : 4 ≤ size)
    (hend : start + size ≤ usable) (hu : usable ≤ 65536) :
    ∀ (L : List Nat) (addr lo lo0 : Nat),
      IsChain d (get2byte d addr) L → chainSep 4 d usable lo L →
      addr + 4 ≤ lo → lo0 ≤ lo → lo0 ≤ start → addr + 2 ≤ lo0 →
      (∀ b ∈ L, start + size ≤ b ∨ b + get2byte d (b + 2) ≤ start) →
      ∃ addr' pbegin L',
        (∀ fuel, L.length < fuel → freeSpaceFind d start fuel addr = some (some (addr', pbegin))) ∧
        pbegin ≤ usable - 4 ∧
        IsChain (linkFreeblock d addr' start pbegin size)
          (get2byte (linkFreeblock d addr' start pbegin size) addr) L' ∧
        chainSep 0 (linkFreeblock d addr' start pbegin size) usable lo0 L' ∧
        freeblockTotal (linkFreeblock d addr' start pbegin size) L' = freeblockTotal d L + size ∧
        L' ≠ [] ∧
        (∀ j, (j < addr ∨ (addr + 2 ≤ j ∧ j < lo0)) →
          linkFreeblock d addr' start pbegin size j = d j) := by
  intro L
  induction L with
  | nil =>
    intro addr lo lo0 hc _ _ _ hlo0 haddr _
    simp only [IsChain] at hc
    refine ⟨addr, 0, [start], ?_, by omega, ?_, ?_, ?_, by simp, ?_⟩
    · intro fuel hf
      obtain ⟨f, rfl⟩ : ∃ f, fuel = f + 1 := ⟨fuel - 1, by simp at hf; omega⟩
      simp [freeSpaceFind, hc]
    · rw [linkFreeblock_link d addr start 0 size (by omega) (by omega)]
      refine ⟨rfl, by omega, ?_⟩
      rw [linkFreeblock_next d addr start 0 size (by omega)]
      rfl
    · refine ⟨hlo0, ?_, ?_, trivial⟩
      · rw [linkFreeblock_size d addr start 0 size (by omega)]; exact hsz
      · rw [linkFreeblock_size d addr start 0 size (by omega)]; exact hend
    · rw [freeblockTotal_cons, linkFreeblock_size d addr start 0 size (by omega)]
      simp [freeblockTotal]
    · intro j hj
      exact linkFreeblock_other _ _ _ _ _ _ (by omega) (by omega)
  | cons b rest ih =>
    intro addr lo lo0 hc hs haddr hlo hlo0 haddr0 hdis
    obtain ⟨hb, hbne, hrest⟩ := hc
    obtain ⟨s1, s2, s3, s4⟩ := hs
    have hdb := hdis b (List.mem_cons_self _ _)
    by_cases hlt : b < start
    · obtain ⟨addr', pbegin, L'', f1, f2, f3, f4, f5, f6, f7⟩ :=
        ih b (b + get2byte d (b + 2) + 4) (b + get2byte d (b + 2)) hrest s4 (by omega) (by omega)
          (by omega) (by omega) (fun c hc => hdis c (List.mem_cons_of_mem _ hc))
      have ea : get2byte (linkFreeblock d addr' start pbegin size) addr = b := by
        rw [get2byte_congr (f7 _ (by omega)) (f7 _ (by omega))]; exact hb
      have es : get2byte (linkFreeblock d addr' start pbegin size) (b + 2) = get2byte d (b + 2) :=
        get2byte_congr (f7 _ (by omega)) (f7 _ (by omega))
      refine ⟨addr', pbegin, b :: L'', ?_, f2, ?_, ?_, ?_, by simp, ?_⟩
      · intro fuel hf
        obtain ⟨f, rfl⟩ : ∃ f, fuel = f + 1 := ⟨fuel - 1, by simp at hf; omega⟩
        simp only [freeSpaceFind, hb]
        rw [if_pos ⟨hlt, by omega⟩, if_neg (by omega)]
        exact f1 f (by simp at hf; omega)
      · rw [ea]
        exact ⟨rfl, hbne, f3⟩
      · refine ⟨by omega, by rw [es]; exact s2, by rw [es]; exact s3, ?_⟩
        rw [es]; exact f4
      · rw [freeblockTotal_cons, freeblockTotal_cons, es, f5]; omega
      · intro j hj
        exact f7 j (by omega)
    · have hge : start + size ≤ b := by omega
      have hb16 : b < 65536 := by omega
      have hfr : ∀ j, b ≤ j → linkFreeblock d addr start b size j = d j := by
        intro j hj
        exact linkFreeblock_other _ _ _ _ _ _ (by omega) (by omega)
      have hcb : IsChain d b (b :: rest) := ⟨rfl, hbne, hrest⟩
      have hsb : chainSep 0 d usable b (b :: rest) :=
        ⟨le_refl b, s2, s3, chainSep_mono (by omega) _ _ _ (by omega) s4⟩
      obtain ⟨c1, c2, c3⟩ := chain_frame (e := linkFreeblock d addr start b size)
        (b :: rest) b hcb hsb hfr
      refine ⟨addr, b, start :: b :: rest, ?_, by omega, ?_, ?_, ?_, by simp, ?_⟩
      · intro fuel hf
        obtain ⟨f, rfl⟩ : ∃ f, fuel = f + 1 := ⟨fuel - 1, by simp at hf; omega⟩
        simp only [freeSpaceFind, hb]
        rw [if_neg (by omega)]
      · rw [linkFreeblock_link d addr start b size (by omega) (by omega)]
        refine ⟨rfl, by omega, ?_⟩
        rw [linkFreeblock_next d addr start b size hb16]
        exact c1
      · refine ⟨hlo0, ?_, ?_, ?_⟩
        · rw [linkFreeblock_size d addr start b size (by omega)]; exact hsz
        · rw [linkFreeblock_size d addr start b size (by omega)]; exact hend
        · rw [linkFreeblock_size d addr start b size (by omega)]
          obtain ⟨q1, q2, q3, q4⟩ := c2
          exact ⟨hge, q2, q3, q4⟩
      · rw [freeblockTotal_cons, linkFreeblock_size d addr start b size (by omega), c3]; omega
      · intro j hj
        exact linkFreeblock_other _ _ _ _ _ _ (by omega) (by omega)

theorem mergeFreeblocks_other (d : Bytes) (hdr pbegin pnext j : Nat)
    (h1 : j ≠ hdr + 7) (h2 : j < pbegin ∨ pbegin + 4 ≤ j) :
    mergeFreeblocks d hdr pbegin pnext j = d j := by
  unfold mergeFreeblocks
  rw [put2byte_other _ _ _ _ (by omega) (by omega), put2byte_other _ _ _ _ (by omega) (by omega),
    setByte_other _ _ _ _ h1]

theorem mergeFreeblocks_frag (d : Bytes) (hdr pbegin pnext : Nat) (h : hdr + 8 ≤ pbegin) :
    getByte (mergeFreeblocks d hdr pbegin pnext) (hdr + 7) =
      getByte d (hdr + 7) - (pnext - (pbegin + get2byte d (pbegin + 2))) := by
  have hlt := getByte_lt d (hdr + 7)
  unfold mergeFreeblocks
  unfold getByte
  rw [put2byte_other _ _ _ _ (by omega) (by omega), put2byte_other _ _ _ _ (by omega) (by omega),
    setByte_same]
  unfold getByte at hlt
  omega

theorem mergeFreeblocks_next (d : Bytes) (hdr pbegin pnext : Nat) (h : hdr + 8 ≤ pbegin)
    (hn : pbegin + 4 ≤ pnext) :
    get2byte (mergeFreeblocks d hdr pbegin pnext) pbegin = get2byte d pnext := by
  have hlt := get2byte_lt d pnext
  unfold mergeFreeblocks
  rw [get2byte_congr (d := put2byte (setByte d (hdr + 7) _) pbegin _)
      (put2byte_other _ _ _ _ (by omega) (by omega)) (put2byte_other _ _ _ _ (by omega) (by omega)),
    get2byte_put2byte,
    get2byte_congr (d := d) (setByte_other _ _ _ _ (by omega)) (setByte_other _ _ _ _ (by omega))]
  omega

theorem mergeFreeblocks_size (d : Bytes) (hdr pbegin pnext : Nat) (h : hdr + 8 ≤ pbegin)
    (hn : pbegin + 4 ≤ pnext) (hb : pnext + get2byte d (pnext + 2) ≤ 65536) :
    get2byte (mergeFreeblocks d hdr pbegin pnext) (pbegin + 2) =
      pnext + get2byte d (pnext + 2) - pbegin := by
  unfold mergeFreeblocks
  rw [get2byte_put2byte]
  have e : get2byte (put2byte (setByte d (hdr + 7)
      (getByte d (hdr + 7) - (pnext - (pbegin + get2byte d (pbegin + 2))))) pbegin
      (get2byte (setByte d (hdr + 7)
        (getByte d (hdr + 7) - (pnext - (pbegin + get2byte d (pbegin + 2))))) pnext)) (pnext + 2) =
      get2byte d (pnext + 2) := by
    rw [get2byte_congr (d := setByte d (hdr + 7) _)
        (put2byte_other _ _ _ _ (by omega) (by omega)) (put2byte_other _ _ _ _ (by omega) (by omega)),
      get2byte_congr (d := d) (setByte_other _ _ _ _ (by omega)) (setByte_other _ _ _ _ (by omega))]
  rw [e]
  apply Nat.mod_eq_of_lt
  omega

theorem merge_arith (fb c b sb sc t : Nat) (h1 : b + sb ≤ c) (h2 : c - (b + sb) ≤ fb) :
    fb - (c - (b + sb)) + (c + sc - b + t) = fb + (sb + (sc + t)) := by
  omega

/-- The coalescing loop of `freeSpace` on an ascending, non-overlapping chain: it terminates,
and when it succeeds the chain is still ascending and the fragmented-byte count plus the
total freeblock size is unchanged. -/
theorem freeSpaceCoalesce_spec (hdr usable : Nat) (hu : usable ≤ 65536) :
    ∀ (n : Nat) (L : List Nat) (d : Bytes) (addr lo : Nat), L.length ≤ n →
      IsChain d (get2byte d addr) L → chainSep 0 d usable lo L →
      addr + 2 ≤ lo → hdr + 8 ≤ lo → (addr + 2 ≤ hdr + 7 ∨ hdr + 8 ≤ addr) →
      ∃ res : Nat × Bytes,
        (∀ fuel, L.length < fuel → freeSpaceCoalesce hdr fuel d addr = some res) ∧
        (res.1 = SQLITE_OK →
          ∃ L', IsChain res.2 (get2byte res.2 addr) L' ∧ chainSep 0 res.2 usable lo L' ∧
            getByte res.2 (hdr + 7) + freeblockTotal res.2 L' =
              getByte d (hdr + 7) + freeblockTotal d L ∧
            (L ≠ [] → L' ≠ []) ∧
            (∀ j, j < lo → j ≠ hdr + 7 → res.2 j = d j)) := by
  intro n
  induction n with
  | zero =>
    intro L d addr lo hl hc hs _ _ _
    have hL : L = [] := by
      cases L with
      | nil => rfl
      | cons _ _ => simp at hl
    subst hL
    simp only [IsChain] at hc
    refine ⟨(SQLITE_OK, d), ?_, ?_⟩
    · intro fuel hf
      obtain ⟨f, rfl⟩ : ∃ f, fuel = f + 1 := ⟨fuel - 1, by simp at hf; omega⟩
      simp [freeSpaceCoalesce, hc]
    · intro _
      exact ⟨[], by simpa [IsChain] using hc, trivial, rfl, fun h => h, fun _ _ _ => rfl⟩
  | succ n ih =>
    intro L d addr lo hl hc hs haddr hlo hfrag
    cases L with
    | nil =>
      simp only [IsChain] at hc
      refine ⟨(SQLITE_OK, d), ?_, ?_⟩
      · intro fuel hf
        obtain ⟨f, rfl⟩ : ∃ f, fuel = f + 1 := ⟨fuel - 1, by simp at hf; omega⟩
        simp [freeSpaceCoalesce, hc]
      · intro _
        exact ⟨[], by simpa [IsChain] using hc, trivial, rfl, fun h => h, fun _ _ _ => rfl⟩
    | cons b rest =>
      obtain ⟨hb, hbne, hrest⟩ := hc
      obtain ⟨s1, s2, s3, s4⟩ := hs
      have hbpos : get2byte d addr > 0 := by omega
      by_cases hm : b + get2byte d (b + 2) + 3 ≥ get2byte d b ∧ get2byte d b > 0
      · -- merge with the successor
        cases rest with
        | nil =>
          simp only [IsChain] at hrest
          omega
        | cons c rest' =>
          obtain ⟨hcq, hcne, hrest'⟩ := hrest
          obtain ⟨t1, t2, t3, t4⟩ := s4
          by_cases hcor : get2byte d b < b + get2byte d (b + 2) ∨
              get2byte d b - (b + get2byte d (b + 2)) > getByte d (hdr + 7)
          · refine ⟨(SQLITE_CORRUPT, d), ?_, ?_⟩
            · intro fuel hf
              obtain ⟨f, rfl⟩ : ∃ f, fuel = f + 1 := ⟨fuel - 1, by simp at hf; omega⟩
              simp only [freeSpaceCoalesce, hb]
              rw [if_pos (by omega), if_pos hm, if_pos hcor]
            · intro h; simp [SQLITE_OK, SQLITE_CORRUPT] at h
          · have hfr : ∀ j, b + 4 ≤ j → mergeFreeblocks d hdr b c j = d j := by
              intro j hj
              exact mergeFreeblocks_other _ _ _ _ _ (by omega) (by omega)
            obtain ⟨c1, c2, c3⟩ := chain_frame (e := mergeFreeblocks d hdr b c) rest' _ hrest'
              (chainSep_mono (le_refl 0) rest' _ (b + 4) (by omega) t4) hfr
            have enext : get2byte (mergeFreeblocks d hdr b c) b = get2byte d c :=
              mergeFreeblocks_next d hdr b c (by omega) (by omega)
            have esize : get2byte (mergeFreeblocks d hdr b c) (b + 2) = c + get2byte d (c + 2) - b :=
              mergeFreeblocks_size d hdr b c (by omega) (by omega) (by omega)
            have efrag := mergeFreeblocks_frag d hdr b c (by omega)
            have eaddr : get2byte (mergeFreeblocks d hdr b c) addr = b := by
              rw [get2byte_congr (mergeFreeblocks_other _ _ _ _ _ (by omega) (by omega))
                (mergeFreeblocks_other _ _ _ _ _ (by omega) (by omega))]
              exact hb
            have hc3 : IsChain (mergeFreeblocks d hdr b c) (get2byte (mergeFreeblocks d hdr b c) addr)
                (b :: rest') := by
              rw [eaddr]
              refine ⟨rfl, hbne, ?_⟩
              rw [enext]; exact c1
            have hs3 : chainSep 0 (mergeFreeblocks d hdr b c) usable lo (b :: rest') := by
              refine ⟨s1, by rw [esize]; omega, by rw [esize]; omega, ?_⟩
              rw [esize]
              have : b + (c + get2byte d (c + 2) - b) + 0 = c + get2byte d (c + 2) + 0 := by omega
              rw [this]
              obtain ⟨q1, q2, q3⟩ := chain_frame (e := mergeFreeblocks d hdr b c) rest' _ hrest'
                t4 (fun j hj => hfr j (by omega))
              exact q2
            obtain ⟨res, r1, r2⟩ := ih (b :: rest') (mergeFreeblocks d hdr b c) addr lo
              (by simp at hl ⊢; omega) hc3 hs3 haddr hlo hfrag
            refine ⟨res, ?_, ?_⟩
            · intro fuel hf
              obtain ⟨f, rfl⟩ : ∃ f, fuel = f + 1 := ⟨fuel - 1, by simp at hf; omega⟩
              simp only [freeSpaceCoalesce, hb]
              rw [if_pos (by omega), if_pos hm, if_neg hcor]
              have := r1 f (by simp at hf ⊢; omega)
              rw [← hcq] at this
              exact this
            · intro hok
              obtain ⟨L', p1, p2, p3, p4, p5⟩ := r2 hok
              refine ⟨L', p1, p2, ?_, fun _ => p4 (by simp), ?_⟩
              · rw [p3, freeblockTotal_cons, freeblockTotal_cons, freeblockTotal_cons, esize, efrag,
                  c3]
                have hq : get2byte d b = c := hcq
                rw [hq] at hcor
                exact merge_arith _ _ _ _ _ _ t1 (by omega)
              · intro j hj hne
                rw [p5 j hj hne]
                exact mergeFreeblocks_other _ _ _ _ _ hne (by omega)
      · -- advance to the next block
        obtain ⟨res, r1, r2⟩ := ih rest d b (b + get2byte d (b + 2)) (by simp at hl; omega) hrest
          (by simpa using s4) (by omega) (by omega) (by omega)
        refine ⟨res, ?_, ?_⟩
        · intro fuel hf
          obtain ⟨f, rfl⟩ : ∃ f, fuel = f + 1 := ⟨fuel - 1, by simp at hf; omega⟩
          simp only [freeSpaceCoalesce, hb]
          rw [if_pos (by omega), if_neg hm]
          exact r1 f (by simp at hf; omega)
        · intro hok
          obtain ⟨L', p1, p2, p3, p4, p5⟩ := r2 hok
          have ea : get2byte res.2 addr = b := by
            rw [get2byte_congr (p5 _ (by omega) (by omega)) (p5 _ (by omega) (by omega))]; exact hb
          have es : get2byte res.2 (b + 2) = get2byte d (b + 2) :=
            get2byte_congr (p5 _ (by omega) (by omega)) (p5 _ (by omega) (by omega))
          refine ⟨b :: L', ?_, ?_, ?_, fun _ => by simp, ?_⟩
          · rw [ea]; exact ⟨rfl, hbne, p1⟩
          · refine ⟨s1, by rw [es]; exact s2, by rw [es]; exact s3, ?_⟩
            rw [es]; simpa using p2
          · rw [freeblockTotal_cons, freeblockTotal_cons, es]; omega
          · intro j hj hne
            exact p5 j (by omega) hne

end Btree

namespace Btree

theorem chain_frame_blocks {d e : Bytes} {usable lo : Nat} {g : Nat} (L : List Nat) (pc : Nat)
    (hc : IsChain d pc L) (hs : chainSep g d usable lo L)
    (hf : ∀ b ∈ L, ∀ j, b ≤ j → j < b + 4 → e j = d j) :
    IsChain e pc L ∧ chainSep g e usable lo L ∧ freeblockTotal e L = freeblockTotal d L := by
  refine ⟨IsChain_congr L pc ?_ hc, chainSep_congr g usable L lo ?_ hs, freeblockTotal_congr L ?_⟩
  · intro b hb
    exact ⟨hf b hb _ (by omega) (by omega), hf b hb _ (by omega) (by omega)⟩
  · intro b hb
    exact ⟨hf b hb _ (by omega) (by omega), hf b hb _ (by omega) (by omega)⟩
  · intro b hb
    exact ⟨hf b hb _ (by omega) (by omega), hf b hb _ (by omega) (by omega)⟩

theorem get2byte_eq_of_bytes (d : Bytes) (i j : Nat)
    (h : getByte d i = getByte d j ∧ getByte d (i + 1) = getByte d (j + 1)) :
    get2byte d i = get2byte d j := by
  unfold get2byte; rw [h.1, h.2]

theorem get2byte_memcpy2 (d : Bytes) (dst src : Nat) (h : src + 2 ≤ dst ∨ dst + 2 ≤ src) :
    get2byte (memcpy d dst d src 2) dst = get2byte d src := by
  unfold get2byte getByte
  rw [memcpy_inside _ _ _ _ _ _ (by omega) (by omega), memcpy_inside _ _ _ _ _ _ (by omega) (by omega)]
  have e1 : src + (dst - dst) = src := by omega
  have e2 : src + (dst + 1 - dst) = src + 1 := by omega
  rw [e1, e2]

/-- Header facts of a well-formed page. -/
theorem WellFormedPage.header {p : MemPage} (h : WellFormedPage p) :
    p.hdrOffset + 8 ≤ p.cellOffset ∧ p.hdrOffset ≤ 100 ∧
    p.cellOffset + 2 * p.nCell ≤ get2byteNotZero p.aData (p.hdrOffset + 5) ∧
    get2byteNotZero p.aData (p.hdrOffset + 5) ≤ p.pBt.usableSize ∧
    480 ≤ p.pBt.usableSize ∧ p.pBt.usableSize ≤ 65536 := by
  obtain ⟨⟨hu1, hu2⟩, hh, hl, hco, _, hgap, htop, _⟩ := h
  have : p.hdrOffset ≤ 100 := by rw [hh]; split <;> omega
  exact ⟨by omega, this, hgap, htop, hu1, hu2⟩

/-- `freeSpace` on a well-formed page, releasing a range of the content area that overlaps no
freeblock: it terminates, and on success the free-byte sum has grown by `size`, the chain
is still ascending inside the content area, and the bytes of the cell-pointer array and of
the cell count are untouched. -/
theorem freeSpace_spec (p : MemPage) (start size : Nat) (hwf : WellFormedPage p)
    (hstart : get2byteNotZero p.aData (p.hdrOffset + 5) ≤ start) (hsz : 4 ≤ size)
    (hend : start + size ≤ p.pBt.usableSize)
    (hdis : ∀ b ∈ pageFreeblocks p.aData p.hdrOffset,
      start + size ≤ b ∨ b + get2byte p.aData (b + 2) ≤ start) :
    ∃ r : Nat × MemPage,
      (∀ fuel, p.pBt.usableSize ≤ fuel → freeSpace fuel p start size = some r) ∧
      (r.1 = SQLITE_OK →
        r.2.nFree = u16 (p.nFree + u16 size) ∧ r.2.nCell = p.nCell ∧
        r.2.cellOffset = p.cellOffset ∧ r.2.hdrOffset = p.hdrOffset ∧ r.2.pBt = p.pBt ∧
        r.2.nOverflow = p.nOverflow ∧
        pageFreeSum r.2.aData p.hdrOffset = pageFreeSum p.aData p.hdrOffset + size ∧
        (∃ L', IsChain r.2.aData (get2byte r.2.aData (p.hdrOffset + 1)) L' ∧
          chainSep 0 r.2.aData p.pBt.usableSize (get2byteNotZero p.aData (p.hdrOffset + 5)) L') ∧
        (∀ j, p.hdrOffset + 3 ≤ j → j < p.hdrOffset + 5 → r.2.aData j = p.aData j) ∧
        (∀ j, p.hdrOffset + 8 ≤ j → j < get2byteNotZero p.aData (p.hdrOffset + 5) →
          r.2.aData j = p.aData j)) := by
  obtain ⟨hh1, hh2, hh3, hh4, hu1, hu2⟩ := hwf.header
  obtain ⟨hc, hs⟩ := hwf.chain
  have hmem := chainSep_mem _ _ hs
  -- the page image after the optional secure-delete wipe
  obtain ⟨d0, hd0def, hd0⟩ : ∃ d0 : Bytes,
      d0 = (if p.pBt.secureDelete then memset0 p.aData start size else p.aData) ∧
      ∀ j, (j < start ∨ start + size ≤ j) → d0 j = p.aData j := by
    refine ⟨_, rfl, ?_⟩
    intro j hj
    split
    · exact memset0_other _ _ _ _ hj
    · rfl
  have hblk : ∀ b ∈ pageFreeblocks p.aData p.hdrOffset, ∀ j, b ≤ j → j < b + 4 → d0 j = p.aData j := by
    intro b hb j h1 h2
    have := hmem b hb
    have := hdis b hb
    exact hd0 j (by omega)
  obtain ⟨c0, s0, t0⟩ := chain_frame_blocks _ _ hc hs hblk
  have e1 : get2byte d0 (p.hdrOffset + 1) = get2byte p.aData (p.hdrOffset + 1) :=
    get2byte_congr (hd0 _ (by omega)) (hd0 _ (by omega))
  have etop : get2byteNotZero d0 (p.hdrOffset + 5) = get2byteNotZero p.aData (p.hdrOffset + 5) :=
    get2byteNotZero_congr (hd0 _ (by omega)) (hd0 _ (by omega))
  have efrag : getByte d0 (p.hdrOffset + 7) = getByte p.aData (p.hdrOffset + 7) :=
    getByte_congr (hd0 _ (by omega))
  rw [← e1] at c0
  have hdis0 : ∀ b ∈ pageFreeblocks p.aData p.hdrOffset,
      start + size ≤ b ∨ b + get2byte d0 (b + 2) ≤ start := by
    intro b hb
    have e : get2byte d0 (b + 2) = get2byte p.aData (b + 2) :=
      get2byte_congr (hblk b hb _ (by omega) (by omega)) (hblk b hb _ (by omega) (by omega))
    rw [e]; exact hdis b hb
  -- the search and the linking stores
  obtain ⟨addr', pbegin, L1, f1, f2, f3, f4, f5, f6, f7⟩ :=
    freeSpaceFind_insert d0 p.pBt.usableSize start size hsz hend hu2
      (pageFreeblocks p.aData p.hdrOffset) (p.hdrOffset + 1)
      (get2byteNotZero p.aData (p.hdrOffset + 5)) (get2byteNotZero p.aData (p.hdrOffset + 5))
      c0 s0 (by omega) (le_refl _) hstart (by omega) hdis0
  have hlenL := chainSep_length _ _ hs
  have hlen1 := chainSep_length _ _ f4
  -- the coalescing loop
  obtain ⟨res, g1, g2⟩ := freeSpaceCoalesce_spec p.hdrOffset p.pBt.usableSize hu2 L1.length L1
    (linkFreeblock d0 addr' start pbegin size) (p.hdrOffset + 1)
    (get2byteNotZero p.aData (p.hdrOffset + 5)) (le_refl _) f3 f4 (by omega) (by omega)
    (by left; omega)
  have hunf : ∀ fuel, p.pBt.usableSize ≤ fuel → freeSpace fuel p start size =
      (if res.1 ≠ 0 then
        some (res.1, { p with aData := res.2, nFree := u16 (p.nFree + u16 size) })
      else if getByte res.2 (p.hdrOffset + 1) = getByte res.2 (p.hdrOffset + 5) ∧
          getByte res.2 (p.hdrOffset + 2) = getByte res.2 (p.hdrOffset + 6) then
        some (SQLITE_OK, { p with
          aData := put2byte (memcpy res.2 (p.hdrOffset + 1) res.2 (get2byte res.2 (p.hdrOffset + 1)) 2)
            (p.hdrOffset + 5)
            (get2byte (memcpy res.2 (p.hdrOffset + 1) res.2 (get2byte res.2 (p.hdrOffset + 1)) 2)
                (p.hdrOffset + 5) +
              get2byte (memcpy res.2 (p.hdrOffset + 1) res.2 (get2byte res.2 (p.hdrOffset + 1)) 2)
                (get2byte res.2 (p.hdrOffset + 1) + 2))
          nFree := u16 (p.nFree + u16 size) })
      else some (SQLITE_OK, { p with aData := res.2, nFree := u16 (p.nFree + u16 size) })) := by
    intro fuel hf
    unfold freeSpace
    simp only [← hd0def]
    rw [f1 fuel (by omega)]
    simp only
    rw [if_neg (by omega)]
    have := g1 fuel (by omega)
    unfold linkFreeblock at this
    rw [this]
  by_cases hrc : res.1 ≠ 0
  · refine ⟨(res.1, { p with aData := res.2, nFree := u16 (p.nFree + u16 size) }), ?_, ?_⟩
    · intro fuel hf
      rw [hunf fuel hf, if_pos hrc]
    · intro hok
      exact absurd hok hrc
  · have hrc0 : res.1 = SQLITE_OK := by simpa [SQLITE_OK] using hrc
    obtain ⟨L', p1, p2, p3, p4, p5⟩ := g2 hrc0
    have hL' : L' ≠ [] := p4 f6
    -- header bytes after linking and coalescing
    have hlink : ∀ j, p.hdrOffset + 3 ≤ j → j < get2byteNotZero p.aData (p.hdrOffset + 5) →
        linkFreeblock d0 addr' start pbegin size j = p.aData j := by
      intro j h1 h2
      rw [f7 j (by right; omega)]
      exact hd0 j (by omega)
    have hres : ∀ j, p.hdrOffset + 3 ≤ j → j < get2byteNotZero p.aData (p.hdrOffset + 5) →
        j ≠ p.hdrOffset + 7 → res.2 j = p.aData j := by
      intro j h1 h2 h3
      rw [p5 j h2 h3]
      exact hlink j h1 h2
    have htopC : get2byteNotZero res.2 (p.hdrOffset + 5) = get2byteNotZero p.aData (p.hdrOffset + 5) :=
      get2byteNotZero_congr (hres _ (by omega) (by omega) (by omega))
        (hres _ (by omega) (by omega) (by omega))
    have hfrag1 : getByte (linkFreeblock d0 addr' start pbegin size) (p.hdrOffset + 7) =
        getByte p.aData (p.hdrOffset + 7) := getByte_congr (hlink _ (by omega) (by omega))
    have hsumC : getByte res.2 (p.hdrOffset + 7) + get2byteNotZero res.2 (p.hdrOffset + 5) +
        freeblockTotal res.2 L' = pageFreeSum p.aData p.hdrOffset + size := by
      unfold pageFreeSum
      have h3 := p3
      rw [f5, t0, hfrag1] at h3
      rw [htopC]
      omega
    by_cases hcnd : getByte res.2 (p.hdrOffset + 1) = getByte res.2 (p.hdrOffset + 5) ∧
        getByte res.2 (p.hdrOffset + 2) = getByte res.2 (p.hdrOffset + 6)
    · -- the first freeblock starts the content area and is removed from the chain
      cases L' with
      | nil => exact absurd rfl hL'
      | cons f tail =>
        obtain ⟨q1, q2, q3⟩ := p1
        obtain ⟨r1, r2, r3, r4⟩ := p2
        have hf16 := get2byte_lt res.2 (p.hdrOffset + 1)
        have hraw : get2byte res.2 (p.hdrOffset + 5) = f := by
          rw [← q1]
          exact (get2byte_eq_of_bytes res.2 (p.hdrOffset + 1) (p.hdrOffset + 5) hcnd).symm
        have htf : get2byteNotZero p.aData (p.hdrOffset + 5) = f := by
          rw [← htopC, get2byteNotZero_eq _ _ (by omega)]; exact hraw
        refine ⟨(SQLITE_OK, { p with
          aData := put2byte (memcpy res.2 (p.hdrOffset + 1) res.2 (get2byte res.2 (p.hdrOffset + 1)) 2)
            (p.hdrOffset + 5)
            (get2byte (memcpy res.2 (p.hdrOffset + 1) res.2 (get2byte res.2 (p.hdrOffset + 1)) 2)
                (p.hdrOffset + 5) +
              get2byte (memcpy res.2 (p.hdrOffset + 1) res.2 (get2byte res.2 (p.hdrOffset + 1)) 2)
                (get2byte res.2 (p.hdrOffset + 1) + 2))
          nFree := u16 (p.nFree + u16 size) }), ?_, ?_⟩
        · intro fuel hf
          rw [hunf fuel hf, if_neg hrc, if_pos hcnd]
        · intro _
          rw [q1]
          have em5 : get2byte (memcpy res.2 (p.hdrOffset + 1) res.2 f 2) (p.hdrOffset + 5) = f := by
            rw [get2byte_congr (d := res.2) (memcpy_other _ _ _ _ _ _ (by omega))
              (memcpy_other _ _ _ _ _ _ (by omega))]
            exact hraw
          have emf : get2byte (memcpy res.2 (p.hdrOffset + 1) res.2 f 2) (f + 2) =
              get2byte res.2 (f + 2) :=
            get2byte_congr (memcpy_other _ _ _ _ _ _ (by omega)) (memcpy_other _ _ _ _ _ _ (by omega))
          rw [em5, emf]
          have hfin : ∀ j, (j = p.hdrOffset + 7 ∨ get2byteNotZero p.aData (p.hdrOffset + 5) ≤ j ∨
              (p.hdrOffset + 3 ≤ j ∧ j < p.hdrOffset + 5) ∨
              (p.hdrOffset + 8 ≤ j ∧ j < get2byteNotZero p.aData (p.hdrOffset + 5))) →
              put2byte (memcpy res.2 (p.hdrOffset + 1) res.2 f 2) (p.hdrOffset + 5)
                (f + get2byte res.2 (f + 2)) j = res.2 j := by
            intro j hj
            rw [put2byte_other _ _ _ _ (by omega) (by omega), memcpy_other _ _ _ _ _ _ (by omega)]
          obtain ⟨w1, w2, w3⟩ := chain_frame (e := put2byte (memcpy res.2 (p.hdrOffset + 1) res.2 f 2)
              (p.hdrOffset + 5) (f + get2byte res.2 (f + 2))) tail _ q3
            (chainSep_mono (le_refl 0) tail _ (get2byteNotZero p.aData (p.hdrOffset + 5)) (by omega) r4)
            (fun j hj => hfin j (by omega))
          have elink : get2byte (put2byte (memcpy res.2 (p.hdrOffset + 1) res.2 f 2) (p.hdrOffset + 5)
              (f + get2byte res.2 (f + 2))) (p.hdrOffset + 1) = get2byte res.2 f := by
            rw [get2byte_congr (d := memcpy res.2 (p.hdrOffset + 1) res.2 f 2)
              (put2byte_other _ _ _ _ (by omega) (by omega))
              (put2byte_other _ _ _ _ (by omega) (by omega))]
            exact get2byte_memcpy2 res.2 (p.hdrOffset + 1) f (by omega)
          have etop' : get2byteNotZero (put2byte (memcpy res.2 (p.hdrOffset + 1) res.2 f 2)
              (p.hdrOffset + 5) (f + get2byte res.2 (f + 2))) (p.hdrOffset + 5) =
              f + get2byte res.2 (f + 2) :=
            get2byteNotZero_put2byte _ _ _ (by omega) (by omega)
          have efrag' : getByte (put2byte (memcpy res.2 (p.hdrOffset + 1) res.2 f 2)
              (p.hdrOffset + 5) (f + get2byte res.2 (f + 2))) (p.hdrOffset + 7) =
              getByte res.2 (p.hdrOffset + 7) := getByte_congr (hfin _ (by omega))
          rw [← elink] at w1
          refine ⟨rfl, rfl, rfl, rfl, rfl, rfl, ?_, ⟨tail, w1, w2⟩, ?_, ?_⟩
          · rw [pageFreeSum_eq _ _ _ _ tail hu2 w1 w2, etop', efrag', w3, ← hsumC, htopC, htf,
              freeblockTotal_cons]
            omega
          · intro j h1 h2
            show put2byte _ _ _ j = _
            rw [hfin j (by omega)]
            exact hres j (by omega) (by omega) (by omega)
          · intro j h1 h2
            show put2byte _ _ _ j = _
            rw [hfin j (by omega)]
            exact hres j (by omega) (by omega) (by omega)
    · refine ⟨(SQLITE_OK, { p with aData := res.2, nFree := u16 (p.nFree + u16 size) }), ?_, ?_⟩
      · intro fuel hf
        rw [hunf fuel hf, if_neg hrc, if_neg hcnd]
      · intro _
        refine ⟨rfl, rfl, rfl, rfl, rfl, rfl, ?_, ⟨L', p1, p2⟩, ?_, ?_⟩
        · show pageFreeSum res.2 _ = _
          rw [pageFreeSum_eq _ _ _ _ L' hu2 p1 p2]
          exact hsumC
        · intro j h1 h2
          exact hres j (by omega) (by omega) (by omega)
        · intro j h1 h2
          exact hres j (by omega) (by omega) (by omega)

end Btree

namespace Btree

/-! ## `dropCell` -/

theorem shiftPtrsDown_other (k : Nat) :
    ∀ (d : Bytes) (ptr j : Nat), (j < ptr ∨ ptr + 2 * k ≤ j) → shiftPtrsDown d k ptr j = d j := by
  induction k with
  | zero => intro d ptr j _; rfl
  | succ k ih =>
    intro d ptr j hj
    simp only [shiftPtrsDown]
    rw [ih _ _ _ (by omega), memcpy_other _ _ _ _ _ _ (by omega)]

theorem shiftPtrsUp_other (k : Nat) :
    ∀ (d : Bytes) (ptr j : Nat), 2 * k ≤ ptr → (j + 2 * k < ptr ∨ ptr + 2 ≤ j) →
      shiftPtrsUp d k ptr j = d j := by
  induction k with
  | zero => intro d ptr j _ _; rfl
  | succ k ih =>
    intro d ptr j hp hj
    simp only [shiftPtrsUp]
    rw [ih _ _ _ (by omega) (by omega), memcpy_other _ _ _ _ _ _ (by omega)]

theorem le_sum_range_map (f : Nat → Nat) :
    ∀ (n i : Nat), i < n → f i ≤ ((List.range n).map f).sum := by
  intro n
  induction n with
  | zero => intro i hi; omega
  | succ n ih =>
    intro i hi
    rw [List.range_succ, List.map_append, List.sum_append]
    simp only [List.map_cons, List.map_nil, List.sum_cons, List.sum_nil]
    by_cases h : i < n
    · have := ih i h; omega
    · have : i = n := by omega
      subst this; omega

/-- `dropCell` on a well-formed page without overflow cells whose `nFree` is exact: it
terminates, and when it succeeds `nFree` is again exact and has grown by the size of the cell
plus its 2-byte pointer. -/
theorem dropCell_spec (p : MemPage) (idx : Nat) (hwf : WellFormedPage p)
    (hfree : freeBytesTracked p) (hidx : idx < p.nCell) :
    ∃ r : Nat × MemPage,
      (∀ fuel, p.pBt.usableSize ≤ fuel → dropCell fuel p idx (cellSz p idx) 0 = some r) ∧
      (r.1 = SQLITE_OK → freeBytesTracked r.2 ∧ r.2.nFree = p.nFree + (cellSz p idx + 2)) := by
  obtain ⟨hh1, hh2, hh3, hh4, hu1, hu2⟩ := hwf.header
  have hwf' := hwf
  obtain ⟨_, _, _, _, hnc, _, _, _, hcells, hacc⟩ := hwf'
  obtain ⟨c1, c2, c3, c4, _⟩ := hcells idx hidx
  have hsum := le_sum_range_map (cellSz p) p.nCell idx hidx
  unfold freeBytesTracked pageFreeSum at hfree
  by_cases hchk : cellPtr p idx < get2byte p.aData (p.hdrOffset + 5) ∨
      cellPtr p idx + cellSz p idx > p.pBt.usableSize
  · refine ⟨(SQLITE_CORRUPT, p), ?_, ?_⟩
    · intro fuel _
      unfold dropCell
      simp only [ne_eq, not_true_eq_false, if_false]
      unfold cellPtr at hchk
      rw [if_pos hchk]
    · intro h; simp [SQLITE_OK, SQLITE_CORRUPT] at h
  · obtain ⟨r1, f1, f2⟩ := freeSpace_spec p (cellPtr p idx) (cellSz p idx) hwf c1 c2 c3 c4
    by_cases hrc : r1.1 ≠ 0
    · refine ⟨r1, ?_, ?_⟩
      · intro fuel hf
        unfold dropCell
        simp only [ne_eq, not_true_eq_false, if_false]
        unfold cellPtr at hchk
        rw [if_neg hchk]
        have := f1 fuel hf
        unfold cellPtr at this
        rw [this]
        simp only
        rw [if_pos hrc]
      · intro hok; exact absurd hok hrc
    · have hrc0 : r1.1 = SQLITE_OK := by simpa [SQLITE_OK] using hrc
      obtain ⟨g1, g2, g3, g4, g5, g6, g7, ⟨L', g8, g9⟩, g10, g11⟩ := f2 hrc0
      refine ⟨(SQLITE_OK, { r1.2 with
        aData := put2byte (shiftPtrsDown r1.2.aData (r1.2.nCell - 1 - idx) (p.cellOffset + 2 * idx))
          (p.hdrOffset + 3) (u16sub r1.2.nCell 1)
        nCell := u16sub r1.2.nCell 1
        nFree := u16 (r1.2.nFree + 2) }), ?_, ?_⟩
      · intro fuel hf
        unfold dropCell
        simp only [ne_eq, not_true_eq_false, if_false]
        unfold cellPtr at hchk
        rw [if_neg hchk]
        have := f1 fuel hf
        unfold cellPtr at this
        rw [this]
        simp only
        rw [if_neg hrc]
      · intro _
        have hn16 : p.nCell < 65536 := by omega
        have e1 : u16sub r1.2.nCell 1 = p.nCell - 1 := by
          rw [g2]; exact u16sub_eq (by omega) hn16
        have e2 : u16 (cellSz p idx) = cellSz p idx := u16_eq (by omega)
        have e3 : u16 (p.nFree + cellSz p idx) = p.nFree + cellSz p idx := u16_eq (by omega)
        have e4 : u16 (p.nFree + cellSz p idx + 2) = p.nFree + cellSz p idx + 2 := u16_eq (by omega)
        have hfr : ∀ j, (j = p.hdrOffset + 1 ∨ j = p.hdrOffset + 2 ∨ j = p.hdrOffset + 5 ∨
            j = p.hdrOffset + 6 ∨ j = p.hdrOffset + 7 ∨
            get2byteNotZero p.aData (p.hdrOffset + 5) ≤ j) →
            put2byte (shiftPtrsDown r1.2.aData (r1.2.nCell - 1 - idx) (p.cellOffset + 2 * idx))
              (p.hdrOffset + 3) (u16sub r1.2.nCell 1) j = r1.2.aData j := by
          intro j hj
          rw [put2byte_other _ _ _ _ (by omega) (by omega),
            shiftPtrsDown_other _ _ _ _ (by rw [g2]; omega)]
        have hsumeq := pageFreeSum_frame L' hu2 g8 g9 hfr
        constructor
        · unfold freeBytesTracked
          show u16 (r1.2.nFree + 2) + (r1.2.cellOffset + 2 * u16sub r1.2.nCell 1) =
            pageFreeSum (put2byte _ _ _) r1.2.hdrOffset
          rw [g4, hsumeq, g7, g1, e2, e3, e4, g3, e1]
          unfold pageFreeSum
          omega
        · show u16 (r1.2.nFree + 2) = _
          rw [g1, e2, e3, e4]
          omega

end Btree

namespace Btree

/-! ## `allocateSpace` -/

/-- The freeblock search of `allocateSpace` on a well-formed chain: it terminates, and a block it
carves the request out of leaves an ascending chain whose total, together with the
fragmented bytes, has shrunk by exactly `nByte`. -/
theorem allocateSpaceSearch_spec (d : Bytes) (hdr nFrag usable nByte : Nat) (hu : usable ≤ 65536)
    (hnf : nFrag = getByte d (hdr + 7)) (hnf60 : nFrag < 60) :
    ∀ (L : List Nat) (addr lo : Nat),
      IsChain d (get2byte d addr) L → chainSep 4 d usable lo L →
      addr + 4 ≤ lo → hdr + 8 ≤ lo → (addr + 2 ≤ hdr + 7 ∨ hdr + 8 ≤ addr) →
      ∃ res : AllocSearch,
        (∀ fuel, L.length < fuel →
          allocateSpaceSearch d hdr nFrag usable nByte fuel addr = some res) ∧
        (∀ d' idx, res = AllocSearch.found d' idx →
          ∃ L', IsChain d' (get2byte d' addr) L' ∧ chainSep 0 d' usable lo L' ∧
            getByte d' (hdr + 7) + freeblockTotal d' L' + nByte =
              getByte d (hdr + 7) + freeblockTotal d L ∧
            lo ≤ idx ∧ idx + nByte ≤ usable ∧
            (∀ b ∈ L', b + 4 ≤ idx ∨ idx + nByte ≤ b) ∧
            (∀ j, j < lo → j ≠ hdr + 7 → (j < addr ∨ addr + 2 ≤ j) → d' j = d j)) := by
  intro L
  induction L with
  | nil =>
    intro addr lo hc _ _ _ _
    simp only [IsChain] at hc
    refine ⟨AllocSearch.notFound, ?_, ?_⟩
    · intro fuel hf
      obtain ⟨f, rfl⟩ : ∃ f, fuel = f + 1 := ⟨fuel - 1, by simp at hf; omega⟩
      simp [allocateSpaceSearch, hc]
    · intro d' idx h; cases h
  | cons b rest ih =>
    intro addr lo hc hs haddr hlo hfrag
    obtain ⟨hb, hbne, hrest⟩ := hc
    obtain ⟨s1, s2, s3, s4⟩ := hs
    have hmem := chainSep_mem rest _ s4
    by_cases hfit : get2byte d (b + 2) ≥ nByte
    · by_cases hx : get2byte d (b + 2) - nByte < 4
      · -- the whole block is used; the residue becomes fragmented bytes
        refine ⟨AllocSearch.found (setByte (memcpy d addr d b 2) (hdr + 7)
            (nFrag + (get2byte d (b + 2) - nByte))) (b + (get2byte d (b + 2) - nByte)), ?_, ?_⟩
        · intro fuel hf
          obtain ⟨f, rfl⟩ : ∃ f, fuel = f + 1 := ⟨fuel - 1, by simp at hf; omega⟩
          simp only [allocateSpaceSearch, hb]
          rw [if_pos (by omega), if_neg (by omega), if_pos hfit, if_pos hx]
        · intro d' idx h
          injection h with h1 h2
          subst h1; subst h2
          have hfr : ∀ j, j ≠ hdr + 7 → (j < addr ∨ addr + 2 ≤ j) →
              setByte (memcpy d addr d b 2) (hdr + 7) (nFrag + (get2byte d (b + 2) - nByte)) j = d j := by
            intro j h1 h2
            rw [setByte_other _ _ _ _ h1, memcpy_other _ _ _ _ _ _ (by omega)]
          obtain ⟨c1, c2, c3⟩ := chain_frame_blocks (e := setByte (memcpy d addr d b 2) (hdr + 7)
              (nFrag + (get2byte d (b + 2) - nByte))) rest _ hrest s4
            (fun c hc j h1 h2 => hfr j (by have := hmem c hc; omega) (by have := hmem c hc; omega))
          have elink : get2byte (setByte (memcpy d addr d b 2) (hdr + 7)
              (nFrag + (get2byte d (b + 2) - nByte))) addr = get2byte d b := by
            rw [get2byte_congr (d := memcpy d addr d b 2) (setByte_other _ _ _ _ (by omega))
              (setByte_other _ _ _ _ (by omega))]
            exact get2byte_memcpy2 d addr b (by omega)
          have efrag : getByte (setByte (memcpy d addr d b 2) (hdr + 7)
              (nFrag + (get2byte d (b + 2) - nByte))) (hdr + 7) =
              nFrag + (get2byte d (b + 2) - nByte) := by
            rw [getByte_setByte]; omega
          refine ⟨rest, by rw [elink]; exact c1,
            chainSep_mono (by omega) rest _ _ (by omega) c2, ?_, by omega, by omega, ?_, ?_⟩
          · rw [efrag, c3, freeblockTotal_cons, ← hnf]; omega
          · intro c hc
            have := hmem c hc
            omega
          · intro j h1 h2 h3
            exact hfr j h2 h3
      · -- the block is shortened from its end
        refine ⟨AllocSearch.found (put2byte d (b + 2) (get2byte d (b + 2) - nByte))
            (b + (get2byte d (b + 2) - nByte)), ?_, ?_⟩
        · intro fuel hf
          obtain ⟨f, rfl⟩ : ∃ f, fuel = f + 1 := ⟨fuel - 1, by simp at hf; omega⟩
          simp only [allocateSpaceSearch, hb]
          rw [if_pos (by omega), if_neg (by omega), if_pos hfit, if_neg hx, if_neg (by omega)]
        · intro d' idx h
          injection h with h1 h2
          subst h1; subst h2
          have hfr : ∀ j, (j < b + 2 ∨ b + 4 ≤ j) →
              put2byte d (b + 2) (get2byte d (b + 2) - nByte) j = d j := by
            intro j h1
            rw [put2byte_other _ _ _ _ (by omega) (by omega)]
          obtain ⟨c1, c2, c3⟩ := chain_frame_blocks (e := put2byte d (b + 2)
              (get2byte d (b + 2) - nByte)) rest _ hrest s4
            (fun c hc j h1 h2 => hfr j (by have := hmem c hc; omega))
          have esize : get2byte (put2byte d (b + 2) (get2byte d (b + 2) - nByte)) (b + 2) =
              get2byte d (b + 2) - nByte := by
            rw [get2byte_put2byte]
            have := get2byte_lt d (b + 2)
            omega
          have elink : get2byte (put2byte d (b + 2) (get2byte d (b + 2) - nByte)) addr = b := by
            rw [get2byte_congr (hfr _ (by omega)) (hfr _ (by omega))]; exact hb
          have enext : get2byte (put2byte d (b + 2) (get2byte d (b + 2) - nByte)) b = get2byte d b :=
            get2byte_congr (hfr _ (by omega)) (hfr _ (by omega))
          have efrag : getByte (put2byte d (b + 2) (get2byte d (b + 2) - nByte)) (hdr + 7) =
              getByte d (hdr + 7) := getByte_congr (hfr _ (by omega))
          refine ⟨b :: rest, ?_, ?_, ?_, by omega, by omega, ?_, ?_⟩
          · rw [elink]
            refine ⟨rfl, hbne, ?_⟩
            rw [enext]; exact c1
          · refine ⟨s1, by rw [esize]; omega, by rw [esize]; omega, ?_⟩
            rw [esize]
            exact chainSep_mono (by omega) rest _ _ (by omega) c2
          · rw [efrag, freeblockTotal_cons, freeblockTotal_cons, esize, c3]; omega
          · intro c hc
            rcases List.mem_cons.mp hc with rfl | hc
            · omega
            · have := hmem c hc
              omega
          · intro j h1 h2 h3
            exact hfr j (by omega)
    · -- the block is too small: continue with the next one
      obtain ⟨res, r1, r2⟩ := ih b (b + get2byte d (b + 2) + 4) hrest s4 (by omega) (by omega)
        (by omega)
      refine ⟨res, ?_, ?_⟩
      · intro fuel hf
        obtain ⟨f, rfl⟩ : ∃ f, fuel = f + 1 := ⟨fuel - 1, by simp at hf; omega⟩
        simp only [allocateSpaceSearch, hb]
        rw [if_pos (by omega), if_neg (by omega), if_neg hfit]
        exact r1 f (by simp at hf; omega)
      · intro d' idx h
        obtain ⟨L', p1, p2, p3, p4, p5, p6, p7⟩ := r2 d' idx h
        have ea : get2byte d' addr = b := by
          rw [get2byte_congr (p7 _ (by omega) (by omega) (by omega))
            (p7 _ (by omega) (by omega) (by omega))]
          exact hb
        have es : get2byte d' (b + 2) = get2byte d (b + 2) :=
          get2byte_congr (p7 _ (by omega) (by omega) (by omega))
            (p7 _ (by omega) (by omega) (by omega))
        refine ⟨b :: L', ?_, ?_, ?_, by omega, p5, ?_, ?_⟩
        · rw [ea]; exact ⟨rfl, hbne, p1⟩
        · refine ⟨s1, by rw [es]; exact s2, by rw [es]; exact s3, ?_⟩
          rw [es]
          exact chainSep_mono (le_refl 0) L' _ _ (by omega) p2
        · rw [freeblockTotal_cons, freeblockTotal_cons, es]; omega
        · intro c hc
          rcases List.mem_cons.mp hc with rfl | hc
          · omega
          · exact p6 c hc
        · intro j h1 h2 h3
          exact p7 j (by omega) h2 (by omega)


theorem allocateSpaceGap_room (pg : MemPage) (nByte gap : Nat) (temp : Bytes)
    (h : ¬ (gap + 2 + nByte > get2byteNotZero pg.aData (pg.hdrOffset + 5))) :
    allocateSpaceGap pg nByte gap temp = gapCarve pg pg.hdrOffset nByte := by
  unfold allocateSpaceGap gapCarve
  simp only [if_neg h]

theorem allocateSpaceGap_defrag (pg : MemPage) (nByte gap : Nat) (temp : Bytes)
    (h : gap + 2 + nByte > get2byteNotZero pg.aData (pg.hdrOffset + 5)) :
    allocateSpaceGap pg nByte gap temp =
      (if (defragmentPage pg temp).1 ≠ 0 then
        ((defragmentPage pg temp).1, (defragmentPage pg temp).2.1, 0)
       else gapCarve (defragmentPage pg temp).2.1 pg.hdrOffset nByte) := by
  unfold allocateSpaceGap gapCarve
  simp only [if_pos h]

/-- Carving the request off the gap of a page that `defragmentPage` has just packed. -/
theorem gapCarve_defragmented (p pg : MemPage) (nByte : Nat)
    (hu : p.pBt.usableSize ≤ 65536) (hgap : p.hdrOffset + 8 ≤ p.cellOffset)
    (hn : nByte + 2 ≤ p.nFree)
    (hsum : p.nFree + (p.cellOffset + 2 * p.nCell) = pageFreeSum p.aData p.hdrOffset)
    (h1 : pg.nFree = p.nFree) (h2 : pg.nCell = p.nCell) (h3 : pg.cellOffset = p.cellOffset)
    (h4 : pg.hdrOffset = p.hdrOffset) (h5 : pg.pBt = p.pBt) (h6 : pg.nOverflow = p.nOverflow)
    (h7 : getByte pg.aData (p.hdrOffset + 7) = 0)
    (h8 : get2byte pg.aData (p.hdrOffset + 1) = 0)
    (h9 : get2byteNotZero pg.aData (p.hdrOffset + 5) = p.nFree + (p.cellOffset + 2 * p.nCell))
    (h10 : p.nFree + (p.cellOffset + 2 * p.nCell) ≤ p.pBt.usableSize) :
    AllocPost p nByte (gapCarve pg p.hdrOffset nByte) := by
  unfold AllocPost gapCarve
  dsimp only
  rw [h9]
  have hfr : ∀ j, (j < p.hdrOffset + 5 ∨ p.hdrOffset + 7 ≤ j) →
      put2byte pg.aData (p.hdrOffset + 5) (p.nFree + (p.cellOffset + 2 * p.nCell) - nByte) j =
        pg.aData j := by
    intro j hj
    rw [put2byte_other _ _ _ _ (by omega) (by omega)]
  have e1 : get2byte (put2byte pg.aData (p.hdrOffset + 5)
      (p.nFree + (p.cellOffset + 2 * p.nCell) - nByte)) (p.hdrOffset + 1) = 0 := by
    rw [get2byte_congr (hfr _ (by omega)) (hfr _ (by omega))]; exact h8
  have e7 : getByte (put2byte pg.aData (p.hdrOffset + 5)
      (p.nFree + (p.cellOffset + 2 * p.nCell) - nByte)) (p.hdrOffset + 7) = 0 := by
    rw [getByte_congr (hfr _ (by omega))]; exact h7
  have e5 : get2byteNotZero (put2byte pg.aData (p.hdrOffset + 5)
      (p.nFree + (p.cellOffset + 2 * p.nCell) - nByte)) (p.hdrOffset + 5) =
      p.nFree + (p.cellOffset + 2 * p.nCell) - nByte :=
    get2byteNotZero_put2byte _ _ _ (by omega) (by omega)
  have hc : IsChain (put2byte pg.aData (p.hdrOffset + 5)
      (p.nFree + (p.cellOffset + 2 * p.nCell) - nByte))
      (get2byte (put2byte pg.aData (p.hdrOffset + 5)
        (p.nFree + (p.cellOffset + 2 * p.nCell) - nByte)) (p.hdrOffset + 1)) [] := by
    rw [e1]; rfl
  refine ⟨h1, h2, h3, h4, h5, h6, ⟨[], hc, trivial, by simp⟩, ?_, ?_, ?_⟩
  · rw [pageFreeSum_eq _ _ p.pBt.usableSize 0 [] hu hc trivial, e7, e5, ← hsum]
    simp [freeblockTotal]
    omega
  · omega
  · omega

/-- The gap path of `allocateSpace` on a well-formed page. -/
theorem allocateSpaceGap_spec (p : MemPage) (nByte : Nat) (temp : Bytes) (hwf : WellFormedPage p)
    (hfree : freeBytesTracked p) (hn : nByte + 2 ≤ p.nFree) :
    (allocateSpaceGap p nByte (p.cellOffset + 2 * p.nCell) temp).1 = SQLITE_OK →
    AllocPost p nByte (allocateSpaceGap p nByte (p.cellOffset + 2 * p.nCell) temp) := by
  obtain ⟨hh1, hh2, hh3, hh4, hu1, hu2⟩ := hwf.header
  obtain ⟨hc, hs⟩ := hwf.chain
  have hmem := chainSep_mem _ _ hs
  unfold freeBytesTracked at hfree
  intro hok
  by_cases hcond : p.cellOffset + 2 * p.nCell + 2 + nByte > get2byteNotZero p.aData (p.hdrOffset + 5)
  · -- defragment first
    rw [allocateSpaceGap_defrag _ _ _ _ hcond] at hok ⊢
    by_cases hne : (defragmentPage p temp).1 ≠ 0
    · rw [if_pos hne] at hok
      exact absurd hok hne
    · rw [if_neg hne]
      have hdok : (defragmentPage p temp).1 = SQLITE_OK := by simpa [SQLITE_OK] using hne
      obtain ⟨d1, d2, d3, d4, d5, d6, d7, d8, d9, d10⟩ :=
        defragmentPage_ok p temp hh1 (by omega) hu2 hdok
      exact gapCarve_defragmented p _ nByte hu2 hh1 hn hfree d1 d2 d3 d4 d5 d6 d7 d8 d9 d10
  · rw [allocateSpaceGap_room _ _ _ _ hcond]
    unfold AllocPost gapCarve
    dsimp only
    have hfr : ∀ j, (j < p.hdrOffset + 5 ∨ p.hdrOffset + 7 ≤ j) →
        put2byte p.aData (p.hdrOffset + 5) (get2byteNotZero p.aData (p.hdrOffset + 5) - nByte) j =
          p.aData j := by
      intro j hj
      rw [put2byte_other _ _ _ _ (by omega) (by omega)]
    obtain ⟨c1, c2, c3⟩ := chain_frame (e := put2byte p.aData (p.hdrOffset + 5)
        (get2byteNotZero p.aData (p.hdrOffset + 5) - nByte)) _ _ hc hs (fun j hj => hfr j (by omega))
    have e1 : get2byte (put2byte p.aData (p.hdrOffset + 5)
        (get2byteNotZero p.aData (p.hdrOffset + 5) - nByte)) (p.hdrOffset + 1) =
        get2byte p.aData (p.hdrOffset + 1) := get2byte_congr (hfr _ (by omega)) (hfr _ (by omega))
    have e7 : getByte (put2byte p.aData (p.hdrOffset + 5)
        (get2byteNotZero p.aData (p.hdrOffset + 5) - nByte)) (p.hdrOffset + 7) =
        getByte p.aData (p.hdrOffset + 7) := getByte_congr (hfr _ (by omega))
    have e5 : get2byteNotZero (put2byte p.aData (p.hdrOffset + 5)
        (get2byteNotZero p.aData (p.hdrOffset + 5) - nByte)) (p.hdrOffset + 5) =
        get2byteNotZero p.aData (p.hdrOffset + 5) - nByte :=
      get2byteNotZero_put2byte _ _ _ (by omega) (by omega)
    rw [← e1] at c1
    have c2' := chainSep_mono (k := 0) (by omega) _ _ (p.cellOffset + 2 * p.nCell + 2) (by omega) c2
    refine ⟨rfl, rfl, rfl, rfl, rfl, rfl, ⟨_, c1, c2', ?_⟩, ?_, ?_, ?_⟩
    · intro b hb
      have := hmem b hb
      omega
    · rw [pageFreeSum_eq _ _ _ _ _ hu2 c1 c2', e7, e5, c3]
      unfold pageFreeSum
      omega
    · omega
    · omega


/-- `allocateSpace` on a well-formed page with room for the request: it terminates, and every
successful path satisfies `AllocPost`. -/
theorem allocateSpace_spec (p : MemPage) (nByte : Nat) (temp : Bytes) (hwf : WellFormedPage p)
    (hfree : freeBytesTracked p) (hn : nByte + 2 ≤ p.nFree) :
    ∃ r : Nat × MemPage × Nat,
      (∀ fuel, p.pBt.usableSize ≤ fuel → allocateSpace fuel p nByte temp = some r) ∧
      (r.1 = SQLITE_OK → AllocPost p nByte r) := by
  obtain ⟨hh1, hh2, hh3, hh4, hu1, hu2⟩ := hwf.header
  obtain ⟨hc, hs⟩ := hwf.chain
  have hlen := chainSep_length _ _ hs
  have hgt : ¬ (p.cellOffset + 2 * p.nCell > get2byteNotZero p.aData (p.hdrOffset + 5)) := by omega
  by_cases hfrag : getByte p.aData (p.hdrOffset + 7) ≥ 60
  · -- heavily fragmented: defragment unconditionally
    by_cases hne : (defragmentPage p temp).1 ≠ 0
    · refine ⟨((defragmentPage p temp).1, (defragmentPage p temp).2.1, 0), ?_, ?_⟩
      · intro fuel _
        unfold allocateSpace
        simp only [if_neg hgt, if_pos hfrag, if_pos hne]
      · intro hok; exact absurd hok hne
    · have hdok : (defragmentPage p temp).1 = SQLITE_OK := by simpa [SQLITE_OK] using hne
      obtain ⟨d1, d2, d3, d4, d5, d6, d7, d8, d9, d10⟩ :=
        defragmentPage_ok p temp hh1 (by omega) hu2 hdok
      have hroom : ¬ (p.cellOffset + 2 * p.nCell + 2 + nByte >
          get2byteNotZero (defragmentPage p temp).2.1.aData ((defragmentPage p temp).2.1.hdrOffset + 5)) := by
        rw [d4, d9]; omega
      refine ⟨gapCarve (defragmentPage p temp).2.1 p.hdrOffset nByte, ?_, ?_⟩
      · intro fuel _
        unfold allocateSpace
        simp only [if_neg hgt, if_pos hfrag, if_neg hne]
        rw [allocateSpaceGap_room _ _ _ _ hroom, d4]
      · intro _
        unfold freeBytesTracked at hfree
        exact gapCarve_defragmented p _ nByte hu2 hh1 hn hfree d1 d2 d3 d4 d5 d6 d7 d8 d9 d10
  · by_cases hsearch : p.cellOffset + 2 * p.nCell + 2 ≤ get2byteNotZero p.aData (p.hdrOffset + 5)
    · obtain ⟨res, r1, r2⟩ := allocateSpaceSearch_spec p.aData p.hdrOffset
        (getByte p.aData (p.hdrOffset + 7)) p.pBt.usableSize nByte hu2 rfl (by omega)
        (pageFreeblocks p.aData p.hdrOffset) (p.hdrOffset + 1)
        (get2byteNotZero p.aData (p.hdrOffset + 5)) hc hs (by omega) (by omega) (by left; omega)
      cases res with
      | corrupt =>
        refine ⟨(SQLITE_CORRUPT, p, 0), ?_, ?_⟩
        · intro fuel hf
          unfold allocateSpace
          simp only [if_neg hgt, if_neg hfrag, if_pos hsearch]
          rw [r1 fuel (by omega)]
        · intro h; simp [SQLITE_OK, SQLITE_CORRUPT] at h
      | found d' idx =>
        refine ⟨(SQLITE_OK, { p with aData := d' }, idx), ?_, ?_⟩
        · intro fuel hf
          unfold allocateSpace
          simp only [if_neg hgt, if_neg hfrag, if_pos hsearch]
          rw [r1 fuel (by omega)]
        · intro _
          obtain ⟨L', p1, p2, p3, p4, p5, p6, p7⟩ := r2 d' idx rfl
          have etop : get2byteNotZero d' (p.hdrOffset + 5) = get2byteNotZero p.aData (p.hdrOffset + 5) :=
            get2byteNotZero_congr (p7 _ (by omega) (by omega) (by omega))
              (p7 _ (by omega) (by omega) (by omega))
          unfold AllocPost
          dsimp only
          refine ⟨rfl, rfl, rfl, rfl, rfl, rfl,
            ⟨L', p1, chainSep_mono (le_refl 0) L' _ _ (by omega) p2, p6⟩, ?_, by omega, p5⟩
          rw [pageFreeSum_eq _ _ _ _ L' hu2 p1 p2, etop]
          unfold pageFreeSum
          omega
      | notFound =>
        refine ⟨allocateSpaceGap p nByte (p.cellOffset + 2 * p.nCell) temp, ?_, ?_⟩
        · intro fuel hf
          unfold allocateSpace
          simp only [if_neg hgt, if_neg hfrag, if_pos hsearch]
          rw [r1 fuel (by omega)]
        · exact allocateSpaceGap_spec p nByte temp hwf hfree hn
    · refine ⟨allocateSpaceGap p nByte (p.cellOffset + 2 * p.nCell) temp, ?_, ?_⟩
      · intro fuel _
        unfold allocateSpace
        simp only [if_neg hgt, if_neg hfrag, if_neg hsearch]
      · exact allocateSpaceGap_spec p nByte temp hwf hfree hn

end Btree

namespace Btree

/-! ## `insertCell` -/

theorem pageFreeSum_frame_blocks {d e : Bytes} {hdr usable lo : Nat} (L : List Nat)
    (hu : usable ≤ 65536)
    (hc : IsChain d (get2byte d (hdr + 1)) L) (hs : chainSep 0 d usable lo L)
    (hh : ∀ j, (j = hdr + 1 ∨ j = hdr + 2 ∨ j = hdr + 5 ∨ j = hdr + 6 ∨ j = hdr + 7) → e j = d j)
    (hb : ∀ b ∈ L, ∀ j, b ≤ j → j < b + 4 → e j = d j) :
    pageFreeSum e hdr = pageFreeSum d hdr := by
  have e1 : get2byte e (hdr + 1) = get2byte d (hdr + 1) :=
    get2byte_congr (hh _ (by omega)) (hh _ (by omega))
  obtain ⟨hc', hs', ht'⟩ := chain_frame_blocks L _ hc hs hb
  rw [← e1] at hc'
  rw [pageFreeSum_eq d hdr usable lo L hu hc hs, pageFreeSum_eq e hdr usable lo L hu hc' hs', ht',
    getByte_congr (hh _ (by omega)), get2byteNotZero_congr (hh _ (by omega)) (hh _ (by omega))]

/-- The stores `insertCell` makes after `allocateSpace`: cell content, child pointer, shifted
cell pointers, the new pointer and the cell count. -/
theorem insertCell_stores_other (d pCell : Bytes) (hdr cellOffset nCell i idx sz iChild v : Nat)
    (hco : hdr + 8 ≤ cellOffset) (hi : i ≤ nCell) (hsz : 4 ≤ sz)
    (hidx : cellOffset + 2 * nCell + 2 ≤ idx) (j : Nat)
    (hj : (j = hdr + 1 ∨ j = hdr + 2 ∨ j = hdr + 5 ∨ j = hdr + 6 ∨ j = hdr + 7) ∨
      (cellOffset + 2 * nCell + 2 ≤ j ∧ (j < idx ∨ idx + sz ≤ j))) :
    put2byte (put2byte (shiftPtrsUp
      (if iChild ≠ 0 then
        put4byte (memcpy d (idx + (if iChild ≠ 0 then 4 else 0)) pCell (if iChild ≠ 0 then 4 else 0)
          (sz - (if iChild ≠ 0 then 4 else 0))) idx iChild
       else memcpy d (idx + (if iChild ≠ 0 then 4 else 0)) pCell (if iChild ≠ 0 then 4 else 0)
          (sz - (if iChild ≠ 0 then 4 else 0)))
      (nCell - i) (cellOffset + 2 * nCell)) (cellOffset + 2 * i) idx) (hdr + 3) v j = d j := by
  rw [put2byte_other _ _ _ _ (by omega) (by omega), put2byte_other _ _ _ _ (by omega) (by omega),
    shiftPtrsUp_other _ _ _ _ (by omega) (by omega)]
  by_cases hc : iChild ≠ 0
  · simp only [if_pos hc]
    rw [put4byte_other _ _ _ _ (by omega), memcpy_other _ _ _ _ _ _ (by omega)]
  · simp only [if_neg hc]
    rw [memcpy_other _ _ _ _ _ _ (by omega)]


/-- `insertCell` storing the cell on a well-formed page without overflow cells whose `nFree` is
exact: it terminates, and when it succeeds `nFree` is again exact and has shrunk by the size
of the cell plus its 2-byte pointer. -/
theorem insertCell_spec (p : MemPage) (i : Nat) (pCell : Bytes) (sz : Nat) (pTemp : Option Bytes)
    (iChild rcWrite rcPtrmap : Nat) (temp : Bytes) (hwf : WellFormedPage p)
    (hno : p.nOverflow = 0) (hfree : freeBytesTracked p) (hfit : sz + 2 ≤ p.nFree)
    (hsz : 4 ≤ sz) (hi : i ≤ p.nCell) :
    ∃ r : Nat × MemPage,
      (∀ fuel, p.pBt.usableSize ≤ fuel →
        insertCell fuel p i pCell sz pTemp iChild 0 rcWrite rcPtrmap temp = some r) ∧
      (r.1 = SQLITE_OK →
        freeBytesTracked r.2 ∧ r.2.nFree + (sz + 2) = p.nFree ∧ r.2.nCell = p.nCell + 1 ∧
        r.2.nOverflow = 0) := by
  obtain ⟨hh1, hh2, hh3, hh4, hu1, hu2⟩ := hwf.header
  have hwf' := hwf
  obtain ⟨_, _, _, _, _, _, _, _, _, hacc⟩ := hwf'
  have hfree' := hfree
  unfold freeBytesTracked pageFreeSum at hfree'
  have hov : ¬ (p.nOverflow ≠ 0 ∨ sz + 2 > p.nFree) := by omega
  have hrc : ¬ ((0 : Nat) ≠ 0) := by simp
  by_cases hw : rcWrite ≠ 0
  · refine ⟨(rcWrite, p), ?_, ?_⟩
    · intro fuel _
      unfold insertCell
      simp only [if_neg hrc, if_neg hov, if_pos hw]
    · intro hok; exact absurd hok hw
  · obtain ⟨r0, a1, a2⟩ := allocateSpace_spec p sz temp hwf hfree hfit
    by_cases h0 : r0.1 ≠ 0
    · refine ⟨(r0.1, r0.2.1), ?_, ?_⟩
      · intro fuel hf
        unfold insertCell
        simp only [if_neg hrc, if_neg hov, if_neg hw]
        rw [a1 fuel hf]
        simp only [if_pos h0]
      · intro hok; exact absurd hok h0
    · have h0' : r0.1 = SQLITE_OK := by simpa [SQLITE_OK] using h0
      obtain ⟨b1, b2, b3, b4, b5, b6, ⟨L', b7, b8, b9⟩, b10, b11, b12⟩ := a2 h0'
      have hmem := chainSep_mem _ _ b8
      refine ⟨(if (r0.2.1.pBt.autoVacuum ∧ (btreeParseCellPtr { r0.2.1 with
            aData := put2byte (put2byte (shiftPtrsUp
              (if iChild ≠ 0 then
                put4byte (memcpy r0.2.1.aData (r0.2.2 + (if iChild ≠ 0 then 4 else 0)) pCell
                  (if iChild ≠ 0 then 4 else 0) (sz - (if iChild ≠ 0 then 4 else 0))) r0.2.2 iChild
               else memcpy r0.2.1.aData (r0.2.2 + (if iChild ≠ 0 then 4 else 0)) pCell
                  (if iChild ≠ 0 then 4 else 0) (sz - (if iChild ≠ 0 then 4 else 0)))
              (p.nCell - i) (p.cellOffset + 2 * p.nCell)) (p.cellOffset + 2 * i) r0.2.2)
              (r0.2.1.hdrOffset + 3) (u16 (r0.2.1.nCell + 1))
            nCell := u16 (r0.2.1.nCell + 1)
            nFree := u16sub r0.2.1.nFree (u16 (2 + sz)) } pCell 0).iOverflow ≠ 0) then rcPtrmap
          else SQLITE_OK,
        { r0.2.1 with
            aData := put2byte (put2byte (shiftPtrsUp
              (if iChild ≠ 0 then
                put4byte (memcpy r0.2.1.aData (r0.2.2 + (if iChild ≠ 0 then 4 else 0)) pCell
                  (if iChild ≠ 0 then 4 else 0) (sz - (if iChild ≠ 0 then 4 else 0))) r0.2.2 iChild
               else memcpy r0.2.1.aData (r0.2.2 + (if iChild ≠ 0 then 4 else 0)) pCell
                  (if iChild ≠ 0 then 4 else 0) (sz - (if iChild ≠ 0 then 4 else 0)))
              (p.nCell - i) (p.cellOffset + 2 * p.nCell)) (p.cellOffset + 2 * i) r0.2.2)
              (r0.2.1.hdrOffset + 3) (u16 (r0.2.1.nCell + 1))
            nCell := u16 (r0.2.1.nCell + 1)
            nFree := u16sub r0.2.1.nFree (u16 (2 + sz)) }), ?_, ?_⟩
      · intro fuel hf
        unfold insertCell
        simp only [if_neg hrc, if_neg hov, if_neg hw]
        rw [a1 fuel hf]
        simp only [if_neg h0]
        by_cases hci : iChild ≠ 0
        · simp only [if_pos hci]
          split
          · rfl
          · rfl
        · simp only [if_neg hci]
          split
          · rfl
          · rfl
      · intro _
        have hsum := pageFreeSum_frame_blocks (d := r0.2.1.aData)
          (e := put2byte (put2byte (shiftPtrsUp
              (if iChild ≠ 0 then
                put4byte (memcpy r0.2.1.aData (r0.2.2 + (if iChild ≠ 0 then 4 else 0)) pCell
                  (if iChild ≠ 0 then 4 else 0) (sz - (if iChild ≠ 0 then 4 else 0))) r0.2.2 iChild
               else memcpy r0.2.1.aData (r0.2.2 + (if iChild ≠ 0 then 4 else 0)) pCell
                  (if iChild ≠ 0 then 4 else 0) (sz - (if iChild ≠ 0 then 4 else 0)))
              (p.nCell - i) (p.cellOffset + 2 * p.nCell)) (p.cellOffset + 2 * i) r0.2.2)
              (p.hdrOffset + 3) (u16 (r0.2.1.nCell + 1)))
          L' hu2 b7 b8
          (fun j hj => insertCell_stores_other _ _ _ _ _ _ _ _ _ _ hh1 hi hsz b11 j (Or.inl hj))
          (fun b hb j h1 h2 => insertCell_stores_other _ _ _ _ _ _ _ _ _ _ hh1 hi hsz b11 j
            (Or.inr (by have := hmem b hb; have := b9 b hb; omega)))
        have e1 : u16 (2 + sz) = 2 + sz := u16_eq (by omega)
        have e2 : u16sub p.nFree (2 + sz) = p.nFree - (2 + sz) := u16sub_eq (by omega) (by omega)
        have e3 : u16 (p.nCell + 1) = p.nCell + 1 := u16_eq (by omega)
        dsimp only
        rw [b4] 
        refine ⟨?_, ?_, ?_, ?_⟩
        · unfold freeBytesTracked
          dsimp only
          have hfree2 := hfree
          unfold freeBytesTracked at hfree2
          rw [hsum, b1, b2, b3, e1, e2, e3]
          omega
        · rw [b1, e1, e2]; omega
        · rw [b2, e3]
        · rw [b6, hno]

end Btree

namespace Btree

/-- A successful `defragmentPage` leaves `nFree` untouched and exact: the rebuilt page has no
freeblocks and no fragmented bytes, and its content area starts `nFree` bytes after the
cell-pointer array. -/
theorem defragmentPage_spec (p : MemPage) (temp : Bytes) (hwf : WellFormedPage p)
    (hok : (defragmentPage p temp).1 = SQLITE_OK) :
    freeBytesTracked (defragmentPage p temp).2.1 ∧
    (defragmentPage p temp).2.1.nFree = p.nFree := by
  obtain ⟨hh1, hh2, hh3, hh4, hu1, hu2⟩ := hwf.header
  obtain ⟨d1, d2, d3, d4, d5, d6, d7, d8, d9, d10⟩ :=
    defragmentPage_ok p temp hh1 (by omega) hu2 hok
  refine ⟨?_, d1⟩
  unfold freeBytesTracked pageFreeSum pageFreeblocks
  rw [d1, d2, d3, d4, d7, d8, d9, freeblockChain_zero]
  simp [freeblockTotal]

/-- C7 (byte conservation of the in-page mutators). On a well-formed page `p` without overflow
cells whose `nFree` is exact (`nFree + (cellOffset + 2*nCell)` equals fragmented bytes +
content-area start + total freeblock size): `insertCell` of a cell of `sz` bytes that fits
(`sz + 2 ≤ nFree`, so the cell is stored on the page), `dropCell` of cell `idx` with its size,
and `defragmentPage` all terminate, and whenever one returns `SQLITE_OK` the updated page's
`nFree` is exact again and has changed by `-(sz + 2)`, `+(sz + 2)` and `0` respectively. -/
theorem mutators_conserve_bytes (p : MemPage) (hwf : WellFormedPage p) (hno : p.nOverflow = 0)
    (hfree : freeBytesTracked p) :
    (∀ (i : Nat) (pCell : Bytes) (sz : Nat) (pTemp : Option Bytes)
        (iChild rcWrite rcPtrmap : Nat) (temp : Bytes),
        sz + 2 ≤ p.nFree → 4 ≤ sz → i ≤ p.nCell →
        ∃ r : Nat × MemPage,
          (∀ fuel, p.pBt.usableSize ≤ fuel →
            insertCell fuel p i pCell sz pTemp iChild 0 rcWrite rcPtrmap temp = some r) ∧
          (r.1 = SQLITE_OK → freeBytesTracked r.2 ∧ r.2.nFree + (sz + 2) = p.nFree)) ∧
    (∀ idx : Nat, idx < p.nCell →
        ∃ r : Nat × MemPage,
          (∀ fuel, p.pBt.usableSize ≤ fuel →
            dropCell fuel p idx (cellSz p idx) 0 = some r) ∧
          (r.1 = SQLITE_OK →
            freeBytesTracked r.2 ∧ r.2.nFree = p.nFree + (cellSz p idx + 2))) ∧
    (∀ temp : Bytes, (defragmentPage p temp).1 = SQLITE_OK →
        freeBytesTracked (defragmentPage p temp).2.1 ∧
        (defragmentPage p temp).2.1.nFree = p.nFree) := by
  refine ⟨?_, ?_, ?_⟩
  · intro i pCell sz pTemp iChild rcWrite rcPtrmap temp hfit hsz hi
    obtain ⟨r, h1, h2⟩ :=
      insertCell_spec p i pCell sz pTemp iChild rcWrite rcPtrmap temp hwf hno hfree hfit hsz hi
    exact ⟨r, h1, fun hok => ⟨(h2 hok).1, (h2 hok).2.1⟩⟩
  · intro idx hidx
    exact dropCell_spec p idx hwf hfree hidx
  · intro temp hok
    exact defragmentPage_spec p temp hwf hok

set_option maxRecDepth 100000 in
/-- Witness for C7 on the example leaf page (nFree 978): the hypotheses hold there, and
inserting a 4-byte cell, dropping the 10-byte cell and defragmenting all return `SQLITE_OK`
with `nFree` 972, 990 and 978. -/
theorem mutators_conserve_bytes_witness :
    (WellFormedPage exLeafPage ∧ exLeafPage.nOverflow = 0 ∧ freeBytesTracked exLeafPage) ∧
    ((insertCell 1024 exLeafPage 1 exSmallCell 4 none 0 0 0 0 (fun _ => 0)).map
        (fun r => (r.1, r.2.nFree)) = some (SQLITE_OK, 972) ∧
      (dropCell 1024 exLeafPage 1 (cellSz exLeafPage 1) 0).map
        (fun r => (r.1, r.2.nFree)) = some (SQLITE_OK, 990) ∧
      ((defragmentPage exLeafPage (fun _ => 0)).1,
        (defragmentPage exLeafPage (fun _ => 0)).2.1.nFree) = (SQLITE_OK, 978)) ∧
    ((∀ (i : Nat) (pCell : Bytes) (sz : Nat) (pTemp : Option Bytes)
        (iChild rcWrite rcPtrmap : Nat) (temp : Bytes),
        sz + 2 ≤ exLeafPage.nFree → 4 ≤ sz → i ≤ exLeafPage.nCell →
        ∃ r : Nat × MemPage,
          (∀ fuel, exLeafPage.pBt.usableSize ≤ fuel →
            insertCell fuel exLeafPage i pCell sz pTemp iChild 0 rcWrite rcPtrmap temp = some r) ∧
          (r.1 = SQLITE_OK →
            freeBytesTracked r.2 ∧ r.2.nFree + (sz + 2) = exLeafPage.nFree)) ∧
    (∀ idx : Nat, idx < exLeafPage.nCell →
        ∃ r : Nat × MemPage,
          (∀ fuel, exLeafPage.pBt.usableSize ≤ fuel →
            dropCell fuel exLeafPage idx (cellSz exLeafPage idx) 0 = some r) ∧
          (r.1 = SQLITE_OK →
            freeBytesTracked r.2 ∧ r.2.nFree = exLeafPage.nFree + (cellSz exLeafPage idx + 2))) ∧
    (∀ temp : Bytes, (defragmentPage exLeafPage temp).1 = SQLITE_OK →
        freeBytesTracked (defragmentPage exLeafPage temp).2.1 ∧
        (defragmentPage exLeafPage temp).2.1.nFree = exLeafPage.nFree)) :=
  ⟨⟨by decide, by decide, by decide⟩, ⟨by decide, by decide, by decide⟩,
    mutators_conserve_bytes exLeafPage (by decide) (by decide) (by decide)⟩

end Btree

namespace Btree

/-! ## Seeking in a table B-tree -/

theorem btreeInitPage_ok_fields (fuel : Nat) (p pg : MemPage)
    (h : btreeInitPage fuel p = some (SQLITE_OK, pg)) (hinit : p.isInit = false) :
    pg.nCell < 65536 ∧ pg.intKey ≤ 1 := by
  have hb := getByte_lt p.aData p.hdrOffset
  have hd := (decodeFlags_spec p (getByte p.aData p.hdrOffset) hb).2.2
  have hn := get2byte_lt p.aData (p.hdrOffset + 3)
  simp only [btreeInitPage, hinit, Bool.false_eq_true, if_false] at h
  split at h
  · simp [SQLITE_OK, SQLITE_CORRUPT] at h
  · rename_i hdf
    have hdf' : (decodeFlags p (getByte p.aData p.hdrOffset)).1 = SQLITE_OK := by
      simpa [SQLITE_OK] using hdf
    obtain ⟨_, hik, _, _⟩ := hd hdf'
    split at h
    · simp [SQLITE_OK, SQLITE_CORRUPT] at h
    · split at h
      · cases h
      · split at h
        · simp [SQLITE_OK, SQLITE_CORRUPT] at h
        · split at h
          · simp [SQLITE_OK, SQLITE_CORRUPT] at h
          · simp only [Option.some.injEq, Prod.mk.injEq, true_and] at h
            subst h
            refine ⟨hn, ?_⟩
            show (decodeFlags p (getByte p.aData p.hdrOffset)).2.intKey ≤ 1
            rw [hik]; split <;> omega

theorem initPage_getAndInitPage (pBt : BtShared) (store : PageStore) (pgno : Nat) (pg : MemPage)
    (hu : usableOk pBt.usableSize) (h : initPage pBt store pgno = some pg) :
    (∀ fuel old, pBt.usableSize ≤ fuel →
      getAndInitPage fuel pBt store pgno old = some (SQLITE_OK, pg)) ∧
    pgno ≠ 0 ∧ pg.nCell < 65536 ∧ pg.intKey ≤ 1 := by
  unfold initPage getAndInitPage btreeGetPage at h
  by_cases h1 : pgno > store.nPage
  · simp [h1, SQLITE_OK, SQLITE_CORRUPT] at h
  · by_cases h2 : pgno = 0
    · simp [h1, h2, SQLITE_OK, SQLITE_CORRUPT] at h
    · simp only [if_neg h1, if_neg h2, if_true, btreePageFromDbPage] at h
      obtain ⟨r, hr, _⟩ := btreeInitPage_spec (blankPage pBt (store.page pgno) pgno) rfl hu rfl
      have hr0 := hr pBt.usableSize (le_refl _)
      have hpbt : (blankPage pBt (store.page pgno) pgno).pBt.usableSize = pBt.usableSize := rfl
      rw [hpbt] at hr
      rw [hr0] at h
      have hrr : r = (SQLITE_OK, pg) := by
        obtain ⟨rc, pg1⟩ := r
        simp only at h
        split at h
        · rename_i hrc; cases h; rw [hrc]
        · cases h
      subst hrr
      refine ⟨?_, h2, ?_⟩
      · intro fuel old hf
        unfold getAndInitPage btreeGetPage
        simp only [if_neg h1, if_neg h2, if_true, btreePageFromDbPage]
        exact hr fuel hf
      · exact btreeInitPage_ok_fields _ _ _ hr0 rfl

theorem initPage_zero (pBt : BtShared) (store : PageStore) : initPage pBt store 0 = none := by
  unfold initPage getAndInitPage btreeGetPage
  by_cases h1 : 0 > store.nPage
  · simp [h1, SQLITE_OK, SQLITE_CORRUPT]
  · simp [h1, SQLITE_OK, SQLITE_CORRUPT]

/-- One round of the binary search on a table page, in terms of `cellKey`. -/
theorem searchPage_intKey (pPage : MemPage) (idxCmp : MemPage → Nat → Nat × Int) (k : Int)
    (fuel : Nat) (lwr upr idx : Int) (pCur : BtCursor) (hint : pPage.intKey ≠ 0) :
    searchPage pPage idxCmp k (fuel + 1) lwr upr idx pCur =
      if cellKey pPage idx.toNat = k then
        (if pPage.leaf = 0 then
          some (PageSearch.done idx 0 (searchedCursor pCur (cellKey pPage idx.toNat)))
         else some (PageSearch.finish SQLITE_OK (some 0)
          (searchedCursor pCur (cellKey pPage idx.toNat))))
      else if cellKey pPage idx.toNat < k then
        (if idx + 1 > upr then
          some (PageSearch.done (idx + 1) (-1) (searchedCursor pCur (cellKey pPage idx.toNat)))
         else searchPage pPage idxCmp k fuel (idx + 1) upr ((idx + 1 + upr) / 2)
          { searchedCursor pCur (cellKey pPage idx.toNat) with
            aiIdx := setAt pCur.aiIdx pCur.iPage.toNat (u16i ((idx + 1 + upr) / 2)) })
      else
        (if lwr > idx - 1 then
          some (PageSearch.done lwr 1 (searchedCursor pCur (cellKey pPage idx.toNat)))
         else searchPage pPage idxCmp k fuel lwr (idx - 1) ((lwr + (idx - 1)) / 2)
          { searchedCursor pCur (cellKey pPage idx.toNat) with
            aiIdx := setAt pCur.aiIdx pCur.iPage.toNat (u16i ((lwr + (idx - 1)) / 2)) }) := by
  have hk : toInt64 (getVarint pPage.aData
      (if pPage.hasData ≠ 0 then
        findCell pPage idx.toNat + pPage.childPtrSize +
          (getVarint32 pPage.aData (findCell pPage idx.toNat + pPage.childPtrSize)).1
       else findCell pPage idx.toNat + pPage.childPtrSize)).2 = cellKey pPage idx.toNat := rfl
  rw [searchPage]
  simp only [if_pos hint, hk, SQLITE_OK, ne_eq, not_true_eq_false, if_false, searchedCursor]
  by_cases h1 : cellKey pPage idx.toNat = k
  · simp only [h1, if_true, hint, not_false_eq_true, true_and]
  · simp only [h1, if_false]
    by_cases h3 : cellKey pPage idx.toNat < k
    · have e1 : (-1 : Int) ≠ 0 := by decide
      have e2 : (-1 : Int) < 0 := by decide
      simp only [h3, if_true, e1, e2, if_false]
    · have e1 : (1 : Int) ≠ 0 := by decide
      have e2 : ¬ ((1 : Int) < 0) := by decide
      simp only [h3, if_false, e1, e2]

theorem u16i_of_lt (x : Int) (h0 : 0 ≤ x) (h1 : x < 65536) : u16i x = x.toNat := by
  unfold u16i
  rw [Int.emod_eq_of_lt h0 h1]

/-- The binary search over a table page with strictly ascending keys terminates and
establishes `SearchPost`. -/
theorem searchPage_spec (pPage : MemPage) (idxCmp : MemPage → Nat → Nat × Int) (k : Int)
    (hint : pPage.intKey ≠ 0) (hn : pPage.nCell < 65536)
    (hasc : ∀ i j : Nat, i < j → j < pPage.nCell → cellKey pPage i < cellKey pPage j)
    (pCur0 : BtCursor) :
    ∀ (m : Nat) (lwr upr idx : Int) (pCur : BtCursor),
      upr - lwr + 1 ≤ m → 0 ≤ lwr → lwr ≤ idx → idx ≤ upr → upr < pPage.nCell →
      (∀ i : Nat, (i : Int) < lwr → cellKey pPage i < k) →
      (∀ i : Nat, upr < (i : Int) → i < pPage.nCell → k < cellKey pPage i) →
      CursorFrame pCur0 pCur → pCur.aiIdx pCur.iPage.toNat = idx.toNat →
      ∃ out, SearchPost pPage k pCur0 out ∧
        ∀ fuel, m < fuel → searchPage pPage idxCmp k fuel lwr upr idx pCur = some out := by
  intro m
  induction m with
  | zero => intro lwr upr idx pCur h1; omega
  | succ m ih =>
    intro lwr upr idx pCur h1 h3 h4 h5 h6 hlo hhi hfr hidx
    obtain ⟨f1, f2, f3, f4, f5, f6, f7⟩ := hfr
    have hidxn : idx.toNat < pPage.nCell := by omega
    have hfr1 : CursorFrame pCur0 (searchedCursor pCur (cellKey pPage idx.toNat)) :=
      ⟨f1, f2, f3, f4, f5, f6, f7⟩
    have hcur : (searchedCursor pCur (cellKey pPage idx.toNat)).aiIdx
        (searchedCursor pCur (cellKey pPage idx.toNat)).iPage.toNat = idx.toNat := hidx
    have hstep : ∀ (l u : Int), 0 ≤ l → l ≤ u → u < pPage.nCell →
        CursorFrame pCur0 { searchedCursor pCur (cellKey pPage idx.toNat) with
          aiIdx := setAt pCur.aiIdx pCur.iPage.toNat (u16i ((l + u) / 2)) } ∧
        setAt pCur.aiIdx pCur.iPage.toNat (u16i ((l + u) / 2)) pCur.iPage.toNat =
          ((l + u) / 2).toNat := by
      intro l u hl hlu hun
      refine ⟨⟨f1, f2, f3, f4, f5, f6, fun j hj => ?_⟩, ?_⟩
      · show setAt pCur.aiIdx pCur.iPage.toNat _ j = _
        rw [f5] at *
        unfold setAt
        rw [if_neg hj]
        exact f7 j hj
      · unfold setAt
        rw [if_pos rfl, u16i_of_lt _ (by omega) (by omega)]
    by_cases c1 : cellKey pPage idx.toNat = k
    · by_cases c2 : pPage.leaf = 0
      · refine ⟨PageSearch.done idx 0 (searchedCursor pCur (cellKey pPage idx.toNat)),
          ⟨hfr1, by omega, by omega, by rw [hcur]; exact hidxn, Or.inl ⟨rfl, c2, by omega, c1⟩⟩,
          fun fuel hf => ?_⟩
        obtain ⟨f, rfl⟩ : ∃ f, fuel = f + 1 := ⟨fuel - 1, by omega⟩
        rw [searchPage_intKey _ _ _ _ _ _ _ _ hint, if_pos c1, if_pos c2]
      · refine ⟨PageSearch.finish SQLITE_OK (some 0)
            (searchedCursor pCur (cellKey pPage idx.toNat)),
          ⟨rfl, rfl, c2, hfr1, by rw [hcur]; exact hidxn, by rw [hcur]; exact c1⟩,
          fun fuel hf => ?_⟩
        obtain ⟨f, rfl⟩ : ∃ f, fuel = f + 1 := ⟨fuel - 1, by omega⟩
        rw [searchPage_intKey _ _ _ _ _ _ _ _ hint, if_pos c1, if_neg c2]
    · by_cases c3 : cellKey pPage idx.toNat < k
      · have hlo1 : ∀ i : Nat, (i : Int) < idx + 1 → cellKey pPage i < k := by
          intro i hi
          by_cases hii : i = idx.toNat
          · rw [hii]; exact c3
          · have := hasc i idx.toNat (by omega) hidxn
            omega
        by_cases c4 : idx + 1 > upr
        · refine ⟨PageSearch.done (idx + 1) (-1) (searchedCursor pCur (cellKey pPage idx.toNat)),
            ⟨hfr1, by omega, by omega, by rw [hcur]; exact hidxn,
              Or.inr ⟨by decide, hlo1, fun i hi1 hi2 => hhi i (by omega) hi2,
                Or.inl ⟨by decide, by rw [hcur]; omega⟩⟩⟩,
            fun fuel hf => ?_⟩
          obtain ⟨f, rfl⟩ : ∃ f, fuel = f + 1 := ⟨fuel - 1, by omega⟩
          rw [searchPage_intKey _ _ _ _ _ _ _ _ hint, if_neg c1, if_pos c3, if_pos c4]
        · obtain ⟨s1, s2⟩ := hstep (idx + 1) upr (by omega) (by omega) h6
          obtain ⟨out, hpost, hrun⟩ := ih (idx + 1) upr ((idx + 1 + upr) / 2) _ (by omega)
            (by omega) (by omega) (by omega) h6 hlo1 hhi s1 s2
          refine ⟨out, hpost, fun fuel hf => ?_⟩
          obtain ⟨f, rfl⟩ : ∃ f, fuel = f + 1 := ⟨fuel - 1, by omega⟩
          rw [searchPage_intKey _ _ _ _ _ _ _ _ hint, if_neg c1, if_pos c3, if_neg c4]
          exact hrun f (by omega)
      · have hhi1 : ∀ i : Nat, idx - 1 < (i : Int) → i < pPage.nCell → k < cellKey pPage i := by
          intro i hi1 hi2
          by_cases hii : i = idx.toNat
          · rw [hii]; omega
          · have := hasc idx.toNat i (by omega) hi2
            omega
        by_cases c4 : lwr > idx - 1
        · refine ⟨PageSearch.done lwr 1 (searchedCursor pCur (cellKey pPage idx.toNat)),
            ⟨hfr1, by omega, by omega, by rw [hcur]; exact hidxn,
              Or.inr ⟨by decide, hlo, fun i hi1 hi2 => hhi1 i (by omega) hi2,
                Or.inr ⟨by decide, by rw [hcur]; omega⟩⟩⟩,
            fun fuel hf => ?_⟩
          obtain ⟨f, rfl⟩ : ∃ f, fuel = f + 1 := ⟨fuel - 1, by omega⟩
          rw [searchPage_intKey _ _ _ _ _ _ _ _ hint, if_neg c1, if_neg c3, if_pos c4]
        · obtain ⟨s1, s2⟩ := hstep lwr (idx - 1) (by omega) (by omega) (by omega)
          obtain ⟨out, hpost, hrun⟩ := ih lwr (idx - 1) ((lwr + (idx - 1)) / 2) _ (by omega)
            (by omega) (by omega) (by omega) (by omega) hlo hhi1 s1 s2
          refine ⟨out, hpost, fun fuel hf => ?_⟩
          obtain ⟨f, rfl⟩ : ∃ f, fuel = f + 1 := ⟨fuel - 1, by omega⟩
          rw [searchPage_intKey _ _ _ _ _ _ _ _ hint, if_neg c1, if_neg c3, if_neg c4]
          exact hrun f (by omega)

end Btree

namespace Btree

theorem keys_strictMono (pg : MemPage)
    (h : ∀ i, i < pg.nCell - 1 → cellKey pg i < cellKey pg (i + 1)) :
    ∀ i j : Nat, i < j → j < pg.nCell → cellKey pg i < cellKey pg j := by
  intro i j
  induction j with
  | zero => intro h1; omega
  | succ j ih =>
    intro h1 h2
    have h3 := h j (by omega)
    by_cases hij : i = j
    · rw [hij]; exact h3
    · have := ih (by omega) (by omega)
      omega

theorem keys_mono (pg : MemPage)
    (h : ∀ i, i < pg.nCell - 1 → cellKey pg i < cellKey pg (i + 1)) :
    ∀ i j : Nat, i ≤ j → j < pg.nCell → cellKey pg i ≤ cellKey pg j := by
  intro i j h1 h2
  by_cases hij : i = j
  · rw [hij]
  · exact le_of_lt (keys_strictMono pg h i j (by omega) h2)

/-- The bounds of child `i` of a page whose keys lie in `(lo, hi]` lie within `[lo, hi]`. -/
theorem child_bounds (pg : MemPage) (lo hi : Int) (hn : 1 ≤ pg.nCell)
    (h : ∀ i, i < pg.nCell - 1 → cellKey pg i < cellKey pg (i + 1))
    (hlo : lo < cellKey pg 0) (hhi : cellKey pg (pg.nCell - 1) ≤ hi) (i : Nat)
    (hi1 : i ≤ pg.nCell) :
    lo ≤ (if i = 0 then lo else cellKey pg (i - 1)) ∧
    (if i = pg.nCell then hi else cellKey pg i) ≤ hi := by
  constructor
  · split
    · exact le_refl _
    · have := keys_mono pg h 0 (i - 1) (by omega) (by omega)
      omega
  · split
    · exact le_refl _
    · have := keys_mono pg h i (pg.nCell - 1) (by omega) (by omega)
      omega

/-- Every key stored in a table tree with bounds `(lo, hi]` lies within the bounds. -/
theorem stored_bounds (pBt : BtShared) (store : PageStore) :
    ∀ (d pgno : Nat) (lo hi k : Int), TableTree pBt store d pgno lo hi →
      Stored pBt store d pgno k → lo < k ∧ k ≤ hi := by
  intro d
  induction d with
  | zero => intro pgno lo hi k h; exact absurd h id
  | succ d ih =>
    intro pgno lo hi k ht hs
    obtain ⟨pg, hpg, _, hn, hasc, hlo, hhi, hch⟩ := ht
    obtain ⟨pg1, hpg1, hs1⟩ := hs
    rw [hpg] at hpg1
    cases hpg1
    rcases hs1 with ⟨_, i, hi1, hik⟩ | ⟨hleaf, i, hi1, hst⟩
    · have a1 := keys_mono pg hasc 0 i (by omega) hi1
      have a2 := keys_mono pg hasc i (pg.nCell - 1) (by omega) (by omega)
      omega
    · have hb := child_bounds pg lo hi hn hasc hlo hhi i hi1
      have := ih _ _ _ k (hch hleaf i hi1) hst
      omega

theorem CursorPath_frame (store : PageStore) (a b : BtCursor) (hf : CursorFrame a b)
    (h : CursorPath store a) : CursorPath store b := by
  obtain ⟨f1, f2, f3, f4, f5, f6, f7⟩ := hf
  obtain ⟨h1, h2, h3⟩ := h
  refine ⟨by rw [f5]; exact h1, by rw [f1, f2, f6]; exact h2, fun j hj => ?_⟩
  rw [f5] at hj
  rw [f1, f6, f7 j (by omega)]
  exact h3 j hj

theorem moveToChild_ok (store : PageStore) (c : BtCursor) (chld : Nat) (pgc : MemPage)
    (hu : usableOk c.pBt.usableSize) (h0 : 0 ≤ c.iPage) (h18 : c.iPage ≤ 18)
    (hpg : initPage c.pBt store chld = some pgc) (hn : 1 ≤ pgc.nCell)
    (hk : pgc.intKey = (c.apPage c.iPage.toNat).intKey) :
    ∀ fuel, c.pBt.usableSize ≤ fuel →
      moveToChild fuel store c chld = some (SQLITE_OK, descended c pgc) := by
  intro fuel hf
  obtain ⟨g1, _, _, _⟩ := initPage_getAndInitPage _ _ _ _ hu hpg
  unfold moveToChild
  have h19 : ¬ (c.iPage ≥ BTCURSOR_MAX_DEPTH - 1) := by
    unfold BTCURSOR_MAX_DEPTH; omega
  simp only [if_neg h19, g1 fuel _ hf]
  have hne : ¬ (SQLITE_OK ≠ 0) := by simp [SQLITE_OK]
  simp only [if_neg hne]
  have hidx : setAt c.apPage (c.iPage + 1).toNat pgc c.iPage.toNat = c.apPage c.iPage.toNat := by
    unfold setAt
    rw [if_neg (by omega)]
  have hcond : ¬ (pgc.nCell < 1 ∨ pgc.intKey ≠ (setAt c.apPage (c.iPage + 1).toNat pgc
      c.iPage.toNat).intKey) := by
    rw [hidx]
    intro h
    rcases h with h | h
    · omega
    · exact h hk
  rw [if_neg hcond]
  rfl

/-- Extending a cursor path by one level. -/
theorem CursorPath_descended (store : PageStore) (c : BtCursor) (lwr : Int) (pgc : MemPage)
    (hp : CursorPath store c) (hleaf : (c.apPage c.iPage.toNat).leaf = 0)
    (h0 : 0 ≤ lwr) (hn : lwr ≤ (c.apPage c.iPage.toNat).nCell)
    (hn16 : (c.apPage c.iPage.toNat).nCell < 65536)
    (hpg : initPage c.pBt store (childPgno (c.apPage c.iPage.toNat) lwr.toNat) = some pgc) :
    CursorPath store (descended (leavingCursor c lwr) pgc) := by
  obtain ⟨h1, h2, h3⟩ := hp
  have e1 : (descended (leavingCursor c lwr) pgc).iPage = c.iPage + 1 := rfl
  have e2 : (descended (leavingCursor c lwr) pgc).pBt = c.pBt := rfl
  have e3 : (descended (leavingCursor c lwr) pgc).pgnoRoot = c.pgnoRoot := rfl
  have e4 : ∀ j, (descended (leavingCursor c lwr) pgc).apPage j =
      if j = (c.iPage + 1).toNat then pgc else c.apPage j := fun j => rfl
  have e5 : ∀ j, (descended (leavingCursor c lwr) pgc).aiIdx j =
      if j = (c.iPage + 1).toNat then 0
      else if j = c.iPage.toNat then u16i lwr else c.aiIdx j := fun j => rfl
  have e6 : u16i lwr = lwr.toNat := u16i_of_lt _ h0 (by omega)
  refine ⟨by rw [e1]; omega, ?_, fun j hj => ?_⟩
  · rw [e2, e3, e4, if_neg (by omega)]
    exact h2
  · rw [e1] at hj
    rw [e2, e4 j, e4 (j + 1), e5 j, if_neg (by omega), if_neg (by omega)]
    by_cases hji : j = c.iPage.toNat
    · rw [if_pos hji, if_pos (by omega), e6, hji]
      exact ⟨hleaf, by omega, hpg⟩
    · rw [if_neg hji, if_neg (by omega)]
      exact h3 j (by omega)

end Btree

namespace Btree

/-- Descending through the child chosen by the binary search keeps the key inside the
bounds and loses no stored key that could be next to it. -/
theorem child_zoom (pBt : BtShared) (store : PageStore) (d pgno : Nat) (lo hi k : Int)
    (pg : MemPage) (lwr : Nat) (hpg : initPage pBt store pgno = some pg)
    (ht : TableTree pBt store (d + 1) pgno lo hi) (hleaf : pg.leaf = 0)
    (hl : lwr ≤ pg.nCell) (hlok : lo < k) (hhik : k ≤ hi)
    (h1 : ∀ i : Nat, i < lwr → cellKey pg i < k)
    (h2 : ∀ i : Nat, lwr ≤ i → i < pg.nCell → k ≤ cellKey pg i) :
    TableTree pBt store d (childPgno pg lwr)
      (if lwr = 0 then lo else cellKey pg (lwr - 1))
      (if lwr = pg.nCell then hi else cellKey pg lwr) ∧
    (if lwr = 0 then lo else cellKey pg (lwr - 1)) < k ∧
    k ≤ (if lwr = pg.nCell then hi else cellKey pg lwr) ∧
    (∀ k1, Stored pBt store (d + 1) pgno k1 →
      Stored pBt store d (childPgno pg lwr) k1 ∨
      k1 ≤ (if lwr = 0 then lo else cellKey pg (lwr - 1)) ∨
      (if lwr = pg.nCell then hi else cellKey pg lwr) < k1) ∧
    (∀ k1, Stored pBt store d (childPgno pg lwr) k1 → Stored pBt store (d + 1) pgno k1) := by
  obtain ⟨pg1, hpg1, _, hn, hasc, hlo, hhi, hch⟩ := ht
  rw [hpg] at hpg1
  cases hpg1
  refine ⟨hch hleaf lwr hl, ?_, ?_, ?_, ?_⟩
  · split
    · exact hlok
    · exact h1 (lwr - 1) (by omega)
  · split
    · exact hhik
    · exact h2 lwr (le_refl _) (by omega)
  · intro k1 hs
    obtain ⟨pg2, hpg2, hs2⟩ := hs
    rw [hpg] at hpg2
    cases hpg2
    rcases hs2 with ⟨hl2, _⟩ | ⟨_, i, hi1, hst⟩
    · exact absurd hleaf hl2
    · by_cases hil : i = lwr
      · left; rw [← hil]; exact hst
      · have hb := stored_bounds pBt store d _ _ _ k1 (hch hleaf i hi1) hst
        by_cases hlt : i < lwr
        · right; left
          rw [if_neg (by omega)]
          have hb2 := hb.2
          rw [if_neg (by omega)] at hb2
          have := keys_mono pg hasc i (lwr - 1) (by omega) (by omega)
          omega
        · right; right
          have hb1 := hb.1
          rw [if_neg (by omega)] at hb1
          rw [if_neg (by omega)]
          have := keys_mono pg hasc lwr (i - 1) (by omega) (by omega)
          omega
  · intro k1 hs
    exact ⟨pg, hpg, Or.inr ⟨hleaf, lwr, hl, hs⟩⟩

/-- On a leaf the binary search stops next to the place of the key. -/
theorem leaf_seek (pBt : BtShared) (store : PageStore) (d pgno : Nat) (lo hi k : Int)
    (pg : MemPage) (lwr : Int) (hpg : initPage pBt store pgno = some pg)
    (ht : TableTree pBt store (d + 1) pgno lo hi) (hleaf : pg.leaf ≠ 0)
    (h1 : ∀ i : Nat, (i : Int) < lwr → cellKey pg i < k)
    (h2 : ∀ i : Nat, lwr ≤ (i : Int) → i < pg.nCell → k < cellKey pg i) :
    ¬ Stored pBt store (d + 1) pgno k ∧
    (∀ idx : Nat, idx < pg.nCell →
      Stored pBt store (d + 1) pgno (cellKey pg idx) ∧ lo < cellKey pg idx ∧
      cellKey pg idx ≤ hi) ∧
    (∀ idx : Nat, (idx : Int) = lwr - 1 → idx < pg.nCell →
      ∀ k1, Stored pBt store (d + 1) pgno k1 → k1 < k → k1 ≤ cellKey pg idx) ∧
    (∀ idx : Nat, (idx : Int) = lwr → idx < pg.nCell →
      ∀ k1, Stored pBt store (d + 1) pgno k1 → k < k1 → cellKey pg idx ≤ k1) := by
  have hcell : ∀ k1, Stored pBt store (d + 1) pgno k1 →
      ∃ i, i < pg.nCell ∧ cellKey pg i = k1 := by
    intro k1 hs
    obtain ⟨pg2, hpg2, hs2⟩ := hs
    rw [hpg] at hpg2
    cases hpg2
    rcases hs2 with ⟨_, h⟩ | ⟨hl2, _⟩
    · exact h
    · exact absurd hl2 hleaf
  have hst : ∀ idx : Nat, idx < pg.nCell → Stored pBt store (d + 1) pgno (cellKey pg idx) :=
    fun idx hidx => ⟨pg, hpg, Or.inl ⟨hleaf, idx, hidx, rfl⟩⟩
  have ht1 := ht
  obtain ⟨pg1, hpg1, _, hn, hasc, hlo, hhi, hch⟩ := ht1
  rw [hpg] at hpg1
  cases hpg1
  refine ⟨?_, ?_, ?_, ?_⟩
  · intro hs
    obtain ⟨i, hi1, hik⟩ := hcell k hs
    by_cases hil : (i : Int) < lwr
    · have := h1 i hil; omega
    · have := h2 i (by omega) hi1; omega
  · intro idx hidx
    have := stored_bounds pBt store (d + 1) pgno lo hi _ ht (hst idx hidx)
    exact ⟨hst idx hidx, this.1, this.2⟩
  · intro idx hidx hidxn k1 hs hk1
    obtain ⟨i, hi1, hik⟩ := hcell k1 hs
    by_cases hil : (i : Int) < lwr
    · have := keys_mono pg hasc i idx (by omega) hidxn
      omega
    · have := h2 i (by omega) hi1; omega
  · intro idx hidx hidxn k1 hs hk1
    obtain ⟨i, hi1, hik⟩ := hcell k1 hs
    by_cases hil : (i : Int) < lwr
    · have := h1 i hil; omega
    · have := keys_mono pg hasc idx i (by omega) hi1
      omega

end Btree

namespace Btree

/-- The descent loop of the seek: from a page of a table tree of at most `d` levels whose
bounds contain the key it reaches the place of the key. -/
theorem movetoLoop_spec (store : PageStore) (idxCmp : MemPage → Nat → Nat × Int) (k : Int)
    (biasRight : Bool) (res : Int) (pBt : BtShared) (D root : Nat)
    (hu : usableOk pBt.usableSize) :
    ∀ (d : Nat) (pCur : BtCursor) (pgno : Nat) (lo hi : Int),
      pCur.pBt = pBt → pCur.pgnoRoot = root → pCur.eState = CURSOR_VALID →
      CursorPath store pCur → pCur.iPage + d ≤ 20 →
      initPage pBt store pgno = some (pCur.apPage pCur.iPage.toNat) →
      TableTree pBt store d pgno lo hi → lo < k → k ≤ hi →
      (∀ k1, Stored pBt store D root k1 → Stored pBt store d pgno k1 ∨ k1 ≤ lo ∨ hi < k1) →
      (∀ k1, Stored pBt store d pgno k1 → Stored pBt store D root k1) →
      ∃ r : Int × BtCursor,
        (∀ fuel, 65536 + d ≤ fuel →
          movetoLoop store idxCmp k biasRight fuel pCur res = some (SQLITE_OK, r.1, r.2)) ∧
        SeekPost store pBt D root k r := by
  intro d
  induction d with
  | zero => intro pCur pgno lo hi _ _ _ _ _ _ ht; exact absurd ht id
  | succ d ih =>
    intro pCur pgno lo hi hb hr hs hp hdep hpg ht hlok hhik hzoom hsub
    have ht1 := ht
    obtain ⟨pg1, hpg1, hint, hn, hasc, hlo, hhi, hch⟩ := ht1
    rw [hpg] at hpg1
    cases hpg1
    obtain ⟨_, _, hn16, hik1⟩ := initPage_getAndInitPage pBt store pgno _ hu hpg
    have hmono := keys_strictMono _ hasc
    have hp0 : 0 ≤ pCur.iPage := hp.1
    have hidx0 : 0 ≤ (if biasRight = true then ((pCur.apPage pCur.iPage.toNat).nCell : Int) - 1
          else (((pCur.apPage pCur.iPage.toNat).nCell : Int) - 1 + 0) / 2) ∧
        (if biasRight = true then ((pCur.apPage pCur.iPage.toNat).nCell : Int) - 1
          else (((pCur.apPage pCur.iPage.toNat).nCell : Int) - 1 + 0) / 2) ≤
          ((pCur.apPage pCur.iPage.toNat).nCell : Int) - 1 := by
      split <;> omega
    obtain ⟨out, hpost, hrun⟩ := searchPage_spec (pCur.apPage pCur.iPage.toNat) idxCmp k hint hn16
      hmono
      { pCur with
        aiIdx := setAt pCur.aiIdx pCur.iPage.toNat
          (u16i (if biasRight = true then ((pCur.apPage pCur.iPage.toNat).nCell : Int) - 1
            else (((pCur.apPage pCur.iPage.toNat).nCell : Int) - 1 + 0) / 2)) }
      (pCur.apPage pCur.iPage.toNat).nCell 0
      (((pCur.apPage pCur.iPage.toNat).nCell : Int) - 1)
      (if biasRight = true then ((pCur.apPage pCur.iPage.toNat).nCell : Int) - 1
          else (((pCur.apPage pCur.iPage.toNat).nCell : Int) - 1 + 0) / 2)
      { pCur with
        aiIdx := setAt pCur.aiIdx pCur.iPage.toNat
          (u16i (if biasRight = true then ((pCur.apPage pCur.iPage.toNat).nCell : Int) - 1
            else (((pCur.apPage pCur.iPage.toNat).nCell : Int) - 1 + 0) / 2)) }
      (by omega) (le_refl _) hidx0.1 hidx0.2 (by omega)
      (fun i hi => by omega) (fun i hi1 hi2 => by omega)
      ⟨rfl, rfl, rfl, rfl, rfl, rfl, fun _ _ => rfl⟩
      (by
        show setAt pCur.aiIdx pCur.iPage.toNat _ pCur.iPage.toNat = _
        unfold setAt
        rw [if_pos rfl, u16i_of_lt _ hidx0.1 (by omega)])
    have hframe : ∀ c1 : BtCursor, CursorFrame
        { pCur with
          aiIdx := setAt pCur.aiIdx pCur.iPage.toNat
            (u16i (if biasRight = true then ((pCur.apPage pCur.iPage.toNat).nCell : Int) - 1
              else (((pCur.apPage pCur.iPage.toNat).nCell : Int) - 1 + 0) / 2)) } c1 →
        CursorFrame pCur c1 := by
      intro c1 hf
      obtain ⟨f1, f2, f3, f4, f5, f6, f7⟩ := hf
      refine ⟨f1, f2, f3, f4, f5, f6, fun j hj => ?_⟩
      rw [f7 j hj]
      show setAt pCur.aiIdx pCur.iPage.toNat _ j = _
      unfold setAt
      rw [if_neg hj]
    cases out with
    | finish rc r c1 =>
      obtain ⟨p1, p2, p3, p4, p5, p6⟩ := hpost
      have hf := hframe c1 p4
      obtain ⟨f1, f2, f3, f4, f5, f6, f7⟩ := hf
      have hpage : c1.apPage c1.iPage.toNat = pCur.apPage pCur.iPage.toNat := by rw [f5, f6]
      refine ⟨(0, c1), fun fuel hfu => ?_, ?_⟩
      · obtain ⟨f, rfl⟩ : ∃ f, fuel = f + 1 := ⟨fuel - 1, by omega⟩
        rw [movetoLoop]
        simp only [hrun (f + 1) (by omega), p1, p2, Option.getD_some]
      · have hst : Stored pBt store D root k :=
          hsub k ⟨_, hpg, Or.inl ⟨p3, _, p5, p6⟩⟩
        refine ⟨⟨fun _ => hst, fun _ => rfl⟩, fun _ => ?_, fun h => absurd rfl h⟩
        exact ⟨by rw [f4]; exact hs, CursorPath_frame store pCur c1 (hframe c1 p4) hp,
          by rw [hpage]; exact p3, by rw [hpage]; exact p5, by rw [hpage]; exact p6⟩
    | done lwr c c1 =>
      obtain ⟨p4, p1, p2, p5, p6⟩ := hpost
      have hf := hframe c1 p4
      obtain ⟨f1, f2, f3, f4, f5, f6, f7⟩ := hf
      have hpage : c1.apPage c1.iPage.toNat = pCur.apPage pCur.iPage.toNat := by rw [f5, f6]
      by_cases hleaf : (pCur.apPage pCur.iPage.toNat).leaf ≠ 0
      · -- the search ended on a leaf
        rcases p6 with ⟨_, q, _⟩ | ⟨q1, q2, q3, q4⟩
        · exact absurd q hleaf
        · obtain ⟨s1, s2, s3, s4⟩ := leaf_seek pBt store d pgno lo hi k _ lwr hpg ht hleaf q2 q3
          refine ⟨(c, c1), fun fuel hfu => ?_, ?_⟩
          · obtain ⟨f, rfl⟩ : ∃ f, fuel = f + 1 := ⟨fuel - 1, by omega⟩
            rw [movetoLoop]
            simp only [hrun (f + 1) (by omega), if_pos hleaf, if_true]
          · have hns : ¬ Stored pBt store D root k := by
              intro h
              rcases hzoom k h with h | h | h
              · exact s1 h
              · omega
              · omega
            have hat : CursorAt store c1 (cellKey (pCur.apPage pCur.iPage.toNat)
                (c1.aiIdx c1.iPage.toNat)) :=
              ⟨by rw [f4]; exact hs, CursorPath_frame store pCur c1 (hframe c1 p4) hp,
                by rw [hpage]; exact hleaf, by rw [hpage]; exact p5, by rw [hpage]⟩
            obtain ⟨t1, t2, t3⟩ := s2 (c1.aiIdx c1.iPage.toNat) p5
            refine ⟨⟨fun h => absurd h q1, fun h => absurd h hns⟩, fun h => absurd h q1,
              fun _ => ⟨_, hat, hsub _ t1, fun hc => ?_, fun hc => ?_⟩⟩
            · have hi : (c1.aiIdx c1.iPage.toNat : Int) = lwr - 1 := by
                rcases q4 with ⟨_, h⟩ | ⟨h, _⟩
                · exact h
                · omega
              refine ⟨q2 _ (by omega), fun k1 hk1 hlt => ?_⟩
              rcases hzoom k1 hk1 with h | h | h
              · exact s3 _ hi p5 k1 h hlt
              · omega
              · omega
            · have hi : (c1.aiIdx c1.iPage.toNat : Int) = lwr := by
                rcases q4 with ⟨h, _⟩ | ⟨_, h⟩
                · omega
                · exact h
              refine ⟨q3 _ (by omega) p5, fun k1 hk1 hlt => ?_⟩
              rcases hzoom k1 hk1 with h | h | h
              · exact s4 _ hi p5 k1 h hlt
              · omega
              · omega
      · -- the search ended on an interior page: descend
        have hleaf0 : (pCur.apPage pCur.iPage.toNat).leaf = 0 := by
          by_contra h; exact hleaf h
        have h1 : ∀ i : Nat, i < lwr.toNat → cellKey (pCur.apPage pCur.iPage.toNat) i < k := by
          intro i hi
          rcases p6 with ⟨_, _, q3, q4⟩ | ⟨_, q2, _, _⟩
          · have := hmono i lwr.toNat hi (by omega)
            omega
          · exact q2 i (by omega)
        have h2 : ∀ i : Nat, lwr.toNat ≤ i → i < (pCur.apPage pCur.iPage.toNat).nCell →
            k ≤ cellKey (pCur.apPage pCur.iPage.toNat) i := by
          intro i hi hin
          rcases p6 with ⟨_, _, q3, q4⟩ | ⟨_, _, q3, _⟩
          · have := keys_mono _ hasc lwr.toNat i hi hin
            omega
          · exact le_of_lt (q3 i (by omega) hin)
        obtain ⟨z1, z2, z3, z4, z5⟩ := child_zoom pBt store d pgno lo hi k _ lwr.toNat hpg ht
          hleaf0 (by omega) hlok hhik h1 h2
        have hcb := child_bounds _ lo hi hn hasc hlo hhi lwr.toNat (by omega)
        cases d with
        | zero => exact absurd z1 id
        | succ d =>
          have z1c := z1
          obtain ⟨pgc, hpgc, hintc, hnc, _⟩ := z1c
          obtain ⟨_, hne0, _, hikc⟩ := initPage_getAndInitPage pBt store _ _ hu hpgc
          have hchld : (if (pCur.apPage pCur.iPage.toNat).leaf ≠ 0 then 0
              else if lwr ≥ ((pCur.apPage pCur.iPage.toNat).nCell : Int) then
                get4byte (pCur.apPage pCur.iPage.toNat).aData
                  ((pCur.apPage pCur.iPage.toNat).hdrOffset + 8)
              else get4byte (pCur.apPage pCur.iPage.toNat).aData
                (findCell (pCur.apPage pCur.iPage.toNat) lwr.toNat)) =
              childPgno (pCur.apPage pCur.iPage.toNat) lwr.toNat := by
            rw [if_neg hleaf]
            unfold childPgno
            by_cases hge : lwr ≥ ((pCur.apPage pCur.iPage.toNat).nCell : Int)
            · rw [if_pos hge, if_pos (by omega)]
            · rw [if_neg hge, if_neg (by omega)]
          have hmove := moveToChild_ok store (leavingCursor c1 lwr)
            (childPgno (pCur.apPage pCur.iPage.toNat) lwr.toNat) pgc
            (by show usableOk c1.pBt.usableSize; rw [f1, hb]; exact hu)
            (by show 0 ≤ c1.iPage; rw [f5]; exact hp0)
            (by show c1.iPage ≤ 18; rw [f5]; omega)
            (by show initPage c1.pBt store _ = _; rw [f1, hb]; exact hpgc) hnc
            (by
              show pgc.intKey = (c1.apPage c1.iPage.toNat).intKey
              rw [hpage]; omega)
          have hpath : CursorPath store (descended (leavingCursor c1 lwr) pgc) :=
            CursorPath_descended store c1 lwr pgc
              (CursorPath_frame store pCur c1 (hframe c1 p4) hp)
              (by rw [hpage]; exact hleaf0) p1 (by rw [hpage]; exact p2)
              (by rw [hpage]; exact hn16)
              (by rw [hpage, f1, hb]; exact hpgc)
          obtain ⟨r, hrrun, hrpost⟩ := ih (descended (leavingCursor c1 lwr) pgc)
            (childPgno (pCur.apPage pCur.iPage.toNat) lwr.toNat) _ _
            (by show c1.pBt = pBt; rw [f1, hb])
            (by show c1.pgnoRoot = root; rw [f2, hr])
            (by show c1.eState = CURSOR_VALID; rw [f4, hs])
            hpath
            (by show c1.iPage + 1 + ((d + 1 : Nat) : Int) ≤ 20; rw [f5]; omega)
            (by
              show initPage pBt store _ = some (setAt c1.apPage (c1.iPage + 1).toNat pgc
                (c1.iPage + 1).toNat)
              unfold setAt
              rw [if_pos rfl]; exact hpgc)
            z1 z2 z3
            (fun k1 hk1 => by
              rcases hzoom k1 hk1 with h | h | h
              · exact z4 k1 h
              · right; left; omega
              · right; right; omega)
            (fun k1 hk1 => hsub k1 (z5 k1 hk1))
          refine ⟨r, fun fuel hfu => ?_, hrpost⟩
          obtain ⟨f, rfl⟩ : ∃ f, fuel = f + 1 := ⟨fuel - 1, by omega⟩
          rw [movetoLoop]
          simp only [hrun (f + 1) (by omega), hchld, if_neg hne0]
          have hm := hmove (f + 1) (by
            show c1.pBt.usableSize ≤ f + 1
            rw [f1, hb]; have := hu.2; omega)
          unfold leavingCursor at hm
          rw [hm]
          have hne : ¬ (SQLITE_OK ≠ 0) := by simp [SQLITE_OK]
          simp only [if_neg hne]
          exact hrrun f (by omega)

end Btree

namespace Btree

theorem not_stored_of_empty (pBt : BtShared) (store : PageStore) (d root : Nat) (k : Int)
    (he : EmptyTable pBt store root) : ¬ Stored pBt store d root k := by
  obtain ⟨pg, hpg, _, hleaf, hn⟩ := he
  cases d with
  | zero => exact id
  | succ d =>
    intro hs
    obtain ⟨pg1, hpg1, hs1⟩ := hs
    rw [hpg] at hpg1
    cases hpg1
    rcases hs1 with ⟨_, i, hi, _⟩ | ⟨h, _⟩
    · omega
    · exact hleaf h

/-- `moveToRoot` on a table whose root page is a table page that is not an interior page
without cells: the cursor ends on the root page, valid unless the root has no cells. -/
theorem moveToRoot_spec (store : PageStore) (pCur : BtCursor) (pg : MemPage)
    (hu : usableOk pCur.pBt.usableSize) (hfault : pCur.eState ≠ CURSOR_FAULT)
    (hki : pCur.hasKeyInfo = false)
    (hheld : 0 ≤ pCur.iPage → initPage pCur.pBt store pCur.pgnoRoot = some (pCur.apPage 0))
    (hpg : initPage pCur.pBt store pCur.pgnoRoot = some pg) (hint : pg.intKey ≠ 0)
    (hroot : ¬ (pg.nCell = 0 ∧ pg.leaf = 0)) :
    ∃ c : BtCursor,
      (∀ fuel, pCur.pBt.usableSize ≤ fuel → moveToRoot fuel store pCur = some (SQLITE_OK, c)) ∧
      c.pBt = pCur.pBt ∧ c.pgnoRoot = pCur.pgnoRoot ∧ c.iPage = 0 ∧ c.apPage 0 = pg ∧
      c.eState = (if pg.nCell > 0 then CURSOR_VALID else CURSOR_INVALID) := by
  obtain ⟨g1, g2, _, g4⟩ := initPage_getAndInitPage _ _ _ _ hu hpg
  have hf1 : ¬ (pCur.eState ≥ CURSOR_REQUIRESEEK ∧ pCur.eState = CURSOR_FAULT) :=
    fun h => hfault h.2
  have key : ∀ c0 : BtCursor, c0.pBt = pCur.pBt → c0.pgnoRoot = pCur.pgnoRoot →
      c0.hasKeyInfo = false → c0.iPage = pCur.iPage → c0.apPage = pCur.apPage →
      ∃ c : BtCursor,
      (∀ fuel, pCur.pBt.usableSize ≤ fuel →
        (if c0.iPage ≥ 0 then moveToRootTail fuel store { c0 with iPage := 0 }
         else if c0.pgnoRoot = 0 then
          some (SQLITE_OK, { c0 with eState := CURSOR_INVALID })
         else
          match getAndInitPage fuel c0.pBt store c0.pgnoRoot (c0.apPage 0) with
          | none => none
          | some (rc, pg) =>
            if rc ≠ SQLITE_OK then
              some (rc, { c0 with apPage := setAt c0.apPage 0 pg, eState := CURSOR_INVALID })
            else
              if (if ({ c0 with apPage := setAt c0.apPage 0 pg, iPage := 0 } : BtCursor).hasKeyInfo
                  then 0 else 1) ≠ pg.intKey then
                some (SQLITE_CORRUPT, { c0 with apPage := setAt c0.apPage 0 pg, iPage := 0 })
              else moveToRootTail fuel store
                { c0 with apPage := setAt c0.apPage 0 pg, iPage := 0 }) =
          some (SQLITE_OK, c)) ∧
      c.pBt = pCur.pBt ∧ c.pgnoRoot = pCur.pgnoRoot ∧ c.iPage = 0 ∧ c.apPage 0 = pg ∧
      c.eState = (if pg.nCell > 0 then CURSOR_VALID else CURSOR_INVALID) := by
    intro c0 e1 e2 e3 e4 e5
    by_cases hip : c0.iPage ≥ 0
    · have hroot0 : c0.apPage 0 = pg := by
        have := hheld (by rw [← e4]; exact hip)
        rw [hpg] at this
        rw [e5]
        exact (Option.some.inj this).symm
      refine ⟨{ c0 with
          iPage := 0
          aiIdx := setAt c0.aiIdx 0 0
          info := { c0.info with nSize := 0 }
          atLast := false
          validNKey := false
          eState := if pg.nCell > 0 then CURSOR_VALID else CURSOR_INVALID },
        fun fuel hf => ?_, ?_⟩
      · rw [if_pos hip]
        unfold moveToRootTail
        simp only [hroot0, if_neg hroot]
      · exact ⟨e1, e2, rfl, hroot0, rfl⟩
    · refine ⟨{ c0 with
          iPage := 0
          apPage := setAt c0.apPage 0 pg
          aiIdx := setAt c0.aiIdx 0 0
          info := { c0.info with nSize := 0 }
          atLast := false
          validNKey := false
          eState := if pg.nCell > 0 then CURSOR_VALID else CURSOR_INVALID },
        fun fuel hf => ?_, ?_⟩
      · rw [if_neg hip, if_neg (by rw [e2]; exact g2), e1, e2, g1 fuel _ hf]
        have hne : ¬ (SQLITE_OK ≠ SQLITE_OK) := fun h => h rfl
        simp only [if_neg hne, e3, Bool.false_eq_true, if_false]
        have hik : ¬ (1 ≠ pg.intKey) := by omega
        rw [if_neg hik]
        unfold moveToRootTail
        have hz : setAt c0.apPage 0 pg 0 = pg := by unfold setAt; rw [if_pos rfl]
        simp only [hz, if_neg hroot]
      · refine ⟨e1, e2, rfl, ?_, rfl⟩
        show setAt c0.apPage 0 pg 0 = pg
        unfold setAt; rw [if_pos rfl]
  by_cases hrs : pCur.eState ≥ CURSOR_REQUIRESEEK
  · obtain ⟨c, k1, k2⟩ := key (sqlite3BtreeClearCursor pCur) rfl rfl hki rfl rfl
    refine ⟨c, fun fuel hf => ?_, k2⟩
    unfold moveToRoot
    rw [if_neg hf1]
    simp only [if_pos hrs]
    exact k1 fuel hf
  · obtain ⟨c, k1, k2⟩ := key pCur rfl rfl hki rfl rfl
    refine ⟨c, fun fuel hf => ?_, k2⟩
    unfold moveToRoot
    rw [if_neg hf1]
    simp only [if_neg hrs]
    exact k1 fuel hf

/-- The seek on a table B-tree of at most 20 levels (or an empty table), from a cursor
the seek can rely on: it returns `SQLITE_OK`; `*pRes = 0` exactly if the key is stored,
with the cursor on it; otherwise the cursor is on the neighbouring stored key that `*pRes`
indicates; on an empty table `*pRes < 0` and the cursor is invalid. -/
theorem moveto_spec (store : PageStore) (pCur : BtCursor) (d : Nat)
    (idxCmp : MemPage → Nat → Nat × Int) (k : Int) (biasRight : Bool) (res : Int)
    (hu : usableOk pCur.pBt.usableSize) (hd : d ≤ 20) (hk1 : I64_MIN ≤ k) (hk2 : k ≤ I64_MAX)
    (ht : EmptyTable pCur.pBt store pCur.pgnoRoot ∨
      TableTree pCur.pBt store d pCur.pgnoRoot (I64_MIN - 1) I64_MAX)
    (hc : CursorReady store d pCur) :
    ∃ r : Int × BtCursor,
      (∀ fuel, 65556 ≤ fuel →
        sqlite3BtreeMovetoUnpacked fuel store pCur idxCmp k biasRight res =
          some (SQLITE_OK, r.1, r.2)) ∧
      (r.1 = 0 ↔ Stored pCur.pBt store d pCur.pgnoRoot k) ∧
      (r.1 = 0 → CursorAt store r.2 k) ∧
      (EmptyTable pCur.pBt store pCur.pgnoRoot → r.1 < 0 ∧ r.2.eState = CURSOR_INVALID) ∧
      (¬ EmptyTable pCur.pBt store pCur.pgnoRoot → r.1 ≠ 0 →
        ∃ e, CursorAt store r.2 e ∧ Stored pCur.pBt store d pCur.pgnoRoot e ∧
          (r.1 < 0 → e < k ∧
            ∀ k1, Stored pCur.pBt store d pCur.pgnoRoot k1 → k1 < k → k1 ≤ e) ∧
          (0 < r.1 → k < e ∧
            ∀ k1, Stored pCur.pBt store d pCur.pgnoRoot k1 → k < k1 → e ≤ k1)) := by
  obtain ⟨c1, c2, c3, c4⟩ := hc
  have hm1 : ¬ ((-1 : Int) = 0) := by decide
  have hm2 : ¬ (0 < (-1 : Int)) := by decide
  have hm3 : (-1 : Int) < 0 := by decide
  by_cases hfast1 : pCur.eState = CURSOR_VALID ∧ pCur.validNKey = true ∧
      (pCur.apPage 0).intKey ≠ 0 ∧ pCur.info.nKey = k
  · obtain ⟨a1, a2, a3⟩ := c4 hfast1.1 hfast1.2.1
    rw [hfast1.2.2.2] at a1 a2
    refine ⟨(0, pCur), fun fuel _ => ?_, ⟨fun _ => a2, fun _ => rfl⟩, fun _ => a1,
      fun he => absurd a2 (not_stored_of_empty _ _ _ _ _ he), fun _ h => absurd rfl h⟩
    unfold sqlite3BtreeMovetoUnpacked
    rw [if_pos hfast1]
  · by_cases hfast2 : pCur.eState = CURSOR_VALID ∧ pCur.validNKey = true ∧
        (pCur.apPage 0).intKey ≠ 0 ∧ pCur.atLast = true ∧ pCur.info.nKey < k
    · obtain ⟨a1, a2, a3⟩ := c4 hfast2.1 hfast2.2.1
      have hlast := a3 hfast2.2.2.2.1
      have hlt := hfast2.2.2.2.2
      have hns : ¬ Stored pCur.pBt store d pCur.pgnoRoot k := by
        intro h
        have := hlast k h
        omega
      refine ⟨(-1, pCur), fun fuel _ => ?_,
        ⟨fun h => absurd h hm1, fun h => absurd h hns⟩,
        fun h => absurd h hm1,
        fun he => absurd a2 (not_stored_of_empty _ _ _ _ _ he),
        fun _ _ => ⟨_, a1, a2, fun _ => ⟨hlt, fun k1 hk _ => hlast k1 hk⟩,
          fun h => absurd h hm2⟩⟩
      unfold sqlite3BtreeMovetoUnpacked
      rw [if_neg hfast1, if_pos hfast2]
    · have hroot : ∃ pg, initPage pCur.pBt store pCur.pgnoRoot = some pg ∧ pg.intKey ≠ 0 ∧
          ¬ (pg.nCell = 0 ∧ pg.leaf = 0) := by
        rcases ht with ⟨pg, h1, h2, h3, h4⟩ | ht
        · exact ⟨pg, h1, h2, fun h => h3 h.2⟩
        · cases d with
          | zero => exact absurd ht id
          | succ d =>
            obtain ⟨pg, h1, h2, h3, _⟩ := ht
            exact ⟨pg, h1, h2, fun h => by omega⟩
      obtain ⟨pg, hpg, hint, hnr⟩ := hroot
      obtain ⟨c, m1, m2, m3, m4, m5, m6⟩ := moveToRoot_spec store pCur pg hu c1 c2 c3 hpg hint hnr
      have hne : ¬ (SQLITE_OK ≠ 0) := by simp [SQLITE_OK]
      rcases ht with he | ht
      · -- empty table
        have hn0 : pg.nCell = 0 := by
          obtain ⟨pg1, h1, _, _, h4⟩ := he
          rw [hpg] at h1
          cases h1
          exact h4
        have hst : c.eState = CURSOR_INVALID := by
          rw [m6, if_neg (by omega)]
        refine ⟨(-1, c), fun fuel hf => ?_,
          ⟨fun h => absurd h hm1,
            fun h => absurd h (not_stored_of_empty _ _ _ _ _ he)⟩,
          fun h => absurd h hm1, fun _ => ⟨hm3, hst⟩, fun h => absurd he h⟩
        unfold sqlite3BtreeMovetoUnpacked
        rw [if_neg hfast1, if_neg hfast2, m1 fuel (by have := hu.2; omega)]
        simp only [if_neg hne, if_pos hst]
      · -- non-empty table
        have hn1 : 1 ≤ pg.nCell := by
          cases d with
          | zero => exact absurd ht id
          | succ d =>
            obtain ⟨pg1, h1, _, h3, _⟩ := ht
            rw [hpg] at h1
            cases h1
            exact h3
        have hnot : ¬ EmptyTable pCur.pBt store pCur.pgnoRoot := by
          intro he
          obtain ⟨pg1, h1, _, _, h4⟩ := he
          rw [hpg] at h1
          cases h1
          omega
        have hst : c.eState = CURSOR_VALID := by
          rw [m6, if_pos (by omega)]
        have hni : ¬ (c.eState = CURSOR_INVALID) := by
          rw [hst]; decide
        obtain ⟨r, r1, r2, r3, r4⟩ := movetoLoop_spec store idxCmp k biasRight res pCur.pBt d
          pCur.pgnoRoot hu d c pCur.pgnoRoot (I64_MIN - 1) I64_MAX m2 m3 hst
          ⟨by rw [m4], by rw [m2, m3, m5]; exact hpg, fun j hj => by rw [m4] at hj; simp at hj⟩
          (by rw [m4]; omega)
          (by rw [m4]; show initPage pCur.pBt store pCur.pgnoRoot = some (c.apPage 0)
              rw [m5]; exact hpg)
          ht (by omega) hk2 (fun k1 h => Or.inl h) (fun k1 h => h)
        refine ⟨r, fun fuel hf => ?_, r2, r3, fun he => absurd he hnot, fun _ => r4⟩
        unfold sqlite3BtreeMovetoUnpacked
        rw [if_neg hfast1, if_neg hfast2, m1 fuel (by have := hu.2; omega)]
        simp only [if_neg hne, if_neg hni]
        exact r1 fuel (by omega)

end Btree

namespace Btree

/-- C2 (seek by key, amended).  For every table B-tree of at most 20 levels: all pages
initialise without error and hold at least one cell, keys ascend strictly on every page and
the keys below child `i` lie above divider `i - 1` and at or below divider `i` (or the table
is empty: its root is a leaf without cells); for every 64-bit key `k` and every cursor the
seek can rely on (`CursorReady`): `sqlite3BtreeMovetoUnpacked` terminates with `SQLITE_OK`,
`*pRes = 0` exactly when `k` is stored in the tree, then with the cursor on that entry;
when `k` is absent from a non-empty tree the cursor is valid on a stored leaf entry `e`,
the largest stored key below `k` if `*pRes < 0` and the smallest stored key above `k` if
`*pRes > 0`; on the empty table `*pRes < 0` and the cursor is invalid. -/
theorem sqlite3BtreeMovetoUnpacked_seek (store : PageStore) (pCur : BtCursor) (d : Nat)
    (idxCmp : MemPage → Nat → Nat × Int) (k : Int) (biasRight : Bool) (res : Int)
    (hu : usableOk pCur.pBt.usableSize) (hd : d ≤ 20) (hk1 : I64_MIN ≤ k) (hk2 : k ≤ I64_MAX)
    (ht : EmptyTable pCur.pBt store pCur.pgnoRoot ∨
      TableTree pCur.pBt store d pCur.pgnoRoot (I64_MIN - 1) I64_MAX)
    (hc : CursorReady store d pCur) :
    ∃ r : Int × BtCursor,
      (∀ fuel, 65556 ≤ fuel →
        sqlite3BtreeMovetoUnpacked fuel store pCur idxCmp k biasRight res =
          some (SQLITE_OK, r.1, r.2)) ∧
      (r.1 = 0 ↔ Stored pCur.pBt store d pCur.pgnoRoot k) ∧
      (r.1 = 0 → CursorAt store r.2 k) ∧
      (EmptyTable pCur.pBt store pCur.pgnoRoot → r.1 < 0 ∧ r.2.eState = CURSOR_INVALID) ∧
      (¬ EmptyTable pCur.pBt store pCur.pgnoRoot → r.1 ≠ 0 →
        ∃ e, CursorAt store r.2 e ∧ Stored pCur.pBt store d pCur.pgnoRoot e ∧
          (r.1 < 0 → e < k ∧
            ∀ k1, Stored pCur.pBt store d pCur.pgnoRoot k1 → k1 < k → k1 ≤ e) ∧
          (0 < r.1 → k < e ∧
            ∀ k1, Stored pCur.pBt store d pCur.pgnoRoot k1 → k < k1 → e ≤ k1)) :=
  moveto_spec store pCur d idxCmp k biasRight res hu hd hk1 hk2 ht hc

set_option maxRecDepth 100000 in
/-- Witness for C2: the two-level example table (keys 5, 10, 20, 30) with a freshly opened
cursor and the absent key 7; the seek stops on key 10 with `*pRes = 1`. -/
theorem sqlite3BtreeMovetoUnpacked_seek_witness :
    (usableOk (freshCursor exBt1024 2).pBt.usableSize ∧
      TableTree exBt1024 exStore 2 2 (I64_MIN - 1) I64_MAX ∧
      CursorReady exStore 2 (freshCursor exBt1024 2) ∧
      ¬ Stored exBt1024 exStore 2 2 7 ∧
      (sqlite3BtreeMovetoUnpacked 65556 exStore (freshCursor exBt1024 2)
        (fun _ _ => (0, 0)) 7 false 0).map
          (fun r => (r.1, r.2.1, cellKey (r.2.2.apPage r.2.2.iPage.toNat)
            (r.2.2.aiIdx r.2.2.iPage.toNat))) = some (SQLITE_OK, 1, 10)) ∧
    ∃ r : Int × BtCursor,
      (∀ fuel, 65556 ≤ fuel →
        sqlite3BtreeMovetoUnpacked fuel exStore (freshCursor exBt1024 2) (fun _ _ => (0, 0)) 7
          false 0 = some (SQLITE_OK, r.1, r.2)) ∧
      (r.1 = 0 ↔ Stored exBt1024 exStore 2 2 7) ∧
      (r.1 = 0 → CursorAt exStore r.2 7) ∧
      (EmptyTable exBt1024 exStore 2 → r.1 < 0 ∧ r.2.eState = CURSOR_INVALID) ∧
      (¬ EmptyTable exBt1024 exStore 2 → r.1 ≠ 0 →
        ∃ e, CursorAt exStore r.2 e ∧ Stored exBt1024 exStore 2 2 e ∧
          (r.1 < 0 → e < 7 ∧ ∀ k1, Stored exBt1024 exStore 2 2 k1 → k1 < 7 → k1 ≤ e) ∧
          (0 < r.1 → 7 < e ∧ ∀ k1, Stored exBt1024 exStore 2 2 k1 → 7 < k1 → e ≤ k1)) :=
  ⟨⟨by decide, by decide,
      ⟨by decide, rfl, fun h => absurd h (by decide), fun h => absurd h (by decide)⟩,
      by decide, by decide⟩,
    sqlite3BtreeMovetoUnpacked_seek exStore (freshCursor exBt1024 2) 2 (fun _ _ => (0, 0)) 7
      false 0 (by decide) (by decide) (by decide) (by decide) (Or.inr (by decide))
      ⟨by decide, rfl, fun h => absurd h (by decide), fun h => absurd h (by decide)⟩⟩

set_option maxRecDepth 100000 in
/-- Counterexample to C2 as stated: a table of 21 levels whose pages all initialise and
satisfy the key order stores key 50, yet the seek for 50 from a freshly opened cursor
returns `SQLITE_CORRUPT` at the twentieth page of the path and leaves `*pRes` (here 7)
unwritten. -/
theorem sqlite3BtreeMovetoUnpacked_depth_counterexample :
    TableTree exBt1024 exDeepStore 21 2 (I64_MIN - 1) I64_MAX ∧
    Stored exBt1024 exDeepStore 21 2 50 ∧
    CursorReady exDeepStore 21 (freshCursor exBt1024 2) ∧
    (sqlite3BtreeMovetoUnpacked 65556 exDeepStore (freshCursor exBt1024 2)
      (fun _ _ => (0, 0)) 50 false 7).map (fun r => (r.1, r.2.1, r.2.2.iPage)) =
        some (SQLITE_CORRUPT, 7, 19) :=
  ⟨by decide, by decide,
    ⟨by decide, rfl, fun h => absurd h (by decide), fun h => absurd h (by decide)⟩,
    by decide⟩

end Btree

namespace Btree

/-! ## Varint round trip -/

theorem varintByte_lt (v n i : Nat) : varintByte v n i < 256 := by
  unfold varintByte
  split
  · split
    · exact Nat.mod_lt _ (by norm_num)
    · have := Nat.mod_lt (v / (256 * 128 ^ (7 - i))) (show 0 < 128 by norm_num)
      omega
  · have := Nat.mod_lt (v / 128 ^ (n - 1 - i)) (show 0 < 128 by norm_num)
    split <;> omega

theorem varintLen_bounds (v : Nat) : 1 ≤ varintLen v ∧ varintLen v ≤ 9 := by
  unfold varintLen
  split_ifs <;> omega

theorem varintLen_spec (v : Nat) :
    (varintLen v ≤ 8 ∧ v < 128 ^ varintLen v) ∨ (varintLen v = 9 ∧ 72057594037927936 ≤ v) := by
  unfold varintLen
  split_ifs
  · left; norm_num; omega
  · left; norm_num; omega
  · left; norm_num; omega
  · left; norm_num; omega
  · left; norm_num; omega
  · left; norm_num; omega
  · left; norm_num; omega
  · left; norm_num; omega
  · right; omega

/-- Reading a varint of at most 8 bytes whose bytes are those of `v`. -/
theorem getVarintAux_short (d : Bytes) (p v n : Nat) (hn8 : n ≤ 8)
    (hb : ∀ i, i < n → getByte d (p + i) = varintByte v n i) :
    ∀ (m k j : Nat), j + m + 1 = n → m < k →
      getVarintAux d p k j (v / 128 ^ (m + 1)) = (n, v) := by
  intro m
  induction m with
  | zero =>
    intro k j hj hk
    obtain ⟨k1, rfl⟩ : ∃ k1, k = k1 + 1 := ⟨k - 1, by omega⟩
    have hbyte := hb j (by omega)
    have hvb : varintByte v n j = v % 128 := by
      unfold varintByte
      rw [if_neg (by omega), if_neg (by omega)]
      have : n - 1 - j = 0 := by omega
      rw [this]; simp
    rw [hvb] at hbyte
    have hlt : v % 128 < 128 := Nat.mod_lt _ (by norm_num)
    rw [getVarintAux, hbyte, if_pos hlt]
    simp only [zero_add, pow_one]
    rw [show j + 1 = n by omega, Nat.div_add_mod']
  | succ m ih =>
    intro k j hj hk
    obtain ⟨k1, rfl⟩ : ∃ k1, k = k1 + 1 := ⟨k - 1, by omega⟩
    have hbyte := hb j (by omega)
    have hvb : varintByte v n j = v / 128 ^ (m + 1) % 128 + 128 := by
      unfold varintByte
      rw [if_neg (by omega), if_pos (by omega)]
      have : n - 1 - j = m + 1 := by omega
      rw [this]
    rw [hvb] at hbyte
    have hge : ¬ (v / 128 ^ (m + 1) % 128 + 128 < 128) := by omega
    rw [getVarintAux, hbyte, if_neg hge]
    have hacc : v / 128 ^ (m + 1 + 1) * 128 + (v / 128 ^ (m + 1) % 128 + 128 - 128) =
        v / 128 ^ (m + 1) := by
      have e1 : v / 128 ^ (m + 1 + 1) = v / 128 ^ (m + 1) / 128 := by
        rw [pow_succ, Nat.div_div_eq_div_mul]
      rw [e1]
      have := Nat.div_add_mod (v / 128 ^ (m + 1)) 128
      omega
    rw [hacc, ih k1 (j + 1) (by omega) (by omega)]

/-- Reading a 9-byte varint whose bytes are those of `v`. -/
theorem getVarintAux_long (d : Bytes) (p v : Nat)
    (hb : ∀ i, i < 9 → getByte d (p + i) = varintByte v 9 i) :
    ∀ (m j : Nat), j + m = 8 →
      getVarintAux d p m j (v / (256 * 128 ^ m)) = (9, v) := by
  intro m
  induction m with
  | zero =>
    intro j hj
    have hbyte := hb j (by omega)
    have hvb : varintByte v 9 j = v % 256 := by
      unfold varintByte
      rw [if_pos rfl, if_pos (by omega)]
    rw [hvb] at hbyte
    rw [getVarintAux, hbyte]
    simp only [pow_zero, mul_one]
    rw [show j + 1 = 9 by omega, Nat.div_add_mod']
  | succ m ih =>
    intro j hj
    have hbyte := hb j (by omega)
    have hvb : varintByte v 9 j = v / (256 * 128 ^ m) % 128 + 128 := by
      unfold varintByte
      rw [if_pos rfl, if_neg (by omega)]
      have : 7 - j = m := by omega
      rw [this]
    rw [hvb] at hbyte
    have hge : ¬ (v / (256 * 128 ^ m) % 128 + 128 < 128) := by omega
    rw [getVarintAux, hbyte, if_neg hge]
    have hacc : v / (256 * 128 ^ (m + 1)) * 128 + (v / (256 * 128 ^ m) % 128 + 128 - 128) =
        v / (256 * 128 ^ m) := by
      have e1 : v / (256 * 128 ^ (m + 1)) = v / (256 * 128 ^ m) / 128 := by
        rw [pow_succ, ← Nat.mul_assoc, Nat.div_div_eq_div_mul]
      rw [e1]
      have := Nat.div_add_mod (v / (256 * 128 ^ m)) 128
      omega
    rw [hacc, ih (j + 1) (by omega)]

/-- A buffer that holds the varint of `v` at `p` reads back as `v`. -/
theorem getVarint_of_bytes (d : Bytes) (p v : Nat) (hv : v < 18446744073709551616)
    (hb : ∀ i, i < varintLen v → getByte d (p + i) = varintByte v (varintLen v) i) :
    getVarint d p = (varintLen v, v) := by
  unfold getVarint
  rcases varintLen_spec v with ⟨h8, hlt⟩ | ⟨h9, hge⟩
  · have h1 := (varintLen_bounds v).1
    have := getVarintAux_short d p v (varintLen v) h8 hb (varintLen v - 1) 8 0 (by omega) (by omega)
    rw [show varintLen v - 1 + 1 = varintLen v by omega] at this
    rw [Nat.div_eq_of_lt hlt] at this
    exact this
  · rw [h9] at hb
    have := getVarintAux_long d p v hb 8 0 (by omega)
    have hlt : v < 256 * 128 ^ 8 := by norm_num; omega
    rw [Nat.div_eq_of_lt hlt] at this
    rw [this, h9]

theorem putVarint_len (d : Bytes) (p v : Nat) :
    (putVarint d p v).1 = varintLen (v % 18446744073709551616) := rfl

theorem putVarint_other (d : Bytes) (p v j : Nat)
    (h : j < p ∨ p + (putVarint d p v).1 ≤ j) : (putVarint d p v).2 j = d j := by
  rw [putVarint_len] at h
  unfold putVarint
  simp only
  rw [if_neg (by omega)]

theorem putVarint_byte (d : Bytes) (p v i : Nat) (h : i < (putVarint d p v).1) :
    getByte (putVarint d p v).2 (p + i) =
      varintByte (v % 18446744073709551616) (varintLen (v % 18446744073709551616)) i := by
  rw [putVarint_len] at h
  unfold putVarint getByte
  simp only
  rw [if_pos (by omega), show p + i - p = i by omega]
  exact Nat.mod_eq_of_lt (varintByte_lt _ _ _)

/-- The bytes of a varint determine what `getVarint` reads. -/
theorem getVarintAux_congr (d e : Bytes) (p q : Nat) :
    ∀ (k i acc : Nat),
      (∀ j, i ≤ j → j < (getVarintAux d p k i acc).1 → getByte e (q + j) = getByte d (p + j)) →
      getVarintAux e q k i acc = getVarintAux d p k i acc := by
  intro k
  induction k with
  | zero =>
    intro i acc h
    have := h i (le_refl _) (by simp [getVarintAux])
    simp only [getVarintAux, this]
  | succ k ih =>
    intro i acc h
    by_cases hlt : getByte d (p + i) < 128
    · have hi := h i (le_refl _) (by rw [getVarintAux, if_pos hlt]; simp)
      rw [getVarintAux, getVarintAux, hi, if_pos hlt, if_pos hlt]
    · have hlen : i + 1 ≤ (getVarintAux d p (k + 1) i acc).1 := by
        rw [getVarintAux, if_neg hlt]
        have := getVarintAux_len d p k (i + 1) (acc * 128 + (getByte d (p + i) - 128))
        omega
      have hi := h i (le_refl _) (by omega)
      rw [getVarintAux, getVarintAux, hi, if_neg hlt, if_neg hlt]
      apply ih
      intro j hj1 hj2
      apply h j (by omega)
      rw [getVarintAux, if_neg hlt]
      exact hj2

theorem getVarint_congr (d e : Bytes) (p q : Nat)
    (h : ∀ j, j < (getVarint d p).1 → getByte e (q + j) = getByte d (p + j)) :
    getVarint e q = getVarint d p := by
  unfold getVarint at *
  exact getVarintAux_congr d e p q 8 0 0 (fun j _ hj => h j hj)

end Btree

namespace Btree

/-! ## The cell header written by `fillInCell` -/

theorem getVarint32_congr (d e : Bytes) (p q : Nat)
    (h : ∀ j, j < (getVarint32 d p).1 → getByte e (q + j) = getByte d (p + j)) :
    getVarint32 e q = getVarint32 d p := by
  have hg : getVarint e q = getVarint d p := getVarint_congr d e p q h
  simp only [getVarint32, hg]

/-- The cell parser reads nothing but the header bytes: two buffers that agree on the
header of a cell parse alike on pages of the same kind. -/
theorem btreeParseCellPtr_congr (a b : MemPage) (d e : Bytes) (p q : Nat)
    (hk : SameKind a b) (hc : b.childPtrSize ≤ 4)
    (hbytes : ∀ j, j < cellHeaderSize b d p → getByte e (q + j) = getByte d (p + j)) :
    (btreeParseCellPtr a e q).nKey = (btreeParseCellPtr b d p).nKey ∧
    (btreeParseCellPtr a e q).nData = (btreeParseCellPtr b d p).nData ∧
    (btreeParseCellPtr a e q).nPayload = (btreeParseCellPtr b d p).nPayload ∧
    (btreeParseCellPtr a e q).nHeader = (btreeParseCellPtr b d p).nHeader ∧
    (btreeParseCellPtr a e q).nLocal = (btreeParseCellPtr b d p).nLocal ∧
    (btreeParseCellPtr a e q).iOverflow = (btreeParseCellPtr b d p).iOverflow ∧
    (btreeParseCellPtr a e q).nSize = (btreeParseCellPtr b d p).nSize ∧
    (btreeParseCellPtr a e q).pCell = q := by
  obtain ⟨k1, k2, k3, k4, k5, k6⟩ := hk
  have l1 := getVarint32_len d (p + b.childPtrSize)
  have e8 : u8 (getVarint32 d (p + b.childPtrSize)).1 = (getVarint32 d (p + b.childPtrSize)).1 :=
    u8_eq (by omega)
  have e16 : u16 (b.childPtrSize + (getVarint32 d (p + b.childPtrSize)).1) =
      b.childPtrSize + (getVarint32 d (p + b.childPtrSize)).1 := u16_eq (by omega)
  -- the payload-size varint, when the page has one
  have g1 : (b.intKey = 0 ∨ b.hasData ≠ 0) →
      getVarint32 e (q + b.childPtrSize) = getVarint32 d (p + b.childPtrSize) := by
    intro hcase
    apply getVarint32_congr
    intro j hj
    have hh : b.childPtrSize + (getVarint32 d (p + b.childPtrSize)).1 ≤ cellHeaderSize b d p := by
      unfold cellHeaderSize
      simp only [e8, e16]
      rcases hcase with h0 | h1
      · simp [h0]
      · by_cases hik : b.intKey ≠ 0
        · simp only [if_pos hik, if_pos h1]
          have l2 := getVarint_len d (p + (b.childPtrSize + (getVarint32 d (p + b.childPtrSize)).1))
          rw [u8_eq (by omega), u16_eq (by omega)]
          omega
        · simp [hik]
    have := hbytes (b.childPtrSize + j) (by omega)
    rw [← Nat.add_assoc, ← Nat.add_assoc] at this
    exact this
  -- the key varint of a table page
  have g2 : b.intKey ≠ 0 →
      getVarint e (q + (if b.hasData ≠ 0 then
          u16 (b.childPtrSize + u8 (getVarint32 d (p + b.childPtrSize)).1) else b.childPtrSize)) =
      getVarint d (p + (if b.hasData ≠ 0 then
          u16 (b.childPtrSize + u8 (getVarint32 d (p + b.childPtrSize)).1) else b.childPtrSize)) := by
    intro hik
    apply getVarint_congr
    intro j hj
    have l2 := getVarint_len d (p + (if b.hasData ≠ 0 then
          u16 (b.childPtrSize + u8 (getVarint32 d (p + b.childPtrSize)).1) else b.childPtrSize))
    have hh : (if b.hasData ≠ 0 then
          u16 (b.childPtrSize + u8 (getVarint32 d (p + b.childPtrSize)).1) else b.childPtrSize) +
        (getVarint d (p + (if b.hasData ≠ 0 then
          u16 (b.childPtrSize + u8 (getVarint32 d (p + b.childPtrSize)).1) else b.childPtrSize))).1 ≤
        cellHeaderSize b d p := by
      unfold cellHeaderSize
      simp only [if_pos hik]
      by_cases hd : b.hasData ≠ 0
      · simp only [if_pos hd] at l2 ⊢
        simp only [e8, e16] at l2 ⊢
        rw [u8_eq (by omega), u16_eq (by omega)]
      · simp only [if_neg hd] at l2 ⊢
        rw [u8_eq (by omega), u16_eq (by omega)]
    have := hbytes ((if b.hasData ≠ 0 then
          u16 (b.childPtrSize + u8 (getVarint32 d (p + b.childPtrSize)).1) else b.childPtrSize) + j)
      (by omega)
    rw [← Nat.add_assoc, ← Nat.add_assoc] at this
    exact this
  by_cases hik : b.intKey ≠ 0
  · have hika : a.intKey ≠ 0 := by rw [k2]; exact hik
    by_cases hd : b.hasData ≠ 0
    · have hda : a.hasData ≠ 0 := by rw [k3]; exact hd
      have g1' := g1 (Or.inr hd)
      have g2' := g2 hik
      simp only [if_pos hd] at g2'
      simp only [btreeParseCellPtr, if_pos hik, if_pos hika, if_pos hd, if_pos hda, k1, k4, k5, k6,
        g1', g2']
      split <;> simp
    · have hda : ¬ a.hasData ≠ 0 := by rw [k3]; exact hd
      have g2' := g2 hik
      simp only [if_neg hd] at g2'
      simp only [btreeParseCellPtr, if_pos hik, if_pos hika, if_neg hd, if_neg hda, k1, k4, k5, k6,
        g2']
      split <;> simp
  · have hika : ¬ a.intKey ≠ 0 := by rw [k2]; exact hik
    have g1' := g1 (Or.inl (by simpa using hik))
    simp only [btreeParseCellPtr, if_neg hik, if_neg hika, k1, k4, k5, k6, g1']
    split <;> simp

end Btree

namespace Btree

/-! ## The pointer map -/

theorem get4byte_put4byte (d : Bytes) (i v : Nat) :
    get4byte (put4byte d i v) i = v % 4294967296 := by
  unfold get4byte put4byte getByte setByte
  simp
  omega

theorem get4byte_congr {d e : Bytes} {i : Nat} (h : ∀ j, i ≤ j → j < i + 4 → e j = d j) :
    get4byte e i = get4byte d i := by
  unfold get4byte getByte
  rw [h i (by omega) (by omega), h (i + 1) (by omega) (by omega),
    h (i + 2) (by omega) (by omega), h (i + 3) (by omega) (by omega)]

theorem PENDING_BYTE_PAGE_lt (pBt : BtShared) : PENDING_BYTE_PAGE pBt < 4294967295 := by
  have h : PENDING_BYTE / pBt.pageSize ≤ 1073741824 := Nat.div_le_self _ _
  have h2 : (PENDING_BYTE / pBt.pageSize + 1) % 4294967296 ≤ PENDING_BYTE / pBt.pageSize + 1 :=
    Nat.mod_le _ _
  unfold PENDING_BYTE_PAGE u32
  exact Nat.lt_of_le_of_lt h2 (Nat.lt_of_le_of_lt (Nat.succ_le_succ h) (by decide))

/-- On a 32-bit page number of at least 2, `ptrmapPageno` is the start of the block of
`usableSize/5 + 1` pages that holds the page, moved one up when that start is the
pending-byte page. -/
theorem ptrmapPageno_eq (pBt : BtShared) (pgno : Nat) (h2 : 2 ≤ pgno)
    (h32 : pgno < 4294967296) :
    ptrmapPageno pBt pgno =
      (if (pgno - 2) / (pBt.usableSize / 5 + 1) * (pBt.usableSize / 5 + 1) + 2
            = PENDING_BYTE_PAGE pBt
        then (pgno - 2) / (pBt.usableSize / 5 + 1) * (pBt.usableSize / 5 + 1) + 2 + 1
        else (pgno - 2) / (pBt.usableSize / 5 + 1) * (pBt.usableSize / 5 + 1) + 2) := by
  have hle : (pgno - 2) / (pBt.usableSize / 5 + 1) * (pBt.usableSize / 5 + 1) ≤ pgno - 2 :=
    Nat.div_mul_le_self _ _
  have hpb := PENDING_BYTE_PAGE_lt pBt
  unfold ptrmapPageno
  rw [if_neg (by omega)]
  simp only []
  rw [u32_eq (by omega)]
  split
  · rw [u32_eq (by omega)]
  · rfl

theorem block_div (n i j : Nat) (hj : j < n) : (i * n + 2 + j - 2) / n = i := by
  have hn : 0 < n := by omega
  have e : i * n + 2 + j - 2 = j + i * n := by omega
  rw [e, Nat.add_mul_div_right _ _ hn, Nat.div_eq_of_lt hj]
  omega

/-- The layout of the pointer-map pages. -/
theorem ptrmapPageno_layout_spec (pBt : BtShared) (i : Nat)
    (h32 : (i + 1) * (pBt.usableSize / 5 + 1) + 2 < 4294967296)
    (hp : i * (pBt.usableSize / 5 + 1) + 2 ≠ PENDING_BYTE_PAGE pBt)
    (hq : (i + 1) * (pBt.usableSize / 5 + 1) + 2 ≠ PENDING_BYTE_PAGE pBt) :
    (∀ j, j < pBt.usableSize / 5 + 1 →
        ptrmapPageno pBt (i * (pBt.usableSize / 5 + 1) + 2 + j)
          = i * (pBt.usableSize / 5 + 1) + 2) ∧
      ptrmapPageno pBt ((i + 1) * (pBt.usableSize / 5 + 1) + 2)
        = (i + 1) * (pBt.usableSize / 5 + 1) + 2 ∧
      (∀ pgno, pgno < 2 → ptrmapPageno pBt pgno = 0) := by
  have hexp : (i + 1) * (pBt.usableSize / 5 + 1)
      = i * (pBt.usableSize / 5 + 1) + (pBt.usableSize / 5 + 1) := by ring
  refine ⟨fun j hj => ?_, ?_, fun pgno h => ?_⟩
  · rw [ptrmapPageno_eq pBt _ (by omega) (by omega), block_div _ _ _ hj, if_neg hp]
  · have h := block_div (pBt.usableSize / 5 + 1) (i + 1) 0 (by omega)
    rw [ptrmapPageno_eq pBt _ (by omega) (by omega)]
    simp only [Nat.add_zero] at h
    rw [h, if_neg hq]
  · unfold ptrmapPageno
    rw [if_pos h]

/-- A page number of at least 3 that is neither a pointer-map page nor the pending-byte
page lies strictly after its pointer-map page. -/
theorem ptrmapPageno_lt (pBt : BtShared) (key : Nat) (hk : 3 ≤ key) (h32 : key < 4294967296)
    (hnm : PTRMAP_ISPAGE pBt key = false) (hnp : key ≠ PENDING_BYTE_PAGE pBt) :
    2 ≤ ptrmapPageno pBt key ∧ ptrmapPageno pBt key < key := by
  have hle : (key - 2) / (pBt.usableSize / 5 + 1) * (pBt.usableSize / 5 + 1) ≤ key - 2 :=
    Nat.div_mul_le_self _ _
  have hne : ptrmapPageno pBt key ≠ key := by
    unfold PTRMAP_ISPAGE at hnm
    simpa using hnm
  rw [ptrmapPageno_eq pBt key (by omega) h32] at hne ⊢
  split
  · rename_i h
    rw [if_pos h] at hne
    omega
  · rename_i h
    rw [if_neg h] at hne
    omega

/-- What `ptrmapPut` stores is what `ptrmapGet` reads, and no other entry moves. -/
theorem ptrmapPut_spec (pBt : BtShared) (s : DbState) (key t parent : Nat)
    (ht1 : 1 ≤ t) (ht5 : t ≤ 5) (hp : parent < 4294967296)
    (hok : (ptrmapPut pBt s key t parent 0).2 = SQLITE_OK) :
    ptrmapGet pBt (ptrmapPut pBt s key t parent 0).1.page key = (SQLITE_OK, t, parent) ∧
      ∀ other, other ≠ key →
        ptrmapGet pBt (ptrmapPut pBt s key t parent 0).1.page other
          = ptrmapGet pBt s.page other := by
  have hc : SQLITE_CORRUPT ≠ SQLITE_OK := by decide
  unfold ptrmapPut at hok ⊢
  simp only [ne_eq, not_true_eq_false, if_false] at hok ⊢
  by_cases hk0 : key = 0
  · rw [if_pos hk0] at hok
    exact absurd hok hc
  rw [if_neg hk0] at hok ⊢
  by_cases hm0 : ptrmapPageno pBt key = 0
  · rw [if_pos hm0] at hok
    exact absurd hok hc
  rw [if_neg hm0] at hok ⊢
  by_cases hoff : PTRMAP_PTROFFSET (ptrmapPageno pBt key) key < 0
  · rw [if_pos hoff] at hok
    exact absurd hok hc
  rw [if_neg hoff] at hok ⊢
  have hget : ∀ page : Nat → Bytes, ptrmapGet pBt page key =
      (if getByte (page (ptrmapPageno pBt key))
            (PTRMAP_PTROFFSET (ptrmapPageno pBt key) key).toNat < 1 ∨
          getByte (page (ptrmapPageno pBt key))
            (PTRMAP_PTROFFSET (ptrmapPageno pBt key) key).toNat > 5
        then (SQLITE_CORRUPT, getByte (page (ptrmapPageno pBt key))
            (PTRMAP_PTROFFSET (ptrmapPageno pBt key) key).toNat,
          get4byte (page (ptrmapPageno pBt key))
            ((PTRMAP_PTROFFSET (ptrmapPageno pBt key) key).toNat + 1))
        else (SQLITE_OK, getByte (page (ptrmapPageno pBt key))
            (PTRMAP_PTROFFSET (ptrmapPageno pBt key) key).toNat,
          get4byte (page (ptrmapPageno pBt key))
            ((PTRMAP_PTROFFSET (ptrmapPageno pBt key) key).toNat + 1))) := by
    intro page
    unfold ptrmapGet
    simp only []
    rw [if_neg hm0, if_neg hoff]
  split
  · -- the entry is written
    refine ⟨?_, fun other ho => ?_⟩
    · rw [hget]
      have e1 : getByte ((s.setPage (ptrmapPageno pBt key)
          (put4byte (setByte (s.page (ptrmapPageno pBt key))
            (PTRMAP_PTROFFSET (ptrmapPageno pBt key) key).toNat t)
            ((PTRMAP_PTROFFSET (ptrmapPageno pBt key) key).toNat + 1) parent)).page
          (ptrmapPageno pBt key)) (PTRMAP_PTROFFSET (ptrmapPageno pBt key) key).toNat = t := by
        unfold DbState.setPage setAt
        simp only [if_true]
        rw [getByte_congr (put4byte_other _ _ _ _ (Or.inl (by omega))), getByte_setByte]
        omega
      have e2 : get4byte ((s.setPage (ptrmapPageno pBt key)
          (put4byte (setByte (s.page (ptrmapPageno pBt key))
            (PTRMAP_PTROFFSET (ptrmapPageno pBt key) key).toNat t)
            ((PTRMAP_PTROFFSET (ptrmapPageno pBt key) key).toNat + 1) parent)).page
          (ptrmapPageno pBt key))
          ((PTRMAP_PTROFFSET (ptrmapPageno pBt key) key).toNat + 1) = parent := by
        unfold DbState.setPage setAt
        simp only [if_true]
        rw [get4byte_put4byte]
        omega
      rw [e1, e2, if_neg (by omega)]
    · unfold ptrmapGet
      simp only []
      by_cases hm : ptrmapPageno pBt other = 0
      · rw [if_pos hm, if_pos hm]
      rw [if_neg hm, if_neg hm]
      by_cases ho2 : PTRMAP_PTROFFSET (ptrmapPageno pBt other) other < 0
      · rw [if_pos ho2, if_pos ho2]
      rw [if_neg ho2, if_neg ho2]
      by_cases hsame : ptrmapPageno pBt other = ptrmapPageno pBt key
      · have hd : ∀ j, (PTRMAP_PTROFFSET (ptrmapPageno pBt other) other).toNat ≤ j →
            j < (PTRMAP_PTROFFSET (ptrmapPageno pBt other) other).toNat + 5 →
            (s.setPage (ptrmapPageno pBt key)
              (put4byte (setByte (s.page (ptrmapPageno pBt key))
                (PTRMAP_PTROFFSET (ptrmapPageno pBt key) key).toNat t)
                ((PTRMAP_PTROFFSET (ptrmapPageno pBt key) key).toNat + 1) parent)).page
              (ptrmapPageno pBt other) j = s.page (ptrmapPageno pBt other) j := by
          intro j h1 h2
          unfold DbState.setPage setAt
          rw [hsame] at h1 h2 ho2 ⊢
          simp only [if_true]
          unfold PTRMAP_PTROFFSET at h1 h2 ho2 hoff ⊢
          rw [put4byte_other _ _ _ _ (by omega), setByte_other _ _ _ _ (by omega)]
        rw [getByte_congr (hd _ (le_refl _) (by omega)),
          get4byte_congr (fun j h1 h2 => hd j (by omega) (by omega))]
      · have hd : (s.setPage (ptrmapPageno pBt key)
              (put4byte (setByte (s.page (ptrmapPageno pBt key))
                (PTRMAP_PTROFFSET (ptrmapPageno pBt key) key).toNat t)
                ((PTRMAP_PTROFFSET (ptrmapPageno pBt key) key).toNat + 1) parent)).page
              (ptrmapPageno pBt other) = s.page (ptrmapPageno pBt other) := by
          unfold DbState.setPage setAt
          simp only [if_neg hsame]
        rw [hd]
  · -- the entry already held the pair
    rename_i hsame
    have hsame2 := not_or.mp hsame
    refine ⟨?_, fun other _ => rfl⟩
    rw [hget]
    have e1 := not_not.mp hsame2.1
    have e2 := not_not.mp hsame2.2
    rw [← e1, e2, if_neg (by omega)]

/-- On a page that the pointer map covers, `ptrmapPut` succeeds. -/
theorem ptrmapPut_ok (pBt : BtShared) (s : DbState) (key t parent : Nat)
    (hk : 3 ≤ key) (h32 : key < 4294967296)
    (hnm : PTRMAP_ISPAGE pBt key = false) (hnp : key ≠ PENDING_BYTE_PAGE pBt) :
    (ptrmapPut pBt s key t parent 0).2 = SQLITE_OK := by
  have h := ptrmapPageno_lt pBt key hk h32 hnm hnp
  unfold ptrmapPut
  simp only [ne_eq, not_true_eq_false, if_false]
  rw [if_neg (by omega), if_neg (by omega)]
  have hoff : ¬ PTRMAP_PTROFFSET (ptrmapPageno pBt key) key < 0 := by
    unfold PTRMAP_PTROFFSET
    omega
  rw [if_neg hoff]
  split <;> rfl

theorem ptrmapPut_zero (pBt : BtShared) (s : DbState) (t parent : Nat) :
    (ptrmapPut pBt s 0 t parent 0).2 = SQLITE_CORRUPT := by
  unfold ptrmapPut
  simp

theorem ptrmapGet_badType (pBt : BtShared) (page : Nat → Bytes) (key : Nat)
    (h : getByte (page (ptrmapPageno pBt key))
          (PTRMAP_PTROFFSET (ptrmapPageno pBt key) key).toNat < 1 ∨
        5 < getByte (page (ptrmapPageno pBt key))
          (PTRMAP_PTROFFSET (ptrmapPageno pBt key) key).toNat) :
    (ptrmapGet pBt page key).1 = SQLITE_CORRUPT := by
  unfold ptrmapGet
  simp only []
  split_ifs <;> rfl

/-- C16 (amended): the pointer-map pages sit `usableSize/5 + 1` page numbers apart.  For the
pointer-map page `M = i * (usableSize/5 + 1) + 2`, with neither `M` nor the next block start
the pending-byte page, `ptrmapPageno` maps `M` and the `usableSize/5` pages after it to `M`
(`j = 0` is `M` itself), the page `M + (usableSize/5 + 1)` is the next pointer-map page and
maps to itself, and every page number below 2 maps to 0. -/
theorem ptrmapPageno_layout (pBt : BtShared) (i : Nat)
    (h32 : (i + 1) * (pBt.usableSize / 5 + 1) + 2 < 4294967296)
    (hp : i * (pBt.usableSize / 5 + 1) + 2 ≠ PENDING_BYTE_PAGE pBt)
    (hq : (i + 1) * (pBt.usableSize / 5 + 1) + 2 ≠ PENDING_BYTE_PAGE pBt) :
    (∀ j, j < pBt.usableSize / 5 + 1 →
        ptrmapPageno pBt (i * (pBt.usableSize / 5 + 1) + 2 + j)
          = i * (pBt.usableSize / 5 + 1) + 2) ∧
      ptrmapPageno pBt ((i + 1) * (pBt.usableSize / 5 + 1) + 2)
        = (i + 1) * (pBt.usableSize / 5 + 1) + 2 ∧
      (∀ pgno, pgno < 2 → ptrmapPageno pBt pgno = 0) :=
  ptrmapPageno_layout_spec pBt i h32 hp hq

/-- Witness for C16 on 1024-byte pages, second block (`i = 1`, pointer-map page 207): the
hypotheses hold, page 411 (the last of the 204 pages after 207) maps to 207 and page 412 is
the next pointer-map page. -/
theorem ptrmapPageno_layout_witness :
    ((1 + 1) * (exAutoBt.usableSize / 5 + 1) + 2 < 4294967296 ∧
      1 * (exAutoBt.usableSize / 5 + 1) + 2 ≠ PENDING_BYTE_PAGE exAutoBt ∧
      (1 + 1) * (exAutoBt.usableSize / 5 + 1) + 2 ≠ PENDING_BYTE_PAGE exAutoBt) ∧
    (ptrmapPageno exAutoBt 207 = 207 ∧ ptrmapPageno exAutoBt 411 = 207 ∧
      ptrmapPageno exAutoBt 412 = 412) ∧
    ((∀ j, j < exAutoBt.usableSize / 5 + 1 →
        ptrmapPageno exAutoBt (1 * (exAutoBt.usableSize / 5 + 1) + 2 + j)
          = 1 * (exAutoBt.usableSize / 5 + 1) + 2) ∧
      ptrmapPageno exAutoBt ((1 + 1) * (exAutoBt.usableSize / 5 + 1) + 2)
        = (1 + 1) * (exAutoBt.usableSize / 5 + 1) + 2 ∧
      (∀ pgno, pgno < 2 → ptrmapPageno exAutoBt pgno = 0)) :=
  ⟨⟨by decide, by decide, by decide⟩, ⟨by decide, by decide, by decide⟩,
    ptrmapPageno_layout exAutoBt 1 (by decide) (by decide) (by decide)⟩

/-- Counterexample for C16 as stated: with a usable size of 1024 the pointer-map page 2 is
not followed by `1024/5 + 1 = 205` data pages; the 205th page after it, page 207, is itself
a pointer-map page (it maps to itself), and only the 204 pages 3..206 map to page 2. -/
theorem ptrmapPageno_period_counterexample :
    exAutoBt.usableSize = 1024 ∧
      ptrmapPageno exAutoBt 2 = 2 ∧
      ptrmapPageno exAutoBt 206 = 2 ∧
      ptrmapPageno exAutoBt (2 + (exAutoBt.usableSize / 5 + 1)) = 2 + (exAutoBt.usableSize / 5 + 1) ∧
      PTRMAP_ISPAGE exAutoBt (2 + (exAutoBt.usableSize / 5 + 1)) = true ∧
      2 + (exAutoBt.usableSize / 5 + 1) ≠ PENDING_BYTE_PAGE exAutoBt := by
  decide

/-- C15: for a page number `key ≥ 3` that is neither a pointer-map page nor the pending-byte
page, an entry type `t` in 1..5 and a 32-bit `parent`, `ptrmapPut(key, t, parent)` started
with `*pRC = SQLITE_OK` ends with `SQLITE_OK`; afterwards `ptrmapGet(key)` returns
`SQLITE_OK` with exactly `(t, parent)` and `ptrmapGet` of every other page number returns
what it returned before.  `ptrmapPut` with `key = 0` leaves `SQLITE_CORRUPT`, and
`ptrmapGet` returns `SQLITE_CORRUPT` whenever the stored type byte is outside 1..5. -/
theorem ptrmapPut_ptrmapGet_roundtrip (pBt : BtShared) (s : DbState) (key t parent : Nat)
    (hk : 3 ≤ key) (h32 : key < 4294967296)
    (hnm : PTRMAP_ISPAGE pBt key = false) (hnp : key ≠ PENDING_BYTE_PAGE pBt)
    (ht1 : 1 ≤ t) (ht5 : t ≤ 5) (hp : parent < 4294967296) :
    (ptrmapPut pBt s key t parent 0).2 = SQLITE_OK ∧
      ptrmapGet pBt (ptrmapPut pBt s key t parent 0).1.page key = (SQLITE_OK, t, parent) ∧
      (∀ other, other ≠ key →
        ptrmapGet pBt (ptrmapPut pBt s key t parent 0).1.page other
          = ptrmapGet pBt s.page other) ∧
      (ptrmapPut pBt s 0 t parent 0).2 = SQLITE_CORRUPT ∧
      (∀ (page : Nat → Bytes) (k : Nat),
        (getByte (page (ptrmapPageno pBt k))
            (PTRMAP_PTROFFSET (ptrmapPageno pBt k) k).toNat < 1 ∨
          5 < getByte (page (ptrmapPageno pBt k))
            (PTRMAP_PTROFFSET (ptrmapPageno pBt k) k).toNat) →
        (ptrmapGet pBt page k).1 = SQLITE_CORRUPT) :=
  ⟨ptrmapPut_ok pBt s key t parent hk h32 hnm hnp,
    (ptrmapPut_spec pBt s key t parent ht1 ht5 hp
      (ptrmapPut_ok pBt s key t parent hk h32 hnm hnp)).1,
    (ptrmapPut_spec pBt s key t parent ht1 ht5 hp
      (ptrmapPut_ok pBt s key t parent hk h32 hnm hnp)).2,
    ptrmapPut_zero pBt s t parent,
    fun page k h => ptrmapGet_badType pBt page k h⟩

/-- Witness for C15: page 4 of a 1024-byte-page auto-vacuum database, entry
`(PTRMAP_OVERFLOW1, 9)`; the entry lands in bytes 5..9 of pointer-map page 2, and a zeroed
pointer map makes `ptrmapGet` report `SQLITE_CORRUPT`. -/
theorem ptrmapPut_ptrmapGet_roundtrip_witness :
    (3 ≤ 4 ∧ 4 < 4294967296 ∧ PTRMAP_ISPAGE exAutoBt 4 = false ∧
      4 ≠ PENDING_BYTE_PAGE exAutoBt ∧ 1 ≤ PTRMAP_OVERFLOW1 ∧ PTRMAP_OVERFLOW1 ≤ 5 ∧
      9 < 4294967296) ∧
    (getByte ((ptrmapPut exAutoBt exZeroDb 4 PTRMAP_OVERFLOW1 9 0).1.page 2) 5 = 3 ∧
      get4byte ((ptrmapPut exAutoBt exZeroDb 4 PTRMAP_OVERFLOW1 9 0).1.page 2) 6 = 9 ∧
      (ptrmapGet exAutoBt exZeroDb.page 4).1 = SQLITE_CORRUPT) ∧
    ((ptrmapPut exAutoBt exZeroDb 4 PTRMAP_OVERFLOW1 9 0).2 = SQLITE_OK ∧
      ptrmapGet exAutoBt (ptrmapPut exAutoBt exZeroDb 4 PTRMAP_OVERFLOW1 9 0).1.page 4
        = (SQLITE_OK, PTRMAP_OVERFLOW1, 9) ∧
      (∀ other, other ≠ 4 →
        ptrmapGet exAutoBt (ptrmapPut exAutoBt exZeroDb 4 PTRMAP_OVERFLOW1 9 0).1.page other
          = ptrmapGet exAutoBt exZeroDb.page other) ∧
      (ptrmapPut exAutoBt exZeroDb 0 PTRMAP_OVERFLOW1 9 0).2 = SQLITE_CORRUPT ∧
      (∀ (page : Nat → Bytes) (k : Nat),
        (getByte (page (ptrmapPageno exAutoBt k))
            (PTRMAP_PTROFFSET (ptrmapPageno exAutoBt k) k).toNat < 1 ∨
          5 < getByte (page (ptrmapPageno exAutoBt k))
            (PTRMAP_PTROFFSET (ptrmapPageno exAutoBt k) k).toNat) →
        (ptrmapGet exAutoBt page k).1 = SQLITE_CORRUPT)) :=
  ⟨⟨by decide, by decide, by decide, by decide, by decide, by decide, by decide⟩,
    ⟨by decide, by decide, by decide⟩,
    ptrmapPut_ptrmapGet_roundtrip exAutoBt exZeroDb 4 PTRMAP_OVERFLOW1 9
      (by decide) (by decide) (by decide) (by decide) (by decide) (by decide) (by decide)⟩

end Btree

namespace Btree

/-! ## Coalescing in `freeSpace` -/

/-- One merging pass of the coalescing loop of `freeSpace`: the block at `get2byte data addr`
absorbs the next block, which begins `g ≤ 3` bytes after its end, and the gap comes off
the fragmented-byte count. -/
theorem freeSpaceCoalesce_merge (hdr : Nat) (data : Bytes) (addr g : Nat)
    (hpb : hdr + 8 ≤ get2byte data addr)
    (hnx : get2byte data (get2byte data addr) =
      get2byte data addr + get2byte data (get2byte data addr + 2) + g)
    (hg : g ≤ 3) (hsz : 4 ≤ get2byte data (get2byte data addr + 2))
    (hend : get2byte data (get2byte data addr) +
      get2byte data (get2byte data (get2byte data addr) + 2) ≤ 65536) :
    (getByte data (hdr + 7) < g →
      ∀ fuel, freeSpaceCoalesce hdr (fuel + 1) data addr = some (SQLITE_CORRUPT, data)) ∧
    (g ≤ getByte data (hdr + 7) →
      (∀ fuel, freeSpaceCoalesce hdr (fuel + 1) data addr =
        freeSpaceCoalesce hdr fuel
          (mergeFreeblocks data hdr (get2byte data addr) (get2byte data (get2byte data addr)))
          addr) ∧
      getByte (mergeFreeblocks data hdr (get2byte data addr)
          (get2byte data (get2byte data addr))) (hdr + 7) + g = getByte data (hdr + 7) ∧
      get2byte (mergeFreeblocks data hdr (get2byte data addr)
          (get2byte data (get2byte data addr))) (get2byte data addr) =
        get2byte data (get2byte data (get2byte data addr)) ∧
      get2byte (mergeFreeblocks data hdr (get2byte data addr)
          (get2byte data (get2byte data addr))) (get2byte data addr + 2) =
        get2byte data (get2byte data addr + 2) + g +
          get2byte data (get2byte data (get2byte data addr) + 2)) := by
  refine ⟨fun hlt fuel => ?_, fun hle => ⟨fun fuel => ?_, ?_, ?_, ?_⟩⟩
  · simp only [freeSpaceCoalesce]
    rw [if_pos (by omega), if_pos (by omega), if_pos (Or.inr (by omega))]
  · simp only [freeSpaceCoalesce]
    rw [if_pos (by omega), if_pos (by omega), if_neg (by omega)]
    rfl
  · rw [mergeFreeblocks_frag _ _ _ _ hpb]
    omega
  · exact mergeFreeblocks_next _ _ _ _ hpb (by omega)
  · rw [mergeFreeblocks_size _ _ _ _ hpb (by omega) hend]
    omega

/-- C12 (amended): when the coalescing loop of `freeSpace` meets a freeblock (at
`get2byte data addr`, past the page header) whose successor begins `g` bytes after its end,
`0 ≤ g ≤ 3`, it returns `SQLITE_CORRUPT` if the fragmented-byte count is below `g`, and
otherwise continues on the image in which the `g` gap bytes have been subtracted from the
fragmented-byte count at `hdr+7`, the block has taken over its successor's next pointer, and
its size has grown by `g` plus the successor's size. -/
theorem freeSpace_coalesce_gap (hdr : Nat) (data : Bytes) (addr g : Nat)
    (hpb : hdr + 8 ≤ get2byte data addr)
    (hnx : get2byte data (get2byte data addr) =
      get2byte data addr + get2byte data (get2byte data addr + 2) + g)
    (hg : g ≤ 3) (hsz : 4 ≤ get2byte data (get2byte data addr + 2))
    (hend : get2byte data (get2byte data addr) +
      get2byte data (get2byte data (get2byte data addr) + 2) ≤ 65536) :
    (getByte data (hdr + 7) < g →
      ∀ fuel, freeSpaceCoalesce hdr (fuel + 1) data addr = some (SQLITE_CORRUPT, data)) ∧
    (g ≤ getByte data (hdr + 7) →
      (∀ fuel, freeSpaceCoalesce hdr (fuel + 1) data addr =
        freeSpaceCoalesce hdr fuel
          (mergeFreeblocks data hdr (get2byte data addr) (get2byte data (get2byte data addr)))
          addr) ∧
      getByte (mergeFreeblocks data hdr (get2byte data addr)
          (get2byte data (get2byte data addr))) (hdr + 7) + g = getByte data (hdr + 7) ∧
      get2byte (mergeFreeblocks data hdr (get2byte data addr)
          (get2byte data (get2byte data addr))) (get2byte data addr) =
        get2byte data (get2byte data (get2byte data addr)) ∧
      get2byte (mergeFreeblocks data hdr (get2byte data addr)
          (get2byte data (get2byte data addr))) (get2byte data addr + 2) =
        get2byte data (get2byte data addr + 2) + g +
          get2byte data (get2byte data (get2byte data addr) + 2)) :=
  freeSpaceCoalesce_merge hdr data addr g hpb hnx hg hsz hend

/-- Witness for C12 on `exGapPage` with the released range `[912, 930)` linked in: the
freeblock at 900 ends at 910, its successor begins `g = 2` bytes later, the fragment count
is 2, and the merged image has fragment count 0 and a 30-byte block at 900. -/
theorem freeSpace_coalesce_gap_witness :
    (0 + 8 ≤ get2byte (linkFreeblock exGapPage.aData 900 912 0 18) 1 ∧
      get2byte (linkFreeblock exGapPage.aData 900 912 0 18)
          (get2byte (linkFreeblock exGapPage.aData 900 912 0 18) 1) =
        get2byte (linkFreeblock exGapPage.aData 900 912 0 18) 1 +
          get2byte (linkFreeblock exGapPage.aData 900 912 0 18)
            (get2byte (linkFreeblock exGapPage.aData 900 912 0 18) 1 + 2) + 2 ∧
      2 ≤ getByte (linkFreeblock exGapPage.aData 900 912 0 18) (0 + 7)) ∧
    (getByte (mergeFreeblocks (linkFreeblock exGapPage.aData 900 912 0 18) 0 900 912) 7 = 0 ∧
      get2byte (mergeFreeblocks (linkFreeblock exGapPage.aData 900 912 0 18) 0 900 912) 902
        = 30) ∧
    getByte (mergeFreeblocks (linkFreeblock exGapPage.aData 900 912 0 18) 0
        (get2byte (linkFreeblock exGapPage.aData 900 912 0 18) 1)
        (get2byte (linkFreeblock exGapPage.aData 900 912 0 18)
          (get2byte (linkFreeblock exGapPage.aData 900 912 0 18) 1))) (0 + 7) + 2 =
      getByte (linkFreeblock exGapPage.aData 900 912 0 18) (0 + 7) :=
  ⟨⟨by decide, by decide, by decide⟩, ⟨by decide, by decide⟩,
    ((freeSpace_coalesce_gap 0 (linkFreeblock exGapPage.aData 900 912 0 18) 1 2
      (by decide) (by decide) (by decide) (by decide) (by decide)).2 (by decide)).2.1⟩

/-- Counterexample for C12 as stated: on `exGapPage` (fragment count 2, a 10-byte freeblock
at 900 ending 2 bytes before offset 912) `freeSpace` releasing `[912, 930)` returns
`SQLITE_OK` after merging the two blocks across the 2-byte gap, and the fragment count is
then 0: the gap has been subtracted from it, not added (which would give 4). -/
theorem freeSpace_gap_subtracted_counterexample :
    WellFormedPage exGapPage ∧
      getByte exGapPage.aData (exGapPage.hdrOffset + 7) = 2 ∧
      pageFreeblocks exGapPage.aData exGapPage.hdrOffset = [900] ∧
      900 + get2byte exGapPage.aData 902 + 2 = 912 ∧
      (freeSpace 1024 exGapPage 912 18).map
          (fun r => (r.1, getByte r.2.aData (exGapPage.hdrOffset + 7)))
        = some (SQLITE_OK, 0) ∧
      (freeSpace 1024 exGapPage 912 18).map
          (fun r => getByte r.2.aData (exGapPage.hdrOffset + 7)) ≠ some (2 + 2) := by
  decide

end Btree

namespace Btree

/-! ## Saving and restoring a cursor position -/

theorem decodeFlags_frame (pPage : MemPage) (flagByte : Nat) :
    (decodeFlags pPage flagByte).2.aData = pPage.aData ∧
    (decodeFlags pPage flagByte).2.pgno = pPage.pgno ∧
    (decodeFlags pPage flagByte).2.hdrOffset = pPage.hdrOffset ∧
    (decodeFlags pPage flagByte).2.isInit = pPage.isInit := by
  simp only [decodeFlags]
  split
  · exact ⟨rfl, rfl, rfl, rfl⟩
  · split <;> exact ⟨rfl, rfl, rfl, rfl⟩

/-- The cached fields of a page that `btreeInitPage` has just accepted. -/
theorem btreeInitPage_ok_layout (fuel : Nat) (p pg : MemPage)
    (h : btreeInitPage fuel p = some (SQLITE_OK, pg)) (hinit : p.isInit = false) :
    pg.aData = p.aData ∧ pg.pgno = p.pgno ∧ pg.pBt = p.pBt ∧ pg.hdrOffset = p.hdrOffset ∧
    pg.leaf ≤ 1 ∧ pg.childPtrSize = 4 - 4 * pg.leaf ∧
    pg.cellOffset = u16 (p.hdrOffset + 12 - 4 * pg.leaf) ∧
    pg.nCell = get2byte p.aData (p.hdrOffset + 3) ∧
    pg.maskPage = u16 (u32sub p.pBt.pageSize 1) ∧
    pg.nOverflow = 0 ∧ pg.isInit = true ∧
    pg.leaf = (if getByte p.aData p.hdrOffset = 0x0A ∨ getByte p.aData p.hdrOffset = 0x0D
      then 1 else 0) ∧
    pg.intKey = (if getByte p.aData p.hdrOffset = 0x05 ∨ getByte p.aData p.hdrOffset = 0x0D
      then 1 else 0) ∧
    pg.hasData = (if getByte p.aData p.hdrOffset = 0x05 ∨ getByte p.aData p.hdrOffset = 0x0D
      then pg.leaf else 0) := by
  have hb := getByte_lt p.aData p.hdrOffset
  have hd := (decodeFlags_spec p (getByte p.aData p.hdrOffset) hb).2.2
  have hfr := decodeFlags_frame p (getByte p.aData p.hdrOffset)
  have hbt := decodeFlags_pBt p (getByte p.aData p.hdrOffset)
  simp only [btreeInitPage, hinit, Bool.false_eq_true, if_false] at h
  split at h
  · simp [SQLITE_OK, SQLITE_CORRUPT] at h
  · rename_i hdf
    have hdf' : (decodeFlags p (getByte p.aData p.hdrOffset)).1 = SQLITE_OK := by
      simpa [SQLITE_OK] using hdf
    obtain ⟨hlf, hik, hhd, hcp⟩ := hd hdf'
    split at h
    · simp [SQLITE_OK, SQLITE_CORRUPT] at h
    · split at h
      · cases h
      · split at h
        · simp [SQLITE_OK, SQLITE_CORRUPT] at h
        · split at h
          · simp [SQLITE_OK, SQLITE_CORRUPT] at h
          · simp only [Option.some.injEq, Prod.mk.injEq, true_and] at h
            subst h
            refine ⟨hfr.1, hfr.2.1, hbt, hfr.2.2.1, ?_, hcp, ?_, rfl, ?_, rfl, rfl, hlf, hik,
              hhd⟩
            · show (decodeFlags p (getByte p.aData p.hdrOffset)).2.leaf ≤ 1
              rw [hlf]; split <;> omega
            · show u16 (p.hdrOffset + 12 - 4 * (decodeFlags p (getByte p.aData p.hdrOffset)).2.leaf)
                = _
              rfl
            · show u16 (u32sub (decodeFlags p (getByte p.aData p.hdrOffset)).2.pBt.pageSize 1) = _
              rw [hbt]

/-- The cached fields of a page delivered by `initPage`. -/
theorem initPage_layout (pBt : BtShared) (store : PageStore) (pgno : Nat) (pg : MemPage)
    (h : initPage pBt store pgno = some pg) :
    pg.aData = store.page pgno ∧ pg.pgno = pgno ∧ pg.pBt = pBt ∧
    pg.hdrOffset = (if pgno = 1 then 100 else 0) ∧
    pg.leaf ≤ 1 ∧ pg.childPtrSize = 4 - 4 * pg.leaf ∧
    pg.cellOffset = pg.hdrOffset + 12 - 4 * pg.leaf ∧
    pg.nCell = get2byte pg.aData (pg.hdrOffset + 3) ∧
    pg.maskPage = u16 (u32sub pBt.pageSize 1) ∧ pg.nOverflow = 0 ∧ pg.isInit = true := by
  unfold initPage getAndInitPage btreeGetPage at h
  by_cases h1 : pgno > store.nPage
  · simp [h1, SQLITE_OK, SQLITE_CORRUPT] at h
  · by_cases h2 : pgno = 0
    · simp [h1, h2, SQLITE_OK, SQLITE_CORRUPT] at h
    · simp only [if_neg h1, if_neg h2, if_true, btreePageFromDbPage] at h
      cases hr : btreeInitPage pBt.usableSize (blankPage pBt (store.page pgno) pgno) with
      | none => rw [hr] at h; cases h
      | some r =>
        rw [hr] at h
        obtain ⟨rc, pg1⟩ := r
        simp only at h
        split at h
        · rename_i hrc
          cases h
          rw [hrc] at hr
          obtain ⟨a1, a2, a3, a4, a5, a6, a7, a8, a9, a10, a11, _⟩ :=
            btreeInitPage_ok_layout _ _ _ hr rfl
          have hh : (blankPage pBt (store.page pgno) pgno).hdrOffset
              = (if pgno = 1 then 100 else 0) := rfl
          have hd : (blankPage pBt (store.page pgno) pgno).aData = store.page pgno := rfl
          rw [hh] at a4 a7 a8
          rw [hd] at a1 a8
          refine ⟨a1, a2, a3, a4, a5, a6, ?_, ?_, a9, a10, a11⟩
          · rw [a7, a4]
            unfold u16
            split <;> omega
          · rw [a8, a1, a4]
        · cases h

theorem toInt64_range (x : Nat) : I64_MIN ≤ toInt64 x ∧ toInt64 x ≤ I64_MAX := by
  unfold toInt64 I64_MIN I64_MAX
  split <;> omega

/-- On a table page the key that the cell parser reports is `cellKey`. -/
theorem btreeParseCell_nKey (pg : MemPage) (i : Nat) (hint : pg.intKey ≠ 0)
    (hcp : pg.childPtrSize ≤ 4) : (btreeParseCell pg i).nKey = cellKey pg i := by
  have hl := getVarint32_len pg.aData (findCell pg i + pg.childPtrSize)
  have e1 : u16 (pg.childPtrSize + u8 (getVarint32 pg.aData (findCell pg i + pg.childPtrSize)).1)
      = pg.childPtrSize + (getVarint32 pg.aData (findCell pg i + pg.childPtrSize)).1 := by
    unfold u16 u8
    omega
  have key : (btreeParseCellPtr pg pg.aData (findCell pg i)).nKey =
      toInt64 (getVarint pg.aData (findCell pg i +
        (if pg.hasData ≠ 0 then
          u16 (pg.childPtrSize + u8 (getVarint32 pg.aData (findCell pg i + pg.childPtrSize)).1)
        else pg.childPtrSize))).2 := by
    unfold btreeParseCellPtr
    simp only [if_pos hint]
    by_cases hd : pg.hasData ≠ 0
    · simp only [if_pos hd]
      split <;> rfl
    · simp only [if_neg hd]
      split <;> rfl
  unfold btreeParseCell cellKey
  rw [key, e1]
  split
  · rw [Nat.add_assoc]
  · rfl

theorem CursorAt_page (store : PageStore) (pCur : BtCursor) (k : Int)
    (h : CursorAt store pCur k) :
    ∃ pgno, initPage pCur.pBt store pgno = some (pCur.apPage pCur.iPage.toNat) := by
  obtain ⟨_, ⟨h0, hroot, hpath⟩, _⟩ := h
  by_cases hz : pCur.iPage.toNat = 0
  · rw [hz]
    exact ⟨_, hroot⟩
  · obtain ⟨_, _, hj⟩ := hpath (pCur.iPage.toNat - 1) (by omega)
    have e : pCur.iPage.toNat - 1 + 1 = pCur.iPage.toNat := by omega
    rw [e] at hj
    exact ⟨_, hj⟩

/-- Saving a valid table cursor that is on key `k`: the key is kept in `nKey`, every page is
released and the cursor requires a seek. -/
theorem saveCursorPosition_spec (store : PageStore) (pCur : BtCursor) (k : Int)
    (keyBuf : Option (Nat × Bytes)) (hat : CursorAt store pCur k) (ht : TableCursor pCur) :
    (saveCursorPosition pCur keyBuf).1 = SQLITE_OK ∧
    (saveCursorPosition pCur keyBuf).2.eState = CURSOR_REQUIRESEEK ∧
    (saveCursorPosition pCur keyBuf).2.nKey = k ∧
    (saveCursorPosition pCur keyBuf).2.pKey = none ∧
    (saveCursorPosition pCur keyBuf).2.iPage = -1 ∧
    (saveCursorPosition pCur keyBuf).2.pBt = pCur.pBt ∧
    (saveCursorPosition pCur keyBuf).2.pgnoRoot = pCur.pgnoRoot ∧
    (saveCursorPosition pCur keyBuf).2.hasKeyInfo = false := by
  obtain ⟨pgno, hpg⟩ := CursorAt_page store pCur k hat
  obtain ⟨_, _, _, _, hl, hcp, _⟩ := initPage_layout _ _ _ _ hpg
  obtain ⟨t1, t2, t3, t4, t5⟩ := ht
  obtain ⟨hv, _, _, _, hkey⟩ := hat
  have hnk := btreeParseCell_nKey (pCur.apPage pCur.iPage.toNat) (pCur.aiIdx pCur.iPage.toNat) t4
    (by omega)
  have hv2 : ¬ (pCur.eState ≠ CURSOR_VALID) := fun h => h hv
  by_cases hsz : pCur.info.nSize = 0
  · have e1 : sqlite3BtreeKeySize pCur =
        ({ pCur with
            info := btreeParseCell (pCur.apPage pCur.iPage.toNat) (pCur.aiIdx pCur.iPage.toNat)
            validNKey := true },
          (btreeParseCell (pCur.apPage pCur.iPage.toNat) (pCur.aiIdx pCur.iPage.toNat)).nKey) := by
      unfold sqlite3BtreeKeySize getCellInfo
      rw [if_neg hv2, if_pos hsz]
    unfold saveCursorPosition
    rw [e1]
    simp only [if_neg t3, if_true]
    simp [hnk, hkey, t1, Option.isNone_iff_eq_none.mp t2]
  · have e1 : sqlite3BtreeKeySize pCur = (pCur, pCur.info.nKey) := by
      unfold sqlite3BtreeKeySize getCellInfo
      rw [if_neg hv2, if_neg hsz]
    have hk2 : pCur.info.nKey = k := by
      rcases t5 with h | h
      · exact absurd h hsz
      · rw [h, hkey]
    unfold saveCursorPosition
    rw [e1]
    simp only [if_neg t3, if_true]
    simp [hk2, t1, Option.isNone_iff_eq_none.mp t2]

/-- On a table page the binary search ends with a comparison result of -1, 0 or 1, written to
`*pRes` when it jumps to the end, and keeps the cursor on its page. -/
theorem searchPage_range (pPage : MemPage) (idxCmp : MemPage → Nat → Nat × Int) (k : Int)
    (hint : pPage.intKey ≠ 0) :
    ∀ (fuel : Nat) (lwr upr idx : Int) (pCur : BtCursor) (out : PageSearch),
      searchPage pPage idxCmp k fuel lwr upr idx pCur = some out →
      (∀ rc res c, out = PageSearch.finish rc res c →
        res = some 0 ∧ c.apPage = pCur.apPage ∧ c.iPage = pCur.iPage) ∧
      (∀ l c cur, out = PageSearch.done l c cur →
        (c = -1 ∨ c = 0 ∨ c = 1) ∧ cur.apPage = pCur.apPage ∧ cur.iPage = pCur.iPage) := by
  intro fuel
  induction fuel with
  | zero =>
    intro lwr upr idx pCur out h
    simp [searchPage] at h
  | succ n ih =>
    intro lwr upr idx pCur out h
    rw [searchPage_intKey pPage idxCmp k n lwr upr idx pCur hint] at h
    split at h
    · split at h
      · cases h
        refine ⟨fun rc res c e => (by cases e), fun l c cur e => ?_⟩
        cases e
        exact ⟨Or.inr (Or.inl rfl), rfl, rfl⟩
      · cases h
        refine ⟨fun rc res c e => ?_, fun l c cur e => (by cases e)⟩
        cases e
        exact ⟨rfl, rfl, rfl⟩
    · split at h
      · split at h
        · cases h
          refine ⟨fun rc res c e => (by cases e), fun l c cur e => ?_⟩
          cases e
          exact ⟨Or.inl rfl, rfl, rfl⟩
        · have hh := ih _ _ _ _ _ h
          exact hh
      · split at h
        · cases h
          refine ⟨fun rc res c e => (by cases e), fun l c cur e => ?_⟩
          cases e
          exact ⟨Or.inr (Or.inr rfl), rfl, rfl⟩
        · have hh := ih _ _ _ _ _ h
          exact hh

/-- A successful `moveToChild` from a held page lands on a page of the same tree kind. -/
theorem moveToChild_kind (fuel : Nat) (store : PageStore) (pCur c : BtCursor) (newPgno : Nat)
    (h0 : 0 ≤ pCur.iPage)
    (h : moveToChild fuel store pCur newPgno = some (SQLITE_OK, c)) :
    0 ≤ c.iPage ∧ (c.apPage c.iPage.toNat).intKey = (pCur.apPage pCur.iPage.toNat).intKey := by
  unfold moveToChild at h
  simp only [] at h
  split at h
  · simp [SQLITE_OK, SQLITE_CORRUPT] at h
  · split at h
    · cases h
    · rename_i rc pNewPage _
      split at h
      · rename_i hrc
        simp only [Option.some.injEq, Prod.mk.injEq] at h
        exact absurd h.1 hrc
      · split at h
        · simp [SQLITE_OK, SQLITE_CORRUPT] at h
        · rename_i hchk
          simp only [Option.some.injEq, Prod.mk.injEq, true_and] at h
          subst h
          have hne : pCur.iPage.toNat ≠ (pCur.iPage + 1).toNat := by omega
          simp only [setAt, if_neg hne, if_true, not_or, not_not] at hchk ⊢
          exact ⟨by omega, hchk.2⟩

/-- On table pages a successful descent of the seek leaves -1, 0 or 1 in `*pRes`. -/
theorem movetoLoop_range (store : PageStore) (idxCmp : MemPage → Nat → Nat × Int) (k : Int)
    (biasRight : Bool) :
    ∀ (fuel : Nat) (pCur : BtCursor) (res r : Int) (c : BtCursor),
      0 ≤ pCur.iPage → (pCur.apPage pCur.iPage.toNat).intKey ≠ 0 →
      movetoLoop store idxCmp k biasRight fuel pCur res = some (SQLITE_OK, r, c) →
      r = -1 ∨ r = 0 ∨ r = 1 := by
  intro fuel
  induction fuel with
  | zero =>
    intro pCur res r c _ _ h
    simp [movetoLoop] at h
  | succ n ih =>
    intro pCur res r c h0 hint h
    rw [movetoLoop] at h
    simp only [] at h
    split at h
    · cases h
    · rename_i rc1 r1 c1 hs
      obtain ⟨f1, _⟩ := searchPage_range _ idxCmp k hint _ _ _ _ _ _ hs
      obtain ⟨e1, _, _⟩ := f1 _ _ _ rfl
      simp only [Option.some.injEq, Prod.mk.injEq] at h
      rw [e1] at h
      right; left
      exact h.2.1.symm
    · rename_i lwr c0 c1 hs
      obtain ⟨_, f2⟩ := searchPage_range _ idxCmp k hint _ _ _ _ _ _ hs
      obtain ⟨e1, e2, e3⟩ := f2 _ _ _ rfl
      generalize (if (pCur.apPage pCur.iPage.toNat).leaf ≠ 0 then 0
        else if lwr ≥ ((pCur.apPage pCur.iPage.toNat).nCell : Int) then
          get4byte (pCur.apPage pCur.iPage.toNat).aData
            ((pCur.apPage pCur.iPage.toNat).hdrOffset + 8)
        else get4byte (pCur.apPage pCur.iPage.toNat).aData
          (findCell (pCur.apPage pCur.iPage.toNat) lwr.toNat)) = chld at h
      by_cases hch : chld = 0
      · rw [if_pos hch] at h
        simp only [Option.some.injEq, Prod.mk.injEq, true_and] at h
        rw [← h.1]
        exact e1
      · rw [if_neg hch] at h
        split at h
        · cases h
        · rename_i rc2 c2 hm
          split at h
          · rename_i hrc
            simp only [Option.some.injEq, Prod.mk.injEq] at h
            exact absurd h.1 hrc
          · rename_i hrc
            have hrc0 : rc2 = SQLITE_OK := by
              simpa [SQLITE_OK] using hrc
            rw [hrc0] at hm
            have e3' : c1.iPage = pCur.iPage := e3
            have e2' : c1.apPage = pCur.apPage := e2
            obtain ⟨g1, g2⟩ := moveToChild_kind _ _ _ _ _ (by show 0 ≤ c1.iPage; omega) hm
            refine ih c2 res r c g1 ?_ h
            rw [g2]
            show (c1.apPage c1.iPage.toNat).intKey ≠ 0
            rw [e2', e3']
            exact hint

/-- `moveToRoot` from an invalid table cursor that holds no page: on success the cursor is
invalid or on a table page. -/
theorem moveToRoot_kind (fuel : Nat) (store : PageStore) (pCur c : BtCursor)
    (hki : pCur.hasKeyInfo = false) (hst : pCur.eState = CURSOR_INVALID) (hip : pCur.iPage < 0)
    (h : moveToRoot fuel store pCur = some (SQLITE_OK, c)) :
    c.eState = CURSOR_INVALID ∨ (0 ≤ c.iPage ∧ (c.apPage c.iPage.toNat).intKey ≠ 0) := by
  have h1 : ¬ (pCur.eState ≥ CURSOR_REQUIRESEEK ∧ pCur.eState = CURSOR_FAULT) := by
    rw [hst]; decide
  have h2 : ¬ (pCur.eState ≥ CURSOR_REQUIRESEEK) := by
    rw [hst]; decide
  have h3 : ¬ (pCur.iPage ≥ 0) := by omega
  unfold moveToRoot at h
  simp only [if_neg h1, if_neg h2, if_neg h3] at h
  split at h
  · simp only [Option.some.injEq, Prod.mk.injEq, true_and] at h
    subst h
    exact Or.inl rfl
  · split at h
    · cases h
    · rename_i rc pg hg
      split at h
      · rename_i hrc
        simp only [Option.some.injEq, Prod.mk.injEq] at h
        exact absurd h.1.symm (fun e => hrc e.symm)
      · simp only [hki, Bool.false_eq_true, if_false] at h
        split at h
        · simp [SQLITE_OK, SQLITE_CORRUPT] at h
        · rename_i hik
          have hik1 : pg.intKey = 1 := by
            simp only [ne_eq, not_not] at hik
            exact hik.symm
          unfold moveToRootTail at h
          simp only [setAt, if_true] at h
          split at h
          · split at h
            · simp [SQLITE_OK, SQLITE_CORRUPT] at h
            · obtain ⟨g1, g2⟩ := moveToChild_kind _ _ _ _ _ (le_refl _) h
              right
              refine ⟨g1, ?_⟩
              rw [g2]
              show pg.intKey ≠ 0
              rw [hik1]
              decide
          · simp only [Option.some.injEq, Prod.mk.injEq, true_and] at h
            subst h
            right
            refine ⟨le_refl _, ?_⟩
            show pg.intKey ≠ 0
            rw [hik1]
            decide

/-- A successful seek on a table from an invalid cursor that holds no page writes -1, 0 or 1
to `*pRes`. -/
theorem moveto_range (fuel : Nat) (store : PageStore) (pCur c : BtCursor)
    (idxCmp : MemPage → Nat → Nat × Int) (k : Int) (biasRight : Bool) (res r : Int)
    (hki : pCur.hasKeyInfo = false) (hst : pCur.eState = CURSOR_INVALID) (hip : pCur.iPage < 0)
    (h : sqlite3BtreeMovetoUnpacked fuel store pCur idxCmp k biasRight res
      = some (SQLITE_OK, r, c)) :
    r = -1 ∨ r = 0 ∨ r = 1 := by
  have hv : ¬ (pCur.eState = CURSOR_VALID) := by
    rw [hst]; decide
  have h1 : ¬ (pCur.eState = CURSOR_VALID ∧ pCur.validNKey = true ∧ (pCur.apPage 0).intKey ≠ 0 ∧
      pCur.info.nKey = k) := fun e => hv e.1
  have h2 : ¬ (pCur.eState = CURSOR_VALID ∧ pCur.validNKey = true ∧ (pCur.apPage 0).intKey ≠ 0 ∧
      pCur.atLast = true ∧ pCur.info.nKey < k) := fun e => hv e.1
  unfold sqlite3BtreeMovetoUnpacked at h
  rw [if_neg h1, if_neg h2] at h
  split at h
  · cases h
  · rename_i rc c1 hm
    split at h
    · rename_i hrc
      simp only [Option.some.injEq, Prod.mk.injEq] at h
      exact absurd h.1 hrc
    · rename_i hrc
      have hrc0 : rc = SQLITE_OK := by
        simpa [SQLITE_OK] using hrc
      rw [hrc0] at hm
      split at h
      · simp only [Option.some.injEq, Prod.mk.injEq, true_and] at h
        exact Or.inl h.1.symm
      · rename_i hinv
        rcases moveToRoot_kind _ _ _ _ hki hst hip hm with g | ⟨g1, g2⟩
        · exact absurd g hinv
        · exact movetoLoop_range store idxCmp k biasRight _ _ _ _ _ g1 g2 h

/-- Restoring a saved table cursor is the seek for the saved key, with the result left in
`skipNext`. -/
theorem btreeRestoreCursorPosition_spec (store : PageStore) (c1 : BtCursor) (d : Nat) (k : Int)
    (idxCmp : MemPage → Nat → Nat × Int) (allocOk : Bool)
    (hu : usableOk c1.pBt.usableSize) (hd : d ≤ 20) (hk1 : I64_MIN ≤ k) (hk2 : k ≤ I64_MAX)
    (hst : c1.eState = CURSOR_REQUIRESEEK) (hki : c1.hasKeyInfo = false)
    (hpk : c1.pKey = none) (hip : c1.iPage = -1) (hnk : c1.nKey = k)
    (ht : EmptyTable c1.pBt store c1.pgnoRoot ∨
      TableTree c1.pBt store d c1.pgnoRoot (I64_MIN - 1) I64_MAX) :
    ∃ c : BtCursor,
      (∀ fuel, 65556 ≤ fuel →
        btreeRestoreCursorPosition fuel store c1 idxCmp allocOk = some (SQLITE_OK, c)) ∧
      (c.skipNext = -1 ∨ c.skipNext = 0 ∨ c.skipNext = 1) ∧
      (c.skipNext = 0 ↔ Stored c1.pBt store d c1.pgnoRoot k) ∧
      (c.skipNext = 0 → CursorAt store c k) ∧
      (EmptyTable c1.pBt store c1.pgnoRoot → c.skipNext = -1 ∧ c.eState = CURSOR_INVALID) ∧
      (¬ EmptyTable c1.pBt store c1.pgnoRoot → c.skipNext ≠ 0 →
        ∃ e, CursorAt store c e ∧ Stored c1.pBt store d c1.pgnoRoot e ∧
          (c.skipNext < 0 → e < k ∧
            ∀ k1, Stored c1.pBt store d c1.pgnoRoot k1 → k1 < k → k1 ≤ e) ∧
          (0 < c.skipNext → k < e ∧
            ∀ k1, Stored c1.pBt store d c1.pgnoRoot k1 → k < k1 → e ≤ k1)) := by
  have hinv : CURSOR_INVALID ≠ CURSOR_FAULT := by decide
  have hinv2 : ¬ (CURSOR_INVALID = CURSOR_VALID) := by decide
  have hready : CursorReady store d { c1 with eState := CURSOR_INVALID } :=
    ⟨hinv, hki, fun h => absurd h (by show ¬ (0 ≤ c1.iPage); omega),
      fun h => absurd h hinv2⟩
  obtain ⟨r, hrun, p1, p2, p3, p4⟩ :=
    moveto_spec store { c1 with eState := CURSOR_INVALID } d idxCmp k false c1.skipNext
      hu hd hk1 hk2 ht hready
  have hrange := moveto_range 65556 store { c1 with eState := CURSOR_INVALID } r.2 idxCmp k
    false c1.skipNext r.1 hki rfl (by show c1.iPage < 0; omega) (hrun 65556 (le_refl _))
  have hnf : ¬ (c1.eState = CURSOR_FAULT) := by
    rw [hst]; decide
  refine ⟨{ r.2 with skipNext := r.1, pKey := none }, fun fuel hf => ?_, hrange, p1, p2,
    fun he => ?_, p4⟩
  · have hk : ¬ (c1.pKey.isSome = true ∧ allocOk = false) := by
      rw [hpk]; simp
    have e := hrun fuel hf
    rw [← hnk] at e
    unfold btreeRestoreCursorPosition btreeMoveto
    rw [if_neg hnf, if_neg hk, e]
    simp only [if_true]
  · obtain ⟨q1, q2⟩ := p3 he
    refine ⟨?_, q2⟩
    rcases hrange with h | h | h
    · exact h
    · exact absurd (show r.1 < 0 from q1) (by rw [h]; decide)
    · exact absurd (show r.1 < 0 from q1) (by rw [h]; decide)

/-- C20 (amended): save and restore of a table cursor.  Let the cursor be valid on the
entry with key `k` of a table B-tree (`CursorAt`, `TableCursor`).  `saveCursorPosition`
returns `SQLITE_OK`, keeps `k` in `nKey` and leaves the cursor in state
`CURSOR_REQUIRESEEK`.  Whatever the tree looks like afterwards, as long as it is a table
B-tree of at most 20 levels or the empty table, `btreeRestoreCursorPosition` returns
`SQLITE_OK` with `skipNext` in {-1, 0, 1}, and `skipNext = 0` exactly when `k` is still
stored, then with the cursor on it.  When `k` is gone and the tree is not empty the
cursor is on the largest stored key below `k` if `skipNext = -1` and on the smallest stored
key above `k` if `skipNext = 1`; on the empty table `skipNext = -1` and the cursor is
invalid. -/
theorem btreeRestoreCursorPosition_seek (store0 store1 : PageStore) (pCur : BtCursor) (d : Nat)
    (k : Int) (idxCmp : MemPage → Nat → Nat × Int) (allocOk : Bool)
    (keyBuf : Option (Nat × Bytes))
    (hu : usableOk pCur.pBt.usableSize) (hd : d ≤ 20)
    (hat : CursorAt store0 pCur k) (htc : TableCursor pCur)
    (ht : EmptyTable pCur.pBt store1 pCur.pgnoRoot ∨
      TableTree pCur.pBt store1 d pCur.pgnoRoot (I64_MIN - 1) I64_MAX) :
    (saveCursorPosition pCur keyBuf).1 = SQLITE_OK ∧
    (saveCursorPosition pCur keyBuf).2.eState = CURSOR_REQUIRESEEK ∧
    (saveCursorPosition pCur keyBuf).2.nKey = k ∧
    ∃ c : BtCursor,
      (∀ fuel, 65556 ≤ fuel →
        btreeRestoreCursorPosition fuel store1 (saveCursorPosition pCur keyBuf).2 idxCmp allocOk
          = some (SQLITE_OK, c)) ∧
      (c.skipNext = -1 ∨ c.skipNext = 0 ∨ c.skipNext = 1) ∧
      (c.skipNext = 0 ↔ Stored pCur.pBt store1 d pCur.pgnoRoot k) ∧
      (c.skipNext = 0 → CursorAt store1 c k) ∧
      (EmptyTable pCur.pBt store1 pCur.pgnoRoot →
        c.skipNext = -1 ∧ c.eState = CURSOR_INVALID) ∧
      (¬ EmptyTable pCur.pBt store1 pCur.pgnoRoot → c.skipNext ≠ 0 →
        ∃ e, CursorAt store1 c e ∧ Stored pCur.pBt store1 d pCur.pgnoRoot e ∧
          (c.skipNext < 0 → e < k ∧
            ∀ k1, Stored pCur.pBt store1 d pCur.pgnoRoot k1 → k1 < k → k1 ≤ e) ∧
          (0 < c.skipNext → k < e ∧
            ∀ k1, Stored pCur.pBt store1 d pCur.pgnoRoot k1 → k < k1 → e ≤ k1)) :=
  ⟨(saveCursorPosition_spec store0 pCur k keyBuf hat htc).1,
    (saveCursorPosition_spec store0 pCur k keyBuf hat htc).2.1,
    (saveCursorPosition_spec store0 pCur k keyBuf hat htc).2.2.1,
    (saveCursorPosition_spec store0 pCur k keyBuf hat htc).2.2.2.2.2.1 ▸
    (saveCursorPosition_spec store0 pCur k keyBuf hat htc).2.2.2.2.2.2.1 ▸
    btreeRestoreCursorPosition_spec store1 (saveCursorPosition pCur keyBuf).2 d k idxCmp allocOk
      ((saveCursorPosition_spec store0 pCur k keyBuf hat htc).2.2.2.2.2.1.symm ▸ hu) hd
      (hat.2.2.2.2 ▸ (toInt64_range _).1) (hat.2.2.2.2 ▸ (toInt64_range _).2)
      (saveCursorPosition_spec store0 pCur k keyBuf hat htc).2.1
      (saveCursorPosition_spec store0 pCur k keyBuf hat htc).2.2.2.2.2.2.2
      (saveCursorPosition_spec store0 pCur k keyBuf hat htc).2.2.2.1
      (saveCursorPosition_spec store0 pCur k keyBuf hat htc).2.2.2.2.1
      (saveCursorPosition_spec store0 pCur k keyBuf hat htc).2.2.1
      ((saveCursorPosition_spec store0 pCur k keyBuf hat htc).2.2.2.2.2.1.symm ▸
        (saveCursorPosition_spec store0 pCur k keyBuf hat htc).2.2.2.2.2.2.1.symm ▸ ht)⟩

set_option maxRecDepth 100000 in
/-- Witness for C20: the cursor that a seek leaves on key 7 of the one-page table with keys
5, 7, 10 is saved; the table then holds 5, 10, 20; the restore ends with `skipNext = -1` on
key 5. -/
theorem btreeRestoreCursorPosition_seek_witness :
    (usableOk exCursorAt7.pBt.usableSize ∧ CursorAt exStoreBefore exCursorAt7 7 ∧
      TableCursor exCursorAt7 ∧
      TableTree exCursorAt7.pBt exStoreAfter 1 exCursorAt7.pgnoRoot (I64_MIN - 1) I64_MAX) ∧
    ((saveCursorPosition exCursorAt7 none).1 = SQLITE_OK ∧
    (saveCursorPosition exCursorAt7 none).2.eState = CURSOR_REQUIRESEEK ∧
    (saveCursorPosition exCursorAt7 none).2.nKey = 7 ∧
    ∃ c : BtCursor,
      (∀ fuel, 65556 ≤ fuel →
        btreeRestoreCursorPosition fuel exStoreAfter (saveCursorPosition exCursorAt7 none).2
          (fun _ _ => (0, 0)) true = some (SQLITE_OK, c)) ∧
      (c.skipNext = -1 ∨ c.skipNext = 0 ∨ c.skipNext = 1) ∧
      (c.skipNext = 0 ↔ Stored exCursorAt7.pBt exStoreAfter 1 exCursorAt7.pgnoRoot 7) ∧
      (c.skipNext = 0 → CursorAt exStoreAfter c 7) ∧
      (EmptyTable exCursorAt7.pBt exStoreAfter exCursorAt7.pgnoRoot →
        c.skipNext = -1 ∧ c.eState = CURSOR_INVALID) ∧
      (¬ EmptyTable exCursorAt7.pBt exStoreAfter exCursorAt7.pgnoRoot → c.skipNext ≠ 0 →
        ∃ e, CursorAt exStoreAfter c e ∧
          Stored exCursorAt7.pBt exStoreAfter 1 exCursorAt7.pgnoRoot e ∧
          (c.skipNext < 0 → e < 7 ∧
            ∀ k1, Stored exCursorAt7.pBt exStoreAfter 1 exCursorAt7.pgnoRoot k1 → k1 < 7 →
              k1 ≤ e) ∧
          (0 < c.skipNext → 7 < e ∧
            ∀ k1, Stored exCursorAt7.pBt exStoreAfter 1 exCursorAt7.pgnoRoot k1 → 7 < k1 →
              e ≤ k1))) :=
  ⟨⟨by decide,
      ⟨by decide, ⟨by decide, rfl,
          fun j hj => absurd ((by decide : exCursorAt7.iPage.toNat = 0) ▸ hj) (Nat.not_lt_zero j)⟩,
        by decide,
        by decide, by decide⟩,
      by decide, by decide⟩,
    btreeRestoreCursorPosition_seek exStoreBefore exStoreAfter exCursorAt7 1 7
      (fun _ _ => (0, 0)) true none (by decide) (by decide)
      ⟨by decide, ⟨by decide, rfl,
          fun j hj => absurd ((by decide : exCursorAt7.iPage.toNat = 0) ▸ hj) (Nat.not_lt_zero j)⟩,
        by decide,
        by decide, by decide⟩
      (by decide) (Or.inr (by decide))⟩

set_option maxRecDepth 100000 in
/-- Counterexample for C20 as stated: a cursor valid on key 7 of the table with keys 5, 7,
10 is saved; afterwards the table holds the keys 5, 10, 20 (key 7 deleted, 20 inserted).
The smallest stored key that is at least 7 is 10, yet `btreeRestoreCursorPosition` returns
`SQLITE_OK` with the cursor valid on key 5 and `skipNext = -1`. -/
theorem btreeRestoreCursorPosition_below_counterexample :
    exCursorAt7.eState = CURSOR_VALID ∧
      cellKey (exCursorAt7.apPage exCursorAt7.iPage.toNat)
        (exCursorAt7.aiIdx exCursorAt7.iPage.toNat) = 7 ∧
      TableTree exBt1024 exStoreBefore 1 2 (I64_MIN - 1) I64_MAX ∧
      TableTree exBt1024 exStoreAfter 1 2 (I64_MIN - 1) I64_MAX ∧
      Stored exBt1024 exStoreAfter 1 2 10 ∧
      ¬ Stored exBt1024 exStoreAfter 1 2 7 ∧
      (btreeRestoreCursorPosition 65556 exStoreAfter (saveCursorPosition exCursorAt7 none).2
          (fun _ _ => (0, 0)) true).map
        (fun r => (r.1, r.2.eState, r.2.skipNext,
          cellKey (r.2.apPage r.2.iPage.toNat) (r.2.aiIdx r.2.iPage.toNat)))
        = some (SQLITE_OK, CURSOR_VALID, -1, 5) := by
  decide

end Btree

namespace Btree

/-! ## `defragmentPage`: where the cells end up -/

theorem skipVarint_bounds (d : Bytes) (p : Nat) :
    ∀ (k i : Nat), i ≤ skipVarint d p k i ∧ (0 < k → i + 1 ≤ skipVarint d p k i) ∧
      (i ≤ 8 → skipVarint d p k i ≤ 9) := by
  intro k
  induction k with
  | zero =>
    intro i
    simp only [skipVarint]
    exact ⟨le_refl _, fun h => absurd h (by decide), fun h => by omega⟩
  | succ k ih =>
    intro i
    rw [skipVarint]
    split
    · rename_i hc
      obtain ⟨a, _, c⟩ := ih (i + 1)
      exact ⟨by omega, fun _ => by omega, fun _ => c (by omega)⟩
    · exact ⟨by omega, fun _ => le_refl _, fun h => by omega⟩

theorem skipVarint_congr (d e : Bytes) (p q : Nat) :
    ∀ (k i : Nat),
      (∀ j, i ≤ j → j < skipVarint d p k i → getByte e (q + j) = getByte d (p + j)) →
      skipVarint e q k i = skipVarint d p k i := by
  intro k
  induction k with
  | zero =>
    intro i _
    simp only [skipVarint]
  | succ k ih =>
    intro i h
    have hb := (skipVarint_bounds d p (k + 1) i).2.1 (by omega)
    have hi := h i (le_refl _) (by omega)
    rw [skipVarint, skipVarint, hi]
    split
    · rename_i hc
      apply ih
      intro j hj1 hj2
      apply h j (by omega)
      rw [skipVarint, if_pos hc]
      exact hj2
    · rfl

/-- The header length that `cellSizePtr` walks over is at most 22 bytes. -/
theorem cellSizeHdr_le (p : MemPage) (d : Bytes) (pc : Nat) (hcp : p.childPtrSize ≤ 4) :
    cellSizeHdr p d pc ≤ 22 := by
  have l1 := getVarint32_len d (pc + p.childPtrSize)
  have e8 : u8 (getVarint32 d (pc + p.childPtrSize)).1 = (getVarint32 d (pc + p.childPtrSize)).1 :=
    u8_eq (by omega)
  unfold cellSizeHdr
  simp only [e8]
  by_cases hik : p.intKey ≠ 0
  · simp only [if_pos hik]
    by_cases hd : p.hasData ≠ 0
    · simp only [if_pos hd]
      have := (skipVarint_bounds d (pc + p.childPtrSize +
        (getVarint32 d (pc + p.childPtrSize)).1) 9 0).2.2 (by omega)
      omega
    · simp only [if_neg hd]
      have := (skipVarint_bounds d (pc + p.childPtrSize) 9 0).2.2 (by omega)
      omega
  · simp only [if_neg hik]
    omega

/-- `cellSizePtr` reads nothing but the header bytes of the cell. -/
theorem cellSizePtr_congr (p : MemPage) (d e : Bytes) (pc q : Nat)
    (h : ∀ j, j < cellSizeHdr p d pc → getByte e (q + j) = getByte d (pc + j)) :
    cellSizePtr p e q = cellSizePtr p d pc ∧ cellSizeHdr p e q = cellSizeHdr p d pc := by
  have l1 := getVarint32_len d (pc + p.childPtrSize)
  have e8 : u8 (getVarint32 d (pc + p.childPtrSize)).1 = (getVarint32 d (pc + p.childPtrSize)).1 :=
    u8_eq (by omega)
  -- the payload-size varint, when the page has one
  have g1 : (p.intKey = 0 ∨ p.hasData ≠ 0) →
      getVarint32 e (q + p.childPtrSize) = getVarint32 d (pc + p.childPtrSize) := by
    intro hcase
    apply getVarint32_congr
    intro j hj
    have hh : p.childPtrSize + (getVarint32 d (pc + p.childPtrSize)).1 ≤ cellSizeHdr p d pc := by
      unfold cellSizeHdr
      simp only [e8]
      rcases hcase with h0 | h1
      · simp only [h0, ne_eq, not_true_eq_false, if_false]
        omega
      · by_cases hik : p.intKey ≠ 0
        · simp only [if_pos hik, if_pos h1]
          omega
        · simp only [if_neg hik]
          omega
    have := h (p.childPtrSize + j) (by omega)
    rw [← Nat.add_assoc, ← Nat.add_assoc] at this
    exact this
  by_cases hik : p.intKey ≠ 0
  · by_cases hd : p.hasData ≠ 0
    · have g := g1 (Or.inr hd)
      have g2 : skipVarint e (q + p.childPtrSize + (getVarint32 d (pc + p.childPtrSize)).1) 9 0 =
          skipVarint d (pc + p.childPtrSize + (getVarint32 d (pc + p.childPtrSize)).1) 9 0 := by
        apply skipVarint_congr
        intro j _ hj
        have hh : p.childPtrSize + (getVarint32 d (pc + p.childPtrSize)).1 +
            skipVarint d (pc + p.childPtrSize + (getVarint32 d (pc + p.childPtrSize)).1) 9 0
            ≤ cellSizeHdr p d pc := by
          unfold cellSizeHdr
          simp only [e8, if_pos hik, if_pos hd]
          omega
        have := h (p.childPtrSize + (getVarint32 d (pc + p.childPtrSize)).1 + j) (by omega)
        rw [← Nat.add_assoc, ← Nat.add_assoc, ← Nat.add_assoc, ← Nat.add_assoc] at this
        exact this
      unfold cellSizePtr cellSizeHdr
      simp only [if_pos hik, if_pos hd, g, e8, g2]
      constructor
      · have e1 : q + p.childPtrSize + (getVarint32 d (pc + p.childPtrSize)).1 +
            skipVarint d (pc + p.childPtrSize + (getVarint32 d (pc + p.childPtrSize)).1) 9 0 - q =
            pc + p.childPtrSize + (getVarint32 d (pc + p.childPtrSize)).1 +
            skipVarint d (pc + p.childPtrSize + (getVarint32 d (pc + p.childPtrSize)).1) 9 0 - pc := by
          omega
        rw [e1]
      · omega
    · have g2 : skipVarint e (q + p.childPtrSize) 9 0 = skipVarint d (pc + p.childPtrSize) 9 0 := by
        apply skipVarint_congr
        intro j _ hj
        have hh : p.childPtrSize + skipVarint d (pc + p.childPtrSize) 9 0 ≤ cellSizeHdr p d pc := by
          unfold cellSizeHdr
          simp only [if_pos hik, if_neg hd]
          omega
        have := h (p.childPtrSize + j) (by omega)
        rw [← Nat.add_assoc, ← Nat.add_assoc] at this
        exact this
      unfold cellSizePtr cellSizeHdr
      simp only [if_pos hik, if_neg hd, g2]
      constructor
      · have e1 : q + p.childPtrSize + skipVarint d (pc + p.childPtrSize) 9 0 - q =
            pc + p.childPtrSize + skipVarint d (pc + p.childPtrSize) 9 0 - pc := by omega
        rw [e1]
      · omega
  · have hik0 : p.intKey = 0 := by
      simpa using hik
    have g := g1 (Or.inl hik0)
    unfold cellSizePtr cellSizeHdr
    simp only [if_neg hik, g, e8]
    constructor
    · have e1 : q + p.childPtrSize + (getVarint32 d (pc + p.childPtrSize)).1 - q =
          pc + p.childPtrSize + (getVarint32 d (pc + p.childPtrSize)).1 - pc := by omega
      rw [e1]
    · omega

/-- With local-payload limits that fit 16 bits, a cell is at least 4 bytes long and holds
its own header. -/
theorem cellSizePtr_bounds (p : MemPage) (d : Bytes) (pc : Nat) (hcp : p.childPtrSize ≤ 4)
    (hmin : p.minLocal ≤ p.maxLocal) (hmax : p.maxLocal + 27 ≤ 65536) :
    4 ≤ cellSizePtr p d pc ∧ cellSizeHdr p d pc ≤ cellSizePtr p d pc ∧
      cellSizePtr p d pc < 65536 := by
  have hh := cellSizeHdr_le p d pc hcp
  have key : ∀ n0 : Nat,
      (if n0 > p.maxLocal then
        u32 ((if u32 (p.minLocal + u32sub n0 p.minLocal % u32sub p.pBt.usableSize 4) > p.maxLocal
            then u32 p.minLocal
            else u32 (p.minLocal + u32sub n0 p.minLocal % u32sub p.pBt.usableSize 4)) + 4)
       else n0) ≤ p.maxLocal + 4 := by
    intro n0
    split
    · split
      · unfold u32
        omega
      · rename_i h2
        unfold u32 at h2 ⊢
        omega
    · omega
  have hform : ∃ n1 : Nat, n1 ≤ p.maxLocal + 4 ∧
      cellSizePtr p d pc =
        u16 (if u32 (n1 + u32 (cellSizeHdr p d pc)) < 4 then 4
          else u32 (n1 + u32 (cellSizeHdr p d pc))) := by
    refine ⟨_, key (if p.intKey ≠ 0 then
        (if p.hasData ≠ 0 then u32 (getVarint32 d (pc + p.childPtrSize)).2 else 0)
      else u32 (getVarint32 d (pc + p.childPtrSize)).2), ?_⟩
    rfl
  obtain ⟨n1, hn1, hf⟩ := hform
  rw [hf]
  unfold u16 u32
  split <;> omega

/-- The cell loop of `defragmentPage`, run from cell `i` with `k` cells to go: on success
each remaining cell has been copied from the scratch page to the spot right below its
predecessor, its pointer names that spot, and nothing else has been written. -/
theorem defragmentLoop_inv (p : MemPage) (T : Bytes) (u F Lst : Nat) (sz ptr : Nat → Nat)
    (hu : u ≤ 65536) (hF : p.cellOffset + 2 * p.nCell ≤ F)
    (hsz : ∀ l, l < p.nCell → cellSizePtr p T (ptr l) = sz l ∧ 4 ≤ sz l) :
    ∀ (k i : Nat) (data : Bytes) (cbrk : Nat) (data' : Bytes) (cbrk' : Nat),
      i + k = p.nCell → cbrk ≤ u →
      (∀ l, i ≤ l → l < p.nCell → get2byte data (p.cellOffset + 2 * l) = ptr l) →
      defragmentLoop p T u F Lst k i data cbrk = (SQLITE_OK, data', cbrk') →
      (∀ l, i ≤ l → l < p.nCell →
        get2byte data' (p.cellOffset + 2 * l) + sz l =
          (if l = i then cbrk else get2byte data' (p.cellOffset + 2 * (l - 1))) ∧
        F ≤ get2byte data' (p.cellOffset + 2 * l) ∧
        F ≤ ptr l ∧ ptr l + sz l ≤ u ∧
        ∀ j, j < sz l → data' (get2byte data' (p.cellOffset + 2 * l) + j) = T (ptr l + j)) ∧
      cbrk' = (if k = 0 then cbrk else get2byte data' (p.cellOffset + 2 * (p.nCell - 1))) ∧
      (∀ x, x < p.cellOffset + 2 * i ∨ cbrk ≤ x → data' x = data x) := by
  intro k
  induction k with
  | zero =>
    intro i data cbrk data' cbrk' hik hcb hptr h
    simp only [defragmentLoop, Prod.mk.injEq, true_and] at h
    obtain ⟨h1, h2⟩ := h
    subst h1
    subst h2
    refine ⟨fun l h1 h2 => by omega, by simp, fun _ _ => rfl⟩
  | succ k ih =>
    intro i data cbrk data' cbrk' hik hcb hptr h
    have hi : i < p.nCell := by omega
    have hpc : get2byte data (p.cellOffset + i * 2) = ptr i := by
      rw [Nat.mul_comm]
      exact hptr i (le_refl _) hi
    obtain ⟨hs1, hs4⟩ := hsz i hi
    rw [defragmentLoop] at h
    simp only [hpc, hs1] at h
    split at h
    · simp [SQLITE_OK, SQLITE_CORRUPT] at h
    · rename_i hchk1
      split at h
      · simp [SQLITE_OK, SQLITE_CORRUPT] at h
      · rename_i hchk2
        have hslot : p.cellOffset + i * 2 + 2 ≤ F := by omega
        have hnew : get2byte (put2byte (memcpy data (cbrk - sz i) T (ptr i) (sz i))
            (p.cellOffset + i * 2) (cbrk - sz i)) (p.cellOffset + 2 * i) = cbrk - sz i := by
          rw [Nat.mul_comm 2 i, get2byte_put2byte]
          omega
        have hptr1 : ∀ l, i + 1 ≤ l → l < p.nCell →
            get2byte (put2byte (memcpy data (cbrk - sz i) T (ptr i) (sz i))
              (p.cellOffset + i * 2) (cbrk - sz i)) (p.cellOffset + 2 * l) = ptr l := by
          intro l h1 h2
          rw [← hptr l (by omega) h2]
          apply get2byte_congr
          · rw [put2byte_other _ _ _ _ (by omega) (by omega), memcpy_other _ _ _ _ _ _ (by omega)]
          · rw [put2byte_other _ _ _ _ (by omega) (by omega), memcpy_other _ _ _ _ _ _ (by omega)]
        obtain ⟨a1, a2, a3⟩ := ih (i + 1) _ (cbrk - sz i) data' cbrk' (by omega) (by omega) hptr1 h
        have hslot' : get2byte data' (p.cellOffset + 2 * i) = cbrk - sz i := by
          rw [← hnew]
          apply get2byte_congr
          · exact a3 _ (Or.inl (by omega))
          · exact a3 _ (Or.inl (by omega))
        refine ⟨fun l h1 h2 => ?_, ?_, fun x hx => ?_⟩
        · by_cases hl : l = i
          · subst hl
            rw [if_pos rfl, hslot']
            refine ⟨by omega, by omega, by omega, by omega, fun j hj => ?_⟩
            rw [a3 _ (Or.inr (by omega)),
              put2byte_other _ _ _ _ (by omega) (by omega),
              memcpy_inside _ _ _ _ _ _ (by omega) (by omega)]
            congr 1
            omega
          · obtain ⟨b1, b2, b3, b4, b5⟩ := a1 l (by omega) h2
            refine ⟨?_, b2, b3, b4, b5⟩
            rw [if_neg hl, b1]
            by_cases hl1 : l = i + 1
            · subst hl1
              rw [if_pos rfl]
              have e : i + 1 - 1 = i := by omega
              rw [e, hslot']
            · rw [if_neg hl1]
        · rw [a2]
          rw [if_neg (Nat.succ_ne_zero k)]
          by_cases hk0 : k = 0
          · subst hk0
            rw [if_pos rfl]
            have e : p.nCell - 1 = i := by omega
            rw [e, hslot']
          · rw [if_neg hk0]
        · rw [a3 x (by omega), put2byte_other _ _ _ _ (by omega) (by omega),
            memcpy_other _ _ _ _ _ _ (by omega)]

theorem getByte_eq_of_eq {d e : Bytes} {i j : Nat} (h : e i = d j) :
    getByte e i = getByte d j := by
  unfold getByte
  rw [h]

theorem cellSum_succ (p : MemPage) (i : Nat) : cellSum p (i + 1) = cellSum p i + cellSz p i := by
  unfold cellSum
  rw [List.range_succ, List.map_append, List.sum_append]
  simp

/-- Cells that each end where the previous one starts, the first at `u`, take up exactly
the bytes from the last pointer to `u`. -/
theorem packed_sum (p : MemPage) (u : Nat) (P : Nat → Nat)
    (h : ∀ i, i < p.nCell → P i + cellSz p i = (if i = 0 then u else P (i - 1))) :
    ∀ i, i ≤ p.nCell → (if i = 0 then u else P (i - 1)) + cellSum p i = u := by
  intro i
  induction i with
  | zero =>
    intro _
    simp [cellSum]
  | succ i ih =>
    intro hi
    have h1 := ih (by omega)
    have h2 := h i (by omega)
    rw [if_neg (Nat.succ_ne_zero i), cellSum_succ]
    have e : i + 1 - 1 = i := by omega
    rw [e]
    omega

/-- The scratch copy that `defragmentPage` reads the cells from agrees with the page on the
content area. -/
theorem defrag_temp_agrees (d temp : Bytes) (c u x : Nat) (h1 : c ≤ x) (h2 : x < u) :
    memcpy temp c d c (u - c) x = d x := by
  rw [memcpy_inside _ _ _ _ _ _ h1 (by omega)]
  congr 1
  omega

theorem get2byte_le_notZero (d : Bytes) (i : Nat) : get2byte d i ≤ get2byteNotZero d i := by
  have := get2byte_lt d i
  unfold get2byteNotZero
  omega

/-- The cell sizes read from the scratch copy are the cell sizes of the page. -/
theorem defrag_temp_sizes (p : MemPage) (temp : Bytes) (hc : CellsInContent p) (l : Nat)
    (hl : l < p.nCell) :
    cellSizePtr p (memcpy temp (get2byte p.aData (p.hdrOffset + 5)) p.aData
        (get2byte p.aData (p.hdrOffset + 5))
        (p.pBt.usableSize - get2byte p.aData (p.hdrOffset + 5))) (cellPtr p l) = cellSz p l ∧
      4 ≤ cellSz p l := by
  obtain ⟨c1, c2, c3, c4, c5, c6, c7, c8⟩ := hc
  obtain ⟨d1, d2⟩ := c8 l hl
  obtain ⟨b1, b2, _⟩ := cellSizePtr_bounds p p.aData (cellPtr p l) c4 c5 c6
  have hle := get2byte_le_notZero p.aData (p.hdrOffset + 5)
  refine ⟨?_, b1⟩
  unfold cellSz at d2 ⊢
  refine (cellSizePtr_congr p p.aData _ (cellPtr p l) (cellPtr p l) (fun j hj => ?_)).1
  apply getByte_congr
  exact defrag_temp_agrees _ _ _ _ _ (by omega) (by omega)

/-- The header stores and the zeroing of the gap at the end of `defragmentPage` touch
neither the cell-pointer array nor the packed cells. -/
theorem defrag_final_other (data : Bytes) (hdr F cbrk x : Nat) (hx : hdr + 8 ≤ x)
    (hx2 : x < F ∨ cbrk ≤ x) :
    memset0 (setByte (setByte (setByte (put2byte data (hdr + 5) cbrk) (hdr + 1) 0) (hdr + 2) 0)
      (hdr + 7) 0) F (cbrk - F) x = data x := by
  rw [memset0_other _ _ _ _ (by omega), setByte_other _ _ _ _ (by omega),
    setByte_other _ _ _ _ (by omega), setByte_other _ _ _ _ (by omega),
    put2byte_other _ _ _ _ (by omega) (by omega)]

set_option maxRecDepth 10000 in
/-- What a successful `defragmentPage` does to the cells of a page whose cells lie inside the
content area. -/
theorem defragmentPage_packs (p : MemPage) (temp : Bytes) (hc : CellsInContent p)
    (hok : (defragmentPage p temp).1 = SQLITE_OK) :
    (∃ data, (defragmentPage p temp).2.1 = { p with aData := data }) ∧
    (∀ i, i < p.nCell →
      cellSz (defragmentPage p temp).2.1 i = cellSz p i ∧
      ∀ j, j < cellSz p i →
        getByte (defragmentPage p temp).2.1.aData (cellPtr (defragmentPage p temp).2.1 i + j) =
          getByte p.aData (cellPtr p i + j)) ∧
    get2byteNotZero (defragmentPage p temp).2.1.aData (p.hdrOffset + 5) + cellSum p p.nCell =
      p.pBt.usableSize ∧
    (∀ x, x < p.cellOffset → x ≠ p.hdrOffset + 1 → x ≠ p.hdrOffset + 2 → x ≠ p.hdrOffset + 5 →
      x ≠ p.hdrOffset + 6 → x ≠ p.hdrOffset + 7 →
      (defragmentPage p temp).2.1.aData x = p.aData x) ∧
    Packed (defragmentPage p temp).2.1 := by
  obtain ⟨c1, c2, c3, c4, c5, c6, c7, c8⟩ := hc
  have hle := get2byte_le_notZero p.aData (p.hdrOffset + 5)
  unfold defragmentPage at hok ⊢
  simp only at hok ⊢
  generalize hloop : defragmentLoop p
      (memcpy temp (get2byte p.aData (p.hdrOffset + 5)) p.aData
        (get2byte p.aData (p.hdrOffset + 5))
        (p.pBt.usableSize - get2byte p.aData (p.hdrOffset + 5)))
      p.pBt.usableSize (p.cellOffset + 2 * p.nCell) (p.pBt.usableSize - 4)
      p.nCell 0 p.aData p.pBt.usableSize = res at hok ⊢
  obtain ⟨rc, data, cbrk⟩ := res
  simp only at hok ⊢
  by_cases hrc : rc ≠ 0
  · rw [if_pos hrc] at hok
    simp only at hok
    exact absurd hok hrc
  rw [if_neg hrc] at hok ⊢
  have hrc0 : rc = SQLITE_OK := by simpa [SQLITE_OK] using hrc
  subst hrc0
  by_cases hnf : cbrk - (p.cellOffset + 2 * p.nCell) ≠ p.nFree
  · rw [if_pos hnf] at hok
    simp [SQLITE_OK, SQLITE_CORRUPT] at hok
  rw [if_neg hnf]
  have hnf' : cbrk - (p.cellOffset + 2 * p.nCell) = p.nFree := by
    simpa using hnf
  obtain ⟨a1, a2, a3⟩ := defragmentLoop_inv p _ p.pBt.usableSize (p.cellOffset + 2 * p.nCell)
    (p.pBt.usableSize - 4) (cellSz p) (cellPtr p) c1 (le_refl _)
    (fun l hl => defrag_temp_sizes p temp ⟨c1, c2, c3, c4, c5, c6, c7, c8⟩ l hl)
    p.nCell 0 p.aData p.pBt.usableSize data cbrk (by omega) (le_refl _)
    (fun l _ _ => rfl) hloop
  -- the final image
  obtain ⟨fin, hfin⟩ : ∃ fin : Bytes, fin =
      memset0 (setByte (setByte (setByte (put2byte data (p.hdrOffset + 5) cbrk)
        (p.hdrOffset + 1) 0) (p.hdrOffset + 2) 0) (p.hdrOffset + 7) 0)
        (p.cellOffset + 2 * p.nCell) (cbrk - (p.cellOffset + 2 * p.nCell)) := ⟨_, rfl⟩
  rw [← hfin]
  have hcb : p.cellOffset + 2 * p.nCell ≤ cbrk ∧ cbrk ≤ p.pBt.usableSize := by
    obtain ⟨k1, k2⟩ := defragmentLoop_cbrk _ _ _ _ _ _ _ _ _ _ _ hloop
    refine ⟨?_, k1⟩
    by_cases hn : p.nCell = 0
    · rw [a2, if_pos hn]
      omega
    · exact k2 (by omega)
  have hother : ∀ x, p.hdrOffset + 8 ≤ x → (x < p.cellOffset + 2 * p.nCell ∨ cbrk ≤ x) →
      fin x = data x := by
    intro x h1 h2
    rw [hfin]
    exact defrag_final_other _ _ _ _ _ h1 h2
  have hslot : ∀ l, l < p.nCell →
      get2byte fin (p.cellOffset + 2 * l) = get2byte data (p.cellOffset + 2 * l) := by
    intro l hl
    apply get2byte_congr
    · exact hother _ (by omega) (Or.inl (by omega))
    · exact hother _ (by omega) (Or.inl (by omega))
  -- every new pointer is at or above the new content-area start
  have hge : ∀ l, l < p.nCell → cbrk ≤ get2byte data (p.cellOffset + 2 * l) := by
    intro l hl
    rw [a2, if_neg (by omega)]
    have mono : ∀ m, m < p.nCell → ∀ l, l ≤ m →
        get2byte data (p.cellOffset + 2 * m) ≤ get2byte data (p.cellOffset + 2 * l) := by
      intro m
      induction m with
      | zero =>
        intro _ l hl
        have : l = 0 := by omega
        rw [this]
      | succ m ihm =>
        intro hm l hl
        by_cases hlm : l = m + 1
        · rw [hlm]
        · have := ihm (by omega) l (by omega)
          obtain ⟨b1, _⟩ := a1 (m + 1) (by omega) hm
          rw [if_neg (by omega)] at b1
          have e : m + 1 - 1 = m := by omega
          rw [e] at b1
          omega
    exact mono (p.nCell - 1) (by omega) l (by omega)
  have hend : ∀ l, l < p.nCell →
      get2byte data (p.cellOffset + 2 * l) + cellSz p l ≤ p.pBt.usableSize := by
    intro l
    induction l with
    | zero =>
      intro hl
      obtain ⟨b1, _⟩ := a1 0 (le_refl _) hl
      rw [if_pos rfl] at b1
      omega
    | succ l ihl =>
      intro hl
      obtain ⟨b1, _⟩ := a1 (l + 1) (by omega) hl
      rw [if_neg (Nat.succ_ne_zero l)] at b1
      have e : l + 1 - 1 = l := by omega
      rw [e] at b1
      have := ihl (by omega)
      omega
  have hcell : ∀ l, l < p.nCell → ∀ j, j < cellSz p l →
      fin (get2byte data (p.cellOffset + 2 * l) + j) = p.aData (cellPtr p l + j) := by
    intro l hl j hj
    obtain ⟨b1, b2, b3, b4, b5⟩ := a1 l (by omega) hl
    have := hge l hl
    rw [hother _ (by omega) (Or.inr (by omega)), b5 j hj]
    obtain ⟨d1, d2⟩ := c8 l hl
    exact defrag_temp_agrees _ _ _ _ _ (by omega) (by omega)
  have hsize : ∀ l, l < p.nCell →
      cellSizePtr p fin (get2byte data (p.cellOffset + 2 * l)) = cellSz p l := by
    intro l hl
    obtain ⟨g1, g2, _⟩ := cellSizePtr_bounds p p.aData (cellPtr p l) c4 c5 c6
    refine (cellSizePtr_congr p p.aData fin (cellPtr p l) _ (fun j hj => ?_)).1
    apply getByte_eq_of_eq
    exact hcell l hl j (by unfold cellSz; omega)
  have hptrq : ∀ l, cellPtr { p with aData := fin } l = get2byte fin (p.cellOffset + 2 * l) :=
    fun _ => rfl
  have hszq : ∀ l, l < p.nCell → cellSz { p with aData := fin } l = cellSz p l := by
    intro l hl
    show cellSizePtr p fin (get2byte fin (p.cellOffset + 2 * l)) = cellSz p l
    rw [hslot l hl]
    exact hsize l hl
  have e5 : get2byteNotZero fin (p.hdrOffset + 5) = cbrk := by
    rw [hfin, get2byteNotZero_congr (d := put2byte data (p.hdrOffset + 5) cbrk)]
    · exact get2byteNotZero_put2byte _ _ _ (by omega) (by omega)
    · rw [memset0_other _ _ _ _ (by omega), setByte_other _ _ _ _ (by omega),
        setByte_other _ _ _ _ (by omega), setByte_other _ _ _ _ (by omega)]
    · rw [memset0_other _ _ _ _ (by omega), setByte_other _ _ _ _ (by omega),
        setByte_other _ _ _ _ (by omega), setByte_other _ _ _ _ (by omega)]
  have e7 : getByte fin (p.hdrOffset + 7) = 0 := by
    rw [hfin]
    unfold getByte
    rw [memset0_other _ _ _ _ (by omega), setByte_same]
  have e1 : get2byte fin (p.hdrOffset + 1) = 0 := by
    rw [hfin]
    unfold get2byte getByte
    rw [memset0_other _ _ _ _ (by omega), memset0_other _ _ _ _ (by omega),
      setByte_other _ _ _ _ (by omega), setByte_other _ _ _ _ (by omega), setByte_same,
      setByte_other _ _ _ _ (by omega), setByte_same]
  have hpack : ∀ i, i < p.nCell →
      get2byte fin (p.cellOffset + 2 * i) + cellSz p i =
        (if i = 0 then p.pBt.usableSize else get2byte fin (p.cellOffset + 2 * (i - 1))) := by
    intro i hi
    obtain ⟨b1, _⟩ := a1 i (by omega) hi
    rw [hslot i hi, b1]
    by_cases h0 : i = 0
    · rw [if_pos h0, if_pos h0]
    · rw [if_neg h0, if_neg h0, hslot (i - 1) (by omega)]
  have hsum := packed_sum p p.pBt.usableSize (fun i => get2byte fin (p.cellOffset + 2 * i)) hpack
    p.nCell (le_refl _)
  have hcbrk : cbrk = (if p.nCell = 0 then p.pBt.usableSize
      else get2byte fin (p.cellOffset + 2 * (p.nCell - 1))) := by
    rw [a2]
    by_cases hn : p.nCell = 0
    · rw [if_pos hn, if_pos hn]
    · rw [if_neg hn, if_neg hn, hslot _ (by omega)]
  unfold Packed CellsInContent
  dsimp only
  refine ⟨⟨fin, rfl⟩, fun i hi => ⟨hszq i hi, fun j hj => ?_⟩, ?_, ?_, ?_⟩
  · rw [hptrq, hslot i hi]
    exact getByte_eq_of_eq (hcell i hi j hj)
  · show get2byteNotZero fin (p.hdrOffset + 5) + cellSum p p.nCell = p.pBt.usableSize
    rw [e5, hcbrk]
    exact hsum
  · intro x hx h1 h2 h5 h6 h7
    rw [hfin, memset0_other _ _ _ _ (by omega), setByte_other _ _ _ _ h7,
      setByte_other _ _ _ _ h2, setByte_other _ _ _ _ h1,
      put2byte_other _ _ _ _ h5 h6]
    exact a3 x (Or.inl (by omega))
  · refine ⟨⟨c1, c2, c3, c4, c5, c6, c7, fun i hi => ?_⟩, fun i hi => ⟨?_, ?_⟩, e1, e7, ?_,
      fun x hx1 hx2 => ?_, ?_⟩
    · show get2byteNotZero fin (p.hdrOffset + 5) ≤ cellPtr { p with aData := fin } i ∧
        cellPtr { p with aData := fin } i + cellSz { p with aData := fin } i ≤ p.pBt.usableSize
      rw [e5, hptrq, hszq i hi, hslot i hi]
      exact ⟨hge i hi, hend i hi⟩
    · show cellPtr { p with aData := fin } i + cellSz { p with aData := fin } i =
        (if i = 0 then p.pBt.usableSize else cellPtr { p with aData := fin } (i - 1))
      rw [hptrq, hszq i hi, hptrq]
      exact hpack i hi
    · show p.cellOffset + 2 * p.nCell ≤ cellPtr { p with aData := fin } i
      rw [hptrq, hslot i hi]
      have := hge i hi
      omega
    · show get2byteNotZero fin (p.hdrOffset + 5) =
        (if p.nCell = 0 then p.pBt.usableSize else cellPtr { p with aData := fin } (p.nCell - 1))
      rw [e5, hptrq]
      exact hcbrk
    · show getByte fin x = 0
      have hx2' : x < cbrk := by
        have : get2byteNotZero fin (p.hdrOffset + 5) = cbrk := e5
        rw [← this]
        exact hx2
      rw [hfin]
      unfold getByte memset0
      rw [if_pos ⟨hx1, by omega⟩]
    · show p.nFree + (p.cellOffset + 2 * p.nCell) = get2byteNotZero fin (p.hdrOffset + 5)
      rw [e5]
      omega

/-! ## `defragmentPage` on a page that is already packed -/

theorem get2byte_of_getByte {d e : Bytes} {i : Nat} (h0 : getByte e i = getByte d i)
    (h1 : getByte e (i + 1) = getByte d (i + 1)) : get2byte e i = get2byte d i := by
  unfold get2byte
  rw [h0, h1]

theorem getByte_setByte_same (d : Bytes) (i v : Nat) (h : getByte d i = v % 256) (x : Nat) :
    getByte (setByte d i v) x = getByte d x := by
  by_cases hx : x = i
  · subst hx
    rw [getByte_setByte, h]
  · unfold getByte
    rw [setByte_other _ _ _ _ hx]

theorem getByte_put2byte_same (d : Bytes) (i v : Nat) (h : get2byte d i = v % 65536) (x : Nat) :
    getByte (put2byte d i v) x = getByte d x := by
  have h0 := getByte_lt d i
  have h1 := getByte_lt d (i + 1)
  unfold get2byte at h
  unfold put2byte
  rw [getByte_setByte_same _ _ _ _ x, getByte_setByte_same _ _ _ _ x]
  · omega
  · unfold getByte
    rw [setByte_other _ _ _ _ (by omega)]
    unfold getByte at h h1 h0
    omega

theorem getByte_memcpy_same (dst : Bytes) (dOff : Nat) (src : Bytes) (sOff n : Nat)
    (h : ∀ j, j < n → getByte src (sOff + j) = getByte dst (dOff + j)) (x : Nat) :
    getByte (memcpy dst dOff src sOff n) x = getByte dst x := by
  by_cases hx : dOff ≤ x ∧ x < dOff + n
  · have := h (x - dOff) (by omega)
    have e : dOff + (x - dOff) = x := by omega
    rw [e] at this
    rw [← this]
    unfold getByte
    rw [memcpy_inside _ _ _ _ _ _ hx.1 hx.2]
  · unfold getByte
    rw [memcpy_other _ _ _ _ _ _ (by omega)]

theorem getByte_memset0_same (dst : Bytes) (off n : Nat)
    (h : ∀ x, off ≤ x → x < off + n → getByte dst x = 0) (x : Nat) :
    getByte (memset0 dst off n) x = getByte dst x := by
  by_cases hx : off ≤ x ∧ x < off + n
  · rw [h x hx.1 hx.2]
    unfold getByte memset0
    rw [if_pos hx]
  · unfold getByte
    rw [memset0_other _ _ _ _ (by omega)]

/-- The cell loop of `defragmentPage` on a packed page copies every cell onto itself. -/
theorem defragmentLoop_packed (q : MemPage) (T : Bytes) (hp : Packed q)
    (hT : ∀ x, get2byte q.aData (q.hdrOffset + 5) ≤ x → x < q.pBt.usableSize →
      T x = q.aData x) :
    ∀ (k i : Nat) (data : Bytes), i + k = q.nCell →
      (∀ x, getByte data x = getByte q.aData x) →
      ∃ data', defragmentLoop q T q.pBt.usableSize (q.cellOffset + 2 * q.nCell)
          (q.pBt.usableSize - 4) k i data
          (if i = 0 then q.pBt.usableSize else cellPtr q (i - 1)) =
          (SQLITE_OK, data',
            if q.nCell = 0 then q.pBt.usableSize else cellPtr q (q.nCell - 1)) ∧
        ∀ x, getByte data' x = getByte q.aData x := by
  obtain ⟨⟨c1, c2, c3, c4, c5, c6, c7, c8⟩, p2, p3, p4, p5, p6, p7⟩ := hp
  have hle := get2byte_le_notZero q.aData (q.hdrOffset + 5)
  intro k
  induction k with
  | zero =>
    intro i data hik hd
    have hi : i = q.nCell := by omega
    subst hi
    exact ⟨data, by simp only [defragmentLoop], hd⟩
  | succ k ih =>
    intro i data hik hd
    have hi : i < q.nCell := by omega
    obtain ⟨d1, d2⟩ := c8 i hi
    obtain ⟨e1, e2⟩ := p2 i hi
    obtain ⟨b1, b2, b3⟩ := cellSizePtr_bounds q q.aData (cellPtr q i) c4 c5 c6
    have hpc : get2byte data (q.cellOffset + i * 2) = cellPtr q i := by
      rw [Nat.mul_comm]
      exact get2byte_of_getByte (hd _) (hd _)
    have hsz : cellSizePtr q T (cellPtr q i) = cellSz q i := by
      refine (cellSizePtr_congr q q.aData T (cellPtr q i) _ (fun j hj => ?_)).1
      apply getByte_eq_of_eq
      unfold cellSz at d2
      exact hT _ (by omega) (by omega)
    have hs4 : 4 ≤ cellSz q i := b1
    obtain ⟨c, hc⟩ : ∃ c, c = (if i = 0 then q.pBt.usableSize else cellPtr q (i - 1)) := ⟨_, rfl⟩
    rw [← hc]
    have hce : cellPtr q i + cellSz q i = c := by
      rw [hc]
      exact e1
    have hstep : (if i + 1 = 0 then q.pBt.usableSize else cellPtr q (i + 1 - 1)) = c - cellSz q i := by
      rw [if_neg (Nat.succ_ne_zero i)]
      have e : i + 1 - 1 = i := by omega
      rw [e]
      omega
    have hd1 : ∀ x, getByte (put2byte (memcpy data (c - cellSz q i) T (cellPtr q i) (cellSz q i))
        (q.cellOffset + i * 2) (c - cellSz q i)) x = getByte q.aData x := by
      intro x
      have hm : ∀ y, getByte (memcpy data (c - cellSz q i) T (cellPtr q i) (cellSz q i)) y =
          getByte data y := by
        intro y
        apply getByte_memcpy_same
        intro j hj
        have e : c - cellSz q i + j = cellPtr q i + j := by omega
        rw [e, hd]
        apply getByte_eq_of_eq
        exact hT _ (by omega) (by omega)
      rw [getByte_put2byte_same, hm, hd]
      rw [get2byte_of_getByte (hm _) (hm _), hpc]
      have := get2byte_lt q.aData (q.cellOffset + 2 * i)
      unfold cellPtr at hce ⊢
      omega
    obtain ⟨data', r1, r2⟩ := ih (i + 1) _ (by omega) hd1
    refine ⟨data', ?_, r2⟩
    rw [defragmentLoop]
    simp only [hpc, hsz]
    rw [if_neg (by omega), if_neg (by omega)]
    rw [hstep] at r1
    exact r1

/-- On a packed page `defragmentPage` returns `SQLITE_OK` and changes no byte. -/
theorem defragmentPage_packed (q : MemPage) (temp : Bytes) (hp : Packed q) :
    (defragmentPage q temp).1 = SQLITE_OK ∧
    (∃ data, (defragmentPage q temp).2.1 = { q with aData := data }) ∧
    ∀ x, getByte (defragmentPage q temp).2.1.aData x = getByte q.aData x := by
  obtain ⟨data', r1, r2⟩ := defragmentLoop_packed q
    (memcpy temp (get2byte q.aData (q.hdrOffset + 5)) q.aData
      (get2byte q.aData (q.hdrOffset + 5))
      (q.pBt.usableSize - get2byte q.aData (q.hdrOffset + 5))) hp
    (fun x h1 h2 => defrag_temp_agrees _ _ _ _ _ h1 h2) q.nCell 0 q.aData (by omega)
    (fun _ => rfl)
  rw [if_pos rfl] at r1
  obtain ⟨⟨c1, c2, c3, c4, c5, c6, c7, c8⟩, p2, p3, p4, p5, p6, p7⟩ := hp
  rw [← p5] at r1
  have htop := get2byteNotZero_pos q.aData (q.hdrOffset + 5)
  have hfin : ∀ x, getByte (memset0 (setByte (setByte (setByte
      (put2byte data' (q.hdrOffset + 5) (get2byteNotZero q.aData (q.hdrOffset + 5)))
      (q.hdrOffset + 1) 0) (q.hdrOffset + 2) 0) (q.hdrOffset + 7) 0)
      (q.cellOffset + 2 * q.nCell)
      (get2byteNotZero q.aData (q.hdrOffset + 5) - (q.cellOffset + 2 * q.nCell))) x =
      getByte q.aData x := by
    intro x
    have h5 : ∀ y, getByte (put2byte data' (q.hdrOffset + 5)
        (get2byteNotZero q.aData (q.hdrOffset + 5))) y = getByte q.aData y := by
      intro y
      rw [getByte_put2byte_same, r2]
      rw [get2byte_of_getByte (r2 _) (r2 _)]
      have := get2byte_lt q.aData (q.hdrOffset + 5)
      unfold get2byteNotZero
      omega
    have hb1 : getByte q.aData (q.hdrOffset + 1) = 0 ∧ getByte q.aData (q.hdrOffset + 1 + 1) = 0 := by
      unfold get2byte at p3
      omega
    have h1 : ∀ y, getByte (setByte (put2byte data' (q.hdrOffset + 5)
        (get2byteNotZero q.aData (q.hdrOffset + 5))) (q.hdrOffset + 1) 0) y = getByte q.aData y := by
      intro y
      rw [getByte_setByte_same, h5]
      rw [h5, hb1.1]
    have h2 : ∀ y, getByte (setByte (setByte (put2byte data' (q.hdrOffset + 5)
        (get2byteNotZero q.aData (q.hdrOffset + 5))) (q.hdrOffset + 1) 0) (q.hdrOffset + 2) 0) y =
        getByte q.aData y := by
      intro y
      rw [getByte_setByte_same, h1]
      rw [h1, hb1.2]
    have h7 : ∀ y, getByte (setByte (setByte (setByte (put2byte data' (q.hdrOffset + 5)
        (get2byteNotZero q.aData (q.hdrOffset + 5))) (q.hdrOffset + 1) 0) (q.hdrOffset + 2) 0)
        (q.hdrOffset + 7) 0) y = getByte q.aData y := by
      intro y
      rw [getByte_setByte_same, h2]
      rw [h2, p4]
    rw [getByte_memset0_same, h7]
    intro y hy1 hy2
    rw [h7]
    exact p6 y hy1 (by omega)
  unfold defragmentPage
  simp only [r1]
  have hne : ¬ (SQLITE_OK ≠ 0) := by simp [SQLITE_OK]
  rw [if_neg hne]
  have hnf : ¬ (get2byteNotZero q.aData (q.hdrOffset + 5) - (q.cellOffset + 2 * q.nCell) ≠ q.nFree) := by
    omega
  rw [if_neg hnf]
  exact ⟨rfl, ⟨_, rfl⟩, hfin⟩

/-- The effect of a successful `defragmentPage`, cell by cell, and its idempotence. -/
theorem defragmentPage_cells_spec (p : MemPage) (temp : Bytes) (hc : CellsInContent p)
    (hok : (defragmentPage p temp).1 = SQLITE_OK) :
    (∀ i, i < p.nCell →
      cellSz (defragmentPage p temp).2.1 i = cellSz p i ∧
      ∀ j, j < cellSz p i →
        getByte (defragmentPage p temp).2.1.aData (cellPtr (defragmentPage p temp).2.1 i + j) =
          getByte p.aData (cellPtr p i + j)) ∧
    (∀ i, i < p.nCell →
      cellPtr (defragmentPage p temp).2.1 i + cellSz p i =
        (if i = 0 then p.pBt.usableSize else cellPtr (defragmentPage p temp).2.1 (i - 1))) ∧
    get2byte (defragmentPage p temp).2.1.aData (p.hdrOffset + 1) = 0 ∧
    getByte (defragmentPage p temp).2.1.aData (p.hdrOffset + 7) = 0 ∧
    get2byteNotZero (defragmentPage p temp).2.1.aData (p.hdrOffset + 5) + cellSum p p.nCell =
      p.pBt.usableSize ∧
    (defragmentPage p temp).2.1.nCell = p.nCell ∧
    (defragmentPage p temp).2.1.nFree = p.nFree ∧
    get2byte (defragmentPage p temp).2.1.aData (p.hdrOffset + 3) =
      get2byte p.aData (p.hdrOffset + 3) ∧
    ∀ temp2 : Bytes,
      (defragmentPage (defragmentPage p temp).2.1 temp2).1 = SQLITE_OK ∧
      ∀ x, getByte (defragmentPage (defragmentPage p temp).2.1 temp2).2.1.aData x =
        getByte (defragmentPage p temp).2.1.aData x := by
  obtain ⟨⟨data, hq⟩, h2, h3, h4, h5⟩ := defragmentPage_packs p temp hc hok
  have hpk := h5
  obtain ⟨_, p2, p3, p4, _⟩ := h5
  have hn : (defragmentPage p temp).2.1.nCell = p.nCell := by rw [hq]
  have hf : (defragmentPage p temp).2.1.nFree = p.nFree := by rw [hq]
  have hh : (defragmentPage p temp).2.1.hdrOffset = p.hdrOffset := by rw [hq]
  have hb : (defragmentPage p temp).2.1.pBt = p.pBt := by rw [hq]
  have hgap := hc.2.1
  refine ⟨h2, fun i hi => ?_, ?_, ?_, h3, hn, hf, ?_, fun temp2 => ?_⟩
  · have := (p2 i (by rw [hn]; exact hi)).1
    rw [(h2 i hi).1, hb] at this
    exact this
  · rw [← hh]
    exact p3
  · rw [← hh]
    exact p4
  · exact get2byte_congr (h4 _ (by omega) (by omega) (by omega) (by omega) (by omega) (by omega))
      (h4 _ (by omega) (by omega) (by omega) (by omega) (by omega) (by omega))
  · exact ⟨(defragmentPage_packed _ temp2 hpk).1, (defragmentPage_packed _ temp2 hpk).2.2⟩

/-- C11: `defragmentPage` on a well-formed page (`CellsInContent`: every cell lies inside
the content area, no overflow cells).  Whenever it returns `SQLITE_OK`: every cell keeps its
size and its bytes, now found at its new pointer; cell 0 ends at `usableSize` and cell
`i + 1` ends where cell `i` starts; the first-freeblock offset and the fragmented-byte count
are 0; the content-area start plus the sum of the cell sizes is `usableSize`; `nCell`,
`nFree` and the cell count in the page image are unchanged; and a second `defragmentPage`
returns `SQLITE_OK` again and changes no byte of the page. -/
theorem defragmentPage_packs_cells (p : MemPage) (temp : Bytes) (hc : CellsInContent p)
    (hok : (defragmentPage p temp).1 = SQLITE_OK) :
    (∀ i, i < p.nCell →
      cellSz (defragmentPage p temp).2.1 i = cellSz p i ∧
      ∀ j, j < cellSz p i →
        getByte (defragmentPage p temp).2.1.aData (cellPtr (defragmentPage p temp).2.1 i + j) =
          getByte p.aData (cellPtr p i + j)) ∧
    (∀ i, i < p.nCell →
      cellPtr (defragmentPage p temp).2.1 i + cellSz p i =
        (if i = 0 then p.pBt.usableSize else cellPtr (defragmentPage p temp).2.1 (i - 1))) ∧
    get2byte (defragmentPage p temp).2.1.aData (p.hdrOffset + 1) = 0 ∧
    getByte (defragmentPage p temp).2.1.aData (p.hdrOffset + 7) = 0 ∧
    get2byteNotZero (defragmentPage p temp).2.1.aData (p.hdrOffset + 5) + cellSum p p.nCell =
      p.pBt.usableSize ∧
    (defragmentPage p temp).2.1.nCell = p.nCell ∧
    (defragmentPage p temp).2.1.nFree = p.nFree ∧
    get2byte (defragmentPage p temp).2.1.aData (p.hdrOffset + 3) =
      get2byte p.aData (p.hdrOffset + 3) ∧
    ∀ temp2 : Bytes,
      (defragmentPage (defragmentPage p temp).2.1 temp2).1 = SQLITE_OK ∧
      ∀ x, getByte (defragmentPage (defragmentPage p temp).2.1 temp2).2.1.aData x =
        getByte (defragmentPage p temp).2.1.aData x :=
  defragmentPage_cells_spec p temp hc hok

set_option maxRecDepth 100000 in
/-- Witness for C11 on the example leaf page (cells of 24 bytes at 1000 and of 10 bytes at
940, a freeblock and two fragmented bytes in between): `defragmentPage` returns
`SQLITE_OK`, the second cell moves to 990 and the content area starts there. -/
theorem defragmentPage_packs_cells_witness :
    (CellsInContent exLeafPage ∧ (defragmentPage exLeafPage (fun _ => 0)).1 = SQLITE_OK) ∧
    (cellPtr exLeafPage 1 = 940 ∧ cellSz exLeafPage 0 = 24 ∧ cellSz exLeafPage 1 = 10 ∧
      cellPtr (defragmentPage exLeafPage (fun _ => 0)).2.1 0 = 1000 ∧
      cellPtr (defragmentPage exLeafPage (fun _ => 0)).2.1 1 = 990 ∧
      get2byteNotZero (defragmentPage exLeafPage (fun _ => 0)).2.1.aData 5 = 990) ∧
    ((∀ i, i < exLeafPage.nCell →
      cellSz (defragmentPage exLeafPage (fun _ => 0)).2.1 i = cellSz exLeafPage i ∧
      ∀ j, j < cellSz exLeafPage i →
        getByte (defragmentPage exLeafPage (fun _ => 0)).2.1.aData
            (cellPtr (defragmentPage exLeafPage (fun _ => 0)).2.1 i + j) =
          getByte exLeafPage.aData (cellPtr exLeafPage i + j)) ∧
    (∀ i, i < exLeafPage.nCell →
      cellPtr (defragmentPage exLeafPage (fun _ => 0)).2.1 i + cellSz exLeafPage i =
        (if i = 0 then exLeafPage.pBt.usableSize
         else cellPtr (defragmentPage exLeafPage (fun _ => 0)).2.1 (i - 1))) ∧
    get2byte (defragmentPage exLeafPage (fun _ => 0)).2.1.aData (exLeafPage.hdrOffset + 1) = 0 ∧
    getByte (defragmentPage exLeafPage (fun _ => 0)).2.1.aData (exLeafPage.hdrOffset + 7) = 0 ∧
    get2byteNotZero (defragmentPage exLeafPage (fun _ => 0)).2.1.aData
        (exLeafPage.hdrOffset + 5) + cellSum exLeafPage exLeafPage.nCell =
      exLeafPage.pBt.usableSize ∧
    (defragmentPage exLeafPage (fun _ => 0)).2.1.nCell = exLeafPage.nCell ∧
    (defragmentPage exLeafPage (fun _ => 0)).2.1.nFree = exLeafPage.nFree ∧
    get2byte (defragmentPage exLeafPage (fun _ => 0)).2.1.aData (exLeafPage.hdrOffset + 3) =
      get2byte exLeafPage.aData (exLeafPage.hdrOffset + 3) ∧
    ∀ temp2 : Bytes,
      (defragmentPage (defragmentPage exLeafPage (fun _ => 0)).2.1 temp2).1 = SQLITE_OK ∧
      ∀ x, getByte (defragmentPage (defragmentPage exLeafPage (fun _ => 0)).2.1 temp2).2.1.aData x =
        getByte (defragmentPage exLeafPage (fun _ => 0)).2.1.aData x) :=
  ⟨⟨by decide, by decide⟩,
    ⟨by decide, by decide, by decide, by decide, by decide, by decide⟩,
    defragmentPage_packs_cells exLeafPage (fun _ => 0) (by decide) (by decide)⟩

end Btree

namespace Btree

/-! ## `freePage2` -/

theorem get4byte_lt (d : Bytes) (i : Nat) : get4byte d i < 4294967296 := by
  have h0 := getByte_lt d i
  have h1 := getByte_lt d (i + 1)
  have h2 := getByte_lt d (i + 2)
  have h3 := getByte_lt d (i + 3)
  unfold get4byte
  omega

theorem get4byte_put4byte_other (d : Bytes) (i v j : Nat) (h : j + 4 ≤ i ∨ i + 4 ≤ j) :
    get4byte (put4byte d i v) j = get4byte d j :=
  get4byte_congr (fun x h1 h2 => put4byte_other _ _ _ _ (by omega))

theorem setPage_same (s : DbState) (p : Nat) (d : Bytes) : (s.setPage p d).page p = d := by
  simp [DbState.setPage, setAt]

theorem setPage_other (s : DbState) (p q : Nat) (d : Bytes) (h : q ≠ p) :
    (s.setPage p d).page q = s.page q := by
  simp [DbState.setPage, setAt, h]

/-- `ptrmapPut` writes to no page but the pointer-map page of `key`. -/
theorem ptrmapPut_frame (pBt : BtShared) (s : DbState) (key t parent rc x : Nat)
    (hx : x ≠ ptrmapPageno pBt key) :
    (ptrmapPut pBt s key t parent rc).1.page x = s.page x ∧
    (ptrmapPut pBt s key t parent rc).1.nPage = s.nPage ∧
    (ptrmapPut pBt s key t parent rc).1.nRef = s.nRef := by
  unfold ptrmapPut
  split
  · exact ⟨rfl, rfl, rfl⟩
  split
  · exact ⟨rfl, rfl, rfl⟩
  simp only []
  split
  · exact ⟨rfl, rfl, rfl⟩
  split
  · exact ⟨rfl, rfl, rfl⟩
  split
  · exact ⟨setPage_other _ _ _ _ hx, rfl, rfl⟩
  · exact ⟨rfl, rfl, rfl⟩

/-- A failing `ptrmapPut` that started from `SQLITE_OK` reports `SQLITE_CORRUPT`. -/
theorem ptrmapPut_rc (pBt : BtShared) (s : DbState) (key t parent : Nat) :
    (ptrmapPut pBt s key t parent SQLITE_OK).2 = SQLITE_OK ∨
      (ptrmapPut pBt s key t parent SQLITE_OK).2 = SQLITE_CORRUPT := by
  unfold ptrmapPut
  split
  · rename_i h
    exact absurd rfl h
  split
  · exact Or.inr rfl
  simp only []
  split
  · exact Or.inr rfl
  split
  · exact Or.inr rfl
  split <;> exact Or.inl rfl

/-- A successful `ptrmapPut` has a pointer-map page other than page 0 and other than `key`. -/
theorem ptrmapPut_ok_page (pBt : BtShared) (s : DbState) (key t parent : Nat)
    (h : (ptrmapPut pBt s key t parent SQLITE_OK).2 = SQLITE_OK) :
    ptrmapPageno pBt key ≠ 0 ∧ ptrmapPageno pBt key ≠ key := by
  have hc : SQLITE_CORRUPT ≠ SQLITE_OK := by decide
  unfold ptrmapPut at h
  simp only [SQLITE_OK, ne_eq, not_true_eq_false, if_false] at h
  split at h
  · exact absurd h hc
  split at h
  · exact absurd h hc
  rename_i hm
  split at h
  · exact absurd h hc
  rename_i hoff
  refine ⟨hm, fun e => hoff ?_⟩
  rw [e]
  unfold PTRMAP_PTROFFSET
  omega

theorem ptrmapPageno_ne_one (pBt : BtShared) (pgno : Nat) (h32 : pgno < 4294967296) :
    ptrmapPageno pBt pgno ≠ 1 := by
  by_cases h2 : pgno < 2
  · unfold ptrmapPageno
    rw [if_pos h2]
    decide
  · rw [ptrmapPageno_eq pBt pgno (by omega) h32]
    split <;> omega

/-- The free-list half of `freePage2` on a state whose head trunk is neither page 1 nor the
page being freed. -/
theorem freePage2Link_spec (pBt : BtShared) (s : DbState) (n p : Nat) (held : Bool)
    (rcHC : Nat) (hu : usableOk pBt.usableSize) (hp1 : 1 < p) (hp32 : p < 4294967296)
    (ht : n ≠ 0 → get4byte (s.page 1) 32 ≠ 1 ∧ get4byte (s.page 1) 32 ≠ p) :
    ((freePage2Link pBt s n p held rcHC).1 = SQLITE_OK →
      get4byte ((freePage2Link pBt s n p held rcHC).2.page 1) 36 = get4byte (s.page 1) 36 ∧
      ((n ≠ 0 ∧ get4byte (s.page (get4byte (s.page 1) 32)) 4 < pBt.usableSize / 4 - 8) →
        get4byte ((freePage2Link pBt s n p held rcHC).2.page 1) 32 = get4byte (s.page 1) 32 ∧
        get4byte ((freePage2Link pBt s n p held rcHC).2.page (get4byte (s.page 1) 32)) 4 =
          get4byte (s.page (get4byte (s.page 1) 32)) 4 + 1 ∧
        get4byte ((freePage2Link pBt s n p held rcHC).2.page (get4byte (s.page 1) 32))
          (8 + get4byte (s.page (get4byte (s.page 1) 32)) 4 * 4) = p ∧
        (∀ i, i < get4byte (s.page (get4byte (s.page 1) 32)) 4 →
          get4byte ((freePage2Link pBt s n p held rcHC).2.page (get4byte (s.page 1) 32))
            (8 + i * 4) = get4byte (s.page (get4byte (s.page 1) 32)) (8 + i * 4)) ∧
        get4byte ((freePage2Link pBt s n p held rcHC).2.page (get4byte (s.page 1) 32)) 0 =
          get4byte (s.page (get4byte (s.page 1) 32)) 0) ∧
      (¬ (n ≠ 0 ∧ get4byte (s.page (get4byte (s.page 1) 32)) 4 < pBt.usableSize / 4 - 8) →
        get4byte ((freePage2Link pBt s n p held rcHC).2.page 1) 32 = p ∧
        get4byte ((freePage2Link pBt s n p held rcHC).2.page p) 4 = 0 ∧
        get4byte ((freePage2Link pBt s n p held rcHC).2.page p) 0 =
          (if n = 0 then 0 else get4byte (s.page 1) 32))) ∧
    (n ≠ 0 → pBt.usableSize / 4 - 2 < get4byte (s.page (get4byte (s.page 1) 32)) 4 →
      (freePage2Link pBt s n p held rcHC).1 = SQLITE_CORRUPT) := by
  obtain ⟨hu1, hu2⟩ := hu
  have hc : SQLITE_CORRUPT ≠ SQLITE_OK := by decide
  have e2 : u32sub (u32 pBt.usableSize / 4) 2 = pBt.usableSize / 4 - 2 := by
    unfold u32sub u32
    omega
  have e8 : u32sub (u32 pBt.usableSize / 4) 8 = pBt.usableSize / 4 - 8 := by
    unfold u32sub u32
    omega
  have hk := get4byte_lt (s.page (get4byte (s.page 1) 32)) 4
  have ht32 := get4byte_lt (s.page 1) 32
  by_cases hn : n ≠ 0
  · obtain ⟨t1, t2⟩ := ht hn
    unfold freePage2Link
    simp only [if_pos hn, e2, e8]
    by_cases h0 : get4byte (s.page 1) 32 = 0
    · rw [if_pos ⟨hn, h0⟩]
      exact ⟨fun h => absurd h hc, fun _ _ => rfl⟩
    rw [if_neg (fun h => h0 h.2)]
    by_cases hbig : get4byte (s.page (get4byte (s.page 1) 32)) 4 > pBt.usableSize / 4 - 2
    · rw [if_pos ⟨hn, hbig⟩]
      exact ⟨fun h => absurd h hc, fun _ _ => rfl⟩
    rw [if_neg (fun h => hbig h.2)]
    by_cases hroom : get4byte (s.page (get4byte (s.page 1) 32)) 4 < pBt.usableSize / 4 - 8
    · rw [if_pos ⟨hn, hroom⟩]
      refine ⟨fun _ => ⟨?_, fun _ => ⟨?_, ?_, ?_, fun i hi => ?_, ?_⟩,
        fun h => absurd ⟨hn, hroom⟩ h⟩, fun _ h => absurd h hbig⟩
      · rw [setPage_other _ _ _ _ (fun e => t1 e.symm)]
      · rw [setPage_other _ _ _ _ (fun e => t1 e.symm)]
      · rw [setPage_same, get4byte_put4byte_other _ _ _ _ (by omega), get4byte_put4byte]
        unfold u32
        omega
      · rw [setPage_same, get4byte_put4byte]
        omega
      · rw [setPage_same, get4byte_put4byte_other _ _ _ _ (by omega),
          get4byte_put4byte_other _ _ _ _ (by omega)]
      · rw [setPage_same, get4byte_put4byte_other _ _ _ _ (by omega),
          get4byte_put4byte_other _ _ _ _ (by omega)]
    · rw [if_neg (fun h => hroom h.2)]
      have hh : ¬ (held = false ∧ p = 0) := fun h => by omega
      rw [if_neg hh]
      refine ⟨fun _ => ⟨?_, fun h => absurd h.2 hroom, fun _ => ⟨?_, ?_, ?_⟩⟩,
        fun _ h => absurd h hbig⟩
      · rw [setPage_same, get4byte_put4byte_other _ _ _ _ (by omega),
          setPage_other _ _ _ _ (by omega)]
      · rw [setPage_same, get4byte_put4byte]
        omega
      · rw [setPage_other _ _ _ _ (by omega), setPage_same, get4byte_put4byte]
      · rw [setPage_other _ _ _ _ (by omega), setPage_same,
          get4byte_put4byte_other _ _ _ _ (by omega), get4byte_put4byte, if_neg hn]
        omega
  · have hn0 : n = 0 := by
      simpa using hn
    unfold freePage2Link
    simp only [if_neg hn]
    have hh : ¬ (held = false ∧ p = 0) := fun h => by omega
    rw [if_neg (fun h => hn h.1), if_neg (fun h => hn h.1), if_neg (fun h => hn h.1), if_neg hh]
    refine ⟨fun _ => ⟨?_, fun h => absurd h.1 hn, fun _ => ⟨?_, ?_, ?_⟩⟩, fun h => absurd h hn⟩
    · rw [setPage_same, get4byte_put4byte_other _ _ _ _ (by omega),
        setPage_other _ _ _ _ (by omega)]
    · rw [setPage_same, get4byte_put4byte]
      omega
    · rw [setPage_other _ _ _ _ (by omega), setPage_same, get4byte_put4byte]
    · rw [setPage_other _ _ _ _ (by omega), setPage_same,
        get4byte_put4byte_other _ _ _ _ (by omega), get4byte_put4byte, if_pos hn0]

/-- The first half of `freePage2`: the count at offset 36 of page 1 goes up, and neither the
rest of page 1 nor the head trunk is touched. -/
theorem freePage2_prefix (pBt : BtShared) (s : DbState) (p : Nat) (held : Bool) (rcHC : Nat)
    (hp1 : 1 < p) (hp32 : p < 4294967296)
    (ht : get4byte (s.page 1) 36 ≠ 0 → get4byte (s.page 1) 32 ≠ p)
    (hmap : pBt.autoVacuum = true → get4byte (s.page 1) 36 ≠ 0 →
      ptrmapPageno pBt p ≠ get4byte (s.page 1) 32) :
    ∃ (s3 : DbState) (rc3 : Nat),
      freePage2 pBt s p held rcHC =
        (if rc3 ≠ 0 then (rc3, s3)
         else freePage2Link pBt s3 (get4byte (s.page 1) 36) p (held || pBt.secureDelete) rcHC) ∧
      (rc3 = SQLITE_OK ∨ rc3 = SQLITE_CORRUPT) ∧
      s3.page 1 = put4byte (s.page 1) 36 (u32 (get4byte (s.page 1) 36 + 1)) ∧
      (get4byte (s.page 1) 36 ≠ 0 → get4byte (s.page 1) 32 ≠ 1 →
        s3.page (get4byte (s.page 1) 32) = s.page (get4byte (s.page 1) 32)) := by
  have hne : ¬ (pBt.secureDelete = true ∧ held = false ∧ p = 0) := fun h => by omega
  have hm1 := ptrmapPageno_ne_one pBt p hp32
  -- the state after the optional wipe of the page
  have hs2 : ∀ b : Bool,
      (if b = true then
          (s.setPage 1 (put4byte (s.page 1) 36 (u32 (get4byte (s.page 1) 36 + 1)))).setPage p
            (memset0 ((s.setPage 1 (put4byte (s.page 1) 36
              (u32 (get4byte (s.page 1) 36 + 1)))).page p) 0 pBt.pageSize)
        else s.setPage 1 (put4byte (s.page 1) 36 (u32 (get4byte (s.page 1) 36 + 1)))).page 1 =
        put4byte (s.page 1) 36 (u32 (get4byte (s.page 1) 36 + 1)) ∧
      (get4byte (s.page 1) 36 ≠ 0 → get4byte (s.page 1) 32 ≠ 1 →
        (if b = true then
          (s.setPage 1 (put4byte (s.page 1) 36 (u32 (get4byte (s.page 1) 36 + 1)))).setPage p
            (memset0 ((s.setPage 1 (put4byte (s.page 1) 36
              (u32 (get4byte (s.page 1) 36 + 1)))).page p) 0 pBt.pageSize)
        else s.setPage 1 (put4byte (s.page 1) 36 (u32 (get4byte (s.page 1) 36 + 1)))).page
          (get4byte (s.page 1) 32) = s.page (get4byte (s.page 1) 32)) := by
    intro b
    cases b
    · simp only [Bool.false_eq_true, if_false]
      exact ⟨setPage_same _ _ _, fun _ h1 => setPage_other _ _ _ _ h1⟩
    · simp only [if_true]
      refine ⟨?_, fun h0 h1 => ?_⟩
      · rw [setPage_other _ _ _ _ (by omega), setPage_same]
      · rw [setPage_other _ _ _ _ (ht h0), setPage_other _ _ _ _ h1]
  unfold freePage2
  simp only []
  rw [if_neg hne]
  refine ⟨_, _, rfl, ?_, ?_, ?_⟩
  · split
    · exact ptrmapPut_rc _ _ _ _ _
    · exact Or.inl rfl
  · split
    · rw [(ptrmapPut_frame _ _ _ _ _ _ 1 (fun e => hm1 e.symm)).1]
      exact (hs2 pBt.secureDelete).1
    · exact (hs2 pBt.secureDelete).1
  · intro h0 h1
    split
    · rename_i hav
      rw [(ptrmapPut_frame _ _ _ _ _ _ _ (fun e => hmap hav h0 e.symm)).1]
      exact (hs2 pBt.secureDelete).2 h0 h1
    · exact (hs2 pBt.secureDelete).2 h0 h1

/-- `freePage2` on a state whose free-page count can grow and whose head trunk is an ordinary
page (not page 1, not the page being freed, not the pointer-map page of that page). -/
theorem freePage2_spec (pBt : BtShared) (s : DbState) (p : Nat) (held : Bool) (rcHC : Nat)
    (hu : usableOk pBt.usableSize) (hp1 : 1 < p) (hp32 : p < 4294967296)
    (hcount : get4byte (s.page 1) 36 + 1 < 4294967296)
    (ht : get4byte (s.page 1) 36 ≠ 0 →
      get4byte (s.page 1) 32 ≠ 1 ∧ get4byte (s.page 1) 32 ≠ p)
    (hmap : pBt.autoVacuum = true → get4byte (s.page 1) 36 ≠ 0 →
      ptrmapPageno pBt p ≠ get4byte (s.page 1) 32) :
    ((freePage2 pBt s p held rcHC).1 = SQLITE_OK →
      get4byte ((freePage2 pBt s p held rcHC).2.page 1) 36 = get4byte (s.page 1) 36 + 1 ∧
      ((get4byte (s.page 1) 36 ≠ 0 ∧
          get4byte (s.page (get4byte (s.page 1) 32)) 4 < pBt.usableSize / 4 - 8) →
        get4byte ((freePage2 pBt s p held rcHC).2.page 1) 32 = get4byte (s.page 1) 32 ∧
        get4byte ((freePage2 pBt s p held rcHC).2.page (get4byte (s.page 1) 32)) 4 =
          get4byte (s.page (get4byte (s.page 1) 32)) 4 + 1 ∧
        get4byte ((freePage2 pBt s p held rcHC).2.page (get4byte (s.page 1) 32))
          (8 + get4byte (s.page (get4byte (s.page 1) 32)) 4 * 4) = p ∧
        (∀ i, i < get4byte (s.page (get4byte (s.page 1) 32)) 4 →
          get4byte ((freePage2 pBt s p held rcHC).2.page (get4byte (s.page 1) 32))
            (8 + i * 4) = get4byte (s.page (get4byte (s.page 1) 32)) (8 + i * 4)) ∧
        get4byte ((freePage2 pBt s p held rcHC).2.page (get4byte (s.page 1) 32)) 0 =
          get4byte (s.page (get4byte (s.page 1) 32)) 0) ∧
      (¬ (get4byte (s.page 1) 36 ≠ 0 ∧
          get4byte (s.page (get4byte (s.page 1) 32)) 4 < pBt.usableSize / 4 - 8) →
        get4byte ((freePage2 pBt s p held rcHC).2.page 1) 32 = p ∧
        get4byte ((freePage2 pBt s p held rcHC).2.page p) 4 = 0 ∧
        get4byte ((freePage2 pBt s p held rcHC).2.page p) 0 =
          (if get4byte (s.page 1) 36 = 0 then 0 else get4byte (s.page 1) 32))) ∧
    (get4byte (s.page 1) 36 ≠ 0 →
      pBt.usableSize / 4 - 2 < get4byte (s.page (get4byte (s.page 1) 32)) 4 →
      (freePage2 pBt s p held rcHC).1 = SQLITE_CORRUPT) := by
  obtain ⟨s3, rc3, hfp, hrc, h1, ht3⟩ := freePage2_prefix pBt s p held rcHC hp1 hp32
    (fun h => (ht h).2) hmap
  have h32 : get4byte (s3.page 1) 32 = get4byte (s.page 1) 32 := by
    rw [h1, get4byte_put4byte_other _ _ _ _ (by omega)]
  have h36 : get4byte (s3.page 1) 36 = get4byte (s.page 1) 36 + 1 := by
    rw [h1, get4byte_put4byte]
    unfold u32
    omega
  have hpt : get4byte (s.page 1) 36 ≠ 0 →
      s3.page (get4byte (s.page 1) 32) = s.page (get4byte (s.page 1) 32) :=
    fun h0 => ht3 h0 (ht h0).1
  obtain ⟨l1, l2⟩ := freePage2Link_spec pBt s3 (get4byte (s.page 1) 36) p
    (held || pBt.secureDelete) rcHC hu hp1 hp32 (by rw [h32]; exact ht)
  rw [hfp]
  rcases hrc with hrc | hrc
  · have hz : ¬ (rc3 ≠ 0) := by
      rw [hrc]; decide
    rw [if_neg hz]
    rw [h32] at l1 l2
    refine ⟨fun hok => ?_, fun h0 hk => ?_⟩
    · obtain ⟨m1, m2, m3⟩ := l1 hok
      refine ⟨by rw [m1, h36], fun hc => ?_, fun hc => ?_⟩
      · rw [hpt hc.1] at m2
        exact m2 hc
      · by_cases h0 : get4byte (s.page 1) 36 ≠ 0
        · rw [hpt h0] at m3
          exact m3 hc
        · exact m3 (fun h => h0 h.1)
    · rw [hpt h0] at l2
      exact l2 h0 hk
  · have hz : rc3 ≠ 0 := by
      rw [hrc]; decide
    rw [if_pos hz]
    have hc : SQLITE_CORRUPT ≠ SQLITE_OK := by decide
    refine ⟨fun hok => ?_, fun _ _ => hrc⟩
    rw [hrc] at hok
    exact absurd hok hc

/-- C13: `freePage2` on a page `p > 1`, with a 32-bit free-page count that can still grow and
a head trunk that is an ordinary page of the list (neither page 1 nor `p` itself nor, in
auto-vacuum mode, the pointer-map page of `p`).  If it returns `SQLITE_OK`, the count
at offset 36 of page 1 has grown by exactly 1; if the count was non-zero and the head trunk
held fewer than `usableSize/4 - 8` leaves, the head stays, its leaf count grows by 1, `p`
is stored in the slot after the former leaves and the former leaves and the next-trunk
pointer are unchanged; otherwise offset 32 of page 1 names `p`, whose leaf count is 0 and
whose next-trunk pointer is the former head (0 when the count was 0).  When the count is
non-zero and the head trunk's leaf count exceeds `usableSize/4 - 2`, the result is
`SQLITE_CORRUPT`. -/
theorem freePage2_links_page (pBt : BtShared) (s : DbState) (p : Nat) (held : Bool)
    (rcHC : Nat) (hu : usableOk pBt.usableSize) (hp1 : 1 < p) (hp32 : p < 4294967296)
    (hcount : get4byte (s.page 1) 36 + 1 < 4294967296)
    (ht : get4byte (s.page 1) 36 ≠ 0 →
      get4byte (s.page 1) 32 ≠ 1 ∧ get4byte (s.page 1) 32 ≠ p)
    (hmap : pBt.autoVacuum = true → get4byte (s.page 1) 36 ≠ 0 →
      ptrmapPageno pBt p ≠ get4byte (s.page 1) 32) :
    ((freePage2 pBt s p held rcHC).1 = SQLITE_OK →
      get4byte ((freePage2 pBt s p held rcHC).2.page 1) 36 = get4byte (s.page 1) 36 + 1 ∧
      ((get4byte (s.page 1) 36 ≠ 0 ∧
          get4byte (s.page (get4byte (s.page 1) 32)) 4 < pBt.usableSize / 4 - 8) →
        get4byte ((freePage2 pBt s p held rcHC).2.page 1) 32 = get4byte (s.page 1) 32 ∧
        get4byte ((freePage2 pBt s p held rcHC).2.page (get4byte (s.page 1) 32)) 4 =
          get4byte (s.page (get4byte (s.page 1) 32)) 4 + 1 ∧
        get4byte ((freePage2 pBt s p held rcHC).2.page (get4byte (s.page 1) 32))
          (8 + get4byte (s.page (get4byte (s.page 1) 32)) 4 * 4) = p ∧
        (∀ i, i < get4byte (s.page (get4byte (s.page 1) 32)) 4 →
          get4byte ((freePage2 pBt s p held rcHC).2.page (get4byte (s.page 1) 32))
            (8 + i * 4) = get4byte (s.page (get4byte (s.page 1) 32)) (8 + i * 4)) ∧
        get4byte ((freePage2 pBt s p held rcHC).2.page (get4byte (s.page 1) 32)) 0 =
          get4byte (s.page (get4byte (s.page 1) 32)) 0) ∧
      (¬ (get4byte (s.page 1) 36 ≠ 0 ∧
          get4byte (s.page (get4byte (s.page 1) 32)) 4 < pBt.usableSize / 4 - 8) →
        get4byte ((freePage2 pBt s p held rcHC).2.page 1) 32 = p ∧
        get4byte ((freePage2 pBt s p held rcHC).2.page p) 4 = 0 ∧
        get4byte ((freePage2 pBt s p held rcHC).2.page p) 0 =
          (if get4byte (s.page 1) 36 = 0 then 0 else get4byte (s.page 1) 32))) ∧
    (get4byte (s.page 1) 36 ≠ 0 →
      pBt.usableSize / 4 - 2 < get4byte (s.page (get4byte (s.page 1) 32)) 4 →
      (freePage2 pBt s p held rcHC).1 = SQLITE_CORRUPT) :=
  freePage2_spec pBt s p held rcHC hu hp1 hp32 hcount ht hmap

/-- Witness for C13: page 11 is freed in the example database whose head trunk 5 holds three
leaves; it becomes the fourth leaf of trunk 5 and the count goes from 5 to 6.  Freed into
the empty free list it becomes the head trunk. -/
theorem freePage2_links_page_witness :
    (usableOk exAutoBt.usableSize ∧ 1 < 11 ∧ 11 < 4294967296 ∧
      get4byte (exFreeDb.page 1) 36 + 1 < 4294967296 ∧
      (get4byte (exFreeDb.page 1) 36 ≠ 0 →
        get4byte (exFreeDb.page 1) 32 ≠ 1 ∧ get4byte (exFreeDb.page 1) 32 ≠ 11) ∧
      (exAutoBt.autoVacuum = true → get4byte (exFreeDb.page 1) 36 ≠ 0 →
        ptrmapPageno exAutoBt 11 ≠ get4byte (exFreeDb.page 1) 32)) ∧
    ((freePage2 exAutoBt exFreeDb 11 true 0).1 = SQLITE_OK ∧
      get4byte ((freePage2 exAutoBt exFreeDb 11 true 0).2.page 1) 36 = 6 ∧
      trunkLeaves ((freePage2 exAutoBt exFreeDb 11 true 0).2.page 5) = [12, 7, 15, 11] ∧
      (freePage2 exAutoBt exNoFreeDb 11 true 0).1 = SQLITE_OK ∧
      get4byte ((freePage2 exAutoBt exNoFreeDb 11 true 0).2.page 1) 32 = 11) ∧
    (((freePage2 exAutoBt exFreeDb 11 true 0).1 = SQLITE_OK →
      get4byte ((freePage2 exAutoBt exFreeDb 11 true 0).2.page 1) 36 =
        get4byte (exFreeDb.page 1) 36 + 1 ∧
      ((get4byte (exFreeDb.page 1) 36 ≠ 0 ∧
          get4byte (exFreeDb.page (get4byte (exFreeDb.page 1) 32)) 4 <
            exAutoBt.usableSize / 4 - 8) →
        get4byte ((freePage2 exAutoBt exFreeDb 11 true 0).2.page 1) 32 =
          get4byte (exFreeDb.page 1) 32 ∧
        get4byte ((freePage2 exAutoBt exFreeDb 11 true 0).2.page
            (get4byte (exFreeDb.page 1) 32)) 4 =
          get4byte (exFreeDb.page (get4byte (exFreeDb.page 1) 32)) 4 + 1 ∧
        get4byte ((freePage2 exAutoBt exFreeDb 11 true 0).2.page (get4byte (exFreeDb.page 1) 32))
          (8 + get4byte (exFreeDb.page (get4byte (exFreeDb.page 1) 32)) 4 * 4) = 11 ∧
        (∀ i, i < get4byte (exFreeDb.page (get4byte (exFreeDb.page 1) 32)) 4 →
          get4byte ((freePage2 exAutoBt exFreeDb 11 true 0).2.page
              (get4byte (exFreeDb.page 1) 32)) (8 + i * 4) =
            get4byte (exFreeDb.page (get4byte (exFreeDb.page 1) 32)) (8 + i * 4)) ∧
        get4byte ((freePage2 exAutoBt exFreeDb 11 true 0).2.page
            (get4byte (exFreeDb.page 1) 32)) 0 =
          get4byte (exFreeDb.page (get4byte (exFreeDb.page 1) 32)) 0) ∧
      (¬ (get4byte (exFreeDb.page 1) 36 ≠ 0 ∧
          get4byte (exFreeDb.page (get4byte (exFreeDb.page 1) 32)) 4 <
            exAutoBt.usableSize / 4 - 8) →
        get4byte ((freePage2 exAutoBt exFreeDb 11 true 0).2.page 1) 32 = 11 ∧
        get4byte ((freePage2 exAutoBt exFreeDb 11 true 0).2.page 11) 4 = 0 ∧
        get4byte ((freePage2 exAutoBt exFreeDb 11 true 0).2.page 11) 0 =
          (if get4byte (exFreeDb.page 1) 36 = 0 then 0 else get4byte (exFreeDb.page 1) 32))) ∧
    (get4byte (exFreeDb.page 1) 36 ≠ 0 →
      exAutoBt.usableSize / 4 - 2 < get4byte (exFreeDb.page (get4byte (exFreeDb.page 1) 32)) 4 →
      (freePage2 exAutoBt exFreeDb 11 true 0).1 = SQLITE_CORRUPT)) :=
  ⟨⟨by decide, by decide, by decide, by decide, by decide, by decide⟩,
    ⟨by decide, by decide, by decide, by decide, by decide⟩,
    freePage2_links_page exAutoBt exFreeDb 11 true 0 (by decide) (by decide) (by decide)
      (by decide) (by decide) (by decide)⟩

end Btree

namespace Btree

/-! ## `allocateBtreePage` from the free list -/

/-- For page numbers below 2^31 the distance that `allocateBtreePage` compares is the
numerical distance. -/
theorem absDiff_eq (a b : Nat) (ha : a < 2147483648) (hb : b < 2147483648) :
    sqlite3AbsInt32 (toInt32 (u32sub a b)) = |(a : Int) - (b : Int)| := by
  unfold sqlite3AbsInt32 toInt32 u32sub
  by_cases hab : b ≤ a
  · have e : (a % 4294967296 + 4294967296 - b % 4294967296) % 4294967296 = a - b := by omega
    rw [e]
    have e2 : (a - b) % 4294967296 = a - b := by omega
    rw [e2, if_pos (by omega)]
    rw [if_pos (by omega)]
    rw [abs_of_nonneg (by omega)]
    omega
  · have e : (a % 4294967296 + 4294967296 - b % 4294967296) % 4294967296
        = 4294967296 - (b - a) := by omega
    rw [e]
    have e2 : (4294967296 - (b - a)) % 4294967296 = 4294967296 - (b - a) := by omega
    rw [e2, if_neg (by omega)]
    rw [if_neg (by omega), if_neg (by omega)]
    rw [abs_of_neg (by omega)]
    omega

/-- The search loop for the closest leaf: the result is the lowest-indexed leaf among those
at the smallest distance. -/
theorem closestLeaf_spec (aData : Bytes) (nearby k : Nat) :
    ∀ (fuel i closest : Nat) (dist : Int),
      k ≤ i + fuel → closest < i → i ≤ k →
      dist = sqlite3AbsInt32 (toInt32 (u32sub (get4byte aData (8 + closest * 4)) nearby)) →
      (∀ j, j < i →
        dist ≤ sqlite3AbsInt32 (toInt32 (u32sub (get4byte aData (8 + j * 4)) nearby)) ∧
        (j < closest →
          dist < sqlite3AbsInt32 (toInt32 (u32sub (get4byte aData (8 + j * 4)) nearby)))) →
      closestLeaf aData nearby k fuel i closest dist < k ∧
      ∀ j, j < k →
        sqlite3AbsInt32 (toInt32 (u32sub
            (get4byte aData (8 + closestLeaf aData nearby k fuel i closest dist * 4)) nearby)) ≤
          sqlite3AbsInt32 (toInt32 (u32sub (get4byte aData (8 + j * 4)) nearby)) ∧
        (j < closestLeaf aData nearby k fuel i closest dist →
          sqlite3AbsInt32 (toInt32 (u32sub
              (get4byte aData (8 + closestLeaf aData nearby k fuel i closest dist * 4)) nearby)) <
            sqlite3AbsInt32 (toInt32 (u32sub (get4byte aData (8 + j * 4)) nearby))) := by
  intro fuel
  induction fuel with
  | zero =>
    intro i closest dist hf hc hik hd hinv
    have hi : i = k := by omega
    subst hi
    simp only [closestLeaf]
    refine ⟨hc, fun j hj => ?_⟩
    rw [← hd]
    exact hinv j hj
  | succ fuel ih =>
    intro i closest dist hf hc hik hd hinv
    rw [closestLeaf]
    by_cases hlt : i < k
    · rw [if_pos hlt]
      by_cases hbetter :
          sqlite3AbsInt32 (toInt32 (u32sub (get4byte aData (8 + i * 4)) nearby)) < dist
      · rw [if_pos hbetter]
        apply ih (i + 1) i _ (by omega) (by omega) (by omega) rfl
        intro j hj
        by_cases hji : j = i
        · subst hji
          exact ⟨le_refl _, fun h => absurd h (by omega)⟩
        · obtain ⟨a1, _⟩ := hinv j (by omega)
          exact ⟨by omega, fun _ => by omega⟩
      · rw [if_neg hbetter]
        apply ih (i + 1) closest dist (by omega) (by omega) (by omega) hd
        intro j hj
        by_cases hji : j = i
        · subst hji
          exact ⟨by omega, fun h => absurd h (by omega)⟩
        · exact hinv j (by omega)
    · rw [if_neg hlt]
      have hi : i = k := by omega
      subst hi
      refine ⟨hc, fun j hj => ?_⟩
      rw [← hd]
      exact hinv j hj

theorem mem_trunkLeaves (d : Bytes) (x : Nat) :
    x ∈ trunkLeaves d ↔ ∃ i, i < get4byte d 4 ∧ get4byte d (8 + i * 4) = x := by
  unfold trunkLeaves
  simp [List.mem_map, List.mem_range]

theorem trunkLeaves_inj (d : Bytes) (h : (trunkLeaves d).Nodup) (i j : Nat)
    (hi : i < get4byte d 4) (hj : j < get4byte d 4)
    (e : get4byte d (8 + i * 4) = get4byte d (8 + j * 4)) : i = j :=
  List.inj_on_of_nodup_map h (List.mem_range.mpr hi) (List.mem_range.mpr hj) e

/-- Without a search for an exact page the loop over the trunks runs once. -/
theorem allocateFromFreelist_nosearch (pBt : BtShared) (nearby mxPage fuel : Nat) (s : DbState)
    (pgno : Nat) :
    allocateFromFreelist pBt nearby mxPage (fuel + 1) s none false pgno =
      some (allocHead pBt nearby mxPage s pgno) := by
  rw [allocateFromFreelist]
  unfold allocHead
  simp only [Bool.false_eq_true, false_and, if_false, and_true, true_or, if_true]
  split
  · rfl
  split
  · rfl
  split
  · rfl
  split
  · rfl
  rename_i hk0 _
  rw [if_pos (by omega)]
  split
  · rfl
  split <;> rfl

/-- With `exact = 0` and a non-zero free-page count `allocateBtreePage` needs one unit of
fuel, and its result is that of one pass over the head trunk. -/
theorem allocateBtreePage_freelist_eq (pBt : BtShared) (s : DbState) (pgno0 nearby fuel : Nat)
    (hn : 0 < get4byte (s.page 1) 36) (hf : 1 ≤ fuel) :
    allocateBtreePage fuel pBt s pgno0 nearby 0 =
      some (if get4byte (s.page 1) 36 ≥ s.nPage then (SQLITE_CORRUPT, s, pgno0)
        else allocateFinish (allocHead pBt nearby s.nPage
          (s.setPage 1 (put4byte (s.page 1) 36 (get4byte (s.page 1) 36 - 1))) pgno0)) := by
  obtain ⟨f, rfl⟩ : ∃ f, fuel = f + 1 := ⟨fuel - 1, by omega⟩
  unfold allocateBtreePage
  simp only [ne_eq, not_true_eq_false, false_and, if_false, SQLITE_OK]
  split
  · rfl
  · have h := allocateFromFreelist_nosearch pBt nearby s.nPage f
      (s.setPage 1 (put4byte (s.page 1) 36 (get4byte (s.page 1) 36 - 1))) pgno0
    simp only [SQLITE_OK] at h
    rw [h]

theorem get4byte_memcpy4 (d src : Bytes) (a b : Nat) :
    get4byte (memcpy d a src b 4) a = get4byte src b := by
  unfold get4byte getByte
  rw [memcpy_inside _ _ _ _ _ _ (by omega) (by omega),
    memcpy_inside _ _ _ _ _ _ (by omega) (by omega),
    memcpy_inside _ _ _ _ _ _ (by omega) (by omega),
    memcpy_inside _ _ _ _ _ _ (by omega) (by omega)]
  have e0 : b + (a - a) = b := by omega
  have e1 : b + (a + 1 - a) = b + 1 := by omega
  have e2 : b + (a + 2 - a) = b + 2 := by omega
  have e3 : b + (a + 3 - a) = b + 3 := by omega
  rw [e0, e1, e2, e3]

theorem get4byte_memcpy_other (d src : Bytes) (a b n j : Nat) (h : j + 4 ≤ a ∨ a + n ≤ j) :
    get4byte (memcpy d a src b n) j = get4byte d j :=
  get4byte_congr (fun x h1 h2 => memcpy_other _ _ _ _ _ _ (by omega))

/-- The trunk page after `takeLeaf`. -/
theorem takeLeaf_effect (s : DbState) (t c : Nat) (hc : c < get4byte (s.page t) 4) :
    get4byte ((takeLeaf s t c).page t) 4 = get4byte (s.page t) 4 - 1 ∧
    get4byte ((takeLeaf s t c).page t) 0 = get4byte (s.page t) 0 ∧
    (∀ i, i < get4byte (s.page t) 4 - 1 →
      get4byte ((takeLeaf s t c).page t) (8 + i * 4) =
        (if i = c then get4byte (s.page t) (8 + (get4byte (s.page t) 4 - 1) * 4)
         else get4byte (s.page t) (8 + i * 4))) ∧
    (∀ x, x ≠ t → (takeLeaf s t c).page x = s.page x) ∧
    (takeLeaf s t c).nPage = s.nPage ∧ (takeLeaf s t c).nRef = s.nRef := by
  have hk := get4byte_lt (s.page t) 4
  have e48 : 4 + get4byte (s.page t) 4 * 4 = 8 + (get4byte (s.page t) 4 - 1) * 4 := by omega
  unfold takeLeaf
  simp only []
  by_cases hlast : c < get4byte (s.page t) 4 - 1
  · simp only [if_pos hlast, setPage_same]
    refine ⟨?_, ?_, fun i hi => ?_, fun x hx => ?_, rfl, rfl⟩
    · rw [get4byte_put4byte]
      omega
    · rw [get4byte_put4byte_other _ _ _ _ (by omega), get4byte_memcpy_other _ _ _ _ _ _ (by omega)]
    · rw [get4byte_put4byte_other _ _ _ _ (by omega)]
      by_cases hic : i = c
      · rw [if_pos hic, hic, get4byte_memcpy4, e48]
      · rw [if_neg hic, get4byte_memcpy_other _ _ _ _ _ _ (by omega)]
    · rw [setPage_other _ _ _ _ hx, setPage_other _ _ _ _ hx]
  · simp only [if_neg hlast, setPage_same]
    refine ⟨?_, ?_, fun i hi => ?_, fun x hx => ?_, rfl, rfl⟩
    · rw [get4byte_put4byte]
      omega
    · rw [get4byte_put4byte_other _ _ _ _ (by omega)]
    · rw [get4byte_put4byte_other _ _ _ _ (by omega), if_neg (by omega)]
    · rw [setPage_other _ _ _ _ hx]

/-- Taking a leaf off a trunk whose leaves are pairwise distinct removes exactly that
leaf from the set of its leaves. -/
theorem takeLeaf_leaves (s : DbState) (t c : Nat) (hc : c < get4byte (s.page t) 4)
    (hnd : (trunkLeaves (s.page t)).Nodup) (x : Nat) :
    x ∈ trunkLeaves ((takeLeaf s t c).page t) ↔
      (x ∈ trunkLeaves (s.page t) ∧ x ≠ get4byte (s.page t) (8 + c * 4)) := by
  obtain ⟨e1, _, e3, _⟩ := takeLeaf_effect s t c hc
  rw [mem_trunkLeaves, mem_trunkLeaves, e1]
  constructor
  · rintro ⟨i, hi, hx⟩
    rw [e3 i hi] at hx
    by_cases hic : i = c
    · rw [if_pos hic] at hx
      refine ⟨⟨get4byte (s.page t) 4 - 1, by omega, hx⟩, fun e => ?_⟩
      rw [← hx] at e
      have := trunkLeaves_inj _ hnd _ _ (by omega) hc e
      omega
    · rw [if_neg hic] at hx
      refine ⟨⟨i, by omega, hx⟩, fun e => ?_⟩
      rw [← hx] at e
      exact hic (trunkLeaves_inj _ hnd _ _ (by omega) hc e)
  · rintro ⟨⟨i, hi, hx⟩, hne⟩
    by_cases hil : i = get4byte (s.page t) 4 - 1
    · have hcl : c < get4byte (s.page t) 4 - 1 := by
        rcases Nat.lt_or_ge c (get4byte (s.page t) 4 - 1) with h | h
        · exact h
        · exfalso
          have : c = i := by omega
          rw [this] at hne
          exact hne hx.symm
      refine ⟨c, hcl, ?_⟩
      rw [e3 c hcl, if_pos rfl, ← hil, hx]
    · have hic : i ≠ c := fun e => by
        rw [e] at hx
        exact hne hx.symm
      refine ⟨i, by omega, ?_⟩
      rw [e3 i (by omega), if_neg hic, hx]

theorem IsTrunkChain_congr {page page' : Nat → Bytes} :
    ∀ (Ts : List Nat) (t : Nat), IsTrunkChain page t Ts →
      (∀ a ∈ Ts, get4byte (page' a) 0 = get4byte (page a) 0) → IsTrunkChain page' t Ts := by
  intro Ts
  induction Ts with
  | nil =>
    intro t h _
    exact h
  | cons a rest ih =>
    intro t h hh
    obtain ⟨h1, h2, h3⟩ := h
    refine ⟨h1, h2, ?_⟩
    rw [hh a (List.mem_cons_self _ _)]
    exact ih _ h3 (fun b hb => hh b (List.mem_cons_of_mem _ hb))

theorem freeListPages_congr {page page' : Nat → Bytes} :
    ∀ (Ts : List Nat), (∀ a ∈ Ts, page' a = page a) →
      freeListPages page' Ts = freeListPages page Ts := by
  intro Ts
  induction Ts with
  | nil =>
    intro _
    rfl
  | cons a rest ih =>
    intro hh
    simp only [freeListPages]
    rw [hh a (List.mem_cons_self _ _), ih (fun b hb => hh b (List.mem_cons_of_mem _ hb))]

theorem trunk_mem_freeListPages (page : Nat → Bytes) :
    ∀ (Ts : List Nat) (a : Nat), a ∈ Ts → a ∈ freeListPages page Ts := by
  intro Ts
  induction Ts with
  | nil =>
    intro a h
    cases h
  | cons b rest ih =>
    intro a h
    simp only [freeListPages, List.cons_append, List.mem_cons, List.mem_append]
    rcases List.mem_cons.mp h with h | h
    · exact Or.inl h
    · exact Or.inr (Or.inr (ih a h))

theorem allocateFinish_ok (r : Nat × DbState × Nat × Option Nat)
    (h : (allocateFinish r).1 = SQLITE_OK) :
    r.1 = SQLITE_OK ∧ (allocateFinish r).2.1.page = r.2.1.page ∧
      (allocateFinish r).2.2 = r.2.2.1 := by
  have hc : SQLITE_CORRUPT ≠ SQLITE_OK := by decide
  obtain ⟨rc, sX, pg, o⟩ := r
  unfold allocateFinish at h ⊢
  by_cases h1 : rc = SQLITE_OK
  · simp only [if_pos h1] at h ⊢
    cases o with
    | none => exact absurd h hc
    | some p =>
      simp only at h ⊢
      by_cases hr : sX.nRef p + 1 > 1
      · rw [if_pos hr] at h
        exact absurd h hc
      · rw [if_neg hr]
        exact ⟨h1, rfl, rfl⟩
  · simp only [if_neg h1] at h
    exact absurd h h1

theorem closestTo_lt (d : Bytes) (nearby : Nat) (hk : 0 < get4byte d 4) :
    closestTo d nearby < get4byte d 4 := by
  unfold closestTo
  split
  · exact (closestLeaf_spec d nearby (get4byte d 4) (get4byte d 4) 1 0 _ (by omega) (by omega)
      (by omega) rfl (fun j hj => by
        have : j = 0 := by omega
        subst this
        exact ⟨le_refl _, fun h => absurd h (by omega)⟩)).1
  · exact hk

/-- The leaf that `closestTo` picks is the lowest-indexed leaf at the smallest numerical
distance from `nearby`. -/
theorem closestTo_spec (d : Bytes) (nearby : Nat) (hk : 0 < get4byte d 4)
    (hnb : nearby < 2147483648)
    (hl : ∀ j, j < get4byte d 4 → get4byte d (8 + j * 4) < 2147483648) :
    (nearby = 0 → closestTo d nearby = 0) ∧
    (0 < nearby → ∀ j, j < get4byte d 4 →
      |(get4byte d (8 + closestTo d nearby * 4) : Int) - (nearby : Int)| ≤
        |(get4byte d (8 + j * 4) : Int) - (nearby : Int)| ∧
      (j < closestTo d nearby →
        |(get4byte d (8 + closestTo d nearby * 4) : Int) - (nearby : Int)| <
          |(get4byte d (8 + j * 4) : Int) - (nearby : Int)|)) := by
  have hlt := closestTo_lt d nearby hk
  refine ⟨fun h0 => ?_, fun hpos j hj => ?_⟩
  · unfold closestTo
    rw [if_neg (by omega)]
  · have hsp := (closestLeaf_spec d nearby (get4byte d 4) (get4byte d 4) 1 0 _ (by omega) (by omega)
      (by omega) rfl (fun j hj => by
        have : j = 0 := by omega
        subst this
        exact ⟨le_refl _, fun h => absurd h (by omega)⟩)).2 j hj
    have e : closestTo d nearby = closestLeaf d nearby (get4byte d 4) (get4byte d 4) 1 0
        (sqlite3AbsInt32 (toInt32 (u32sub (get4byte d (8 + 0 * 4)) nearby))) := by
      unfold closestTo
      rw [if_pos hpos]
    rw [e] at hlt ⊢
    rw [absDiff_eq _ _ (hl _ hlt) hnb, absDiff_eq _ _ (hl j hj) hnb] at hsp
    exact hsp

/-- Allocation from a well-formed, non-empty free list with `exact = 0`: the result, the
page chosen, and the free list afterwards. -/
theorem allocateBtreePage_freelist_spec (pBt : BtShared) (s : DbState) (pgno0 nearby : Nat)
    (Ts : List Nat) (hfl : FreeListOk pBt s Ts) (hn : 0 < get4byte (s.page 1) 36)
    (hnb : nearby < 2147483648) :
    ∃ r : Nat × DbState × Nat,
      (∀ fuel, 1 ≤ fuel → allocateBtreePage fuel pBt s pgno0 nearby 0 = some r) ∧
      (r.1 = SQLITE_OK →
        (get4byte (s.page (get4byte (s.page 1) 32)) 4 = 0 → r.2.2 = get4byte (s.page 1) 32) ∧
        (0 < get4byte (s.page (get4byte (s.page 1) 32)) 4 →
          ∃ c, c < get4byte (s.page (get4byte (s.page 1) 32)) 4 ∧
            r.2.2 = get4byte (s.page (get4byte (s.page 1) 32)) (8 + c * 4) ∧
            (nearby = 0 → c = 0) ∧
            (0 < nearby → ∀ j, j < get4byte (s.page (get4byte (s.page 1) 32)) 4 →
              |(get4byte (s.page (get4byte (s.page 1) 32)) (8 + c * 4) : Int) - (nearby : Int)| ≤
                |(get4byte (s.page (get4byte (s.page 1) 32)) (8 + j * 4) : Int) - (nearby : Int)| ∧
              (j < c →
                |(get4byte (s.page (get4byte (s.page 1) 32)) (8 + c * 4) : Int) - (nearby : Int)| <
                  |(get4byte (s.page (get4byte (s.page 1) 32)) (8 + j * 4) : Int)
                    - (nearby : Int)|))) ∧
        (∃ Ts', IsTrunkChain r.2.1.page (get4byte (r.2.1.page 1) 32) Ts' ∧
          ∀ x, x ∈ freeListPages r.2.1.page Ts' ↔ (x ∈ freeListPages s.page Ts ∧ x ≠ r.2.2)) ∧
        get4byte (r.2.1.page 1) 36 + 1 = get4byte (s.page 1) 36) := by
  obtain ⟨hch, hnd, hpg, hkk⟩ := hfl
  refine ⟨_, fun fuel hf => allocateBtreePage_freelist_eq pBt s pgno0 nearby fuel hn hf, ?_⟩
  intro hok
  have hc : SQLITE_CORRUPT ≠ SQLITE_OK := by decide
  by_cases hbig : get4byte (s.page 1) 36 ≥ s.nPage
  · rw [if_pos hbig] at hok
    exact absurd hok hc
  rw [if_neg hbig] at hok ⊢
  obtain ⟨h1, hpage, hpgno⟩ := allocateFinish_ok _ hok
  rw [hpage, hpgno]
  have f1 : get4byte ((s.setPage 1 (put4byte (s.page 1) 36 (get4byte (s.page 1) 36 - 1))).page 1) 32
      = get4byte (s.page 1) 32 := by
    rw [setPage_same, get4byte_put4byte_other _ _ _ _ (by omega)]
  have f3 : get4byte ((s.setPage 1 (put4byte (s.page 1) 36 (get4byte (s.page 1) 36 - 1))).page 1) 36
      + 1 = get4byte (s.page 1) 36 := by
    have := get4byte_lt (s.page 1) 36
    rw [setPage_same, get4byte_put4byte, Nat.mod_eq_of_lt (by omega)]
    omega
  have f2 : ∀ x, x ≠ 1 →
      (s.setPage 1 (put4byte (s.page 1) 36 (get4byte (s.page 1) 36 - 1))).page x = s.page x :=
    fun x hx => setPage_other _ _ _ _ hx
  generalize s.setPage 1 (put4byte (s.page 1) 36 (get4byte (s.page 1) 36 - 1)) = s1
    at f1 f2 f3 h1 ⊢
  clear hok hpage hpgno
  unfold allocHead at h1 ⊢
  rw [f1] at h1 ⊢
  generalize get4byte (s.page 1) 32 = t at *
  cases Ts with
  | nil =>
    have ht : t = 0 := hch
    subst ht
    simp only [if_neg (Nat.not_lt_zero _), if_true] at h1
    exact absurd h1 hc
  | cons a rest =>
    obtain ⟨hta, ha0, hrest⟩ := hch
    subst hta
    have hnd2 : (t :: (trunkLeaves (s.page t) ++ freeListPages s.page rest)).Nodup := hnd
    rw [List.nodup_cons, List.nodup_append] at hnd2
    obtain ⟨hna, hndl, hndr, hdisj⟩ := hnd2
    have hmem : ∀ x, x ∈ freeListPages s.page (t :: rest) ↔
        (x = t ∨ x ∈ trunkLeaves (s.page t) ∨ x ∈ freeListPages s.page rest) := by
      intro x
      simp only [freeListPages, List.cons_append, List.mem_cons, List.mem_append]
    have ht1 : t ≠ 1 := (hpg t ((hmem t).mpr (Or.inl rfl))).1
    have hr1 : ∀ b ∈ rest, b ≠ 1 ∧ b ≠ t := fun b hb => by
      have hb2 := trunk_mem_freeListPages s.page rest b hb
      refine ⟨(hpg b ((hmem b).mpr (Or.inr (Or.inr hb2)))).1, fun e => ?_⟩
      rw [e] at hb2
      exact hna (List.mem_append.mpr (Or.inr hb2))
    rw [f2 t ht1] at h1 ⊢
    by_cases c1 : t > s.nPage
    · simp only [if_pos c1] at h1
      exact absurd h1 hc
    simp only [if_neg c1, if_neg ha0] at h1 ⊢
    by_cases hk0 : get4byte (s.page t) 4 = 0
    · simp only [if_pos hk0] at h1 ⊢
      refine ⟨fun _ => trivial, fun h => absurd h (by omega), ⟨rest, ?_, fun x => ?_⟩, ?_⟩
      · refine IsTrunkChain_congr rest _ hrest (fun b hb => ?_)
        rw [setPage_other _ _ _ _ (hr1 b hb).1, f2 b (hr1 b hb).1]
      · rw [freeListPages_congr rest (fun b hb => by
          rw [setPage_other _ _ _ _ (hr1 b hb).1, f2 b (hr1 b hb).1]), hmem]
        have hl : ∀ y, y ∉ trunkLeaves (s.page t) := fun y hy => by
          obtain ⟨i, hi, _⟩ := (mem_trunkLeaves _ _).mp hy
          omega
        constructor
        · intro hx
          refine ⟨Or.inr (Or.inr hx), fun e => ?_⟩
          rw [e] at hx
          exact hna (List.mem_append.mpr (Or.inr hx))
        · rintro ⟨h | h | h, hne⟩
          · exact absurd h hne
          · exact absurd h (hl x)
          · exact h
      · rw [setPage_same, get4byte_memcpy_other _ _ _ _ _ _ (by omega)]
        exact f3
    · have hkpos : 0 < get4byte (s.page t) 4 := Nat.pos_of_ne_zero hk0
      have hcl := closestTo_lt (s.page t) nearby hkpos
      have hleafmem : ∀ j, j < get4byte (s.page t) 4 →
          get4byte (s.page t) (8 + j * 4) ∈ trunkLeaves (s.page t) :=
        fun j hj => (mem_trunkLeaves _ _).mpr ⟨j, hj, rfl⟩
      have hl31 : ∀ j, j < get4byte (s.page t) 4 →
          get4byte (s.page t) (8 + j * 4) < 2147483648 :=
        fun j hj => (hpg _ ((hmem _).mpr (Or.inr (Or.inl (hleafmem j hj))))).2
      obtain ⟨hz, hclose⟩ := closestTo_spec (s.page t) nearby hkpos hnb hl31
      simp only [if_neg hk0] at h1 ⊢
      by_cases c2 : get4byte (s.page t) 4 > u32 (pBt.usableSize / 4 - 2)
      · simp only [if_pos c2] at h1
        exact absurd h1 hc
      simp only [if_neg c2] at h1 ⊢
      by_cases c3 : get4byte (s.page t) (8 + closestTo (s.page t) nearby * 4) > s.nPage
      · simp only [if_pos c3] at h1
        exact absurd h1 hc
      simp only [if_neg c3] at h1 ⊢
      by_cases c4 : get4byte (s.page t) (8 + closestTo (s.page t) nearby * 4) = 0
      · simp only [if_pos c4] at h1
        exact absurd h1 hc
      simp only [if_neg c4] at h1 ⊢
      have hc1 : closestTo (s.page t) nearby < get4byte (s1.page t) 4 := by
        rw [f2 t ht1]
        exact hcl
      obtain ⟨e1, e2, e3, e4, _, _⟩ := takeLeaf_effect s1 t (closestTo (s.page t) nearby) hc1
      have hlv := takeLeaf_leaves s1 t (closestTo (s.page t) nearby) hc1
        (by rw [f2 t ht1]; exact hndl)
      rw [f2 t ht1] at e2 hlv
      have hleaf_ne : get4byte (s.page t) (8 + closestTo (s.page t) nearby * 4) ≠ t := fun e => by
        have := hleafmem _ hcl
        rw [e] at this
        exact hna (List.mem_append.mpr (Or.inl this))
      refine ⟨fun h => absurd h hk0, fun _ => ⟨_, hcl, rfl, hz, hclose⟩,
        ⟨t :: rest, ⟨?_, ha0, ?_⟩, fun x => ?_⟩, ?_⟩
      · rw [e4 1 (Ne.symm ht1), f1]
      · rw [e2]
        refine IsTrunkChain_congr rest _ hrest (fun b hb => ?_)
        rw [e4 b (hr1 b hb).2, f2 b (hr1 b hb).1]
      · have hfr : freeListPages (takeLeaf s1 t (closestTo (s.page t) nearby)).page rest =
            freeListPages s.page rest :=
          freeListPages_congr rest (fun b hb => by
            rw [e4 b (hr1 b hb).2, f2 b (hr1 b hb).1])
        rw [hmem]
        simp only [freeListPages, List.cons_append, List.mem_cons, List.mem_append]
        rw [hfr, hlv]
        constructor
        · rintro (h | ⟨h, hne⟩ | h)
          · refine ⟨Or.inl h, fun e => ?_⟩
            rw [h] at e
            exact hleaf_ne e.symm
          · exact ⟨Or.inr (Or.inl h), hne⟩
          · refine ⟨Or.inr (Or.inr h), fun e => ?_⟩
            rw [e] at h
            exact hdisj (hleafmem _ hcl) h
        · rintro ⟨h | h | h, hne⟩
          · exact Or.inl h
          · exact Or.inr (Or.inl ⟨h, hne⟩)
          · exact Or.inr (Or.inr h)
      · rw [e4 1 (Ne.symm ht1)]
        exact f3

/-- C14: on a well-formed free list (the trunks `Ts` chained from the head, no page listed
twice, page numbers below 2^31) with a non-zero free-page count and `exact = 0`,
`allocateBtreePage` returns with any fuel of at least 1, and when it returns `SQLITE_OK` the
page handed out is the head trunk if that trunk has no leaves, otherwise leaf `c` of the head
trunk, where `c = 0` when `nearby = 0` and otherwise `c` is the lowest-indexed leaf at the
smallest numerical distance from `nearby`; the pages on the free list afterwards are exactly
the former ones without the returned page, and the free-page count of the header has dropped
by exactly 1. -/
theorem allocateBtreePage_from_freelist (pBt : BtShared) (s : DbState) (pgno0 nearby : Nat)
    (Ts : List Nat) (hfl : FreeListOk pBt s Ts) (hn : 0 < get4byte (s.page 1) 36)
    (hnb : nearby < 2147483648) :
    ∃ r : Nat × DbState × Nat,
      (∀ fuel, 1 ≤ fuel → allocateBtreePage fuel pBt s pgno0 nearby 0 = some r) ∧
      (r.1 = SQLITE_OK →
        (get4byte (s.page (get4byte (s.page 1) 32)) 4 = 0 → r.2.2 = get4byte (s.page 1) 32) ∧
        (0 < get4byte (s.page (get4byte (s.page 1) 32)) 4 →
          ∃ c, c < get4byte (s.page (get4byte (s.page 1) 32)) 4 ∧
            r.2.2 = get4byte (s.page (get4byte (s.page 1) 32)) (8 + c * 4) ∧
            (nearby = 0 → c = 0) ∧
            (0 < nearby → ∀ j, j < get4byte (s.page (get4byte (s.page 1) 32)) 4 →
              |(get4byte (s.page (get4byte (s.page 1) 32)) (8 + c * 4) : Int) - (nearby : Int)| ≤
                |(get4byte (s.page (get4byte (s.page 1) 32)) (8 + j * 4) : Int) - (nearby : Int)| ∧
              (j < c →
                |(get4byte (s.page (get4byte (s.page 1) 32)) (8 + c * 4) : Int) - (nearby : Int)| <
                  |(get4byte (s.page (get4byte (s.page 1) 32)) (8 + j * 4) : Int)
                    - (nearby : Int)|))) ∧
        (∃ Ts', IsTrunkChain r.2.1.page (get4byte (r.2.1.page 1) 32) Ts' ∧
          ∀ x, x ∈ freeListPages r.2.1.page Ts' ↔ (x ∈ freeListPages s.page Ts ∧ x ≠ r.2.2)) ∧
        get4byte (r.2.1.page 1) 36 + 1 = get4byte (s.page 1) 36) :=
  allocateBtreePage_freelist_spec pBt s pgno0 nearby Ts hfl hn hnb

set_option maxRecDepth 100000 in
/-- On the example free list 5 -> 9 with the leaves 12, 7, 15 on trunk 5 a request near page 8
hands out leaf 7. -/
theorem allocateBtreePage_from_freelist_witness :
    (FreeListOk exBt1024 exFreeDb [5, 9] ∧ 0 < get4byte (exFreeDb.page 1) 36 ∧
      (8 : Nat) < 2147483648) ∧
    (allocateBtreePage 1 exBt1024 exFreeDb 0 8 0).map (fun r => (r.1, r.2.2)) =
      some (SQLITE_OK, 7) ∧
    ∃ r : Nat × DbState × Nat,
      (∀ fuel, 1 ≤ fuel → allocateBtreePage fuel exBt1024 exFreeDb 0 8 0 = some r) ∧
      (r.1 = SQLITE_OK →
        (get4byte (exFreeDb.page (get4byte (exFreeDb.page 1) 32)) 4 = 0 →
          r.2.2 = get4byte (exFreeDb.page 1) 32) ∧
        (0 < get4byte (exFreeDb.page (get4byte (exFreeDb.page 1) 32)) 4 →
          ∃ c, c < get4byte (exFreeDb.page (get4byte (exFreeDb.page 1) 32)) 4 ∧
            r.2.2 = get4byte (exFreeDb.page (get4byte (exFreeDb.page 1) 32)) (8 + c * 4) ∧
            ((8 : Nat) = 0 → c = 0) ∧
            (0 < (8 : Nat) →
              ∀ j, j < get4byte (exFreeDb.page (get4byte (exFreeDb.page 1) 32)) 4 →
              |(get4byte (exFreeDb.page (get4byte (exFreeDb.page 1) 32)) (8 + c * 4) : Int)
                  - ((8 : Nat) : Int)| ≤
                |(get4byte (exFreeDb.page (get4byte (exFreeDb.page 1) 32)) (8 + j * 4) : Int)
                  - ((8 : Nat) : Int)| ∧
              (j < c →
                |(get4byte (exFreeDb.page (get4byte (exFreeDb.page 1) 32)) (8 + c * 4) : Int)
                    - ((8 : Nat) : Int)| <
                  |(get4byte (exFreeDb.page (get4byte (exFreeDb.page 1) 32)) (8 + j * 4) : Int)
                    - ((8 : Nat) : Int)|))) ∧
        (∃ Ts', IsTrunkChain r.2.1.page (get4byte (r.2.1.page 1) 32) Ts' ∧
          ∀ x, x ∈ freeListPages r.2.1.page Ts' ↔
            (x ∈ freeListPages exFreeDb.page [5, 9] ∧ x ≠ r.2.2)) ∧
        get4byte (r.2.1.page 1) 36 + 1 = get4byte (exFreeDb.page 1) 36) :=
  ⟨⟨by decide, by decide, by decide⟩, by decide,
    allocateBtreePage_from_freelist exBt1024 exFreeDb 0 8 [5, 9] (by decide) (by decide)
      (by decide)⟩

end Btree

namespace Btree

/-! ## `balance`: the choice between `balance_quick` and `balance_nonroot` -/

theorem balanceUsesQuick_iff (pPage pParent : MemPage) (iIdx : Nat) :
    balanceUsesQuick pPage pParent iIdx = true ↔
      (pPage.hasData ≠ 0 ∧ pPage.nOverflow = 1 ∧ pPage.aiOvfl.getD 0 0 = pPage.nCell ∧
        pParent.pgno ≠ 1 ∧ pParent.nCell = iIdx) := by
  unfold balanceUsesQuick
  exact decide_eq_true_iff

/-- The repair of a non-root page whose parent is writable: `balance_quick` if the test
holds, `balance_nonroot` otherwise. -/
theorem balanceChild_spec (nonroot : MemPage → Nat → Bool → DbState → Nat × DbState × MemPage)
    (rcWrite : Nat → Nat) (fuel : Nat) (s : DbState) (pParent pPage : MemPage) (iIdx : Nat)
    (isRoot : Bool) (space temp : Bytes) (hw : rcWrite pParent.pgno = SQLITE_OK) :
    (balanceUsesQuick pPage pParent iIdx = true →
      balanceChild nonroot rcWrite fuel s pParent pPage iIdx isRoot space temp =
        (balance_quick fuel s pParent pPage space SQLITE_OK temp).map
          (fun r => (r.1, r.2.1, r.2.2.1))) ∧
    (balanceUsesQuick pPage pParent iIdx = false →
      balanceChild nonroot rcWrite fuel s pParent pPage iIdx isRoot space temp =
        some (nonroot pParent iIdx isRoot s)) := by
  have hn : ¬ (rcWrite pParent.pgno ≠ SQLITE_OK) := fun h => h hw
  constructor
  · intro hq
    unfold balanceChild
    rw [if_neg hn, if_pos hq, hw]
    cases balance_quick fuel s pParent pPage space SQLITE_OK temp <;> rfl
  · intro hq
    unfold balanceChild
    rw [if_neg hn, if_neg (by rw [hq]; decide)]

/-- One iteration of `balance` on a page that is not the root and needs repair. -/
theorem balance_step (nonroot : MemPage → Nat → Bool → DbState → Nat × DbState × MemPage)
    (rcWrite : Nat → Nat) (fuel : Nat) (space temp : Bytes) (aiOvflOld : List Nat) (n : Nat)
    (s : DbState) (pCur : BtCursor) (hi : 0 < pCur.iPage)
    (hneed : ¬ ((pCur.apPage pCur.iPage.toNat).nOverflow = 0 ∧
      (pCur.apPage pCur.iPage.toNat).nFree ≤ u32 (pCur.pBt.usableSize * 2) / 3)) :
    balance nonroot rcWrite fuel space temp aiOvflOld (n + 1) s pCur =
      (balanceChild nonroot rcWrite fuel s (pCur.apPage (pCur.iPage.toNat - 1))
        (pCur.apPage pCur.iPage.toNat) (pCur.aiIdx (pCur.iPage.toNat - 1))
        (decide (pCur.iPage.toNat = 1)) space temp).bind (fun r =>
          if r.1 = SQLITE_OK then
            balance nonroot rcWrite fuel space temp aiOvflOld n
              (releasePage r.2.1 (some (pCur.apPage pCur.iPage.toNat).pgno))
              { pCur with
                iPage := pCur.iPage - 1
                apPage := setAt (setAt pCur.apPage (pCur.iPage.toNat - 1) r.2.2) pCur.iPage.toNat
                  { pCur.apPage pCur.iPage.toNat with nOverflow := 0, aiOvfl := [], apOvfl := [] } }
          else some (r.1, releasePage r.2.1 (some (pCur.apPage pCur.iPage.toNat).pgno),
              { pCur with
                iPage := pCur.iPage - 1
                apPage := setAt (setAt pCur.apPage (pCur.iPage.toNat - 1) r.2.2) pCur.iPage.toNat
                  { pCur.apPage pCur.iPage.toNat with
                    nOverflow := 0, aiOvfl := [], apOvfl := [] } })) := by
  have h0 : ¬ (pCur.iPage = 0) := by omega
  rw [balance]
  simp only [if_neg h0, if_neg hneed]
  cases balanceChild nonroot rcWrite fuel s (pCur.apPage (pCur.iPage.toNat - 1))
      (pCur.apPage pCur.iPage.toNat) (pCur.aiIdx (pCur.iPage.toNat - 1))
      (decide (pCur.iPage.toNat = 1)) space temp with
  | none => rfl
  | some r => rfl

/-- The iteration of `balance` on a non-root page that needs repair: which routine repairs
the page, and how the loop goes on. -/
theorem balance_dispatch_spec (nonroot : MemPage → Nat → Bool → DbState → Nat × DbState × MemPage)
    (rcWrite : Nat → Nat) (fuel : Nat) (space temp : Bytes) (aiOvflOld : List Nat) (n : Nat)
    (s : DbState) (pCur : BtCursor) (hi : 0 < pCur.iPage)
    (hneed : ¬ ((pCur.apPage pCur.iPage.toNat).nOverflow = 0 ∧
      (pCur.apPage pCur.iPage.toNat).nFree ≤ u32 (pCur.pBt.usableSize * 2) / 3))
    (hw : rcWrite (pCur.apPage (pCur.iPage.toNat - 1)).pgno = SQLITE_OK) :
    (balanceUsesQuick (pCur.apPage pCur.iPage.toNat) (pCur.apPage (pCur.iPage.toNat - 1))
        (pCur.aiIdx (pCur.iPage.toNat - 1)) = true →
      ((pCur.apPage pCur.iPage.toNat).nOverflow = 1 ∧
        (pCur.apPage pCur.iPage.toNat).aiOvfl.getD 0 0 = (pCur.apPage pCur.iPage.toNat).nCell ∧
        (pCur.apPage (pCur.iPage.toNat - 1)).nCell = pCur.aiIdx (pCur.iPage.toNat - 1) ∧
        (pCur.apPage (pCur.iPage.toNat - 1)).pgno ≠ 1) ∧
      balanceChild nonroot rcWrite fuel s (pCur.apPage (pCur.iPage.toNat - 1))
          (pCur.apPage pCur.iPage.toNat) (pCur.aiIdx (pCur.iPage.toNat - 1))
          (decide (pCur.iPage.toNat = 1)) space temp =
        (balance_quick fuel s (pCur.apPage (pCur.iPage.toNat - 1)) (pCur.apPage pCur.iPage.toNat)
          space SQLITE_OK temp).map (fun r => (r.1, r.2.1, r.2.2.1))) ∧
    (balanceUsesQuick (pCur.apPage pCur.iPage.toNat) (pCur.apPage (pCur.iPage.toNat - 1))
        (pCur.aiIdx (pCur.iPage.toNat - 1)) = false →
      balanceChild nonroot rcWrite fuel s (pCur.apPage (pCur.iPage.toNat - 1))
          (pCur.apPage pCur.iPage.toNat) (pCur.aiIdx (pCur.iPage.toNat - 1))
          (decide (pCur.iPage.toNat = 1)) space temp =
        some (nonroot (pCur.apPage (pCur.iPage.toNat - 1)) (pCur.aiIdx (pCur.iPage.toNat - 1))
          (decide (pCur.iPage.toNat = 1)) s)) ∧
    balance nonroot rcWrite fuel space temp aiOvflOld (n + 1) s pCur =
      (balanceChild nonroot rcWrite fuel s (pCur.apPage (pCur.iPage.toNat - 1))
        (pCur.apPage pCur.iPage.toNat) (pCur.aiIdx (pCur.iPage.toNat - 1))
        (decide (pCur.iPage.toNat = 1)) space temp).bind (fun r =>
          if r.1 = SQLITE_OK then
            balance nonroot rcWrite fuel space temp aiOvflOld n
              (releasePage r.2.1 (some (pCur.apPage pCur.iPage.toNat).pgno))
              { pCur with
                iPage := pCur.iPage - 1
                apPage := setAt (setAt pCur.apPage (pCur.iPage.toNat - 1) r.2.2) pCur.iPage.toNat
                  { pCur.apPage pCur.iPage.toNat with nOverflow := 0, aiOvfl := [], apOvfl := [] } }
          else some (r.1, releasePage r.2.1 (some (pCur.apPage pCur.iPage.toNat).pgno),
              { pCur with
                iPage := pCur.iPage - 1
                apPage := setAt (setAt pCur.apPage (pCur.iPage.toNat - 1) r.2.2) pCur.iPage.toNat
                  { pCur.apPage pCur.iPage.toNat with
                    nOverflow := 0, aiOvfl := [], apOvfl := [] } })) := by
  obtain ⟨q1, q2⟩ := balanceChild_spec nonroot rcWrite fuel s (pCur.apPage (pCur.iPage.toNat - 1))
    (pCur.apPage pCur.iPage.toNat) (pCur.aiIdx (pCur.iPage.toNat - 1))
    (decide (pCur.iPage.toNat = 1)) space temp hw
  refine ⟨fun hq => ⟨?_, q1 hq⟩, q2,
    balance_step nonroot rcWrite fuel space temp aiOvflOld n s pCur hi hneed⟩
  obtain ⟨_, a, b, c, d⟩ := (balanceUsesQuick_iff _ _ _).mp hq
  exact ⟨a, b, d, c⟩

/-- C18 (amended): an iteration of `balance` on a page that is not the root, needs repair
and has a writable parent repairs the page through `balance_quick` only when the page has
exactly one overflow cell, positioned after its last local cell (`aiOvfl[0] == nCell`), the
page is the rightmost child of its parent (`pParent->nCell == iIdx`), and the parent is not
page 1 of the database file; whenever that test fails the repair is `balance_nonroot` on the
parent.  Afterwards the loop goes on one level up, or returns the error. -/
theorem balance_quick_only_rightmost_append (nonroot : MemPage → Nat → Bool → DbState → Nat × DbState × MemPage)
    (rcWrite : Nat → Nat) (fuel : Nat) (space temp : Bytes) (aiOvflOld : List Nat) (n : Nat)
    (s : DbState) (pCur : BtCursor) (hi : 0 < pCur.iPage)
    (hneed : ¬ ((pCur.apPage pCur.iPage.toNat).nOverflow = 0 ∧
      (pCur.apPage pCur.iPage.toNat).nFree ≤ u32 (pCur.pBt.usableSize * 2) / 3))
    (hw : rcWrite (pCur.apPage (pCur.iPage.toNat - 1)).pgno = SQLITE_OK) :
    (balanceUsesQuick (pCur.apPage pCur.iPage.toNat) (pCur.apPage (pCur.iPage.toNat - 1))
        (pCur.aiIdx (pCur.iPage.toNat - 1)) = true →
      ((pCur.apPage pCur.iPage.toNat).nOverflow = 1 ∧
        (pCur.apPage pCur.iPage.toNat).aiOvfl.getD 0 0 = (pCur.apPage pCur.iPage.toNat).nCell ∧
        (pCur.apPage (pCur.iPage.toNat - 1)).nCell = pCur.aiIdx (pCur.iPage.toNat - 1) ∧
        (pCur.apPage (pCur.iPage.toNat - 1)).pgno ≠ 1) ∧
      balanceChild nonroot rcWrite fuel s (pCur.apPage (pCur.iPage.toNat - 1))
          (pCur.apPage pCur.iPage.toNat) (pCur.aiIdx (pCur.iPage.toNat - 1))
          (decide (pCur.iPage.toNat = 1)) space temp =
        (balance_quick fuel s (pCur.apPage (pCur.iPage.toNat - 1)) (pCur.apPage pCur.iPage.toNat)
          space SQLITE_OK temp).map (fun r => (r.1, r.2.1, r.2.2.1))) ∧
    (balanceUsesQuick (pCur.apPage pCur.iPage.toNat) (pCur.apPage (pCur.iPage.toNat - 1))
        (pCur.aiIdx (pCur.iPage.toNat - 1)) = false →
      balanceChild nonroot rcWrite fuel s (pCur.apPage (pCur.iPage.toNat - 1))
          (pCur.apPage pCur.iPage.toNat) (pCur.aiIdx (pCur.iPage.toNat - 1))
          (decide (pCur.iPage.toNat = 1)) space temp =
        some (nonroot (pCur.apPage (pCur.iPage.toNat - 1)) (pCur.aiIdx (pCur.iPage.toNat - 1))
          (decide (pCur.iPage.toNat = 1)) s)) ∧
    balance nonroot rcWrite fuel space temp aiOvflOld (n + 1) s pCur =
      (balanceChild nonroot rcWrite fuel s (pCur.apPage (pCur.iPage.toNat - 1))
        (pCur.apPage pCur.iPage.toNat) (pCur.aiIdx (pCur.iPage.toNat - 1))
        (decide (pCur.iPage.toNat = 1)) space temp).bind (fun r =>
          if r.1 = SQLITE_OK then
            balance nonroot rcWrite fuel space temp aiOvflOld n
              (releasePage r.2.1 (some (pCur.apPage pCur.iPage.toNat).pgno))
              { pCur with
                iPage := pCur.iPage - 1
                apPage := setAt (setAt pCur.apPage (pCur.iPage.toNat - 1) r.2.2) pCur.iPage.toNat
                  { pCur.apPage pCur.iPage.toNat with nOverflow := 0, aiOvfl := [], apOvfl := [] } }
          else some (r.1, releasePage r.2.1 (some (pCur.apPage pCur.iPage.toNat).pgno),
              { pCur with
                iPage := pCur.iPage - 1
                apPage := setAt (setAt pCur.apPage (pCur.iPage.toNat - 1) r.2.2) pCur.iPage.toNat
                  { pCur.apPage pCur.iPage.toNat with
                    nOverflow := 0, aiOvfl := [], apOvfl := [] } })) :=
  balance_dispatch_spec nonroot rcWrite fuel space temp aiOvflOld n s pCur hi hneed hw

set_option maxRecDepth 100000 in
/-- The example cursor on leaf page 3 under the root page 2: the leaf is repaired by
`balance_quick`, which gives the root the new right child 4 and one divider cell. -/
theorem balance_quick_only_rightmost_append_witness :
    (0 < exQuickCur.iPage ∧
      ¬ ((exQuickCur.apPage exQuickCur.iPage.toNat).nOverflow = 0 ∧
        (exQuickCur.apPage exQuickCur.iPage.toNat).nFree ≤
          u32 (exQuickCur.pBt.usableSize * 2) / 3) ∧
      (fun _ : Nat => SQLITE_OK) (exQuickCur.apPage (exQuickCur.iPage.toNat - 1)).pgno =
        SQLITE_OK) ∧
    (balanceUsesQuick (exQuickCur.apPage exQuickCur.iPage.toNat)
        (exQuickCur.apPage (exQuickCur.iPage.toNat - 1))
        (exQuickCur.aiIdx (exQuickCur.iPage.toNat - 1)) = true ∧
      (balance (fun p _ _ st => (SQLITE_CORRUPT, st, p)) (fun _ => SQLITE_OK) 1024 (fun _ => 0)
        (fun _ => 0) [] 2 exQuickDb exQuickCur).map (fun r => (r.1, r.2.1.nPage,
          get4byte (r.2.1.page 2) 8, get2byte (r.2.1.page 2) 3, get2byte (r.2.1.page 4) 3)) =
        some (SQLITE_OK, 4, 4, 1, 1)) ∧
    balance (fun p _ _ st => (SQLITE_CORRUPT, st, p)) (fun _ => SQLITE_OK) 1024 (fun _ => 0)
        (fun _ => 0) [] (1 + 1) exQuickDb exQuickCur =
      (balanceChild (fun p _ _ st => (SQLITE_CORRUPT, st, p)) (fun _ => SQLITE_OK) 1024 exQuickDb
        (exQuickCur.apPage (exQuickCur.iPage.toNat - 1))
        (exQuickCur.apPage exQuickCur.iPage.toNat) (exQuickCur.aiIdx (exQuickCur.iPage.toNat - 1))
        (decide (exQuickCur.iPage.toNat = 1)) (fun _ => 0) (fun _ => 0)).bind (fun r =>
          if r.1 = SQLITE_OK then
            balance (fun p _ _ st => (SQLITE_CORRUPT, st, p)) (fun _ => SQLITE_OK) 1024
              (fun _ => 0) (fun _ => 0) [] 1
              (releasePage r.2.1 (some (exQuickCur.apPage exQuickCur.iPage.toNat).pgno))
              { exQuickCur with
                iPage := exQuickCur.iPage - 1
                apPage := setAt (setAt exQuickCur.apPage (exQuickCur.iPage.toNat - 1) r.2.2)
                  exQuickCur.iPage.toNat
                  { exQuickCur.apPage exQuickCur.iPage.toNat with
                    nOverflow := 0, aiOvfl := [], apOvfl := [] } }
          else some (r.1, releasePage r.2.1 (some (exQuickCur.apPage exQuickCur.iPage.toNat).pgno),
              { exQuickCur with
                iPage := exQuickCur.iPage - 1
                apPage := setAt (setAt exQuickCur.apPage (exQuickCur.iPage.toNat - 1) r.2.2)
                  exQuickCur.iPage.toNat
                  { exQuickCur.apPage exQuickCur.iPage.toNat with
                    nOverflow := 0, aiOvfl := [], apOvfl := [] } })) :=
  ⟨⟨by decide, by decide, rfl⟩, ⟨by decide, by decide⟩,
    (balance_quick_only_rightmost_append (fun p _ _ st => (SQLITE_CORRUPT, st, p))
      (fun _ => SQLITE_OK) 1024 (fun _ => 0) (fun _ => 0) [] 1 exQuickDb exQuickCur
      (by decide) (by decide) rfl).2.2⟩

set_option maxRecDepth 100000 in
/-- C18, as stated, fails: the parent of the example leaf is page 2, the root page of the
B-tree of the cursor, the test of `balance` chooses `balance_quick`, and with a
`balance_nonroot` that always fails `balance` still succeeds, with a new sibling 4 installed
as the right child of the root. -/
theorem balance_quick_under_root_counterexample :
    exQuickCur.iPage = 1 ∧
    (exQuickCur.apPage (exQuickCur.iPage.toNat - 1)).pgno = exQuickCur.pgnoRoot ∧
    balanceUsesQuick (exQuickCur.apPage exQuickCur.iPage.toNat)
      (exQuickCur.apPage (exQuickCur.iPage.toNat - 1))
      (exQuickCur.aiIdx (exQuickCur.iPage.toNat - 1)) = true ∧
    (balance (fun p _ _ st => (SQLITE_CORRUPT, st, p)) (fun _ => SQLITE_OK) 1024 (fun _ => 0)
      (fun _ => 0) [] 2 exQuickDb exQuickCur).map (fun r => (r.1, r.2.1.nPage,
        get4byte (r.2.1.page 2) 8, get2byte (r.2.1.page 2) 3)) = some (SQLITE_OK, 4, 4, 1) := by
  decide

end Btree

namespace Btree

/-! ## `balance_deeper` -/

/-- The child that `balance_deeper` hands back carries the overflow cells of the root with
the indices that its own `aiOvfl[]` held before: the routine copies `apOvfl[]` and
`nOverflow` only. -/
theorem balance_deeper_child_aiOvfl (fuel : Nat) (s : DbState) (pRoot : MemPage)
    (rcWrite : Nat) (aiOvflOld : List Nat) (r : Nat × DbState × MemPage × Option MemPage)
    (c : MemPage) (h : balance_deeper fuel s pRoot rcWrite aiOvflOld = some r)
    (hc : r.2.2.2 = some c) :
    c.aiOvfl = aiOvflOld.take pRoot.nOverflow ∧ c.nOverflow = pRoot.nOverflow := by
  unfold balance_deeper at h
  by_cases hw : rcWrite ≠ SQLITE_OK
  · simp only [if_pos hw] at h
    cases h
    cases hc
  simp only [if_neg hw] at h
  cases hal : allocateBtreePage fuel pRoot.pBt s 0 pRoot.pgno 0 with
  | none =>
    simp only [hal] at h
    cases h
  | some a =>
    obtain ⟨rc, s1, pg⟩ := a
    simp only [hal] at h
    cases hcp : copyNodeContent fuel s1 pRoot (btreePageFromDbPage (s1.page pg) pg pRoot.pBt) rc with
    | none =>
      simp only [hcp] at h
      cases h
    | some b =>
      obtain ⟨rc2, s2, pChild⟩ := b
      simp only [hcp] at h
      generalize (if pRoot.pBt.autoVacuum = true then
        ptrmapPut pRoot.pBt s2 pg PTRMAP_BTREE pRoot.pgno rc2 else (s2, rc2)) = q at h
      by_cases hq : q.2 ≠ 0
      · simp only [if_pos hq] at h
        cases h
        cases hc
      · simp only [if_neg hq] at h
        cases h
        cases hc
        exact ⟨rfl, rfl⟩

set_option maxRecDepth 100000 in
/-- C19: on the example root (leaf page 2 with the keys 5, 7, 10 and the overflow cell of
key 6 at index 1) `balance_deeper` returns `SQLITE_OK`, the root is an empty interior page
with right child 3, the child 3 has the three local cells and one overflow cell, but the
index of that overflow cell is the stale entry 0 of the child's own `aiOvfl[]`, not the
root's index 1. -/
theorem balance_deeper_overflow_index_lost :
    exDeeperRoot.aiOvfl = [1] ∧
    (balance_deeper 1024 exDeeperDb exDeeperRoot SQLITE_OK [0, 0, 0, 0, 0]).map
      (fun r => (r.1, r.2.2.1.pgno, r.2.2.1.nCell, r.2.2.1.leaf, get4byte (r.2.1.page 2) 8)) =
      some (SQLITE_OK, 2, 0, 0, 3) ∧
    ((balance_deeper 1024 exDeeperDb exDeeperRoot SQLITE_OK [0, 0, 0, 0, 0]).bind
      (fun r => r.2.2.2)).map (fun c => (c.pgno, c.nCell, c.nOverflow, c.aiOvfl)) =
      some (3, 3, 1, [0]) := by
  decide

end Btree

namespace Btree

/-! ## `balance_quick` -/

theorem skipVarint_eq_getVarintAux (d : Bytes) (p : Nat) :
    ∀ (k i acc : Nat), i + k = 8 → skipVarint d p (k + 1) i = (getVarintAux d p k i acc).1 := by
  intro k
  induction k with
  | zero =>
    intro i acc h
    simp only [skipVarint, getVarintAux]
    rw [if_neg (by omega)]
  | succ k ih =>
    intro i acc h
    rw [skipVarint, getVarintAux]
    by_cases hb : getByte d (p + i) < 128
    · rw [if_pos hb, if_neg (by omega)]
    · rw [if_neg hb, if_pos ⟨by omega, by omega⟩]
      exact ih (i + 1) _ (by omega)

/-- The loop that steps over a varint consumes exactly the bytes that `getVarint` reads. -/
theorem skipVarint_eq_getVarint (d : Bytes) (p : Nat) :
    skipVarint d p 9 0 = (getVarint d p).1 :=
  skipVarint_eq_getVarintAux d p 8 0 0 rfl

end Btree

namespace Btree

/-! ## `balance_quick`: the new sibling -/

end Btree

namespace Btree

/-! ## `balance_quick`: the result -/

end Btree

namespace Btree

/-! ## Counting and ordering the handles' transaction states -/

theorem setAt_same {α : Type} (a : Nat → α) (i : Nat) (v : α) : setAt a i v i = v := by
  unfold setAt; rw [if_pos rfl]

theorem setAt_other {α : Type} (a : Nat → α) (i j : Nat) (v : α) (h : j ≠ i) :
    setAt a i v j = a j := by
  unfold setAt; rw [if_neg h]

theorem nActive_setAt_ge (f : Nat → Nat) (p v : Nat) :
    ∀ n, n ≤ p → nActive (setAt f p v) n = nActive f n := by
  intro n
  induction n with
  | zero => intro _; rfl
  | succ n ih =>
    intro h
    show nActive (setAt f p v) n + _ = nActive f n + _
    rw [ih (by omega), setAt_other f p n v (by omega)]

theorem nActive_setAt (f : Nat → Nat) (p v : Nat) :
    ∀ n, p < n →
      nActive (setAt f p v) n + (if f p ≠ TRANS_NONE then 1 else 0) =
        nActive f n + (if v ≠ TRANS_NONE then 1 else 0) := by
  intro n
  induction n with
  | zero => intro h; omega
  | succ n ih =>
    intro h
    show nActive (setAt f p v) n + (if setAt f p v n ≠ TRANS_NONE then 1 else 0) + _ =
      nActive f n + (if f n ≠ TRANS_NONE then 1 else 0) + _
    by_cases hp : p = n
    · subst hp
      rw [nActive_setAt_ge f p v p (le_refl _), setAt_same]
      omega
    · have := ih (by omega)
      rw [setAt_other f p n v (fun e => hp e.symm)]
      omega

theorem nActive_eq_zero (f : Nat → Nat) :
    ∀ n, nActive f n = 0 ↔ ∀ q, q < n → f q = TRANS_NONE := by
  intro n
  induction n with
  | zero => exact ⟨fun _ q hq => absurd hq (Nat.not_lt_zero q), fun _ => rfl⟩
  | succ n ih =>
    show nActive f n + (if f n ≠ TRANS_NONE then 1 else 0) = 0 ↔ _
    constructor
    · intro h q hq
      by_cases hn : f n ≠ TRANS_NONE
      · rw [if_pos hn] at h; omega
      · rw [if_neg hn] at h
        by_cases e : q = n
        · rw [e]; exact not_not.mp hn
        · exact (ih.mp (by omega)) q (by omega)
    · intro h
      rw [if_neg (not_not.mpr (h n (by omega))), ih.mpr (fun q hq => h q (by omega))]

theorem le_maxTrans (f : Nat → Nat) : ∀ n q, q < n → f q ≤ maxTrans f n := by
  intro n
  induction n with
  | zero => intro q hq; omega
  | succ n ih =>
    intro q hq
    show f q ≤ max (maxTrans f n) (f n)
    by_cases e : q = n
    · rw [e]; exact le_max_right _ _
    · exact le_trans (ih q (by omega)) (le_max_left _ _)

theorem maxTrans_attained (f : Nat → Nat) :
    ∀ n, maxTrans f n = TRANS_NONE ∨ ∃ q, q < n ∧ f q = maxTrans f n := by
  intro n
  induction n with
  | zero => exact Or.inl rfl
  | succ n ih =>
    show max (maxTrans f n) (f n) = TRANS_NONE ∨ ∃ q, q < n + 1 ∧ f q = max (maxTrans f n) (f n)
    rcases le_total (maxTrans f n) (f n) with h | h
    · rw [max_eq_right h]
      exact Or.inr ⟨n, by omega, rfl⟩
    · rw [max_eq_left h]
      rcases ih with h0 | ⟨q, hq, e⟩
      · exact Or.inl h0
      · exact Or.inr ⟨q, by omega, e⟩

theorem maxTrans_eq (f : Nat → Nat) (n m : Nat) (hle : ∀ q, q < n → f q ≤ m)
    (hat : m = TRANS_NONE ∨ ∃ q, q < n ∧ f q = m) : m = maxTrans f n := by
  apply le_antisymm
  · rcases hat with h | ⟨q, hq, e⟩
    · rw [h]; exact Nat.zero_le _
    · rw [← e]; exact le_maxTrans f n q hq
  · rcases maxTrans_attained f n with h | ⟨q, hq, e⟩
    · rw [h]; exact Nat.zero_le _
    · rw [← e]; exact hle q hq

/-! ## The lock list -/

theorem lockConflict_iff (p iTab eLock : Nat) (L : List BtLock) :
    lockConflict p iTab eLock L = true ↔
      ∃ l, l ∈ L ∧ l.pBtree ≠ p ∧ l.iTable = iTab ∧ l.eLock ≠ eLock := by
  induction L with
  | nil => simp [lockConflict]
  | cons a L ih =>
    unfold lockConflict
    by_cases h : a.pBtree ≠ p ∧ a.iTable = iTab ∧ a.eLock ≠ eLock
    · rw [if_pos h]
      exact ⟨fun _ => ⟨a, List.mem_cons_self _ _, h⟩, fun _ => rfl⟩
    · rw [if_neg h, ih]
      constructor
      · rintro ⟨l, hl, hc⟩
        exact ⟨l, List.mem_cons_of_mem _ hl, hc⟩
      · rintro ⟨l, hl, hc⟩
        rcases List.mem_cons.mp hl with e | hl
        · rw [e] at hc; exact absurd hc h
        · exact ⟨l, hl, hc⟩

theorem hasLock_iff (p iTable : Nat) (L : List BtLock) :
    hasLock p iTable L = true ↔ ∃ l, l ∈ L ∧ l.iTable = iTable ∧ l.pBtree = p := by
  induction L with
  | nil => simp [hasLock]
  | cons a L ih =>
    unfold hasLock
    by_cases h : a.iTable = iTable ∧ a.pBtree = p
    · rw [if_pos h]
      exact ⟨fun _ => ⟨a, List.mem_cons_self _ _, h⟩, fun _ => rfl⟩
    · rw [if_neg h, ih]
      constructor
      · rintro ⟨l, hl, hc⟩
        exact ⟨l, List.mem_cons_of_mem _ hl, hc⟩
      · rintro ⟨l, hl, hc⟩
        rcases List.mem_cons.mp hl with e | hl
        · rw [e] at hc; exact absurd hc h
        · exact ⟨l, hl, hc⟩

theorem raiseLock_keys (p iTable eLock : Nat) (L : List BtLock) :
    (raiseLock p iTable eLock L).map (fun l => (l.pBtree, l.iTable)) =
      L.map (fun l => (l.pBtree, l.iTable)) := by
  induction L with
  | nil => rfl
  | cons a L ih =>
    unfold raiseLock
    by_cases h : a.iTable = iTable ∧ a.pBtree = p
    · rw [if_pos h]
      by_cases g : eLock > a.eLock
      · rw [if_pos g]; rfl
      · rw [if_neg g]
    · rw [if_neg h, List.map_cons, ih, List.map_cons]

theorem raiseLock_mem (p iTable eLock : Nat) (L : List BtLock) (l : BtLock)
    (h : l ∈ raiseLock p iTable eLock L) :
    l ∈ L ∨ (l.pBtree = p ∧ l.iTable = iTable ∧ l.eLock = eLock) := by
  induction L with
  | nil => exact absurd h (List.not_mem_nil l)
  | cons a L ih =>
    unfold raiseLock at h
    by_cases g : a.iTable = iTable ∧ a.pBtree = p
    · rw [if_pos g] at h
      rcases List.mem_cons.mp h with e | hl
      · by_cases g2 : eLock > a.eLock
        · rw [if_pos g2] at e
          right
          rw [e]
          exact ⟨g.2, g.1, rfl⟩
        · rw [if_neg g2] at e
          left
          rw [e]
          exact List.mem_cons_self _ _
      · exact Or.inl (List.mem_cons_of_mem _ hl)
    · rw [if_neg g] at h
      rcases List.mem_cons.mp h with e | hl
      · left; rw [e]; exact List.mem_cons_self _ _
      · rcases ih hl with h1 | h1
        · exact Or.inl (List.mem_cons_of_mem _ h1)
        · exact Or.inr h1

/-- Raising a lock never lowers one: every old entry has a new entry for the same handle and
table whose lock is at least as strong. -/
theorem raiseLock_ge (p iTable eLock : Nat) (L : List BtLock) (l : BtLock) (h : l ∈ L) :
    ∃ l1, l1 ∈ raiseLock p iTable eLock L ∧ l1.pBtree = l.pBtree ∧ l1.iTable = l.iTable ∧
      l.eLock ≤ l1.eLock := by
  induction L with
  | nil => exact absurd h (List.not_mem_nil l)
  | cons a L ih =>
    unfold raiseLock
    by_cases g : a.iTable = iTable ∧ a.pBtree = p
    · rw [if_pos g]
      rcases List.mem_cons.mp h with e | hl
      · by_cases g2 : eLock > a.eLock
        · rw [if_pos g2]
          refine ⟨{ a with eLock := eLock }, List.mem_cons_self _ _, ?_, ?_, ?_⟩
          · rw [e]
          · rw [e]
          · rw [e]; exact le_of_lt g2
        · rw [if_neg g2]
          exact ⟨a, List.mem_cons_self _ _, by rw [e], by rw [e], by rw [e]⟩
      · exact ⟨l, List.mem_cons_of_mem _ hl, rfl, rfl, le_refl _⟩
    · rw [if_neg g]
      rcases List.mem_cons.mp h with e | hl
      · exact ⟨a, List.mem_cons_self _ _, by rw [e], by rw [e], by rw [e]⟩
      · obtain ⟨l1, h1, h2⟩ := ih hl
        exact ⟨l1, List.mem_cons_of_mem _ h1, h2⟩

/-- After raising, the entry of the handle for the table, if there is one, holds at least the
requested lock. -/
theorem raiseLock_granted (p iTable eLock : Nat) (L : List BtLock)
    (h : hasLock p iTable L = true) :
    ∃ l1, l1 ∈ raiseLock p iTable eLock L ∧ l1.pBtree = p ∧ l1.iTable = iTable ∧
      eLock ≤ l1.eLock := by
  induction L with
  | nil => simp [hasLock] at h
  | cons a L ih =>
    unfold hasLock at h
    unfold raiseLock
    by_cases g : a.iTable = iTable ∧ a.pBtree = p
    · rw [if_pos g]
      by_cases g2 : eLock > a.eLock
      · rw [if_pos g2]
        exact ⟨{ a with eLock := eLock }, List.mem_cons_self _ _, g.2, g.1, le_refl _⟩
      · rw [if_neg g2]
        exact ⟨a, List.mem_cons_self _ _, g.2, g.1, by omega⟩
    · rw [if_neg g] at h ⊢
      obtain ⟨l1, h1, h2⟩ := ih h
      exact ⟨l1, List.mem_cons_of_mem _ h1, h2⟩

end Btree

namespace Btree

/-! ## The invariant of the transaction state -/

theorem maxTrans_idle (f : Nat → Nat) (n : Nat) (h : ∀ q, q < n → f q = TRANS_NONE) :
    maxTrans f n = TRANS_NONE :=
  (maxTrans_eq f n TRANS_NONE (fun q hq => le_of_eq (h q hq)) (Or.inl rfl)).symm

theorem TransInv_idle (s : BtTrans) (h : AllIdle s) : TransInv s := by
  obtain ⟨h1, h2, h3, h4, h5, h6, h7, h8⟩ := h
  refine ⟨fun p hp => ?_, fun p hp hw => ?_, fun p hw => ?_, ?_, ?_, fun he => ?_, fun he => ?_,
    fun l hl => ?_, ?_, fun hn => absurd h2 hn, fun hn => absurd h4 hn⟩
  · rw [h1 p hp]; decide
  · rw [h1 p hp] at hw; exact absurd hw (by decide)
  · rw [h4] at hw; cases hw
  · rw [h2, maxTrans_idle _ _ h1]
  · rw [h3, (nActive_eq_zero s.inTrans s.nHandle).mpr h1]; rfl
  · rw [h5] at he; cases he
  · rw [h6] at he; cases he
  · rw [h7] at hl; exact absurd hl (List.not_mem_nil l)
  · rw [h7]; exact List.nodup_nil

theorem query_state (s : BtTrans) (p iTab eLock : Nat) :
    (querySharedCacheTableLock s p iTab eLock).2 = s ∨
      (eLock = WRITE_LOCK ∧ (querySharedCacheTableLock s p iTab eLock).1 = SQLITE_LOCKED_SHAREDCACHE ∧
        (querySharedCacheTableLock s p iTab eLock).2 = { s with pending := true }) := by
  unfold querySharedCacheTableLock
  split_ifs with h1 h2 h3 h4
  · exact Or.inl rfl
  · exact Or.inl rfl
  · exact Or.inr ⟨h4, rfl, rfl⟩
  · exact Or.inl rfl
  · exact Or.inl rfl

theorem query_read_state (s : BtTrans) (p iTab : Nat) :
    (querySharedCacheTableLock s p iTab READ_LOCK).2 = s := by
  rcases query_state s p iTab READ_LOCK with h | ⟨h, _⟩
  · exact h
  · exact absurd h (by decide)

theorem TransInv_pending (s : BtTrans) (h : TransInv s) (hw : s.pWriter ≠ none) :
    TransInv { s with pending := true } := by
  obtain ⟨i1, i2, i3, i4, i5, i6, i7, i8, i9, i10, i11⟩ := h
  exact ⟨i1, i2, i3, i4, i5, i6, fun _ => hw, i8, i9, i10, i11⟩

theorem TransInv_query (s : BtTrans) (p iTab eLock : Nat) (h : TransInv s)
    (hw : eLock = WRITE_LOCK → s.pWriter = some p) :
    TransInv (querySharedCacheTableLock s p iTab eLock).2 := by
  rcases query_state s p iTab eLock with e | ⟨e1, _, e2⟩
  · rw [e]; exact h
  · rw [e2]
    exact TransInv_pending s h (by rw [hw e1]; exact Option.some_ne_none p)

theorem TransInv_locks (s : BtTrans) (L : List BtLock) (h : TransInv s)
    (hm : ∀ l, l ∈ L → l.pBtree < s.nHandle ∧ s.inTrans l.pBtree ≠ TRANS_NONE ∧
      (l.eLock = READ_LOCK ∨ (l.eLock = WRITE_LOCK ∧ s.pWriter = some l.pBtree)))
    (hn : (L.map (fun l => (l.pBtree, l.iTable))).Nodup) :
    TransInv { s with pLock := L } := by
  obtain ⟨i1, i2, i3, i4, i5, i6, i7, i8, i9, i10, i11⟩ := h
  exact ⟨i1, i2, i3, i4, i5, i6, i7, hm, hn, i10, i11⟩

theorem TransInv_setLock (s : BtTrans) (p iTable eLock : Nat) (allocOk : Bool)
    (h : TransInv s) (hp : p < s.nHandle) (ht : s.inTrans p ≠ TRANS_NONE)
    (he : eLock = READ_LOCK ∨ (eLock = WRITE_LOCK ∧ s.pWriter = some p)) :
    TransInv (setSharedCacheTableLock s p iTable eLock allocOk).2 := by
  have h0 := h
  obtain ⟨i1, i2, i3, i4, i5, i6, i7, i8, i9, i10, i11⟩ := h0
  have hnew : ∀ l : BtLock, l.pBtree = p ∧ l.iTable = iTable ∧ l.eLock = eLock →
      l.pBtree < s.nHandle ∧ s.inTrans l.pBtree ≠ TRANS_NONE ∧
        (l.eLock = READ_LOCK ∨ (l.eLock = WRITE_LOCK ∧ s.pWriter = some l.pBtree)) := by
    rintro l ⟨e1, _, e3⟩
    rw [e1, e3]
    exact ⟨hp, ht, he⟩
  unfold setSharedCacheTableLock
  split_ifs with g1 g2
  · refine TransInv_locks s _ h (fun l hl => ?_) ?_
    · rcases raiseLock_mem _ _ _ _ _ hl with h1 | h1
      · exact i8 l h1
      · exact hnew l h1
    · rw [raiseLock_keys]; exact i9
  · exact h
  · have hpos : eLock > 0 := by
      rcases he with e | ⟨e, _⟩ <;> rw [e] <;> decide
    have hr : raiseLock p iTable eLock ({ pBtree := p, iTable := iTable, eLock := 0 } :: s.pLock) =
        { pBtree := p, iTable := iTable, eLock := eLock } :: s.pLock := by
      unfold raiseLock
      rw [if_pos ⟨rfl, rfl⟩, if_pos hpos]
    simp only [hr]
    refine TransInv_locks s _ h (fun l hl => ?_) ?_
    · rcases List.mem_cons.mp hl with e | h2
      · exact hnew l (by rw [e]; exact ⟨rfl, rfl, rfl⟩)
      · exact i8 l h2
    · rw [List.map_cons]
      refine List.nodup_cons.mpr ⟨?_, i9⟩
      intro hm
      obtain ⟨l, hl, e⟩ := List.mem_map.mp hm
      have e1 : l.pBtree = p := congrArg Prod.fst e
      have e2 : l.iTable = iTable := congrArg Prod.snd e
      have : hasLock p iTable s.pLock = true := (hasLock_iff _ _ _).mpr ⟨l, hl, e2, e1⟩
      exact g1 this

end Btree

namespace Btree

theorem maxTrans_congr (f g : Nat → Nat) (n : Nat) (h : ∀ q, q < n → f q = g q) :
    maxTrans f n = maxTrans g n := by
  induction n with
  | zero => rfl
  | succ n ih =>
    show max (maxTrans f n) (f n) = max (maxTrans g n) (g n)
    rw [ih (fun q hq => h q (by omega)), h n (by omega)]

theorem nActive_congr (f g : Nat → Nat) (n : Nat) (h : ∀ q, q < n → f q = g q) :
    nActive f n = nActive g n := by
  induction n with
  | zero => rfl
  | succ n ih =>
    show nActive f n + _ = nActive g n + _
    rw [ih (fun q hq => h q (by omega)), h n (by omega)]

theorem nActive_pos (f : Nat → Nat) (n p : Nat) (hp : p < n) (h : f p ≠ TRANS_NONE) :
    0 < nActive f n := by
  rcases Nat.eq_zero_or_pos (nActive f n) with e | e
  · exact absurd ((nActive_eq_zero f n).mp e p hp) h
  · exact e

/-- The invariant with the facts it needs given one by one. -/
theorem TransInv_mk (s : BtTrans)
    (i1 : ∀ p, p < s.nHandle → s.inTrans p ≤ TRANS_WRITE)
    (i2 : ∀ p, p < s.nHandle → s.inTrans p = TRANS_WRITE → s.pWriter = some p)
    (i3 : ∀ p, s.pWriter = some p → p < s.nHandle ∧ s.inTrans p = TRANS_WRITE)
    (i4 : s.inTransaction = maxTrans s.inTrans s.nHandle)
    (i5 : s.nTransaction = (nActive s.inTrans s.nHandle : Int))
    (i6 : s.exclusive = true → s.pWriter ≠ none)
    (i7 : s.pending = true → s.pWriter ≠ none)
    (i8 : ∀ l, l ∈ s.pLock → l.pBtree < s.nHandle ∧ s.inTrans l.pBtree ≠ TRANS_NONE ∧
      (l.eLock = READ_LOCK ∨ (l.eLock = WRITE_LOCK ∧ s.pWriter = some l.pBtree)))
    (i9 : (s.pLock.map (fun l => (l.pBtree, l.iTable))).Nodup)
    (i10 : s.inTransaction ≠ TRANS_NONE → s.hasPage1 = true)
    (i11 : s.pWriter ≠ none → s.readOnly = false) : TransInv s :=
  ⟨i1, i2, i3, i4, i5, i6, i7, i8, i9, i10, i11⟩

theorem TransInv_unlock (s : BtTrans) (h : TransInv s) : TransInv (unlockBtreeIfUnused s) := by
  unfold unlockBtreeIfUnused
  split_ifs with g
  · obtain ⟨i1, i2, i3, i4, i5, i6, i7, i8, i9, i10, i11⟩ := h
    exact ⟨i1, i2, i3, i4, i5, i6, i7, i8, i9, fun hn => absurd g.1 hn, i11⟩
  · exact h

/-- Ending the transaction of handle `p` from a state in which the shared `inTransaction`
already counts `p` as a reader at most. -/
theorem TransInv_end_aux (t : BtTrans) (p : Nat) (cnt : Int) (hp : p < t.nHandle)
    (i1 : ∀ q, q < t.nHandle → t.inTrans q ≤ TRANS_WRITE)
    (i2 : ∀ q, q < t.nHandle → t.inTrans q = TRANS_WRITE → t.pWriter = some q)
    (i3 : ∀ q, t.pWriter = some q → q < t.nHandle ∧ t.inTrans q = TRANS_WRITE)
    (i4 : t.inTransaction =
      maxTrans (setAt t.inTrans p (min (t.inTrans p) TRANS_READ)) t.nHandle)
    (i5 : t.nTransaction = (nActive t.inTrans t.nHandle : Int))
    (i6 : t.exclusive = true → t.pWriter ≠ none)
    (i7 : t.pending = true → t.pWriter ≠ none)
    (i8 : ∀ l, l ∈ t.pLock → l.pBtree < t.nHandle ∧ t.inTrans l.pBtree ≠ TRANS_NONE ∧
      (l.eLock = READ_LOCK ∨ (l.eLock = WRITE_LOCK ∧ t.pWriter = some l.pBtree)))
    (i9 : (t.pLock.map (fun l => (l.pBtree, l.iTable))).Nodup)
    (i10 : t.inTransaction ≠ TRANS_NONE → t.hasPage1 = true)
    (i11 : t.pWriter ≠ none → t.readOnly = false) :
    TransInv (btreeEndTransaction t p cnt) := by
  have hnotw : ∀ q, q < t.nHandle → q ≠ p → t.pWriter = some p → t.inTrans q ≤ TRANS_READ := by
    intro q hq hne hw
    have h1 := i1 q hq
    by_cases e : t.inTrans q = TRANS_WRITE
    · have := i2 q hq e
      rw [hw] at this
      exact absurd (Option.some.inj this).symm hne
    · unfold TRANS_WRITE at h1 e; unfold TRANS_READ; omega
  unfold btreeEndTransaction
  by_cases hdg : t.inTrans p > TRANS_NONE ∧ cnt > 1
  · rw [if_pos hdg]
    have hcap : min (t.inTrans p) TRANS_READ = TRANS_READ := by
      have := hdg.1
      unfold TRANS_NONE at this; unfold TRANS_READ; omega
    rw [hcap] at i4
    have hcnt : nActive (setAt t.inTrans p TRANS_READ) t.nHandle = nActive t.inTrans t.nHandle := by
      have := nActive_setAt t.inTrans p TRANS_READ t.nHandle hp
      have h0 : t.inTrans p ≠ TRANS_NONE := by
        have := hdg.1; unfold TRANS_NONE at this ⊢; omega
      rw [if_pos h0, if_pos (by decide)] at this
      omega
    unfold downgradeAllSharedCacheTableLocks
    by_cases hw : t.pWriter = some p
    · rw [if_pos hw]
      refine TransInv_mk _ (fun q hq => ?_) (fun q hq hq2 => ?_) (fun q hq => ?_) i4 ?_
        (fun he => ?_) (fun he => ?_) (fun l hl => ?_) ?_ i10 (fun hn => ?_)
      · show setAt t.inTrans p TRANS_READ q ≤ TRANS_WRITE
        by_cases e : q = p
        · rw [e, setAt_same]; decide
        · rw [setAt_other _ _ _ _ e]; exact i1 q hq
      · exfalso
        have hq3 : setAt t.inTrans p TRANS_READ q = TRANS_WRITE := hq2
        by_cases e : q = p
        · rw [e, setAt_same] at hq3; exact absurd hq3 (by decide)
        · rw [setAt_other _ _ _ _ e] at hq3
          have := hnotw q hq e hw
          rw [hq3] at this
          exact absurd this (by decide)
      · cases hq
      · show t.nTransaction = _
        rw [i5]
        exact congrArg Nat.cast hcnt.symm
      · cases he
      · cases he
      · obtain ⟨l0, hl0, e⟩ := List.mem_map.mp hl
        obtain ⟨a1, a2, _⟩ := i8 l0 hl0
        rw [← e]
        refine ⟨a1, ?_, Or.inl rfl⟩
        show setAt t.inTrans p TRANS_READ l0.pBtree ≠ TRANS_NONE
        by_cases e2 : l0.pBtree = p
        · rw [e2, setAt_same]; decide
        · rw [setAt_other _ _ _ _ e2]; exact a2
      · show (List.map (fun l => (l.pBtree, l.iTable))
          (List.map (fun l : BtLock => { l with eLock := READ_LOCK }) t.pLock)).Nodup
        rw [List.map_map]
        exact i9
      · exact absurd rfl hn
    · rw [if_neg hw]
      have hr : t.inTrans p = TRANS_READ := by
        have h1 := i1 p hp
        have h2 := hdg.1
        by_cases e : t.inTrans p = TRANS_WRITE
        · exact absurd (i2 p hp e) hw
        · unfold TRANS_WRITE at h1 e; unfold TRANS_NONE at h2; unfold TRANS_READ; omega
      have hsame : ∀ q, setAt t.inTrans p TRANS_READ q = t.inTrans q := by
        intro q
        by_cases e : q = p
        · rw [e, setAt_same, hr]
        · rw [setAt_other _ _ _ _ e]
      refine TransInv_mk _ (fun q hq => ?_) (fun q hq hq2 => ?_) (fun q hq => ?_) i4 ?_
        i6 i7 (fun l hl => ?_) i9 i10 i11
      · show setAt t.inTrans p TRANS_READ q ≤ TRANS_WRITE
        rw [hsame]; exact i1 q hq
      · have hq3 : setAt t.inTrans p TRANS_READ q = TRANS_WRITE := hq2
        rw [hsame] at hq3
        exact i2 q hq hq3
      · obtain ⟨a1, a2⟩ := i3 q hq
        refine ⟨a1, ?_⟩
        show setAt t.inTrans p TRANS_READ q = TRANS_WRITE
        rw [hsame]; exact a2
      · show t.nTransaction = _
        rw [i5]
        exact congrArg Nat.cast hcnt.symm
      · obtain ⟨a1, a2, a3⟩ := i8 l hl
        refine ⟨a1, ?_, a3⟩
        show setAt t.inTrans p TRANS_READ l.pBtree ≠ TRANS_NONE
        rw [hsame]; exact a2
  · rw [if_neg hdg]
    apply TransInv_unlock
    by_cases hnone : t.inTrans p ≠ TRANS_NONE
    · have f1 : ∀ q, q < t.nHandle → setAt t.inTrans p TRANS_NONE q ≤ TRANS_WRITE := by
        intro q hq
        by_cases e : q = p
        · rw [e, setAt_same]; decide
        · rw [setAt_other _ _ _ _ e]; exact i1 q hq
      have f5 : t.nTransaction - 1 = (nActive (setAt t.inTrans p TRANS_NONE) t.nHandle : Int) := by
        have := nActive_setAt t.inTrans p TRANS_NONE t.nHandle hp
        rw [if_pos hnone, if_neg (by decide)] at this
        rw [i5]
        omega
      have f4 : (if t.nTransaction - 1 = 0 then TRANS_NONE else t.inTransaction) =
          maxTrans (setAt t.inTrans p TRANS_NONE) t.nHandle := by
        by_cases hz : t.nTransaction - 1 = 0
        · rw [if_pos hz]
          rw [f5] at hz
          have hz2 : nActive (setAt t.inTrans p TRANS_NONE) t.nHandle = 0 := by exact_mod_cast hz
          exact (maxTrans_idle _ _ ((nActive_eq_zero _ _).mp hz2)).symm
        · rw [if_neg hz]
          rw [f5] at hz
          have hz2 : nActive (setAt t.inTrans p TRANS_NONE) t.nHandle ≠ 0 := by
            intro e; apply hz; rw [e]; rfl
          have hex : ∃ q, q < t.nHandle ∧ setAt t.inTrans p TRANS_NONE q ≠ TRANS_NONE := by
            by_contra hc
            push_neg at hc
            exact hz2 ((nActive_eq_zero _ _).mpr hc)
          obtain ⟨q, hq, hq2⟩ := hex
          have hqp : q ≠ p := by
            intro e; rw [e, setAt_same] at hq2; exact hq2 rfl
          rw [setAt_other _ _ _ _ hqp] at hq2
          have hcapp : 1 ≤ min (t.inTrans p) TRANS_READ := by
            unfold TRANS_NONE at hnone; unfold TRANS_READ; omega
          have hMp := le_maxTrans (setAt t.inTrans p (min (t.inTrans p) TRANS_READ)) t.nHandle p hp
          rw [setAt_same, ← i4] at hMp
          apply maxTrans_eq
          · intro r hr
            by_cases e : r = p
            · rw [e, setAt_same]; exact Nat.zero_le _
            · have := le_maxTrans (setAt t.inTrans p (min (t.inTrans p) TRANS_READ)) t.nHandle r hr
              rw [setAt_other _ _ _ _ e, ← i4] at this
              rw [setAt_other _ _ _ _ e]
              exact this
          · right
            rcases maxTrans_attained (setAt t.inTrans p (min (t.inTrans p) TRANS_READ))
                t.nHandle with h0 | ⟨r, hr, hr2⟩
            · rw [← i4] at h0
              rw [h0] at hMp
              unfold TRANS_NONE at hMp
              omega
            · rw [← i4] at hr2
              by_cases e : r = p
              · rw [e, setAt_same] at hr2
                have hM1 : t.inTransaction = 1 := by
                  have : min (t.inTrans p) TRANS_READ ≤ 1 := min_le_right _ _
                  omega
                have hq3 := le_maxTrans (setAt t.inTrans p (min (t.inTrans p) TRANS_READ))
                  t.nHandle q hq
                rw [setAt_other _ _ _ _ hqp, ← i4, hM1] at hq3
                refine ⟨q, hq, ?_⟩
                rw [setAt_other _ _ _ _ hqp, hM1]
                unfold TRANS_NONE at hq2
                omega
              · refine ⟨r, hr, ?_⟩
                rw [setAt_other _ _ _ _ e] at hr2 ⊢
                exact hr2
      have f9 : (List.map (fun l : BtLock => (l.pBtree, l.iTable))
          (List.filter (fun l => decide (l.pBtree ≠ p)) t.pLock)).Nodup :=
        List.Nodup.sublist (List.Sublist.map _ (List.filter_sublist _)) i9
      have f8 : ∀ l, l ∈ List.filter (fun l : BtLock => decide (l.pBtree ≠ p)) t.pLock →
          l ∈ t.pLock ∧ l.pBtree ≠ p ∧ setAt t.inTrans p TRANS_NONE l.pBtree ≠ TRANS_NONE := by
        intro l hl
        obtain ⟨a, b⟩ := List.mem_filter.mp hl
        have b2 : l.pBtree ≠ p := of_decide_eq_true b
        refine ⟨a, b2, ?_⟩
        rw [setAt_other _ _ _ _ b2]
        exact (i8 l a).2.1
      simp only [if_pos hnone]
      unfold clearAllSharedCacheTableLocks
      simp only []
      by_cases hw : t.pWriter = some p
      · simp only [if_pos hw]
        by_cases hz : t.nTransaction - 1 = 0
        · simp only [if_pos hz]
          rw [if_pos hz] at f4
          refine TransInv_mk _ f1 (fun q hq hq2 => ?_) (fun q hq => ?_) f4 f5
            (fun he => ?_) (fun he => ?_) (fun l hl => ?_) f9 (fun hn => absurd rfl hn)
            (fun hn => absurd rfl hn)
          · exfalso
            have hq3 : setAt t.inTrans p TRANS_NONE q = TRANS_WRITE := hq2
            by_cases e : q = p
            · rw [e, setAt_same] at hq3; exact absurd hq3 (by decide)
            · rw [setAt_other _ _ _ _ e] at hq3
              have := hnotw q hq e hw
              rw [hq3] at this
              exact absurd this (by decide)
          · cases hq
          · cases he
          · cases he
          · obtain ⟨a, b, c⟩ := f8 l hl
            refine ⟨(i8 l a).1, c, ?_⟩
            rcases (i8 l a).2.2 with h1 | ⟨_, h2⟩
            · exact Or.inl h1
            · rw [hw] at h2
              exact absurd (Option.some.inj h2).symm b
        · simp only [if_neg hz]
          rw [if_neg hz] at f4
          refine TransInv_mk _ f1 (fun q hq hq2 => ?_) (fun q hq => ?_) f4 f5
            (fun he => ?_) (fun he => ?_) (fun l hl => ?_) f9 i10
            (fun hn => absurd rfl hn)
          · exfalso
            have hq3 : setAt t.inTrans p TRANS_NONE q = TRANS_WRITE := hq2
            by_cases e : q = p
            · rw [e, setAt_same] at hq3; exact absurd hq3 (by decide)
            · rw [setAt_other _ _ _ _ e] at hq3
              have := hnotw q hq e hw
              rw [hq3] at this
              exact absurd this (by decide)
          · cases hq
          · cases he
          · cases he
          · obtain ⟨a, b, c⟩ := f8 l hl
            refine ⟨(i8 l a).1, c, ?_⟩
            rcases (i8 l a).2.2 with h1 | ⟨_, h2⟩
            · exact Or.inl h1
            · rw [hw] at h2
              exact absurd (Option.some.inj h2).symm b
      · simp only [if_neg hw]
        have g2 : ∀ q, q < t.nHandle → setAt t.inTrans p TRANS_NONE q = TRANS_WRITE →
            t.pWriter = some q := by
          intro q hq hq3
          by_cases e : q = p
          · rw [e, setAt_same] at hq3; exact absurd hq3 (by decide)
          · rw [setAt_other _ _ _ _ e] at hq3
            exact i2 q hq hq3
        have g3 : ∀ q, t.pWriter = some q →
            q < t.nHandle ∧ setAt t.inTrans p TRANS_NONE q = TRANS_WRITE := by
          intro q hq
          obtain ⟨a1, a2⟩ := i3 q hq
          have e : q ≠ p := by
            intro e; rw [e] at hq; exact hw hq
          refine ⟨a1, ?_⟩
          rw [setAt_other _ _ _ _ e]; exact a2
        have g8 : ∀ l, l ∈ List.filter (fun l : BtLock => decide (l.pBtree ≠ p)) t.pLock →
            l.pBtree < t.nHandle ∧ setAt t.inTrans p TRANS_NONE l.pBtree ≠ TRANS_NONE ∧
            (l.eLock = READ_LOCK ∨ (l.eLock = WRITE_LOCK ∧ t.pWriter = some l.pBtree)) := by
          intro l hl
          obtain ⟨a, b, c⟩ := f8 l hl
          exact ⟨(i8 l a).1, c, (i8 l a).2.2⟩
        by_cases h2 : t.nTransaction = 2
        · simp only [if_pos h2]
          by_cases hz : t.nTransaction - 1 = 0
          · exfalso; omega
          · rw [if_neg hz] at f4
            simp only [if_neg hz]
            exact TransInv_mk _ f1 g2 g3 f4 f5 i6 (fun he => by cases he) g8 f9 i10 i11
        · simp only [if_neg h2]
          by_cases hz : t.nTransaction - 1 = 0
          · simp only [if_pos hz]
            rw [if_pos hz] at f4
            exact TransInv_mk _ f1 g2 g3 f4 f5 i6 i7 g8 f9 (fun hn => absurd rfl hn) i11
          · simp only [if_neg hz]
            rw [if_neg hz] at f4
            exact TransInv_mk _ f1 g2 g3 f4 f5 i6 i7 g8 f9 i10 i11
    · simp only [if_neg hnone]
      have hz : t.inTrans p = TRANS_NONE := not_not.mp hnone
      have hsame : ∀ q, setAt t.inTrans p TRANS_NONE q = t.inTrans q := by
        intro q
        by_cases e : q = p
        · rw [e, setAt_same, hz]
        · rw [setAt_other _ _ _ _ e]
      have hcap : ∀ q, setAt t.inTrans p (min (t.inTrans p) TRANS_READ) q = t.inTrans q := by
        intro q
        by_cases e : q = p
        · rw [e, setAt_same, hz]; rfl
        · rw [setAt_other _ _ _ _ e]
      refine TransInv_mk _ (fun q hq => ?_) (fun q hq hq2 => ?_) (fun q hq => ?_) ?_ ?_
        i6 i7 (fun l hl => ?_) i9 i10 i11
      · show setAt t.inTrans p TRANS_NONE q ≤ TRANS_WRITE
        rw [hsame]; exact i1 q hq
      · have hq3 : setAt t.inTrans p TRANS_NONE q = TRANS_WRITE := hq2
        rw [hsame] at hq3
        exact i2 q hq hq3
      · obtain ⟨a1, a2⟩ := i3 q hq
        refine ⟨a1, ?_⟩
        show setAt t.inTrans p TRANS_NONE q = TRANS_WRITE
        rw [hsame]; exact a2
      · show t.inTransaction = maxTrans (setAt t.inTrans p TRANS_NONE) t.nHandle
        rw [i4]
        exact maxTrans_congr _ _ _ (fun q _ => by rw [hcap, hsame])
      · show t.nTransaction = (nActive (setAt t.inTrans p TRANS_NONE) t.nHandle : Int)
        rw [i5, nActive_congr _ _ _ (fun q _ => hsame q)]
      · obtain ⟨a1, a2, a3⟩ := i8 l hl
        refine ⟨a1, ?_, a3⟩
        show setAt t.inTrans p TRANS_NONE l.pBtree ≠ TRANS_NONE
        rw [hsame]; exact a2

end Btree

namespace Btree

/-- Ending the transaction of handle `p`, after the callers have lowered the shared
`inTransaction` for a writer, keeps the invariant. -/
theorem TransInv_end (s : BtTrans) (p : Nat) (cnt : Int) (h : TransInv s) (hp : p < s.nHandle) :
    TransInv (btreeEndTransaction
      (if s.inTrans p = TRANS_WRITE then { s with inTransaction := TRANS_READ } else s) p cnt) := by
  obtain ⟨i1, i2, i3, i4, i5, i6, i7, i8, i9, i10, i11⟩ := h
  by_cases hw : s.inTrans p = TRANS_WRITE
  · rw [if_pos hw]
    refine TransInv_end_aux _ p cnt hp i1 i2 i3 ?_ i5 i6 i7 i8 i9 (fun _ => i10 ?_) i11
    · show TRANS_READ = maxTrans (setAt s.inTrans p (min (s.inTrans p) TRANS_READ)) s.nHandle
      rw [hw]
      apply maxTrans_eq
      · intro q hq
        by_cases e : q = p
        · rw [e, setAt_same]; decide
        · rw [setAt_other _ _ _ _ e]
          have h1 := i1 q hq
          by_cases e2 : s.inTrans q = TRANS_WRITE
          · have a := i2 q hq e2
            have b := i2 p hp hw
            rw [a] at b
            exact absurd (Option.some.inj b) e
          · unfold TRANS_WRITE at h1 e2; unfold TRANS_READ; omega
      · exact Or.inr ⟨p, hp, by rw [setAt_same]; rfl⟩
    · rw [i4]
      have := le_maxTrans s.inTrans s.nHandle p hp
      rw [hw] at this
      unfold TRANS_WRITE at this; unfold TRANS_NONE
      omega
  · rw [if_neg hw]
    refine TransInv_end_aux _ p cnt hp i1 i2 i3 ?_ i5 i6 i7 i8 i9 i10 i11
    rw [i4]
    apply maxTrans_congr
    intro q hq
    by_cases e : q = p
    · rw [e, setAt_same]
      have h1 := i1 p hp
      unfold TRANS_WRITE at h1 hw; unfold TRANS_READ
      omega
    · rw [setAt_other _ _ _ _ e]

theorem TransInv_commitPhaseTwo (s : BtTrans) (p : Nat) (bCleanup : Int) (rcPager : Nat)
    (cnt : Int) (h : TransInv s) (hp : p < s.nHandle) :
    TransInv (sqlite3BtreeCommitPhaseTwo s p bCleanup rcPager cnt).2 := by
  have he := TransInv_end s p cnt h hp
  unfold sqlite3BtreeCommitPhaseTwo
  split_ifs with h1 h2 h3
  · exact h
  · exact h
  · rw [if_pos h2] at he; exact he
  · rw [if_neg h2] at he; exact he

theorem TransInv_rollback (s : BtTrans) (cursors : List BtCursor) (p : Nat) (tripCode : Int)
    (keyBuf : Nat → Option (Nat × Bytes)) (rcPager : Nat) (cnt : Int)
    (h : TransInv s) (hp : p < s.nHandle) :
    TransInv (sqlite3BtreeRollback s cursors p tripCode keyBuf rcPager cnt).2.1 := by
  have he := TransInv_end s p cnt h hp
  unfold sqlite3BtreeRollback
  by_cases h1 : s.inTrans p = TRANS_WRITE
  · rw [if_pos h1] at he
    simp only [if_pos h1]
    exact he
  · rw [if_neg h1] at he
    simp only [if_neg h1]
    exact he

theorem TransInv_lockTable (s : BtTrans) (p iTab isWriteLock : Nat) (allocOk : Bool)
    (h : TransInv s) (hp : p < s.nHandle) (ht : s.inTrans p ≠ TRANS_NONE)
    (hle : isWriteLock ≤ 1)
    (hw : isWriteLock = 1 → s.pWriter = some p ∧ s.inTrans p = TRANS_WRITE) :
    TransInv (sqlite3BtreeLockTable s p iTab isWriteLock allocOk).2 := by
  have hq : TransInv (querySharedCacheTableLock s p iTab (READ_LOCK + isWriteLock)).2 :=
    TransInv_query s p iTab _ h (fun e => (hw (by unfold READ_LOCK WRITE_LOCK at e; omega)).1)
  unfold sqlite3BtreeLockTable
  split_ifs with h1 h2
  · rcases query_state s p iTab (READ_LOCK + isWriteLock) with e | ⟨_, e1, _⟩
    · rw [e]
      refine TransInv_setLock s p iTab _ allocOk h hp ht ?_
      rcases Nat.eq_zero_or_pos isWriteLock with z | z
      · left; rw [z]; rfl
      · right
        have e1 : isWriteLock = 1 := by omega
        exact ⟨by rw [e1]; rfl, (hw e1).1⟩
    · rw [e1] at h2; exact absurd h2 (by decide)
  · exact hq
  · exact h

/-! ## The lock loop of `sqlite3BtreeBeginTrans` -/

/-- The state after the lock loop differs from the state before at most in `pPage1` and
`BTS_READ_ONLY`. -/
theorem lockLoop_spec (env : BeginEnv) :
    ∀ (fuel k : Nat) (s : BtTrans) (rc0 : Nat) (r : Nat × Nat × BtTrans),
      lockLoop env fuel k s rc0 = some r →
      r.2.2 = { s with hasPage1 := r.2.2.hasPage1, readOnly := r.2.2.readOnly } ∧
      (s.hasPage1 = true → r.2.2 = s ∧ r.1 = rc0) ∧
      ((rc0 = SQLITE_OK ∨ s.hasPage1 = false) →
        (r.1 = SQLITE_OK ∧ r.2.2.hasPage1 = true) ∨
        (r.1 ≠ SQLITE_OK ∧ r.2.2.hasPage1 = false)) := by
  intro fuel
  induction fuel with
  | zero => intro k s rc0 r h; cases h
  | succ fuel ih =>
    intro k s rc0 r h
    unfold lockLoop at h
    by_cases hp : s.hasPage1 = true
    · rw [if_pos hp] at h
      cases h
      refine ⟨rfl, fun _ => ⟨rfl, rfl⟩, fun hh => ?_⟩
      rcases hh with e | e
      · by_cases e2 : rc0 = SQLITE_OK
        · exact Or.inl ⟨e2, hp⟩
        · exact absurd e e2
      · rw [hp] at e; cases e
    · rw [if_neg hp] at h
      by_cases ho : (lockBtreeTrans s (env.lockOutcome k)).1 = SQLITE_OK
      · rw [if_pos ho] at h
        obtain ⟨a1, _, a3⟩ := ih _ _ _ _ h
        refine ⟨?_, fun e => absurd e hp, fun _ => a3 (Or.inl rfl)⟩
        rw [a1]
        rfl
      · rw [if_neg ho] at h
        cases h
        refine ⟨rfl, fun e => absurd e hp, fun _ => Or.inr ⟨ho, ?_⟩⟩
        show (decide ((env.lockOutcome k).rc = SQLITE_OK) && (env.lockOutcome k).page1) = false
        have : ¬ ((env.lockOutcome k).rc = SQLITE_OK) := ho
        simp [this]

theorem unlock_spec (s : BtTrans) :
    unlockBtreeIfUnused s = { s with hasPage1 := (unlockBtreeIfUnused s).hasPage1 } ∧
    (s.inTransaction ≠ TRANS_NONE → unlockBtreeIfUnused s = s) ∧
    (s.inTransaction = TRANS_NONE → (unlockBtreeIfUnused s).hasPage1 = false) := by
  unfold unlockBtreeIfUnused
  split_ifs with h
  · exact ⟨rfl, fun hn => absurd h.1 hn, fun _ => rfl⟩
  · refine ⟨rfl, fun _ => rfl, fun e => ?_⟩
    cases hh : s.hasPage1
    · rfl
    · exact absurd ⟨e, hh⟩ h

/-- The `do` loop of `sqlite3BtreeBeginTrans` touches `pPage1` and `BTS_READ_ONLY` only; with
a transaction open on the `BtShared` (and so page 1 held) it changes nothing; when it ends
with `SQLITE_OK` page 1 is held and, for a write request, the database is not read-only. -/
theorem beginLoop_spec (env : BeginEnv) (wrflag : Nat) :
    ∀ (fuel k j : Nat) (s : BtTrans) (rc0 : Nat) (r : Nat × BtTrans),
      beginLoop env wrflag fuel k j s rc0 = some r →
      (rc0 = SQLITE_OK ∨ s.hasPage1 = false) →
      r.2 = { s with hasPage1 := r.2.hasPage1, readOnly := r.2.readOnly } ∧
      (s.inTransaction ≠ TRANS_NONE → s.hasPage1 = true → r.2 = s) ∧
      (r.1 = SQLITE_OK → r.2.hasPage1 = true ∧ (wrflag ≠ 0 → r.2.readOnly = false)) := by
  intro fuel
  induction fuel with
  | zero => intro k j s rc0 r h; cases h
  | succ fuel ih =>
    intro k j s rc0 r h hpre
    unfold beginLoop at h
    cases hl : lockLoop env (fuel + 1) k s rc0 with
    | none => rw [hl] at h; cases h
    | some q =>
      obtain ⟨rc1, k1, s1⟩ := q
      rw [hl] at h
      obtain ⟨b1, b2, b3⟩ := lockLoop_spec env _ _ _ _ _ hl
      have b3 := b3 hpre
      simp only [] at h b1 b2 b3
      generalize hrc : (if rc1 = SQLITE_OK ∧ wrflag ≠ 0 then
          if s1.readOnly = true then SQLITE_READONLY else env.pagerBegin j else rc1) = rc2 at h
      have hrc2 : rc2 = SQLITE_OK → rc1 = SQLITE_OK ∧ (wrflag ≠ 0 → s1.readOnly = false) := by
        intro e
        rw [← hrc] at e
        by_cases c : rc1 = SQLITE_OK ∧ wrflag ≠ 0
        · rw [if_pos c] at e
          refine ⟨c.1, fun _ => ?_⟩
          cases hro : s1.readOnly
          · rfl
          · rw [if_pos hro] at e; exact absurd e (by decide)
        · rw [if_neg c] at e
          exact ⟨e, fun hw => absurd ⟨e, hw⟩ c⟩
      generalize hs2 : (if rc2 ≠ SQLITE_OK then unlockBtreeIfUnused s1 else s1) = s2 at h
      have hs2a : s2 = { s1 with hasPage1 := s2.hasPage1 } := by
        rw [← hs2]
        split_ifs
        · exact (unlock_spec s1).1
        · rfl
      have hs : s2 = { s with hasPage1 := s2.hasPage1, readOnly := s2.readOnly } := by
        rw [hs2a, b1]
      by_cases hc : rc2 % 256 = SQLITE_BUSY ∧ s2.inTransaction = TRANS_NONE ∧
          env.busyHandler j = true
      · rw [if_pos hc] at h
        have hne : rc2 ≠ SQLITE_OK := by
          intro e; rw [e] at hc; exact absurd hc.1 (by decide)
        have hs2b : s2 = unlockBtreeIfUnused s1 := by rw [← hs2, if_pos hne]
        have hin : s1.inTransaction = TRANS_NONE := by
          have := hc.2.1
          rw [hs2a] at this
          exact this
        have hnp : s2.hasPage1 = false := by
          rw [hs2b]; exact (unlock_spec s1).2.2 hin
        obtain ⟨c1, c2, c3⟩ := ih _ _ _ _ _ h (Or.inr hnp)
        refine ⟨?_, fun hn _ => ?_, c3⟩
        · rw [c1, hs]
        · exfalso
          apply hn
          have : s1.inTransaction = s.inTransaction := by rw [b1]
          rw [← this]; exact hin
      · rw [if_neg hc] at h
        cases h
        refine ⟨hs, fun hn hp => ?_, fun e => ?_⟩
        · obtain ⟨d1, _⟩ := b2 hp
          have d1 : s1 = s := d1
          rw [← hs2]
          split_ifs
          · rw [d1]; exact (unlock_spec s).2.1 hn
          · exact d1
        · have e : rc2 = SQLITE_OK := e
          obtain ⟨e1, e2⟩ := hrc2 e
          have hs2c : s2 = s1 := by rw [← hs2, if_neg (not_not.mpr e)]
          rcases b3 with ⟨_, g⟩ | ⟨g, _⟩
          · rw [hs2c]; exact ⟨g, e2⟩
          · exact absurd e1 g

end Btree

namespace Btree

theorem TransInv_beginLoop (env : BeginEnv) (wrflag fuel k j : Nat) (s : BtTrans) (rc0 : Nat)
    (r : Nat × BtTrans) (h : TransInv s)
    (hrun : beginLoop env wrflag fuel k j s rc0 = some r)
    (hpre : rc0 = SQLITE_OK ∨ s.hasPage1 = false) : TransInv r.2 := by
  obtain ⟨a1, a2, _⟩ := beginLoop_spec env wrflag fuel k j s rc0 r hrun hpre
  obtain ⟨i1, i2, i3, i4, i5, i6, i7, i8, i9, i10, i11⟩ := h
  by_cases hn : s.inTransaction ≠ TRANS_NONE
  · rw [a2 hn (i10 hn)]
    exact ⟨i1, i2, i3, i4, i5, i6, i7, i8, i9, i10, i11⟩
  · have hz : s.inTransaction = TRANS_NONE := not_not.mp hn
    have hw : s.pWriter = none := by
      cases hpw : s.pWriter with
      | none => rfl
      | some q =>
        exfalso
        obtain ⟨b1, b2⟩ := i3 q hpw
        have := le_maxTrans s.inTrans s.nHandle q b1
        rw [← i4, hz, b2] at this
        exact absurd this (by decide)
    rw [a1]
    exact TransInv_mk _ i1 i2 i3 i4 i5 i6 i7 i8 i9 (fun e => absurd hz e) (fun e => absurd hw e)

theorem beginCommit_state (env : BeginEnv) (s : BtTrans) (p wrflag : Nat) :
    (beginCommit env s p wrflag).2 =
      { s with
        nTransaction := if s.inTrans p = TRANS_NONE then s.nTransaction + 1 else s.nTransaction
        pLock := if s.inTrans p = TRANS_NONE ∧ s.sharable p = true then
            { pBtree := p, iTable := 1, eLock := READ_LOCK } :: s.pLock else s.pLock
        inTrans := setAt s.inTrans p (if wrflag ≠ 0 then TRANS_WRITE else TRANS_READ)
        inTransaction :=
          if (if wrflag ≠ 0 then TRANS_WRITE else TRANS_READ) > s.inTransaction then
            (if wrflag ≠ 0 then TRANS_WRITE else TRANS_READ) else s.inTransaction
        pWriter := if wrflag ≠ 0 then some p else s.pWriter
        exclusive := if wrflag ≠ 0 then decide (wrflag > 1) else s.exclusive } := by
  unfold beginCommit
  simp only [setAt_same]
  split_ifs <;> first | rfl | (exfalso; simp_all)

/-- The update of `sqlite3BtreeBeginTrans` after a successful lock loop keeps the
invariant, for a request that the checks at the head of the function have let through. -/
theorem TransInv_beginCommit (env : BeginEnv) (s : BtTrans) (p wrflag : Nat) (h : TransInv s)
    (hp : p < s.nHandle) (hpg : s.hasPage1 = true) (hro : wrflag ≠ 0 → s.readOnly = false)
    (h1 : ¬ (s.inTrans p = TRANS_WRITE ∨ (s.inTrans p = TRANS_READ ∧ wrflag = 0)))
    (h2 : ¬ ((wrflag ≠ 0 ∧ s.inTransaction = TRANS_WRITE) ∨ s.pending = true)) :
    TransInv (beginCommit env s p wrflag).2 := by
  obtain ⟨i1, i2, i3, i4, i5, i6, i7, i8, i9, i10, i11⟩ := h
  rw [beginCommit_state]
  have hpw : s.inTrans p ≠ TRANS_WRITE := fun e => h1 (Or.inl e)
  have hpnw : s.pWriter ≠ some p := fun e => hpw (i3 p e).2
  have hv0 : (if wrflag ≠ 0 then TRANS_WRITE else TRANS_READ) ≠ TRANS_NONE := by
    split_ifs <;> decide
  have hv2 : (if wrflag ≠ 0 then TRANS_WRITE else TRANS_READ) ≤ TRANS_WRITE := by
    split_ifs <;> decide
  -- with a write request nobody is writing
  have hnow : wrflag ≠ 0 → s.pWriter = none := by
    intro hw
    cases hq : s.pWriter with
    | none => rfl
    | some q =>
      exfalso
      obtain ⟨b1, b2⟩ := i3 q hq
      have := le_maxTrans s.inTrans s.nHandle q b1
      rw [← i4, b2] at this
      have hle : s.inTransaction ≤ TRANS_WRITE := by
        rw [i4]
        rcases maxTrans_attained s.inTrans s.nHandle with e | ⟨r, hr, e⟩
        · rw [e]; decide
        · rw [← e]; exact i1 r hr
      exact h2 (Or.inl ⟨hw, le_antisymm hle this⟩)
  have hold : ∀ q, q ≠ p →
      setAt s.inTrans p (if wrflag ≠ 0 then TRANS_WRITE else TRANS_READ) q = s.inTrans q :=
    fun q e => setAt_other _ _ _ _ e
  refine TransInv_mk _ (fun q hq => ?_) (fun q hq hq2 => ?_) (fun q hq => ?_) ?_ ?_
    (fun he => ?_) (fun he => ?_) (fun l hl => ?_) ?_ (fun _ => hpg) (fun hn => ?_)
  · show setAt s.inTrans p _ q ≤ TRANS_WRITE
    by_cases e : q = p
    · rw [e, setAt_same]; exact hv2
    · rw [hold q e]; exact i1 q hq
  · have hq3 : setAt s.inTrans p (if wrflag ≠ 0 then TRANS_WRITE else TRANS_READ) q =
        TRANS_WRITE := hq2
    show (if wrflag ≠ 0 then some p else s.pWriter) = some q
    by_cases e : q = p
    · rw [e, setAt_same] at hq3
      by_cases hw : wrflag ≠ 0
      · rw [if_pos hw, e]
      · rw [if_neg hw] at hq3; exact absurd hq3 (by decide)
    · rw [hold q e] at hq3
      have hwq := i2 q hq hq3
      by_cases hw : wrflag ≠ 0
      · rw [hnow hw] at hwq; cases hwq
      · rw [if_neg hw]; exact hwq
  · have hq3 : (if wrflag ≠ 0 then some p else s.pWriter) = some q := hq
    show q < s.nHandle ∧ setAt s.inTrans p _ q = TRANS_WRITE
    by_cases hw : wrflag ≠ 0
    · rw [if_pos hw] at hq3
      have e : p = q := Option.some.inj hq3
      rw [← e, setAt_same, if_pos hw]
      exact ⟨hp, rfl⟩
    · rw [if_neg hw] at hq3
      obtain ⟨b1, b2⟩ := i3 q hq3
      have e : q ≠ p := fun e => hpnw (e ▸ hq3)
      rw [hold q e]
      exact ⟨b1, b2⟩
  · show (if (if wrflag ≠ 0 then TRANS_WRITE else TRANS_READ) > s.inTransaction then
        (if wrflag ≠ 0 then TRANS_WRITE else TRANS_READ) else s.inTransaction) =
      maxTrans (setAt s.inTrans p (if wrflag ≠ 0 then TRANS_WRITE else TRANS_READ)) s.nHandle
    generalize (if wrflag ≠ 0 then TRANS_WRITE else TRANS_READ) = v at *
    have hpv : s.inTrans p ≤ v := by
      by_contra hc
      have hc2 : v < s.inTrans p := not_le.mp hc
      have := i1 p hp
      unfold TRANS_WRITE at this hpw
      unfold TRANS_NONE at hv0
      have e1 : s.inTrans p = 1 := by omega
      have e2 : v = 0 := by omega
      exact hv0 e2
    apply maxTrans_eq
    · intro q hq
      by_cases e : q = p
      · rw [e, setAt_same]
        split_ifs with g
        · exact le_refl _
        · exact not_lt.mp g
      · rw [setAt_other _ _ _ _ e]
        have := le_maxTrans s.inTrans s.nHandle q hq
        rw [← i4] at this
        split_ifs with g
        · exact le_of_lt (lt_of_le_of_lt this g)
        · exact this
    · right
      by_cases g : v > s.inTransaction
      · rw [if_pos g]
        exact ⟨p, hp, setAt_same _ _ _⟩
      · rw [if_neg g]
        have g2 : v ≤ s.inTransaction := not_lt.mp g
        rcases maxTrans_attained s.inTrans s.nHandle with e | ⟨r, hr, e⟩
        · rw [← i4] at e
          rw [e] at g2
          exact absurd (Nat.le_zero.mp g2) hv0
        · rw [← i4] at e
          by_cases e2 : r = p
          · refine ⟨p, hp, ?_⟩
            rw [setAt_same]
            rw [e2] at e
            omega
          · exact ⟨r, hr, by rw [setAt_other _ _ _ _ e2]; exact e⟩
  · show (if s.inTrans p = TRANS_NONE then s.nTransaction + 1 else s.nTransaction) =
      (nActive (setAt s.inTrans p (if wrflag ≠ 0 then TRANS_WRITE else TRANS_READ)) s.nHandle : Int)
    have := nActive_setAt s.inTrans p (if wrflag ≠ 0 then TRANS_WRITE else TRANS_READ)
      s.nHandle hp
    rw [if_pos hv0] at this
    rw [i5]
    by_cases g : s.inTrans p = TRANS_NONE
    · rw [if_pos g]
      rw [if_neg (not_not.mpr g)] at this
      omega
    · rw [if_neg g]
      rw [if_pos g] at this
      omega
  · show (if wrflag ≠ 0 then some p else s.pWriter) ≠ none
    have he2 : (if wrflag ≠ 0 then decide (wrflag > 1) else s.exclusive) = true := he
    by_cases hw : wrflag ≠ 0
    · rw [if_pos hw]; exact Option.some_ne_none p
    · rw [if_neg hw] at he2 ⊢
      exact i6 he2
  · exact absurd (show s.pending = true from he) (fun e => h2 (Or.inr e))
  · have hl2 : l ∈ (if s.inTrans p = TRANS_NONE ∧ s.sharable p = true then
        { pBtree := p, iTable := 1, eLock := READ_LOCK } :: s.pLock else s.pLock) := hl
    show l.pBtree < s.nHandle ∧ setAt s.inTrans p _ l.pBtree ≠ TRANS_NONE ∧
      (l.eLock = READ_LOCK ∨
        (l.eLock = WRITE_LOCK ∧ (if wrflag ≠ 0 then some p else s.pWriter) = some l.pBtree))
    have hmem : l ∈ s.pLock → l.pBtree < s.nHandle ∧
        setAt s.inTrans p (if wrflag ≠ 0 then TRANS_WRITE else TRANS_READ) l.pBtree ≠ TRANS_NONE ∧
        (l.eLock = READ_LOCK ∨
          (l.eLock = WRITE_LOCK ∧ (if wrflag ≠ 0 then some p else s.pWriter) = some l.pBtree)) := by
      intro hm
      obtain ⟨b1, b2, b3⟩ := i8 l hm
      refine ⟨b1, ?_, ?_⟩
      · by_cases e : l.pBtree = p
        · rw [e, setAt_same]; exact hv0
        · rw [hold _ e]; exact b2
      · rcases b3 with b | ⟨b, c⟩
        · exact Or.inl b
        · by_cases hw : wrflag ≠ 0
          · rw [hnow hw] at c; cases c
          · rw [if_neg hw]; exact Or.inr ⟨b, c⟩
    by_cases g : s.inTrans p = TRANS_NONE ∧ s.sharable p = true
    · rw [if_pos g] at hl2
      rcases List.mem_cons.mp hl2 with e | hm
      · rw [e]
        refine ⟨hp, ?_, Or.inl rfl⟩
        show setAt s.inTrans p _ p ≠ TRANS_NONE
        rw [setAt_same]; exact hv0
      · exact hmem hm
    · rw [if_neg g] at hl2
      exact hmem hl2
  · show (List.map (fun l : BtLock => (l.pBtree, l.iTable))
        (if s.inTrans p = TRANS_NONE ∧ s.sharable p = true then
          { pBtree := p, iTable := 1, eLock := READ_LOCK } :: s.pLock else s.pLock)).Nodup
    by_cases g : s.inTrans p = TRANS_NONE ∧ s.sharable p = true
    · rw [if_pos g, List.map_cons]
      refine List.nodup_cons.mpr ⟨?_, i9⟩
      intro hm
      obtain ⟨l, hl, e⟩ := List.mem_map.mp hm
      have e1 : l.pBtree = p := congrArg Prod.fst e
      have := (i8 l hl).2.1
      rw [e1] at this
      exact this g.1
    · rw [if_neg g]; exact i9
  · show s.readOnly = false
    have hn2 : (if wrflag ≠ 0 then some p else s.pWriter) ≠ none := hn
    by_cases hw : wrflag ≠ 0
    · exact hro hw
    · rw [if_neg hw] at hn2
      exact i11 hn2

theorem transBegun_state (env : BeginEnv) (wrflag : Nat) (r : Nat × BtTrans) :
    (transBegun env wrflag r).2 = r.2 := by
  unfold transBegun
  split_ifs <;> rfl

/-- `sqlite3BtreeBeginTrans` keeps the invariant, whatever it returns. -/
theorem TransInv_beginTrans (fuel : Nat) (s : BtTrans) (p wrflag : Nat) (env : BeginEnv)
    (r : Nat × BtTrans) (h : TransInv s) (hp : p < s.nHandle)
    (hrun : sqlite3BtreeBeginTrans fuel s p wrflag env = some r) : TransInv r.2 := by
  unfold sqlite3BtreeBeginTrans at hrun
  by_cases c1 : s.inTrans p = TRANS_WRITE ∨ (s.inTrans p = TRANS_READ ∧ wrflag = 0)
  · rw [if_pos c1] at hrun
    cases hrun
    rw [transBegun_state]; exact h
  rw [if_neg c1] at hrun
  by_cases c2 : s.readOnly = true ∧ wrflag ≠ 0
  · rw [if_pos c2] at hrun
    cases hrun
    rw [transBegun_state]; exact h
  rw [if_neg c2] at hrun
  by_cases c3 : (wrflag ≠ 0 ∧ s.inTransaction = TRANS_WRITE) ∨ s.pending = true
  · rw [if_pos c3] at hrun
    cases hw : s.pWriter with
    | none => rw [hw] at hrun; cases hrun
    | some q =>
      rw [hw] at hrun
      cases hrun
      rw [transBegun_state]; exact h
  rw [if_neg c3] at hrun
  by_cases c4 : wrflag > 1 ∧ (firstOtherLock p s.pLock).isSome = true
  · rw [if_pos c4] at hrun
    cases hrun
    rw [transBegun_state]; exact h
  rw [if_neg c4] at hrun
  by_cases c5 : (querySharedCacheTableLock s p MASTER_ROOT READ_LOCK).1 ≠ SQLITE_OK
  · rw [if_pos c5] at hrun
    cases hrun
    rw [transBegun_state, query_read_state]; exact h
  rw [if_neg c5, query_read_state] at hrun
  cases hl : beginLoop env wrflag fuel 0 0 s SQLITE_OK with
  | none => rw [hl] at hrun; cases hrun
  | some q =>
    obtain ⟨rc, s1⟩ := q
    rw [hl] at hrun
    have hinv1 : TransInv s1 := TransInv_beginLoop env wrflag fuel 0 0 s SQLITE_OK _ h hl (Or.inl rfl)
    obtain ⟨a1, _, a3⟩ := beginLoop_spec env wrflag fuel 0 0 s SQLITE_OK _ hl (Or.inl rfl)
    simp only [] at hrun a1 a3
    by_cases c6 : rc = SQLITE_OK
    · rw [if_pos c6] at hrun
      cases hrun
      rw [transBegun_state]
      have e1 : s1.inTrans = s.inTrans := by rw [a1]
      have e2 : s1.inTransaction = s.inTransaction := by rw [a1]
      have e3 : s1.pending = s.pending := by rw [a1]
      have e4 : s1.nHandle = s.nHandle := by rw [a1]
      exact TransInv_beginCommit env s1 p wrflag hinv1 (by rw [e4]; exact hp) (a3 c6).1 (a3 c6).2
        (by rw [e1]; exact c1) (by rw [e2, e3]; exact c3)
    · rw [if_neg c6] at hrun
      cases hrun
      rw [transBegun_state]; exact hinv1

theorem TransInv_step (s s1 : BtTrans) (h : TransInv s) (hs : TransStep s s1) : TransInv s1 := by
  cases hs with
  | beginTrans fuel p wrflag env r hp hrun => exact TransInv_beginTrans fuel s p wrflag env r h hp hrun
  | commitPhaseTwo p bCleanup rcPager cnt hp => exact TransInv_commitPhaseTwo s p bCleanup rcPager cnt h hp
  | rollback cursors p tripCode keyBuf rcPager cnt hp =>
    exact TransInv_rollback s cursors p tripCode keyBuf rcPager cnt h hp
  | lockTable p iTab isWriteLock allocOk hp ht hle hw =>
    exact TransInv_lockTable s p iTab isWriteLock allocOk h hp ht hle hw

/-- Every reachable transaction state satisfies the invariant. -/
theorem TransInv_reachable (s0 s : BtTrans) (h : TransReachable s0 s) : TransInv s := by
  obtain ⟨h0, hr⟩ := h
  induction hr with
  | refl => exact TransInv_idle s0 h0
  | tail _ hstep ih => exact TransInv_step _ _ ih hstep

end Btree

namespace Btree

theorem transBegun_rc (env : BeginEnv) (wrflag : Nat) (r : Nat × BtTrans)
    (h : (transBegun env wrflag r).1 = SQLITE_OK) : r.1 = SQLITE_OK := by
  unfold transBegun at h
  split_ifs at h with g
  · exact g.1
  · exact h

/-- A call of `sqlite3BtreeBeginTrans` that returns `SQLITE_OK` leaves the handle in a write
transaction for a write request and in a transaction otherwise, and never lowers it. -/
theorem beginTrans_success (fuel : Nat) (s : BtTrans) (p wrflag : Nat) (env : BeginEnv)
    (r : Nat × BtTrans) (hle : s.inTrans p ≤ TRANS_WRITE)
    (hrun : sqlite3BtreeBeginTrans fuel s p wrflag env = some r) (hok : r.1 = SQLITE_OK) :
    (wrflag ≠ 0 → r.2.inTrans p = TRANS_WRITE) ∧
    (wrflag = 0 → r.2.inTrans p = TRANS_READ ∨ r.2.inTrans p = TRANS_WRITE) ∧
    s.inTrans p ≤ r.2.inTrans p := by
  unfold sqlite3BtreeBeginTrans at hrun
  by_cases c1 : s.inTrans p = TRANS_WRITE ∨ (s.inTrans p = TRANS_READ ∧ wrflag = 0)
  · rw [if_pos c1] at hrun
    cases hrun
    rw [transBegun_state]
    refine ⟨fun hw => ?_, fun hw => ?_, le_refl _⟩
    · rcases c1 with c | ⟨_, c⟩
      · exact c
      · exact absurd c hw
    · rcases c1 with c | ⟨c, _⟩
      · exact Or.inr c
      · exact Or.inl c
  rw [if_neg c1] at hrun
  by_cases c2 : s.readOnly = true ∧ wrflag ≠ 0
  · rw [if_pos c2] at hrun
    cases hrun
    exact absurd (show SQLITE_READONLY = SQLITE_OK from transBegun_rc _ _ _ hok) (by decide)
  rw [if_neg c2] at hrun
  by_cases c3 : (wrflag ≠ 0 ∧ s.inTransaction = TRANS_WRITE) ∨ s.pending = true
  · rw [if_pos c3] at hrun
    cases hw : s.pWriter with
    | none => rw [hw] at hrun; cases hrun
    | some q =>
      rw [hw] at hrun
      cases hrun
      exact absurd (show SQLITE_LOCKED_SHAREDCACHE = SQLITE_OK from transBegun_rc _ _ _ hok)
        (by decide)
  rw [if_neg c3] at hrun
  by_cases c4 : wrflag > 1 ∧ (firstOtherLock p s.pLock).isSome = true
  · rw [if_pos c4] at hrun
    cases hrun
    exact absurd (show SQLITE_LOCKED_SHAREDCACHE = SQLITE_OK from transBegun_rc _ _ _ hok)
      (by decide)
  rw [if_neg c4] at hrun
  by_cases c5 : (querySharedCacheTableLock s p MASTER_ROOT READ_LOCK).1 ≠ SQLITE_OK
  · rw [if_pos c5] at hrun
    cases hrun
    exact absurd (transBegun_rc _ _ _ hok) c5
  rw [if_neg c5, query_read_state] at hrun
  cases hl : beginLoop env wrflag fuel 0 0 s SQLITE_OK with
  | none => rw [hl] at hrun; cases hrun
  | some q =>
    obtain ⟨rc, s1⟩ := q
    rw [hl] at hrun
    obtain ⟨a1, _, _⟩ := beginLoop_spec env wrflag fuel 0 0 s SQLITE_OK _ hl (Or.inl rfl)
    simp only [] at hrun a1
    by_cases c6 : rc = SQLITE_OK
    · rw [if_pos c6] at hrun
      cases hrun
      rw [transBegun_state, beginCommit_state]
      have e1 : s1.inTrans = s.inTrans := by rw [a1]
      show (wrflag ≠ 0 → setAt s1.inTrans p _ p = TRANS_WRITE) ∧
        (wrflag = 0 → setAt s1.inTrans p _ p = TRANS_READ ∨ setAt s1.inTrans p _ p = TRANS_WRITE) ∧
        s.inTrans p ≤ setAt s1.inTrans p _ p
      rw [setAt_same]
      refine ⟨fun hw => by rw [if_pos hw], fun hw => Or.inl (by rw [if_neg (not_not.mpr hw)]), ?_⟩
      by_cases hw : wrflag ≠ 0
      · rw [if_pos hw]; exact hle
      · rw [if_neg hw]
        have hw0 : wrflag = 0 := not_not.mp hw
        have h1 : s.inTrans p ≠ TRANS_WRITE := fun e => c1 (Or.inl e)
        have h2 : s.inTrans p ≠ TRANS_READ := fun e => c1 (Or.inr ⟨e, hw0⟩)
        unfold TRANS_WRITE at hle h1; unfold TRANS_READ at h2 ⊢
        omega
    · rw [if_neg c6] at hrun
      cases hrun
      exact absurd (transBegun_rc _ _ _ hok) c6

theorem exWriterReader_reachable : TransReachable exIdle exWriterReader :=
  ⟨by decide,
    Relation.ReflTransGen.tail
      (Relation.ReflTransGen.tail Relation.ReflTransGen.refl
        (TransStep.beginTrans exIdle 2 0 1 exEnv
          ((sqlite3BtreeBeginTrans 2 exIdle 0 1 exEnv).getD (SQLITE_OK, exIdle))
          (by decide) rfl))
      (TransStep.beginTrans _ 2 1 0 exEnv
        ((sqlite3BtreeBeginTrans 2
          ((sqlite3BtreeBeginTrans 2 exIdle 0 1 exEnv).getD (SQLITE_OK, exIdle)).2 1 0 exEnv).getD
          (SQLITE_OK, exIdle))
        (by decide) rfl)⟩

/-- C25: in every state reached from all-idle handles by calls of `sqlite3BtreeBeginTrans`,
`sqlite3BtreeCommitPhaseTwo` and `sqlite3BtreeRollback` (and `sqlite3BtreeLockTable`) on the
handles of one `BtShared`, whatever the calls return, every handle's `inTrans` is
`TRANS_NONE`, `TRANS_READ` or `TRANS_WRITE`; at most one handle is in `TRANS_WRITE`; the shared
`inTransaction` is the maximum of the handles' `inTrans`; `nTransaction` is the number of
handles whose `inTrans` is not `TRANS_NONE`; and a call of `sqlite3BtreeBeginTrans` that
returns `SQLITE_OK` leaves the handle in `TRANS_WRITE` if `wrflag` is non-zero and otherwise in
`TRANS_READ` or `TRANS_WRITE`, never lowering it. -/
theorem transaction_state_invariant (s0 s : BtTrans) (h : TransReachable s0 s) :
    (∀ p, p < s.nHandle →
      s.inTrans p = TRANS_NONE ∨ s.inTrans p = TRANS_READ ∨ s.inTrans p = TRANS_WRITE) ∧
    (∀ p q, p < s.nHandle → q < s.nHandle → s.inTrans p = TRANS_WRITE →
      s.inTrans q = TRANS_WRITE → p = q) ∧
    s.inTransaction = maxTrans s.inTrans s.nHandle ∧
    s.nTransaction = (nActive s.inTrans s.nHandle : Int) ∧
    (∀ (fuel p wrflag : Nat) (env : BeginEnv) (r : Nat × BtTrans), p < s.nHandle →
      sqlite3BtreeBeginTrans fuel s p wrflag env = some r → r.1 = SQLITE_OK →
      (wrflag ≠ 0 → r.2.inTrans p = TRANS_WRITE) ∧
      (wrflag = 0 → r.2.inTrans p = TRANS_READ ∨ r.2.inTrans p = TRANS_WRITE) ∧
      s.inTrans p ≤ r.2.inTrans p) := by
  obtain ⟨i1, i2, _, i4, i5, _⟩ := TransInv_reachable s0 s h
  refine ⟨fun p hp => ?_, fun p q hp hq e1 e2 => ?_, i4, i5, fun fuel p wrflag env r hp hrun hok =>
    beginTrans_success fuel s p wrflag env r (i1 p hp) hrun hok⟩
  · have := i1 p hp
    unfold TRANS_WRITE at this; unfold TRANS_NONE TRANS_READ TRANS_WRITE
    omega
  · have a := i2 p hp e1
    have b := i2 q hq e2
    rw [a] at b
    exact Option.some.inj b

/-- Witness for C25: handle 0 has begun a write transaction and handle 1 a read transaction
on a `BtShared` with three handles. -/
theorem transaction_state_invariant_witness :
    TransReachable exIdle exWriterReader ∧
    ((∀ p, p < exWriterReader.nHandle →
      exWriterReader.inTrans p = TRANS_NONE ∨ exWriterReader.inTrans p = TRANS_READ ∨
        exWriterReader.inTrans p = TRANS_WRITE) ∧
    (∀ p q, p < exWriterReader.nHandle → q < exWriterReader.nHandle →
      exWriterReader.inTrans p = TRANS_WRITE → exWriterReader.inTrans q = TRANS_WRITE → p = q) ∧
    exWriterReader.inTransaction = maxTrans exWriterReader.inTrans exWriterReader.nHandle ∧
    exWriterReader.nTransaction =
      (nActive exWriterReader.inTrans exWriterReader.nHandle : Int) ∧
    (∀ (fuel p wrflag : Nat) (env : BeginEnv) (r : Nat × BtTrans), p < exWriterReader.nHandle →
      sqlite3BtreeBeginTrans fuel exWriterReader p wrflag env = some r → r.1 = SQLITE_OK →
      (wrflag ≠ 0 → r.2.inTrans p = TRANS_WRITE) ∧
      (wrflag = 0 → r.2.inTrans p = TRANS_READ ∨ r.2.inTrans p = TRANS_WRITE) ∧
      exWriterReader.inTrans p ≤ r.2.inTrans p)) :=
  ⟨exWriterReader_reachable, transaction_state_invariant exIdle exWriterReader
    exWriterReader_reachable⟩

end Btree

namespace Btree

/-! ## The end of the writer's transaction -/

theorem unlock_fields (s : BtTrans) :
    (unlockBtreeIfUnused s).inTrans = s.inTrans ∧ (unlockBtreeIfUnused s).pLock = s.pLock ∧
    (unlockBtreeIfUnused s).pWriter = s.pWriter ∧ (unlockBtreeIfUnused s).pending = s.pending ∧
    (unlockBtreeIfUnused s).exclusive = s.exclusive := by
  rw [(unlock_spec s).1]
  exact ⟨rfl, rfl, rfl, rfl, rfl⟩

/-- When the writer's transaction ends, the writer is gone from the shared state with its
flags, and the handle is either left a reader with every lock downgraded (other statements
of the connection are active) or left without a transaction and without locks. -/
theorem endTransaction_writer (t : BtTrans) (p : Nat) (cnt : Int)
    (hw : t.inTrans p = TRANS_WRITE) (hwr : t.pWriter = some p) :
    (btreeEndTransaction t p cnt).pWriter = none ∧
    (btreeEndTransaction t p cnt).exclusive = false ∧
    (btreeEndTransaction t p cnt).pending = false ∧
    ((cnt > 1 ∧ (btreeEndTransaction t p cnt).inTrans p = TRANS_READ ∧
        (btreeEndTransaction t p cnt).pLock =
          t.pLock.map (fun l => { l with eLock := READ_LOCK })) ∨
     (¬ cnt > 1 ∧ (btreeEndTransaction t p cnt).inTrans p = TRANS_NONE ∧
        (btreeEndTransaction t p cnt).pLock = t.pLock.filter (fun l => l.pBtree ≠ p))) := by
  have hgt : t.inTrans p > TRANS_NONE := by rw [hw]; decide
  have hne : t.inTrans p ≠ TRANS_NONE := by rw [hw]; decide
  unfold btreeEndTransaction
  by_cases hc : cnt > 1
  · rw [if_pos ⟨hgt, hc⟩]
    unfold downgradeAllSharedCacheTableLocks
    rw [if_pos hwr]
    exact ⟨rfl, rfl, rfl, Or.inl ⟨hc, setAt_same _ _ _, rfl⟩⟩
  · rw [if_neg (fun h => hc h.2)]
    simp only [if_pos hne]
    obtain ⟨u1, u2, u3, u4, u5⟩ := unlock_fields
      { (if (clearAllSharedCacheTableLocks t p).nTransaction - 1 = 0 then
          { (clearAllSharedCacheTableLocks t p) with
            nTransaction := (clearAllSharedCacheTableLocks t p).nTransaction - 1
            inTransaction := TRANS_NONE }
        else
          { (clearAllSharedCacheTableLocks t p) with
            nTransaction := (clearAllSharedCacheTableLocks t p).nTransaction - 1 }) with
        inTrans := setAt (if (clearAllSharedCacheTableLocks t p).nTransaction - 1 = 0 then
          { (clearAllSharedCacheTableLocks t p) with
            nTransaction := (clearAllSharedCacheTableLocks t p).nTransaction - 1
            inTransaction := TRANS_NONE }
        else
          { (clearAllSharedCacheTableLocks t p) with
            nTransaction := (clearAllSharedCacheTableLocks t p).nTransaction - 1 }).inTrans p
            TRANS_NONE }
    have hcl : clearAllSharedCacheTableLocks t p =
        { t with pLock := t.pLock.filter (fun l => l.pBtree ≠ p), pWriter := none
                 exclusive := false, pending := false } := by
      unfold clearAllSharedCacheTableLocks
      simp only [if_pos hwr]
    refine ⟨?_, ?_, ?_, Or.inr ⟨hc, ?_, ?_⟩⟩
    · rw [u3]; split_ifs <;> rw [hcl]
    · rw [u5]; split_ifs <;> rw [hcl]
    · rw [u4]; split_ifs <;> rw [hcl]
    · rw [u1]; exact setAt_same _ _ _
    · rw [u2]; split_ifs <;> rw [hcl]

/-! ## Phase two of the commit -/

/-- C24 (amended): let the pager's phase-two commit return an error while handle `p` is the
writer.  Called with a non-zero `bCleanup`, `sqlite3BtreeCommitPhaseTwo` still ends the
in-memory transaction: it returns `SQLITE_OK`, the handle's `inTrans` is no longer
`TRANS_WRITE`, the `BtShared` has no writer, and the handle is either left without a
transaction and without table locks, or left a reader with every lock downgraded to a read
lock.  Called with `bCleanup = 0`, and so through `sqlite3BtreeCommit`, it returns the
pager's error and leaves the transaction as it is. -/
theorem sqlite3BtreeCommitPhaseTwo_error (s : BtTrans) (p : Nat) (bCleanup : Int)
    (rcOne rcPager : Nat) (cnt : Int) (hw : s.inTrans p = TRANS_WRITE)
    (hwr : s.pWriter = some p) (herr : rcPager ≠ SQLITE_OK) :
    (bCleanup ≠ 0 →
      (sqlite3BtreeCommitPhaseTwo s p bCleanup rcPager cnt).1 = SQLITE_OK ∧
      (sqlite3BtreeCommitPhaseTwo s p bCleanup rcPager cnt).2.inTrans p ≠ TRANS_WRITE ∧
      (sqlite3BtreeCommitPhaseTwo s p bCleanup rcPager cnt).2.pWriter = none ∧
      (((sqlite3BtreeCommitPhaseTwo s p bCleanup rcPager cnt).2.inTrans p = TRANS_NONE ∧
          ∀ l, l ∈ (sqlite3BtreeCommitPhaseTwo s p bCleanup rcPager cnt).2.pLock →
            l.pBtree ≠ p) ∨
        ((sqlite3BtreeCommitPhaseTwo s p bCleanup rcPager cnt).2.inTrans p = TRANS_READ ∧
          ∀ l, l ∈ (sqlite3BtreeCommitPhaseTwo s p bCleanup rcPager cnt).2.pLock →
            l.eLock = READ_LOCK))) ∧
    (bCleanup = 0 →
      sqlite3BtreeCommitPhaseTwo s p bCleanup rcPager cnt = (rcPager, s) ∧
      (rcOne = SQLITE_OK → sqlite3BtreeCommit s p rcOne rcPager cnt = (rcPager, s))) := by
  have hn : ¬ (s.inTrans p = TRANS_NONE) := by rw [hw]; decide
  constructor
  · intro hb
    have e : sqlite3BtreeCommitPhaseTwo s p bCleanup rcPager cnt =
        (SQLITE_OK, btreeEndTransaction { s with inTransaction := TRANS_READ } p cnt) := by
      unfold sqlite3BtreeCommitPhaseTwo
      rw [if_neg hn, if_pos hw, if_neg (fun h => hb h.2)]
    rw [e]
    obtain ⟨a1, _, _, a4⟩ := endTransaction_writer { s with inTransaction := TRANS_READ } p cnt
      hw hwr
    refine ⟨rfl, ?_, a1, ?_⟩
    · rcases a4 with ⟨_, b, _⟩ | ⟨_, b, _⟩
      · show (btreeEndTransaction _ p cnt).inTrans p ≠ TRANS_WRITE
        rw [b]; decide
      · show (btreeEndTransaction _ p cnt).inTrans p ≠ TRANS_WRITE
        rw [b]; decide
    · rcases a4 with ⟨_, b, c⟩ | ⟨_, b, c⟩
      · right
        refine ⟨b, fun l hl => ?_⟩
        have hl2 : l ∈ (btreeEndTransaction { s with inTransaction := TRANS_READ } p cnt).pLock :=
          hl
        rw [c] at hl2
        obtain ⟨l0, _, e0⟩ := List.mem_map.mp hl2
        rw [← e0]
      · left
        refine ⟨b, fun l hl => ?_⟩
        have hl2 : l ∈ (btreeEndTransaction { s with inTransaction := TRANS_READ } p cnt).pLock :=
          hl
        rw [c] at hl2
        exact of_decide_eq_true (List.mem_filter.mp hl2).2
  · intro hb
    have e : sqlite3BtreeCommitPhaseTwo s p bCleanup rcPager cnt = (rcPager, s) := by
      unfold sqlite3BtreeCommitPhaseTwo
      rw [if_neg hn, if_pos hw, if_pos ⟨herr, hb⟩]
    refine ⟨e, fun h1 => ?_⟩
    unfold sqlite3BtreeCommit sqlite3BtreeCommitPhaseOne
    rw [if_pos hw, if_pos h1, ← hb, e]

/-- Witness for C24: the writer of `exWriterLocked`, handle 0, holds a write lock on table
7; the pager fails with code 10. -/
theorem sqlite3BtreeCommitPhaseTwo_error_witness :
    (exWriterLocked.inTrans 0 = TRANS_WRITE ∧ exWriterLocked.pWriter = some 0 ∧
      (10 : Nat) ≠ SQLITE_OK) ∧
    (((1 : Int) ≠ 0 →
      (sqlite3BtreeCommitPhaseTwo exWriterLocked 0 1 10 1).1 = SQLITE_OK ∧
      (sqlite3BtreeCommitPhaseTwo exWriterLocked 0 1 10 1).2.inTrans 0 ≠ TRANS_WRITE ∧
      (sqlite3BtreeCommitPhaseTwo exWriterLocked 0 1 10 1).2.pWriter = none ∧
      (((sqlite3BtreeCommitPhaseTwo exWriterLocked 0 1 10 1).2.inTrans 0 = TRANS_NONE ∧
          ∀ l, l ∈ (sqlite3BtreeCommitPhaseTwo exWriterLocked 0 1 10 1).2.pLock →
            l.pBtree ≠ 0) ∨
        ((sqlite3BtreeCommitPhaseTwo exWriterLocked 0 1 10 1).2.inTrans 0 = TRANS_READ ∧
          ∀ l, l ∈ (sqlite3BtreeCommitPhaseTwo exWriterLocked 0 1 10 1).2.pLock →
            l.eLock = READ_LOCK))) ∧
    ((1 : Int) = 0 →
      sqlite3BtreeCommitPhaseTwo exWriterLocked 0 1 10 1 = (10, exWriterLocked) ∧
      (SQLITE_OK = SQLITE_OK →
        sqlite3BtreeCommit exWriterLocked 0 SQLITE_OK 10 1 = (10, exWriterLocked)))) :=
  ⟨⟨by decide, by decide, by decide⟩,
    sqlite3BtreeCommitPhaseTwo_error exWriterLocked 0 1 SQLITE_OK 10 1 (by decide) (by decide)
      (by decide)⟩

/-- Counterexample for C24 as stated: handle 0 is the writer of `exWriterLocked` and holds
a write lock on table 7.  The pager's phase-two commit fails with code 10.
`sqlite3BtreeCommitPhaseTwo` with `bCleanup = 0` and `sqlite3BtreeCommit` return 10, and on
return the handle is still in `TRANS_WRITE`, still the writer, and still holds the write
lock. -/
theorem sqlite3BtreeCommit_keeps_transaction_counterexample :
    exWriterLocked.inTrans 0 = TRANS_WRITE ∧
    (sqlite3BtreeCommitPhaseTwo exWriterLocked 0 0 10 1).1 = 10 ∧
    (sqlite3BtreeCommitPhaseTwo exWriterLocked 0 0 10 1).2.inTrans 0 = TRANS_WRITE ∧
    (sqlite3BtreeCommitPhaseTwo exWriterLocked 0 0 10 1).2.pWriter = some 0 ∧
    (sqlite3BtreeCommitPhaseTwo exWriterLocked 0 0 10 1).2.pLock.map
      (fun l => (l.pBtree, l.iTable, l.eLock)) = [(0, 7, 2), (1, 1, 1), (0, 1, 1)] ∧
    (sqlite3BtreeCommit exWriterLocked 0 SQLITE_OK 10 1).1 = 10 ∧
    (sqlite3BtreeCommit exWriterLocked 0 SQLITE_OK 10 1).2.inTrans 0 = TRANS_WRITE ∧
    (sqlite3BtreeCommit exWriterLocked 0 SQLITE_OK 10 1).2.pLock.map
      (fun l => (l.pBtree, l.iTable, l.eLock)) = [(0, 7, 2), (1, 1, 1), (0, 1, 1)] := by
  decide

end Btree

namespace Btree

/-! ## Granting and refusing table locks -/

theorem setLock_rc (s : BtTrans) (p iTable eLock : Nat) (allocOk : Bool) :
    (setSharedCacheTableLock s p iTable eLock allocOk).1 ≠ SQLITE_LOCKED_SHAREDCACHE ∧
    (allocOk = true → (setSharedCacheTableLock s p iTable eLock allocOk).1 = SQLITE_OK) := by
  unfold setSharedCacheTableLock
  split_ifs with h1 h2
  · exact ⟨fun e => absurd (show SQLITE_OK = SQLITE_LOCKED_SHAREDCACHE from e) (by decide),
      fun _ => rfl⟩
  · exact ⟨fun e => absurd (show SQLITE_NOMEM = SQLITE_LOCKED_SHAREDCACHE from e) (by decide),
      fun e => by rw [h2] at e; cases e⟩
  · exact ⟨fun e => absurd (show SQLITE_OK = SQLITE_LOCKED_SHAREDCACHE from e) (by decide),
      fun _ => rfl⟩

theorem query_refused_locks (s : BtTrans) (p iTab eLock : Nat) :
    (querySharedCacheTableLock s p iTab eLock).2.pLock = s.pLock := by
  rcases query_state s p iTab eLock with e | ⟨_, _, e⟩ <;> rw [e]

theorem lockTable_refused (s : BtTrans) (p iTab w : Nat) (allocOk : Bool)
    (hsh : s.sharable p = true)
    (h : (querySharedCacheTableLock s p iTab (READ_LOCK + w)).1 = SQLITE_LOCKED_SHAREDCACHE) :
    (sqlite3BtreeLockTable s p iTab w allocOk).1 = SQLITE_LOCKED_SHAREDCACHE ∧
    (sqlite3BtreeLockTable s p iTab w allocOk).2.pLock = s.pLock := by
  unfold sqlite3BtreeLockTable
  rw [if_pos hsh, if_neg (by rw [h]; decide)]
  exact ⟨h, query_refused_locks s p iTab _⟩

theorem query_conflict (s : BtTrans) (p iTab eLock : Nat) (hsh : s.sharable p = true)
    (h : ∃ l, l ∈ s.pLock ∧ l.pBtree ≠ p ∧ l.iTable = iTab ∧ l.eLock ≠ eLock) :
    (querySharedCacheTableLock s p iTab eLock).1 = SQLITE_LOCKED_SHAREDCACHE := by
  unfold querySharedCacheTableLock
  rw [if_neg (by rw [hsh]; decide)]
  by_cases h1 : s.pWriter ≠ some p ∧ s.exclusive = true
  · rw [if_pos h1]
  · rw [if_neg h1, if_pos ((lockConflict_iff _ _ _ _).mpr h)]

/-- What `sqlite3BtreeLockTable` does for a sharable handle `p` with an open transaction in a
reachable state. -/
theorem lockTable_spec (s0 s : BtTrans) (h : TransReachable s0 s) (p t : Nat) (allocOk : Bool)
    (hp : p < s.nHandle) (hsh : s.sharable p = true) (ht : s.inTrans p ≠ TRANS_NONE) :
    ((∀ l, l ∈ s.pLock → l.pBtree ≠ p → l.iTable = t → l.eLock = READ_LOCK) →
      (∀ q, q ≠ p → ¬ HoldsExclusive s q) →
      (sqlite3BtreeLockTable s p t 0 allocOk).1 ≠ SQLITE_LOCKED_SHAREDCACHE ∧
      (allocOk = true → (sqlite3BtreeLockTable s p t 0 allocOk).1 = SQLITE_OK)) ∧
    (s.pWriter = some p → s.inTrans p = TRANS_WRITE →
      (∃ l, l ∈ s.pLock ∧ l.pBtree ≠ p ∧ l.iTable = t) →
      (sqlite3BtreeLockTable s p t 1 allocOk).1 = SQLITE_LOCKED_SHAREDCACHE ∧
      (sqlite3BtreeLockTable s p t 1 allocOk).2.pLock = s.pLock) ∧
    ((∃ l, l ∈ s.pLock ∧ l.pBtree ≠ p ∧ l.iTable = t ∧ l.eLock = WRITE_LOCK) →
      (sqlite3BtreeLockTable s p t 0 allocOk).1 = SQLITE_LOCKED_SHAREDCACHE ∧
      (sqlite3BtreeLockTable s p t 0 allocOk).2.pLock = s.pLock) ∧
    (∀ w, w ≤ 1 → (w = 1 → s.pWriter = some p ∧ s.inTrans p = TRANS_WRITE) →
      (sqlite3BtreeLockTable s p t w allocOk).1 = SQLITE_OK →
      (∀ l, l ∈ s.pLock → ∃ l1, l1 ∈ (sqlite3BtreeLockTable s p t w allocOk).2.pLock ∧
        l1.pBtree = l.pBtree ∧ l1.iTable = l.iTable ∧ l.eLock ≤ l1.eLock) ∧
      (∃ l1, l1 ∈ (sqlite3BtreeLockTable s p t w allocOk).2.pLock ∧ l1.pBtree = p ∧
        l1.iTable = t ∧ READ_LOCK + w ≤ l1.eLock) ∧
      ((sqlite3BtreeLockTable s p t w allocOk).2.pLock.map
        (fun l => (l.pBtree, l.iTable))).Nodup) := by
  have hinv := TransInv_reachable s0 s h
  obtain ⟨i1, i2, i3, i4, i5, i6, i7, i8, i9, i10, i11⟩ := hinv
  refine ⟨fun hread hex => ?_, fun hw _ hother => ?_, fun hwl => ?_, fun w hw1 hww hok => ?_⟩
  · -- a read request that meets read locks only
    have hq : querySharedCacheTableLock s p t (READ_LOCK + 0) = (SQLITE_OK, s) := by
      unfold querySharedCacheTableLock
      rw [if_neg (by rw [hsh]; decide)]
      have c1 : ¬ (s.pWriter ≠ some p ∧ s.exclusive = true) := by
        rintro ⟨a, b⟩
        cases hq : s.pWriter with
        | none => exact i6 b hq
        | some q =>
          have hqp : q ≠ p := fun e => a (by rw [hq, e])
          exact hex q hqp ⟨hq, b⟩
      rw [if_neg c1]
      have c2 : ¬ (lockConflict p t (READ_LOCK + 0) s.pLock = true) := by
        rw [lockConflict_iff]
        rintro ⟨l, hl, a, b, c⟩
        exact c (hread l hl a b)
      rw [if_neg c2]
    unfold sqlite3BtreeLockTable
    rw [if_pos hsh, hq]
    simp only [if_true]
    exact setLock_rc s p t _ allocOk
  · -- a write request of the writer while another handle holds a lock on the table
    obtain ⟨l, hl, a, b⟩ := hother
    refine lockTable_refused s p t 1 allocOk hsh (query_conflict s p t _ hsh ⟨l, hl, a, b, ?_⟩)
    rcases (i8 l hl).2.2 with e | ⟨_, e⟩
    · rw [e]; decide
    · rw [hw] at e
      exact absurd (Option.some.inj e).symm a
  · -- a read request while another handle holds a write lock on the table
    obtain ⟨l, hl, a, b, c⟩ := hwl
    exact lockTable_refused s p t 0 allocOk hsh
      (query_conflict s p t _ hsh ⟨l, hl, a, b, by rw [c]; decide⟩)
  · -- a granted request
    have hinv2 := TransInv_lockTable s p t w allocOk
      ⟨i1, i2, i3, i4, i5, i6, i7, i8, i9, i10, i11⟩ hp ht hw1 hww
    have hnodup := hinv2.2.2.2.2.2.2.2.2.1
    refine ⟨?_, ?_, hnodup⟩
    · intro l hl
      unfold sqlite3BtreeLockTable at hok ⊢
      rw [if_pos hsh] at hok ⊢
      by_cases hq : (querySharedCacheTableLock s p t (READ_LOCK + w)).1 = SQLITE_OK
      · rw [if_pos hq]
        have hl2 : l ∈ (querySharedCacheTableLock s p t (READ_LOCK + w)).2.pLock := by
          rw [query_refused_locks]; exact hl
        generalize (querySharedCacheTableLock s p t (READ_LOCK + w)).2 = s1 at hl2 ⊢
        unfold setSharedCacheTableLock
        split_ifs with g1 g2
        · exact raiseLock_ge p t _ _ l hl2
        · exact ⟨l, hl2, rfl, rfl, le_refl _⟩
        · exact raiseLock_ge p t _ _ l (List.mem_cons_of_mem _ hl2)
      · rw [if_neg hq] at hok
        exact absurd hok hq
    · unfold sqlite3BtreeLockTable at hok ⊢
      rw [if_pos hsh] at hok ⊢
      by_cases hq : (querySharedCacheTableLock s p t (READ_LOCK + w)).1 = SQLITE_OK
      · rw [if_pos hq] at hok ⊢
        generalize (querySharedCacheTableLock s p t (READ_LOCK + w)).2 = s1 at hok ⊢
        unfold setSharedCacheTableLock at hok ⊢
        split_ifs at hok ⊢ with g1 g2
        · exact raiseLock_granted p t _ _ g1
        · exact absurd (show SQLITE_NOMEM = SQLITE_OK from hok) (by decide)
        · exact raiseLock_granted p t _ _ (by unfold hasLock; rw [if_pos ⟨rfl, rfl⟩])
      · rw [if_neg hq] at hok
        exact absurd hok hq

end Btree

namespace Btree

theorem exReaderLocked_reachable : TransReachable exIdle exReaderLocked :=
  ⟨by decide,
    Relation.ReflTransGen.tail exWriterReader_reachable.2
      (TransStep.lockTable exWriterReader 1 5 0 true (by decide) (by decide) (by decide)
        (fun e => absurd e (by decide)))⟩

theorem exPending_reachable : TransReachable exIdle exPending :=
  ⟨by decide,
    Relation.ReflTransGen.tail exReaderLocked_reachable.2
      (TransStep.lockTable exReaderLocked 0 5 1 true (by decide) (by decide) (by decide)
        (fun _ => ⟨by decide, by decide⟩))⟩

/-- C26: in every reachable state of the shared-cache locks, for a sharable handle `p` with
an open transaction (as `sqlite3BtreeLockTable` asserts): a read request on table `t` is not
refused when the locks that other handles hold on `t` are all read locks and no other handle
holds an exclusive transaction (it returns `SQLITE_OK` unless the allocation of the lock entry
fails); a write request, made by the writer as the code asserts, returns
`SQLITE_LOCKED_SHAREDCACHE` and leaves the lock list as it is whenever some other handle holds
any lock on `t`; a read request returns `SQLITE_LOCKED_SHAREDCACHE` and leaves the lock list
as it is whenever another handle holds a write lock on `t`; and after a granted request every
lock entry that existed before has an entry for the same handle and table that is at least as
strong, the handle holds the requested lock, and there is at most one entry per handle and
table. -/
theorem sqlite3BtreeLockTable_rules (s0 s : BtTrans) (h : TransReachable s0 s) (p t : Nat)
    (allocOk : Bool) (hp : p < s.nHandle) (hsh : s.sharable p = true)
    (ht : s.inTrans p ≠ TRANS_NONE) :
    ((∀ l, l ∈ s.pLock → l.pBtree ≠ p → l.iTable = t → l.eLock = READ_LOCK) →
      (∀ q, q ≠ p → ¬ HoldsExclusive s q) →
      (sqlite3BtreeLockTable s p t 0 allocOk).1 ≠ SQLITE_LOCKED_SHAREDCACHE ∧
      (allocOk = true → (sqlite3BtreeLockTable s p t 0 allocOk).1 = SQLITE_OK)) ∧
    (s.pWriter = some p → s.inTrans p = TRANS_WRITE →
      (∃ l, l ∈ s.pLock ∧ l.pBtree ≠ p ∧ l.iTable = t) →
      (sqlite3BtreeLockTable s p t 1 allocOk).1 = SQLITE_LOCKED_SHAREDCACHE ∧
      (sqlite3BtreeLockTable s p t 1 allocOk).2.pLock = s.pLock) ∧
    ((∃ l, l ∈ s.pLock ∧ l.pBtree ≠ p ∧ l.iTable = t ∧ l.eLock = WRITE_LOCK) →
      (sqlite3BtreeLockTable s p t 0 allocOk).1 = SQLITE_LOCKED_SHAREDCACHE ∧
      (sqlite3BtreeLockTable s p t 0 allocOk).2.pLock = s.pLock) ∧
    (∀ w, w ≤ 1 → (w = 1 → s.pWriter = some p ∧ s.inTrans p = TRANS_WRITE) →
      (sqlite3BtreeLockTable s p t w allocOk).1 = SQLITE_OK →
      (∀ l, l ∈ s.pLock → ∃ l1, l1 ∈ (sqlite3BtreeLockTable s p t w allocOk).2.pLock ∧
        l1.pBtree = l.pBtree ∧ l1.iTable = l.iTable ∧ l.eLock ≤ l1.eLock) ∧
      (∃ l1, l1 ∈ (sqlite3BtreeLockTable s p t w allocOk).2.pLock ∧ l1.pBtree = p ∧
        l1.iTable = t ∧ READ_LOCK + w ≤ l1.eLock) ∧
      ((sqlite3BtreeLockTable s p t w allocOk).2.pLock.map
        (fun l => (l.pBtree, l.iTable))).Nodup) :=
  lockTable_spec s0 s h p t allocOk hp hsh ht

/-- Witness for C26: in `exReaderLocked` handle 0 is the writer and handle 1 a reader with a
read lock on table 5; the requests are those of handle 0 on table 5. -/
theorem sqlite3BtreeLockTable_rules_witness :
    (TransReachable exIdle exReaderLocked ∧ 0 < exReaderLocked.nHandle ∧
      exReaderLocked.sharable 0 = true ∧ exReaderLocked.inTrans 0 ≠ TRANS_NONE) ∧
    ((sqlite3BtreeLockTable exReaderLocked 0 5 0 true).1 = SQLITE_OK ∧
      (sqlite3BtreeLockTable exReaderLocked 0 5 1 true).1 = SQLITE_LOCKED_SHAREDCACHE) ∧
    (((∀ l, l ∈ exReaderLocked.pLock → l.pBtree ≠ 0 → l.iTable = 5 → l.eLock = READ_LOCK) →
      (∀ q, q ≠ 0 → ¬ HoldsExclusive exReaderLocked q) →
      (sqlite3BtreeLockTable exReaderLocked 0 5 0 true).1 ≠ SQLITE_LOCKED_SHAREDCACHE ∧
      (true = true → (sqlite3BtreeLockTable exReaderLocked 0 5 0 true).1 = SQLITE_OK)) ∧
    (exReaderLocked.pWriter = some 0 → exReaderLocked.inTrans 0 = TRANS_WRITE →
      (∃ l, l ∈ exReaderLocked.pLock ∧ l.pBtree ≠ 0 ∧ l.iTable = 5) →
      (sqlite3BtreeLockTable exReaderLocked 0 5 1 true).1 = SQLITE_LOCKED_SHAREDCACHE ∧
      (sqlite3BtreeLockTable exReaderLocked 0 5 1 true).2.pLock = exReaderLocked.pLock) ∧
    ((∃ l, l ∈ exReaderLocked.pLock ∧ l.pBtree ≠ 0 ∧ l.iTable = 5 ∧ l.eLock = WRITE_LOCK) →
      (sqlite3BtreeLockTable exReaderLocked 0 5 0 true).1 = SQLITE_LOCKED_SHAREDCACHE ∧
      (sqlite3BtreeLockTable exReaderLocked 0 5 0 true).2.pLock = exReaderLocked.pLock) ∧
    (∀ w, w ≤ 1 → (w = 1 → exReaderLocked.pWriter = some 0 ∧
        exReaderLocked.inTrans 0 = TRANS_WRITE) →
      (sqlite3BtreeLockTable exReaderLocked 0 5 w true).1 = SQLITE_OK →
      (∀ l, l ∈ exReaderLocked.pLock →
        ∃ l1, l1 ∈ (sqlite3BtreeLockTable exReaderLocked 0 5 w true).2.pLock ∧
        l1.pBtree = l.pBtree ∧ l1.iTable = l.iTable ∧ l.eLock ≤ l1.eLock) ∧
      (∃ l1, l1 ∈ (sqlite3BtreeLockTable exReaderLocked 0 5 w true).2.pLock ∧ l1.pBtree = 0 ∧
        l1.iTable = 5 ∧ READ_LOCK + w ≤ l1.eLock) ∧
      ((sqlite3BtreeLockTable exReaderLocked 0 5 w true).2.pLock.map
        (fun l => (l.pBtree, l.iTable))).Nodup)) :=
  ⟨⟨exReaderLocked_reachable, by decide, by decide, by decide⟩, ⟨by decide, by decide⟩,
    sqlite3BtreeLockTable_rules exIdle exReaderLocked exReaderLocked_reachable 0 5 true
      (by decide) (by decide) (by decide)⟩

/-! ## The pending flag -/

theorem endTransaction_pending (t : BtTrans) (p : Nat) (cnt : Int)
    (h : (btreeEndTransaction t p cnt).pending = true) : t.pending = true := by
  unfold btreeEndTransaction at h
  by_cases hdg : t.inTrans p > TRANS_NONE ∧ cnt > 1
  · rw [if_pos hdg] at h
    unfold downgradeAllSharedCacheTableLocks at h
    split_ifs at h with g
    all_goals exact h
  · rw [if_neg hdg] at h
    rw [(unlock_fields _).2.2.2.1] at h
    by_cases hn : t.inTrans p ≠ TRANS_NONE
    · simp only [if_pos hn] at h
      unfold clearAllSharedCacheTableLocks at h
      simp only [] at h
      split_ifs at h
      all_goals exact h
    · simp only [if_neg hn] at h
      exact h

theorem beginTrans_pending (fuel : Nat) (s : BtTrans) (p wrflag : Nat) (env : BeginEnv)
    (r : Nat × BtTrans) (hrun : sqlite3BtreeBeginTrans fuel s p wrflag env = some r) :
    r.2.pending = s.pending := by
  unfold sqlite3BtreeBeginTrans at hrun
  by_cases c1 : s.inTrans p = TRANS_WRITE ∨ (s.inTrans p = TRANS_READ ∧ wrflag = 0)
  · rw [if_pos c1] at hrun
    cases hrun
    rw [transBegun_state]
  rw [if_neg c1] at hrun
  by_cases c2 : s.readOnly = true ∧ wrflag ≠ 0
  · rw [if_pos c2] at hrun
    cases hrun
    rw [transBegun_state]
  rw [if_neg c2] at hrun
  by_cases c3 : (wrflag ≠ 0 ∧ s.inTransaction = TRANS_WRITE) ∨ s.pending = true
  · rw [if_pos c3] at hrun
    cases hw : s.pWriter with
    | none => rw [hw] at hrun; cases hrun
    | some q =>
      rw [hw] at hrun
      cases hrun
      rw [transBegun_state]
  rw [if_neg c3] at hrun
  by_cases c4 : wrflag > 1 ∧ (firstOtherLock p s.pLock).isSome = true
  · rw [if_pos c4] at hrun
    cases hrun
    rw [transBegun_state]
  rw [if_neg c4] at hrun
  by_cases c5 : (querySharedCacheTableLock s p MASTER_ROOT READ_LOCK).1 ≠ SQLITE_OK
  · rw [if_pos c5] at hrun
    cases hrun
    rw [transBegun_state, query_read_state]
  rw [if_neg c5, query_read_state] at hrun
  cases hl : beginLoop env wrflag fuel 0 0 s SQLITE_OK with
  | none => rw [hl] at hrun; cases hrun
  | some q =>
    obtain ⟨rc, s1⟩ := q
    rw [hl] at hrun
    obtain ⟨a1, _, _⟩ := beginLoop_spec env wrflag fuel 0 0 s SQLITE_OK _ hl (Or.inl rfl)
    simp only [] at hrun a1
    have e3 : s1.pending = s.pending := by rw [a1]
    by_cases c6 : rc = SQLITE_OK
    · rw [if_pos c6] at hrun
      cases hrun
      rw [transBegun_state, beginCommit_state]
      exact e3
    · rw [if_neg c6] at hrun
      cases hrun
      rw [transBegun_state]
      exact e3

theorem setLock_pending (s : BtTrans) (p iTable eLock : Nat) (allocOk : Bool) :
    (setSharedCacheTableLock s p iTable eLock allocOk).2.pending = s.pending := by
  unfold setSharedCacheTableLock
  split_ifs <;> rfl

/-- The life of `BTS_PENDING` in a reachable state. -/
theorem pending_spec (s0 s : BtTrans) (h : TransReachable s0 s) :
    (∀ p t, s.sharable p = true → s.pWriter = some p →
      ((querySharedCacheTableLock s p t WRITE_LOCK).1 = SQLITE_LOCKED_SHAREDCACHE ↔
        ∃ l, l ∈ s.pLock ∧ l.pBtree ≠ p ∧ l.iTable = t) ∧
      ((querySharedCacheTableLock s p t WRITE_LOCK).1 = SQLITE_LOCKED_SHAREDCACHE →
        (querySharedCacheTableLock s p t WRITE_LOCK).2 = { s with pending := true }) ∧
      ((querySharedCacheTableLock s p t WRITE_LOCK).1 ≠ SQLITE_LOCKED_SHAREDCACHE →
        (querySharedCacheTableLock s p t WRITE_LOCK).2 = s)) ∧
    (∀ p t, (querySharedCacheTableLock s p t READ_LOCK).2 = s) ∧
    (∀ p t e allocOk, (setSharedCacheTableLock s p t e allocOk).2.pending = s.pending) ∧
    (∀ fuel p w env r, sqlite3BtreeBeginTrans fuel s p w env = some r →
      r.2.pending = s.pending) ∧
    (∀ p b rc cnt, (sqlite3BtreeCommitPhaseTwo s p b rc cnt).2.pending = true →
      s.pending = true) ∧
    (∀ cursors p trip keyBuf rc cnt,
      (sqlite3BtreeRollback s cursors p trip keyBuf rc cnt).2.1.pending = true →
      s.pending = true) ∧
    (s.pending = true → ∀ fuel p w env, p < s.nHandle → s.inTrans p = TRANS_NONE →
      sqlite3BtreeBeginTrans fuel s p w env = some (SQLITE_LOCKED_SHAREDCACHE, s) ∧
      ∀ l, l ∈ s.pLock → l.pBtree ≠ p) ∧
    (∀ p, s.pWriter = some p →
      (∀ cursors trip keyBuf rc cnt,
        (sqlite3BtreeRollback s cursors p trip keyBuf rc cnt).2.1.pending = false) ∧
      (∀ (b : Int) (rc : Nat) (cnt : Int), rc = SQLITE_OK ∨ b ≠ 0 →
        (sqlite3BtreeCommitPhaseTwo s p b rc cnt).2.pending = false)) := by
  obtain ⟨i1, i2, i3, i4, i5, i6, i7, i8, i9, i10, i11⟩ := TransInv_reachable s0 s h
  refine ⟨fun p t hsh hw => ?_, fun p t => query_read_state s p t,
    fun p t e allocOk => setLock_pending s p t e allocOk,
    fun fuel p w env r hrun => beginTrans_pending fuel s p w env r hrun,
    fun p b rc cnt hpd => ?_, fun cursors p trip keyBuf rc cnt hpd => ?_,
    fun hpend fuel p w env hp hnone => ?_, fun p hw => ?_⟩
  · have hc : lockConflict p t WRITE_LOCK s.pLock = true ↔
        ∃ l, l ∈ s.pLock ∧ l.pBtree ≠ p ∧ l.iTable = t := by
      rw [lockConflict_iff]
      constructor
      · rintro ⟨l, hl, a, b, _⟩
        exact ⟨l, hl, a, b⟩
      · rintro ⟨l, hl, a, b⟩
        refine ⟨l, hl, a, b, ?_⟩
        rcases (i8 l hl).2.2 with e | ⟨_, e⟩
        · rw [e]; decide
        · rw [hw] at e
          exact absurd (Option.some.inj e).symm a
    have hq : querySharedCacheTableLock s p t WRITE_LOCK =
        if lockConflict p t WRITE_LOCK s.pLock = true then
          (SQLITE_LOCKED_SHAREDCACHE, { s with pending := true })
        else (SQLITE_OK, s) := by
      unfold querySharedCacheTableLock
      rw [if_neg (by rw [hsh]; decide), if_neg (fun c => c.1 hw)]
      simp only [if_true]
    rw [hq]
    by_cases c : lockConflict p t WRITE_LOCK s.pLock = true
    · rw [if_pos c]
      exact ⟨⟨fun _ => hc.mp c, fun _ => rfl⟩, fun _ => rfl, fun e => absurd rfl e⟩
    · rw [if_neg c]
      refine ⟨⟨fun e => ?_, fun e => absurd (hc.mpr e) c⟩, fun e => ?_, fun _ => rfl⟩
      · exact absurd (show SQLITE_OK = SQLITE_LOCKED_SHAREDCACHE from e) (by decide)
      · exact absurd (show SQLITE_OK = SQLITE_LOCKED_SHAREDCACHE from e) (by decide)
  · unfold sqlite3BtreeCommitPhaseTwo at hpd
    by_cases h0 : s.inTrans p = TRANS_NONE
    · rw [if_pos h0] at hpd; exact hpd
    · rw [if_neg h0] at hpd
      by_cases h1 : s.inTrans p = TRANS_WRITE
      · rw [if_pos h1] at hpd
        by_cases h2 : rc ≠ SQLITE_OK ∧ b = 0
        · rw [if_pos h2] at hpd; exact hpd
        · rw [if_neg h2] at hpd
          exact endTransaction_pending { s with inTransaction := TRANS_READ } p cnt hpd
      · rw [if_neg h1] at hpd
        exact endTransaction_pending s p cnt hpd
  · unfold sqlite3BtreeRollback at hpd
    by_cases h1 : s.inTrans p = TRANS_WRITE
    · simp only [if_pos h1] at hpd
      exact endTransaction_pending { s with inTransaction := TRANS_READ } p cnt hpd
    · simp only [if_neg h1] at hpd
      exact endTransaction_pending s p cnt hpd
  · have hwn := i7 hpend
    constructor
    · cases hq : s.pWriter with
      | none => exact absurd hq hwn
      | some q =>
        unfold sqlite3BtreeBeginTrans
        have c1 : ¬ (s.inTrans p = TRANS_WRITE ∨ (s.inTrans p = TRANS_READ ∧ w = 0)) := by
          rw [hnone]
          rintro (c | ⟨c, _⟩) <;> exact absurd c (by decide)
        rw [if_neg c1, if_neg (fun c => by
          have := i11 hwn
          rw [this] at c
          exact absurd c.1 (by decide)), if_pos (Or.inr hpend), hq]
        unfold transBegun
        rw [if_neg (fun c =>
          absurd (show SQLITE_LOCKED_SHAREDCACHE = SQLITE_OK from c.1) (by decide))]
    · intro l hl e
      have := (i8 l hl).2.1
      rw [e] at this
      exact this hnone
  · have hwr := (i3 p hw).2
    constructor
    · intro cursors trip keyBuf rc cnt
      unfold sqlite3BtreeRollback
      simp only [if_pos hwr]
      exact (endTransaction_writer { s with inTransaction := TRANS_READ } p cnt hwr hw).2.2.1
    · intro b rc cnt hb
      have hn : ¬ (s.inTrans p = TRANS_NONE) := by rw [hwr]; decide
      unfold sqlite3BtreeCommitPhaseTwo
      rw [if_neg hn, if_pos hwr, if_neg (fun c => by
        rcases hb with e | e
        · exact c.1 e
        · exact e c.2)]
      exact (endTransaction_writer { s with inTransaction := TRANS_READ } p cnt hwr hw).2.2.1

/-- C27: in a reachable state.  `BTS_PENDING` becomes set exactly when
`querySharedCacheTableLock` refuses a request for a write lock, made by the writer as the code
asserts, because another handle holds a lock on the table: such a request is refused exactly
when there is such a lock, a refusal sets the flag, a grant leaves the state as it is, and
neither a request for a read lock nor `setSharedCacheTableLock`, `sqlite3BtreeBeginTrans`,
`sqlite3BtreeCommitPhaseTwo` or `sqlite3BtreeRollback` ever sets it.  While the flag is set,
every `sqlite3BtreeBeginTrans` of a handle without a transaction returns
`SQLITE_LOCKED_SHAREDCACHE` and leaves the state as it is, the handle without a transaction
and without a lock entry.  The flag is cleared when the writer's transaction ends, by
`sqlite3BtreeRollback` or by a `sqlite3BtreeCommitPhaseTwo` that does not stop at a pager
error. -/
theorem pending_flag_life (s0 s : BtTrans) (h : TransReachable s0 s) :
    (∀ p t, s.sharable p = true → s.pWriter = some p →
      ((querySharedCacheTableLock s p t WRITE_LOCK).1 = SQLITE_LOCKED_SHAREDCACHE ↔
        ∃ l, l ∈ s.pLock ∧ l.pBtree ≠ p ∧ l.iTable = t) ∧
      ((querySharedCacheTableLock s p t WRITE_LOCK).1 = SQLITE_LOCKED_SHAREDCACHE →
        (querySharedCacheTableLock s p t WRITE_LOCK).2 = { s with pending := true }) ∧
      ((querySharedCacheTableLock s p t WRITE_LOCK).1 ≠ SQLITE_LOCKED_SHAREDCACHE →
        (querySharedCacheTableLock s p t WRITE_LOCK).2 = s)) ∧
    (∀ p t, (querySharedCacheTableLock s p t READ_LOCK).2 = s) ∧
    (∀ p t e allocOk, (setSharedCacheTableLock s p t e allocOk).2.pending = s.pending) ∧
    (∀ fuel p w env r, sqlite3BtreeBeginTrans fuel s p w env = some r →
      r.2.pending = s.pending) ∧
    (∀ p b rc cnt, (sqlite3BtreeCommitPhaseTwo s p b rc cnt).2.pending = true →
      s.pending = true) ∧
    (∀ cursors p trip keyBuf rc cnt,
      (sqlite3BtreeRollback s cursors p trip keyBuf rc cnt).2.1.pending = true →
      s.pending = true) ∧
    (s.pending = true → ∀ fuel p w env, p < s.nHandle → s.inTrans p = TRANS_NONE →
      sqlite3BtreeBeginTrans fuel s p w env = some (SQLITE_LOCKED_SHAREDCACHE, s) ∧
      ∀ l, l ∈ s.pLock → l.pBtree ≠ p) ∧
    (∀ p, s.pWriter = some p →
      (∀ cursors trip keyBuf rc cnt,
        (sqlite3BtreeRollback s cursors p trip keyBuf rc cnt).2.1.pending = false) ∧
      (∀ (b : Int) (rc : Nat) (cnt : Int), rc = SQLITE_OK ∨ b ≠ 0 →
        (sqlite3BtreeCommitPhaseTwo s p b rc cnt).2.pending = false)) :=
  pending_spec s0 s h

/-- Witness for C27: in `exPending` the writer, handle 0, has been refused the write lock on
table 5, on which handle 1 holds a read lock; handle 2 has no transaction. -/
theorem pending_flag_life_witness :
    TransReachable exIdle exPending ∧
    (exPending.pending = true ∧ exReaderLocked.pending = false ∧
      sqlite3BtreeBeginTrans 2 exPending 2 0 exEnv =
        some (SQLITE_LOCKED_SHAREDCACHE, exPending) ∧
      (sqlite3BtreeRollback exPending [] 0 0 (fun _ => none) SQLITE_OK 1).2.1.pending = false) ∧
        (∀ p t, exPending.sharable p = true → exPending.pWriter = some p →
      ((querySharedCacheTableLock exPending p t WRITE_LOCK).1 = SQLITE_LOCKED_SHAREDCACHE ↔
        ∃ l, l ∈ exPending.pLock ∧ l.pBtree ≠ p ∧ l.iTable = t) ∧
      ((querySharedCacheTableLock exPending p t WRITE_LOCK).1 = SQLITE_LOCKED_SHAREDCACHE →
        (querySharedCacheTableLock exPending p t WRITE_LOCK).2 = { exPending with pending := true }) ∧
      ((querySharedCacheTableLock exPending p t WRITE_LOCK).1 ≠ SQLITE_LOCKED_SHAREDCACHE →
        (querySharedCacheTableLock exPending p t WRITE_LOCK).2 = exPending)) ∧
    (∀ p t, (querySharedCacheTableLock exPending p t READ_LOCK).2 = exPending) ∧
    (∀ p t e allocOk, (setSharedCacheTableLock exPending p t e allocOk).2.pending = exPending.pending) ∧
    (∀ fuel p w env r, sqlite3BtreeBeginTrans fuel exPending p w env = some r →
      r.2.pending = exPending.pending) ∧
    (∀ p b rc cnt, (sqlite3BtreeCommitPhaseTwo exPending p b rc cnt).2.pending = true →
      exPending.pending = true) ∧
    (∀ cursors p trip keyBuf rc cnt,
      (sqlite3BtreeRollback exPending cursors p trip keyBuf rc cnt).2.1.pending = true →
      exPending.pending = true) ∧
    (exPending.pending = true → ∀ fuel p w env, p < exPending.nHandle → exPending.inTrans p = TRANS_NONE →
      sqlite3BtreeBeginTrans fuel exPending p w env = some (SQLITE_LOCKED_SHAREDCACHE, exPending) ∧
      ∀ l, l ∈ exPending.pLock → l.pBtree ≠ p) ∧
    (∀ p, exPending.pWriter = some p →
      (∀ cursors trip keyBuf rc cnt,
        (sqlite3BtreeRollback exPending cursors p trip keyBuf rc cnt).2.1.pending = false) ∧
      (∀ (b : Int) (rc : Nat) (cnt : Int), rc = SQLITE_OK ∨ b ≠ 0 →
        (sqlite3BtreeCommitPhaseTwo exPending p b rc cnt).2.pending = false)):=
  ⟨exPending_reachable,
    ⟨by decide, by decide,
      ((pending_flag_life exIdle exPending exPending_reachable).2.2.2.2.2.2.1 (by decide)
        2 2 0 exEnv (by decide) (by decide)).1,
      by decide⟩,
    pending_flag_life exIdle exPending exPending_reachable⟩

end Btree

namespace Btree

/-! ## Cursors in the fault state -/

theorem restore_fault (fuel : Nat) (store : PageStore) (c : BtCursor)
    (idxCmp : MemPage → Nat → Nat × Int) (allocOk : Bool) (E : Nat)
    (hf : c.eState = CURSOR_FAULT) (he : c.skipNext = (E : Int)) :
    restoreCursorPosition fuel store c idxCmp allocOk = some (E, c) := by
  unfold restoreCursorPosition btreeRestoreCursorPosition
  rw [if_pos (by rw [hf]; decide), if_pos hf, he]
  rfl

theorem moveToRoot_fault (fuel : Nat) (store : PageStore) (c : BtCursor) (E : Nat)
    (hf : c.eState = CURSOR_FAULT) (he : c.skipNext = (E : Int)) :
    moveToRoot fuel store c = some (E, c) := by
  unfold moveToRoot
  rw [if_pos ⟨by rw [hf]; decide, hf⟩, he]
  rfl

/-- What the cursor operations do with a cursor in the fault state that holds the error
code `E`. -/
theorem fault_cursor_spec (store : PageStore) (c : BtCursor) (E : Nat)
    (idxCmp : MemPage → Nat → Nat × Int) (allocOk : Bool)
    (hf : c.eState = CURSOR_FAULT) (he : c.skipNext = (E : Int)) (hE : E ≠ SQLITE_OK) :
    (∀ fuel res, sqlite3BtreeFirst fuel store c res = some (E, res, c)) ∧
    (∀ fuel res, sqlite3BtreeLast fuel store c res = some (E, res, c)) ∧
    (∀ fuel res, sqlite3BtreeNext store idxCmp allocOk (fuel + 1) c res = some (E, res, c)) ∧
    (∀ fuel res,
      sqlite3BtreePrevious store idxCmp allocOk (fuel + 1) c res = some (E, res, c)) ∧
    (∀ fuel intKey biasRight res,
      sqlite3BtreeMovetoUnpacked fuel store c idxCmp intKey biasRight res = some (E, res, c)) ∧
    (∀ body, sqlite3BtreeInsert c body = (E, c)) ∧
    (∀ fuel offset amt pBuf,
      sqlite3BtreeData fuel store c idxCmp allocOk offset amt pBuf = some (E, pBuf, c)) ∧
    (∀ fuel wrFlag accessWrite,
      sqlite3BtreePutData fuel store c idxCmp allocOk wrFlag accessWrite = some (E, c)) ∧
    (∀ fuel, sqlite3BtreeCursorHasMoved fuel store c idxCmp allocOk = some (E, 1, c)) ∧
    sqlite3BtreeKeySizeCall c = (SQLITE_OK, c, 0) := by
  have hnv : ¬ (c.eState = CURSOR_VALID) := by rw [hf]; decide
  have hni : ¬ (c.eState = CURSOR_INVALID) := by rw [hf]; decide
  have hE0 : ¬ (E = 0) := hE
  refine ⟨fun fuel res => ?_, fun fuel res => ?_, fun fuel res => ?_, fun fuel res => ?_,
    fun fuel intKey biasRight res => ?_, fun body => ?_, fun fuel offset amt pBuf => ?_,
    fun fuel wrFlag accessWrite => ?_, fun fuel => ?_, ?_⟩
  · unfold sqlite3BtreeFirst
    rw [moveToRoot_fault fuel store c E hf he]
    simp only [if_neg hE]
  · unfold sqlite3BtreeLast
    rw [if_neg (fun h => hnv h.1.symm), moveToRoot_fault fuel store c E hf he]
    simp only [if_neg hE]
  · unfold sqlite3BtreeNext
    rw [restore_fault _ store c idxCmp allocOk E hf he]
    simp only [if_pos hE]
  · unfold sqlite3BtreePrevious
    rw [restore_fault _ store c idxCmp allocOk E hf he]
    simp only [if_pos hE]
  · unfold sqlite3BtreeMovetoUnpacked
    rw [if_neg (fun h => hnv h.1), if_neg (fun h => hnv h.1),
      moveToRoot_fault fuel store c E hf he]
    simp only [if_pos hE0]
  · unfold sqlite3BtreeInsert
    rw [if_pos hf, he]
    rfl
  · unfold sqlite3BtreeData
    rw [if_neg hni, restore_fault _ store c idxCmp allocOk E hf he]
    simp only [if_neg hE]
  · unfold sqlite3BtreePutData
    rw [restore_fault _ store c idxCmp allocOk E hf he]
    simp only [if_pos hE]
  · unfold sqlite3BtreeCursorHasMoved
    rw [restore_fault _ store c idxCmp allocOk E hf he]
    simp only [if_pos hE0]
  · unfold sqlite3BtreeKeySizeCall sqlite3BtreeKeySize
    rw [if_pos hnv]

/-- A cursor that `sqlite3BtreeTripAllCursors` has tripped gives `sqlite3BtreeDelete` no page
to read: the index `iPage` is negative, or `apPage[iPage]` is one of the pointers set to 0. -/
theorem sqlite3BtreeDelete_tripped (E : Int) (c : BtCursor)
    (body : BtCursor → Nat × BtCursor) : sqlite3BtreeDelete (tripCursor E c) body = none := by
  unfold sqlite3BtreeDelete
  by_cases h : (tripCursor E c).iPage < 0
  · rw [if_pos (Or.inl h)]
  · have hi : (tripCursor E c).iPage = c.iPage := rfl
    have h0 : 0 ≤ c.iPage := by rw [hi] at h; omega
    have hp : ((tripCursor E c).apPage (tripCursor E c).iPage.toNat).pgno = 0 := by
      rw [hi]
      show (if ((c.iPage.toNat : Nat) : Int) ≤ c.iPage then blankPage c.pBt (fun _ => 0) 0
        else c.apPage c.iPage.toNat).pgno = 0
      rw [if_pos (by rw [Int.toNat_of_nonneg h0])]
      rfl
    rw [if_pos (Or.inr hp)]

/-- C22 (amended): once a cursor is in the fault state with the saved error code `E`,
`sqlite3BtreeFirst`, `sqlite3BtreeLast`, `sqlite3BtreeNext`, `sqlite3BtreePrevious`,
`sqlite3BtreeMovetoUnpacked`, `sqlite3BtreeInsert`, `sqlite3BtreeData` and
`sqlite3BtreePutData` return `E`, `sqlite3BtreeCursorHasMoved` returns `E` and reports that
the cursor has moved, and each of them leaves the cursor as it is, so in the fault state with
`E`.  `sqlite3BtreeKeySize`, which cannot fail, leaves the cursor as it is too, but it does not
return `E`: it returns `SQLITE_OK` with size 0.  `sqlite3BtreeDelete` is not among these
operations. -/
theorem fault_cursor_returns_error (store : PageStore) (c : BtCursor) (E : Nat)
    (idxCmp : MemPage → Nat → Nat × Int) (allocOk : Bool)
    (hf : c.eState = CURSOR_FAULT) (he : c.skipNext = (E : Int)) (hE : E ≠ SQLITE_OK) :
    (∀ fuel res, sqlite3BtreeFirst fuel store c res = some (E, res, c)) ∧
    (∀ fuel res, sqlite3BtreeLast fuel store c res = some (E, res, c)) ∧
    (∀ fuel res, sqlite3BtreeNext store idxCmp allocOk (fuel + 1) c res = some (E, res, c)) ∧
    (∀ fuel res,
      sqlite3BtreePrevious store idxCmp allocOk (fuel + 1) c res = some (E, res, c)) ∧
    (∀ fuel intKey biasRight res,
      sqlite3BtreeMovetoUnpacked fuel store c idxCmp intKey biasRight res = some (E, res, c)) ∧
    (∀ body, sqlite3BtreeInsert c body = (E, c)) ∧
    (∀ fuel offset amt pBuf,
      sqlite3BtreeData fuel store c idxCmp allocOk offset amt pBuf = some (E, pBuf, c)) ∧
    (∀ fuel wrFlag accessWrite,
      sqlite3BtreePutData fuel store c idxCmp allocOk wrFlag accessWrite = some (E, c)) ∧
    (∀ fuel, sqlite3BtreeCursorHasMoved fuel store c idxCmp allocOk = some (E, 1, c)) ∧
    sqlite3BtreeKeySizeCall c = (SQLITE_OK, c, 0) :=
  fault_cursor_spec store c E idxCmp allocOk hf he hE

set_option maxRecDepth 100000 in
/-- Witness for C22: the cursor `exFaultCursor`, tripped with `SQLITE_ABORT`. -/
theorem fault_cursor_returns_error_witness :
    (exFaultCursor.eState = CURSOR_FAULT ∧ exFaultCursor.skipNext = ((4 : Nat) : Int) ∧
      (4 : Nat) ≠ SQLITE_OK) ∧
    ((∀ fuel res, sqlite3BtreeFirst fuel exStoreAfter exFaultCursor res = some (4, res, exFaultCursor)) ∧
    (∀ fuel res, sqlite3BtreeLast fuel exStoreAfter exFaultCursor res = some (4, res, exFaultCursor)) ∧
    (∀ fuel res, sqlite3BtreeNext exStoreAfter (fun _ _ => (0, 0)) true (fuel + 1) exFaultCursor res = some (4, res, exFaultCursor)) ∧
    (∀ fuel res,
      sqlite3BtreePrevious exStoreAfter (fun _ _ => (0, 0)) true (fuel + 1) exFaultCursor res = some (4, res, exFaultCursor)) ∧
    (∀ fuel intKey biasRight res,
      sqlite3BtreeMovetoUnpacked fuel exStoreAfter exFaultCursor (fun _ _ => (0, 0)) intKey biasRight res = some (4, res, exFaultCursor)) ∧
    (∀ body, sqlite3BtreeInsert exFaultCursor body = (4, exFaultCursor)) ∧
    (∀ fuel offset amt pBuf,
      sqlite3BtreeData fuel exStoreAfter exFaultCursor (fun _ _ => (0, 0)) true offset amt pBuf = some (4, pBuf, exFaultCursor)) ∧
    (∀ fuel wrFlag accessWrite,
      sqlite3BtreePutData fuel exStoreAfter exFaultCursor (fun _ _ => (0, 0)) true wrFlag accessWrite = some (4, exFaultCursor)) ∧
    (∀ fuel, sqlite3BtreeCursorHasMoved fuel exStoreAfter exFaultCursor (fun _ _ => (0, 0)) true = some (4, 1, exFaultCursor)) ∧
    sqlite3BtreeKeySizeCall exFaultCursor = (SQLITE_OK, exFaultCursor, 0)) :=
  ⟨⟨by decide, by decide, by decide⟩,
    fault_cursor_returns_error exStoreAfter exFaultCursor 4 (fun _ _ => (0, 0)) true
      (by decide) (by decide) (by decide)⟩

set_option maxRecDepth 100000 in
/-- Counterexample for C22 as stated: the cursor `exFaultCursor` is in the fault state with the
saved error code 4 (`SQLITE_ABORT`); `sqlite3BtreeKeySize` returns `SQLITE_OK` with size 0, not
4.  `sqlite3BtreeDelete` does not return 4 either: the cursor was on page `apPage[0]`, which
`sqlite3BtreeTripAllCursors` has released and set to 0, and the first test of
`sqlite3BtreeDelete` reads `apPage[iPage]->nCell`, so the call has no result. -/
theorem fault_cursor_keySize_counterexample :
    exFaultCursor.eState = CURSOR_FAULT ∧ exFaultCursor.skipNext = 4 ∧
    (sqlite3BtreeKeySizeCall exFaultCursor).1 = SQLITE_OK ∧
    (sqlite3BtreeKeySizeCall exFaultCursor).2.2 = 0 ∧
    SQLITE_OK ≠ 4 ∧
    exFaultCursor.iPage = 0 ∧ (exFaultCursor.apPage 0).pgno = 0 ∧
    (sqlite3BtreeDelete exFaultCursor (fun c => (SQLITE_OK, c))).map (fun r => r.1) = none := by
  decide

/-! ## Cursors under a rollback -/

theorem saveCursorPosition_ok_state (c : BtCursor) (kb : Option (Nat × Bytes))
    (h : (saveCursorPosition c kb).1 = SQLITE_OK) :
    (saveCursorPosition c kb).2.eState = CURSOR_REQUIRESEEK := by
  unfold saveCursorPosition at h ⊢
  simp only [] at h ⊢
  rw [if_pos h]

theorem saveAllCursors_ok (keyBuf : Nat → Option (Nat × Bytes)) :
    ∀ (cursors : List BtCursor) (i : Nat), (saveAllCursors keyBuf i cursors).1 = SQLITE_OK →
      (saveAllCursors keyBuf i cursors).2.map (fun c => c.eState) =
        cursors.map (fun c => if c.eState = CURSOR_VALID then CURSOR_REQUIRESEEK
          else c.eState) := by
  intro cursors
  induction cursors with
  | nil => intro i _; rfl
  | cons c rest ih =>
    intro i h
    unfold saveAllCursors at h ⊢
    by_cases hv : c.eState = CURSOR_VALID
    · rw [if_pos hv] at h ⊢
      by_cases hs : (saveCursorPosition c (keyBuf i)).1 ≠ SQLITE_OK
      · rw [if_pos hs] at h
        exact absurd h hs
      · rw [if_neg hs] at h ⊢
        rw [List.map_cons, List.map_cons, ih (i + 1) h, if_pos hv,
          saveCursorPosition_ok_state c (keyBuf i) (not_not.mp hs)]
    · rw [if_neg hv] at h ⊢
      rw [List.map_cons, List.map_cons, ih (i + 1) h, if_neg hv]

theorem saveAllCursors_length (keyBuf : Nat → Option (Nat × Bytes)) :
    ∀ (cursors : List BtCursor) (i : Nat),
      (saveAllCursors keyBuf i cursors).2.length = cursors.length := by
  intro cursors
  induction cursors with
  | nil => intro i; rfl
  | cons c rest ih =>
    intro i
    unfold saveAllCursors
    split_ifs
    · rfl
    · rw [List.length_cons, List.length_cons, ih]
    · rw [List.length_cons, List.length_cons, ih]

theorem trip_states (E : Int) (cursors : List BtCursor) :
    (sqlite3BtreeTripAllCursors E cursors).map (fun c => (c.eState, c.skipNext)) =
      List.replicate cursors.length (CURSOR_FAULT, E) := by
  unfold sqlite3BtreeTripAllCursors
  induction cursors with
  | nil => rfl
  | cons c rest ih =>
    rw [List.map_cons, List.map_cons, ih, List.length_cons, List.replicate_succ]
    rfl

/-- What `sqlite3BtreeRollback(p, tripCode)` does with the cursors.  With a `tripCode` other
than `SQLITE_OK`, every cursor open on the shared B-tree is left in the fault state with the
saved error `tripCode`; with `tripCode = SQLITE_OK` and an error in `saveAllCursors`, every
cursor is left in the fault state with that error.  With `tripCode = SQLITE_OK` and no error
in `saveAllCursors` no cursor is tripped: every cursor that was valid is in state
`CURSOR_REQUIRESEEK`, its position saved, and every other cursor keeps its state. -/
theorem sqlite3BtreeRollback_cursors (s : BtTrans) (cursors : List BtCursor) (p : Nat)
    (tripCode : Int) (keyBuf : Nat → Option (Nat × Bytes)) (rcPager : Nat) (cnt : Int) :
    (tripCode ≠ 0 →
      (sqlite3BtreeRollback s cursors p tripCode keyBuf rcPager cnt).2.2.map
        (fun c => (c.eState, c.skipNext)) =
        List.replicate cursors.length (CURSOR_FAULT, tripCode)) ∧
    (tripCode = 0 → (saveAllCursors keyBuf 0 cursors).1 ≠ SQLITE_OK →
      (sqlite3BtreeRollback s cursors p tripCode keyBuf rcPager cnt).2.2.map
        (fun c => (c.eState, c.skipNext)) =
        List.replicate cursors.length
          (CURSOR_FAULT, ((saveAllCursors keyBuf 0 cursors).1 : Int))) ∧
    (tripCode = 0 → (saveAllCursors keyBuf 0 cursors).1 = SQLITE_OK →
      (sqlite3BtreeRollback s cursors p tripCode keyBuf rcPager cnt).2.2.map
        (fun c => c.eState) =
        cursors.map (fun c => if c.eState = CURSOR_VALID then CURSOR_REQUIRESEEK
          else c.eState)) := by
  have hc : (sqlite3BtreeRollback s cursors p tripCode keyBuf rcPager cnt).2.2 =
      (if (if tripCode = 0 then (((if tripCode = 0 then saveAllCursors keyBuf 0 cursors
            else (SQLITE_OK, cursors)).1 : Nat) : Int) else tripCode) ≠ 0 then
        sqlite3BtreeTripAllCursors
          (if tripCode = 0 then (((if tripCode = 0 then saveAllCursors keyBuf 0 cursors
            else (SQLITE_OK, cursors)).1 : Nat) : Int) else tripCode)
          (if tripCode = 0 then saveAllCursors keyBuf 0 cursors else (SQLITE_OK, cursors)).2
      else (if tripCode = 0 then saveAllCursors keyBuf 0 cursors
        else (SQLITE_OK, cursors)).2) := by
    unfold sqlite3BtreeRollback
    simp only []
    split_ifs <;> rfl
  rw [hc]
  refine ⟨fun h => ?_, fun h h2 => ?_, fun h h2 => ?_⟩
  · rw [if_neg h, if_pos h, if_neg h]
    exact trip_states tripCode cursors
  · have h3 : ((saveAllCursors keyBuf 0 cursors).1 : Int) ≠ 0 := by
      intro e; apply h2; exact_mod_cast e
    rw [if_pos h, if_pos h, if_pos h3, trip_states, saveAllCursors_length]
  · have h3 : ¬ (((saveAllCursors keyBuf 0 cursors).1 : Int) ≠ 0) := by
      rw [h2]; exact fun e => e rfl
    rw [if_pos h, if_pos h, if_neg h3]
    exact saveAllCursors_ok keyBuf cursors 0 h2

set_option maxRecDepth 100000 in
/-- Claim C23, evaluated on a clean rollback: the cursor `exCursorAt7` is valid on key 7 of a
table; handle 0, the writer of `exWriterReader`, rolls back with `tripCode = SQLITE_OK`, and
the pager reports no error.  `sqlite3BtreeRollback` returns `SQLITE_OK`, and the cursor is
left in state `CURSOR_REQUIRESEEK` with the key 7 saved, neither in state `CURSOR_INVALID`
nor in state `CURSOR_FAULT`; `sqlite3BtreeCursorHasMoved`, called on it afterwards, seeks key
7 again and returns `SQLITE_OK` with a valid cursor that has not moved, where the comment
above `sqlite3BtreeRollback` promises an error for every use of such a cursor. -/
theorem sqlite3BtreeRollback_clean_saves_cursors :
    exCursorAt7.eState = CURSOR_VALID ∧
    (sqlite3BtreeRollback exWriterReader [exCursorAt7] 0 0 (fun _ => none) SQLITE_OK 1).1 =
      SQLITE_OK ∧
    (sqlite3BtreeRollback exWriterReader [exCursorAt7] 0 0 (fun _ => none) SQLITE_OK 1).2.2.map
      (fun c => (c.eState, c.nKey)) = [(CURSOR_REQUIRESEEK, 7)] ∧
    CURSOR_REQUIRESEEK ≠ CURSOR_INVALID ∧ CURSOR_REQUIRESEEK ≠ CURSOR_FAULT ∧
    ((sqlite3BtreeRollback exWriterReader [exCursorAt7] 0 0 (fun _ => none)
        SQLITE_OK 1).2.2.head?.bind
      (fun c => sqlite3BtreeCursorHasMoved 65556 exStoreBefore c (fun _ _ => (0, 0)) true)).map
      (fun r => (r.1, r.2.1, r.2.2.eState)) = some (SQLITE_OK, 0, CURSOR_VALID) := by
  refine ⟨by decide, by decide, by decide, by decide, by decide, by decide⟩

end Btree

namespace Btree

/-! ## The sorter: merging and sorting the record list -/

theorem sorterCompare_head (k : SorterCmp) (a b r2 : List Nat) (pVal2 : Option (List Nat))
    (h : pVal2 = some b ∨ (pVal2 = none ∧ r2 = b)) :
    vdbeSorterCompare k false a pVal2 r2 = (k.recordCompare a b, b) := by
  rcases h with h | ⟨h, h2⟩
  · subst h
    simp [vdbeSorterCompare]
  · subst h h2
    simp [vdbeSorterCompare]

theorem sorted_cons_of (k : SorterCmp) (a : List Nat) (M : List (List Nat))
    (h1 : ∀ x ∈ M, keyLe k a x) (h2 : List.Sorted (keyLe k) M) :
    List.Sorted (keyLe k) (a :: M) :=
  List.sorted_cons.2 ⟨h1, h2⟩

theorem mergeLoop_spec (k : SorterCmp) (hk : KeyPreorder k) :
    ∀ (fuel : Nat) (p1 p2 : List (List Nat)) (pVal2 : Option (List Nat)) (r2 : List Nat),
      p1.length + p2.length ≤ fuel →
      (∀ b rest, p2 = b :: rest → pVal2 = some b ∨ (pVal2 = none ∧ r2 = b)) →
      List.Perm (mergeLoop k fuel p1 p2 pVal2 r2).1 (p1 ++ p2) ∧
      (List.Sorted (keyLe k) p1 → List.Sorted (keyLe k) p2 →
        List.Sorted (keyLe k) (mergeLoop k fuel p1 p2 pVal2 r2).1) := by
  intro fuel
  induction fuel with
  | zero =>
    intro p1 p2 pVal2 r2 hlen _
    have h1 : p1 = [] := List.length_eq_zero.1 (by omega)
    have h2 : p2 = [] := List.length_eq_zero.1 (by omega)
    subst h1 h2
    simp [mergeLoop]
  | succ fuel ih =>
    intro p1 p2 pVal2 r2 hlen hv
    cases p1 with
    | nil =>
      simp only [mergeLoop, List.nil_append]
      exact ⟨List.Perm.refl _, fun _ h => h⟩
    | cons a p1 =>
      cases p2 with
      | nil =>
        simp only [mergeLoop, List.append_nil]
        exact ⟨List.Perm.refl _, fun h _ => h⟩
      | cons b p2 =>
        have hc := sorterCompare_head k a b r2 pVal2 (hv b p2 rfl)
        simp only [mergeLoop, hc]
        by_cases hle : k.recordCompare a b ≤ 0
        · rw [if_pos hle]
          have hi := ih p1 (b :: p2) none b (by simp at hlen ⊢; omega)
            (fun b2 rest e => Or.inr ⟨rfl, by injection e with e1 _⟩)
          refine ⟨?_, ?_⟩
          · exact List.Perm.cons a hi.1
          · intro s1 s2
            have s1c := List.sorted_cons.1 s1
            have s2c := List.sorted_cons.1 s2
            apply sorted_cons_of
            · intro x hx
              have hx2 := (hi.1.mem_iff).1 hx
              rcases List.mem_append.1 hx2 with h | h
              · exact s1c.1 x h
              · rcases List.mem_cons.1 h with h | h
                · subst h
                  exact hle
                · exact hk.2 a b x hle (s2c.1 x h)
            · exact hi.2 s1c.2 s2
        · rw [if_neg hle]
          have hba : keyLe k b a := by
            rcases hk.1 a b with h | h
            · exact absurd h hle
            · exact h
          cases p2 with
          | nil =>
            simp only
            refine ⟨?_, ?_⟩
            · have : List.Perm (b :: (a :: p1)) ((a :: p1) ++ [b]) :=
                (List.perm_append_singleton b (a :: p1)).symm
              exact this
            · intro s1 _
              have s1c := List.sorted_cons.1 s1
              apply sorted_cons_of
              · intro x hx
                rcases List.mem_cons.1 hx with h | h
                · subst h
                  exact hba
                · exact hk.2 b a x hba (s1c.1 x h)
              · exact s1
          | cons c p3 =>
            simp only
            have hi := ih (a :: p1) (c :: p3) (some c) b (by simp at hlen ⊢; omega)
              (fun b2 rest e => Or.inl (by injection e with e1 _; rw [e1]))
            refine ⟨?_, ?_⟩
            · have h1 : List.Perm (b :: (a :: p1 ++ c :: p3)) (a :: p1 ++ b :: c :: p3) :=
                List.perm_middle.symm
              exact (List.Perm.cons b hi.1).trans h1
            · intro s1 s2
              have s1c := List.sorted_cons.1 s1
              have s2c := List.sorted_cons.1 s2
              apply sorted_cons_of
              · intro x hx
                have hx2 := (hi.1.mem_iff).1 hx
                rcases List.mem_append.1 hx2 with h | h
                · rcases List.mem_cons.1 h with h | h
                  · subst h
                    exact hba
                  · exact hk.2 b a x hba (s1c.1 x h)
                · exact s2c.1 x h
              · exact hi.2 s1 s2c.2

theorem vdbeSorterMerge_spec (k : SorterCmp) (hk : KeyPreorder k)
    (p1 p2 : List (List Nat)) (r2 : List Nat) :
    List.Perm (vdbeSorterMerge k p1 p2 r2).1 (p1 ++ p2) ∧
    (List.Sorted (keyLe k) p1 → List.Sorted (keyLe k) p2 →
      List.Sorted (keyLe k) (vdbeSorterMerge k p1 p2 r2).1) := by
  unfold vdbeSorterMerge
  apply mergeLoop_spec k hk _ p1 p2 _ r2 (le_refl _)
  intro b rest e
  subst e
  exact Or.inl rfl

theorem vdbeSorterMerge_length (k : SorterCmp) (hk : KeyPreorder k)
    (p1 p2 : List (List Nat)) (r2 : List Nat) :
    (vdbeSorterMerge k p1 p2 r2).1.length = p1.length + p2.length := by
  rw [(vdbeSorterMerge_spec k hk p1 p2 r2).1.length_eq, List.length_append]

end Btree

namespace Btree

/-! ## The sorter: the slots of `vdbeSorterSort` -/

theorem slotRecords_setAt_ge (a : Nat → List (List Nat)) (i : Nat) (v : List (List Nat)) :
    ∀ n, n ≤ i → slotRecords (setAt a i v) n = slotRecords a n := by
  intro n
  induction n with
  | zero => intro _; rfl
  | succ n ih =>
    intro h
    rw [slotRecords, slotRecords, ih (by omega), setAt_other a i n v (by omega)]

theorem slotRecords_setAt (a : Nat → List (List Nat)) (i : Nat) (v : List (List Nat)) :
    ∀ n, i < n →
      List.Perm (slotRecords (setAt a i v) n ++ a i) (v ++ slotRecords a n) := by
  intro n
  induction n with
  | zero => intro h; omega
  | succ n ih =>
    intro h
    rw [slotRecords, slotRecords]
    by_cases e : i = n
    · subst e
      rw [slotRecords_setAt_ge a i v i (le_refl _), setAt_same]
      rw [List.perm_iff_count]
      intro x
      simp only [List.count_append]
      omega
    · rw [setAt_other a i n v (by omega)]
      have h1 := ih (by omega)
      rw [List.perm_iff_count] at h1 ⊢
      intro x
      have := h1 x
      simp only [List.count_append] at this ⊢
      omega

theorem SlotInv_setAt (k : SorterCmp) (a : Nat → List (List Nat)) (i : Nat)
    (v : List (List Nat)) (h : SlotInv k a) (hs : List.Sorted (keyLe k) v)
    (hl : v = [] ∨ v.length = 2 ^ i) : SlotInv k (setAt a i v) := by
  intro j hj
  by_cases e : j = i
  · subst e
    rw [setAt_same]
    exact ⟨hs, hl⟩
  · rw [setAt_other a i j v e]
    exact h j hj

theorem slotInsert_spec (k : SorterCmp) (hk : KeyPreorder k) (N : Nat) (hN : 64 ≤ N) :
    ∀ (fuel i : Nat) (p : List (List Nat)) (a : Nat → List (List Nat)) (r2 : List Nat),
      i ≤ 64 → 65 - i ≤ fuel → SlotInv k a → p.length = 2 ^ i → List.Sorted (keyLe k) p →
      (∀ j, j < i → a j = []) →
      p.length + (slotRecords a N).length < 18446744073709551616 →
      ∃ r, slotInsert k fuel i p a r2 = some r ∧ SlotInv k r.1 ∧
        List.Perm (slotRecords r.1 N) (p ++ slotRecords a N) := by
  intro fuel
  induction fuel with
  | zero => intro i p a r2 h1 h2; omega
  | succ fuel ih =>
    intro i p a r2 h1 h2 hinv hlen hs hlow hcnt
    have hi : i < 64 := by
      rcases Nat.lt_or_ge i 64 with h | h
      · exact h
      · have e : i = 64 := by omega
        subst e
        have e2 : (2 : Nat) ^ 64 = 18446744073709551616 := by norm_num
        rw [e2] at hlen
        omega
    rw [slotInsert, if_neg (by omega)]
    by_cases he : a i = []
    · rw [if_neg (by simp [he])]
      refine ⟨_, rfl, SlotInv_setAt k a i p hinv hs (Or.inr hlen), ?_⟩
      have := slotRecords_setAt a i p N (by omega)
      rw [he, List.append_nil] at this
      exact this
    · rw [if_pos he]
      have hm := vdbeSorterMerge_spec k hk p (a i) r2
      have hml := vdbeSorterMerge_length k hk p (a i) r2
      have hai : (a i).length = 2 ^ i := by
        rcases (hinv i hi).2 with h | h
        · exact absurd h he
        · exact h
      have hset := slotRecords_setAt a i [] N (by omega)
      have hsetl := hset.length_eq
      simp only [List.length_append, List.nil_append] at hsetl
      obtain ⟨r, hr, hri, hrp⟩ := ih (i + 1) (vdbeSorterMerge k p (a i) r2).1 (setAt a i [])
        (vdbeSorterMerge k p (a i) r2).2 (by omega) (by omega)
        (SlotInv_setAt k a i [] hinv List.sorted_nil (Or.inl rfl))
        (by rw [hml, hlen, hai, pow_succ]; omega)
        (hm.2 hs (hinv i hi).1)
        (by
          intro j hj
          by_cases e : j = i
          · subst e
            rw [setAt_same]
          · rw [setAt_other a i j [] e]
            exact hlow j (by omega))
        (by rw [hml]; omega)
      refine ⟨r, hr, hri, ?_⟩
      have hm1 := hm.1
      rw [List.perm_iff_count] at hrp hm1 hset ⊢
      intro x
      have e1 := hrp x
      have e2 := hm1 x
      have e3 := hset x
      simp only [List.count_append, List.count_nil] at e1 e2 e3 ⊢
      omega

theorem slotFill_spec (k : SorterCmp) (hk : KeyPreorder k) (N : Nat) (hN : 64 ≤ N) :
    ∀ (recs : List (List Nat)) (a : Nat → List (List Nat)) (r2 : List Nat),
      SlotInv k a → recs.length + (slotRecords a N).length < 18446744073709551616 →
      ∃ r, slotFill k recs a r2 = some r ∧ SlotInv k r.1 ∧
        List.Perm (slotRecords r.1 N) (recs ++ slotRecords a N) := by
  intro recs
  induction recs with
  | nil =>
    intro a r2 hinv _
    exact ⟨(a, r2), rfl, hinv, List.Perm.refl _⟩
  | cons x rest ih =>
    intro a r2 hinv hcnt
    obtain ⟨r, hr, hri, hrp⟩ := slotInsert_spec k hk N hN 65 0 [x] a r2 (by omega) (by omega) hinv
      (by simp) (List.sorted_singleton x) (fun j hj => by omega)
      (by simp only [List.length_cons, List.length_nil] at hcnt ⊢; omega)
    have hl := hrp.length_eq
    simp only [List.length_append, List.length_cons, List.length_nil] at hl hcnt
    obtain ⟨r3, hr3, hri3, hrp3⟩ := ih r.1 r.2 hri (by omega)
    refine ⟨r3, ?_, hri3, ?_⟩
    · rw [slotFill, hr]
      exact hr3
    · rw [List.perm_iff_count] at hrp hrp3 ⊢
      intro y
      have e1 := hrp y
      have e2 := hrp3 y
      simp only [List.count_append, List.count_cons, List.count_nil] at e1 e2 ⊢
      omega

theorem slotCollect_spec (k : SorterCmp) (hk : KeyPreorder k) (a : Nat → List (List Nat)) :
    ∀ (n i : Nat) (p : List (List Nat)) (r2 : List Nat),
      i + n ≤ 64 → SlotInv k a → List.Sorted (keyLe k) p →
      List.Perm ((slotCollect k a n i p r2).1 ++ slotRecords a i) (p ++ slotRecords a (i + n)) ∧
      List.Sorted (keyLe k) (slotCollect k a n i p r2).1 := by
  intro n
  induction n with
  | zero =>
    intro i p r2 _ _ hs
    exact ⟨List.Perm.refl _, hs⟩
  | succ n ih =>
    intro i p r2 hi hinv hs
    have hm := vdbeSorterMerge_spec k hk p (a i) r2
    have h := ih (i + 1) (vdbeSorterMerge k p (a i) r2).1 (vdbeSorterMerge k p (a i) r2).2
      (by omega) hinv (hm.2 hs (hinv i (by omega)).1)
    rw [slotCollect]
    refine ⟨?_, h.2⟩
    have h1 := h.1
    have hm1 := hm.1
    rw [show i + 1 + n = i + (n + 1) by omega, slotRecords] at h1
    rw [List.perm_iff_count] at h1 hm1 ⊢
    intro y
    have e1 := h1 y
    have e2 := hm1 y
    simp only [List.count_append] at e1 e2 ⊢
    omega

theorem slotRecords_empty : ∀ n, slotRecords (fun _ => ([] : List (List Nat))) n = [] := by
  intro n
  induction n with
  | zero => rfl
  | succ n ih => rw [slotRecords, ih]; rfl

/-- `vdbeSorterSort` returns, and leaves the record list a sorted permutation of what it
was, when the list has less than `2^64` records. -/
theorem vdbeSorterSort_spec (k : SorterCmp) (hk : KeyPreorder k) (s : VdbeSorter)
    (hcnt : s.pRecord.length < 18446744073709551616) :
    ∃ r, vdbeSorterSort k s true = some (SQLITE_OK, r) ∧
      List.Perm r.pRecord s.pRecord ∧ List.Sorted (keyLe k) r.pRecord ∧
      r.iWriteOff = s.iWriteOff ∧ r.iReadOff = s.iReadOff ∧ r.nInMemory = s.nInMemory ∧
      r.nPMA = s.nPMA ∧ r.mnPmaSize = s.mnPmaSize ∧ r.mxPmaSize = s.mxPmaSize ∧
      r.hasTemp1 = s.hasTemp1 ∧ r.temp1 = s.temp1 := by
  have hinv0 : SlotInv k (fun _ => ([] : List (List Nat))) :=
    fun i _ => ⟨List.sorted_nil, Or.inl rfl⟩
  obtain ⟨N, hN⟩ : ∃ N, N = 64 := ⟨64, rfl⟩
  obtain ⟨r, hr, hri, hrp⟩ := slotFill_spec k hk N (by omega) s.pRecord (fun _ => [])
    s.unpacked hinv0 (by rw [slotRecords_empty]; simpa using hcnt)
  have hc := slotCollect_spec k hk r.1 64 0 [] r.2 (by omega) hri List.sorted_nil
  refine ⟨{ s with
    pRecord := (slotCollect k r.1 64 0 [] r.2).1
    unpacked := (slotCollect k r.1 64 0 [] r.2).2 }, ?_, ?_, ?_, rfl, rfl, rfl, rfl, rfl, rfl,
    rfl, rfl⟩
  · unfold vdbeSorterSort
    rw [if_neg (by simp), hr]
  · have h1 := hc.1
    rw [slotRecords_empty, List.append_nil] at hrp
    rw [show slotRecords r.1 0 = [] from rfl, List.append_nil, List.nil_append,
      Nat.zero_add] at h1
    subst hN
    exact h1.trans hrp
  · exact hc.2

end Btree

namespace Btree

/-! ## The sorter: the file writer -/

theorem fileWriterInit_spec (nBuf : Nat) (allocOk : Bool) (raw file : Bytes) (iStart : Nat)
    (hb : 0 < nBuf) (X : Nat → Nat) :
    WriterHolds (fileWriterInit nBuf allocOk raw file iStart) file iStart X 0 := by
  have h1 := Nat.mod_lt iStart hb
  have h2 := Nat.mod_le iStart nBuf
  cases allocOk with
  | false =>
    intro h
    simp [fileWriterInit, SQLITE_NOMEM] at h
  | true =>
    intro _
    simp only [fileWriterInit, Bool.true_eq_false, if_false]
    refine ⟨by omega, le_refl _, h1, by omega, ?_, ?_, ?_⟩
    · intro i hi; omega
    · intro i hi; omega
    · intro j _; trivial

theorem fileWriterLoop_spec (rcWrite : Nat → Nat) (pData : Bytes) (nData : Nat)
    (file0 : Bytes) (iStart : Nat) (X : Nat → Nat) (n0 : Nat)
    (hX : ∀ j, j < nData → X (n0 + j) = pData j) :
    ∀ (fuel nRem : Nat) (w : FileWriter), nRem ≤ nData → nRem + 1 ≤ fuel →
      WriterHolds w file0 iStart X (n0 + (nData - nRem)) →
      ∃ r, fileWriterLoop rcWrite pData nData fuel nRem w = some r ∧
        r.nBuffer = w.nBuffer ∧ WriterHolds r file0 iStart X (n0 + nData) := by
  intro fuel
  induction fuel with
  | zero => intro nRem w _ h; omega
  | succ fuel ih =>
    intro nRem w hle hfuel hinv
    rw [fileWriterLoop]
    by_cases hc : nRem > 0 ∧ w.eFWErr = 0
    · rw [if_pos hc]
      obtain ⟨hA, hB, hB2, hC, hD, hE, hF⟩ := hinv hc.2
      simp only []
      generalize hn : (if nRem > w.nBuffer - w.iBufEnd then w.nBuffer - w.iBufEnd else nRem)
        = nCopy
      have hn1 : 1 ≤ nCopy ∧ nCopy ≤ nRem ∧ w.iBufEnd + nCopy ≤ w.nBuffer := by
        rw [← hn]
        split_ifs <;> omega
      have hbuf : ∀ i, i < n0 + (nData - (nRem - nCopy)) →
          w.iWriteOff + w.iBufStart ≤ iStart + i →
          memcpy w.aBuffer w.iBufEnd pData (nData - nRem) nCopy (iStart + i - w.iWriteOff)
            = X i := by
        intro i hi1 hi2
        by_cases hlt : i < n0 + (nData - nRem)
        · rw [memcpy_other _ _ _ _ _ _ (Or.inl (by omega))]
          exact hE i hlt hi2
        · rw [memcpy_inside _ _ _ _ _ _ (by omega) (by omega)]
          rw [← hX (nData - nRem + (iStart + i - w.iWriteOff - w.iBufEnd)) (by omega)]
          congr 1
          omega
      by_cases hfull : w.iBufEnd + nCopy = w.nBuffer
      · rw [if_pos hfull]
        obtain ⟨r, hr, hrn, hri⟩ := ih (nRem - nCopy)
          { eFWErr := (osWrite rcWrite w.file
                (memcpy w.aBuffer w.iBufEnd pData (nData - nRem) nCopy) w.iBufStart
                (w.iBufEnd + nCopy - w.iBufStart) (w.iWriteOff + w.iBufStart)).1
            aBuffer := memcpy w.aBuffer w.iBufEnd pData (nData - nRem) nCopy
            nBuffer := w.nBuffer
            iBufStart := 0
            iBufEnd := 0
            iWriteOff := w.iWriteOff + w.nBuffer
            file := (osWrite rcWrite w.file
                (memcpy w.aBuffer w.iBufEnd pData (nData - nRem) nCopy) w.iBufStart
                (w.iBufEnd + nCopy - w.iBufStart) (w.iWriteOff + w.iBufStart)).2 }
          (by omega) (by omega)
          (by
            intro herr
            simp only [osWrite] at herr
            simp only [osWrite, herr, SQLITE_OK, if_true]
            refine ⟨by omega, le_refl _, by omega, by omega, ?_, ?_, ?_⟩
            · intro i hi1 _
              by_cases hlt : iStart + i < w.iWriteOff + w.iBufStart
              · rw [memcpy_other _ _ _ _ _ _ (Or.inl hlt)]
                exact hD i (by omega) hlt
              · rw [memcpy_inside _ _ _ _ _ _ (by omega) (by omega)]
                rw [← hbuf i hi1 (by omega)]
                congr 1
                omega
            · intro i hi1 hi2
              omega
            · intro j hj
              rw [memcpy_other _ _ _ _ _ _ (Or.inl (by omega))]
              exact hF j hj)
        exact ⟨r, hr, hrn, hri⟩
      · rw [if_neg hfull]
        obtain ⟨r, hr, hrn, hri⟩ := ih (nRem - nCopy)
          { w with
            aBuffer := memcpy w.aBuffer w.iBufEnd pData (nData - nRem) nCopy
            iBufEnd := w.iBufEnd + nCopy }
          (by omega) (by omega)
          (by
            intro _
            refine ⟨?_, ?_, ?_, hC, ?_, ?_, hF⟩
            · show w.iWriteOff + (w.iBufEnd + nCopy) = _
              omega
            · show w.iBufStart ≤ w.iBufEnd + nCopy
              omega
            · show w.iBufEnd + nCopy < w.nBuffer
              omega
            · intro i hi1 hi2
              exact hD i (by
                have : iStart + i < w.iWriteOff + w.iBufStart := hi2
                omega) hi2
            · intro i hi1 hi2
              exact hbuf i hi1 hi2)
        exact ⟨r, hr, hrn, hri⟩
    · rw [if_neg hc]
      refine ⟨w, rfl, rfl, ?_⟩
      intro herr
      have h0 : nRem = 0 := by
        by_contra h
        exact hc ⟨by omega, herr⟩
      subst h0
      exact hinv herr

end Btree

namespace Btree

/-! ## The sorter: writing a run -/

theorem varintBytes_length (v : Nat) : (varintBytes v).length = varintLen v := by
  simp [varintBytes]

theorem varintBytes_getD (v j : Nat) (h : j < varintLen v) :
    (varintBytes v).getD j 0 = varintByte v (varintLen v) j := by
  unfold varintBytes
  rw [List.getD_eq_getElem _ _ (by simpa using h)]
  simp

theorem recordBytes_length (l : List (List Nat)) :
    (recordBytes l).length = (l.map (fun a => varintLen a.length + a.length)).sum := by
  induction l with
  | nil => rfl
  | cons a rest ih =>
    simp only [recordBytes, List.length_append, varintBytes_length, ih, List.map_cons,
      List.sum_cons]

theorem recordBytes_length_perm (l1 l2 : List (List Nat)) (h : List.Perm l1 l2) :
    (recordBytes l1).length = (recordBytes l2).length := by
  rw [recordBytes_length, recordBytes_length]
  exact (h.map _).sum_eq

theorem recordBytes_length_ge (l : List (List Nat)) : l.length ≤ (recordBytes l).length := by
  induction l with
  | nil => simp
  | cons a rest ih =>
    have := (varintLen_bounds a.length).1
    simp only [recordBytes, List.length_append, varintBytes_length, List.length_cons]
    omega

theorem recordBytes_mem_length (l : List (List Nat)) (a : List Nat) (h : a ∈ l) :
    a.length < (recordBytes l).length := by
  induction l with
  | nil => simp at h
  | cons b rest ih =>
    have hb := (varintLen_bounds b.length).1
    simp only [recordBytes, List.length_append, varintBytes_length]
    rcases List.mem_cons.1 h with e | e
    · subst e
      omega
    · have := ih e
      omega

theorem fileWriterWriteVarint_spec (rcWrite : Nat → Nat) (file0 : Bytes) (iStart : Nat)
    (X : Nat → Nat) (n0 v : Nat) (hv : v < 18446744073709551616)
    (hX : ∀ j, j < varintLen v → X (n0 + j) = (varintBytes v).getD j 0)
    (fuel : Nat) (w : FileWriter) (hfuel : 10 ≤ fuel)
    (hinv : WriterHolds w file0 iStart X n0) :
    ∃ r, fileWriterWriteVarint rcWrite fuel w v = some r ∧ r.nBuffer = w.nBuffer ∧
      WriterHolds r file0 iStart X (n0 + varintLen v) := by
  unfold fileWriterWriteVarint fileWriterWrite
  have hl : (putVarint (fun _ => 0) 0 v).1 = varintLen v := by
    rw [putVarint_len, Nat.mod_eq_of_lt hv]
  rw [hl]
  have h9 := (varintLen_bounds v).2
  apply fileWriterLoop_spec rcWrite _ (varintLen v) file0 iStart X n0 _ fuel (varintLen v) w
    (le_refl _) (by omega)
  · rw [Nat.sub_self, Nat.add_zero]
    exact hinv
  · intro j hj
    rw [hX j hj, varintBytes_getD v j hj]
    unfold putVarint
    simp only [Nat.mod_eq_of_lt hv]
    rw [if_pos (by omega)]
    rfl

theorem fileWriterWrite_spec (rcWrite : Nat → Nat) (file0 : Bytes) (iStart : Nat)
    (X : Nat → Nat) (n0 : Nat) (a : List Nat)
    (hX : ∀ j, j < a.length → X (n0 + j) = a.getD j 0)
    (fuel : Nat) (w : FileWriter) (hfuel : a.length + 1 ≤ fuel)
    (hinv : WriterHolds w file0 iStart X n0) :
    ∃ r, fileWriterWrite rcWrite fuel w (listBytes a) a.length = some r ∧
      r.nBuffer = w.nBuffer ∧ WriterHolds r file0 iStart X (n0 + a.length) := by
  unfold fileWriterWrite
  apply fileWriterLoop_spec rcWrite _ a.length file0 iStart X n0 _ fuel a.length w
    (le_refl _) hfuel
  · rw [Nat.sub_self, Nat.add_zero]
    exact hinv
  · intro j hj
    rw [hX j hj]
    rfl

theorem writeRecords_spec (rcWrite : Nat → Nat) (file0 : Bytes) (iStart : Nat)
    (X : Nat → Nat) (fuel : Nat) (hfuel : 10 ≤ fuel) :
    ∀ (recs : List (List Nat)) (n0 : Nat) (w : FileWriter),
      (∀ a, a ∈ recs → a.length + 1 ≤ fuel ∧ a.length < 18446744073709551616) →
      (∀ j, j < (recordBytes recs).length → X (n0 + j) = (recordBytes recs).getD j 0) →
      WriterHolds w file0 iStart X n0 →
      ∃ r, writeRecords rcWrite fuel recs w = some r ∧ r.nBuffer = w.nBuffer ∧
        WriterHolds r file0 iStart X (n0 + (recordBytes recs).length) := by
  intro recs
  induction recs with
  | nil =>
    intro n0 w _ _ hinv
    exact ⟨w, rfl, rfl, hinv⟩
  | cons a rest ih =>
    intro n0 w hlen hX hinv
    have hal := hlen a (List.mem_cons_self _ _)
    have hl : (recordBytes (a :: rest)).length
        = varintLen a.length + a.length + (recordBytes rest).length := by
      simp only [recordBytes, List.length_append, varintBytes_length]
    rw [hl] at hX
    obtain ⟨w1, hw1, hn1, hi1⟩ := fileWriterWriteVarint_spec rcWrite file0 iStart X n0 a.length
      (by omega)
      (by
        intro j hj
        rw [hX j (by omega)]
        simp only [recordBytes]
        rw [List.append_assoc, List.getD_append _ _ _ _ (by rw [varintBytes_length]; exact hj)])
      fuel w hfuel hinv
    obtain ⟨w2, hw2, hn2, hi2⟩ := fileWriterWrite_spec rcWrite file0 iStart X
      (n0 + varintLen a.length) a
      (by
        intro j hj
        rw [show n0 + varintLen a.length + j = n0 + (varintLen a.length + j) by omega,
          hX _ (by omega)]
        simp only [recordBytes]
        rw [List.append_assoc, List.getD_append_right _ _ _ _
          (by rw [varintBytes_length]; omega), varintBytes_length,
          List.getD_append _ _ _ _ (by omega)]
        congr 1
        omega)
      fuel w1 hal.1 hi1
    obtain ⟨w3, hw3, hn3, hi3⟩ := ih (n0 + varintLen a.length + a.length) w2
      (fun b hb => hlen b (List.mem_cons_of_mem _ hb))
      (by
        intro j hj
        rw [show n0 + varintLen a.length + a.length + j
            = n0 + (varintLen a.length + a.length + j) by omega, hX _ (by omega)]
        simp only [recordBytes]
        rw [List.getD_append_right _ _ _ _
          (by simp only [List.length_append, varintBytes_length]; omega)]
        congr 1
        simp only [List.length_append, varintBytes_length]
        omega)
      hi2
    refine ⟨w3, ?_, by rw [hn3, hn2, hn1], ?_⟩
    · rw [writeRecords, hw1]
      simp only []
      rw [hw2]
      exact hw3
    · rw [hl, show n0 + (varintLen a.length + a.length + (recordBytes rest).length)
        = n0 + varintLen a.length + a.length + (recordBytes rest).length by omega]
      exact hi3

theorem fileWriterFinish_spec (rcWrite : Nat → Nat) (file0 : Bytes) (iStart : Nat)
    (X : Nat → Nat) (n : Nat) (w : FileWriter) (hinv : WriterHolds w file0 iStart X n)
    (hok : (fileWriterFinish rcWrite w).1 = SQLITE_OK) :
    (fileWriterFinish rcWrite w).2.1 = iStart + n ∧
    (∀ i, i < n → (fileWriterFinish rcWrite w).2.2 (iStart + i) = X i) ∧
    (∀ j, j < iStart → (fileWriterFinish rcWrite w).2.2 j = file0 j) := by
  unfold fileWriterFinish at hok ⊢
  by_cases hc : w.eFWErr = 0 ∧ w.iBufEnd > w.iBufStart
  · rw [if_pos hc] at hok ⊢
    obtain ⟨hA, hB, hB2, hC, hD, hE, hF⟩ := hinv hc.1
    simp only [osWrite] at hok ⊢
    simp only [hok, if_true]
    refine ⟨hA, ?_, ?_⟩
    · intro i hi
      by_cases hlt : iStart + i < w.iWriteOff + w.iBufStart
      · rw [memcpy_other _ _ _ _ _ _ (Or.inl hlt)]
        exact hD i hi hlt
      · rw [memcpy_inside _ _ _ _ _ _ (by omega) (by omega)]
        rw [← hE i hi (by omega)]
        congr 1
        omega
    · intro j hj
      rw [memcpy_other _ _ _ _ _ _ (Or.inl (by omega))]
      exact hF j hj
  · rw [if_neg hc] at hok ⊢
    simp only at hok ⊢
    obtain ⟨hA, hB, hB2, hC, hD, hE, hF⟩ := hinv hok
    have he : w.iBufEnd = w.iBufStart := by
      by_contra h
      exact hc ⟨hok, by omega⟩
    exact ⟨hA, fun i hi => hD i hi (by omega), hF⟩

end Btree

namespace Btree

/-! ## The sorter: `vdbeSorterListToPMA` -/

theorem pmaBytes_length (recs : List (List Nat)) :
    (pmaBytes recs).length = varintLen (recordBytes recs).length + (recordBytes recs).length := by
  simp only [pmaBytes, List.length_append, varintBytes_length]

theorem listToPMA_write (env : PmaEnv) (s1 : VdbeSorter)
    (hsize : s1.nInMemory = (recordBytes s1.pRecord).length)
    (hint : s1.nInMemory < 2147483648) (hbuf : 0 < env.nBuf)
    (fuel : Nat) (hfuel : s1.nInMemory + 10 ≤ fuel) :
    ∃ w, fileWriterWriteVarint env.rcWrite fuel
        (fileWriterInit env.nBuf env.bufAllocOk env.raw s1.temp1 s1.iWriteOff) s1.nInMemory
          = some w ∧
      ∃ w2, writeRecords env.rcWrite fuel s1.pRecord w = some w2 ∧
        ((fileWriterFinish env.rcWrite w2).1 = SQLITE_OK →
          (fileWriterFinish env.rcWrite w2).2.1
            = s1.iWriteOff + varintLen s1.nInMemory + s1.nInMemory ∧
          (∀ i, i < (pmaBytes s1.pRecord).length →
            (fileWriterFinish env.rcWrite w2).2.2 (s1.iWriteOff + i)
              = (pmaBytes s1.pRecord).getD i 0) ∧
          (∀ j, j < s1.iWriteOff → (fileWriterFinish env.rcWrite w2).2.2 j = s1.temp1 j)) := by
  have h0 := fileWriterInit_spec env.nBuf env.bufAllocOk env.raw s1.temp1 s1.iWriteOff hbuf
    (fun i => (pmaBytes s1.pRecord).getD i 0)
  obtain ⟨w, hw, _, hwi⟩ := fileWriterWriteVarint_spec env.rcWrite s1.temp1 s1.iWriteOff
    (fun i => (pmaBytes s1.pRecord).getD i 0) 0 s1.nInMemory (by omega)
    (by
      intro j hj
      simp only [pmaBytes, Nat.zero_add, ← hsize]
      rw [List.getD_append _ _ _ _ (by rw [varintBytes_length]; exact hj)])
    fuel _ (by omega) h0
  obtain ⟨w2, hw2, _, hwi2⟩ := writeRecords_spec env.rcWrite s1.temp1 s1.iWriteOff
    (fun i => (pmaBytes s1.pRecord).getD i 0) fuel (by omega) s1.pRecord
    (0 + varintLen s1.nInMemory) w
    (by
      intro a ha
      have := recordBytes_mem_length s1.pRecord a ha
      omega)
    (by
      intro j hj
      simp only [pmaBytes, Nat.zero_add, ← hsize]
      rw [List.getD_append_right _ _ _ _ (by rw [varintBytes_length]; omega),
        varintBytes_length]
      congr 1
      omega)
    hwi
  refine ⟨w, hw, w2, hw2, ?_⟩
  intro hok
  have hf := fileWriterFinish_spec env.rcWrite s1.temp1 s1.iWriteOff _ _ w2 hwi2 hok
  refine ⟨?_, ?_, hf.2.2⟩
  · rw [hf.1, ← hsize]
    omega
  · intro i hi
    rw [pmaBytes_length, ← hsize] at hi
    exact hf.2.1 i (by rw [← hsize]; omega)

theorem vdbeSorterListToPMA_spec (k : SorterCmp) (hk : KeyPreorder k) (env : PmaEnv)
    (s : VdbeSorter) (hne : s.pRecord ≠ [])
    (hsize : s.nInMemory = (recordBytes s.pRecord).length)
    (hint : s.nInMemory < 2147483648) (hbuf : 0 < env.nBuf)
    (fuel : Nat) (hfuel : s.nInMemory + 10 ≤ fuel) :
    ∃ r, vdbeSorterListToPMA k env fuel s = some r ∧
      (r.1 = SQLITE_OK →
        ∃ sorted, List.Perm sorted s.pRecord ∧ List.Sorted (keyLe k) sorted ∧
          (∀ i, i < (pmaBytes sorted).length →
            r.2.temp1 (s.iWriteOff + i) = (pmaBytes sorted).getD i 0) ∧
          (∀ j, j < s.iWriteOff → r.2.temp1 j = s.temp1 j) ∧
          (recordBytes sorted).length = s.nInMemory ∧
          r.2.iWriteOff = s.iWriteOff + varintLen s.nInMemory + s.nInMemory ∧
          r.2.nPMA = s.nPMA + 1 ∧ r.2.pRecord = [] ∧ r.2.hasTemp1 = true ∧
          r.2.nInMemory = s.nInMemory ∧ r.2.mnPmaSize = s.mnPmaSize ∧
          r.2.mxPmaSize = s.mxPmaSize ∧ r.2.iReadOff = s.iReadOff) := by
  have hpos : s.nInMemory ≠ 0 := by
    have := recordBytes_length_ge s.pRecord
    have : 0 < s.pRecord.length := List.length_pos.2 hne
    omega
  unfold vdbeSorterListToPMA
  rw [if_neg hpos]
  cases hal : env.sortAllocOk with
  | false =>
    refine ⟨(SQLITE_NOMEM, s), ?_, ?_⟩
    · simp [vdbeSorterSort, SQLITE_NOMEM, SQLITE_OK]
    · intro h
      exact absurd (show SQLITE_NOMEM = SQLITE_OK from h) (by decide)
  | true =>
    have hcnt : s.pRecord.length < 18446744073709551616 := by
      have := recordBytes_length_ge s.pRecord
      omega
    obtain ⟨s1, hsort, hperm, hsorted, f1, f2, f3, f4, f5, f6, f7, f8⟩ :=
      vdbeSorterSort_spec k hk s hcnt
    rw [hsort]
    simp only []
    have hsz1 : (recordBytes s1.pRecord).length = s.nInMemory := by
      rw [recordBytes_length_perm _ _ hperm, hsize]
    cases ht : s1.hasTemp1 with
    | false =>
      by_cases hrc : env.rcOpenTemp = SQLITE_OK
      · simp only [hrc, and_self, if_true]
        obtain ⟨w, hw, w2, hw2, hfin⟩ := listToPMA_write env { s1 with hasTemp1 := true }
          (by rw [← hsz1] at f3; exact f3) (by rw [← f3] at hint; exact hint) hbuf fuel
          (by rw [← f3] at hfuel; exact hfuel)
        simp only [] at hw hw2 hfin ⊢
        rw [hw]
        simp only []
        rw [hw2]
        refine ⟨_, rfl, ?_⟩
        intro hok
        obtain ⟨g1, g2, g3⟩ := hfin hok
        refine ⟨s1.pRecord, hperm, hsorted, ?_, ?_, hsz1, ?_, ?_, rfl, rfl, f3, f5, f6, f2⟩
        · intro i hi
          rw [← f1]
          exact g2 i hi
        · intro j hj
          rw [← f8]
          exact g3 j (by rw [f1]; exact hj)
        · show (fileWriterFinish env.rcWrite w2).2.1 = _
          rw [g1, f1, f3]
        · show s1.nPMA + 1 = _
          rw [f4]
      · simp only [and_self, if_true, hrc, if_false, false_and]
        exact ⟨_, rfl, fun h => absurd h hrc⟩
    | true =>
      simp only [Bool.true_eq_false, and_false, if_false, if_true]
      obtain ⟨w, hw, w2, hw2, hfin⟩ := listToPMA_write env s1
        (by rw [← hsz1] at f3; exact f3) (by rw [← f3] at hint; exact hint) hbuf fuel
        (by rw [← f3] at hfuel; exact hfuel)
      rw [hw]
      simp only []
      rw [hw2]
      refine ⟨_, rfl, ?_⟩
      intro hok
      obtain ⟨g1, g2, g3⟩ := hfin hok
      refine ⟨s1.pRecord, hperm, hsorted, ?_, ?_, hsz1, ?_, ?_, rfl, ht, f3, f5, f6, f2⟩
      · intro i hi
        rw [← f1]
        exact g2 i hi
      · intro j hj
        rw [← f8]
        exact g3 j (by rw [f1]; exact hj)
      · show (fileWriterFinish env.rcWrite w2).2.1 = _
        rw [g1, f1, f3]
      · show s1.nPMA + 1 = _
        rw [f4]

end Btree

namespace Btree

/-! ## The sorter: the size of the record list and the format of a run -/

theorem listToPMA_ok_record (k : SorterCmp) (env : PmaEnv) (fuel : Nat) (s r : VdbeSorter)
    (hpos : s.nInMemory ≠ 0)
    (h : vdbeSorterListToPMA k env fuel s = some (SQLITE_OK, r)) : r.pRecord = [] := by
  unfold vdbeSorterListToPMA at h
  rw [if_neg hpos] at h
  split at h
  · exact absurd h (by simp)
  · rename_i rc s1 _
    simp only [] at h
    generalize (if rc = SQLITE_OK ∧ s1.hasTemp1 = false then env.rcOpenTemp else rc) = rc2 at h
    generalize (if rc2 = SQLITE_OK ∧ s1.hasTemp1 = false then
      ({ s1 with hasTemp1 := true } : VdbeSorter) else s1) = s2 at h
    by_cases e : rc2 = SQLITE_OK
    · rw [if_pos e] at h
      split at h
      · exact absurd h (by simp)
      · split at h
        · exact absurd h (by simp)
        · injection h with h
          injection h with _ h2
          rw [← h2]
    · rw [if_neg e] at h
      injection h with h
      injection h with h1 _
      exact absurd h1 e

theorem sorterWrite_size (k : SorterCmp) (env : PmaEnv) (fuel : Nat) (s r : VdbeSorter)
    (val : List Nat) (allocOk heapNearlyFull : Bool)
    (hsize : s.nInMemory = (recordBytes s.pRecord).length)
    (h : sqlite3VdbeSorterWrite k env fuel s val allocOk heapNearlyFull = some (SQLITE_OK, r)) :
    r.nInMemory = (recordBytes r.pRecord).length := by
  unfold sqlite3VdbeSorterWrite at h
  cases allocOk with
  | false =>
    simp [SQLITE_NOMEM, SQLITE_OK] at h
  | true =>
    simp only [Bool.true_eq_false, if_false, true_and] at h
    have hv := (varintLen_bounds val.length).1
    split at h
    · split at h
      · exact absurd h (by simp)
      · rename_i rc s2 hl
        injection h with h
        injection h with h1 h2
        subst h1
        have := listToPMA_ok_record k env fuel _ s2 (by simp only []; omega) hl
        rw [← h2]
        show 0 = _
        rw [this]
        rfl
    · injection h with h
      injection h with _ h2
      rw [← h2]
      show s.nInMemory + (varintLen val.length + val.length) = _
      simp only [recordBytes, List.length_append, varintBytes_length]
      omega

/-- C30: the size kept in `nInMemory` is the total length of the encodings of the records in
memory, a relation that every successful `sqlite3VdbeSorterWrite` keeps; and on a non-empty
list `vdbeSorterListToPMA` returns, and when it returns `SQLITE_OK` the file holds from the
previous write offset the varint of `nInMemory` followed by the records in ascending key
order, each as the varint of its length and its bytes, the bytes below that offset are
unchanged, the write offset has advanced by `varintLen(nInMemory) + nInMemory`, `nPMA` by
one, and the list is empty. -/
theorem vdbeSorterListToPMA_format (k : SorterCmp) (env : PmaEnv) (s : VdbeSorter)
    (hsize : s.nInMemory = (recordBytes s.pRecord).length) :
    (∀ (fuel : Nat) (val : List Nat) (allocOk heapNearlyFull : Bool) (r : VdbeSorter),
      sqlite3VdbeSorterWrite k env fuel s val allocOk heapNearlyFull = some (SQLITE_OK, r) →
      r.nInMemory = (recordBytes r.pRecord).length) ∧
    (KeyPreorder k → s.pRecord ≠ [] → s.nInMemory < 2147483648 → 0 < env.nBuf →
      ∀ fuel, s.nInMemory + 10 ≤ fuel →
        ∃ r, vdbeSorterListToPMA k env fuel s = some r ∧
          (r.1 = SQLITE_OK →
            ∃ sorted, List.Perm sorted s.pRecord ∧ List.Sorted (keyLe k) sorted ∧
              (∀ i, i < (pmaBytes sorted).length →
                r.2.temp1 (s.iWriteOff + i) = (pmaBytes sorted).getD i 0) ∧
              (∀ j, j < s.iWriteOff → r.2.temp1 j = s.temp1 j) ∧
              (recordBytes sorted).length = s.nInMemory ∧
              r.2.iWriteOff = s.iWriteOff + varintLen s.nInMemory + s.nInMemory ∧
              r.2.nPMA = s.nPMA + 1 ∧ r.2.pRecord = [])) := by
  refine ⟨fun fuel val a h r hw => sorterWrite_size k env fuel s r val a h hsize hw, ?_⟩
  intro hk hne hint hbuf fuel hfuel
  obtain ⟨r, hr, hp⟩ := vdbeSorterListToPMA_spec k hk env s hne hsize hint hbuf fuel hfuel
  refine ⟨r, hr, fun hok => ?_⟩
  obtain ⟨sorted, h1, h2, h3, h4, h5, h6, h7, h8, _⟩ := hp hok
  exact ⟨sorted, h1, h2, h3, h4, h5, h6, h7, h8⟩

theorem exCmp_preorder : KeyPreorder exCmp := by
  refine ⟨fun a b => ?_, fun a b c h1 h2 => ?_⟩
  · unfold keyLe exCmp
    simp only
    omega
  · unfold keyLe exCmp at *
    simp only at *
    omega

set_option maxRecDepth 100000 in
theorem vdbeSorterListToPMA_format_witness :
    exSorter.nInMemory = (recordBytes exSorter.pRecord).length ∧
    ((∀ (fuel : Nat) (val : List Nat) (allocOk heapNearlyFull : Bool) (r : VdbeSorter),
      sqlite3VdbeSorterWrite exCmp exPmaEnv fuel exSorter val allocOk heapNearlyFull
        = some (SQLITE_OK, r) →
      r.nInMemory = (recordBytes r.pRecord).length) ∧
    (KeyPreorder exCmp → exSorter.pRecord ≠ [] → exSorter.nInMemory < 2147483648 →
      0 < exPmaEnv.nBuf →
      ∀ fuel, exSorter.nInMemory + 10 ≤ fuel →
        ∃ r, vdbeSorterListToPMA exCmp exPmaEnv fuel exSorter = some r ∧
          (r.1 = SQLITE_OK →
            ∃ sorted, List.Perm sorted exSorter.pRecord ∧ List.Sorted (keyLe exCmp) sorted ∧
              (∀ i, i < (pmaBytes sorted).length →
                r.2.temp1 (exSorter.iWriteOff + i) = (pmaBytes sorted).getD i 0) ∧
              (∀ j, j < exSorter.iWriteOff → r.2.temp1 j = exSorter.temp1 j) ∧
              (recordBytes sorted).length = exSorter.nInMemory ∧
              r.2.iWriteOff
                = exSorter.iWriteOff + varintLen exSorter.nInMemory + exSorter.nInMemory ∧
              r.2.nPMA = exSorter.nPMA + 1 ∧ r.2.pRecord = []))) :=
  ⟨by decide, vdbeSorterListToPMA_format exCmp exPmaEnv exSorter (by decide)⟩

end Btree

namespace Btree

/-! ## The sorter: the merge tree -/

theorem keyLe_refl (k : SorterCmp) (hk : KeyPreorder k) (a : List Nat) : keyLe k a a := by
  rcases hk.1 a a with h | h <;> exact h

theorem doCompare_fields (k : SorterCmp) (m : SorterMerge) (i : Nat) :
    (vdbeSorterDoCompare k m i).nTree = m.nTree ∧
    (vdbeSorterDoCompare k m i).aIter = m.aIter ∧
    (vdbeSorterDoCompare k m i).hasTree = m.hasTree ∧
    (vdbeSorterDoCompare k m i).s.temp1 = m.s.temp1 ∧
    (vdbeSorterDoCompare k m i).s.iWriteOff = m.s.iWriteOff ∧
    (vdbeSorterDoCompare k m i).s.iReadOff = m.s.iReadOff ∧
    (vdbeSorterDoCompare k m i).s.nPMA = m.s.nPMA ∧
    (vdbeSorterDoCompare k m i).s.pRecord = m.s.pRecord ∧
    (vdbeSorterDoCompare k m i).s.nInMemory = m.s.nInMemory ∧
    (vdbeSorterDoCompare k m i).s.hasTemp1 = m.s.hasTemp1 ∧
    (∀ j, j ≠ i → (vdbeSorterDoCompare k m i).aTree j = m.aTree j) := by
  unfold vdbeSorterDoCompare
  simp only
  split_ifs <;>
    exact ⟨rfl, rfl, rfl, rfl, rfl, rfl, rfl, rfl, rfl, rfl, fun j hj => setAt_other _ _ _ _ hj⟩

/-- The iterator that `vdbeSorterDoCompare` puts into the slot. -/
theorem doCompare_slot (k : SorterCmp) (m : SorterMerge) (i : Nat) :
    (vdbeSorterDoCompare k m i).aTree i =
      if (m.aIter (if i ≥ m.nTree / 2 then (i - m.nTree / 2) * 2 else m.aTree (i * 2))).pFile
          = false then
        (if i ≥ m.nTree / 2 then (i - m.nTree / 2) * 2 + 1 else m.aTree (i * 2 + 1))
      else if (m.aIter (if i ≥ m.nTree / 2 then (i - m.nTree / 2) * 2 + 1
          else m.aTree (i * 2 + 1))).pFile = false then
        (if i ≥ m.nTree / 2 then (i - m.nTree / 2) * 2 else m.aTree (i * 2))
      else if keyLe k
          (iterKey (m.aIter (if i ≥ m.nTree / 2 then (i - m.nTree / 2) * 2
            else m.aTree (i * 2))))
          (iterKey (m.aIter (if i ≥ m.nTree / 2 then (i - m.nTree / 2) * 2 + 1
            else m.aTree (i * 2 + 1)))) then
        (if i ≥ m.nTree / 2 then (i - m.nTree / 2) * 2 else m.aTree (i * 2))
      else (if i ≥ m.nTree / 2 then (i - m.nTree / 2) * 2 + 1 else m.aTree (i * 2 + 1)) := by
  unfold vdbeSorterDoCompare keyLe
  simp only
  rw [sorterCompare_head k _ _ _ _ (Or.inl rfl)]
  split_ifs <;> simp only [setAt_same]

theorem winner_single (k : SorterCmp) (hk : KeyPreorder k) (aIter : Nat → VdbeSorterIter)
    (lo : Nat) : IsRangeWinner k aIter lo 1 lo := by
  refine ⟨le_refl _, by omega, ?_, ?_⟩
  · intro h j h1 h2
    have : j = lo := by omega
    rw [this]
    exact h
  · intro _ j h1 h2 _
    have : j = lo := by omega
    rw [this]
    exact ⟨keyLe_refl k hk _, fun h => absurd h (lt_irrefl _)⟩

theorem winner_congr (k : SorterCmp) (a b : Nat → VdbeSorterIter) (lo len w : Nat)
    (h : ∀ j, lo ≤ j → j < lo + len → b j = a j) (hw : IsRangeWinner k a lo len w) :
    IsRangeWinner k b lo len w := by
  obtain ⟨h1, h2, h3, h4⟩ := hw
  refine ⟨h1, h2, ?_, ?_⟩
  · intro e j hj1 hj2
    rw [h w h1 h2] at e
    rw [h j hj1 hj2]
    exact h3 e j hj1 hj2
  · intro e j hj1 hj2 ej
    rw [h w h1 h2] at e ⊢
    rw [h j hj1 hj2] at ej ⊢
    exact h4 e j hj1 hj2 ej

/-- The comparison of `vdbeSorterDoCompare` on the winners of two adjacent blocks gives the
winner of the two blocks together. -/
theorem winner_combine (k : SorterCmp) (hk : KeyPreorder k) (aIter : Nat → VdbeSorterIter)
    (lo len L R : Nat) (hL : IsRangeWinner k aIter lo len L)
    (hR : IsRangeWinner k aIter (lo + len) len R) :
    IsRangeWinner k aIter lo (len + len)
      (if (aIter L).pFile = false then R
       else if (aIter R).pFile = false then L
       else if keyLe k (iterKey (aIter L)) (iterKey (aIter R)) then L else R) := by
  obtain ⟨l1, l2, l3, l4⟩ := hL
  obtain ⟨r1, r2, r3, r4⟩ := hR
  by_cases eL : (aIter L).pFile = false
  · rw [if_pos eL]
    refine ⟨by omega, by omega, ?_, ?_⟩
    · intro eR j hj1 hj2
      by_cases hj : j < lo + len
      · exact l3 eL j hj1 hj
      · exact r3 eR j (by omega) (by omega)
    · intro eR j hj1 hj2 ej
      by_cases hj : j < lo + len
      · have := l3 eL j hj1 hj
        rw [this] at ej
        exact absurd ej (by simp)
      · exact r4 eR j (by omega) (by omega) ej
  · rw [if_neg eL]
    have eL1 : (aIter L).pFile = true := by
      cases h : (aIter L).pFile with
      | false => exact absurd h eL
      | true => rfl
    by_cases eR : (aIter R).pFile = false
    · rw [if_pos eR]
      refine ⟨l1, by omega, fun e => absurd e eL, ?_⟩
      intro _ j hj1 hj2 ej
      by_cases hj : j < lo + len
      · exact l4 eL1 j hj1 hj ej
      · have := r3 eR j (by omega) (by omega)
        rw [this] at ej
        exact absurd ej (by simp)
    · rw [if_neg eR]
      have eR1 : (aIter R).pFile = true := by
        cases h : (aIter R).pFile with
        | false => exact absurd h eR
        | true => rfl
      by_cases hle : keyLe k (iterKey (aIter L)) (iterKey (aIter R))
      · rw [if_pos hle]
        refine ⟨l1, by omega, fun e => absurd e eL, ?_⟩
        intro _ j hj1 hj2 ej
        by_cases hj : j < lo + len
        · exact l4 eL1 j hj1 hj ej
        · have := r4 eR1 j (by omega) (by omega) ej
          exact ⟨hk.2 _ _ _ hle this.1, fun hlt => by omega⟩
      · rw [if_neg hle]
        have hRL : keyLe k (iterKey (aIter R)) (iterKey (aIter L)) := by
          rcases hk.1 (iterKey (aIter L)) (iterKey (aIter R)) with h | h
          · exact absurd h hle
          · exact h
        refine ⟨by omega, by omega, fun e => absurd e eR, ?_⟩
        intro _ j hj1 hj2 ej
        by_cases hj : j < lo + len
        · have := l4 eL1 j hj1 hj ej
          exact ⟨hk.2 _ _ _ hRL this.1,
            fun _ hjR => hle (hk.2 _ _ _ this.1 hjR)⟩
        · exact r4 eR1 j (by omega) (by omega) ej

end Btree

namespace Btree

/-! ## The sorter: recomputing a slot of the merge tree -/

theorem two_pow_succ (e : Nat) : 2 ^ (e + 1) = 2 * 2 ^ e := by
  rw [pow_succ]
  omega

theorem two_pow_pos (e : Nat) : 0 < 2 ^ e := Nat.pow_pos (by decide)

/-- `vdbeSorterDoCompare` on the `c`-th slot at height `d` computes the winner of its block
when its two children hold the winners of theirs. -/
theorem doCompare_valid (k : SorterCmp) (hk : KeyPreorder k) (m : SorterMerge) (e d c : Nat)
    (hN : m.nTree = 2 ^ (e + d)) (hd : 1 ≤ d) (hc : c < 2 ^ e)
    (hch : 2 ≤ d →
      IsRangeWinner k m.aIter (2 * c * 2 ^ (d - 1)) (2 ^ (d - 1)) (m.aTree (2 ^ (e + 1) + 2 * c)) ∧
      IsRangeWinner k m.aIter ((2 * c + 1) * 2 ^ (d - 1)) (2 ^ (d - 1))
        (m.aTree (2 ^ (e + 1) + (2 * c + 1)))) :
    IsRangeWinner k (vdbeSorterDoCompare k m (2 ^ e + c)).aIter (c * 2 ^ d) (2 ^ d)
      ((vdbeSorterDoCompare k m (2 ^ e + c)).aTree (2 ^ e + c)) := by
  rw [(doCompare_fields k m _).2.1, doCompare_slot]
  have hp1 := two_pow_succ e
  obtain ⟨d1, rfl⟩ : ∃ d1, d = d1 + 1 := ⟨d - 1, by omega⟩
  have hhalf : m.nTree / 2 = 2 ^ (e + d1) := by
    rw [hN, show e + (d1 + 1) = (e + d1) + 1 by omega, two_pow_succ]
    omega
  rw [hhalf]
  by_cases h1 : d1 = 0
  · subst h1
    simp only [Nat.add_zero, ge_iff_le, Nat.le_add_right, if_true, Nat.add_sub_cancel_left,
      zero_add, pow_one]
    have := winner_combine k hk m.aIter (c * 2) 1 (c * 2) (c * 2 + 1)
      (winner_single k hk _ _) (winner_single k hk _ _)
    exact this
  · have hmono : 2 ^ (e + 1) ≤ 2 ^ (e + d1) :=
      Nat.pow_le_pow_right (by decide) (by omega)
    have hlt : ¬ (2 ^ e + c ≥ 2 ^ (e + d1)) := by omega
    simp only [hlt, if_false]
    obtain ⟨c1, c2⟩ := hch (by omega)
    simp only [Nat.add_sub_cancel] at c1 c2
    have e1 : (2 ^ e + c) * 2 = 2 ^ (e + 1) + 2 * c := by omega
    have e2 : 2 ^ (e + 1) + 2 * c + 1 = 2 ^ (e + 1) + (2 * c + 1) := by omega
    rw [e1, e2]
    have e3 : c * 2 ^ (d1 + 1) = 2 * c * 2 ^ d1 := by
      rw [two_pow_succ]
      ring
    have e4 : (2 * c + 1) * 2 ^ d1 = 2 * c * 2 ^ d1 + 2 ^ d1 := by ring
    have e5 : 2 ^ (d1 + 1) = 2 ^ d1 + 2 ^ d1 := by
      rw [two_pow_succ]
      omega
    rw [e3, e5]
    rw [e4] at c2
    exact winner_combine k hk m.aIter _ _ _ _ c1 c2

/-- A slot has one height and one position. -/
theorem slot_unique (h d d2 c c2 : Nat) (hd : d ≤ h) (hd2 : d2 ≤ h)
    (hc : c < 2 ^ (h - d)) (hc2 : c2 < 2 ^ (h - d2))
    (e : 2 ^ (h - d) + c = 2 ^ (h - d2) + c2) : d = d2 ∧ c = c2 := by
  have key : ∀ a b ca cb : Nat, a < b → ca < 2 ^ a → 2 ^ a + ca = 2 ^ b + cb → False := by
    intro a b ca cb hab hca he
    have : 2 ^ (a + 1) ≤ 2 ^ b := Nat.pow_le_pow_right (by decide) (by omega)
    rw [two_pow_succ] at this
    omega
  rcases Nat.lt_trichotomy (h - d) (h - d2) with hlt | heq | hgt
  · exact absurd (key _ _ c c2 hlt hc e) id
  · have hdd : d = d2 := by omega
    subst hdd
    exact ⟨rfl, by omega⟩
  · exact absurd (key _ _ c2 c hgt hc2 e.symm) id

/-- Every slot from 1 to `2^h - 1` is the `c`-th slot at some height `d`. -/
theorem slot_exists (h i : Nat) (h1 : 1 ≤ i) (h2 : i < 2 ^ h) :
    ∃ d c, 1 ≤ d ∧ d ≤ h ∧ c < 2 ^ (h - d) ∧ i = 2 ^ (h - d) + c := by
  have hlog := Nat.pow_log_le_self 2 (show i ≠ 0 by omega)
  have hlog2 := Nat.lt_pow_succ_log_self (show 1 < 2 by decide) i
  have hlt : Nat.log 2 i < h := by
    by_contra hge
    have : 2 ^ h ≤ 2 ^ Nat.log 2 i := Nat.pow_le_pow_right (by decide) (by omega)
    omega
  refine ⟨h - Nat.log 2 i, i - 2 ^ Nat.log 2 i, by omega, by omega, ?_, ?_⟩
  · rw [show h - (h - Nat.log 2 i) = Nat.log 2 i by omega]
    rw [two_pow_succ] at hlog2
    omega
  · rw [show h - (h - Nat.log 2 i) = Nat.log 2 i by omega]
    omega

end Btree

namespace Btree

/-! ## The sorter: the loops over the merge tree -/

theorem initTreeLoop_spec (k : SorterCmp) (hk : KeyPreorder k) (h : Nat) :
    ∀ (t : Nat) (m : SorterMerge), m.nTree = 2 ^ h →
      (∀ d c, 1 ≤ d → d ≤ h → c < 2 ^ (h - d) → t < 2 ^ (h - d) + c →
        IsRangeWinner k m.aIter (c * 2 ^ d) (2 ^ d) (m.aTree (2 ^ (h - d) + c))) →
      TreeInv k h (initTreeLoop k t m) ∧ (initTreeLoop k t m).aIter = m.aIter ∧
      (initTreeLoop k t m).hasTree = m.hasTree ∧
      (initTreeLoop k t m).s.temp1 = m.s.temp1 ∧
      (initTreeLoop k t m).s.iWriteOff = m.s.iWriteOff ∧
      (initTreeLoop k t m).s.iReadOff = m.s.iReadOff ∧
      (initTreeLoop k t m).s.nPMA = m.s.nPMA ∧
      (initTreeLoop k t m).s.pRecord = m.s.pRecord ∧
      (initTreeLoop k t m).s.nInMemory = m.s.nInMemory ∧
      (initTreeLoop k t m).s.hasTemp1 = m.s.hasTemp1 := by
  intro t
  induction t with
  | zero =>
    intro m hN hv
    refine ⟨⟨hN, ?_⟩, rfl, rfl, rfl, rfl, rfl, rfl, rfl, rfl, rfl⟩
    intro d c h1 h2 h3
    exact hv d c h1 h2 h3 (by have := two_pow_pos (h - d); omega)
  | succ t ih =>
    intro m hN hv
    rw [initTreeLoop]
    obtain ⟨f1, f2, f3, f4, f5, f6, f7, f8, f9, f10, f11⟩ := doCompare_fields k m (t + 1)
    have := ih (vdbeSorterDoCompare k m (t + 1)) (by rw [f1, hN])
      (by
        intro d c h1 h2 h3 h4
        by_cases e : 2 ^ (h - d) + c = t + 1
        · rw [← e]
          apply doCompare_valid k hk m (h - d) d c (by rw [hN]; congr 1; omega) h1 h3
          intro hd2
          have hsub : h - (d - 1) = h - d + 1 := by omega
          have hp := two_pow_succ (h - d)
          have c1 := hv (d - 1) (2 * c) (by omega) (by omega) (by rw [hsub]; omega)
            (by rw [hsub]; omega)
          have c2 := hv (d - 1) (2 * c + 1) (by omega) (by omega) (by rw [hsub]; omega)
            (by rw [hsub]; omega)
          rw [hsub] at c1 c2
          exact ⟨c1, c2⟩
        · rw [f2, f11 _ e]
          exact hv d c h1 h2 h3 (by omega))
    rw [f2, f3, f4, f5, f6, f7, f8, f9, f10] at this
    exact this

theorem path_slot (h p d : Nat) (hd : d ≤ h) (hp : p < 2 ^ h) :
    (2 ^ h + p) / 2 ^ d = 2 ^ (h - d) + p / 2 ^ d ∧ p / 2 ^ d < 2 ^ (h - d) := by
  have e : 2 ^ h = 2 ^ (h - d) * 2 ^ d := by
    rw [← pow_add]
    congr 1
    omega
  constructor
  · rw [e, Nat.add_comm, Nat.add_mul_div_right _ _ (two_pow_pos d), Nat.add_comm]
  · rw [Nat.div_lt_iff_lt_mul (two_pow_pos d), ← e]
    exact hp

theorem path_end (h p : Nat) (hp : p < 2 ^ h) : (2 ^ h + p) / 2 ^ (h + 1) = 0 := by
  apply Nat.div_eq_of_lt
  rw [two_pow_succ]
  omega

theorem nextTreeLoop_spec (k : SorterCmp) (hk : KeyPreorder k) (h p : Nat) (hp : p < 2 ^ h) :
    ∀ (n d fuel : Nat) (m : SorterMerge), 1 ≤ d → d + n = h + 1 → n + 1 ≤ fuel →
      m.nTree = 2 ^ h →
      (∀ d2 c2, 1 ≤ d2 → d2 ≤ h → c2 < 2 ^ (h - d2) → (d2 < d ∨ c2 ≠ p / 2 ^ d2) →
        IsRangeWinner k m.aIter (c2 * 2 ^ d2) (2 ^ d2) (m.aTree (2 ^ (h - d2) + c2))) →
      ∃ r, nextTreeLoop k fuel ((2 ^ h + p) / 2 ^ d) m = some r ∧ TreeInv k h r ∧
        r.aIter = m.aIter ∧ r.hasTree = m.hasTree ∧ r.s.temp1 = m.s.temp1 ∧
        r.s.iWriteOff = m.s.iWriteOff ∧ r.s.iReadOff = m.s.iReadOff ∧ r.s.nPMA = m.s.nPMA ∧
        r.s.pRecord = m.s.pRecord ∧ r.s.nInMemory = m.s.nInMemory ∧
        r.s.hasTemp1 = m.s.hasTemp1 := by
  intro n
  induction n with
  | zero =>
    intro d fuel m h1 h2 h3 hN hv
    obtain ⟨f, rfl⟩ : ∃ f, fuel = f + 1 := ⟨fuel - 1, by omega⟩
    have hd : d = h + 1 := by omega
    subst hd
    rw [path_end h p hp, nextTreeLoop, if_neg (by omega)]
    refine ⟨m, rfl, ⟨hN, ?_⟩, rfl, rfl, rfl, rfl, rfl, rfl, rfl, rfl, rfl⟩
    intro d2 c2 g1 g2 g3
    exact hv d2 c2 g1 g2 g3 (Or.inl (by omega))
  | succ n ih =>
    intro d fuel m h1 h2 h3 hN hv
    obtain ⟨f, rfl⟩ : ∃ f, fuel = f + 1 := ⟨fuel - 1, by omega⟩
    have hdh : d ≤ h := by omega
    obtain ⟨ps, pc⟩ := path_slot h p d hdh hp
    have hpos : (2 ^ h + p) / 2 ^ d > 0 := by
      rw [ps]
      exact Nat.lt_of_lt_of_le (two_pow_pos (h - d)) (Nat.le_add_right _ _)
    rw [nextTreeLoop, if_pos hpos]
    have hhalf : (2 ^ h + p) / 2 ^ d / 2 = (2 ^ h + p) / 2 ^ (d + 1) := by
      rw [Nat.div_div_eq_div_mul, two_pow_succ, Nat.mul_comm]
    rw [hhalf]
    obtain ⟨f1, f2, f3, f4, f5, f6, f7, f8, f9, f10, f11⟩ :=
      doCompare_fields k m ((2 ^ h + p) / 2 ^ d)
    obtain ⟨r, hr, hri, g2, g3, g4, g5, g6, g7, g8, g9, g10⟩ :=
      ih (d + 1) f (vdbeSorterDoCompare k m ((2 ^ h + p) / 2 ^ d)) (by omega) (by omega)
        (by omega) (by rw [f1, hN])
        (by
          intro d2 c2 q1 q2 q3 q4
          by_cases e : 2 ^ (h - d2) + c2 = (2 ^ h + p) / 2 ^ d
          · rw [ps] at e
            obtain ⟨e1, e2⟩ := slot_unique h d2 d c2 (p / 2 ^ d) q2 hdh q3 pc e
            subst e1
            rw [← ps] at e
            rw [e.symm]
            apply doCompare_valid k hk m (h - d2) d2 c2 (by rw [hN]; congr 1; omega) q1 q3
            intro hd2
            have hsub : h - (d2 - 1) = h - d2 + 1 := by omega
            have hpw := two_pow_succ (h - d2)
            have c1 := hv (d2 - 1) (2 * c2) (by omega) (by omega) (by rw [hsub]; omega)
              (Or.inl (by omega))
            have c3 := hv (d2 - 1) (2 * c2 + 1) (by omega) (by omega) (by rw [hsub]; omega)
              (Or.inl (by omega))
            rw [hsub] at c1 c3
            exact ⟨c1, c3⟩
          · rw [f2, f11 _ e]
            apply hv d2 c2 q1 q2 q3
            rcases q4 with q4 | q4
            · rcases Nat.lt_or_ge d2 d with hlt | hge
              · exact Or.inl hlt
              · have hdd : d2 = d := by omega
                subst hdd
                right
                intro hc
                apply e
                rw [ps, hc]
            · exact Or.inr q4)
    refine ⟨r, hr, hri, ?_⟩
    rw [g2, g3, g4, g5, g6, g7, g8, g9, g10, f2, f3, f4, f5, f6, f7, f8, f9, f10]
    exact ⟨rfl, rfl, rfl, rfl, rfl, rfl, rfl, rfl, rfl⟩

theorem nextTreeLoop_path (k : SorterCmp) :
    ∀ (fuel i : Nat) (m r : SorterMerge), nextTreeLoop k fuel i m = some r →
      r = (treePath fuel i).foldl (vdbeSorterDoCompare k) m := by
  intro fuel
  induction fuel with
  | zero => intro i m r h; simp [nextTreeLoop] at h
  | succ fuel ih =>
    intro i m r h
    rw [nextTreeLoop] at h
    rw [treePath]
    by_cases hi : i > 0
    · rw [if_pos hi] at h ⊢
      exact ih _ _ _ h
    · rw [if_neg hi] at h ⊢
      injection h with h
      exact h.symm

theorem treePath_eq (h p : Nat) (hp : p < 2 ^ h) :
    ∀ (n d fuel : Nat), d + n = h + 1 → n + 1 ≤ fuel →
      treePath fuel ((2 ^ h + p) / 2 ^ d)
        = (List.range n).map (fun t => (2 ^ h + p) / 2 ^ (d + t)) := by
  intro n
  induction n with
  | zero =>
    intro d fuel h2 h3
    obtain ⟨f, rfl⟩ : ∃ f, fuel = f + 1 := ⟨fuel - 1, by omega⟩
    have hd : d = h + 1 := by omega
    subst hd
    rw [path_end h p hp, treePath, if_neg (by omega)]
    rfl
  | succ n ih =>
    intro d fuel h2 h3
    obtain ⟨f, rfl⟩ : ∃ f, fuel = f + 1 := ⟨fuel - 1, by omega⟩
    obtain ⟨ps, _⟩ := path_slot h p d (by omega) hp
    have hpos : (2 ^ h + p) / 2 ^ d > 0 := by
      rw [ps]
      exact Nat.lt_of_lt_of_le (two_pow_pos (h - d)) (Nat.le_add_right _ _)
    have hhalf : (2 ^ h + p) / 2 ^ d / 2 = (2 ^ h + p) / 2 ^ (d + 1) := by
      rw [Nat.div_div_eq_div_mul, two_pow_succ, Nat.mul_comm]
    rw [treePath, if_pos hpos, hhalf, ih (d + 1) f (by omega) (by omega),
      List.range_succ_eq_map, List.map_cons, List.map_map]
    congr 1
    apply List.map_congr_left
    intro t _
    simp only [Function.comp]
    congr 2
    omega

end Btree

namespace Btree

/-! ## The sorter: the merge tree after `vdbeSorterInitMerge` and `sqlite3VdbeSorterNext` -/

theorem initIterLoop_fields (env : MergeEnv) (fuel : Nat) :
    ∀ (n i : Nat) (m : SorterMerge) (nByte : Nat) (r : Nat × SorterMerge × Nat),
      initIterLoop env fuel n i m nByte = some r →
      r.2.1.nTree = m.nTree ∧ r.2.1.aTree = m.aTree ∧ r.2.1.hasTree = m.hasTree ∧
      r.2.1.s.temp1 = m.s.temp1 ∧ r.2.1.s.iWriteOff = m.s.iWriteOff ∧
      r.2.1.s.nPMA = m.s.nPMA ∧ r.2.1.s.pRecord = m.s.pRecord ∧
      r.2.1.s.nInMemory = m.s.nInMemory ∧ r.2.1.s.hasTemp1 = m.s.hasTemp1 := by
  intro n
  induction n with
  | zero =>
    intro i m nByte r h
    simp only [initIterLoop] at h
    injection h with h
    subst h
    exact ⟨rfl, rfl, rfl, rfl, rfl, rfl, rfl, rfl, rfl⟩
  | succ n ih =>
    intro i m nByte r h
    rw [initIterLoop] at h
    split at h
    · exact absurd h (by simp)
    · rename_i rc it nb _
      split at h
      · injection h with h
        subst h
        exact ⟨rfl, rfl, rfl, rfl, rfl, rfl, rfl, rfl, rfl⟩
      · have := ih _ _ _ r h
        exact this

theorem sorterInitMerge_tree (k : SorterCmp) (hk : KeyPreorder k) (h : Nat)
    (m : SorterMerge) (hN : m.nTree = 2 ^ h) (env : MergeEnv) (fuel : Nat) (r : SorterMerge)
    (nByte : Nat) (hr : vdbeSorterInitMerge k env fuel m = some (SQLITE_OK, r, nByte)) :
    TreeInv k h r := by
  unfold vdbeSorterInitMerge at hr
  split at hr
  · exact absurd hr (by simp)
  · rename_i rc m1 nb hl
    have hf := initIterLoop_fields env fuel 16 0 m 0 _ hl
    simp only at hf
    by_cases e : rc = SQLITE_OK
    · rw [if_pos e] at hr
      injection hr with hr
      injection hr with _ hr
      injection hr with hr _
      rw [← hr]
      apply (initTreeLoop_spec k hk h (m1.nTree - 1) m1 (by rw [hf.1, hN]) ?_).1
      intro d c h1 h2 h3 h4
      exfalso
      have hm : 2 ^ (h - d + 1) ≤ 2 ^ h :=
        Nat.pow_le_pow_right (by decide) (by omega)
      rw [two_pow_succ] at hm
      rw [hf.1, hN] at h4
      omega
    · rw [if_neg e] at hr
      injection hr with hr
      injection hr with hr _
      exact absurd hr e

theorem sorterNext_tree (k : SorterCmp) (hk : KeyPreorder k) (h : Nat) (hh : 1 ≤ h)
    (m : SorterMerge) (hinv : TreeInv k h m) (ht : m.hasTree = true) (env : MergeEnv)
    (fuel : Nat) (it : VdbeSorterIter) (hfuel : h + 1 ≤ fuel)
    (hit : vdbeSorterIterNext env m.s.temp1 fuel (m.aIter (m.aTree 1)) = some (SQLITE_OK, it)) :
    ∃ r bEof, sqlite3VdbeSorterNext k env fuel m = some (SQLITE_OK, bEof, r) ∧
      TreeInv k h r ∧ (bEof = true ↔ (r.aIter (r.aTree 1)).pFile = false) ∧
      r.aIter = setAt m.aIter (m.aTree 1) it ∧
      r = ((List.range h).map (fun t => (m.nTree + m.aTree 1) / 2 ^ (t + 1))).foldl
        (vdbeSorterDoCompare k) { m with aIter := setAt m.aIter (m.aTree 1) it } ∧
      r.hasTree = true ∧ r.s.temp1 = m.s.temp1 ∧ r.s.iWriteOff = m.s.iWriteOff ∧
      r.s.iReadOff = m.s.iReadOff ∧ r.s.nPMA = m.s.nPMA ∧ r.s.pRecord = m.s.pRecord := by
  obtain ⟨hN, hv⟩ := hinv
  have hroot := hv h 0 hh (le_refl _) (by rw [Nat.sub_self]; exact Nat.one_pos)
  rw [Nat.sub_self, pow_zero, Nat.zero_mul, Nat.add_zero] at hroot
  have hp : m.aTree 1 < 2 ^ h := by
    have := hroot.2.1
    omega
  obtain ⟨r, hr, hri, g2, g3, g4, g5, g6, g7, g8, _, _⟩ :=
    nextTreeLoop_spec k hk h (m.aTree 1) hp h 1 fuel
      { m with aIter := setAt m.aIter (m.aTree 1) it } (le_refl _) (by omega) hfuel hN
      (by
        intro d2 c2 q1 q2 q3 q4
        have hne : c2 ≠ m.aTree 1 / 2 ^ d2 := by
          rcases q4 with q4 | q4
          · omega
          · exact q4
        apply winner_congr k m.aIter _ _ _ _ _ (hv d2 c2 q1 q2 q3)
        intro j hj1 hj2
        apply setAt_other
        intro ej
        apply hne
        rw [← ej]
        exact (Nat.div_eq_of_lt_le hj1 (by rw [Nat.add_mul, Nat.one_mul]; exact hj2)).symm)
  have hpath := nextTreeLoop_path k fuel _ _ r hr
  rw [pow_one] at hr hpath
  have hpe := treePath_eq h (m.aTree 1) hp h 1 fuel (by omega) hfuel
  rw [pow_one] at hpe
  refine ⟨r, decide ((r.aIter (r.aTree 1)).pFile = false), ?_, hri, by simp, g2, ?_, ?_, g4, g5,
    g6, g7, g8⟩
  · unfold sqlite3VdbeSorterNext
    rw [if_pos ht, hit]
    simp only [if_true]
    simp only [hN] at hr ⊢
    rw [hr]
  · rw [hpath, hpe, hN]
    congr 1
    apply List.map_congr_left
    intro t _
    rw [Nat.add_comm 1 t]
  · rw [g3]
    exact ht

/-- C29: on a merge over `nTree = 2^h` iterators, whose slots `1 .. nTree-1` are the `c`-th
slots at the heights `d = 1 .. h`, each slot names the winner of its block of `2^d` iterators
after `vdbeSorterInitMerge` and after every successful `sqlite3VdbeSorterNext`; so `aTree[1]`
names an iterator whose key is not greater than any key of an iterator not at EOF, of lowest
index among those of equal key, and at EOF only when all are; and `sqlite3VdbeSorterNext`
recomputes the `h` slots `(nTree+iPrev)/2, (nTree+iPrev)/4, .., 1` and no other. -/
theorem merge_tree_winners (k : SorterCmp) (hk : KeyPreorder k) (h : Nat) (hh : 1 ≤ h)
    (m : SorterMerge) (hN : m.nTree = 2 ^ h) :
    (∀ i, 1 ≤ i → i < m.nTree → ∃ d c, 1 ≤ d ∧ d ≤ h ∧ c < 2 ^ (h - d) ∧ i = 2 ^ (h - d) + c) ∧
    (∀ env fuel r nByte, vdbeSorterInitMerge k env fuel m = some (SQLITE_OK, r, nByte) →
      TreeInv k h r) ∧
    (TreeInv k h m → m.hasTree = true →
      IsRangeWinner k m.aIter 0 m.nTree (m.aTree 1) ∧
      ∀ env fuel it, h + 1 ≤ fuel →
        vdbeSorterIterNext env m.s.temp1 fuel (m.aIter (m.aTree 1)) = some (SQLITE_OK, it) →
        ∃ r bEof, sqlite3VdbeSorterNext k env fuel m = some (SQLITE_OK, bEof, r) ∧
          TreeInv k h r ∧ (bEof = true ↔ (r.aIter (r.aTree 1)).pFile = false) ∧
          r.aIter = setAt m.aIter (m.aTree 1) it ∧
          r = ((List.range h).map (fun t => (m.nTree + m.aTree 1) / 2 ^ (t + 1))).foldl
            (vdbeSorterDoCompare k) { m with aIter := setAt m.aIter (m.aTree 1) it }) := by
  refine ⟨?_, ?_, ?_⟩
  · intro i h1 h2
    rw [hN] at h2
    exact slot_exists h i h1 h2
  · intro env fuel r nByte hr
    exact sorterInitMerge_tree k hk h m hN env fuel r nByte hr
  · intro hinv ht
    constructor
    · have hroot := hinv.2 h 0 hh (le_refl _) (by rw [Nat.sub_self]; exact Nat.one_pos)
      rw [Nat.sub_self, pow_zero, Nat.zero_mul, Nat.add_zero, ← hN] at hroot
      exact hroot
    · intro env fuel it hfuel hit
      obtain ⟨r, bEof, h1, h2, h3, h4, h5, _⟩ :=
        sorterNext_tree k hk h hh m hinv ht env fuel it hfuel hit
      exact ⟨r, bEof, h1, h2, h3, h4, h5⟩

theorem merge_tree_winners_witness :
    KeyPreorder exCmp ∧ 1 ≤ 1 ∧ exMerge.nTree = 2 ^ 1 ∧
    ((∀ i, 1 ≤ i → i < exMerge.nTree →
      ∃ d c, 1 ≤ d ∧ d ≤ 1 ∧ c < 2 ^ (1 - d) ∧ i = 2 ^ (1 - d) + c) ∧
    (∀ env fuel r nByte,
      vdbeSorterInitMerge exCmp env fuel exMerge = some (SQLITE_OK, r, nByte) →
      TreeInv exCmp 1 r) ∧
    (TreeInv exCmp 1 exMerge → exMerge.hasTree = true →
      IsRangeWinner exCmp exMerge.aIter 0 exMerge.nTree (exMerge.aTree 1) ∧
      ∀ env fuel it, 1 + 1 ≤ fuel →
        vdbeSorterIterNext env exMerge.s.temp1 fuel (exMerge.aIter (exMerge.aTree 1))
          = some (SQLITE_OK, it) →
        ∃ r bEof, sqlite3VdbeSorterNext exCmp env fuel exMerge = some (SQLITE_OK, bEof, r) ∧
          TreeInv exCmp 1 r ∧ (bEof = true ↔ (r.aIter (r.aTree 1)).pFile = false) ∧
          r.aIter = setAt exMerge.aIter (exMerge.aTree 1) it ∧
          r = ((List.range 1).map (fun t => (exMerge.nTree + exMerge.aTree 1) / 2 ^ (t + 1))).foldl
            (vdbeSorterDoCompare exCmp)
            { exMerge with aIter := setAt exMerge.aIter (exMerge.aTree 1) it })) :=
  ⟨exCmp_preorder, le_refl _, rfl,
    merge_tree_winners exCmp exCmp_preorder 1 (le_refl _) exMerge rfl⟩

end Btree

namespace Btree

/-! ## The cursor path inside a table B-tree -/

theorem tree_pos (pBt : BtShared) (store : PageStore) (d pgno : Nat) (lo hi : Int)
    (h : TableTree pBt store d pgno lo hi) : 1 ≤ d := by
  cases d with
  | zero => exact absurd h id
  | succ d => omega

theorem tree_page (pBt : BtShared) (store : PageStore) (d pgno : Nat) (lo hi : Int)
    (pg : MemPage) (ht : TableTree pBt store d pgno lo hi)
    (hpg : initPage pBt store pgno = some pg) :
    pg.intKey ≠ 0 ∧ 1 ≤ pg.nCell ∧
    (∀ i, i < pg.nCell - 1 → cellKey pg i < cellKey pg (i + 1)) ∧
    lo < cellKey pg 0 ∧ cellKey pg (pg.nCell - 1) ≤ hi ∧
    (pg.leaf = 0 → ∀ i, i ≤ pg.nCell →
      TableTree pBt store (d - 1) (childPgno pg i)
        (if i = 0 then lo else cellKey pg (i - 1))
        (if i = pg.nCell then hi else cellKey pg i)) := by
  cases d with
  | zero => exact absurd ht id
  | succ d =>
    obtain ⟨pg1, hpg1, h1, h2, h3, h4, h5, h6⟩ := ht
    rw [hpg] at hpg1
    cases hpg1
    exact ⟨h1, h2, h3, h4, h5, h6⟩

theorem stored_child (pBt : BtShared) (store : PageStore) (d pgno : Nat) (k1 : Int)
    (pg : MemPage) (hpg : initPage pBt store pgno = some pg) (hleaf : pg.leaf = 0)
    (hs : Stored pBt store d pgno k1) :
    ∃ i, i ≤ pg.nCell ∧ Stored pBt store (d - 1) (childPgno pg i) k1 := by
  cases d with
  | zero => exact absurd hs id
  | succ d =>
    obtain ⟨pg1, hpg1, h⟩ := hs
    rw [hpg] at hpg1
    cases hpg1
    rcases h with ⟨h1, _⟩ | ⟨_, i, hi, hst⟩
    · exact absurd hleaf h1
    · exact ⟨i, hi, hst⟩

theorem stored_parent (pBt : BtShared) (store : PageStore) (d pgno : Nat) (k1 : Int)
    (pg : MemPage) (i : Nat) (hpg : initPage pBt store pgno = some pg) (hleaf : pg.leaf = 0)
    (hi : i ≤ pg.nCell) (hs : Stored pBt store d (childPgno pg i) k1) :
    Stored pBt store (d + 1) pgno k1 :=
  ⟨pg, hpg, Or.inr ⟨hleaf, i, hi, hs⟩⟩

theorem stored_leaf (pBt : BtShared) (store : PageStore) (d pgno : Nat) (k1 : Int)
    (pg : MemPage) (hpg : initPage pBt store pgno = some pg) (hleaf : pg.leaf ≠ 0)
    (hs : Stored pBt store d pgno k1) : ∃ i, i < pg.nCell ∧ cellKey pg i = k1 := by
  cases d with
  | zero => exact absurd hs id
  | succ d =>
    obtain ⟨pg1, hpg1, h⟩ := hs
    rw [hpg] at hpg1
    cases hpg1
    rcases h with ⟨_, h⟩ | ⟨h1, _⟩
    · exact h
    · exact absurd h1 hleaf

theorem leaf_stored (pBt : BtShared) (store : PageStore) (d pgno : Nat)
    (pg : MemPage) (i : Nat) (hpg : initPage pBt store pgno = some pg) (hleaf : pg.leaf ≠ 0)
    (hi : i < pg.nCell) : Stored pBt store (d + 1) pgno (cellKey pg i) :=
  ⟨pg, hpg, Or.inl ⟨hleaf, i, hi, rfl⟩⟩

/-- Every level of the cursor path is the root of a table tree with the bounds of the
path. -/
theorem path_trees (store : PageStore) (c : BtCursor) (d : Nat) (hp : CursorPath store c)
    (ht : TableTree c.pBt store d c.pgnoRoot (I64_MIN - 1) I64_MAX) :
    ∀ j, j ≤ c.iPage.toNat →
      j < d ∧ initPage c.pBt store (pathPgno c j) = some (c.apPage j) ∧
      TableTree c.pBt store (d - j) (pathPgno c j) (pathLo c j) (pathHi c j) := by
  intro j
  induction j with
  | zero =>
    intro _
    exact ⟨tree_pos _ _ _ _ _ _ ht, hp.2.1, ht⟩
  | succ j ih =>
    intro hj
    obtain ⟨a1, a2, a3⟩ := ih (by omega)
    obtain ⟨b1, b2, b3⟩ := hp.2.2 j (by omega)
    obtain ⟨_, _, _, _, _, hch⟩ := tree_page _ _ _ _ _ _ _ a3 a2
    have hc := hch b1 (c.aiIdx j) b2
    have hd : d - j - 1 = d - (j + 1) := by omega
    rw [hd] at hc
    have hpos := tree_pos _ _ _ _ _ _ hc
    exact ⟨by omega, b3, hc⟩

/-- The bounds of the path narrow from level to level. -/
theorem path_bounds_mono (store : PageStore) (c : BtCursor) (d : Nat) (hp : CursorPath store c)
    (ht : TableTree c.pBt store d c.pgnoRoot (I64_MIN - 1) I64_MAX) (j : Nat)
    (hj : j < c.iPage.toNat) :
    pathLo c j ≤ pathLo c (j + 1) ∧ pathHi c (j + 1) ≤ pathHi c j := by
  obtain ⟨a1, a2, a3⟩ := path_trees store c d hp ht j (by omega)
  obtain ⟨b1, b2, b3⟩ := hp.2.2 j hj
  obtain ⟨_, hn, hasc, hlo, hhi, _⟩ := tree_page _ _ _ _ _ _ _ a3 a2
  exact child_bounds (c.apPage j) _ _ hn hasc hlo hhi (c.aiIdx j) b2

/-- A key stored below a level of the path is stored in the tree. -/
theorem path_stored (store : PageStore) (c : BtCursor) (d : Nat) (hp : CursorPath store c)
    (ht : TableTree c.pBt store d c.pgnoRoot (I64_MIN - 1) I64_MAX) (k1 : Int) :
    ∀ j, j ≤ c.iPage.toNat → Stored c.pBt store (d - j) (pathPgno c j) k1 →
      Stored c.pBt store d c.pgnoRoot k1 := by
  intro j
  induction j with
  | zero => intro _ h; exact h
  | succ j ih =>
    intro hj hs
    obtain ⟨a1, a2, a3⟩ := path_trees store c d hp ht j (by omega)
    obtain ⟨b1, b2, b3⟩ := hp.2.2 j (by omega)
    apply ih (by omega)
    have := stored_parent c.pBt store (d - (j + 1)) (pathPgno c j) k1 (c.apPage j) (c.aiIdx j)
      a2 b1 b2 hs
    rw [show d - (j + 1) + 1 = d - j by omega] at this
    exact this

/-- A key stored in the tree is stored below a level of the path or lies outside the bounds
of that level. -/
theorem path_escape (store : PageStore) (c : BtCursor) (d : Nat) (hp : CursorPath store c)
    (ht : TableTree c.pBt store d c.pgnoRoot (I64_MIN - 1) I64_MAX) (k1 : Int)
    (hs : Stored c.pBt store d c.pgnoRoot k1) :
    ∀ j, j ≤ c.iPage.toNat →
      Stored c.pBt store (d - j) (pathPgno c j) k1 ∨ k1 ≤ pathLo c j ∨ pathHi c j < k1 := by
  intro j
  induction j with
  | zero => intro _; exact Or.inl hs
  | succ j ih =>
    intro hj
    obtain ⟨a1, a2, a3⟩ := path_trees store c d hp ht j (by omega)
    obtain ⟨b1, b2, b3⟩ := hp.2.2 j (by omega)
    obtain ⟨_, hn, hasc, hlo, hhi, hch⟩ := tree_page _ _ _ _ _ _ _ a3 a2
    have hm := path_bounds_mono store c d hp ht j (by omega)
    rcases ih (by omega) with h | h | h
    · obtain ⟨i, hi, hst⟩ := stored_child _ _ _ _ _ _ a2 b1 h
      have hb := stored_bounds _ _ _ _ _ _ k1 (hch b1 i hi) hst
      rcases Nat.lt_trichotomy i (c.aiIdx j) with hlt | heq | hgt
      · right; left
        have hb2 := hb.2
        rw [if_neg (by omega)] at hb2
        have := keys_mono _ hasc i (c.aiIdx j - 1) (by omega) (by omega)
        show k1 ≤ (if c.aiIdx j = 0 then pathLo c j else cellKey (c.apPage j) (c.aiIdx j - 1))
        rw [if_neg (by omega)]
        omega
      · left
        rw [heq] at hst
        rw [show d - (j + 1) = d - j - 1 by omega]
        exact hst
      · right; right
        have hb1 := hb.1
        rw [if_neg (by omega)] at hb1
        have := keys_mono _ hasc (c.aiIdx j) (i - 1) (by omega) (by omega)
        show (if c.aiIdx j = (c.apPage j).nCell then pathHi c j
          else cellKey (c.apPage j) (c.aiIdx j)) < k1
        rw [if_neg (by omega)]
        omega
    · right; left
      omega
    · right; right
      omega

/-- Cursors that agree above a level have the same path data at that level. -/
theorem path_congr (a b : BtCursor) (hr : b.pgnoRoot = a.pgnoRoot) :
    ∀ j, (∀ i, i < j → b.aiIdx i = a.aiIdx i ∧ b.apPage i = a.apPage i) →
      pathPgno b j = pathPgno a j ∧ pathLo b j = pathLo a j ∧ pathHi b j = pathHi a j := by
  intro j
  induction j with
  | zero => intro _; exact ⟨hr, rfl, rfl⟩
  | succ j ih =>
    intro h
    obtain ⟨e1, e2⟩ := h j (by omega)
    obtain ⟨_, i2, i3⟩ := ih (fun i hi => h i (by omega))
    refine ⟨?_, ?_, ?_⟩
    · show childPgno (b.apPage j) (b.aiIdx j) = childPgno (a.apPage j) (a.aiIdx j)
      rw [e1, e2]
    · show (if b.aiIdx j = 0 then pathLo b j else cellKey (b.apPage j) (b.aiIdx j - 1)) =
        (if a.aiIdx j = 0 then pathLo a j else cellKey (a.apPage j) (a.aiIdx j - 1))
      rw [e1, e2, i2]
    · show (if b.aiIdx j = (b.apPage j).nCell then pathHi b j
          else cellKey (b.apPage j) (b.aiIdx j)) =
        (if a.aiIdx j = (a.apPage j).nCell then pathHi a j
          else cellKey (a.apPage j) (a.aiIdx j))
      rw [e1, e2, i3]

end Btree

namespace Btree

/-! ## Descending to the leftmost and to the rightmost entry -/

theorem tree_root_page (pBt : BtShared) (store : PageStore) (d pgno : Nat) (lo hi : Int)
    (ht : TableTree pBt store d pgno lo hi) : ∃ pg, initPage pBt store pgno = some pg := by
  cases d with
  | zero => exact absurd ht id
  | succ d =>
    obtain ⟨pg, hpg, _⟩ := ht
    exact ⟨pg, hpg⟩

theorem intKey_one (pBt : BtShared) (store : PageStore) (d pgno : Nat) (lo hi : Int)
    (pg : MemPage) (hu : usableOk pBt.usableSize) (ht : TableTree pBt store d pgno lo hi)
    (hpg : initPage pBt store pgno = some pg) : pg.intKey = 1 ∧ pg.nCell < 65536 := by
  obtain ⟨h1, _⟩ := tree_page _ _ _ _ _ _ _ ht hpg
  obtain ⟨_, _, h3, h4⟩ := initPage_getAndInitPage _ _ _ _ hu hpg
  exact ⟨by omega, h3⟩

/-- The cursor path after a descent through child `aiIdx` of the current page. -/
theorem CursorPath_child (store : PageStore) (c : BtCursor) (pgc : MemPage)
    (hp : CursorPath store c) (hleaf : (c.apPage c.iPage.toNat).leaf = 0)
    (hn : c.aiIdx c.iPage.toNat ≤ (c.apPage c.iPage.toNat).nCell)
    (hpg : initPage c.pBt store
      (childPgno (c.apPage c.iPage.toNat) (c.aiIdx c.iPage.toNat)) = some pgc) :
    CursorPath store (descended c pgc) := by
  obtain ⟨h1, h2, h3⟩ := hp
  have e1 : (descended c pgc).iPage = c.iPage + 1 := rfl
  have e4 : ∀ j, (descended c pgc).apPage j =
      if j = (c.iPage + 1).toNat then pgc else c.apPage j := fun j => rfl
  have e5 : ∀ j, (descended c pgc).aiIdx j =
      if j = (c.iPage + 1).toNat then 0 else c.aiIdx j := fun j => rfl
  refine ⟨by rw [e1]; omega, ?_, ?_⟩
  · show initPage c.pBt store c.pgnoRoot = some ((descended c pgc).apPage 0)
    rw [e4, if_neg (by omega)]
    exact h2
  · intro j hj
    rw [e1] at hj
    show ((descended c pgc).apPage j).leaf = 0 ∧
      (descended c pgc).aiIdx j ≤ ((descended c pgc).apPage j).nCell ∧
      initPage c.pBt store (childPgno ((descended c pgc).apPage j) ((descended c pgc).aiIdx j))
        = some ((descended c pgc).apPage (j + 1))
    rw [e4 j, e5 j, if_neg (by omega), if_neg (by omega), e4 (j + 1)]
    by_cases hjl : j = c.iPage.toNat
    · rw [if_pos (by omega), hjl]
      exact ⟨hleaf, hn, hpg⟩
    · rw [if_neg (by omega)]
      exact h3 j (by omega)

theorem descended_level (c : BtCursor) (pgc : MemPage) (h0 : 0 ≤ c.iPage) :
    (descended c pgc).iPage.toNat = c.iPage.toNat + 1 ∧
    (descended c pgc).apPage (c.iPage.toNat + 1) = pgc ∧
    (descended c pgc).aiIdx (c.iPage.toNat + 1) = 0 ∧
    (∀ j, j ≤ c.iPage.toNat → (descended c pgc).aiIdx j = c.aiIdx j ∧
      (descended c pgc).apPage j = c.apPage j) := by
  have e1 : (descended c pgc).iPage = c.iPage + 1 := rfl
  have e4 : ∀ j, (descended c pgc).apPage j =
      if j = (c.iPage + 1).toNat then pgc else c.apPage j := fun j => rfl
  have e5 : ∀ j, (descended c pgc).aiIdx j =
      if j = (c.iPage + 1).toNat then 0 else c.aiIdx j := fun j => rfl
  refine ⟨by rw [e1]; omega, ?_, ?_, ?_⟩
  · rw [e4, if_pos (by omega)]
  · rw [e5, if_pos (by omega)]
  · intro j hj
    rw [e4, e5, if_neg (by omega), if_neg (by omega)]
    exact ⟨rfl, rfl⟩

/-- One descent of the cursor: `moveToChild` through child `aiIdx` of the current page
succeeds, and the path of the new cursor continues the old one. -/
theorem descend_spec (store : PageStore) (c : BtCursor) (d : Nat)
    (hu : usableOk c.pBt.usableSize) (hd : d ≤ 20) (hp : CursorPath store c)
    (ht : TableTree c.pBt store d c.pgnoRoot (I64_MIN - 1) I64_MAX)
    (hleaf : (c.apPage c.iPage.toNat).leaf = 0)
    (hn : c.aiIdx c.iPage.toNat ≤ (c.apPage c.iPage.toNat).nCell) :
    ∃ pgc, initPage c.pBt store
        (childPgno (c.apPage c.iPage.toNat) (c.aiIdx c.iPage.toNat)) = some pgc ∧
      (∀ fuel, 65536 ≤ fuel →
        moveToChild fuel store c (childPgno (c.apPage c.iPage.toNat) (c.aiIdx c.iPage.toNat))
          = some (SQLITE_OK, descended c pgc)) ∧
      CursorPath store (descended c pgc) ∧
      c.iPage.toNat + 1 < d ∧
      pathPgno (descended c pgc) (c.iPage.toNat + 1)
        = childPgno (c.apPage c.iPage.toNat) (c.aiIdx c.iPage.toNat) ∧
      TableTree c.pBt store (d - (c.iPage.toNat + 1))
        (childPgno (c.apPage c.iPage.toNat) (c.aiIdx c.iPage.toNat))
        (if c.aiIdx c.iPage.toNat = 0 then pathLo c c.iPage.toNat
          else cellKey (c.apPage c.iPage.toNat) (c.aiIdx c.iPage.toNat - 1))
        (if c.aiIdx c.iPage.toNat = (c.apPage c.iPage.toNat).nCell then pathHi c c.iPage.toNat
          else cellKey (c.apPage c.iPage.toNat) (c.aiIdx c.iPage.toNat)) := by
  obtain ⟨a1, a2, a3⟩ := path_trees store c d hp ht c.iPage.toNat (le_refl _)
  obtain ⟨i1, hn1, hasc, hlo, hhi, hch⟩ := tree_page _ _ _ _ _ _ _ a3 a2
  have hc := hch hleaf _ hn
  rw [show d - c.iPage.toNat - 1 = d - (c.iPage.toNat + 1) by omega] at hc
  obtain ⟨pgc, hpgc⟩ := tree_root_page _ _ _ _ _ _ hc
  have hpos := tree_pos _ _ _ _ _ _ hc
  have k1 := intKey_one _ _ _ _ _ _ _ hu a3 a2
  have k2 := intKey_one _ _ _ _ _ _ _ hu hc hpgc
  obtain ⟨_, hn2, _⟩ := tree_page _ _ _ _ _ _ _ hc hpgc
  have h0 := hp.1
  refine ⟨pgc, hpgc, ?_, CursorPath_child store c pgc hp hleaf hn hpgc, by omega, ?_, hc⟩
  · intro fuel hf
    exact moveToChild_ok store c _ pgc hu h0 (by omega) hpgc hn2 (by rw [k1.1, k2.1]) fuel
      (by have := hu.2; omega)
  · obtain ⟨_, _, _, e4⟩ := descended_level c pgc h0
    obtain ⟨e5, e6⟩ := e4 c.iPage.toNat (le_refl _)
    show childPgno ((descended c pgc).apPage c.iPage.toNat)
      ((descended c pgc).aiIdx c.iPage.toNat) = _
    rw [e5, e6]

end Btree

namespace Btree

/-! ## `moveToLeftmost` and `moveToRightmost` reach the least and the greatest key -/

theorem moveToLeftmost_spec (store : PageStore) (d : Nat) (hd : d ≤ 20) :
    ∀ (n : Nat) (c : BtCursor), usableOk c.pBt.usableSize → CursorPath store c →
      TableTree c.pBt store d c.pgnoRoot (I64_MIN - 1) I64_MAX →
      c.eState = CURSOR_VALID → d - c.iPage.toNat = n → c.aiIdx c.iPage.toNat = 0 →
      ∃ c2 m, (∀ fuel, 65536 + n ≤ fuel → moveToLeftmost store fuel c = some (SQLITE_OK, c2)) ∧
        CursorAt store c2 m ∧ c2.skipNext = c.skipNext ∧ c2.pBt = c.pBt ∧
        c2.pgnoRoot = c.pgnoRoot ∧
        Stored c.pBt store (d - c.iPage.toNat) (pathPgno c c.iPage.toNat) m ∧
        (∀ k1, Stored c.pBt store (d - c.iPage.toNat) (pathPgno c c.iPage.toNat) k1 →
          m ≤ k1) := by
  intro n
  induction n with
  | zero =>
    intro c hu hp ht _ hn _
    have := (path_trees store c d hp ht c.iPage.toNat (le_refl _)).1
    omega
  | succ n ih =>
    intro c hu hp ht hst hn hidx
    obtain ⟨a1, a2, a3⟩ := path_trees store c d hp ht c.iPage.toNat (le_refl _)
    obtain ⟨i1, hn1, hasc, hlo, hhi, hch⟩ := tree_page _ _ _ _ _ _ _ a3 a2
    by_cases hleaf : (c.apPage c.iPage.toNat).leaf ≠ 0
    · refine ⟨c, cellKey (c.apPage c.iPage.toNat) 0, ?_, ?_, rfl, rfl, rfl, ?_, ?_⟩
      · intro fuel hf
        obtain ⟨f, rfl⟩ : ∃ f, fuel = f + 1 := ⟨fuel - 1, by omega⟩
        rw [moveToLeftmost]
        simp only [if_pos hleaf]
      · exact ⟨hst, hp, hleaf, by rw [hidx]; omega, by rw [hidx]⟩
      · have := leaf_stored c.pBt store (d - c.iPage.toNat - 1) _ _ 0 a2 hleaf (by omega)
        rw [show d - c.iPage.toNat - 1 + 1 = d - c.iPage.toNat by omega] at this
        exact this
      · intro k1 hs
        obtain ⟨i, hi, hk⟩ := stored_leaf _ _ _ _ _ _ a2 hleaf hs
        rw [← hk]
        exact keys_mono _ hasc 0 i (by omega) hi
    · have hleaf0 : (c.apPage c.iPage.toNat).leaf = 0 := by
        by_contra h
        exact hleaf h
      obtain ⟨pgc, hpgc, hmove, hpath, hlev, hpg, hct⟩ :=
        descend_spec store c d hu hd hp ht hleaf0 (by rw [hidx]; omega)
      obtain ⟨e1, e2, e3, e4⟩ := descended_level c pgc hp.1
      obtain ⟨c2, m, hrun, hat, hs1, hs2, hs3, hsm, hmin⟩ := ih (descended c pgc) hu hpath ht hst
        (by rw [e1]; omega) (by rw [e1]; exact e3)
      rw [e1, hpg] at hsm hmin
      have hsm2 : Stored c.pBt store (d - (c.iPage.toNat + 1))
          (childPgno (c.apPage c.iPage.toNat) (c.aiIdx c.iPage.toNat)) m := hsm
      refine ⟨c2, m, ?_, hat, hs1, hs2, hs3, ?_, ?_⟩
      · intro fuel hf
        obtain ⟨f, rfl⟩ : ∃ f, fuel = f + 1 := ⟨fuel - 1, by omega⟩
        rw [moveToLeftmost]
        simp only [if_neg hleaf]
        have hcp : get4byte (c.apPage c.iPage.toNat).aData
            (findCell (c.apPage c.iPage.toNat) (c.aiIdx c.iPage.toNat))
            = childPgno (c.apPage c.iPage.toNat) (c.aiIdx c.iPage.toNat) := by
          unfold childPgno
          rw [if_neg (by rw [hidx]; omega)]
        rw [hcp, hmove (f + 1) (by omega)]
        simp only [SQLITE_OK, ne_eq, not_true_eq_false, if_false]
        exact hrun f (by omega)
      · have := stored_parent c.pBt store _ (pathPgno c c.iPage.toNat) m _ _ a2 hleaf0
          (by rw [hidx]; omega) hsm2
        rw [show d - (c.iPage.toNat + 1) + 1 = d - c.iPage.toNat by omega] at this
        exact this
      · intro k1 hs
        obtain ⟨i, hi, hsi⟩ := stored_child _ _ _ _ _ _ a2 hleaf0 hs
        rw [show d - c.iPage.toNat - 1 = d - (c.iPage.toNat + 1) by omega] at hsi
        by_cases hi0 : i = 0
        · rw [hi0, ← hidx] at hsi
          exact hmin k1 hsi
        · have hb := stored_bounds _ _ _ _ _ _ k1 (hch hleaf0 i hi) (by
            rw [show d - c.iPage.toNat - 1 = d - (c.iPage.toNat + 1) by omega]
            exact hsi)
          have hbm := stored_bounds _ _ _ _ _ _ m hct hsm2
          have hb1 := hb.1
          rw [if_neg hi0] at hb1
          have hbm2 := hbm.2
          rw [hidx, if_neg (by omega)] at hbm2
          have := keys_mono _ hasc 0 (i - 1) (by omega) (by omega)
          omega

/-- The cursor with the index of the current page set to `v`. -/
theorem CursorPath_setIdx (store : PageStore) (c c1 : BtCursor) (hp : CursorPath store c)
    (h1 : c1.pBt = c.pBt) (h2 : c1.pgnoRoot = c.pgnoRoot) (h3 : c1.iPage = c.iPage)
    (h4 : c1.apPage = c.apPage) (h5 : ∀ j, j < c.iPage.toNat → c1.aiIdx j = c.aiIdx j) :
    CursorPath store c1 := by
  obtain ⟨p1, p2, p3⟩ := hp
  refine ⟨by rw [h3]; exact p1, by rw [h1, h2, h4]; exact p2, ?_⟩
  intro j hj
  rw [h3] at hj
  rw [h1, h4, h5 j hj]
  exact p3 j hj

theorem moveToRightmost_spec (store : PageStore) (d : Nat) (hd : d ≤ 20) :
    ∀ (n : Nat) (c : BtCursor), usableOk c.pBt.usableSize → CursorPath store c →
      TableTree c.pBt store d c.pgnoRoot (I64_MIN - 1) I64_MAX →
      c.eState = CURSOR_VALID → d - c.iPage.toNat = n →
      ∃ c2 m, (∀ fuel, 65536 + n ≤ fuel → moveToRightmost store fuel c = some (SQLITE_OK, c2)) ∧
        CursorAt store c2 m ∧ c2.skipNext = c.skipNext ∧ c2.pBt = c.pBt ∧
        c2.pgnoRoot = c.pgnoRoot ∧ c2.atLast = c.atLast ∧
        Stored c.pBt store (d - c.iPage.toNat) (pathPgno c c.iPage.toNat) m ∧
        (∀ k1, Stored c.pBt store (d - c.iPage.toNat) (pathPgno c c.iPage.toNat) k1 →
          k1 ≤ m) := by
  intro n
  induction n with
  | zero =>
    intro c hu hp ht _ hn
    have := (path_trees store c d hp ht c.iPage.toNat (le_refl _)).1
    omega
  | succ n ih =>
    intro c hu hp ht hst hn
    obtain ⟨a1, a2, a3⟩ := path_trees store c d hp ht c.iPage.toNat (le_refl _)
    obtain ⟨i1, hn1, hasc, hlo, hhi, hch⟩ := tree_page _ _ _ _ _ _ _ a3 a2
    have hn16 := (intKey_one _ _ _ _ _ _ _ hu a3 a2).2
    by_cases hleaf : (c.apPage c.iPage.toNat).leaf ≠ 0
    · have hu16 : u16i (((c.apPage c.iPage.toNat).nCell : Int) - 1)
          = (c.apPage c.iPage.toNat).nCell - 1 := by
        unfold u16i
        omega
      refine ⟨{ c with
          aiIdx := setAt c.aiIdx c.iPage.toNat
            (u16i (((c.apPage c.iPage.toNat).nCell : Int) - 1))
          info := { c.info with nSize := 0 }
          validNKey := false },
        cellKey (c.apPage c.iPage.toNat) ((c.apPage c.iPage.toNat).nCell - 1), ?_, ?_, rfl, rfl,
        rfl, rfl, ?_, ?_⟩
      · intro fuel hf
        obtain ⟨f, rfl⟩ : ∃ f, fuel = f + 1 := ⟨fuel - 1, by omega⟩
        rw [moveToRightmost]
        simp only [if_pos hleaf]
      · refine ⟨hst, CursorPath_setIdx store c _ hp rfl rfl rfl rfl
          (fun j hj => setAt_other _ _ _ _ (by omega)), hleaf, ?_, ?_⟩
        · show setAt c.aiIdx c.iPage.toNat _ c.iPage.toNat < (c.apPage c.iPage.toNat).nCell
          rw [setAt_same, hu16]
          omega
        · show cellKey (c.apPage c.iPage.toNat) (setAt c.aiIdx c.iPage.toNat _ c.iPage.toNat) = _
          rw [setAt_same, hu16]
      · have := leaf_stored c.pBt store (d - c.iPage.toNat - 1) _ _
          ((c.apPage c.iPage.toNat).nCell - 1) a2 hleaf (by omega)
        rw [show d - c.iPage.toNat - 1 + 1 = d - c.iPage.toNat by omega] at this
        exact this
      · intro k1 hs
        obtain ⟨i, hi, hk⟩ := stored_leaf _ _ _ _ _ _ a2 hleaf hs
        rw [← hk]
        exact keys_mono _ hasc i _ (by omega) (by omega)
    · have hleaf0 : (c.apPage c.iPage.toNat).leaf = 0 := by
        by_contra h
        exact hleaf h
      have hp1 : CursorPath store
          { c with aiIdx := setAt c.aiIdx c.iPage.toNat (c.apPage c.iPage.toNat).nCell } :=
        CursorPath_setIdx store c _ hp rfl rfl rfl rfl
          (fun j hj => setAt_other _ _ _ _ (by omega))
      have hidx : setAt c.aiIdx c.iPage.toNat (c.apPage c.iPage.toNat).nCell c.iPage.toNat
          = (c.apPage c.iPage.toNat).nCell := setAt_same _ _ _
      obtain ⟨pgc, hpgc, hmove, hpath, hlev, hpg, hct⟩ :=
        descend_spec store
          { c with aiIdx := setAt c.aiIdx c.iPage.toNat (c.apPage c.iPage.toNat).nCell } d hu hd
          hp1 ht hleaf0 (by
            show setAt c.aiIdx c.iPage.toNat _ c.iPage.toNat ≤ (c.apPage c.iPage.toNat).nCell
            rw [setAt_same])
      simp only [] at hpgc hmove hpath hlev hpg hct
      rw [hidx] at hpgc hmove hpg hct
      obtain ⟨e1, e2, e3, e4⟩ := descended_level
        { c with aiIdx := setAt c.aiIdx c.iPage.toNat (c.apPage c.iPage.toNat).nCell } pgc hp.1
      simp only [] at e1 e2 e3 e4
      obtain ⟨c2, m, hrun, hat, hs1, hs2, hs3, hs4, hsm, hmin⟩ := ih
        (descended { c with
          aiIdx := setAt c.aiIdx c.iPage.toNat (c.apPage c.iPage.toNat).nCell } pgc)
        hu hpath ht hst (by rw [e1]; omega)
      rw [e1, hpg] at hsm hmin
      have hsm2 : Stored c.pBt store (d - (c.iPage.toNat + 1))
          (childPgno (c.apPage c.iPage.toNat) (c.apPage c.iPage.toNat).nCell) m := hsm
      refine ⟨c2, m, ?_, hat, hs1, hs2, hs3, hs4, ?_, ?_⟩
      · intro fuel hf
        obtain ⟨f, rfl⟩ : ∃ f, fuel = f + 1 := ⟨fuel - 1, by omega⟩
        rw [moveToRightmost]
        simp only [if_neg hleaf]
        have hcp : get4byte (c.apPage c.iPage.toNat).aData
            ((c.apPage c.iPage.toNat).hdrOffset + 8)
            = childPgno (c.apPage c.iPage.toNat) (c.apPage c.iPage.toNat).nCell := by
          unfold childPgno
          rw [if_pos (le_refl _)]
        rw [hcp, hmove (f + 1) (by omega)]
        simp only [SQLITE_OK, ne_eq, not_true_eq_false, if_false]
        exact hrun f (by omega)
      · have := stored_parent c.pBt store _ (pathPgno c c.iPage.toNat) m _ _ a2 hleaf0
          (le_refl _) hsm2
        rw [show d - (c.iPage.toNat + 1) + 1 = d - c.iPage.toNat by omega] at this
        exact this
      · intro k1 hs
        obtain ⟨i, hi, hsi⟩ := stored_child _ _ _ _ _ _ a2 hleaf0 hs
        rw [show d - c.iPage.toNat - 1 = d - (c.iPage.toNat + 1) by omega] at hsi
        by_cases hin : i = (c.apPage c.iPage.toNat).nCell
        · rw [hin] at hsi
          exact hmin k1 hsi
        · have hb := stored_bounds _ _ _ _ _ _ k1 (hch hleaf0 i hi) (by
            rw [show d - c.iPage.toNat - 1 = d - (c.iPage.toNat + 1) by omega]
            exact hsi)
          have hbm := stored_bounds _ _ _ _ _ _ m hct hsm2
          have hb2 := hb.2
          rw [if_neg hin] at hb2
          have hbm1 := hbm.1
          rw [if_neg (by omega)] at hbm1
          have := keys_mono _ hasc i ((c.apPage c.iPage.toNat).nCell - 1) (by omega) (by omega)
          omega

end Btree

namespace Btree

/-! ## Leaving a leaf upwards -/

/-- The path of a cursor that has moved up along its path. -/
theorem CursorPath_prefix (store : PageStore) (c0 c : BtCursor) (hp : CursorPath store c0)
    (h1 : c.pBt = c0.pBt) (h2 : c.pgnoRoot = c0.pgnoRoot) (h3 : c.apPage = c0.apPage)
    (h4 : c.aiIdx = c0.aiIdx) (h5 : 0 ≤ c.iPage) (h6 : c.iPage ≤ c0.iPage) :
    CursorPath store c := by
  obtain ⟨p1, p2, p3⟩ := hp
  refine ⟨h5, by rw [h1, h2, h3]; exact p2, ?_⟩
  intro j hj
  rw [h1, h3, h4]
  exact p3 j (by omega)

/-- The key of the entry a cursor is on is stored below every level of its path, inside the
bounds of the level. -/
theorem cursor_in_levels (store : PageStore) (c : BtCursor) (d : Nat) (e : Int)
    (hat : CursorAt store c e)
    (ht : TableTree c.pBt store d c.pgnoRoot (I64_MIN - 1) I64_MAX) :
    ∀ j, j ≤ c.iPage.toNat →
      Stored c.pBt store (d - j) (pathPgno c j) e ∧ pathLo c j < e ∧ e ≤ pathHi c j := by
  obtain ⟨_, hp, hleaf, hidx, hkey⟩ := hat
  have hst : ∀ t j, j + t = c.iPage.toNat → Stored c.pBt store (d - j) (pathPgno c j) e := by
    intro t
    induction t with
    | zero =>
      intro j hj
      have hj2 : j = c.iPage.toNat := by omega
      obtain ⟨a1, a2, a3⟩ := path_trees store c d hp ht j (by omega)
      rw [hj2] at a2 ⊢
      have := leaf_stored c.pBt store (d - c.iPage.toNat - 1) _ _ _ a2 hleaf hidx
      rw [show d - c.iPage.toNat - 1 + 1 = d - c.iPage.toNat by omega, hkey] at this
      exact this
    | succ t ih =>
      intro j hj
      obtain ⟨a1, a2, a3⟩ := path_trees store c d hp ht j (by omega)
      obtain ⟨b1, b2, b3⟩ := hp.2.2 j (by omega)
      have hs := ih (j + 1) (by omega)
      have := stored_parent c.pBt store (d - (j + 1)) (pathPgno c j) e (c.apPage j) (c.aiIdx j)
        a2 b1 b2 hs
      rw [show d - (j + 1) + 1 = d - j by omega] at this
      exact this
  intro j hj
  have hs := hst (c.iPage.toNat - j) j (by omega)
  obtain ⟨_, _, a3⟩ := path_trees store c d hp ht j hj
  have hb := stored_bounds _ _ _ _ _ _ e a3 hs
  exact ⟨hs, hb.1, hb.2⟩

/-- The loop of `sqlite3BtreeNext` that leaves an exhausted leaf: it stops at the root when
the cursor was below the last child of every level, where no key is greater than `e`, or on
the first level with a cell that has not been passed. -/
theorem nextClimb_spec (store : PageStore) (d : Nat) (e : Int) (c0 : BtCursor)
    (hp0 : CursorPath store c0)
    (ht : TableTree c0.pBt store d c0.pgnoRoot (I64_MIN - 1) I64_MAX)
    (hlow : ∀ j, j ≤ c0.iPage.toNat → pathLo c0 j < e) :
    ∀ (t : Nat) (c : BtCursor), t ≤ c0.iPage.toNat → c.iPage = (t : Int) →
      c.apPage = c0.apPage → c.aiIdx = c0.aiIdx →
      (∀ k1, Stored c0.pBt store (d - t) (pathPgno c0 t) k1 → k1 ≤ e) →
      ∃ r, (∀ fuel, t + 1 ≤ fuel → nextClimb fuel c = some r) ∧
        r.2.apPage = c0.apPage ∧ r.2.aiIdx = c0.aiIdx ∧ r.2.pBt = c.pBt ∧
        r.2.pgnoRoot = c.pgnoRoot ∧ r.2.skipNext = c.skipNext ∧ r.2.atLast = c.atLast ∧
        ((r.1 = false ∧ r.2.eState = CURSOR_INVALID ∧
            ∀ k1, Stored c0.pBt store d c0.pgnoRoot k1 → k1 ≤ e) ∨
         (r.1 = true ∧ r.2.eState = c.eState ∧ 0 ≤ r.2.iPage ∧ r.2.iPage.toNat < t ∧
            c0.aiIdx r.2.iPage.toNat < (c0.apPage r.2.iPage.toNat).nCell ∧
            ∀ k1, Stored c0.pBt store (d - (r.2.iPage.toNat + 1))
              (pathPgno c0 (r.2.iPage.toNat + 1)) k1 → k1 ≤ e)) := by
  intro t
  induction t with
  | zero =>
    intro c _ hi ha hx htop
    refine ⟨(false, { c with eState := CURSOR_INVALID }), ?_, ha, hx, rfl, rfl, rfl, rfl,
      Or.inl ⟨rfl, rfl, ?_⟩⟩
    · intro fuel hf
      obtain ⟨f, rfl⟩ : ∃ f, fuel = f + 1 := ⟨fuel - 1, by omega⟩
      rw [nextClimb, if_pos (by rw [hi]; rfl)]
    · intro k1 hs
      exact htop k1 hs
  | succ t ih =>
    intro c hle hi ha hx htop
    obtain ⟨a1, a2, a3⟩ := path_trees store c0 d hp0 ht t (by omega)
    obtain ⟨b1, b2, b3⟩ := hp0.2.2 t (by omega)
    obtain ⟨_, hn, hasc, hlo, hhi, hch⟩ := tree_page _ _ _ _ _ _ _ a3 a2
    have hpi : (moveToParent c).iPage = (t : Int) := by
      show c.iPage - 1 = _
      rw [hi]
      omega
    have hpt : (moveToParent c).iPage.toNat = t := by rw [hpi]; rfl
    have hcond : (moveToParent c).aiIdx (moveToParent c).iPage.toNat = c0.aiIdx t := by
      rw [hpt]
      show c.aiIdx t = _
      rw [hx]
    have hcond2 : (moveToParent c).apPage (moveToParent c).iPage.toNat = c0.apPage t := by
      rw [hpt]
      show c.apPage t = _
      rw [ha]
    by_cases hge : c0.aiIdx t ≥ (c0.apPage t).nCell
    · have htop2 : ∀ k1, Stored c0.pBt store (d - t) (pathPgno c0 t) k1 → k1 ≤ e := by
        intro k1 hs
        obtain ⟨i, hi1, hsi⟩ := stored_child _ _ _ _ _ _ a2 b1 hs
        by_cases hie : i = c0.aiIdx t
        · apply htop k1
          rw [hie, show d - t - 1 = d - (t + 1) by omega] at hsi
          exact hsi
        · have hb := stored_bounds _ _ _ _ _ _ k1 (hch b1 i hi1) hsi
          have hb2 := hb.2
          rw [if_neg (by omega)] at hb2
          have hl := hlow (t + 1) hle
          have hl2 : pathLo c0 (t + 1) = cellKey (c0.apPage t) (c0.aiIdx t - 1) := by
            show (if c0.aiIdx t = 0 then pathLo c0 t
              else cellKey (c0.apPage t) (c0.aiIdx t - 1)) = _
            rw [if_neg (by omega)]
          rw [hl2] at hl
          have := keys_mono _ hasc i (c0.aiIdx t - 1) (by omega) (by omega)
          omega
      obtain ⟨r, hr, r1, r2, r3, r4, r5, r6, r7⟩ := ih (moveToParent c) (by omega) hpi ha hx htop2
      refine ⟨r, ?_, r1, r2, r3, r4, r5, r6, ?_⟩
      · intro fuel hf
        obtain ⟨f, rfl⟩ : ∃ f, fuel = f + 1 := ⟨fuel - 1, by omega⟩
        rw [nextClimb, if_neg (by rw [hi]; omega), hcond, hcond2, if_pos hge]
        exact hr f (by omega)
      · rcases r7 with h | ⟨h1, h2, h3, h4, h5⟩
        · exact Or.inl h
        · exact Or.inr ⟨h1, h2, h3, by omega, h5⟩
    · refine ⟨(true, moveToParent c), ?_, ha, hx, rfl, rfl, rfl, rfl, Or.inr ⟨rfl, rfl, ?_, ?_, ?_,
        ?_⟩⟩
      · intro fuel hf
        obtain ⟨f, rfl⟩ : ∃ f, fuel = f + 1 := ⟨fuel - 1, by omega⟩
        rw [nextClimb, if_neg (by rw [hi]; omega), hcond, hcond2, if_neg hge]
      · show 0 ≤ (moveToParent c).iPage
        rw [hpi]
        omega
      · show (moveToParent c).iPage.toNat < t + 1
        rw [hpt]
        omega
      · show c0.aiIdx (moveToParent c).iPage.toNat < (c0.apPage (moveToParent c).iPage.toNat).nCell
        rw [hpt]
        omega
      · show ∀ k1, Stored c0.pBt store (d - ((moveToParent c).iPage.toNat + 1))
          (pathPgno c0 ((moveToParent c).iPage.toNat + 1)) k1 → k1 ≤ e
        rw [hpt]
        exact htop

end Btree

namespace Btree

/-! ## `sqlite3BtreeNext` on a valid cursor -/

theorem restore_valid (fuel : Nat) (store : PageStore) (c : BtCursor)
    (idxCmp : MemPage → Nat → Nat × Int) (allocOk : Bool) (hst : c.eState = CURSOR_VALID) :
    restoreCursorPosition fuel store c idxCmp allocOk = some (SQLITE_OK, c) := by
  unfold restoreCursorPosition
  rw [if_neg (by rw [hst]; decide)]

/-- `sqlite3BtreeNext` on an interior page with a cell that has not been passed: the cursor
goes to the least key below the child after that cell. -/
theorem next_interior (store : PageStore) (d : Nat) (hd : d ≤ 20) (c : BtCursor)
    (idxCmp : MemPage → Nat → Nat × Int) (allocOk : Bool) (res : Int)
    (hu : usableOk c.pBt.usableSize) (hp : CursorPath store c)
    (ht : TableTree c.pBt store d c.pgnoRoot (I64_MIN - 1) I64_MAX)
    (hst : c.eState = CURSOR_VALID) (hskip : c.skipNext = 0)
    (hleaf : (c.apPage c.iPage.toNat).leaf = 0)
    (hidx : c.aiIdx c.iPage.toNat < (c.apPage c.iPage.toNat).nCell) :
    ∃ c2 m, (∀ fuel, 65560 ≤ fuel →
        sqlite3BtreeNext store idxCmp allocOk fuel c res = some (SQLITE_OK, 0, c2)) ∧
      CursorAt store c2 m ∧ c2.skipNext = 0 ∧ c2.pBt = c.pBt ∧ c2.pgnoRoot = c.pgnoRoot ∧
      Stored c.pBt store (d - (c.iPage.toNat + 1))
        (childPgno (c.apPage c.iPage.toNat) (c.aiIdx c.iPage.toNat + 1)) m ∧
      (∀ k1, Stored c.pBt store (d - (c.iPage.toNat + 1))
        (childPgno (c.apPage c.iPage.toNat) (c.aiIdx c.iPage.toNat + 1)) k1 → m ≤ k1) := by
  obtain ⟨a1, a2, a3⟩ := path_trees store c d hp ht c.iPage.toNat (le_refl _)
  have hn16 := (intKey_one _ _ _ _ _ _ _ hu a3 a2).2
  have hu16 : u16 (c.aiIdx c.iPage.toNat + 1) = c.aiIdx c.iPage.toNat + 1 := by
    unfold u16
    omega
  have hp1 : CursorPath store
      { c with
        skipNext := 0
        aiIdx := setAt c.aiIdx c.iPage.toNat (c.aiIdx c.iPage.toNat + 1)
        info := { c.info with nSize := 0 }
        validNKey := false } :=
    CursorPath_setIdx store c _ hp rfl rfl rfl rfl (fun j hj => setAt_other _ _ _ _ (by omega))
  have hsame : setAt c.aiIdx c.iPage.toNat (c.aiIdx c.iPage.toNat + 1) c.iPage.toNat
      = c.aiIdx c.iPage.toNat + 1 := setAt_same _ _ _
  obtain ⟨pgc, hpgc, hmove, hpath, hlev, hpg, hct⟩ :=
    descend_spec store
      { c with
        skipNext := 0
        aiIdx := setAt c.aiIdx c.iPage.toNat (c.aiIdx c.iPage.toNat + 1)
        info := { c.info with nSize := 0 }
        validNKey := false } d hu hd hp1 ht hleaf (by
          show setAt c.aiIdx c.iPage.toNat _ c.iPage.toNat ≤ (c.apPage c.iPage.toNat).nCell
          rw [hsame]
          omega)
  simp only [] at hpgc hmove hpath hlev hpg hct
  rw [hsame] at hpgc hmove hpg hct
  obtain ⟨e1, e2, e3, e4⟩ := descended_level
    { c with
      skipNext := 0
      aiIdx := setAt c.aiIdx c.iPage.toNat (c.aiIdx c.iPage.toNat + 1)
      info := { c.info with nSize := 0 }
      validNKey := false } pgc hp.1
  simp only [] at e1 e2 e3 e4
  obtain ⟨c2, m, hrun, hat, hs1, hs2, hs3, hsm, hmin⟩ := moveToLeftmost_spec store d hd
    (d - (c.iPage.toNat + 1))
    (descended { c with
      skipNext := 0
      aiIdx := setAt c.aiIdx c.iPage.toNat (c.aiIdx c.iPage.toNat + 1)
      info := { c.info with nSize := 0 }
      validNKey := false } pgc)
    hu hpath ht hst (by rw [e1]) (by rw [e1]; exact e3)
  rw [e1, hpg] at hsm hmin
  refine ⟨c2, m, ?_, hat, hs1, hs2, hs3, hsm, hmin⟩
  intro fuel hf
  obtain ⟨f, rfl⟩ : ∃ f, fuel = f + 1 := ⟨fuel - 1, by omega⟩
  rw [sqlite3BtreeNext, restore_valid _ _ _ _ _ hst]
  simp only []
  rw [if_neg (by simp), if_neg (by rw [hst]; decide), if_neg (by rw [hskip]; decide), hu16]
  by_cases hlast : c.aiIdx c.iPage.toNat + 1 ≥ (c.apPage c.iPage.toNat).nCell
  · rw [if_pos hlast, if_pos hleaf]
    have hcp : get4byte (c.apPage c.iPage.toNat).aData ((c.apPage c.iPage.toNat).hdrOffset + 8)
        = childPgno (c.apPage c.iPage.toNat) (c.aiIdx c.iPage.toNat + 1) := by
      unfold childPgno
      rw [if_pos hlast]
    rw [hcp, hmove (f + 1) (by omega)]
    simp only [SQLITE_OK, ne_eq, not_true_eq_false, if_false]
    rw [hrun (f + 1) (by omega)]
    rfl
  · rw [if_neg hlast, if_neg (by rw [hleaf]; simp)]
    rw [moveToLeftmost]
    simp only []
    rw [if_neg (by rw [hleaf]; simp), hsame]
    have hcp : get4byte (c.apPage c.iPage.toNat).aData
        (findCell (c.apPage c.iPage.toNat) (c.aiIdx c.iPage.toNat + 1))
        = childPgno (c.apPage c.iPage.toNat) (c.aiIdx c.iPage.toNat + 1) := by
      unfold childPgno
      rw [if_neg hlast]
    rw [hcp, hmove (f + 1) (by omega)]
    simp only [SQLITE_OK, ne_eq, not_true_eq_false, if_false]
    rw [hrun f (by omega)]
    rfl

end Btree

namespace Btree

/-- `sqlite3BtreeNext` on a valid cursor that is on the leaf entry with key `e` and is not
marked to stay: the cursor goes to the least stored key above `e`, or the routine reports the
end, with the cursor invalid, when no stored key is above `e`. -/
theorem next_leaf_spec (store : PageStore) (d : Nat) (hd : d ≤ 20) (c : BtCursor) (e : Int)
    (idxCmp : MemPage → Nat → Nat × Int) (allocOk : Bool) (res : Int)
    (hu : usableOk c.pBt.usableSize) (hat : CursorAt store c e)
    (ht : TableTree c.pBt store d c.pgnoRoot (I64_MIN - 1) I64_MAX)
    (hskip : c.skipNext ≤ 0) :
    ∃ r : Int × BtCursor, (∀ fuel, 65561 ≤ fuel →
        sqlite3BtreeNext store idxCmp allocOk fuel c res = some (SQLITE_OK, r.1, r.2)) ∧
      ((r.1 = 0 ∧ ∃ e2, CursorAt store r.2 e2 ∧ Stored c.pBt store d c.pgnoRoot e2 ∧ e < e2 ∧
          ∀ k1, Stored c.pBt store d c.pgnoRoot k1 → e < k1 → e2 ≤ k1) ∨
       (r.1 = 1 ∧ r.2.eState = CURSOR_INVALID ∧
          ∀ k1, Stored c.pBt store d c.pgnoRoot k1 → k1 ≤ e)) := by
  have hlev := cursor_in_levels store c d e hat ht
  obtain ⟨hst, hp, hleaf, hidx, hkey⟩ := hat
  obtain ⟨a1, a2, a3⟩ := path_trees store c d hp ht c.iPage.toNat (le_refl _)
  obtain ⟨_, hn, hasc, hlo, hhi, _⟩ := tree_page _ _ _ _ _ _ _ a3 a2
  have hn16 := (intKey_one _ _ _ _ _ _ _ hu a3 a2).2
  have hu16 : u16 (c.aiIdx c.iPage.toNat + 1) = c.aiIdx c.iPage.toNat + 1 := by
    unfold u16
    omega
  have hsame : setAt c.aiIdx c.iPage.toNat (c.aiIdx c.iPage.toNat + 1) c.iPage.toNat
      = c.aiIdx c.iPage.toNat + 1 := setAt_same _ _ _
  have hp1 : CursorPath store
      { c with
        skipNext := 0
        aiIdx := setAt c.aiIdx c.iPage.toNat (c.aiIdx c.iPage.toNat + 1)
        info := { c.info with nSize := 0 }
        validNKey := false } :=
    CursorPath_setIdx store c _ hp rfl rfl rfl rfl (fun j hj => setAt_other _ _ _ _ (by omega))
  have hstart : ∀ f, sqlite3BtreeNext store idxCmp allocOk (f + 1) c res =
      (if c.aiIdx c.iPage.toNat + 1 ≥ (c.apPage c.iPage.toNat).nCell then
        match nextClimb (f + 1)
            { c with
              skipNext := 0
              aiIdx := setAt c.aiIdx c.iPage.toNat (c.aiIdx c.iPage.toNat + 1)
              info := { c.info with nSize := 0 }
              validNKey := false } with
        | none => none
        | some (false, pCur) => some (SQLITE_OK, 1, pCur)
        | some (true, pCur) =>
          if (pCur.apPage pCur.iPage.toNat).intKey ≠ 0 then
            sqlite3BtreeNext store idxCmp allocOk f pCur 0
          else some (SQLITE_OK, 0, pCur)
      else
        some (SQLITE_OK, 0,
          { c with
            skipNext := 0
            aiIdx := setAt c.aiIdx c.iPage.toNat (c.aiIdx c.iPage.toNat + 1)
            info := { c.info with nSize := 0 }
            validNKey := false })) := by
    intro f
    rw [sqlite3BtreeNext, restore_valid _ _ _ _ _ hst]
    simp only []
    rw [if_neg (by simp), if_neg (by rw [hst]; decide), if_neg (by omega), hu16]
    by_cases hlast : c.aiIdx c.iPage.toNat + 1 ≥ (c.apPage c.iPage.toNat).nCell
    · rw [if_pos hlast, if_pos hlast, if_neg hleaf]
      all_goals rfl
    · rw [if_neg hlast, if_neg hlast, if_pos hleaf]
  by_cases hlast : c.aiIdx c.iPage.toNat + 1 ≥ (c.apPage c.iPage.toNat).nCell
  · -- the leaf is exhausted
    have hpc := path_congr c
      { c with
        skipNext := 0
        aiIdx := setAt c.aiIdx c.iPage.toNat (c.aiIdx c.iPage.toNat + 1)
        info := { c.info with nSize := 0 }
        validNKey := false } rfl
    have hagree : ∀ j, j ≤ c.iPage.toNat → ∀ i, i < j →
        setAt c.aiIdx c.iPage.toNat (c.aiIdx c.iPage.toNat + 1) i = c.aiIdx i ∧
          c.apPage i = c.apPage i :=
      fun j hj i hi => ⟨setAt_other _ _ _ _ (by omega), rfl⟩
    obtain ⟨r, hclimb, r1, r2, r3, r4, r5, r6, r7⟩ :=
      nextClimb_spec store d e
        { c with
          skipNext := 0
          aiIdx := setAt c.aiIdx c.iPage.toNat (c.aiIdx c.iPage.toNat + 1)
          info := { c.info with nSize := 0 }
          validNKey := false } hp1 ht
        (by
          intro j hj
          rw [(hpc j (hagree j hj)).2.1]
          exact (hlev j hj).2.1)
        c.iPage.toNat
        { c with
          skipNext := 0
          aiIdx := setAt c.aiIdx c.iPage.toNat (c.aiIdx c.iPage.toNat + 1)
          info := { c.info with nSize := 0 }
          validNKey := false } (le_refl _)
        (by
          show c.iPage = _
          have := hp.1
          omega) rfl rfl
        (by
          intro k1 hs
          rw [(hpc _ (hagree _ (le_refl _))).1] at hs
          obtain ⟨i, hi, hk⟩ := stored_leaf _ _ _ _ _ _ a2 hleaf hs
          rw [← hk, ← hkey]
          exact keys_mono _ hasc i _ (by omega) hidx)
    simp only [] at r1 r2 r3 r4 r5 r6 r7
    obtain ⟨b, q⟩ := r
    simp only [] at hclimb r1 r2 r3 r4 r5 r6 r7
    rcases r7 with ⟨hb, hinv, hall⟩ | ⟨hb, hqs, hq0, hqlt, hqidx, htop⟩
    · subst hb
      refine ⟨(1, q), ?_, Or.inr ⟨rfl, hinv, hall⟩⟩
      intro fuel hf
      obtain ⟨f, rfl⟩ : ∃ f, fuel = f + 1 := ⟨fuel - 1, by omega⟩
      rw [hstart, if_pos hlast, hclimb (f + 1) (by have := a1; omega)]
    · subst hb
      -- the climb stopped on level `s` of the path
      have hqp : CursorPath store q :=
        CursorPath_prefix store _ q hp1 r3 r4 r1 r2 hq0 (by
          show q.iPage ≤ c.iPage
          have := hp.1
          omega)
      obtain ⟨s1, s2, s3⟩ := path_trees store _ d hp1 ht q.iPage.toNat (by
        show q.iPage.toNat ≤ c.iPage.toNat
        omega)
      simp only [] at s2 s3
      obtain ⟨t1, t2, t3⟩ := hp1.2.2 q.iPage.toNat (by
        show q.iPage.toNat < c.iPage.toNat
        omega)
      simp only [] at t1 t2 t3
      obtain ⟨i1, _, hasc2, _, _, hch2⟩ := tree_page _ _ _ _ _ _ _ s3 s2
      have hqa : q.aiIdx q.iPage.toNat = c.aiIdx q.iPage.toNat := by
        rw [r2]
        exact setAt_other _ _ _ _ (by omega)
      have hqi : setAt c.aiIdx c.iPage.toNat (c.aiIdx c.iPage.toNat + 1) q.iPage.toNat
          = c.aiIdx q.iPage.toNat := setAt_other _ _ _ _ (by omega)
      rw [hqi] at hqidx t2 t3
      have hqg : q.apPage q.iPage.toNat = c.apPage q.iPage.toNat := by rw [r1]
      obtain ⟨c2, m, hrun, hat2, hs0, hs2, hs3, hsm, hmin⟩ :=
        next_interior store d hd q idxCmp allocOk 0 (by rw [r3]; exact hu) hqp
          (by rw [r3, r4]; exact ht) (by rw [hqs]; exact hst) (by rw [r5])
          (by rw [hqg]; exact t1) (by rw [hqg, hqa]; exact hqidx)
      rw [hqg, hqa, r3] at hsm hmin
      have hsm2 : Stored c.pBt store (d - (q.iPage.toNat + 1))
          (childPgno (c.apPage q.iPage.toNat) (c.aiIdx q.iPage.toNat + 1)) m := hsm
      have hct := hch2 t1 (c.aiIdx q.iPage.toNat + 1) (by omega)
      rw [show d - q.iPage.toNat - 1 = d - (q.iPage.toNat + 1) by omega,
        if_neg (by omega), Nat.add_sub_cancel] at hct
      have hbm := stored_bounds _ _ _ _ _ _ m hct hsm2
      have hpar := stored_parent c.pBt store (d - (q.iPage.toNat + 1)) _ m _ _ s2 t1
        (show c.aiIdx q.iPage.toNat + 1 ≤ (c.apPage q.iPage.toNat).nCell by omega) hsm2
      rw [show d - (q.iPage.toNat + 1) + 1 = d - q.iPage.toNat by omega] at hpar
      have hroot := path_stored store _ d hp1 ht m q.iPage.toNat (by
        show q.iPage.toNat ≤ c.iPage.toNat
        omega) hpar
      have hbs := stored_bounds _ _ _ _ _ _ m s3 hpar
      have hl1 := hlev (q.iPage.toNat + 1) (by omega)
      have hc1 := hpc (q.iPage.toNat + 1) (hagree _ (by omega))
      have hc0 := hpc q.iPage.toNat (hagree _ (by omega))
      have hhi1 : pathHi c (q.iPage.toNat + 1) = cellKey (c.apPage q.iPage.toNat)
          (c.aiIdx q.iPage.toNat) := by
        show (if c.aiIdx q.iPage.toNat = (c.apPage q.iPage.toNat).nCell then _ else _) = _
        rw [if_neg (by omega)]
      refine ⟨(0, c2), ?_, Or.inl ⟨rfl, m, hat2, hroot, ?_, ?_⟩⟩
      · intro fuel hf
        obtain ⟨f, rfl⟩ : ∃ f, fuel = f + 1 := ⟨fuel - 1, by omega⟩
        rw [hstart, if_pos hlast, hclimb (f + 1) (by have := a1; omega)]
        simp only []
        rw [if_pos (by rw [hqg]; exact i1)]
        exact hrun f (by omega)
      · have := hl1.2.2
        rw [hhi1] at this
        omega
      · intro k1 hs hek
        rcases path_escape store _ d hp1 ht k1 hs q.iPage.toNat (by
            show q.iPage.toNat ≤ c.iPage.toNat
            omega) with h | h | h
        · obtain ⟨i, hi, hsi⟩ := stored_child _ _ _ _ _ _ s2 t1 h
          have hb := stored_bounds _ _ _ _ _ _ k1 (hch2 t1 i hi) hsi
          rcases Nat.lt_trichotomy i (c.aiIdx q.iPage.toNat) with hlt | heq | hgt
          · exfalso
            have hb2 := hb.2
            rw [if_neg (by omega)] at hb2
            have hlo1 : pathLo c (q.iPage.toNat + 1) = cellKey (c.apPage q.iPage.toNat)
                (c.aiIdx q.iPage.toNat - 1) := by
              show (if c.aiIdx q.iPage.toNat = 0 then _ else _) = _
              rw [if_neg (by omega)]
            have := hl1.2.1
            rw [hlo1] at this
            have := keys_mono _ hasc2 i (c.aiIdx q.iPage.toNat - 1) (by omega) (by omega)
            omega
          · exfalso
            have := htop k1 (by
              rw [hc1.1]
              show Stored c.pBt store (d - (q.iPage.toNat + 1))
                (childPgno (c.apPage q.iPage.toNat) (c.aiIdx q.iPage.toNat)) k1
              rw [← heq, show d - (q.iPage.toNat + 1) = d - q.iPage.toNat - 1 by omega]
              exact hsi)
            omega
          · by_cases hi1 : i = c.aiIdx q.iPage.toNat + 1
            · apply hmin
              rw [hi1, show d - q.iPage.toNat - 1 = d - (q.iPage.toNat + 1) by omega] at hsi
              exact hsi
            · have hb1 := hb.1
              rw [if_neg (by omega)] at hb1
              have hbm2 := hbm.2
              rw [if_neg (by omega)] at hbm2
              have := keys_mono _ hasc2 (c.aiIdx q.iPage.toNat + 1) (i - 1) (by omega) (by omega)
              omega
        · exfalso
          rw [hc0.2.1] at h
          have := (hlev q.iPage.toNat (by omega)).2.1
          omega
        · exact le_of_lt (lt_of_le_of_lt hbs.2 h)
  · -- the next cell of the leaf
    refine ⟨(0, { c with
        skipNext := 0
        aiIdx := setAt c.aiIdx c.iPage.toNat (c.aiIdx c.iPage.toNat + 1)
        info := { c.info with nSize := 0 }
        validNKey := false }), ?_, Or.inl ⟨rfl,
        cellKey (c.apPage c.iPage.toNat) (c.aiIdx c.iPage.toNat + 1), ?_, ?_, ?_, ?_⟩⟩
    · intro fuel hf
      obtain ⟨f, rfl⟩ : ∃ f, fuel = f + 1 := ⟨fuel - 1, by omega⟩
      rw [hstart, if_neg hlast]
    · refine ⟨hst, hp1, hleaf, ?_, ?_⟩
      · show setAt c.aiIdx c.iPage.toNat _ c.iPage.toNat < (c.apPage c.iPage.toNat).nCell
        rw [hsame]
        omega
      · show cellKey (c.apPage c.iPage.toNat) (setAt c.aiIdx c.iPage.toNat _ c.iPage.toNat) = _
        rw [hsame]
    · have := leaf_stored c.pBt store (d - c.iPage.toNat - 1) _ _ (c.aiIdx c.iPage.toNat + 1)
        a2 hleaf (by omega)
      rw [show d - c.iPage.toNat - 1 + 1 = d - c.iPage.toNat by omega] at this
      exact path_stored store c d hp ht _ c.iPage.toNat (le_refl _) this
    · rw [← hkey]
      exact keys_strictMono _ hasc _ _ (by omega) (by omega)
    · intro k1 hs hek
      rcases path_escape store c d hp ht k1 hs c.iPage.toNat (le_refl _) with h | h | h
      · obtain ⟨i, hi, hk⟩ := stored_leaf _ _ _ _ _ _ a2 hleaf h
        rw [← hk]
        apply keys_mono _ hasc _ _ _ hi
        by_contra hlt
        have := keys_mono _ hasc i (c.aiIdx c.iPage.toNat) (by omega) hidx
        omega
      · exfalso
        have := (hlev c.iPage.toNat (le_refl _)).2.1
        omega
      · have := keys_mono _ hasc (c.aiIdx c.iPage.toNat + 1) ((c.apPage c.iPage.toNat).nCell - 1)
          (by omega) (by omega)
        omega

end Btree

namespace Btree

/-! ## `sqlite3BtreePrevious` on a valid cursor -/

/-- The loop of `sqlite3BtreePrevious` that leaves a leaf at its first cell: it stops at the
root when the cursor was below the first child of every level, where no key is less than
`e`, or on the first level whose index is not zero. -/
theorem prevClimb_spec (store : PageStore) (d : Nat) (e : Int) (c0 : BtCursor)
    (hp0 : CursorPath store c0)
    (ht : TableTree c0.pBt store d c0.pgnoRoot (I64_MIN - 1) I64_MAX)
    (hhigh : ∀ j, j ≤ c0.iPage.toNat → e ≤ pathHi c0 j)
    (hleaf : c0.aiIdx c0.iPage.toNat = 0 →
      ∀ k1, Stored c0.pBt store (d - c0.iPage.toNat) (pathPgno c0 c0.iPage.toNat) k1 → e ≤ k1) :
    ∀ (t : Nat) (c : BtCursor), t ≤ c0.iPage.toNat → c.iPage = (t : Int) →
      c.apPage = c0.apPage → c.aiIdx = c0.aiIdx →
      (t < c0.iPage.toNat →
        ∀ k1, Stored c0.pBt store (d - (t + 1)) (pathPgno c0 (t + 1)) k1 → e ≤ k1) →
      ∃ r, (∀ fuel, t + 1 ≤ fuel → prevClimb fuel c = some r) ∧
        r.2.apPage = c0.apPage ∧ r.2.aiIdx = c0.aiIdx ∧ r.2.pBt = c.pBt ∧
        r.2.pgnoRoot = c.pgnoRoot ∧ r.2.skipNext = c.skipNext ∧ r.2.atLast = c.atLast ∧
        ((r.1 = false ∧ r.2.eState = CURSOR_INVALID ∧
            ∀ k1, Stored c0.pBt store d c0.pgnoRoot k1 → e ≤ k1) ∨
         (r.1 = true ∧ r.2.eState = c.eState ∧ 0 ≤ r.2.iPage ∧ r.2.iPage.toNat ≤ t ∧
            0 < c0.aiIdx r.2.iPage.toNat ∧
            (r.2.iPage.toNat < c0.iPage.toNat →
              ∀ k1, Stored c0.pBt store (d - (r.2.iPage.toNat + 1))
                (pathPgno c0 (r.2.iPage.toNat + 1)) k1 → e ≤ k1))) := by
  intro t
  induction t with
  | zero =>
    intro c hle hi ha hx hbot
    have hit : c.iPage.toNat = 0 := by rw [hi]; rfl
    by_cases hz : c0.aiIdx 0 = 0
    · refine ⟨(false, { c with eState := CURSOR_INVALID }), ?_, ha, hx, rfl, rfl, rfl, rfl,
        Or.inl ⟨rfl, rfl, ?_⟩⟩
      · intro fuel hf
        obtain ⟨f, rfl⟩ : ∃ f, fuel = f + 1 := ⟨fuel - 1, by omega⟩
        rw [prevClimb, hit, hx, if_pos hz, if_pos (by rw [hi]; rfl)]
      · intro k1 hs
        obtain ⟨a1, a2, a3⟩ := path_trees store c0 d hp0 ht 0 (by omega)
        by_cases hL : c0.iPage.toNat = 0
        · rw [hL] at hleaf
          exact hleaf hz k1 hs
        · obtain ⟨b1, b2, b3⟩ := hp0.2.2 0 (by omega)
          obtain ⟨_, hn, hasc, hlo, hhi, hch⟩ := tree_page _ _ _ _ _ _ _ a3 a2
          obtain ⟨i, hi1, hsi⟩ := stored_child _ _ _ _ _ _ a2 b1 hs
          by_cases hie : i = 0
          · apply hbot (by omega) k1
            show Stored c0.pBt store (d - (0 + 1)) (childPgno (c0.apPage 0) (c0.aiIdx 0)) k1
            rw [hie] at hsi
            rw [hz]
            exact hsi
          · have hb := stored_bounds _ _ _ _ _ _ k1 (hch b1 i hi1) hsi
            have hb1 := hb.1
            rw [if_neg hie] at hb1
            have hh := hhigh 1 (by omega)
            have hh2 : pathHi c0 1 = cellKey (c0.apPage 0) 0 := by
              show (if c0.aiIdx 0 = (c0.apPage 0).nCell then pathHi c0 0
                else cellKey (c0.apPage 0) (c0.aiIdx 0)) = _
              rw [if_neg (by omega), hz]
            rw [hh2] at hh
            have := keys_mono _ hasc 0 (i - 1) (by omega) (by omega)
            omega
    · refine ⟨(true, c), ?_, ha, hx, rfl, rfl, rfl, rfl, Or.inr ⟨rfl, rfl, ?_, ?_, ?_, ?_⟩⟩
      · intro fuel hf
        obtain ⟨f, rfl⟩ : ∃ f, fuel = f + 1 := ⟨fuel - 1, by omega⟩
        rw [prevClimb, hit, hx, if_neg hz]
      · show 0 ≤ c.iPage
        rw [hi]
        omega
      · show c.iPage.toNat ≤ 0
        omega
      · show 0 < c0.aiIdx c.iPage.toNat
        rw [hit]
        omega
      · show c.iPage.toNat < c0.iPage.toNat → _
        rw [hit]
        exact hbot
  | succ t ih =>
    intro c hle hi ha hx hbot
    have hit : c.iPage.toNat = t + 1 := by rw [hi]; rfl
    by_cases hz : c0.aiIdx (t + 1) = 0
    · obtain ⟨a1, a2, a3⟩ := path_trees store c0 d hp0 ht (t + 1) (by omega)
      have hpi : (moveToParent c).iPage = (t : Int) := by
        show c.iPage - 1 = _
        rw [hi]
        omega
      have hbot1 : ∀ k1, Stored c0.pBt store (d - (t + 1)) (pathPgno c0 (t + 1)) k1 → e ≤ k1 := by
        intro k1 hs
        by_cases hL : t + 1 = c0.iPage.toNat
        · rw [← hL] at hleaf
          exact hleaf hz k1 hs
        · obtain ⟨b1, b2, b3⟩ := hp0.2.2 (t + 1) (by omega)
          obtain ⟨_, hn, hasc, hlo, hhi, hch⟩ := tree_page _ _ _ _ _ _ _ a3 a2
          obtain ⟨i, hi1, hsi⟩ := stored_child _ _ _ _ _ _ a2 b1 hs
          by_cases hie : i = 0
          · apply hbot (by omega) k1
            show Stored c0.pBt store (d - (t + 1 + 1))
              (childPgno (c0.apPage (t + 1)) (c0.aiIdx (t + 1))) k1
            rw [hie] at hsi
            rw [hz, show d - (t + 1 + 1) = d - (t + 1) - 1 by omega]
            exact hsi
          · have hb := stored_bounds _ _ _ _ _ _ k1 (hch b1 i hi1) hsi
            have hb1 := hb.1
            rw [if_neg hie] at hb1
            have hh := hhigh (t + 1 + 1) (by omega)
            have hh2 : pathHi c0 (t + 1 + 1) = cellKey (c0.apPage (t + 1)) 0 := by
              show (if c0.aiIdx (t + 1) = (c0.apPage (t + 1)).nCell then pathHi c0 (t + 1)
                else cellKey (c0.apPage (t + 1)) (c0.aiIdx (t + 1))) = _
              rw [if_neg (by omega), hz]
            rw [hh2] at hh
            have := keys_mono _ hasc 0 (i - 1) (by omega) (by omega)
            omega
      obtain ⟨r, hr, r1, r2, r3, r4, r5, r6, r7⟩ := ih (moveToParent c) (by omega) hpi ha hx
        (fun _ => hbot1)
      refine ⟨r, ?_, r1, r2, r3, r4, r5, r6, ?_⟩
      · intro fuel hf
        obtain ⟨f, rfl⟩ : ∃ f, fuel = f + 1 := ⟨fuel - 1, by omega⟩
        rw [prevClimb, hit, hx, if_pos hz, if_neg (by rw [hi]; omega)]
        exact hr f (by omega)
      · rcases r7 with h | ⟨h1, h2, h3, h4, h5⟩
        · exact Or.inl h
        · exact Or.inr ⟨h1, h2, h3, by omega, h5⟩
    · refine ⟨(true, c), ?_, ha, hx, rfl, rfl, rfl, rfl, Or.inr ⟨rfl, rfl, ?_, ?_, ?_, ?_⟩⟩
      · intro fuel hf
        obtain ⟨f, rfl⟩ : ∃ f, fuel = f + 1 := ⟨fuel - 1, by omega⟩
        rw [prevClimb, hit, hx, if_neg hz]
      · show 0 ≤ c.iPage
        rw [hi]
        omega
      · show c.iPage.toNat ≤ t + 1
        omega
      · show 0 < c0.aiIdx c.iPage.toNat
        rw [hit]
        omega
      · show c.iPage.toNat < c0.iPage.toNat → _
        rw [hit]
        exact hbot

/-- `sqlite3BtreePrevious` on an interior page: the cursor goes to the greatest key below the
child before the cell it is on. -/
theorem prev_interior (store : PageStore) (d : Nat) (hd : d ≤ 20) (c : BtCursor)
    (idxCmp : MemPage → Nat → Nat × Int) (allocOk : Bool) (res : Int)
    (hu : usableOk c.pBt.usableSize) (hp : CursorPath store c)
    (ht : TableTree c.pBt store d c.pgnoRoot (I64_MIN - 1) I64_MAX)
    (hst : c.eState = CURSOR_VALID) (hskip : c.skipNext = 0)
    (hleaf : (c.apPage c.iPage.toNat).leaf = 0)
    (hidx : c.aiIdx c.iPage.toNat < (c.apPage c.iPage.toNat).nCell) :
    ∃ c2 m, (∀ fuel, 65560 ≤ fuel →
        sqlite3BtreePrevious store idxCmp allocOk fuel c res = some (SQLITE_OK, 0, c2)) ∧
      CursorAt store c2 m ∧ c2.skipNext = 0 ∧ c2.pBt = c.pBt ∧ c2.pgnoRoot = c.pgnoRoot ∧
      c2.atLast = false ∧
      Stored c.pBt store (d - (c.iPage.toNat + 1))
        (childPgno (c.apPage c.iPage.toNat) (c.aiIdx c.iPage.toNat)) m ∧
      (∀ k1, Stored c.pBt store (d - (c.iPage.toNat + 1))
        (childPgno (c.apPage c.iPage.toNat) (c.aiIdx c.iPage.toNat)) k1 → k1 ≤ m) := by
  have hp1 : CursorPath store { c with atLast := false, skipNext := 0 } :=
    CursorPath_setIdx store c _ hp rfl rfl rfl rfl (fun j _ => rfl)
  obtain ⟨pgc, hpgc, hmove, hpath, hlev, hpg, hct⟩ :=
    descend_spec store { c with atLast := false, skipNext := 0 } d hu hd hp1 ht hleaf
      (by
        show c.aiIdx c.iPage.toNat ≤ (c.apPage c.iPage.toNat).nCell
        omega)
  simp only [] at hpgc hmove hpath hlev hpg hct
  obtain ⟨e1, e2, e3, e4⟩ := descended_level { c with atLast := false, skipNext := 0 } pgc hp.1
  simp only [] at e1 e2 e3 e4
  obtain ⟨c2, m, hrun, hat, hs1, hs2, hs3, hs4, hsm, hmin⟩ := moveToRightmost_spec store d hd
    (d - (c.iPage.toNat + 1)) (descended { c with atLast := false, skipNext := 0 } pgc)
    hu hpath ht hst (by rw [e1])
  rw [e1, hpg] at hsm hmin
  refine ⟨c2, m, ?_, hat, hs1, hs2, hs3, hs4, hsm, hmin⟩
  intro fuel hf
  obtain ⟨f, rfl⟩ : ∃ f, fuel = f + 1 := ⟨fuel - 1, by omega⟩
  rw [sqlite3BtreePrevious, restore_valid _ _ _ _ _ hst]
  simp only []
  rw [if_neg (by simp), if_neg (by rw [hst]; decide), if_neg (by rw [hskip]; decide),
    if_pos hleaf]
  have hcp : get4byte (c.apPage c.iPage.toNat).aData
      (findCell (c.apPage c.iPage.toNat) (c.aiIdx c.iPage.toNat))
      = childPgno (c.apPage c.iPage.toNat) (c.aiIdx c.iPage.toNat) := by
    unfold childPgno
    rw [if_neg (by omega)]
  rw [hcp, hmove (f + 1) (by omega)]
  simp only [SQLITE_OK, ne_eq, not_true_eq_false, if_false]
  rw [hrun (f + 1) (by omega)]
  rfl

end Btree

namespace Btree

/-- `sqlite3BtreePrevious` on a valid cursor that is on the leaf entry with key `e` and is
not marked to stay: the cursor goes to the greatest stored key below `e`, or the routine
reports the end, with the cursor invalid, when no stored key is below `e`. -/
theorem prev_leaf_spec (store : PageStore) (d : Nat) (hd : d ≤ 20) (c : BtCursor) (e : Int)
    (idxCmp : MemPage → Nat → Nat × Int) (allocOk : Bool) (res : Int)
    (hu : usableOk c.pBt.usableSize) (hat : CursorAt store c e)
    (ht : TableTree c.pBt store d c.pgnoRoot (I64_MIN - 1) I64_MAX)
    (hskip : 0 ≤ c.skipNext) :
    ∃ r : Int × BtCursor, (∀ fuel, 65561 ≤ fuel →
        sqlite3BtreePrevious store idxCmp allocOk fuel c res = some (SQLITE_OK, r.1, r.2)) ∧
      ((r.1 = 0 ∧ ∃ e2, CursorAt store r.2 e2 ∧ Stored c.pBt store d c.pgnoRoot e2 ∧ e2 < e ∧
          ∀ k1, Stored c.pBt store d c.pgnoRoot k1 → k1 < e → k1 ≤ e2) ∨
       (r.1 = 1 ∧ r.2.eState = CURSOR_INVALID ∧
          ∀ k1, Stored c.pBt store d c.pgnoRoot k1 → e ≤ k1)) := by
  have hlev := cursor_in_levels store c d e hat ht
  obtain ⟨hst, hp, hleaf, hidx, hkey⟩ := hat
  obtain ⟨a1, a2, a3⟩ := path_trees store c d hp ht c.iPage.toNat (le_refl _)
  obtain ⟨_, hn, hasc, hlo, hhi, _⟩ := tree_page _ _ _ _ _ _ _ a3 a2
  obtain ⟨r, hclimb, r1, r2, r3, r4, r5, r6, r7⟩ :=
    prevClimb_spec store d e c hp ht (fun j hj => (hlev j hj).2.2)
      (by
        intro hz k1 hs
        obtain ⟨i, hi, hk⟩ := stored_leaf _ _ _ _ _ _ a2 hleaf hs
        rw [← hk, ← hkey, hz]
        exact keys_mono _ hasc 0 i (by omega) hi)
      c.iPage.toNat { c with atLast := false, skipNext := 0 } (le_refl _)
      (by
        show c.iPage = _
        have := hp.1
        omega) rfl rfl (fun h => absurd h (lt_irrefl _))
  obtain ⟨b, q⟩ := r
  simp only [] at hclimb r1 r2 r3 r4 r5 r6 r7
  rcases r7 with ⟨hb, hinv, hall⟩ | ⟨hb, hqs, hq0, hqle, hqidx, hbot⟩
  · subst hb
    refine ⟨(1, q), ?_, Or.inr ⟨rfl, hinv, hall⟩⟩
    intro fuel hf
    obtain ⟨f, rfl⟩ : ∃ f, fuel = f + 1 := ⟨fuel - 1, by omega⟩
    rw [sqlite3BtreePrevious, restore_valid _ _ _ _ _ hst]
    simp only []
    rw [if_neg (by simp), if_neg (by rw [hst]; decide), if_neg (by omega), if_neg hleaf,
      hclimb (f + 1) (by have := a1; omega)]
  · subst hb
    have hqp : CursorPath store q :=
      CursorPath_prefix store c q hp r3 r4 r1 r2 hq0 (by
        have := hp.1
        omega)
    obtain ⟨s1, s2, s3⟩ := path_trees store c d hp ht q.iPage.toNat hqle
    obtain ⟨i1, hn2, hasc2, _, _, hch2⟩ := tree_page _ _ _ _ _ _ _ s3 s2
    have hn16 := (intKey_one _ _ _ _ _ _ _ hu s3 s2).2
    have hqa : q.aiIdx q.iPage.toNat = c.aiIdx q.iPage.toNat := by rw [r2]
    have hqg : q.apPage q.iPage.toNat = c.apPage q.iPage.toNat := by rw [r1]
    have hidx2 : c.aiIdx q.iPage.toNat ≤ (c.apPage q.iPage.toNat).nCell := by
      by_cases hs : q.iPage.toNat = c.iPage.toNat
      · rw [hs]
        omega
      · exact (hp.2.2 q.iPage.toNat (by omega)).2.1
    have hu16 : u16sub (q.aiIdx q.iPage.toNat) 1 = c.aiIdx q.iPage.toNat - 1 := by
      rw [hqa]
      unfold u16sub
      omega
    have hsame : setAt q.aiIdx q.iPage.toNat (c.aiIdx q.iPage.toNat - 1) q.iPage.toNat
        = c.aiIdx q.iPage.toNat - 1 := setAt_same _ _ _
    have hp2 : CursorPath store
        { q with
          info := { q.info with nSize := 0 }
          validNKey := false
          aiIdx := setAt q.aiIdx q.iPage.toNat (c.aiIdx q.iPage.toNat - 1) } :=
      CursorPath_setIdx store q _ hqp rfl rfl rfl rfl (fun j hj => setAt_other _ _ _ _ (by omega))
    by_cases hs : q.iPage.toNat = c.iPage.toNat
    · -- the cell before, on the leaf
      rw [hs] at hqidx
      refine ⟨(0, { q with
          info := { q.info with nSize := 0 }
          validNKey := false
          aiIdx := setAt q.aiIdx q.iPage.toNat (c.aiIdx q.iPage.toNat - 1) }), ?_,
        Or.inl ⟨rfl, cellKey (c.apPage c.iPage.toNat) (c.aiIdx c.iPage.toNat - 1), ?_, ?_, ?_,
          ?_⟩⟩
      · intro fuel hf
        obtain ⟨f, rfl⟩ : ∃ f, fuel = f + 1 := ⟨fuel - 1, by omega⟩
        rw [sqlite3BtreePrevious, restore_valid _ _ _ _ _ hst]
        simp only []
        rw [if_neg (by simp), if_neg (by rw [hst]; decide), if_neg (by omega), if_neg hleaf,
          hclimb (f + 1) (by have := a1; omega)]
        simp only []
        rw [if_neg (by
          intro h
          apply hleaf
          rw [← hs, ← hqg]
          exact h.2), hu16]
      · refine ⟨by rw [hqs]; exact hst, hp2, ?_, ?_, ?_⟩
        · show (q.apPage q.iPage.toNat).leaf ≠ 0
          rw [hqg, hs]
          exact hleaf
        · show setAt q.aiIdx q.iPage.toNat _ q.iPage.toNat < (q.apPage q.iPage.toNat).nCell
          rw [hsame, hqg, hs]
          omega
        · show cellKey (q.apPage q.iPage.toNat) (setAt q.aiIdx q.iPage.toNat _ q.iPage.toNat) = _
          rw [hsame, hqg, hs]
      · have := leaf_stored c.pBt store (d - c.iPage.toNat - 1) _ _ (c.aiIdx c.iPage.toNat - 1)
          a2 hleaf (by omega)
        rw [show d - c.iPage.toNat - 1 + 1 = d - c.iPage.toNat by omega] at this
        exact path_stored store c d hp ht _ c.iPage.toNat (le_refl _) this
      · rw [← hkey]
        exact keys_strictMono _ hasc _ _ (by omega) (by omega)
      · intro k1 hst1 hek
        rcases path_escape store c d hp ht k1 hst1 c.iPage.toNat (le_refl _) with h | h | h
        · obtain ⟨i, hi, hk⟩ := stored_leaf _ _ _ _ _ _ a2 hleaf h
          rw [← hk]
          apply keys_mono _ hasc _ _ _ (by omega)
          by_contra hlt
          have := keys_mono _ hasc (c.aiIdx c.iPage.toNat) i (by omega) hi
          omega
        · have := keys_mono _ hasc 0 (c.aiIdx c.iPage.toNat - 1) (by omega) (by omega)
          omega
        · exfalso
          have := (hlev c.iPage.toNat (le_refl _)).2.2
          omega
    · -- the climb stopped on an interior level of the path
      have hslt : q.iPage.toNat < c.iPage.toNat := by omega
      obtain ⟨t1, t2, t3⟩ := hp.2.2 q.iPage.toNat hslt
      have hbot2 := hbot hslt
      obtain ⟨c2, m, hrun, hat2, hs0, hs2, hs3, hs4, hsm, hmax⟩ :=
        prev_interior store d hd
          { q with
            info := { q.info with nSize := 0 }
            validNKey := false
            aiIdx := setAt q.aiIdx q.iPage.toNat (c.aiIdx q.iPage.toNat - 1) }
          idxCmp allocOk res (by rw [r3]; exact hu) hp2 (by rw [r3, r4]; exact ht)
          (by rw [hqs]; exact hst) r5
          (by
            show (q.apPage q.iPage.toNat).leaf = 0
            rw [hqg]
            exact t1)
          (by
            show setAt q.aiIdx q.iPage.toNat _ q.iPage.toNat < (q.apPage q.iPage.toNat).nCell
            rw [hsame, hqg]
            omega)
      simp only [] at hsm hmax
      rw [hsame, hqg, r3] at hsm hmax
      have hsm2 : Stored c.pBt store (d - (q.iPage.toNat + 1))
          (childPgno (c.apPage q.iPage.toNat) (c.aiIdx q.iPage.toNat - 1)) m := hsm
      have hct := hch2 t1 (c.aiIdx q.iPage.toNat - 1) (by omega)
      have hne : ¬ (c.aiIdx q.iPage.toNat - 1 = (c.apPage q.iPage.toNat).nCell) := by omega
      rw [show d - q.iPage.toNat - 1 = d - (q.iPage.toNat + 1) by omega, if_neg hne] at hct
      have hbm := stored_bounds _ _ _ _ _ _ m hct hsm2
      have hpar := stored_parent c.pBt store (d - (q.iPage.toNat + 1)) _ m _ _ s2 t1
        (show c.aiIdx q.iPage.toNat - 1 ≤ (c.apPage q.iPage.toNat).nCell by omega) hsm2
      rw [show d - (q.iPage.toNat + 1) + 1 = d - q.iPage.toNat by omega] at hpar
      have hroot := path_stored store c d hp ht m q.iPage.toNat hqle hpar
      have hbs := stored_bounds _ _ _ _ _ _ m s3 hpar
      have hl1 := hlev (q.iPage.toNat + 1) (by omega)
      have hlo1 : pathLo c (q.iPage.toNat + 1) = cellKey (c.apPage q.iPage.toNat)
          (c.aiIdx q.iPage.toNat - 1) := by
        show (if c.aiIdx q.iPage.toNat = 0 then _ else _) = _
        rw [if_neg (by omega)]
      refine ⟨(0, c2), ?_, Or.inl ⟨rfl, m, hat2, hroot, ?_, ?_⟩⟩
      · intro fuel hf
        obtain ⟨f, rfl⟩ : ∃ f, fuel = f + 1 := ⟨fuel - 1, by omega⟩
        rw [sqlite3BtreePrevious, restore_valid _ _ _ _ _ hst]
        simp only []
        rw [if_neg (by simp), if_neg (by rw [hst]; decide), if_neg (by omega), if_neg hleaf,
          hclimb (f + 1) (by have := a1; omega)]
        simp only []
        rw [if_pos ⟨by rw [hqg]; exact i1, by rw [hqg]; exact t1⟩, hu16, hrun f (by omega)]
      · have := hl1.2.1
        rw [hlo1] at this
        have := hbm.2
        omega
      · intro k1 hst1 hek
        rcases path_escape store c d hp ht k1 hst1 q.iPage.toNat hqle with h | h | h
        · obtain ⟨i, hi, hsi⟩ := stored_child _ _ _ _ _ _ s2 t1 h
          have hb := stored_bounds _ _ _ _ _ _ k1 (hch2 t1 i hi) hsi
          rcases Nat.lt_trichotomy i (c.aiIdx q.iPage.toNat) with hlt | heq | hgt
          · by_cases hi1 : i = c.aiIdx q.iPage.toNat - 1
            · apply hmax
              rw [hi1, show d - q.iPage.toNat - 1 = d - (q.iPage.toNat + 1) by omega] at hsi
              exact hsi
            · have hb2 := hb.2
              rw [if_neg (by omega)] at hb2
              have hbm1 := hbm.1
              rw [if_neg (by omega)] at hbm1
              have := keys_mono _ hasc2 i (c.aiIdx q.iPage.toNat - 1 - 1) (by omega) (by omega)
              omega
          · exfalso
            have := hbot2 k1 (by
              show Stored c.pBt store (d - (q.iPage.toNat + 1))
                (childPgno (c.apPage q.iPage.toNat) (c.aiIdx q.iPage.toNat)) k1
              rw [← heq, show d - (q.iPage.toNat + 1) = d - q.iPage.toNat - 1 by omega]
              exact hsi)
            omega
          · exfalso
            have hb1 := hb.1
            rw [if_neg (by omega)] at hb1
            have hhi1 : pathHi c (q.iPage.toNat + 1) = cellKey (c.apPage q.iPage.toNat)
                (c.aiIdx q.iPage.toNat) := by
              show (if c.aiIdx q.iPage.toNat = (c.apPage q.iPage.toNat).nCell then _ else _) = _
              rw [if_neg (by omega)]
            have := hl1.2.2
            rw [hhi1] at this
            have := keys_mono _ hasc2 (c.aiIdx q.iPage.toNat) (i - 1) (by omega) (by omega)
            omega
        · have := hbs.1
          omega
        · exfalso
          have := (hlev q.iPage.toNat hqle).2.2
          omega

end Btree

namespace Btree

/-- The binary search over a table page keeps the cursor's tree: `pBt` and `pgnoRoot`. -/
theorem searchPage_tree (pPage : MemPage) (idxCmp : MemPage → Nat → Nat × Int) (k : Int)
    (hint : pPage.intKey ≠ 0) :
    ∀ (fuel : Nat) (lwr upr idx : Int) (pCur : BtCursor) (out : PageSearch),
      searchPage pPage idxCmp k fuel lwr upr idx pCur = some out →
      (∀ rc res c, out = PageSearch.finish rc res c →
        c.pBt = pCur.pBt ∧ c.pgnoRoot = pCur.pgnoRoot) ∧
      (∀ l c cur, out = PageSearch.done l c cur →
        cur.pBt = pCur.pBt ∧ cur.pgnoRoot = pCur.pgnoRoot) := by
  intro fuel
  induction fuel with
  | zero =>
    intro lwr upr idx pCur out h
    simp [searchPage] at h
  | succ n ih =>
    intro lwr upr idx pCur out h
    rw [searchPage_intKey pPage idxCmp k n lwr upr idx pCur hint] at h
    split at h
    · split at h
      · cases h
        refine ⟨fun rc res c e => (by cases e), fun l c cur e => ?_⟩
        cases e
        exact ⟨rfl, rfl⟩
      · cases h
        refine ⟨fun rc res c e => ?_, fun l c cur e => (by cases e)⟩
        cases e
        exact ⟨rfl, rfl⟩
    · split at h
      · split at h
        · cases h
          refine ⟨fun rc res c e => (by cases e), fun l c cur e => ?_⟩
          cases e
          exact ⟨rfl, rfl⟩
        · have hh := ih _ _ _ _ _ h
          exact hh
      · split at h
        · cases h
          refine ⟨fun rc res c e => (by cases e), fun l c cur e => ?_⟩
          cases e
          exact ⟨rfl, rfl⟩
        · have hh := ih _ _ _ _ _ h
          exact hh

/-- `moveToChild` keeps the cursor's tree. -/
theorem moveToChild_tree (fuel : Nat) (store : PageStore) (pCur c : BtCursor) (newPgno rc : Nat)
    (h : moveToChild fuel store pCur newPgno = some (rc, c)) :
    c.pBt = pCur.pBt ∧ c.pgnoRoot = pCur.pgnoRoot := by
  unfold moveToChild at h
  simp only [] at h
  split at h
  · cases h
    exact ⟨rfl, rfl⟩
  · split at h
    · cases h
    · split at h
      · cases h
        exact ⟨rfl, rfl⟩
      · split at h
        · cases h
          exact ⟨rfl, rfl⟩
        · cases h
          exact ⟨rfl, rfl⟩

/-- The tail of `moveToRoot` keeps the cursor's tree. -/
theorem moveToRootTail_tree (fuel : Nat) (store : PageStore) (pCur c : BtCursor) (rc : Nat)
    (h : moveToRootTail fuel store pCur = some (rc, c)) :
    c.pBt = pCur.pBt ∧ c.pgnoRoot = pCur.pgnoRoot := by
  unfold moveToRootTail at h
  simp only [] at h
  split at h
  · split at h
    · cases h
      exact ⟨rfl, rfl⟩
    · have hh := moveToChild_tree _ _ _ _ _ _ h
      exact hh
  · cases h
    exact ⟨rfl, rfl⟩

/-- `moveToRoot` keeps the cursor's tree. -/
theorem moveToRoot_tree (fuel : Nat) (store : PageStore) (pCur c : BtCursor) (rc : Nat)
    (h : moveToRoot fuel store pCur = some (rc, c)) :
    c.pBt = pCur.pBt ∧ c.pgnoRoot = pCur.pgnoRoot := by
  unfold moveToRoot at h
  split at h
  · cases h
    exact ⟨rfl, rfl⟩
  · simp only [] at h
    have hc : (if pCur.eState ≥ CURSOR_REQUIRESEEK then sqlite3BtreeClearCursor pCur
        else pCur).pBt = pCur.pBt ∧
        (if pCur.eState ≥ CURSOR_REQUIRESEEK then sqlite3BtreeClearCursor pCur
        else pCur).pgnoRoot = pCur.pgnoRoot := by
      split
      · exact ⟨rfl, rfl⟩
      · exact ⟨rfl, rfl⟩
    generalize (if pCur.eState ≥ CURSOR_REQUIRESEEK then sqlite3BtreeClearCursor pCur
        else pCur) = p1 at h hc
    rw [← hc.1, ← hc.2]
    by_cases hp : p1.iPage ≥ 0
    · rw [if_pos hp] at h
      have hh := moveToRootTail_tree _ _ _ _ _ h
      exact hh
    · rw [if_neg hp] at h
      by_cases hr : p1.pgnoRoot = 0
      · rw [if_pos hr] at h
        cases h
        exact ⟨rfl, rfl⟩
      · rw [if_neg hr] at h
        split at h
        · cases h
        · rename_i rc1 pg hg
          by_cases hrc : rc1 ≠ SQLITE_OK
          · rw [if_pos hrc] at h
            cases h
            exact ⟨rfl, rfl⟩
          · rw [if_neg hrc] at h
            by_cases hk : (if p1.hasKeyInfo = true then 0 else 1) ≠ pg.intKey
            · rw [if_pos hk] at h
              cases h
              exact ⟨rfl, rfl⟩
            · rw [if_neg hk] at h
              have hh := moveToRootTail_tree _ _ _ _ _ h
              exact hh

/-- On table pages a successful descent of the seek keeps the cursor's tree. -/
theorem movetoLoop_tree (store : PageStore) (idxCmp : MemPage → Nat → Nat × Int) (k : Int)
    (biasRight : Bool) :
    ∀ (fuel : Nat) (pCur : BtCursor) (res r : Int) (c : BtCursor),
      0 ≤ pCur.iPage → (pCur.apPage pCur.iPage.toNat).intKey ≠ 0 →
      movetoLoop store idxCmp k biasRight fuel pCur res = some (SQLITE_OK, r, c) →
      c.pBt = pCur.pBt ∧ c.pgnoRoot = pCur.pgnoRoot := by
  intro fuel
  induction fuel with
  | zero =>
    intro pCur res r c _ _ h
    simp [movetoLoop] at h
  | succ n ih =>
    intro pCur res r c h0 hint h
    rw [movetoLoop] at h
    simp only [] at h
    split at h
    · cases h
    · rename_i rc1 r1 c1 hs
      obtain ⟨f1, _⟩ := searchPage_tree _ idxCmp k hint _ _ _ _ _ _ hs
      obtain ⟨e1, e2⟩ := f1 _ _ _ rfl
      simp only [Option.some.injEq, Prod.mk.injEq] at h
      rw [← h.2.2]
      exact ⟨e1, e2⟩
    · rename_i lwr c0 c1 hs
      obtain ⟨_, f2⟩ := searchPage_tree _ idxCmp k hint _ _ _ _ _ _ hs
      obtain ⟨e1, e2⟩ := f2 _ _ _ rfl
      obtain ⟨_, f3⟩ := searchPage_range _ idxCmp k hint _ _ _ _ _ _ hs
      obtain ⟨_, e3, e4⟩ := f3 _ _ _ rfl
      have e1' : c1.pBt = pCur.pBt := e1
      have e2' : c1.pgnoRoot = pCur.pgnoRoot := e2
      generalize (if (pCur.apPage pCur.iPage.toNat).leaf ≠ 0 then 0
        else if lwr ≥ ((pCur.apPage pCur.iPage.toNat).nCell : Int) then
          get4byte (pCur.apPage pCur.iPage.toNat).aData
            ((pCur.apPage pCur.iPage.toNat).hdrOffset + 8)
        else get4byte (pCur.apPage pCur.iPage.toNat).aData
          (findCell (pCur.apPage pCur.iPage.toNat) lwr.toNat)) = chld at h
      by_cases hch : chld = 0
      · rw [if_pos hch] at h
        simp only [Option.some.injEq, Prod.mk.injEq, true_and] at h
        rw [← h.2]
        exact ⟨e1', e2'⟩
      · rw [if_neg hch] at h
        split at h
        · cases h
        · rename_i rc2 c2 hm
          split at h
          · rename_i hrc
            simp only [Option.some.injEq, Prod.mk.injEq] at h
            exact absurd h.1 hrc
          · rename_i hrc
            have hrc0 : rc2 = SQLITE_OK := by
              simpa [SQLITE_OK] using hrc
            rw [hrc0] at hm
            have e3' : c1.iPage = pCur.iPage := e4
            have e4' : c1.apPage = pCur.apPage := e3
            obtain ⟨g1, g2⟩ := moveToChild_kind _ _ _ _ _ (by show 0 ≤ c1.iPage; omega) hm
            obtain ⟨g3, g4⟩ := moveToChild_tree _ _ _ _ _ _ hm
            have g3' : c2.pBt = c1.pBt := g3
            have g4' : c2.pgnoRoot = c1.pgnoRoot := g4
            have hi := ih c2 res r c g1 (by
              rw [g2]
              show (c1.apPage c1.iPage.toNat).intKey ≠ 0
              rw [e4', e3']
              exact hint) h
            exact ⟨hi.1.trans (g3'.trans e1'), hi.2.trans (g4'.trans e2')⟩

/-- A successful seek on a table from an invalid cursor that holds no page keeps the
cursor's tree. -/
theorem moveto_tree (fuel : Nat) (store : PageStore) (pCur c : BtCursor)
    (idxCmp : MemPage → Nat → Nat × Int) (k : Int) (biasRight : Bool) (res r : Int)
    (hki : pCur.hasKeyInfo = false) (hst : pCur.eState = CURSOR_INVALID) (hip : pCur.iPage < 0)
    (h : sqlite3BtreeMovetoUnpacked fuel store pCur idxCmp k biasRight res
      = some (SQLITE_OK, r, c)) :
    c.pBt = pCur.pBt ∧ c.pgnoRoot = pCur.pgnoRoot := by
  have hv : ¬ (pCur.eState = CURSOR_VALID) := by
    rw [hst]; decide
  have h1 : ¬ (pCur.eState = CURSOR_VALID ∧ pCur.validNKey = true ∧ (pCur.apPage 0).intKey ≠ 0 ∧
      pCur.info.nKey = k) := fun e => hv e.1
  have h2 : ¬ (pCur.eState = CURSOR_VALID ∧ pCur.validNKey = true ∧ (pCur.apPage 0).intKey ≠ 0 ∧
      pCur.atLast = true ∧ pCur.info.nKey < k) := fun e => hv e.1
  unfold sqlite3BtreeMovetoUnpacked at h
  rw [if_neg h1, if_neg h2] at h
  split at h
  · cases h
  · rename_i rc c1 hm
    obtain ⟨t1, t2⟩ := moveToRoot_tree _ _ _ _ _ hm
    split at h
    · rename_i hrc
      simp only [Option.some.injEq, Prod.mk.injEq] at h
      exact absurd h.1 hrc
    · rename_i hrc
      have hrc0 : rc = SQLITE_OK := by
        simpa [SQLITE_OK] using hrc
      rw [hrc0] at hm
      split at h
      · simp only [Option.some.injEq, Prod.mk.injEq, true_and] at h
        rw [← h.2]
        exact ⟨t1, t2⟩
      · rename_i hinv
        rcases moveToRoot_kind _ _ _ _ hki hst hip hm with g | ⟨g1, g2⟩
        · exact absurd g hinv
        · obtain ⟨i1, i2⟩ := movetoLoop_tree store idxCmp k biasRight _ _ _ _ _ g1 g2 h
          exact ⟨i1.trans t1, i2.trans t2⟩

/-- A successful restore of a saved table cursor keeps the cursor's tree. -/
theorem restore_tree (fuel : Nat) (store : PageStore) (c1 c : BtCursor)
    (idxCmp : MemPage → Nat → Nat × Int) (allocOk : Bool)
    (hst : c1.eState = CURSOR_REQUIRESEEK) (hki : c1.hasKeyInfo = false) (hip : c1.iPage < 0)
    (h : btreeRestoreCursorPosition fuel store c1 idxCmp allocOk = some (SQLITE_OK, c)) :
    c.pBt = c1.pBt ∧ c.pgnoRoot = c1.pgnoRoot := by
  unfold btreeRestoreCursorPosition at h
  rw [if_neg (by rw [hst]; decide)] at h
  split at h
  · cases h
  · rename_i rc1 r1 c2 hm
    by_cases hrc : rc1 = SQLITE_OK
    · rw [if_pos hrc] at h
      rw [hrc] at hm
      have hc : c2.pBt = c1.pBt ∧ c2.pgnoRoot = c1.pgnoRoot := by
        unfold btreeMoveto at hm
        split at hm
        · simp [SQLITE_OK, SQLITE_NOMEM] at hm
        · have hh := moveto_tree _ _ { c1 with eState := CURSOR_INVALID } _ _ _ _ _ _ hki rfl
            hip hm
          exact hh
      simp only [Option.some.injEq, Prod.mk.injEq] at h
      rw [← h.2]
      exact hc
    · rw [if_neg hrc] at h
      simp only [Option.some.injEq, Prod.mk.injEq] at h
      exact absurd h.1 hrc

/-- Once the cursor has been restored to a valid or invalid cursor, `sqlite3BtreeNext` goes
on as from the restored cursor. -/
theorem next_restore_eq (store : PageStore) (idxCmp : MemPage → Nat → Nat × Int)
    (allocOk : Bool) (fuel : Nat) (c1 c : BtCursor) (res : Int)
    (h : restoreCursorPosition (fuel + 1) store c1 idxCmp allocOk = some (SQLITE_OK, c))
    (hv : c.eState < CURSOR_REQUIRESEEK) :
    sqlite3BtreeNext store idxCmp allocOk (fuel + 1) c1 res =
      sqlite3BtreeNext store idxCmp allocOk (fuel + 1) c res := by
  have h2 : restoreCursorPosition (fuel + 1) store c idxCmp allocOk = some (SQLITE_OK, c) := by
    unfold restoreCursorPosition
    rw [if_neg (by omega)]
  rw [sqlite3BtreeNext, sqlite3BtreeNext, h, h2]

/-- Once the cursor has been restored to a valid or invalid cursor, `sqlite3BtreePrevious`
goes on as from the restored cursor. -/
theorem prev_restore_eq (store : PageStore) (idxCmp : MemPage → Nat → Nat × Int)
    (allocOk : Bool) (fuel : Nat) (c1 c : BtCursor) (res : Int)
    (h : restoreCursorPosition (fuel + 1) store c1 idxCmp allocOk = some (SQLITE_OK, c))
    (hv : c.eState < CURSOR_REQUIRESEEK) :
    sqlite3BtreePrevious store idxCmp allocOk (fuel + 1) c1 res =
      sqlite3BtreePrevious store idxCmp allocOk (fuel + 1) c res := by
  have h2 : restoreCursorPosition (fuel + 1) store c idxCmp allocOk = some (SQLITE_OK, c) := by
    unfold restoreCursorPosition
    rw [if_neg (by omega)]
  rw [sqlite3BtreePrevious, sqlite3BtreePrevious, h, h2]

end Btree

namespace Btree

/-- A table tree is not the empty table. -/
theorem tree_not_empty (pBt : BtShared) (store : PageStore) (d pgno : Nat) (lo hi : Int)
    (ht : TableTree pBt store d pgno lo hi) : ¬ EmptyTable pBt store pgno := by
  intro he
  obtain ⟨pg, hpg, _, _, hn⟩ := he
  cases d with
  | zero => exact ht
  | succ d =>
    obtain ⟨pg1, hpg1, _, h1, _⟩ := ht
    rw [hpg] at hpg1
    cases hpg1
    omega

/-- `sqlite3BtreeNext` on a saved table cursor whose key was `k`: the cursor is restored in
the tree as it is now and goes to the least stored key above `k`, or the routine reports the
end, with the cursor invalid, when no stored key is above `k`. -/
theorem next_saved_spec (store : PageStore) (c1 : BtCursor) (d : Nat) (k : Int)
    (idxCmp : MemPage → Nat → Nat × Int) (allocOk : Bool) (res : Int)
    (hu : usableOk c1.pBt.usableSize) (hd : d ≤ 20) (hk1 : I64_MIN ≤ k) (hk2 : k ≤ I64_MAX)
    (hst : c1.eState = CURSOR_REQUIRESEEK) (hki : c1.hasKeyInfo = false)
    (hpk : c1.pKey = none) (hip : c1.iPage = -1) (hnk : c1.nKey = k)
    (ht : EmptyTable c1.pBt store c1.pgnoRoot ∨
      TableTree c1.pBt store d c1.pgnoRoot (I64_MIN - 1) I64_MAX) :
    ∃ r : Int × BtCursor,
      (∀ fuel, 65561 ≤ fuel →
        sqlite3BtreeNext store idxCmp allocOk fuel c1 res = some (SQLITE_OK, r.1, r.2)) ∧
      ((r.1 = 0 ∧ ∃ e, CursorAt store r.2 e ∧ Stored c1.pBt store d c1.pgnoRoot e ∧ k < e ∧
          ∀ k1, Stored c1.pBt store d c1.pgnoRoot k1 → k < k1 → e ≤ k1) ∨
       (r.1 = 1 ∧ r.2.eState = CURSOR_INVALID ∧
          ∀ k1, Stored c1.pBt store d c1.pgnoRoot k1 → k1 ≤ k)) := by
  obtain ⟨c, hrun, hs3, hiff, hat0, hempty, hne⟩ :=
    btreeRestoreCursorPosition_spec store c1 d k idxCmp allocOk hu hd hk1 hk2 hst hki hpk hip
      hnk ht
  obtain ⟨hb, hr⟩ := restore_tree 65556 store c1 c idxCmp allocOk hst hki (by omega)
    (hrun 65556 (le_refl _))
  have hrest : ∀ f, 65555 ≤ f →
      restoreCursorPosition (f + 1) store c1 idxCmp allocOk = some (SQLITE_OK, c) := by
    intro f hf
    unfold restoreCursorPosition
    rw [if_pos (le_of_eq hst.symm)]
    exact hrun _ (by omega)
  rcases ht with he | htt
  · obtain ⟨_, hinv⟩ := hempty he
    refine ⟨(1, c), fun fuel hf => ?_, Or.inr ⟨rfl, hinv, fun k1 hs => ?_⟩⟩
    · obtain ⟨f, rfl⟩ : ∃ f, fuel = f + 1 := ⟨fuel - 1, by omega⟩
      rw [sqlite3BtreeNext, hrest f (by omega)]
      simp only []
      rw [if_neg (by simp), if_pos hinv.symm]
    · exact absurd hs (not_stored_of_empty _ _ _ _ _ he)
  · have hnot := tree_not_empty _ _ _ _ _ _ htt
    have hu2 : usableOk c.pBt.usableSize := by
      rw [hb]; exact hu
    have htt2 : TableTree c.pBt store d c.pgnoRoot (I64_MIN - 1) I64_MAX := by
      rw [hb, hr]; exact htt
    by_cases h0 : c.skipNext = 0
    · have hat := hat0 h0
      obtain ⟨r, hnext, hres⟩ := next_leaf_spec store d hd c k idxCmp allocOk res hu2 hat htt2
        (by omega)
      rw [hb, hr] at hres
      refine ⟨r, fun fuel hf => ?_, hres⟩
      obtain ⟨f, rfl⟩ : ∃ f, fuel = f + 1 := ⟨fuel - 1, by omega⟩
      rw [next_restore_eq store idxCmp allocOk f c1 c res (hrest f (by omega))
        (by rw [hat.1]; decide)]
      exact hnext _ hf
    · have hns : ¬ Stored c1.pBt store d c1.pgnoRoot k := fun hs => h0 (hiff.mpr hs)
      obtain ⟨e, hat, hse, hlt, hgt⟩ := hne hnot h0
      by_cases hneg : c.skipNext < 0
      · obtain ⟨hek, hmax⟩ := hlt hneg
        obtain ⟨r, hnext, hres⟩ := next_leaf_spec store d hd c e idxCmp allocOk res hu2 hat
          htt2 (by omega)
        rw [hb, hr] at hres
        refine ⟨r, fun fuel hf => ?_, ?_⟩
        · obtain ⟨f, rfl⟩ : ∃ f, fuel = f + 1 := ⟨fuel - 1, by omega⟩
          rw [next_restore_eq store idxCmp allocOk f c1 c res (hrest f (by omega))
            (by rw [hat.1]; decide)]
          exact hnext _ hf
        · rcases hres with ⟨hr0, e2, hat2, hs2, hlt2, hmin2⟩ | ⟨hr1, hinv, hall⟩
          · refine Or.inl ⟨hr0, e2, hat2, hs2, ?_, fun k1 hs1 hk => hmin2 k1 hs1 (by omega)⟩
            by_contra hcon
            have hle : e2 ≤ k := by omega
            rcases lt_or_eq_of_le hle with hl | hl
            · have := hmax e2 hs2 hl
              omega
            · rw [hl] at hs2
              exact hns hs2
          · refine Or.inr ⟨hr1, hinv, fun k1 hs1 => ?_⟩
            have := hall k1 hs1
            omega
      · have hpos : 0 < c.skipNext := by omega
        obtain ⟨hke, hmin⟩ := hgt hpos
        refine ⟨(0, { c with skipNext := 0 }), fun fuel hf => ?_,
          Or.inl ⟨rfl, e, hat, hse, hke, hmin⟩⟩
        obtain ⟨f, rfl⟩ : ∃ f, fuel = f + 1 := ⟨fuel - 1, by omega⟩
        have hval : ¬ (CURSOR_INVALID = c.eState) := by
          rw [hat.1]; decide
        rw [sqlite3BtreeNext, hrest f (by omega)]
        simp only []
        rw [if_neg (by simp), if_neg hval, if_pos hpos]

/-- `sqlite3BtreePrevious` on a saved table cursor whose key was `k`: the cursor is restored
in the tree as it is now and goes to the greatest stored key below `k`, or the routine
reports the end, with the cursor invalid, when no stored key is below `k`. -/
theorem prev_saved_spec (store : PageStore) (c1 : BtCursor) (d : Nat) (k : Int)
    (idxCmp : MemPage → Nat → Nat × Int) (allocOk : Bool) (res : Int)
    (hu : usableOk c1.pBt.usableSize) (hd : d ≤ 20) (hk1 : I64_MIN ≤ k) (hk2 : k ≤ I64_MAX)
    (hst : c1.eState = CURSOR_REQUIRESEEK) (hki : c1.hasKeyInfo = false)
    (hpk : c1.pKey = none) (hip : c1.iPage = -1) (hnk : c1.nKey = k)
    (ht : EmptyTable c1.pBt store c1.pgnoRoot ∨
      TableTree c1.pBt store d c1.pgnoRoot (I64_MIN - 1) I64_MAX) :
    ∃ r : Int × BtCursor,
      (∀ fuel, 65561 ≤ fuel →
        sqlite3BtreePrevious store idxCmp allocOk fuel c1 res = some (SQLITE_OK, r.1, r.2)) ∧
      ((r.1 = 0 ∧ ∃ e, CursorAt store r.2 e ∧ Stored c1.pBt store d c1.pgnoRoot e ∧ e < k ∧
          ∀ k1, Stored c1.pBt store d c1.pgnoRoot k1 → k1 < k → k1 ≤ e) ∨
       (r.1 = 1 ∧ r.2.eState = CURSOR_INVALID ∧
          ∀ k1, Stored c1.pBt store d c1.pgnoRoot k1 → k ≤ k1)) := by
  obtain ⟨c, hrun, hs3, hiff, hat0, hempty, hne⟩ :=
    btreeRestoreCursorPosition_spec store c1 d k idxCmp allocOk hu hd hk1 hk2 hst hki hpk hip
      hnk ht
  obtain ⟨hb, hr⟩ := restore_tree 65556 store c1 c idxCmp allocOk hst hki (by omega)
    (hrun 65556 (le_refl _))
  have hrest : ∀ f, 65555 ≤ f →
      restoreCursorPosition (f + 1) store c1 idxCmp allocOk = some (SQLITE_OK, c) := by
    intro f hf
    unfold restoreCursorPosition
    rw [if_pos (le_of_eq hst.symm)]
    exact hrun _ (by omega)
  rcases ht with he | htt
  · obtain ⟨_, hinv⟩ := hempty he
    refine ⟨(1, { c with atLast := false }), fun fuel hf => ?_,
      Or.inr ⟨rfl, hinv, fun k1 hs => ?_⟩⟩
    · obtain ⟨f, rfl⟩ : ∃ f, fuel = f + 1 := ⟨fuel - 1, by omega⟩
      have hinv2 : CURSOR_INVALID = ({ c with atLast := false } : BtCursor).eState := hinv.symm
      rw [sqlite3BtreePrevious, hrest f (by omega)]
      simp only []
      rw [if_neg (by simp), if_pos hinv2]
    · exact absurd hs (not_stored_of_empty _ _ _ _ _ he)
  · have hnot := tree_not_empty _ _ _ _ _ _ htt
    have hu2 : usableOk c.pBt.usableSize := by
      rw [hb]; exact hu
    have htt2 : TableTree c.pBt store d c.pgnoRoot (I64_MIN - 1) I64_MAX := by
      rw [hb, hr]; exact htt
    by_cases h0 : c.skipNext = 0
    · have hat := hat0 h0
      obtain ⟨r, hnext, hres⟩ := prev_leaf_spec store d hd c k idxCmp allocOk res hu2 hat htt2
        (by omega)
      rw [hb, hr] at hres
      refine ⟨r, fun fuel hf => ?_, hres⟩
      obtain ⟨f, rfl⟩ : ∃ f, fuel = f + 1 := ⟨fuel - 1, by omega⟩
      rw [prev_restore_eq store idxCmp allocOk f c1 c res (hrest f (by omega))
        (by rw [hat.1]; decide)]
      exact hnext _ hf
    · have hns : ¬ Stored c1.pBt store d c1.pgnoRoot k := fun hs => h0 (hiff.mpr hs)
      obtain ⟨e, hat, hse, hlt, hgt⟩ := hne hnot h0
      by_cases hpos : 0 < c.skipNext
      · obtain ⟨hke, hmin⟩ := hgt hpos
        obtain ⟨r, hnext, hres⟩ := prev_leaf_spec store d hd c e idxCmp allocOk res hu2 hat
          htt2 (by omega)
        rw [hb, hr] at hres
        refine ⟨r, fun fuel hf => ?_, ?_⟩
        · obtain ⟨f, rfl⟩ : ∃ f, fuel = f + 1 := ⟨fuel - 1, by omega⟩
          rw [prev_restore_eq store idxCmp allocOk f c1 c res (hrest f (by omega))
            (by rw [hat.1]; decide)]
          exact hnext _ hf
        · rcases hres with ⟨hr0, e2, hat2, hs2, hlt2, hmax2⟩ | ⟨hr1, hinv, hall⟩
          · refine Or.inl ⟨hr0, e2, hat2, hs2, ?_, fun k1 hs1 hk => hmax2 k1 hs1 (by omega)⟩
            by_contra hcon
            have hle : k ≤ e2 := by omega
            rcases lt_or_eq_of_le hle with hl | hl
            · have := hmin e2 hs2 hl
              omega
            · rw [← hl] at hs2
              exact hns hs2
          · refine Or.inr ⟨hr1, hinv, fun k1 hs1 => ?_⟩
            have := hall k1 hs1
            omega
      · have hneg : c.skipNext < 0 := by omega
        obtain ⟨hek, hmax⟩ := hlt hneg
        refine ⟨(0, { c with atLast := false, skipNext := 0 }), fun fuel hf => ?_,
          Or.inl ⟨rfl, e, hat, hse, hek, hmax⟩⟩
        obtain ⟨f, rfl⟩ : ∃ f, fuel = f + 1 := ⟨fuel - 1, by omega⟩
        have hval : ¬ (CURSOR_INVALID = ({ c with atLast := false } : BtCursor).eState) := by
          show ¬ (CURSOR_INVALID = c.eState)
          rw [hat.1]; decide
        have hneg2 : ({ c with atLast := false } : BtCursor).skipNext < 0 := hneg
        rw [sqlite3BtreePrevious, hrest f (by omega)]
        simp only []
        rw [if_neg (by simp), if_neg hval, if_pos hneg2]

end Btree

namespace Btree

/-- C21: stepping a saved table cursor.  Let the cursor be valid on the entry with key `k`
of a table B-tree and be saved with `saveCursorPosition`.  Whatever the tree looks like
afterwards (`store1`: entries inserted or deleted, `k` itself possibly gone), as long as it
is a table B-tree of at most 20 levels or the empty table, the first `sqlite3BtreeNext`
returns `SQLITE_OK` and either writes 0 to `*pRes` and leaves the cursor on the smallest
stored key greater than `k`, or writes 1 and leaves the cursor invalid when no stored key is
greater than `k`; the first `sqlite3BtreePrevious` returns `SQLITE_OK` and either writes 0
and leaves the cursor on the largest stored key smaller than `k`, or writes 1 and leaves the
cursor invalid when no stored key is smaller than `k`. -/
theorem sqlite3BtreeNext_resumes_saved (store0 store1 : PageStore) (pCur : BtCursor) (d : Nat)
    (k : Int) (idxCmp : MemPage → Nat → Nat × Int) (allocOk : Bool)
    (keyBuf : Option (Nat × Bytes)) (res : Int)
    (hu : usableOk pCur.pBt.usableSize) (hd : d ≤ 20)
    (hat : CursorAt store0 pCur k) (htc : TableCursor pCur)
    (ht : EmptyTable pCur.pBt store1 pCur.pgnoRoot ∨
      TableTree pCur.pBt store1 d pCur.pgnoRoot (I64_MIN - 1) I64_MAX) :
    (∃ r : Int × BtCursor,
      (∀ fuel, 65561 ≤ fuel →
        sqlite3BtreeNext store1 idxCmp allocOk fuel (saveCursorPosition pCur keyBuf).2 res
          = some (SQLITE_OK, r.1, r.2)) ∧
      ((r.1 = 0 ∧ ∃ e, CursorAt store1 r.2 e ∧ Stored pCur.pBt store1 d pCur.pgnoRoot e ∧
          k < e ∧ ∀ k1, Stored pCur.pBt store1 d pCur.pgnoRoot k1 → k < k1 → e ≤ k1) ∨
       (r.1 = 1 ∧ r.2.eState = CURSOR_INVALID ∧
          ∀ k1, Stored pCur.pBt store1 d pCur.pgnoRoot k1 → k1 ≤ k))) ∧
    (∃ r : Int × BtCursor,
      (∀ fuel, 65561 ≤ fuel →
        sqlite3BtreePrevious store1 idxCmp allocOk fuel (saveCursorPosition pCur keyBuf).2 res
          = some (SQLITE_OK, r.1, r.2)) ∧
      ((r.1 = 0 ∧ ∃ e, CursorAt store1 r.2 e ∧ Stored pCur.pBt store1 d pCur.pgnoRoot e ∧
          e < k ∧ ∀ k1, Stored pCur.pBt store1 d pCur.pgnoRoot k1 → k1 < k → k1 ≤ e) ∨
       (r.1 = 1 ∧ r.2.eState = CURSOR_INVALID ∧
          ∀ k1, Stored pCur.pBt store1 d pCur.pgnoRoot k1 → k ≤ k1))) := by
  obtain ⟨_, s2, s3, s4, s5, s6, s7, s8⟩ := saveCursorPosition_spec store0 pCur k keyBuf hat htc
  have hk1 : I64_MIN ≤ k := hat.2.2.2.2 ▸ (toInt64_range _).1
  have hk2 : k ≤ I64_MAX := hat.2.2.2.2 ▸ (toInt64_range _).2
  have hu2 : usableOk (saveCursorPosition pCur keyBuf).2.pBt.usableSize := by
    rw [s6]; exact hu
  have ht2 : EmptyTable (saveCursorPosition pCur keyBuf).2.pBt store1
      (saveCursorPosition pCur keyBuf).2.pgnoRoot ∨
      TableTree (saveCursorPosition pCur keyBuf).2.pBt store1 d
        (saveCursorPosition pCur keyBuf).2.pgnoRoot (I64_MIN - 1) I64_MAX := by
    rw [s6, s7]; exact ht
  have hn := next_saved_spec store1 (saveCursorPosition pCur keyBuf).2 d k idxCmp allocOk res
    hu2 hd hk1 hk2 s2 s8 s4 s5 s3 ht2
  have hp := prev_saved_spec store1 (saveCursorPosition pCur keyBuf).2 d k idxCmp allocOk res
    hu2 hd hk1 hk2 s2 s8 s4 s5 s3 ht2
  rw [s6, s7] at hn hp
  exact ⟨hn, hp⟩

set_option maxRecDepth 100000 in
/-- Witness for C21: the cursor that a seek leaves on key 7 of the one-page table with keys
5, 7, 10 is saved; the table then holds 5, 10, 20, and the cursor is stepped in that
table. -/
theorem sqlite3BtreeNext_resumes_saved_witness :
    (usableOk exCursorAt7.pBt.usableSize ∧ CursorAt exStoreBefore exCursorAt7 7 ∧
      TableCursor exCursorAt7 ∧
      TableTree exCursorAt7.pBt exStoreAfter 1 exCursorAt7.pgnoRoot (I64_MIN - 1) I64_MAX) ∧
    ((∃ r : Int × BtCursor,
      (∀ fuel, 65561 ≤ fuel →
        sqlite3BtreeNext exStoreAfter (fun _ _ => (0, 0)) true fuel
          (saveCursorPosition exCursorAt7 none).2 0 = some (SQLITE_OK, r.1, r.2)) ∧
      ((r.1 = 0 ∧ ∃ e, CursorAt exStoreAfter r.2 e ∧
          Stored exCursorAt7.pBt exStoreAfter 1 exCursorAt7.pgnoRoot e ∧
          7 < e ∧ ∀ k1, Stored exCursorAt7.pBt exStoreAfter 1 exCursorAt7.pgnoRoot k1 →
            7 < k1 → e ≤ k1) ∨
       (r.1 = 1 ∧ r.2.eState = CURSOR_INVALID ∧
          ∀ k1, Stored exCursorAt7.pBt exStoreAfter 1 exCursorAt7.pgnoRoot k1 → k1 ≤ 7))) ∧
    (∃ r : Int × BtCursor,
      (∀ fuel, 65561 ≤ fuel →
        sqlite3BtreePrevious exStoreAfter (fun _ _ => (0, 0)) true fuel
          (saveCursorPosition exCursorAt7 none).2 0 = some (SQLITE_OK, r.1, r.2)) ∧
      ((r.1 = 0 ∧ ∃ e, CursorAt exStoreAfter r.2 e ∧
          Stored exCursorAt7.pBt exStoreAfter 1 exCursorAt7.pgnoRoot e ∧
          e < 7 ∧ ∀ k1, Stored exCursorAt7.pBt exStoreAfter 1 exCursorAt7.pgnoRoot k1 →
            k1 < 7 → k1 ≤ e) ∨
       (r.1 = 1 ∧ r.2.eState = CURSOR_INVALID ∧
          ∀ k1, Stored exCursorAt7.pBt exStoreAfter 1 exCursorAt7.pgnoRoot k1 → 7 ≤ k1)))) :=
  ⟨⟨by decide,
      ⟨by decide, ⟨by decide, rfl,
          fun j hj => absurd ((by decide : exCursorAt7.iPage.toNat = 0) ▸ hj) (Nat.not_lt_zero j)⟩,
        by decide,
        by decide, by decide⟩,
      by decide, by decide⟩,
    sqlite3BtreeNext_resumes_saved exStoreBefore exStoreAfter exCursorAt7 1 7
      (fun _ _ => (0, 0)) true none 0 (by decide) (by decide)
      ⟨by decide, ⟨by decide, rfl,
          fun j hj => absurd ((by decide : exCursorAt7.iPage.toNat = 0) ▸ hj) (Nat.not_lt_zero j)⟩,
        by decide,
        by decide, by decide⟩
      (by decide) (Or.inr (by decide))⟩

end Btree

namespace Btree

/-! ## `sqlite3BtreeLast` on a cursor that is already on the last entry -/

/-- `sqlite3BtreeLast` on a valid cursor whose `atLast` flag is set returns `SQLITE_OK` at
once: the cursor is as before and `*pRes` keeps the value it had. -/
theorem sqlite3BtreeLast_noop (fuel : Nat) (store : PageStore) (pCur : BtCursor) (res : Int)
    (hv : pCur.eState = CURSOR_VALID) (hl : pCur.atLast = true) :
    sqlite3BtreeLast fuel store pCur res = some (SQLITE_OK, res, pCur) := by
  unfold sqlite3BtreeLast
  rw [if_pos ⟨hv.symm, hl⟩]

set_option maxRecDepth 100000 in
/-- C32 fails on the code: on the one-page table with the keys 5, 7, 10 the first
`sqlite3BtreeLast` of a fresh cursor returns `SQLITE_OK`, writes 0 to `*pRes` and leaves the
cursor valid on key 10 with `atLast` set; a second `sqlite3BtreeLast` on that cursor returns
`SQLITE_OK` with the cursor still on key 10, yet `*pRes` holds what it held before the call,
be it 1 or 7: the routine has not written it. -/
theorem sqlite3BtreeLast_pRes_unwritten :
    (sqlite3BtreeLast 65556 exStoreBefore (freshCursor exBt1024 2) 7).map
        (fun r => (r.1, r.2.1, r.2.2.eState)) = some (SQLITE_OK, 0, CURSOR_VALID) ∧
    exCursorLast.eState = CURSOR_VALID ∧ exCursorLast.atLast = true ∧
    cellKey (exCursorLast.apPage exCursorLast.iPage.toNat)
      (exCursorLast.aiIdx exCursorLast.iPage.toNat) = 10 ∧
    (sqlite3BtreeLast 65556 exStoreBefore exCursorLast 1).map
        (fun r => (r.1, r.2.1, r.2.2.eState,
          cellKey (r.2.2.apPage r.2.2.iPage.toNat) (r.2.2.aiIdx r.2.2.iPage.toNat)))
      = some (SQLITE_OK, 1, CURSOR_VALID, 10) ∧
    (sqlite3BtreeLast 65556 exStoreBefore exCursorLast 7).map
        (fun r => (r.1, r.2.1, r.2.2.eState,
          cellKey (r.2.2.apPage r.2.2.iPage.toNat) (r.2.2.aiIdx r.2.2.iPage.toNat)))
      = some (SQLITE_OK, 7, CURSOR_VALID, 10) := by
  refine ⟨by decide, by decide, by decide, by decide, by decide, by decide⟩

/-! ## The meta values -/

/-- The four bytes that `put4byte` stores are the big-endian digits of the value. -/
theorem put4byte_bytes (d : Bytes) (i v : Nat) :
    getByte (put4byte d i v) i = v / 16777216 % 256 ∧
    getByte (put4byte d i v) (i + 1) = v / 65536 % 256 ∧
    getByte (put4byte d i v) (i + 2) = v / 256 % 256 ∧
    getByte (put4byte d i v) (i + 3) = v % 256 := by
  unfold put4byte getByte setByte
  simp

/-- `sqlite3BtreeUpdateMeta` followed by `sqlite3BtreeGetMeta`. -/
theorem updateMeta_spec (s : DbState) (rcWrite incrVacuum i v : Nat)
    (hok : (sqlite3BtreeUpdateMeta s rcWrite incrVacuum i v).1 = SQLITE_OK) :
    sqlite3BtreeGetMeta (sqlite3BtreeUpdateMeta s rcWrite incrVacuum i v).2.1 i
      = v % 4294967296 ∧
    getByte ((sqlite3BtreeUpdateMeta s rcWrite incrVacuum i v).2.1.page 1) (36 + 4 * i)
      = v / 16777216 % 256 ∧
    getByte ((sqlite3BtreeUpdateMeta s rcWrite incrVacuum i v).2.1.page 1) (36 + 4 * i + 1)
      = v / 65536 % 256 ∧
    getByte ((sqlite3BtreeUpdateMeta s rcWrite incrVacuum i v).2.1.page 1) (36 + 4 * i + 2)
      = v / 256 % 256 ∧
    getByte ((sqlite3BtreeUpdateMeta s rcWrite incrVacuum i v).2.1.page 1) (36 + 4 * i + 3)
      = v % 256 ∧
    (∀ j, j ≠ i →
      sqlite3BtreeGetMeta (sqlite3BtreeUpdateMeta s rcWrite incrVacuum i v).2.1 j
        = sqlite3BtreeGetMeta s j) ∧
    (∀ p, p ≠ 1 →
      (sqlite3BtreeUpdateMeta s rcWrite incrVacuum i v).2.1.page p = s.page p) := by
  have hrc : rcWrite = SQLITE_OK := by
    unfold sqlite3BtreeUpdateMeta at hok
    split at hok
    · assumption
    · exact hok
  have e : (sqlite3BtreeUpdateMeta s rcWrite incrVacuum i v).2.1
      = s.setPage 1 (put4byte (s.page 1) (36 + i * 4) v) := by
    unfold sqlite3BtreeUpdateMeta
    rw [if_pos hrc]
  have e4 : 36 + 4 * i = 36 + i * 4 := by omega
  obtain ⟨b0, b1, b2, b3⟩ := put4byte_bytes (s.page 1) (36 + i * 4) v
  rw [e, e4]
  unfold sqlite3BtreeGetMeta
  rw [setPage_same]
  refine ⟨get4byte_put4byte _ _ _, b0, b1, b2, b3, fun j hj => ?_, fun p hp => ?_⟩
  · exact get4byte_put4byte_other _ _ _ _ (by omega)
  · exact setPage_other _ _ _ _ hp

/-- C34: for every index `i` in 1..15 and every 32-bit value `v`, when
`sqlite3BtreeUpdateMeta(i, v)` returns `SQLITE_OK`, `sqlite3BtreeGetMeta(i)` yields `v`, the
four bytes at offset `36 + 4*i` of page 1 are `v` in big-endian order, and
`sqlite3BtreeGetMeta(j)` is unchanged for every other `j` in 0..15. -/
theorem sqlite3BtreeUpdateMeta_GetMeta (s : DbState) (rcWrite incrVacuum i v : Nat)
    (_hi : 1 ≤ i ∧ i ≤ 15) (hv : v < 4294967296)
    (hok : (sqlite3BtreeUpdateMeta s rcWrite incrVacuum i v).1 = SQLITE_OK) :
    sqlite3BtreeGetMeta (sqlite3BtreeUpdateMeta s rcWrite incrVacuum i v).2.1 i = v ∧
    getByte ((sqlite3BtreeUpdateMeta s rcWrite incrVacuum i v).2.1.page 1) (36 + 4 * i)
      = v / 16777216 % 256 ∧
    getByte ((sqlite3BtreeUpdateMeta s rcWrite incrVacuum i v).2.1.page 1) (36 + 4 * i + 1)
      = v / 65536 % 256 ∧
    getByte ((sqlite3BtreeUpdateMeta s rcWrite incrVacuum i v).2.1.page 1) (36 + 4 * i + 2)
      = v / 256 % 256 ∧
    getByte ((sqlite3BtreeUpdateMeta s rcWrite incrVacuum i v).2.1.page 1) (36 + 4 * i + 3)
      = v % 256 ∧
    (∀ j, j ≤ 15 → j ≠ i →
      sqlite3BtreeGetMeta (sqlite3BtreeUpdateMeta s rcWrite incrVacuum i v).2.1 j
        = sqlite3BtreeGetMeta s j) :=
  ⟨(updateMeta_spec s rcWrite incrVacuum i v hok).1.trans (Nat.mod_eq_of_lt hv),
    (updateMeta_spec s rcWrite incrVacuum i v hok).2.1,
    (updateMeta_spec s rcWrite incrVacuum i v hok).2.2.1,
    (updateMeta_spec s rcWrite incrVacuum i v hok).2.2.2.1,
    (updateMeta_spec s rcWrite incrVacuum i v hok).2.2.2.2.1,
    fun j _ hj => (updateMeta_spec s rcWrite incrVacuum i v hok).2.2.2.2.2.1 j hj⟩

/-- Witness for C34: the schema cookie (meta value 1) of the example state is set to
305419896 (0x12345678). -/
theorem sqlite3BtreeUpdateMeta_GetMeta_witness :
    ((1 ≤ 1 ∧ 1 ≤ 15) ∧ 305419896 < 4294967296 ∧
      (sqlite3BtreeUpdateMeta exMetaDb SQLITE_OK 0 1 305419896).1 = SQLITE_OK) ∧
    (sqlite3BtreeGetMeta (sqlite3BtreeUpdateMeta exMetaDb SQLITE_OK 0 1 305419896).2.1 1
      = 305419896 ∧
    getByte ((sqlite3BtreeUpdateMeta exMetaDb SQLITE_OK 0 1 305419896).2.1.page 1) (36 + 4 * 1)
      = 305419896 / 16777216 % 256 ∧
    getByte ((sqlite3BtreeUpdateMeta exMetaDb SQLITE_OK 0 1 305419896).2.1.page 1)
        (36 + 4 * 1 + 1)
      = 305419896 / 65536 % 256 ∧
    getByte ((sqlite3BtreeUpdateMeta exMetaDb SQLITE_OK 0 1 305419896).2.1.page 1)
        (36 + 4 * 1 + 2)
      = 305419896 / 256 % 256 ∧
    getByte ((sqlite3BtreeUpdateMeta exMetaDb SQLITE_OK 0 1 305419896).2.1.page 1)
        (36 + 4 * 1 + 3)
      = 305419896 % 256 ∧
    (∀ j, j ≤ 15 → j ≠ 1 →
      sqlite3BtreeGetMeta (sqlite3BtreeUpdateMeta exMetaDb SQLITE_OK 0 1 305419896).2.1 j
        = sqlite3BtreeGetMeta exMetaDb j)) :=
  ⟨⟨⟨by decide, by decide⟩, by decide, rfl⟩,
    sqlite3BtreeUpdateMeta_GetMeta exMetaDb SQLITE_OK 0 1 305419896 ⟨by decide, by decide⟩
      (by decide) rfl⟩

/-! ## The siblings that `balance_nonroot` takes -/

/-- C36: a parent with `nCell` cells and `nOverflow` overflow cells has
`c = nCell + nOverflow + 1` children.  For every child index `iParentIdx` below `c` and
`bBulk = 0`, `balance_nonroot` takes `nOld = min(3, c)` consecutive children from index
`nxDiv` on, the target among them and the last of them a child of the parent.  With at
least 3 children the target has one sibling on each side, unless it is the first child
(then `nxDiv = 0`: both siblings to its right) or the last child (then `nxDiv = c - 3`: both
to its left); with fewer than 3 children all of them take part. -/
theorem balance_nonroot_sibling_choice (nCell nOverflow iParentIdx : Nat)
    (hip : iParentIdx < nCell + nOverflow + 1) :
    (balanceSiblings nCell nOverflow iParentIdx 0).2 = min 3 (nCell + nOverflow + 1) ∧
    (balanceSiblings nCell nOverflow iParentIdx 0).1 ≤ iParentIdx ∧
    iParentIdx ≤ (balanceSiblings nCell nOverflow iParentIdx 0).1 +
      (balanceSiblings nCell nOverflow iParentIdx 0).2 - 1 ∧
    (balanceSiblings nCell nOverflow iParentIdx 0).1 +
      (balanceSiblings nCell nOverflow iParentIdx 0).2 - 1 ≤ nCell + nOverflow + 1 - 1 ∧
    (3 ≤ nCell + nOverflow + 1 → 0 < iParentIdx → iParentIdx < nCell + nOverflow + 1 - 1 →
      (balanceSiblings nCell nOverflow iParentIdx 0).1 = iParentIdx - 1) ∧
    (3 ≤ nCell + nOverflow + 1 → iParentIdx = 0 →
      (balanceSiblings nCell nOverflow iParentIdx 0).1 = 0) ∧
    (3 ≤ nCell + nOverflow + 1 → iParentIdx = nCell + nOverflow + 1 - 1 →
      (balanceSiblings nCell nOverflow iParentIdx 0).1 = nCell + nOverflow + 1 - 3) ∧
    (nCell + nOverflow + 1 < 3 →
      (balanceSiblings nCell nOverflow iParentIdx 0).1 = 0 ∧
      (balanceSiblings nCell nOverflow iParentIdx 0).2 = nCell + nOverflow + 1) := by
  unfold balanceSiblings
  simp only []
  by_cases h2 : nOverflow + nCell < 2
  · rw [if_pos h2]
    dsimp only
    rw [Nat.min_def]
    split <;> omega
  · rw [if_neg h2]
    dsimp only
    rw [Nat.min_def]
    by_cases h0 : iParentIdx = 0
    · rw [if_pos h0]
      split <;> omega
    · rw [if_neg h0]
      by_cases hl : iParentIdx = nOverflow + nCell
      · rw [if_pos hl]
        split <;> omega
      · rw [if_neg hl]
        split <;> omega

/-- Witness for C36: the last of the five children of a parent with four cells. -/
theorem balance_nonroot_sibling_choice_witness :
    4 < 4 + 0 + 1 ∧
    ((balanceSiblings 4 0 4 0).2 = min 3 (4 + 0 + 1) ∧
    (balanceSiblings 4 0 4 0).1 ≤ 4 ∧
    4 ≤ (balanceSiblings 4 0 4 0).1 + (balanceSiblings 4 0 4 0).2 - 1 ∧
    (balanceSiblings 4 0 4 0).1 + (balanceSiblings 4 0 4 0).2 - 1 ≤ 4 + 0 + 1 - 1 ∧
    (3 ≤ 4 + 0 + 1 → 0 < 4 → 4 < 4 + 0 + 1 - 1 → (balanceSiblings 4 0 4 0).1 = 4 - 1) ∧
    (3 ≤ 4 + 0 + 1 → 4 = 0 → (balanceSiblings 4 0 4 0).1 = 0) ∧
    (3 ≤ 4 + 0 + 1 → 4 = 4 + 0 + 1 - 1 → (balanceSiblings 4 0 4 0).1 = 4 + 0 + 1 - 3) ∧
    (4 + 0 + 1 < 3 →
      (balanceSiblings 4 0 4 0).1 = 0 ∧ (balanceSiblings 4 0 4 0).2 = 4 + 0 + 1)) :=
  ⟨by decide, balance_nonroot_sibling_choice 4 0 4 (by decide)⟩

end Btree

namespace Btree

/-! ## `cellSizePtr` and `btreeParseCellPtr` agree -/

/-- The header bytes that `cellSizePtr` walks over are the header that `btreeParseCellPtr`
measures. -/
theorem cellSizeHdr_eq_header (p : MemPage) (d : Bytes) (pc : Nat) (hcp : p.childPtrSize ≤ 4) :
    cellSizeHdr p d pc = cellHeaderSize p d pc := by
  have l1 := getVarint32_len d (pc + p.childPtrSize)
  have e8 : u8 (getVarint32 d (pc + p.childPtrSize)).1 = (getVarint32 d (pc + p.childPtrSize)).1 :=
    u8_eq (by omega)
  have e16 : u16 (p.childPtrSize + (getVarint32 d (pc + p.childPtrSize)).1) =
      p.childPtrSize + (getVarint32 d (pc + p.childPtrSize)).1 := u16_eq (by omega)
  unfold cellSizeHdr cellHeaderSize
  simp only [e8, e16]
  by_cases hik : p.intKey ≠ 0
  · simp only [if_pos hik]
    by_cases hd : p.hasData ≠ 0
    · simp only [if_pos hd]
      have l2 := getVarint_len d (pc + (p.childPtrSize + (getVarint32 d (pc + p.childPtrSize)).1))
      have e1 : pc + p.childPtrSize + (getVarint32 d (pc + p.childPtrSize)).1 =
          pc + (p.childPtrSize + (getVarint32 d (pc + p.childPtrSize)).1) := by omega
      rw [skipVarint_eq_getVarint, e1, u8_eq (by omega), u16_eq (by omega)]
      omega
    · simp only [if_neg hd]
      have l2 := getVarint_len d (pc + p.childPtrSize)
      rw [skipVarint_eq_getVarint, u8_eq (by omega), u16_eq (by omega)]
      omega
  · simp only [if_neg hik]
    omega

/-- The size that `cellSizePtr` returns, in terms of the header and the payload size. -/
theorem cellSizePtr_form (p : MemPage) (d : Bytes) (pc : Nat) :
    cellSizePtr p d pc =
      u16 (if u32 ((if cellPayloadSize p d pc > p.maxLocal then
            u32 ((if u32 (p.minLocal + u32sub (cellPayloadSize p d pc) p.minLocal %
                  u32sub p.pBt.usableSize 4) > p.maxLocal then u32 p.minLocal
                else u32 (p.minLocal + u32sub (cellPayloadSize p d pc) p.minLocal %
                  u32sub p.pBt.usableSize 4)) + 4)
          else cellPayloadSize p d pc) + u32 (cellSizeHdr p d pc)) < 4 then 4
        else u32 ((if cellPayloadSize p d pc > p.maxLocal then
            u32 ((if u32 (p.minLocal + u32sub (cellPayloadSize p d pc) p.minLocal %
                  u32sub p.pBt.usableSize 4) > p.maxLocal then u32 p.minLocal
                else u32 (p.minLocal + u32sub (cellPayloadSize p d pc) p.minLocal %
                  u32sub p.pBt.usableSize 4)) + 4)
          else cellPayloadSize p d pc) + u32 (cellSizeHdr p d pc))) := by
  unfold cellSizePtr cellSizeHdr cellPayloadSize
  rfl

/-- On a page whose local-payload limits leave room for the header below the usable size,
`cellSizePtr` returns the `nSize` that `btreeParseCellPtr` computes, and it is at least 4. -/
theorem cellSizePtr_eq_nSize (p : MemPage) (d : Bytes) (pc : Nat) (hcp : p.childPtrSize ≤ 4)
    (hmin : p.minLocal ≤ p.maxLocal) (hmax : p.maxLocal + 35 ≤ p.pBt.usableSize)
    (hu : p.pBt.usableSize ≤ 65536) :
    cellSizePtr p d pc = (btreeParseCellPtr p d pc).nSize ∧ 4 ≤ cellSizePtr p d pc := by
  have hb := cellSizePtr_bounds p d pc hcp hmin (by omega)
  refine ⟨?_, hb.1⟩
  have hh := cellSizeHdr_le p d pc hcp
  have hhe := cellSizeHdr_eq_header p d pc hcp
  have hP : cellPayloadSize p d pc < 4294967296 := by
    have v32 := getVarint32_val d (pc + p.childPtrSize)
    unfold cellPayloadSize
    split
    · split
      · unfold u32; omega
      · omega
    · unfold u32; omega
  rw [cellSizePtr_form]
  by_cases hs : cellPayloadSize p d pc ≤ p.maxLocal
  · rw [(btreeParseCellPtr_small p d pc hs).2.2, ← hhe]
    have hng : ¬ (cellPayloadSize p d pc > p.maxLocal) := by omega
    simp only [if_neg hng]
    have e1 : u32 (cellSizeHdr p d pc) = cellSizeHdr p d pc := u32_eq (by omega)
    have e2 : u32 (cellPayloadSize p d pc + cellSizeHdr p d pc) =
        cellPayloadSize p d pc + cellSizeHdr p d pc := u32_eq (by omega)
    have e3 : u16 (cellSizeHdr p d pc + cellPayloadSize p d pc) =
        cellSizeHdr p d pc + cellPayloadSize p d pc := u16_eq (by omega)
    rw [e1, e2, e3]
    by_cases h4 : cellPayloadSize p d pc + cellSizeHdr p d pc < 4
    · rw [if_pos h4, if_pos (by omega)]
      rfl
    · rw [if_neg h4, if_neg (by omega), u16_eq (by omega)]
      omega
  · obtain ⟨hl, ho, hn⟩ := btreeParseCellPtr_large p d pc hs
    rw [hn, ho, hl, ← hhe]
    have hg : cellPayloadSize p d pc > p.maxLocal := by omega
    simp only [if_pos hg]
    have em : u32sub p.pBt.usableSize 4 = p.pBt.usableSize - 4 := u32sub_eq (by omega) (by omega)
    have ep : u32sub (cellPayloadSize p d pc) p.minLocal = cellPayloadSize p d pc - p.minLocal :=
      u32sub_eq (by omega) hP
    have hmod : (cellPayloadSize p d pc - p.minLocal) % (p.pBt.usableSize - 4) <
        p.pBt.usableSize - 4 := Nat.mod_lt _ (by omega)
    rw [em, ep]
    generalize (cellPayloadSize p d pc - p.minLocal) % (p.pBt.usableSize - 4) = r at hmod
    have es : u32 (p.minLocal + r) = p.minLocal + r := u32_eq (by omega)
    have e1 : u32 (cellSizeHdr p d pc) = cellSizeHdr p d pc := u32_eq (by omega)
    have eml : u32 p.minLocal = p.minLocal := u32_eq (by omega)
    have ti : toInt32 (p.minLocal + r) = ((p.minLocal + r : Nat) : Int) := by
      unfold toInt32
      have : (p.minLocal + r) % 4294967296 = p.minLocal + r := Nat.mod_eq_of_lt (by omega)
      rw [this, if_pos (by omega)]
    rw [es, e1, eml, ti]
    by_cases hsur : p.minLocal + r > p.maxLocal
    · have hn2 : ¬ (((p.minLocal + r : Nat) : Int) ≤ (p.maxLocal : Int)) := by omega
      rw [if_pos hsur, if_neg hn2]
      have a1 : u32 (p.minLocal + 4) = p.minLocal + 4 := u32_eq (by omega)
      have a2 : u32 (p.minLocal + 4 + cellSizeHdr p d pc) = p.minLocal + 4 + cellSizeHdr p d pc :=
        u32_eq (by omega)
      have a3 : u16 p.minLocal = p.minLocal := u16_eq (by omega)
      have a4 : u16 (p.minLocal + cellSizeHdr p d pc) = p.minLocal + cellSizeHdr p d pc :=
        u16_eq (by omega)
      rw [a1, a2, a3, a4, if_neg (by omega), u16_eq (by omega), u16_eq (by omega)]
      omega
    · have hn2 : ((p.minLocal + r : Nat) : Int) ≤ (p.maxLocal : Int) := by omega
      rw [if_neg hsur, if_pos hn2]
      have a1 : u32 (p.minLocal + r + 4) = p.minLocal + r + 4 := u32_eq (by omega)
      have a2 : u32 (p.minLocal + r + 4 + cellSizeHdr p d pc) =
          p.minLocal + r + 4 + cellSizeHdr p d pc := u32_eq (by omega)
      have a3 : u16 (p.minLocal + r) = p.minLocal + r := u16_eq (by omega)
      have a4 : u16 (p.minLocal + r + cellSizeHdr p d pc) = p.minLocal + r + cellSizeHdr p d pc :=
        u16_eq (by omega)
      rw [a1, a2, a3, a4, if_neg (by omega), u16_eq (by omega), u16_eq (by omega)]
      omega

/-- C38: for every page kind that `decodeFlags` accepts, with the limits that `lockBtree`
computes from a usable size in 480..65536, and for every byte sequence read as a cell,
`cellSizePtr` returns exactly the `nSize` that `btreeParseCellPtr` computes for the same
page and cell, and that value is at least 4. -/
theorem cellSizePtr_agrees_with_parse (pBt : BtShared) (hu : usableOk pBt.usableSize)
    (pPage : MemPage) (hbt : pPage.pBt = lockBtree pBt) (flagByte : Nat) (h : flagByte < 256)
    (hok : (decodeFlags pPage flagByte).1 = SQLITE_OK) (d : Bytes) (pCell : Nat) :
    cellSizePtr (decodeFlags pPage flagByte).2 d pCell =
      (btreeParseCellPtr (decodeFlags pPage flagByte).2 d pCell).nSize ∧
    4 ≤ (btreeParseCellPtr (decodeFlags pPage flagByte).2 d pCell).nSize :=
  have hb := decoded_page_bounds pBt hu pPage hbt flagByte h hok d pCell
  have hl := decodeFlags_limits pBt hu pPage hbt flagByte hok
  have hc : (decodeFlags pPage flagByte).2.childPtrSize ≤ 4 :=
    ((decodeFlags_spec pPage flagByte h).2.2 hok).2.2.2 ▸ Nat.sub_le 4 _
  have hm : (decodeFlags pPage flagByte).2.maxLocal + 35 ≤
      (decodeFlags pPage flagByte).2.pBt.usableSize := by
    rw [hb.2.1, hl.2]
    have := hu.1
    split <;> omega
  have he := cellSizePtr_eq_nSize (decodeFlags pPage flagByte).2 d pCell hc hb.1 hm
    (hb.2.1 ▸ hu.2)
  ⟨he.1, he.1 ▸ he.2⟩

set_option maxRecDepth 100000 in
/-- Witness for C38: the first cell of the table leaf with the keys 5, 7, 10 (usable size
1024, flag byte 13). -/
theorem cellSizePtr_agrees_with_parse_witness :
    (usableOk 1024 ∧ (13 : Nat) < 256 ∧
      (decodeFlags (blankPage exBt1024 (exLeafKeys [5, 7, 10]) 2) 13).1 = SQLITE_OK) ∧
    (cellSizePtr (decodeFlags (blankPage exBt1024 (exLeafKeys [5, 7, 10]) 2) 13).2
        (exLeafKeys [5, 7, 10]) 1000 =
      (btreeParseCellPtr (decodeFlags (blankPage exBt1024 (exLeafKeys [5, 7, 10]) 2) 13).2
        (exLeafKeys [5, 7, 10]) 1000).nSize ∧
    4 ≤ (btreeParseCellPtr (decodeFlags (blankPage exBt1024 (exLeafKeys [5, 7, 10]) 2) 13).2
        (exLeafKeys [5, 7, 10]) 1000).nSize) :=
  ⟨⟨by decide, by decide, by decide⟩,
    cellSizePtr_agrees_with_parse
      { pageSize := 1024, usableSize := 1024, maxLocal := 0, minLocal := 0, maxLeaf := 0,
        minLeaf := 0, max1bytePayload := 0, autoVacuum := false, secureDelete := false }
      (by decide) (blankPage exBt1024 (exLeafKeys [5, 7, 10]) 2) rfl 13 (by decide) (by decide)
      (exLeafKeys [5, 7, 10]) 1000⟩

end Btree

namespace Btree

/-! ## The ladder of `vdbeSorterSort`, whatever the comparison -/

/-- The merge keeps every record of its two lists, whatever the comparison yields. -/
theorem mergeLoop_perm (k : SorterCmp) :
    ∀ (fuel : Nat) (p1 p2 : List (List Nat)) (pVal2 : Option (List Nat)) (r2 : List Nat),
      p1.length + p2.length ≤ fuel →
      List.Perm (mergeLoop k fuel p1 p2 pVal2 r2).1 (p1 ++ p2) := by
  intro fuel
  induction fuel with
  | zero =>
    intro p1 p2 pVal2 r2 hlen
    have h1 : p1 = [] := List.length_eq_zero.1 (by omega)
    have h2 : p2 = [] := List.length_eq_zero.1 (by omega)
    subst h1 h2
    simp [mergeLoop]
  | succ fuel ih =>
    intro p1 p2 pVal2 r2 hlen
    cases p1 with
    | nil =>
      simp only [mergeLoop, List.nil_append]
      exact List.Perm.refl _
    | cons a p1 =>
      cases p2 with
      | nil =>
        simp only [mergeLoop, List.append_nil]
        exact List.Perm.refl _
      | cons b p2 =>
        simp only [mergeLoop]
        by_cases hle : (vdbeSorterCompare k false a pVal2 r2).1 ≤ 0
        · rw [if_pos hle]
          exact List.Perm.cons a (ih p1 (b :: p2) none _ (by simp at hlen ⊢; omega))
        · rw [if_neg hle]
          cases p2 with
          | nil =>
            simp only
            have : List.Perm (b :: (a :: p1)) ((a :: p1) ++ [b]) :=
              (List.perm_append_singleton b (a :: p1)).symm
            exact this
          | cons c p3 =>
            simp only
            have hi := ih (a :: p1) (c :: p3) (some c) (vdbeSorterCompare k false a pVal2 r2).2
              (by simp at hlen ⊢; omega)
            have h1 : List.Perm (b :: (a :: p1 ++ c :: p3)) (a :: p1 ++ b :: c :: p3) :=
              List.perm_middle.symm
            exact (List.Perm.cons b hi).trans h1

theorem vdbeSorterMerge_perm (k : SorterCmp) (p1 p2 : List (List Nat)) (r2 : List Nat) :
    List.Perm (vdbeSorterMerge k p1 p2 r2).1 (p1 ++ p2) := by
  unfold vdbeSorterMerge
  exact mergeLoop_perm k _ p1 p2 _ r2 (le_refl _)

/-- A slot below `n` holds no more records than the slots below `n` together. -/
theorem slot_le_total (a : Nat → List (List Nat)) :
    ∀ n j, j < n → (a j).length ≤ (slotRecords a n).length := by
  intro n
  induction n with
  | zero => intro j h; omega
  | succ n ih =>
    intro j h
    rw [slotRecords, List.length_append]
    by_cases e : j = n
    · subst e
      omega
    · have := ih j (by omega)
      omega

/-- One insertion into the ladder, whatever the comparison: the loop ends at a slot `t`
below 64 with `2^t` no more than the number of records then held, leaves the slots above
`t` alone, and the slots hold what they held together with the inserted list. -/
theorem slotInsert_count (k : SorterCmp) (N : Nat) (hN : 64 ≤ N) :
    ∀ (fuel i : Nat) (p : List (List Nat)) (a : Nat → List (List Nat)) (r2 : List Nat),
      i ≤ 64 → 65 - i ≤ fuel →
      (∀ j, a j = [] ∨ (j < 64 ∧ (a j).length = 2 ^ j)) → p.length = 2 ^ i →
      (∀ j, j < i → a j = []) →
      p.length + (slotRecords a N).length < 18446744073709551616 →
      ∃ r t, slotInsert k fuel i p a r2 = some r ∧
        (∀ j, r.1 j = [] ∨ (j < 64 ∧ (r.1 j).length = 2 ^ j)) ∧
        List.Perm (slotRecords r.1 N) (p ++ slotRecords a N) ∧
        i ≤ t ∧ t < 64 ∧ 2 ^ t ≤ p.length + (slotRecords a N).length ∧
        (∀ j, t < j → r.1 j = a j) := by
  intro fuel
  induction fuel with
  | zero => intro i p a r2 h1 h2; omega
  | succ fuel ih =>
    intro i p a r2 h1 h2 hinv hlen hlow hcnt
    have hi : i < 64 := by
      rcases Nat.lt_or_ge i 64 with h | h
      · exact h
      · have e : i = 64 := by omega
        subst e
        have e2 : (2 : Nat) ^ 64 = 18446744073709551616 := by norm_num
        rw [e2] at hlen
        omega
    rw [slotInsert, if_neg (by omega)]
    by_cases he : a i = []
    · rw [if_neg (by simp [he])]
      refine ⟨_, i, rfl, ?_, ?_, le_refl _, hi, by omega, ?_⟩
      · intro j
        dsimp only
        by_cases e : j = i
        · subst e
          rw [setAt_same]
          exact Or.inr ⟨hi, hlen⟩
        · rw [setAt_other a i j p e]
          exact hinv j
      · have := slotRecords_setAt a i p N (by omega)
        rw [he, List.append_nil] at this
        exact this
      · intro j hj
        dsimp only
        exact setAt_other a i j p (by omega)
    · rw [if_pos he]
      have hm := vdbeSorterMerge_perm k p (a i) r2
      have hml := hm.length_eq
      rw [List.length_append] at hml
      have hai : (a i).length = 2 ^ i := by
        rcases hinv i with h | h
        · exact absurd h he
        · exact h.2
      have hset := slotRecords_setAt a i [] N (by omega)
      have hsetl := hset.length_eq
      simp only [List.length_append, List.nil_append] at hsetl
      obtain ⟨r, t, hr, hri, hrp, ht1, ht2, ht3, ht4⟩ :=
        ih (i + 1) (vdbeSorterMerge k p (a i) r2).1 (setAt a i [])
        (vdbeSorterMerge k p (a i) r2).2 (by omega) (by omega)
        (by
          intro j
          by_cases e : j = i
          · subst e
            rw [setAt_same]
            exact Or.inl rfl
          · rw [setAt_other a i j [] e]
            exact hinv j)
        (by rw [hml, hlen, hai, pow_succ]; omega)
        (by
          intro j hj
          by_cases e : j = i
          · subst e
            rw [setAt_same]
          · rw [setAt_other a i j [] e]
            exact hlow j (by omega))
        (by rw [hml]; omega)
      refine ⟨r, t, hr, hri, ?_, by omega, ht2, by rw [hml] at ht3; omega, ?_⟩
      · rw [List.perm_iff_count] at hrp hm hset ⊢
        intro x
        have e1 := hrp x
        have e2 := hm x
        have e3 := hset x
        simp only [List.count_append, List.count_nil] at e1 e2 e3 ⊢
        omega
      · intro j hj
        rw [ht4 j hj]
        exact setAt_other a i j [] (by omega)

/-- Filling the ladder, whatever the comparison: the loop over the records ends, every slot
is then empty or lies below 64 and holds `2^i` records, and the slots hold the records. -/
theorem slotFill_count (k : SorterCmp) (N : Nat) (hN : 64 ≤ N) :
    ∀ (recs : List (List Nat)) (a : Nat → List (List Nat)) (r2 : List Nat),
      (∀ j, a j = [] ∨ (j < 64 ∧ (a j).length = 2 ^ j)) →
      recs.length + (slotRecords a N).length < 18446744073709551616 →
      ∃ r, slotFill k recs a r2 = some r ∧
        (∀ j, r.1 j = [] ∨ (j < 64 ∧ (r.1 j).length = 2 ^ j)) ∧
        List.Perm (slotRecords r.1 N) (recs ++ slotRecords a N) := by
  intro recs
  induction recs with
  | nil =>
    intro a r2 hinv _
    exact ⟨(a, r2), rfl, hinv, List.Perm.refl _⟩
  | cons x rest ih =>
    intro a r2 hinv hcnt
    obtain ⟨r, t, hr, hri, hrp, _⟩ := slotInsert_count k N hN 65 0 [x] a r2 (by omega)
      (by omega) hinv (by simp) (fun j hj => by omega)
      (by simp only [List.length_cons, List.length_nil] at hcnt ⊢; omega)
    have hl := hrp.length_eq
    simp only [List.length_append, List.length_cons, List.length_nil] at hl hcnt
    obtain ⟨r3, hr3, hri3, hrp3⟩ := ih r.1 r.2 hri (by omega)
    refine ⟨r3, ?_, hri3, ?_⟩
    · rw [slotFill, hr]
      exact hr3
    · rw [List.perm_iff_count] at hrp hrp3 ⊢
      intro y
      have e1 := hrp y
      have e2 := hrp3 y
      simp only [List.count_append, List.count_cons, List.count_nil] at e1 e2 ⊢
      omega

/-- The last loop of `vdbeSorterSort` gathers the records of the slots it visits, whatever
the comparison. -/
theorem slotCollect_perm (k : SorterCmp) (a : Nat → List (List Nat)) :
    ∀ (n i : Nat) (p : List (List Nat)) (r2 : List Nat),
      List.Perm ((slotCollect k a n i p r2).1 ++ slotRecords a i)
        (p ++ slotRecords a (i + n)) := by
  intro n
  induction n with
  | zero =>
    intro i p r2
    exact List.Perm.refl _
  | succ n ih =>
    intro i p r2
    have hm := vdbeSorterMerge_perm k p (a i) r2
    have h1 := ih (i + 1) (vdbeSorterMerge k p (a i) r2).1 (vdbeSorterMerge k p (a i) r2).2
    rw [slotCollect]
    rw [show i + 1 + n = i + (n + 1) by omega, slotRecords] at h1
    rw [List.perm_iff_count] at h1 hm ⊢
    intro y
    have e1 := h1 y
    have e2 := hm y
    simp only [List.count_append] at e1 e2 ⊢
    omega

/-- The state of the ladder after the records `recs` have been inserted into the empty
ladder: the loop has ended, an occupied slot `i` lies at or below `log2` of the number of
records and holds exactly `2^i` of them, sorted when the comparison is a total preorder, and
the slots hold the records. -/
theorem ladder_state (k : SorterCmp) (recs : List (List Nat)) (r2 : List Nat)
    (hn : recs.length < 18446744073709551616) :
    ∃ r, slotFill k recs (fun _ => []) r2 = some r ∧
      (∀ i, r.1 i = [] ∨ (i ≤ Nat.log 2 recs.length ∧ i < 64 ∧ (r.1 i).length = 2 ^ i)) ∧
      (KeyPreorder k → ∀ i, List.Sorted (keyLe k) (r.1 i)) ∧
      List.Perm (slotRecords r.1 64) recs := by
  obtain ⟨N, hN⟩ : ∃ N, N = 64 := ⟨64, rfl⟩
  obtain ⟨r, hr, hri, hrp⟩ := slotFill_count k N (by omega) recs (fun _ => []) r2
    (fun j => Or.inl rfl) (by rw [slotRecords_empty]; simpa using hn)
  rw [slotRecords_empty, List.append_nil] at hrp
  refine ⟨r, hr, fun i => ?_, fun hk i => ?_, hN ▸ hrp⟩
  · rcases hri i with h | ⟨h1, h2⟩
    · exact Or.inl h
    · refine Or.inr ⟨?_, h1, h2⟩
      have hle := slot_le_total r.1 N i (by omega)
      rw [hrp.length_eq, h2] at hle
      have hne : recs.length ≠ 0 := by
        have := two_pow_pos i
        omega
      exact (Nat.pow_le_iff_le_log (by decide) hne).1 hle
  · have hinv0 : SlotInv k (fun _ => ([] : List (List Nat))) :=
      fun i _ => ⟨List.sorted_nil, Or.inl rfl⟩
    obtain ⟨r3, hr3, hri3, _⟩ := slotFill_spec k hk N (by omega) recs (fun _ => []) r2 hinv0
      (by rw [slotRecords_empty]; simpa using hn)
    rw [hr] at hr3
    cases hr3
    rcases hri i with h | ⟨h1, _⟩
    · rw [h]
      exact List.sorted_nil
    · exact (hri3 i h1).1

/-- C40: the ladder of `vdbeSorterSort` on a list of `n < 2^64` records.  After any number
`m ≤ n` of records has been inserted the insertion loop has ended without going past slot
63, every occupied slot `i` has `i ≤ log2 m` and holds exactly `2^i` records, which are
sorted when the comparison is a total preorder, and the slots together hold the `m` records;
the insertion of the next record `x` ends at a slot `t ≤ log2 (m+1)`, `t < 64`, and leaves
the slots above `t` as they were.  The final merge of the 64 slots returns `SQLITE_OK` with
a list that holds all `n` records, sorted when the comparison is a total preorder. -/
theorem vdbeSorterSort_ladder (k : SorterCmp) (s : VdbeSorter)
    (hn : s.pRecord.length < 18446744073709551616) :
    (∀ m, m ≤ s.pRecord.length →
      ∃ r, slotFill k (s.pRecord.take m) (fun _ => []) s.unpacked = some r ∧
        (∀ i, r.1 i = [] ∨ (i ≤ Nat.log 2 m ∧ i < 64 ∧ (r.1 i).length = 2 ^ i)) ∧
        (KeyPreorder k → ∀ i, List.Sorted (keyLe k) (r.1 i)) ∧
        List.Perm (slotRecords r.1 64) (s.pRecord.take m) ∧
        (∀ x, m < s.pRecord.length →
          ∃ r1 t, slotInsert k 65 0 [x] r.1 r.2 = some r1 ∧ t ≤ Nat.log 2 (m + 1) ∧ t < 64 ∧
            ∀ j, t < j → r1.1 j = r.1 j)) ∧
    ∃ res, vdbeSorterSort k s true = some (SQLITE_OK, res) ∧
      List.Perm res.pRecord s.pRecord ∧
      (KeyPreorder k → List.Sorted (keyLe k) res.pRecord) := by
  refine ⟨fun m hm => ?_, ?_⟩
  · have hlen : (s.pRecord.take m).length = m := by
      rw [List.length_take]
      omega
    obtain ⟨r, hr, h1, h2, h3⟩ := ladder_state k (s.pRecord.take m) s.unpacked (by omega)
    rw [hlen] at h1
    refine ⟨r, hr, h1, h2, h3, fun x hx => ?_⟩
    obtain ⟨N, hN⟩ : ∃ N, N = 64 := ⟨64, rfl⟩
    have htot : (slotRecords r.1 N).length = m := by
      rw [hN, h3.length_eq, hlen]
    obtain ⟨r1, t, hr1, _, _, _, ht2, ht3, ht4⟩ := slotInsert_count k N (by omega) 65 0 [x]
      r.1 r.2 (by omega) (by omega)
      (fun j => (h1 j).imp id (fun h => ⟨h.2.1, h.2.2⟩)) (by simp) (fun j hj => by omega)
      (by rw [htot]; simp only [List.length_cons, List.length_nil]; omega)
    refine ⟨r1, t, hr1, ?_, ht2, ht4⟩
    rw [htot] at ht3
    simp only [List.length_cons, List.length_nil] at ht3
    exact (Nat.pow_le_iff_le_log (by decide) (by omega)).1 (by omega)
  · obtain ⟨r, hr, _, h2, h3⟩ := ladder_state k s.pRecord s.unpacked hn
    refine ⟨{ s with
      pRecord := (slotCollect k r.1 64 0 [] r.2).1
      unpacked := (slotCollect k r.1 64 0 [] r.2).2 }, ?_, ?_, fun hk => ?_⟩
    · unfold vdbeSorterSort
      rw [if_neg (by simp), hr]
    · have h1 := slotCollect_perm k r.1 64 0 [] r.2
      rw [show slotRecords r.1 0 = [] from rfl, List.append_nil, List.nil_append,
        Nat.zero_add] at h1
      exact h1.trans h3
    · obtain ⟨res, hres, _, hs, _⟩ := vdbeSorterSort_spec k hk s hn
      unfold vdbeSorterSort at hres
      rw [if_neg (by simp), hr] at hres
      simp only [Option.some.injEq, Prod.mk.injEq, true_and] at hres
      rw [← hres] at hs
      exact hs

/-- Witness for C40: the three records of the example sorter. -/
theorem vdbeSorterSort_ladder_witness :
    exSorter.pRecord.length < 18446744073709551616 ∧
    ((∀ m, m ≤ exSorter.pRecord.length →
      ∃ r, slotFill exCmp (exSorter.pRecord.take m) (fun _ => []) exSorter.unpacked = some r ∧
        (∀ i, r.1 i = [] ∨ (i ≤ Nat.log 2 m ∧ i < 64 ∧ (r.1 i).length = 2 ^ i)) ∧
        (KeyPreorder exCmp → ∀ i, List.Sorted (keyLe exCmp) (r.1 i)) ∧
        List.Perm (slotRecords r.1 64) (exSorter.pRecord.take m) ∧
        (∀ x, m < exSorter.pRecord.length →
          ∃ r1 t, slotInsert exCmp 65 0 [x] r.1 r.2 = some r1 ∧ t ≤ Nat.log 2 (m + 1) ∧
            t < 64 ∧ ∀ j, t < j → r1.1 j = r.1 j)) ∧
    ∃ res, vdbeSorterSort exCmp exSorter true = some (SQLITE_OK, res) ∧
      List.Perm res.pRecord exSorter.pRecord ∧
      (KeyPreorder exCmp → List.Sorted (keyLe exCmp) res.pRecord)) :=
  ⟨by decide, vdbeSorterSort_ladder exCmp exSorter (by decide)⟩

end Btree

namespace Btree

/-! ## `allocateSpace` on a page with a freeblock below the content area -/

set_option maxRecDepth 100000 in
/-- C37 fails on the code: `btreeInitPage` accepts the page `exGapBlockPage` (one cell,
`cellOffset = 8`, so the cell-pointer array ends at 10; content area from 900; `nFree = 910`;
no overflow cell), whose only freeblock, of 20 bytes, starts at offset 10.  For the request
`nByte = 20`, with `nByte + 2 ≤ nFree` and `nByte < usable - 8`, `allocateSpace` returns
`SQLITE_OK` with the index 10 of that freeblock, which is below
`cellOffset + 2*nCell + 2 = 12`: the allocated bytes `[10, 30)` contain the slot `[10, 12)`
of the new cell pointer. -/
theorem allocateSpace_takes_pointer_slot :
    (btreeInitPage 1024 exGapBlockPage).map
        (fun r => (r.1, r.2.nFree, r.2.nOverflow, r.2.cellOffset, r.2.nCell,
          r.2.pBt.usableSize)) = some (SQLITE_OK, 910, 0, 8, 1, 1024) ∧
    20 + 2 ≤ 910 ∧ 20 < 1024 - 8 ∧
    ((btreeInitPage 1024 exGapBlockPage).bind
        (fun r => allocateSpace 1024 r.2 20 (fun _ => 0))).map
        (fun r => (r.1, r.2.2)) = some (SQLITE_OK, 10) ∧
    ¬ (10 ≥ 8 + 2 * 1 + 2) := by
  refine ⟨by decide, by decide, by decide, by decide, by decide⟩

end Btree

namespace Btree

/-! ## The integrity check: depth of the children -/

set_option maxRecDepth 1000000 in
/-- Claim C39, evaluated on the database `exCkEnv`: the subtree under the cell of page 2
(page 3) has depth 1 and the subtree under its right-child pointer (page 4) has depth 2,
each checked without an error; `checkTreePage` of page 2, with an error budget of 100,
appends no message at all and returns depth 2, and `sqlite3BtreeIntegrityCheck` of the
roots 1 and 2 reports zero errors. -/
theorem checkTreePage_right_child_depth_unchecked :
    get4byte (exCkEnv.store.page 2) 1019 = 3 ∧ get4byte (exCkEnv.store.page 2) 8 = 4 ∧
    (checkTreePage exCkEnv 1024 10 10 (checkStart exCkEnv exBt1024 100) 3 none none).map
        (fun r => (r.1, r.2.1.errMsg)) = some (1, []) ∧
    (checkTreePage exCkEnv 1024 10 10 (checkStart exCkEnv exBt1024 100) 4 none none).map
        (fun r => (r.1, r.2.1.errMsg)) = some (2, []) ∧
    (checkTreePage exCkEnv 1024 10 10 (checkStart exCkEnv exBt1024 100) 2 none none).map
        (fun r => (r.1, r.2.1.errMsg, r.2.1.mxErr)) = some (2, [], 100) ∧
    (sqlite3BtreeIntegrityCheck exCkEnv 1024 10 10 exBt1024 [1, 2] 100).map
        (fun r => (r.1, r.2.errMsg, r.2.mxErr)) = some (0, [], 100) := by
  refine ⟨by decide, by decide, by decide, by decide, by decide, by decide⟩

end Btree

namespace Btree

/-! ## The integrity check: the page bitmap and the error budget -/

theorem bit_or_same (x j : Nat) : (x ||| (1 <<< j)) &&& (1 <<< j) ≠ 0 := by
  intro h
  have := congrArg (fun y => Nat.testBit y j) h
  simp [Nat.one_shiftLeft, Nat.testBit_and, Nat.testBit_or, Nat.testBit_two_pow] at this

theorem bit_or_other (x j k : Nat) (h : j ≠ k) :
    (x ||| (1 <<< j)) &&& (1 <<< k) = x &&& (1 <<< k) := by
  apply Nat.eq_of_testBit_eq
  intro i
  simp only [Nat.one_shiftLeft, Nat.testBit_and, Nat.testBit_or, Nat.testBit_two_pow]
  by_cases hk : k = i
  · have : ¬ j = i := by omega
    simp [hk, this]
  · simp [hk]

theorem getPageReferenced_set_same (ck : IntegrityCk) (p : Nat) :
    getPageReferenced (setPageReferenced ck p) p ≠ 0 := by
  unfold getPageReferenced setPageReferenced
  simp only [setAt, if_true]
  exact bit_or_same _ _

theorem getPageReferenced_set_other (ck : IntegrityCk) (p q : Nat) (h : q ≠ p) :
    getPageReferenced (setPageReferenced ck p) q = getPageReferenced ck q := by
  unfold getPageReferenced setPageReferenced
  simp only [setAt]
  by_cases hd : q / 8 = p / 8
  · rw [if_pos hd, hd]
    exact bit_or_other _ _ _ (by omega)
  · rw [if_neg hd]

theorem getPageReferenced_set_mono (ck : IntegrityCk) (p q : Nat)
    (h : getPageReferenced ck q ≠ 0) : getPageReferenced (setPageReferenced ck p) q ≠ 0 := by
  by_cases hq : q = p
  · subst hq; exact getPageReferenced_set_same ck q
  · rw [getPageReferenced_set_other ck p q hq]; exact h

theorem countP_lt_of_imp {α : Type} (f g : α → Bool) :
    ∀ l : List α, (∀ x ∈ l, g x = true → f x = true) →
      (∃ a ∈ l, f a = true ∧ g a = false) → l.countP g < l.countP f := by
  intro l
  induction l with
  | nil => intro _ h; obtain ⟨a, ha, _⟩ := h; cases ha
  | cons x l ih =>
    intro himp hex
    have hmono : l.countP g ≤ l.countP f :=
      List.countP_mono_left (fun y hy => himp y (List.mem_cons_of_mem _ hy))
    obtain ⟨a, ha, hfa, hga⟩ := hex
    rcases List.mem_cons.mp ha with rfl | ha
    · rw [List.countP_cons_of_pos _ _ hfa, List.countP_cons_of_neg _ _ (by rw [hga]; decide)]
      omega
    · have hlt := ih (fun y hy => himp y (List.mem_cons_of_mem _ hy)) ⟨a, ha, hfa, hga⟩
      by_cases hgx : g x = true
      · rw [List.countP_cons_of_pos _ _ hgx,
          List.countP_cons_of_pos _ _ (himp x (List.mem_cons_self _ _) hgx)]
        omega
      · rw [List.countP_cons_of_neg _ _ hgx]
        by_cases hfx : f x = true
        · rw [List.countP_cons_of_pos _ _ hfx]; omega
        · rw [List.countP_cons_of_neg _ _ hfx]; omega

theorem unrefCount_le_of_after (ck1 ck2 : IntegrityCk) (h : CkAfter ck1 ck2) :
    unrefCount ck2 ≤ unrefCount ck1 := by
  obtain ⟨_, hn, _, _, _, _, hb⟩ := h
  unfold unrefCount
  rw [hn]
  apply List.countP_mono_left
  intro x _ hx
  simp only [decide_eq_true_eq] at hx ⊢
  by_contra hne
  exact hb x hne hx

theorem unrefCount_le (ck : IntegrityCk) : unrefCount ck ≤ ck.nPage + 1 := by
  unfold unrefCount
  have := List.countP_le_length (fun p => decide (getPageReferenced ck p = 0))
    (l := List.range (ck.nPage + 1))
  simpa using this

theorem ckAfter_refl (ck : IntegrityCk) : CkAfter ck ck :=
  ⟨rfl, rfl, rfl, le_refl _, fun h => h, fun h => h, fun _ h => h⟩

theorem ckAfter_trans (a b c : IntegrityCk) (h1 : CkAfter a b) (h2 : CkAfter b c) :
    CkAfter a c := by
  obtain ⟨a1, a2, a3, a4, a5, a6, a7⟩ := h1
  obtain ⟨b1, b2, b3, b4, b5, b6, b7⟩ := h2
  exact ⟨b1.trans a1, b2.trans a2, b3.trans a3, le_trans b4 a4, fun h => b5 (a5 h),
    fun h => b6 (a6 h), fun p h => b7 p (a7 p h)⟩

theorem ckStep_refl (pend : Nat) (ck : IntegrityCk) : CkStep pend ck ck :=
  ⟨ckAfter_refl ck, fun h => h⟩

theorem ckStep_trans {pend : Nat} {a b c : IntegrityCk} (h1 : CkStep pend a b)
    (h2 : CkStep pend b c) : CkStep pend a c :=
  ⟨ckAfter_trans a b c h1.1 h2.1, fun h => h2.2 (h1.2 h)⟩

theorem ckStep_ite {pend : Nat} {ck x y : IntegrityCk} (c : Prop) [Decidable c]
    (h1 : c → CkStep pend ck x) (h2 : ¬ c → CkStep pend ck y) :
    CkStep pend ck (if c then x else y) := by
  by_cases hc : c
  · rw [if_pos hc]; exact h1 hc
  · rw [if_neg hc]; exact h2 hc

theorem ckStep_malloc (pend : Nat) (ck : IntegrityCk) :
    CkStep pend ck { ck with mallocFailed := true } :=
  ⟨⟨rfl, rfl, rfl, le_refl _, fun h => h, fun h => h, fun _ h => h⟩, fun h => h⟩

/-- Appending a message: the budget goes down by one and the count up by one, unless the
budget is exhausted. -/
theorem checkAppendMsg_eq (env : CkEnv) (ck : IntegrityCk) (msg : CkMsg) :
    (ck.mxErr = 0 ∧ checkAppendMsg env ck msg = ck) ∨
    (ck.mxErr ≠ 0 ∧ (checkAppendMsg env ck msg).mxErr = ck.mxErr - 1 ∧
      (checkAppendMsg env ck msg).nErr = ck.nErr + 1 ∧
      (checkAppendMsg env ck msg).errMsg = ck.errMsg ++ [msg] ∧
      (checkAppendMsg env ck msg).aPgRef = ck.aPgRef ∧
      (checkAppendMsg env ck msg).refLog = ck.refLog ∧
      (checkAppendMsg env ck msg).pBt = ck.pBt ∧
      (checkAppendMsg env ck msg).nPage = ck.nPage) := by
  unfold checkAppendMsg
  by_cases h : ck.mxErr = 0
  · left; exact ⟨h, by rw [if_pos h]⟩
  · right; rw [if_neg h]; exact ⟨h, rfl, rfl, rfl, rfl, rfl, rfl, rfl⟩

theorem getPageReferenced_congr (a b : IntegrityCk) (h : a.aPgRef = b.aPgRef) (p : Nat) :
    getPageReferenced a p = getPageReferenced b p := by
  unfold getPageReferenced; rw [h]

theorem checkAppendMsg_step (pend : Nat) (env : CkEnv) (ck : IntegrityCk) (msg : CkMsg) :
    CkStep pend ck (checkAppendMsg env ck msg) := by
  rcases checkAppendMsg_eq env ck msg with ⟨_, h⟩ | ⟨hne, h1, h2, h3, h4, h5, h6, h7⟩
  · rw [h]; exact ckStep_refl pend ck
  · refine ⟨⟨h6, h7, ?_, ?_, fun h => absurd h hne, ?_, ?_⟩, ?_⟩
    · rw [h1, h2]; push_cast; ring
    · rw [h1]; omega
    · intro h; rw [h1]; omega
    · intro p hp; rw [getPageReferenced_congr _ _ h4 p]; exact hp
    · intro ⟨i1, i2, i3⟩
      refine ⟨?_, ?_, ?_⟩
      · rw [h3, h2, List.length_append, i1]; rfl
      · intro p hp
        rw [getPageReferenced_congr _ _ h4 p, h5]
        exact i2 p (by rw [← h7]; exact hp)
      · intro _ p hp hm hc
        rw [h5] at hm hc
        rw [h3]
        exact List.mem_append_left _ (i3 hne p (by rw [← h7]; exact hp) hm hc)

/-- What `checkRef` returns. -/
theorem checkRef_fst (env : CkEnv) (ck : IntegrityCk) (iPage : Nat) :
    ((checkRef env ck iPage).1 = 0 ↔
      iPage ≠ 0 ∧ iPage ≤ ck.nPage ∧ getPageReferenced ck iPage = 0) ∧
    ((checkRef env ck iPage).1 = 0 ∨ (checkRef env ck iPage).1 = 1) := by
  unfold checkRef
  by_cases h0 : iPage = 0
  · rw [if_pos h0]; simp [h0]
  · rw [if_neg h0]
    by_cases h1 : iPage > ck.nPage
    · rw [if_pos h1]; simp; omega
    · rw [if_neg h1]
      by_cases h2 : getPageReferenced ck iPage ≠ 0
      · rw [if_pos h2]; simp; intro _ _; exact h2
      · rw [if_neg h2]
        have h2' : getPageReferenced ck iPage = 0 := by simpa using h2
        simp; exact ⟨h0, by omega, h2'⟩

/-- A first reference sets the bit of the page: one page less is unreferenced. -/
theorem checkRef_unrefCount (env : CkEnv) (ck : IntegrityCk) (iPage : Nat)
    (h : (checkRef env ck iPage).1 = 0) :
    unrefCount (checkRef env ck iPage).2 + 1 ≤ unrefCount ck := by
  obtain ⟨h0, h1, h2⟩ := (checkRef_fst env ck iPage).1.mp h
  have he : (checkRef env ck iPage).2 =
      setPageReferenced { ck with refLog := iPage :: ck.refLog } iPage := by
    unfold checkRef
    rw [if_neg h0, if_neg (by omega), if_neg (by rw [h2]; simp)]
  rw [he]
  unfold unrefCount
  apply countP_lt_of_imp
  · intro x _ hx
    simp only [decide_eq_true_eq] at hx ⊢
    by_contra hne
    exact getPageReferenced_set_mono { ck with refLog := iPage :: ck.refLog } iPage x hne hx
  · refine ⟨iPage, ?_, ?_, ?_⟩
    · rw [List.mem_range]; show iPage < ck.nPage + 1; omega
    · simpa using h2
    · simp only [decide_eq_false_iff_not]
      exact getPageReferenced_set_same _ _

theorem checkRef_step (pend : Nat) (env : CkEnv) (ck : IntegrityCk) (iPage : Nat) :
    CkStep pend ck (checkRef env ck iPage).2 := by
  unfold checkRef
  by_cases h0 : iPage = 0
  · rw [if_pos h0]; exact ckStep_refl pend ck
  · rw [if_neg h0]
    by_cases h1 : iPage > ck.nPage
    · rw [if_pos h1]
      refine ckStep_trans (b := { ck with refLog := iPage :: ck.refLog }) ?_
        (checkAppendMsg_step pend env _ _)
      refine ⟨⟨rfl, rfl, rfl, le_refl _, fun h => h, fun h => h, fun _ h => h⟩, ?_⟩
      intro ⟨i1, i2, i3⟩
      refine ⟨i1, ?_, ?_⟩
      · intro p hp
        have hpn : p ≠ iPage := by
          have : p ≤ ck.nPage := hp
          omega
        show getPageReferenced ck p ≠ 0 ↔ p = pend ∨ p ∈ iPage :: ck.refLog
        rw [List.mem_cons]
        constructor
        · intro h
          rcases (i2 p hp).mp h with h | h
          · left; exact h
          · right; right; exact h
        · intro h
          apply (i2 p hp).mpr
          rcases h with h | h | h
          · left; exact h
          · exact absurd h hpn
          · right; exact h
      · intro hm p hp hmem hc
        have hpn : p ≠ iPage := by
          have : p ≤ ck.nPage := hp
          omega
        have hmem' : p ∈ ck.refLog := by
          rcases List.mem_cons.mp hmem with h | h
          · exact absurd h hpn
          · exact h
        have hc' : 2 ≤ ck.refLog.count p ∨ p = pend := by
          rcases hc with hc | hc
          · left
            have : (iPage :: ck.refLog).count p = ck.refLog.count p :=
              List.count_cons_of_ne hpn _
            rw [← this]; exact hc
          · right; exact hc
        exact i3 hm p hp hmem' hc'
    · rw [if_neg h1]
      by_cases h2 : getPageReferenced ck iPage ≠ 0
      · rw [if_pos h2]
        rcases checkAppendMsg_eq env { ck with refLog := iPage :: ck.refLog }
          (CkMsg.secondRef iPage) with ⟨hz, he⟩ | ⟨hne, e1, e2, e3, e4, e5, e6, e7⟩
        · rw [he]
          refine ⟨⟨rfl, rfl, rfl, le_refl _, fun h => h, fun h => h, fun _ h => h⟩, ?_⟩
          intro ⟨i1, i2, _⟩
          refine ⟨i1, ?_, fun hm => absurd hz hm⟩
          intro p hp
          show getPageReferenced ck p ≠ 0 ↔ p = pend ∨ p ∈ iPage :: ck.refLog
          rw [List.mem_cons]
          constructor
          · intro h
            rcases (i2 p hp).mp h with h | h
            · left; exact h
            · right; right; exact h
          · intro h
            rcases h with h | h | h
            · exact (i2 p hp).mpr (Or.inl h)
            · rw [h]; exact h2
            · exact (i2 p hp).mpr (Or.inr h)
        · refine ⟨⟨e6, e7, ?_, ?_, fun h => absurd h hne, ?_, ?_⟩, ?_⟩
          · rw [e1, e2]; show ck.mxErr - 1 + ((ck.nErr + 1 : Nat) : Int) = _; push_cast; ring
          · rw [e1]; show ck.mxErr - 1 ≤ ck.mxErr; omega
          · intro h; rw [e1]; show 0 ≤ ck.mxErr - 1
            have : ck.mxErr ≠ 0 := hne
            omega
          · intro p hp; rw [getPageReferenced_congr _ _ e4 p]; exact hp
          · intro ⟨i1, i2, i3⟩
            refine ⟨?_, ?_, ?_⟩
            · rw [e3, e2, List.length_append]
              show ck.errMsg.length + 1 = ck.nErr + 1
              rw [i1]
            · intro p hp
              rw [getPageReferenced_congr _ _ e4 p, e5]
              have hp' : p ≤ ck.nPage := by rw [e7] at hp; exact hp
              show getPageReferenced ck p ≠ 0 ↔ p = pend ∨ p ∈ iPage :: ck.refLog
              rw [List.mem_cons]
              constructor
              · intro h
                rcases (i2 p hp').mp h with h | h
                · left; exact h
                · right; right; exact h
              · intro h
                rcases h with h | h | h
                · exact (i2 p hp').mpr (Or.inl h)
                · rw [h]; exact h2
                · exact (i2 p hp').mpr (Or.inr h)
            · intro _ p hp hmem hc
              rw [e3]
              have hp' : p ≤ ck.nPage := by rw [e7] at hp; exact hp
              rw [e5] at hmem hc
              by_cases hpe : p = iPage
              · rw [hpe]; exact List.mem_append_right _ (List.mem_singleton_self _)
              · apply List.mem_append_left
                have hmem' : p ∈ ck.refLog := by
                  rcases List.mem_cons.mp hmem with h | h
                  · exact absurd h hpe
                  · exact h
                have hc' : 2 ≤ ck.refLog.count p ∨ p = pend := by
                  rcases hc with hc | hc
                  · left
                    have : (iPage :: ck.refLog).count p = ck.refLog.count p :=
                      List.count_cons_of_ne hpe _
                    rw [← this]; exact hc
                  · right; exact hc
                exact i3 hne p hp' hmem' hc'
      · rw [if_neg h2]
        have h2' : getPageReferenced ck iPage = 0 := by simpa using h2
        refine ⟨⟨rfl, rfl, rfl, le_refl _, fun h => h, fun h => h, ?_⟩, ?_⟩
        · intro p hp
          exact getPageReferenced_set_mono { ck with refLog := iPage :: ck.refLog } iPage p hp
        · intro ⟨i1, i2, i3⟩
          have hle : iPage ≤ ck.nPage := by omega
          have hnot : ¬ (iPage = pend ∨ iPage ∈ ck.refLog) := by
            intro h
            exact ((i2 iPage hle).mpr h) h2'
          refine ⟨i1, ?_, ?_⟩
          · intro p hp
            show getPageReferenced (setPageReferenced { ck with refLog := iPage :: ck.refLog }
              iPage) p ≠ 0 ↔ p = pend ∨ p ∈ iPage :: ck.refLog
            rw [List.mem_cons]
            by_cases hpe : p = iPage
            · rw [hpe]
              constructor
              · intro _; right; left; rfl
              · intro _; exact getPageReferenced_set_same _ _
            · rw [getPageReferenced_set_other _ _ _ hpe]
              constructor
              · intro h
                rcases (i2 p hp).mp h with h | h
                · left; exact h
                · right; right; exact h
              · intro h
                rcases h with h | h | h
                · exact (i2 p hp).mpr (Or.inl h)
                · exact absurd h hpe
                · exact (i2 p hp).mpr (Or.inr h)
          · intro hm p hp hmem hc
            show CkMsg.secondRef p ∈ ck.errMsg
            have hmem2 : p ∈ iPage :: ck.refLog := hmem
            have hc2 : 2 ≤ (iPage :: ck.refLog).count p ∨ p = pend := hc
            by_cases hpe : p = iPage
            · exfalso
              rw [hpe] at hc2
              rcases hc2 with hc2 | hc2
              · rw [List.count_cons_self] at hc2
                have : ck.refLog.count iPage = 0 :=
                  List.count_eq_zero_of_not_mem (fun h => hnot (Or.inr h))
                omega
              · exact hnot (Or.inl hc2)
            · have hmem' : p ∈ ck.refLog := by
                rcases List.mem_cons.mp hmem2 with h | h
                · exact absurd h hpe
                · exact h
              have hc' : 2 ≤ ck.refLog.count p ∨ p = pend := by
                rcases hc2 with hc2 | hc2
                · left
                  have : (iPage :: ck.refLog).count p = ck.refLog.count p :=
                    List.count_cons_of_ne hpe _
                  rw [← this]; exact hc2
                · right; exact hc2
              exact i3 hm p hp hmem' hc'

theorem checkPtrmap_step (pend : Nat) (env : CkEnv) (ck : IntegrityCk)
    (iChild eType iParent : Nat) : CkStep pend ck (checkPtrmap env ck iChild eType iParent) := by
  unfold checkPtrmap
  refine ckStep_ite _ (fun _ => ?_) (fun _ => ckStep_ite _ (fun _ => ?_) (fun _ => ?_))
  · exact ckStep_trans (ckStep_ite _ (fun _ => ckStep_malloc pend ck)
      (fun _ => ckStep_refl pend ck)) (checkAppendMsg_step pend env _ _)
  · exact checkAppendMsg_step pend env _ _
  · exact ckStep_refl pend ck

theorem checkListLeaves_step (pend : Nat) (env : CkEnv) (data : Bytes) :
    ∀ k i ck, CkStep pend ck (checkListLeaves env data k i ck) := by
  intro k
  induction k with
  | zero => intro i ck; exact ckStep_refl pend ck
  | succ k ih =>
    intro i ck
    rw [checkListLeaves]
    refine ckStep_trans ?_ (ih _ _)
    exact ckStep_trans (ckStep_ite _ (fun _ => checkPtrmap_step pend env ck _ _ _)
      (fun _ => ckStep_refl pend ck)) (checkRef_step pend env _ _)

end Btree

namespace Btree

/-! ## The integrity check: page lists -/

/-- `checkList` returns: every pass of its loop that goes on has set the bit of one more
page, so fuel above the number of unreferenced pages is enough. -/
theorem checkList_total (pend : Nat) (env : CkEnv) (isFreeList : Bool) (expected iFirst : Int) :
    ∀ fuel ck iPage N, unrefCount ck + 1 ≤ fuel →
      ∃ r, checkList env isFreeList expected iFirst fuel ck iPage N = some r ∧
        CkStep pend ck r := by
  intro fuel
  induction fuel with
  | zero => intro ck iPage N h; omega
  | succ fuel ih =>
    intro ck iPage N hf
    rw [checkList]
    split
    · split
      · exact ⟨_, rfl, checkAppendMsg_step pend env _ _⟩
      · split
        · exact ⟨_, rfl, checkRef_step pend env _ _⟩
        · rename_i href
          have hz : (checkRef env ck iPage.toNat).1 = 0 := by
            by_contra hne; exact href hne
          have hcnt := checkRef_unrefCount env ck iPage.toNat hz
          have key : ∀ ckn ip nn, CkStep pend (checkRef env ck iPage.toNat).2 ckn →
              ∃ r, checkList env isFreeList expected iFirst fuel ckn ip nn = some r ∧
                CkStep pend ck r := by
            intro ckn ip nn hs
            have hle := unrefCount_le_of_after _ _ hs.1
            obtain ⟨r, hr, hs2⟩ := ih ckn ip nn (by omega)
            exact ⟨r, hr, ckStep_trans (ckStep_trans (checkRef_step pend env ck _) hs) hs2⟩
          split
          · exact ⟨_, rfl, ckStep_trans (checkRef_step pend env ck _)
              (checkAppendMsg_step pend env _ _)⟩
          · split
            · split
              · apply key
                exact ckStep_trans (ckStep_ite _ (fun _ => checkPtrmap_step pend env _ _ _ _)
                  (fun _ => ckStep_refl pend _)) (checkAppendMsg_step pend env _ _)
              · apply key
                exact ckStep_trans (ckStep_ite _ (fun _ => checkPtrmap_step pend env _ _ _ _)
                  (fun _ => ckStep_refl pend _)) (checkListLeaves_step pend env _ _ _ _)
            · apply key
              exact ckStep_ite _ (fun _ => checkPtrmap_step pend env _ _ _ _)
                (fun _ => ckStep_refl pend _)
    · exact ⟨_, rfl, ckStep_refl pend ck⟩

/-- Restating a result about a term for an equal one. -/
theorem total_of_eq {α : Type} {P : α → Prop} {x o : Option α}
    (h : ∃ r, x = some r ∧ P r) (ho : x = o) : ∃ r, o = some r ∧ P r := by
  rw [← ho]; exact h

/-! ## The integrity check: coverage of a page -/

theorem ckStep_ite_fst {pend : Nat} {β : Type} {ck : IntegrityCk} {x y : IntegrityCk × β}
    (c : Prop) [Decidable c] (h1 : c → CkStep pend ck x.1) (h2 : ¬ c → CkStep pend ck y.1) :
    CkStep pend ck (if c then x else y).1 := by
  by_cases hc : c
  · rw [if_pos hc]; exact h1 hc
  · rw [if_neg hc]; exact h2 hc

theorem coverCells_step (pend : Nat) (env : CkEnv) (pPage : MemPage)
    (iPage usableSize cellStart : Nat) :
    ∀ k i ck hit,
      CkStep pend ck (coverCells env pPage iPage usableSize cellStart k i ck hit).1 := by
  intro k
  induction k with
  | zero => intro i ck hit; exact ckStep_refl pend ck
  | succ k ih =>
    intro i ck hit
    rw [coverCells]
    refine ckStep_ite_fst _ (fun _ => ?_) (fun _ => ?_)
    · exact ckStep_trans (checkAppendMsg_step pend env ck _) (ih _ _ _)
    · exact ih _ _ _

theorem coverCount_step (pend : Nat) (env : CkEnv) (iPage : Nat) (hit : Nat → Nat) :
    ∀ k i cnt ck, CkStep pend ck (coverCount env iPage hit k i cnt ck).1 := by
  intro k
  induction k with
  | zero => intro i cnt ck; exact ckStep_refl pend ck
  | succ k ih =>
    intro i cnt ck
    rw [coverCount]
    split
    · exact ih _ _ _
    · split
      · exact checkAppendMsg_step pend env ck _
      · exact ih _ _ _

/-- The freeblock loop of the coverage check returns wherever the freeblock loop of
`btreeInitPage` has accepted the chain. -/
theorem coverFree_of_walk (data : Bytes) (usableSize iCellFirst iCellLast : Nat) :
    ∀ fuel pc nFree n hit,
      freeblockWalk data usableSize iCellFirst iCellLast fuel pc nFree = some (SQLITE_OK, n) →
      ∃ h, coverFree data fuel pc hit = some h := by
  intro fuel
  induction fuel with
  | zero => intro pc nFree n hit h; simp [freeblockWalk] at h
  | succ fuel ih =>
    intro pc nFree n hit h
    rw [freeblockWalk] at h
    rw [coverFree]
    by_cases hpc : pc > 0
    · rw [if_pos hpc] at h
      rw [if_pos hpc]
      by_cases hr : pc < iCellFirst ∨ pc > iCellLast
      · rw [if_pos hr] at h; simp [SQLITE_OK, SQLITE_CORRUPT] at h
      · rw [if_neg hr] at h
        by_cases hb : (get2byte data pc > 0 ∧ get2byte data pc ≤ pc + get2byte data (pc + 2) + 3)
            ∨ pc + get2byte data (pc + 2) > usableSize
        · rw [if_pos hb] at h; simp [SQLITE_OK, SQLITE_CORRUPT] at h
        · rw [if_neg hb] at h
          exact ih _ _ _ _ h
    · rw [if_neg hpc]; exact ⟨_, rfl⟩

/-- The freeblock loop that an accepting `btreeInitPage` has run. -/
theorem btreeInitPage_ok_walk (fuel : Nat) (p pg : MemPage)
    (h : btreeInitPage fuel p = some (SQLITE_OK, pg)) (hinit : p.isInit = false) :
    ∃ cf cl nFree n, freeblockWalk p.aData p.pBt.usableSize cf cl fuel
      (get2byte p.aData (p.hdrOffset + 1)) nFree = some (SQLITE_OK, n) := by
  have hbt := decodeFlags_pBt p (getByte p.aData p.hdrOffset)
  simp only [btreeInitPage, hinit, Bool.false_eq_true, if_false] at h
  split at h
  · simp [SQLITE_OK, SQLITE_CORRUPT] at h
  · split at h
    · simp [SQLITE_OK, SQLITE_CORRUPT] at h
    · split at h
      · cases h
      · rename_i rc nFree hw
        split at h
        · simp [SQLITE_OK, SQLITE_CORRUPT] at h
        · rename_i hrc
          have hrc0 : rc = SQLITE_OK := by
            by_contra hne; exact hrc hne
          rw [hrc0, hbt] at hw
          exact ⟨_, _, _, _, hw⟩

theorem checkCoverage_total (pend : Nat) (env : CkEnv) (fuel : Nat) (ck : IntegrityCk)
    (pPage : MemPage) (iPage : Nat)
    (hfree : ∀ hit, ∃ h, coverFree pPage.aData fuel
      (get2byte pPage.aData (pPage.hdrOffset + 1)) hit = some h) :
    ∃ r, checkCoverage env fuel ck pPage iPage = some r ∧ CkStep pend ck r := by
  unfold checkCoverage
  split
  · exact ⟨_, rfl, ckStep_malloc pend ck⟩
  · split
    · rename_i heq
      obtain ⟨h, hh⟩ := hfree _
      rw [hh] at heq
      cases heq
    · split
      · exact ⟨_, rfl, ckStep_trans (ckStep_trans (coverCells_step pend env _ _ _ _ _ _ _ _)
          (coverCount_step pend env _ _ _ _ _ _)) (checkAppendMsg_step pend env _ _)⟩
      · exact ⟨_, rfl, ckStep_trans (coverCells_step pend env _ _ _ _ _ _ _ _)
          (coverCount_step pend env _ _ _ _ _ _)⟩

theorem checkLeafKeys_step (pend : Nat) (env : CkEnv) (ck : IntegrityCk) (pPage : MemPage)
    (nMinKey nMaxKey : Int) (a b : Option Int) :
    CkStep pend ck (checkLeafKeys env ck pPage nMinKey nMaxKey a b).1 := by
  unfold checkLeafKeys
  split
  · split
    · exact ckStep_ite _ (fun _ => checkAppendMsg_step pend env _ _)
        (fun _ => ckStep_refl pend _)
    · refine ckStep_ite _ (fun _ => ?_) (fun _ => ?_)
      · exact ckStep_trans (ckStep_ite _ (fun _ => checkAppendMsg_step pend env _ _)
          (fun _ => ckStep_refl pend _)) (checkAppendMsg_step pend env _ _)
      · exact ckStep_ite _ (fun _ => checkAppendMsg_step pend env _ _)
          (fun _ => ckStep_refl pend _)
    · exact ckStep_ite _ (fun _ => checkAppendMsg_step pend env _ _)
        (fun _ => ckStep_refl pend _)
    · exact ckStep_refl pend _
  · exact ckStep_refl pend _

end Btree

namespace Btree

/-! ## The integrity check: the pages of a tree -/

theorem ckStep_nPage {pend : Nat} {a b : IntegrityCk} (h : CkStep pend a b) :
    b.nPage = a.nPage := h.1.2.1

theorem ckStep_pBt {pend : Nat} {a b : IntegrityCk} (h : CkStep pend a b) :
    b.pBt = a.pBt := h.1.1

/-- The check of the overflow list of a cell returns. -/
theorem checkOvfl_total (pend : Nat) (env : CkEnv) (listFuel : Nat) (b : IntegrityCk)
    (hl : b.nPage + 2 ≤ listFuel) (c : Prop) [Decidable c] (ckA ckB : IntegrityCk)
    (e f iP N : Int) (o : Option IntegrityCk)
    (ho : (if c then checkList env false e f listFuel ckA iP N else some ckB) = o)
    (hA : CkStep pend b ckA) (hB : CkStep pend b ckB) :
    ∃ r, o = some r ∧ CkStep pend b r := by
  rw [← ho]
  by_cases hc : c
  · rw [if_pos hc]
    have h1 := unrefCount_le ckA
    have h2 := ckStep_nPage hA
    obtain ⟨r, hr, hs⟩ := checkList_total pend env false e f listFuel ckA iP N (by omega)
    exact ⟨r, hr, ckStep_trans hA hs⟩
  · rw [if_neg hc]
    exact ⟨ckB, rfl, hB⟩

/-- The loop over the cells of a page returns if the check of a child page does. -/
theorem checkCells_total (pend : Nat) (env : CkEnv)
    (child : IntegrityCk → Nat → Option Int → Option Int → Option (Nat × IntegrityCk × Option Int))
    (listFuel : Nat) (pPage : MemPage) (iPage : Nat) (b : IntegrityCk)
    (hl : b.nPage + 2 ≤ listFuel)
    (hchild : ∀ ck pg x y o, child ck pg x y = o → CkStep pend b ck →
      ∃ r, o = some r ∧ CkStep pend b r.2.1) :
    ∀ k i ck depth mn mx, CkStep pend b ck →
      ∃ r, checkCells env child listFuel pPage iPage k i ck depth mn mx = some r ∧
        CkStep pend b r.1 := by
  intro k
  induction k with
  | zero => intro i ck depth mn mx hs; exact ⟨_, rfl, hs⟩
  | succ k ih =>
    intro i ck depth mn mx hs
    rw [checkCells]
    split
    · exact ⟨_, rfl, hs⟩
    · have hrow : ∀ (c : Prop) [Decidable c] (m : CkMsg),
          CkStep pend b (if c then checkAppendMsg env ck m else ck) := by
        intro c _ m
        exact ckStep_trans hs (ckStep_ite _ (fun _ => checkAppendMsg_step pend env ck m)
          (fun _ => ckStep_refl pend ck))
      split
      · rename_i heq
        obtain ⟨r, hr, _⟩ := checkOvfl_total pend env listFuel b hl _ _ _ _ _ _ _ _ heq
          (ckStep_ite _ (fun _ => ckStep_trans (hrow _ _) (checkPtrmap_step pend env _ _ _ _))
            (fun _ => hrow _ _)) (hrow _ _)
        cases hr
      · rename_i ck2 heq
        obtain ⟨r, hr, hs2⟩ := checkOvfl_total pend env listFuel b hl _ _ _ _ _ _ _ _ heq
          (ckStep_ite _ (fun _ => ckStep_trans (hrow _ _) (checkPtrmap_step pend env _ _ _ _))
            (fun _ => hrow _ _)) (hrow _ _)
        cases hr
        split
        · split
          · rename_i heq2
            obtain ⟨r, hr, _⟩ := hchild _ _ _ _ _ heq2
              (ckStep_ite _ (fun _ => ckStep_trans hs2 (checkPtrmap_step pend env _ _ _ _))
                (fun _ => hs2))
            cases hr
          · rename_i d2 ck4 pMin heq2
            obtain ⟨r, hr, hs4⟩ := hchild _ _ _ _ _ heq2
              (ckStep_ite _ (fun _ => ckStep_trans hs2 (checkPtrmap_step pend env _ _ _ _))
                (fun _ => hs2))
            cases hr
            apply ih
            exact ckStep_ite _ (fun _ => ckStep_trans hs4 (checkAppendMsg_step pend env _ _))
              (fun _ => hs4)
        · exact ih _ _ _ _ _ hs2

/-- The check of the right child returns if the check of a page does. -/
theorem checkRight_total (pend : Nat) (b : IntegrityCk) (c : Prop) [Decidable c]
    (X : Option (Nat × IntegrityCk × Option Int)) (ckB : IntegrityCk) (o : Option IntegrityCk)
    (ho : (if c then X.map (fun r => r.2.1) else some ckB) = o)
    (hX : ∃ r, X = some r ∧ CkStep pend b r.2.1) (hB : CkStep pend b ckB) :
    ∃ r, o = some r ∧ CkStep pend b r := by
  rw [← ho]
  by_cases hc : c
  · rw [if_pos hc]
    obtain ⟨r, hr, hs⟩ := hX
    rw [hr]
    exact ⟨r.2.1, rfl, hs⟩
  · rw [if_neg hc]
    exact ⟨ckB, rfl, hB⟩

/-- `checkTreePage` returns: it descends into a page only after `checkRef` has set the bit
of that page, so the depth of the recursion is at most the number of unreferenced pages
plus one. -/
theorem checkTreePage_total (pend : Nat) (env : CkEnv) (fi listFuel : Nat) (pBt : BtShared)
    (hu : usableOk pBt.usableSize) (hfi : pBt.usableSize ≤ fi) :
    ∀ fuel ck iPage x y, ck.pBt = pBt → ck.nPage + 2 ≤ listFuel → unrefCount ck + 1 ≤ fuel →
      ∃ r, checkTreePage env fi listFuel fuel ck iPage x y = some r ∧
        CkStep pend ck r.2.1 := by
  intro fuel
  induction fuel with
  | zero => intro ck iPage x y _ _ h; omega
  | succ fuel ih =>
    intro ck iPage x y hbt hl hf
    rw [checkTreePage]
    split
    · exact ⟨_, rfl, ckStep_refl pend ck⟩
    · split
      · exact ⟨_, rfl, checkRef_step pend env ck iPage⟩
      · rename_i href
        have hz : (checkRef env ck iPage).1 = 0 := by
          by_contra hne; exact href hne
        have hcnt := checkRef_unrefCount env ck iPage hz
        have hs0 := checkRef_step pend env ck iPage
        have hrec : ∀ ck1 pg x1 y1 o,
            checkTreePage env fi listFuel fuel ck1 pg x1 y1 = o →
            CkStep pend (checkRef env ck iPage).2 ck1 →
            ∃ r, o = some r ∧ CkStep pend (checkRef env ck iPage).2 r.2.1 := by
          intro ck1 pg x1 y1 o ho hs1
          have h1 := unrefCount_le_of_after _ _ hs1.1
          have h2 := ckStep_nPage hs1
          have h3 := ckStep_nPage hs0
          have h4 := ckStep_pBt hs1
          have h5 := ckStep_pBt hs0
          obtain ⟨r, hr, hs⟩ := ih ck1 pg x1 y1 (by rw [h4, h5, hbt]) (by omega) (by omega)
          rw [← ho]
          exact ⟨r, hr, ckStep_trans hs1 hs⟩
        have hl0 : (checkRef env ck iPage).2.nPage + 2 ≤ listFuel := by
          rw [ckStep_nPage hs0]; exact hl
        split
        · exact ⟨_, rfl, ckStep_trans hs0 (checkAppendMsg_step pend env _ _)⟩
        · obtain ⟨ri, hri, _⟩ := btreeInitPage_spec
            { (btreeGetPage ck.pBt env.store iPage (blankPage ck.pBt (fun _ => 0) 0)).2 with
              isInit := false } rfl
            (by
              show usableOk (btreeGetPage ck.pBt env.store iPage
                (blankPage ck.pBt (fun _ => 0) 0)).2.pBt.usableSize
              unfold btreeGetPage
              split
              · rw [hbt]; exact hu
              · rw [hbt]; exact hu)
            (by
              show (btreeGetPage ck.pBt env.store iPage
                (blankPage ck.pBt (fun _ => 0) 0)).2.hdrOffset =
                if (btreeGetPage ck.pBt env.store iPage
                  (blankPage ck.pBt (fun _ => 0) 0)).2.pgno = 1 then 100 else 0
              unfold btreeGetPage
              split
              · rfl
              · rfl)
          have hfi' : (btreeGetPage ck.pBt env.store iPage
              (blankPage ck.pBt (fun _ => 0) 0)).2.pBt.usableSize ≤ fi := by
            unfold btreeGetPage
            split
            · rw [hbt]; exact hfi
            · rw [hbt]; exact hfi
          have hinit := hri fi hfi'
          split
          · rename_i heq
            rw [hinit] at heq
            cases heq
          · rename_i rc pPage heq
            split
            · exact ⟨_, rfl, ckStep_trans hs0 (checkAppendMsg_step pend env _ _)⟩
            · rename_i hrc
              have hrc0 : rc = SQLITE_OK := by
                by_contra hne; exact hrc hne
              rw [hrc0] at heq
              obtain ⟨cf, cl, nf, n, hwalk⟩ := btreeInitPage_ok_walk _ _ _ heq rfl
              obtain ⟨la, _, _, lh, _⟩ := btreeInitPage_ok_layout _ _ _ heq rfl
              have hfree : ∀ hit, ∃ h, coverFree pPage.aData fi
                  (get2byte pPage.aData (pPage.hdrOffset + 1)) hit = some h := by
                intro hit
                rw [la, lh]
                exact coverFree_of_walk _ _ _ _ _ _ _ _ hit hwalk
              split
              · rename_i heq1
                obtain ⟨r, hr, _⟩ := total_of_eq
                  (checkCells_total pend env (checkTreePage env fi listFuel fuel) listFuel pPage
                    iPage (checkRef env ck iPage).2 hl0 hrec pPage.nCell 0
                    (checkRef env ck iPage).2 0 0 0 (ckStep_refl pend _)) heq1
                cases hr
              · rename_i ck1 depth nMinKey nMaxKey heq1
                obtain ⟨r, hr, hs1⟩ := total_of_eq
                  (checkCells_total pend env (checkTreePage env fi listFuel fuel) listFuel pPage
                    iPage (checkRef env ck iPage).2 hl0 hrec pPage.nCell 0
                    (checkRef env ck iPage).2 0 0 0 (ckStep_refl pend _)) heq1
                cases hr
                have hs1' : CkStep pend (checkRef env ck iPage).2 ck1 := hs1
                split
                · rename_i heq2
                  obtain ⟨r, hr, _⟩ := checkRight_total pend (checkRef env ck iPage).2 _ _ _ _
                    heq2
                    (hrec _ _ _ _ _ rfl (ckStep_ite _
                      (fun _ => ckStep_trans hs1' (checkPtrmap_step pend env _ _ _ _))
                      (fun _ => hs1'))) hs1'
                  cases hr
                · rename_i ck2 heq2
                  obtain ⟨r, hr, hs2⟩ := checkRight_total pend (checkRef env ck iPage).2 _ _ _ _
                    heq2
                    (hrec _ _ _ _ _ rfl (ckStep_ite _
                      (fun _ => ckStep_trans hs1' (checkPtrmap_step pend env _ _ _ _))
                      (fun _ => hs1'))) hs1'
                  cases hr
                  split
                  · rename_i heq3
                    obtain ⟨r, hr, _⟩ := total_of_eq
                      (checkCoverage_total pend env fi _ pPage iPage hfree) heq3
                    cases hr
                  · rename_i ck3 heq3
                    obtain ⟨r, hr, hs3⟩ := total_of_eq
                      (checkCoverage_total pend env fi _ pPage iPage hfree) heq3
                    cases hr
                    exact ⟨_, rfl, ckStep_trans hs0 (ckStep_trans hs2
                      (ckStep_trans (checkLeafKeys_step pend env _ _ _ _ _ _) hs3))⟩

end Btree

namespace Btree

/-! ## The integrity check: every page is accounted for -/

theorem checkRoots_total (pend : Nat) (env : CkEnv) (fi listFuel fuel : Nat) (pBt : BtShared)
    (hu : usableOk pBt.usableSize) (hfi : pBt.usableSize ≤ fi) :
    ∀ roots ck, ck.pBt = pBt → ck.nPage + 2 ≤ listFuel → ck.nPage + 2 ≤ fuel →
      ∃ r, checkRoots env fi listFuel fuel roots ck = some r ∧ CkStep pend ck r := by
  intro roots
  induction roots with
  | nil => intro ck _ _ _; exact ⟨_, rfl, ckStep_refl pend ck⟩
  | cons root rest ih =>
    intro ck hbt hl hf
    rw [checkRoots]
    split
    · exact ⟨_, rfl, ckStep_refl pend ck⟩
    · split
      · exact ih ck hbt hl hf
      · have hpm : ∀ (c : Prop) [Decidable c] (a b d : Nat),
            CkStep pend ck (if c then checkPtrmap env ck a b d else ck) := by
          intro c _ a b d
          exact ckStep_ite _ (fun _ => checkPtrmap_step pend env ck _ _ _)
            (fun _ => ckStep_refl pend ck)
        have htot : ∀ (c : Prop) [Decidable c] (a b d pg : Nat) (x y : Option Int),
            ∃ r, checkTreePage env fi listFuel fuel
              (if c then checkPtrmap env ck a b d else ck) pg x y = some r ∧
              CkStep pend ck r.2.1 := by
          intro c _ a b d pg x y
          have hs := hpm c a b d
          have h1 := unrefCount_le (if c then checkPtrmap env ck a b d else ck)
          have h2 := ckStep_nPage hs
          obtain ⟨r, hr, hs2⟩ := checkTreePage_total pend env fi listFuel pBt hu hfi fuel
            (if c then checkPtrmap env ck a b d else ck) pg x y
            (by rw [ckStep_pBt hs, hbt]) (by omega) (by omega)
          exact ⟨r, hr, ckStep_trans hs hs2⟩
        split
        · rename_i heq
          obtain ⟨r, hr, _⟩ := total_of_eq (htot _ _ _ _ _ _ _) heq
          cases hr
        · rename_i r0 heq
          obtain ⟨r, hr, hs⟩ := total_of_eq (htot _ _ _ _ _ _ _) heq
          cases hr
          obtain ⟨r2, hr2, hs2⟩ := ih r0.2.1 (by rw [ckStep_pBt hs, hbt])
            (by rw [ckStep_nPage hs]; exact hl) (by rw [ckStep_nPage hs]; exact hf)
          exact ⟨r2, hr2, ckStep_trans hs hs2⟩

theorem checkNeverUsed_spec (pend : Nat) (env : CkEnv) (ck : IntegrityCk) (i : Nat) :
    CkStep pend ck (checkNeverUsed env ck i) ∧
    (checkNeverUsed env ck i).aPgRef = ck.aPgRef ∧
    (checkNeverUsed env ck i).refLog = ck.refLog ∧
    (∀ m, m ∈ ck.errMsg → m ∈ (checkNeverUsed env ck i).errMsg) ∧
    (ck.mxErr ≠ 0 → getPageReferenced ck i = 0 →
      (ptrmapPageno ck.pBt i ≠ i ∨ ck.pBt.autoVacuum = false) →
      CkMsg.neverUsed i ∈ (checkNeverUsed env ck i).errMsg) ∧
    (getPageReferenced ck i ≠ 0 → checkNeverUsed env ck i = ck) := by
  unfold checkNeverUsed
  by_cases hc : getPageReferenced ck i = 0 ∧
      (ptrmapPageno ck.pBt i ≠ i ∨ ck.pBt.autoVacuum = false)
  · rw [if_pos hc]
    refine ⟨checkAppendMsg_step pend env ck _, ?_, ?_, ?_, ?_, fun h => absurd hc.1 h⟩
    · rcases checkAppendMsg_eq env ck (CkMsg.neverUsed i) with ⟨_, h⟩ | ⟨_, _, _, _, h, _⟩
      · rw [h]
      · exact h
    · rcases checkAppendMsg_eq env ck (CkMsg.neverUsed i) with ⟨_, h⟩ | ⟨_, _, _, _, _, h, _⟩
      · rw [h]
      · exact h
    · intro m hm
      rcases checkAppendMsg_eq env ck (CkMsg.neverUsed i) with ⟨_, h⟩ | ⟨_, _, _, h, _⟩
      · rw [h]; exact hm
      · rw [h]; exact List.mem_append_left _ hm
    · intro hne _ _
      rcases checkAppendMsg_eq env ck (CkMsg.neverUsed i) with ⟨hz, _⟩ | ⟨_, _, _, h, _⟩
      · exact absurd hz hne
      · rw [h]; exact List.mem_append_right _ (List.mem_singleton_self _)
  · rw [if_neg hc]
    refine ⟨ckStep_refl pend ck, rfl, rfl, fun _ h => h, ?_, fun _ => rfl⟩
    intro _ h1 h2
    exact absurd ⟨h1, h2⟩ hc

theorem checkPageUsed_spec (pend : Nat) (env : CkEnv) (ck : IntegrityCk) (i : Nat) :
    CkStep pend ck (checkPageUsed env ck i) ∧
    (checkPageUsed env ck i).aPgRef = ck.aPgRef ∧
    (checkPageUsed env ck i).refLog = ck.refLog ∧
    (∀ m, m ∈ ck.errMsg → m ∈ (checkPageUsed env ck i).errMsg) ∧
    (ck.mxErr ≠ 0 → getPageReferenced ck i = 0 →
      (ptrmapPageno ck.pBt i ≠ i ∨ ck.pBt.autoVacuum = false) →
      CkMsg.neverUsed i ∈ (checkPageUsed env ck i).errMsg) ∧
    (ck.mxErr ≠ 0 → getPageReferenced ck i ≠ 0 → ptrmapPageno ck.pBt i = i →
      ck.pBt.autoVacuum = true → CkMsg.ptrmapReferenced i ∈ (checkPageUsed env ck i).errMsg) := by
  obtain ⟨n1, n2, n3, n4, n5, n6⟩ := checkNeverUsed_spec pend env ck i
  unfold checkPageUsed
  by_cases hc : getPageReferenced (checkNeverUsed env ck i) i ≠ 0 ∧
      (ptrmapPageno ck.pBt i = i ∧ ck.pBt.autoVacuum = true)
  · rw [if_pos hc]
    have hbit : getPageReferenced ck i ≠ 0 := by
      rw [← getPageReferenced_congr _ _ n2 i]; exact hc.1
    have hsame := n6 hbit
    rw [hsame]
    refine ⟨checkAppendMsg_step pend env ck _, ?_, ?_, ?_, ?_, ?_⟩
    · rcases checkAppendMsg_eq env ck (CkMsg.ptrmapReferenced i) with
        ⟨_, h⟩ | ⟨_, _, _, _, h, _⟩
      · rw [h]
      · exact h
    · rcases checkAppendMsg_eq env ck (CkMsg.ptrmapReferenced i) with
        ⟨_, h⟩ | ⟨_, _, _, _, _, h, _⟩
      · rw [h]
      · exact h
    · intro m hm
      rcases checkAppendMsg_eq env ck (CkMsg.ptrmapReferenced i) with ⟨_, h⟩ | ⟨_, _, _, h, _⟩
      · rw [h]; exact hm
      · rw [h]; exact List.mem_append_left _ hm
    · intro _ h0 _
      exact absurd h0 hbit
    · intro hne _ _ _
      rcases checkAppendMsg_eq env ck (CkMsg.ptrmapReferenced i) with ⟨hz, _⟩ | ⟨_, _, _, h, _⟩
      · exact absurd hz hne
      · rw [h]; exact List.mem_append_right _ (List.mem_singleton_self _)
  · rw [if_neg hc]
    refine ⟨n1, n2, n3, n4, n5, ?_⟩
    intro _ hbit hp ha
    exfalso
    apply hc
    refine ⟨?_, hp, ha⟩
    rw [getPageReferenced_congr _ _ n2 i]; exact hbit

/-- The last loop of the check: while the budget is not exhausted, every page whose bit is
clear gets its "never used" message unless it is a pointer-map page of an auto-vacuum
database, and every such pointer-map page whose bit is set gets its message. -/
theorem checkPages_spec (pend : Nat) (env : CkEnv) :
    ∀ k i ck,
      CkStep pend ck (checkPages env k i ck) ∧
      (checkPages env k i ck).aPgRef = ck.aPgRef ∧
      (checkPages env k i ck).refLog = ck.refLog ∧
      (∀ m, m ∈ ck.errMsg → m ∈ (checkPages env k i ck).errMsg) ∧
      ((checkPages env k i ck).mxErr ≠ 0 → ∀ p, i ≤ p → p < i + k →
        (getPageReferenced ck p = 0 →
          (ptrmapPageno ck.pBt p ≠ p ∨ ck.pBt.autoVacuum = false) →
          CkMsg.neverUsed p ∈ (checkPages env k i ck).errMsg) ∧
        (getPageReferenced ck p ≠ 0 → ptrmapPageno ck.pBt p = p →
          ck.pBt.autoVacuum = true →
          CkMsg.ptrmapReferenced p ∈ (checkPages env k i ck).errMsg)) := by
  intro k
  induction k with
  | zero =>
    intro i ck
    refine ⟨ckStep_refl pend ck, rfl, rfl, fun _ h => h, ?_⟩
    intro _ p h1 h2
    omega
  | succ k ih =>
    intro i ck
    rw [checkPages]
    by_cases hz : ck.mxErr = 0
    · rw [if_pos hz]
      refine ⟨ckStep_refl pend ck, rfl, rfl, fun _ h => h, ?_⟩
      intro h
      exact absurd hz h
    · rw [if_neg hz]
      obtain ⟨u1, u2, u3, u4, u5, u6⟩ := checkPageUsed_spec pend env ck i
      obtain ⟨v1, v2, v3, v4, v5⟩ := ih (i + 1) (checkPageUsed env ck i)
      refine ⟨ckStep_trans u1 v1, v2.trans u2, v3.trans u3, fun m h => v4 m (u4 m h), ?_⟩
      intro hne p hp1 hp2
      by_cases hpi : p = i
      · rw [hpi]
        exact ⟨fun a b => v4 _ (u5 hz a b), fun a b c => v4 _ (u6 hz a b c)⟩
      · have hv := v5 hne p (by omega) (by omega)
        rw [getPageReferenced_congr _ _ u2 p, ckStep_pBt u1] at hv
        exact hv

theorem getPageReferenced_start (env : CkEnv) (pBt : BtShared) (mxErr : Int) (p : Nat) :
    getPageReferenced (checkStart env pBt mxErr) p = 0 := by
  unfold getPageReferenced checkStart
  exact Nat.zero_and _

theorem ckInv_start (env : CkEnv) (pBt : BtShared) (mxErr : Int) (pend : Nat) :
    CkInv pend (if pend ≤ env.store.nPage then
      setPageReferenced (checkStart env pBt mxErr) pend else checkStart env pBt mxErr) := by
  by_cases hp : pend ≤ env.store.nPage
  · rw [if_pos hp]
    refine ⟨rfl, ?_, ?_⟩
    · intro p _
      by_cases hpe : p = pend
      · rw [hpe]
        constructor
        · intro _; left; rfl
        · intro _; exact getPageReferenced_set_same _ _
      · rw [getPageReferenced_set_other _ _ _ hpe, getPageReferenced_start]
        constructor
        · intro h; exact absurd rfl h
        · intro h
          rcases h with h | h
          · exact absurd h hpe
          · cases h
    · intro _ p _ hm _
      cases hm
  · rw [if_neg hp]
    refine ⟨rfl, ?_, ?_⟩
    · intro p hpn
      have hpn' : p ≤ env.store.nPage := hpn
      rw [getPageReferenced_start]
      constructor
      · intro h; exact absurd rfl h
      · intro h
        rcases h with h | h
        · omega
        · cases h
    · intro _ p _ hm _
      cases hm

/-- The check as a whole returns, and the checker it ends with: its budget and error count
add up to `mxErr`, it is in a state described by `CkInv`, and the last loop has reported
on the bits left by the free list and the trees. -/
theorem integrityCheck_run (env : CkEnv) (pBt : BtShared) (aRoot : List Int) (mxErr : Int)
    (fi listFuel fuel : Nat) (hu : usableOk pBt.usableSize) (hfi : pBt.usableSize ≤ fi)
    (hl : env.store.nPage + 2 ≤ listFuel) (hf : env.store.nPage + 2 ≤ fuel) :
    ∃ r, sqlite3BtreeIntegrityCheck env fi listFuel fuel pBt aRoot mxErr = some r ∧
      r.2.mxErr + r.2.nErr = mxErr ∧ (0 ≤ mxErr → 0 ≤ r.2.mxErr) ∧
      r.1 ≤ r.2.nErr + 1 ∧ r.2.nErr ≤ r.1 ∧
      r.2.errMsg.length = r.2.nErr ∧
      (env.refAllocOk = true → r.2.mallocFailed = false → r.1 = r.2.nErr) ∧
      (env.store.nPage ≠ 0 → env.refAllocOk = true →
        (∀ p, p ≤ env.store.nPage →
          (getPageReferenced r.2 p ≠ 0 ↔ p = PENDING_BYTE_PAGE pBt ∨ p ∈ r.2.refLog)) ∧
        (r.2.mxErr ≠ 0 → ∀ p, p ≤ env.store.nPage → p ∈ r.2.refLog →
          (2 ≤ r.2.refLog.count p ∨ p = PENDING_BYTE_PAGE pBt) →
          CkMsg.secondRef p ∈ r.2.errMsg) ∧
        (r.2.mxErr ≠ 0 → ∀ p, 1 ≤ p → p ≤ env.store.nPage →
          (getPageReferenced r.2 p = 0 →
            (ptrmapPageno pBt p ≠ p ∨ pBt.autoVacuum = false) →
            CkMsg.neverUsed p ∈ r.2.errMsg) ∧
          (getPageReferenced r.2 p ≠ 0 → ptrmapPageno pBt p = p → pBt.autoVacuum = true →
            CkMsg.ptrmapReferenced p ∈ r.2.errMsg))) := by
  unfold sqlite3BtreeIntegrityCheck
  by_cases hn : env.store.nPage = 0
  · rw [if_pos hn]
    refine ⟨_, rfl, ?_, fun h => h, by show 0 ≤ 0 + 1; omega, le_refl _, rfl, fun _ _ => rfl,
      fun h => absurd hn h⟩
    show mxErr + ((0 : Nat) : Int) = mxErr
    simp
  · rw [if_neg hn]
    by_cases hr : env.refAllocOk = false
    · rw [if_pos hr]
      refine ⟨_, rfl, ?_, fun h => h, by show 1 ≤ 0 + 1; omega, by show 0 ≤ 1; omega, rfl,
        ?_, ?_⟩
      · show mxErr + ((0 : Nat) : Int) = mxErr
        simp
      · intro h; rw [hr] at h; cases h
      · intro _ h; rw [hr] at h; cases h
    · rw [if_neg hr]
      have hinv0 := ckInv_start env pBt mxErr (PENDING_BYTE_PAGE pBt)
      have hck0 : ∀ (c : Prop) [Decidable c] (q : Nat),
          (if c then setPageReferenced (checkStart env pBt mxErr) q
            else checkStart env pBt mxErr).pBt = pBt ∧
          (if c then setPageReferenced (checkStart env pBt mxErr) q
            else checkStart env pBt mxErr).nPage = env.store.nPage ∧
          (if c then setPageReferenced (checkStart env pBt mxErr) q
            else checkStart env pBt mxErr).mxErr = mxErr ∧
          (if c then setPageReferenced (checkStart env pBt mxErr) q
            else checkStart env pBt mxErr).nErr = 0 := by
        intro c _ q
        by_cases hc : c
        · rw [if_pos hc]; exact ⟨rfl, rfl, rfl, rfl⟩
        · rw [if_neg hc]; exact ⟨rfl, rfl, rfl, rfl⟩
      obtain ⟨z1, z2, z3, z4⟩ := hck0 (PENDING_BYTE_PAGE pBt ≤ env.store.nPage)
        (PENDING_BYTE_PAGE pBt)
      have hlist := checkList_total (PENDING_BYTE_PAGE pBt) env true
        (toInt32 (get4byte (env.store.page 1) 36)) (toInt32 (get4byte (env.store.page 1) 32))
        listFuel
        (if PENDING_BYTE_PAGE pBt ≤ env.store.nPage then
          setPageReferenced (checkStart env pBt mxErr) (PENDING_BYTE_PAGE pBt)
        else checkStart env pBt mxErr)
        (toInt32 (get4byte (env.store.page 1) 32)) (toInt32 (get4byte (env.store.page 1) 36))
        (by
          have := unrefCount_le (if PENDING_BYTE_PAGE pBt ≤ env.store.nPage then
            setPageReferenced (checkStart env pBt mxErr) (PENDING_BYTE_PAGE pBt)
            else checkStart env pBt mxErr)
          rw [z2] at this
          omega)
      split
      · rename_i heq
        obtain ⟨r, hr1, _⟩ := total_of_eq hlist heq
        cases hr1
      · rename_i ck1 heq
        obtain ⟨r, hr1, hs1⟩ := total_of_eq hlist heq
        cases hr1
        have hroots := checkRoots_total (PENDING_BYTE_PAGE pBt) env fi listFuel fuel pBt hu hfi
          aRoot ck1 (by rw [ckStep_pBt hs1, z1]) (by rw [ckStep_nPage hs1, z2]; exact hl)
          (by rw [ckStep_nPage hs1, z2]; exact hf)
        split
        · rename_i heq2
          obtain ⟨r, hr2, _⟩ := total_of_eq hroots heq2
          cases hr2
        · rename_i ck2 heq2
          obtain ⟨r, hr2, hs2⟩ := total_of_eq hroots heq2
          cases hr2
          obtain ⟨p1, p2, p3, _, p5⟩ := checkPages_spec (PENDING_BYTE_PAGE pBt) env ck2.nPage 1 ck2
          have hs := ckStep_trans (ckStep_trans hs1 hs2) p1
          have hn2 : ck2.nPage = env.store.nPage := by
            rw [ckStep_nPage hs2, ckStep_nPage hs1, z2]
          have hb2 : ck2.pBt = pBt := by
            rw [ckStep_pBt hs2, ckStep_pBt hs1, z1]
          obtain ⟨i1, i2, i3⟩ := hs.2 hinv0
          obtain ⟨_, a2, a3, _, _, a6, _⟩ := hs.1
          rw [z3, z4] at a3
          rw [z3] at a6
          rw [z2] at a2
          have hsum : (checkPages env ck2.nPage 1 ck2).mxErr +
              ((checkPages env ck2.nPage 1 ck2).nErr : Int) = mxErr := by
            rw [a3]; simp
          have hrest : (env.store.nPage ≠ 0 → env.refAllocOk = true →
              (∀ p, p ≤ env.store.nPage →
                (getPageReferenced (checkPages env ck2.nPage 1 ck2) p ≠ 0 ↔
                  p = PENDING_BYTE_PAGE pBt ∨ p ∈ (checkPages env ck2.nPage 1 ck2).refLog)) ∧
              ((checkPages env ck2.nPage 1 ck2).mxErr ≠ 0 → ∀ p, p ≤ env.store.nPage →
                p ∈ (checkPages env ck2.nPage 1 ck2).refLog →
                (2 ≤ (checkPages env ck2.nPage 1 ck2).refLog.count p ∨
                  p = PENDING_BYTE_PAGE pBt) →
                CkMsg.secondRef p ∈ (checkPages env ck2.nPage 1 ck2).errMsg) ∧
              ((checkPages env ck2.nPage 1 ck2).mxErr ≠ 0 → ∀ p, 1 ≤ p →
                p ≤ env.store.nPage →
                (getPageReferenced (checkPages env ck2.nPage 1 ck2) p = 0 →
                  (ptrmapPageno pBt p ≠ p ∨ pBt.autoVacuum = false) →
                  CkMsg.neverUsed p ∈ (checkPages env ck2.nPage 1 ck2).errMsg) ∧
                (getPageReferenced (checkPages env ck2.nPage 1 ck2) p ≠ 0 →
                  ptrmapPageno pBt p = p → pBt.autoVacuum = true →
                  CkMsg.ptrmapReferenced p ∈ (checkPages env ck2.nPage 1 ck2).errMsg))) := by
            intro _ _
            refine ⟨?_, ?_, ?_⟩
            · intro p hp
              exact i2 p (by rw [a2]; exact hp)
            · intro hne p hp hm hc
              exact i3 hne p (by rw [a2]; exact hp) hm hc
            · intro hne p hp1 hp2
              have hv := p5 hne p hp1 (by rw [hn2]; omega)
              rw [hb2, ← getPageReferenced_congr _ _ p2 p] at hv
              exact hv
          by_cases hm : (checkPages env ck2.nPage 1 ck2).mallocFailed = true
          · rw [if_pos hm]
            refine ⟨_, rfl, hsum, a6, le_refl _, Nat.le_succ _, i1, ?_, hrest⟩
            intro _ h
            rw [hm] at h
            cases h
          · rw [if_neg hm]
            exact ⟨_, rfl, hsum, a6, Nat.le_succ _, le_refl _, i1, fun _ _ => rfl,
              hrest⟩

end Btree

namespace Btree

set_option maxRecDepth 1000000 in
/-- Claim C31, counterexample to "the number of reported errors never exceeds mxErr": on
the database `exCkEnv`, checked from the root 1 alone with `mxErr = 1` while no page buffer
can be allocated, one message is appended ("Page 2 is never used"), the budget is then
exhausted, and `*pnErr` is set to `nErr + 1 = 2` because `mallocFailed` is set. -/
theorem sqlite3BtreeIntegrityCheck_exceeds_mxErr :
    (sqlite3BtreeIntegrityCheck exCkEnvNoMem 1024 8 8 exBt1024 [1] 1).map
        (fun r => (r.1, r.2.nErr, r.2.errMsg, r.2.mallocFailed)) =
      some (2, 1, [CkMsg.neverUsed 2], true) ∧
    ¬ ((2 : Int) ≤ 1) := by
  refine ⟨by decide, by decide⟩

/-- Claim C31, amended: with enough fuel `sqlite3BtreeIntegrityCheck` returns, and for a
budget `mxErr ≥ 0`: (1) if `mxErr > 0` and it reports zero errors, then `checkRef` has been
called (by the walk of the free list, of the trees under the listed roots and of their
overflow chains) exactly once with every page in `[1, nPage]` other than the pending-byte
page and the pointer-map pages of an auto-vacuum database, and never with those; (2) if
`aPgRef` could be allocated and the budget is not exhausted at the end, a page referenced
twice has its "2nd reference" message, a page never referenced (other than the pages
excepted above) its "never used" message and a referenced pointer-map page its message,
every message being one counted error; (3) the number of messages is at most `mxErr`, and
`*pnErr` is at most `mxErr` unless a memory allocation has failed, which adds one. -/
theorem sqlite3BtreeIntegrityCheck_partition (env : CkEnv) (pBt : BtShared)
    (aRoot : List Int) (mxErr : Int) (fi listFuel fuel : Nat)
    (hu : usableOk pBt.usableSize) (hmx : 0 ≤ mxErr) (hfi : pBt.usableSize ≤ fi)
    (hl : env.store.nPage + 2 ≤ listFuel) (hf : env.store.nPage + 2 ≤ fuel) :
    ∃ r, sqlite3BtreeIntegrityCheck env fi listFuel fuel pBt aRoot mxErr = some r ∧
      (0 < mxErr → r.1 = 0 → ∀ p, 1 ≤ p → p ≤ env.store.nPage →
        r.2.refLog.count p =
          if p = PENDING_BYTE_PAGE pBt ∨ (pBt.autoVacuum = true ∧ ptrmapPageno pBt p = p)
          then 0 else 1) ∧
      (env.refAllocOk = true → (r.2.nErr : Int) < mxErr →
        ∀ p, 1 ≤ p → p ≤ env.store.nPage →
          (2 ≤ r.2.refLog.count p → CkMsg.secondRef p ∈ r.2.errMsg) ∧
          (r.2.refLog.count p = 0 → p ≠ PENDING_BYTE_PAGE pBt →
            ¬ (pBt.autoVacuum = true ∧ ptrmapPageno pBt p = p) →
            CkMsg.neverUsed p ∈ r.2.errMsg) ∧
          (1 ≤ r.2.refLog.count p → pBt.autoVacuum = true → ptrmapPageno pBt p = p →
            CkMsg.ptrmapReferenced p ∈ r.2.errMsg)) ∧
      r.2.errMsg.length = r.2.nErr ∧
      (r.2.nErr : Int) ≤ mxErr ∧ (r.1 : Int) ≤ mxErr + 1 ∧
      (env.refAllocOk = true → r.2.mallocFailed = false → (r.1 : Int) ≤ mxErr) := by
  obtain ⟨r, hr, hsum, hnn, h1, h2, hlen, hmf, hrest⟩ :=
    integrityCheck_run env pBt aRoot mxErr fi listFuel fuel hu hfi hl hf
  have hnn' := hnn hmx
  have hmsg : env.refAllocOk = true → r.2.mxErr ≠ 0 →
      ∀ p, 1 ≤ p → p ≤ env.store.nPage →
        (2 ≤ r.2.refLog.count p ∨ (p = PENDING_BYTE_PAGE pBt ∧ 1 ≤ r.2.refLog.count p) →
          CkMsg.secondRef p ∈ r.2.errMsg) ∧
        (r.2.refLog.count p = 0 → p ≠ PENDING_BYTE_PAGE pBt →
          ¬ (pBt.autoVacuum = true ∧ ptrmapPageno pBt p = p) →
          CkMsg.neverUsed p ∈ r.2.errMsg) ∧
        (1 ≤ r.2.refLog.count p → pBt.autoVacuum = true → ptrmapPageno pBt p = p →
          CkMsg.ptrmapReferenced p ∈ r.2.errMsg) := by
    intro hal hne p hp1 hp2
    obtain ⟨b1, b2, b3⟩ := hrest (by omega) hal
    refine ⟨?_, ?_, ?_⟩
    · intro hc
      have hmem : p ∈ r.2.refLog := by
        apply List.count_pos_iff.mp
        rcases hc with hc | hc
        · omega
        · omega
      apply b2 hne p hp2 hmem
      rcases hc with hc | hc
      · left; exact hc
      · right; exact hc.1
    · intro hc hpe hpm
      have hnot : ¬ p ∈ r.2.refLog := by
        intro hmem
        have := List.count_pos_iff.mpr hmem
        omega
      have hbit : getPageReferenced r.2 p = 0 := by
        by_contra hb
        rcases (b1 p hp2).mp hb with h | h
        · exact hpe h
        · exact hnot h
      apply (b3 hne p hp1 hp2).1 hbit
      by_cases ha : pBt.autoVacuum = true
      · left
        intro hq
        exact hpm ⟨ha, hq⟩
      · right
        simpa using ha
    · intro hc ha hq
      have hmem : p ∈ r.2.refLog := List.count_pos_iff.mp (by omega)
      exact (b3 hne p hp1 hp2).2 ((b1 p hp2).mpr (Or.inr hmem)) hq ha
  refine ⟨r, hr, ?_, ?_, hlen, by omega, by omega, ?_⟩
  · intro hpos hzero p hp1 hp2
    have hn0 : r.2.nErr = 0 := by omega
    have hnil : r.2.errMsg = [] := List.length_eq_zero.mp (by rw [hlen, hn0])
    have hne : r.2.mxErr ≠ 0 := by
      rw [hn0] at hsum
      simp at hsum
      omega
    have hal : env.refAllocOk = true := by
      by_contra hal
      have hal' : env.refAllocOk = false := by simpa using hal
      have hn : env.store.nPage ≠ 0 := by omega
      unfold sqlite3BtreeIntegrityCheck at hr
      rw [if_neg hn, if_pos hal'] at hr
      cases hr
      simp at hzero
    obtain ⟨m1, m2, m3⟩ := hmsg hal hne p hp1 hp2
    rw [hnil] at m1 m2 m3
    by_cases hex : p = PENDING_BYTE_PAGE pBt ∨ (pBt.autoVacuum = true ∧ ptrmapPageno pBt p = p)
    · rw [if_pos hex]
      by_contra hc
      have hc1 : 1 ≤ r.2.refLog.count p := by omega
      rcases hex with hex | hex
      · exact List.not_mem_nil _ (m1 (Or.inr ⟨hex, hc1⟩))
      · exact List.not_mem_nil _ (m3 hc1 hex.1 hex.2)
    · rw [if_neg hex]
      by_contra hc
      have hcases : r.2.refLog.count p = 0 ∨ 2 ≤ r.2.refLog.count p := by omega
      rcases hcases with h0 | h2'
      · exact List.not_mem_nil _ (m2 h0 (fun h => hex (Or.inl h)) (fun h => hex (Or.inr h)))
      · exact List.not_mem_nil _ (m1 (Or.inl h2'))
  · intro hal hlt p hp1 hp2
    have hne : r.2.mxErr ≠ 0 := by omega
    obtain ⟨m1, m2, m3⟩ := hmsg hal hne p hp1 hp2
    exact ⟨fun h => m1 (Or.inl h), m2, m3⟩
  · intro hal hmf'
    rw [hmf hal hmf']
    omega

/-- Witness for C31: the six-page database `exCkEnv` checked from the roots 1 and 2 with a
budget of 100. -/
theorem sqlite3BtreeIntegrityCheck_partition_witness :
    usableOk exBt1024.usableSize ∧ (0 : Int) ≤ 100 ∧ exBt1024.usableSize ≤ 1024 ∧
    exCkEnv.store.nPage + 2 ≤ 8 ∧
    ∃ r, sqlite3BtreeIntegrityCheck exCkEnv 1024 8 8 exBt1024 [1, 2] 100 = some r ∧
      ((0 : Int) < 100 → r.1 = 0 → ∀ p, 1 ≤ p → p ≤ exCkEnv.store.nPage →
        r.2.refLog.count p =
          if p = PENDING_BYTE_PAGE exBt1024 ∨
            (exBt1024.autoVacuum = true ∧ ptrmapPageno exBt1024 p = p)
          then 0 else 1) ∧
      (exCkEnv.refAllocOk = true → (r.2.nErr : Int) < 100 →
        ∀ p, 1 ≤ p → p ≤ exCkEnv.store.nPage →
          (2 ≤ r.2.refLog.count p → CkMsg.secondRef p ∈ r.2.errMsg) ∧
          (r.2.refLog.count p = 0 → p ≠ PENDING_BYTE_PAGE exBt1024 →
            ¬ (exBt1024.autoVacuum = true ∧ ptrmapPageno exBt1024 p = p) →
            CkMsg.neverUsed p ∈ r.2.errMsg) ∧
          (1 ≤ r.2.refLog.count p → exBt1024.autoVacuum = true →
            ptrmapPageno exBt1024 p = p → CkMsg.ptrmapReferenced p ∈ r.2.errMsg)) ∧
      r.2.errMsg.length = r.2.nErr ∧
      (r.2.nErr : Int) ≤ 100 ∧ (r.1 : Int) ≤ 100 + 1 ∧
      (exCkEnv.refAllocOk = true → r.2.mallocFailed = false → (r.1 : Int) ≤ 100) :=
  ⟨by decide, by decide, by decide, by decide,
    sqlite3BtreeIntegrityCheck_partition exCkEnv exBt1024 [1, 2] 100 1024 8 8
      (by decide) (by decide) (by decide) (by decide) (by decide)⟩

end Btree

namespace Btree

/-! ## `balance_nonroot`: the packing of the cells -/

theorem szAt_nonneg (szCell : List Nat) (i : Int) : 0 ≤ szAt szCell i := by
  unfold szAt
  split
  · exact Int.natCast_nonneg _
  · exact le_refl _

theorem szAt_mem (szCell : List Nat) (i : Int) (h0 : 0 ≤ i) (h1 : i < szCell.length) :
    ∃ s ∈ szCell, szAt szCell i = (s : Int) := by
  unfold szAt
  rw [if_pos h0]
  have hlt : i.toNat < szCell.length := by omega
  refine ⟨szCell.getD i.toNat 0, ?_, rfl⟩
  rw [List.getD_eq_getElem _ _ hlt]
  exact List.getElem_mem _

theorem cellBytesN_nonneg (szCell : List Nat) (a : Int) : ∀ n, 0 ≤ cellBytesN szCell a n := by
  intro n
  induction n with
  | zero => exact le_refl _
  | succ n ih =>
    rw [cellBytesN]
    have := szAt_nonneg szCell (a + n)
    omega

theorem cellBytesN_pos (szCell : List Nat) (a : Int) : ∀ n, 0 < n → 2 ≤ cellBytesN szCell a n := by
  intro n hn
  obtain ⟨m, rfl⟩ : ∃ m, n = m + 1 := ⟨n - 1, by omega⟩
  rw [cellBytesN]
  have h1 := szAt_nonneg szCell (a + m)
  have h2 := cellBytesN_nonneg szCell a m
  omega

theorem cellBytesN_head (szCell : List Nat) : ∀ n a,
    cellBytesN szCell a (n + 1) = (szAt szCell a + 2) + cellBytesN szCell (a + 1) n := by
  intro n
  induction n with
  | zero =>
    intro a
    simp [cellBytesN]
  | succ n ih =>
    intro a
    rw [cellBytesN, ih a, cellBytesN]
    have : a + 1 + (n : Int) = a + ((n + 1 : Nat) : Int) := by push_cast; ring
    rw [this]
    ring

theorem cellBytes_empty (szCell : List Nat) (a b : Int) (h : b ≤ a) :
    cellBytes szCell a b = 0 := by
  unfold cellBytes
  have : (b - a).toNat = 0 := by omega
  rw [this]
  rfl

theorem cellBytes_nonneg (szCell : List Nat) (a b : Int) : 0 ≤ cellBytes szCell a b :=
  cellBytesN_nonneg szCell a _

theorem cellBytes_pos (szCell : List Nat) (a b : Int) (h : a < b) :
    2 ≤ cellBytes szCell a b :=
  cellBytesN_pos szCell a _ (by omega)

theorem cellBytes_succ (szCell : List Nat) (a b : Int) (h : a ≤ b) :
    cellBytes szCell a (b + 1) = cellBytes szCell a b + (szAt szCell b + 2) := by
  unfold cellBytes
  have h1 : (b + 1 - a).toNat = (b - a).toNat + 1 := by omega
  rw [h1, cellBytesN]
  have h2 : a + (((b - a).toNat : Nat) : Int) = b := by omega
  rw [h2]

theorem cellBytes_head (szCell : List Nat) (a b : Int) (h : a < b) :
    cellBytes szCell a b = (szAt szCell a + 2) + cellBytes szCell (a + 1) b := by
  unfold cellBytes
  have h1 : (b - a).toNat = (b - (a + 1)).toNat + 1 := by omega
  rw [h1, cellBytesN_head]

theorem cellBytes_single (szCell : List Nat) (a : Int) :
    cellBytes szCell a (a + 1) = szAt szCell a + 2 := by
  rw [cellBytes_succ szCell a a (le_refl _), cellBytes_empty szCell a a (le_refl _)]
  ring

/-- The loop that shifts cells from the left page of a pair to the right one returns; the
left page keeps a cell, the right page ends up with one, both fit, and all reads of
`szCell` are inside the array. -/
theorem packShift_spec (szCell : List Nat) (usableSpace : Int) (leafData bBulk : Nat)
    (hld : leafData ≤ 1)
    (hfit : ∀ i : Int, 0 ≤ i → i < szCell.length → szAt szCell i + 2 ≤ usableSpace)
    (s e er : Int) (h0 : 0 ≤ s) (he : e ≤ szCell.length) (her : er = 0 ∨ er = 2) :
    ∀ fuel szRight szLeft cnt reads,
      s < cnt → cnt + 1 - leafData ≤ e →
      szLeft = cellBytes szCell s cnt + 2 → cellBytes szCell s cnt ≤ usableSpace →
      szRight = cellBytes szCell (cnt + 1 - leafData) e + er →
      (er = 2 → cnt + 1 - leafData < e) →
      cellBytes szCell (cnt + 1 - leafData) e ≤ usableSpace →
      (szRight = 0 → s + 2 ≤ cnt) →
      (∀ x : Int, x ∈ reads → 0 ≤ x ∧ x < (szCell.length : Int)) →
      (cnt - s).toNat + 1 ≤ fuel →
      ∃ szR szL c rd, packShift szCell leafData bBulk fuel szRight szLeft cnt reads =
          some (szR, szL, c, rd) ∧
        s < c ∧ c ≤ cnt ∧ szL = cellBytes szCell s c + 2 ∧
        cellBytes szCell s c ≤ usableSpace ∧ c + 1 - leafData < e ∧
        cellBytes szCell (c + 1 - leafData) e ≤ usableSpace ∧
        (∀ x : Int, x ∈ rd → 0 ≤ x ∧ x < (szCell.length : Int)) := by
  intro fuel
  induction fuel with
  | zero => intro szRight szLeft cnt reads _ _ _ _ _ _ _ _ _ hf; omega
  | succ fuel ih =>
    intro szRight szLeft cnt reads hsc hce hL hLU hR hne hRU hforced hreads hf
    have hldc : (leafData : Int) = 0 ∨ (leafData : Int) = 1 := by omega
    have hr0 : 0 ≤ cnt - 1 := by omega
    have hr1 : cnt - 1 < szCell.length := by omega
    have hRnn := cellBytes_nonneg szCell (cnt + 1 - leafData) e
    have hreads' : ∀ x : Int, x ∈ (cnt - 1) :: (cnt - 1 + 1 - (leafData : Int)) :: reads →
        cnt + 1 - (leafData : Int) < e ∨ szRight = 0 →
        0 ≤ x ∧ x < (szCell.length : Int) := by
      intro x hx hcase
      rcases List.mem_cons.mp hx with hx | hx
      · rw [hx]; exact ⟨hr0, hr1⟩
      · rcases List.mem_cons.mp hx with hx | hx
        · rw [hx]
          constructor
          · omega
          · rcases hcase with hcase | hcase
            · omega
            · have := hforced hcase
              omega
        · exact hreads x hx
    have hleft : cellBytes szCell s cnt =
        cellBytes szCell s (cnt - 1) + (szAt szCell (cnt - 1) + 2) := by
      have := cellBytes_succ szCell s (cnt - 1) (by omega)
      rw [← this]
      congr 1
      ring
    rw [packShift]
    by_cases hc : szRight = 0 ∨ (bBulk = 0 ∧
        szRight + szAt szCell (cnt - 1 + 1 - leafData) + 2 ≤
          szLeft - (szAt szCell (cnt - 1) + 2))
    · rw [if_pos hc]
      have hd : cnt - 1 + 1 - (leafData : Int) = cnt - leafData := by ring
      by_cases hz : szRight = 0
      · -- the right page is empty: one cell has to move
        have hs2 := hforced hz
        have her0 : er = 0 := by
          rcases her with h | h
          · exact h
          · have := cellBytes_pos szCell _ _ (hne h)
            omega
        have hempty : e = cnt + 1 - leafData := by
          by_contra hcon
          have hlt : cnt + 1 - (leafData : Int) < e := by omega
          have := cellBytes_pos szCell _ _ hlt
          omega
        have hd0 : 0 ≤ cnt - (leafData : Int) := by omega
        have hd1 : cnt - (leafData : Int) < szCell.length := by omega
        have hsingle : cellBytes szCell (cnt - 1 + 1 - leafData) e =
            szAt szCell (cnt - leafData) + 2 := by
          rw [hd, hempty]
          have : cnt + 1 - (leafData : Int) = cnt - leafData + 1 := by ring
          rw [this]
          exact cellBytes_single szCell _
        obtain ⟨szR, szL, c, rd, hrun, c1, c2, c3, c4, c5, c6, c7⟩ :=
          ih (szRight + (szAt szCell (cnt - 1 + 1 - leafData) + 2))
            (szLeft - (szAt szCell (cnt - 1) + 2)) (cnt - 1)
            ((cnt - 1) :: (cnt - 1 + 1 - leafData) :: reads)
            (by omega) (by omega) (by rw [hL, hleft]; ring) (by
              have := szAt_nonneg szCell (cnt - 1)
              omega)
            (by rw [hz, her0, hsingle, hd]; ring)
            (by intro h; omega)
            (by rw [hsingle]; exact hfit _ hd0 hd1)
            (by
              intro h
              have := szAt_nonneg szCell (cnt - 1 + 1 - leafData)
              omega)
            (fun x hx => hreads' x hx (Or.inr hz))
            (by omega)
        exact ⟨szR, szL, c, rd, hrun, c1, by omega, c3, c4, c5, c6, c7⟩
      · -- the right page can take one more cell without getting ahead of the left one
        have hcond : szRight + szAt szCell (cnt - 1 + 1 - leafData) + 2 ≤
            szLeft - (szAt szCell (cnt - 1) + 2) := by
          rcases hc with h | h
          · exact absurd h hz
          · exact h.2
        have hRpos : 0 < szRight := by
          rcases her with h | h
          · omega
          · omega
        have hdnn := szAt_nonneg szCell (cnt - 1 + 1 - leafData)
        have hrnn := szAt_nonneg szCell (cnt - 1)
        have hsc' : s < cnt - 1 := by
          by_contra hcon
          have := cellBytes_empty szCell s (cnt - 1) (by omega)
          omega
        have hright : cellBytes szCell (cnt - 1 + 1 - leafData) e =
            (szAt szCell (cnt - 1 + 1 - leafData) + 2) +
              cellBytes szCell (cnt + 1 - leafData) e := by
          have := cellBytes_head szCell (cnt - 1 + 1 - leafData) e (by omega)
          rw [this]
          congr 2
          ring
        obtain ⟨szR, szL, c, rd, hrun, c1, c2, c3, c4, c5, c6, c7⟩ :=
          ih (szRight + (szAt szCell (cnt - 1 + 1 - leafData) + 2))
            (szLeft - (szAt szCell (cnt - 1) + 2)) (cnt - 1)
            ((cnt - 1) :: (cnt - 1 + 1 - leafData) :: reads)
            hsc' (by omega) (by rw [hL, hleft]; ring) (by omega)
            (by rw [hright, hR]; ring)
            (by intro _; omega)
            (by rw [hright]; omega)
            (by intro h; omega)
            (fun x hx => hreads' x hx (Or.inl (by
              rcases her with h | h
              · by_contra hcon
                have := cellBytes_empty szCell (cnt + 1 - leafData) e (by omega)
                omega
              · exact hne h)))
            (by omega)
        exact ⟨szR, szL, c, rd, hrun, c1, by omega, c3, c4, c5, c6, c7⟩
    · rw [if_neg hc]
      have hz : szRight ≠ 0 := fun h => hc (Or.inl h)
      have hnonempty : cnt + 1 - (leafData : Int) < e := by
        rcases her with h | h
        · by_contra hcon
          have := cellBytes_empty szCell (cnt + 1 - leafData) e (by omega)
          omega
        · exact hne h
      refine ⟨_, _, _, _, rfl, hsc, le_refl _, hL, hLU, hnonempty, hRU, ?_⟩
      by_cases hb : bBulk = 0
      · rw [if_pos hb]
        exact fun x hx => hreads' x hx (Or.inl hnonempty)
      · rw [if_neg hb]
        exact hreads

end Btree

namespace Btree

theorem pageStart_congr (leafData : Nat) (c1 c2 : Nat → Int) (j : Nat)
    (h : ∀ m, m < j → c2 m = c1 m) : pageStart leafData c2 j = pageStart leafData c1 j := by
  unfold pageStart
  by_cases hj : j = 0
  · rw [if_pos hj, if_pos hj]
  · rw [if_neg hj, if_neg hj, h (j - 1) (by omega)]

theorem pageStart_succ (leafData : Nat) (c : Nat → Int) (j : Nat) :
    pageStart leafData c (j + 1) = c j + 1 - leafData := by
  unfold pageStart
  rw [if_neg (by omega)]
  rfl

theorem closedPage_congr (szCell : List Nat) (usableSpace : Int) (leafData : Nat)
    (st st2 : PackState) (j : Nat) (hc : ∀ m, m ≤ j → st2.cntNew m = st.cntNew m)
    (hs : st2.szNew j = st.szNew j) (h : ClosedPage szCell usableSpace leafData st j) :
    ClosedPage szCell usableSpace leafData st2 j := by
  unfold ClosedPage at h ⊢
  rw [pageStart_congr leafData st.cntNew st2.cntNew j (fun m hm => hc m (by omega)),
    hc j (le_refl _), hs]
  exact h

theorem finalPage_congr (szCell : List Nat) (usableSpace : Int) (leafData : Nat)
    (c1 c2 : Nat → Int) (j : Nat) (hc : c2 j = c1 j) (hp : ∀ m, m < j → m + 1 = j → c2 m = c1 m)
    (h : FinalPage szCell usableSpace leafData c1 j) :
    FinalPage szCell usableSpace leafData c2 j := by
  unfold FinalPage at h ⊢
  have hps : pageStart leafData c2 j = pageStart leafData c1 j := by
    unfold pageStart
    by_cases hj : j = 0
    · rw [if_pos hj, if_pos hj]
    · rw [if_neg hj, if_neg hj, hp (j - 1) (by omega) (by omega)]
  rw [hps, hc]
  exact h

/-- The left-to-right fill returns; it ends either with `SQLITE_CORRUPT` after closing a
fifth page, or with at most five pages of which all but the last are closed pages and the
last holds the remaining cells. -/
theorem packFill_spec (szCell : List Nat) (usableSpace : Int) (leafData : Nat)
    (hld : leafData ≤ 1) (hne : 0 < szCell.length)
    (hfit1 : ∀ i : Int, 0 ≤ i → i < szCell.length → szAt szCell i + 2 ≤ usableSpace)
    (hfit4 : leafData = 0 → ∀ i : Int, 0 ≤ i → i < szCell.length →
      4 * (szAt szCell i + 2) ≤ usableSpace) :
    ∀ fuel (i subtotal : Int) (st : PackState),
      st.k ≤ 4 → 0 ≤ i → i ≤ szCell.length →
      0 ≤ pageStart leafData st.cntNew st.k →
      pageStart leafData st.cntNew st.k ≤ i →
      subtotal = cellBytes szCell (pageStart leafData st.cntNew st.k) i →
      subtotal ≤ usableSpace →
      (∀ j, j < st.k → ClosedPage szCell usableSpace leafData st j) →
      (∀ x : Int, x ∈ st.reads → 0 ≤ x ∧ x < (szCell.length : Int)) →
      (szCell.length - i).toNat + (5 - st.k) + 1 ≤ fuel →
      ∃ rc st2, packFill szCell usableSpace leafData fuel i subtotal st = some (rc, st2) ∧
        (∀ x : Int, x ∈ st2.reads → 0 ≤ x ∧ x < (szCell.length : Int)) ∧
        ((rc = SQLITE_CORRUPT ∧ st2.k = 5 ∧
            ∀ j, j < 5 → ClosedPage szCell usableSpace leafData st2 j) ∨
          (rc = SQLITE_OK ∧ 1 ≤ st2.k ∧ st2.k ≤ 5 ∧
            (∀ j, j + 1 < st2.k → ClosedPage szCell usableSpace leafData st2 j) ∧
            st2.cntNew (st2.k - 1) = szCell.length ∧
            0 ≤ pageStart leafData st2.cntNew (st2.k - 1) ∧
            pageStart leafData st2.cntNew (st2.k - 1) ≤ szCell.length ∧
            st2.szNew (st2.k - 1) =
              cellBytes szCell (pageStart leafData st2.cntNew (st2.k - 1)) szCell.length ∧
            cellBytes szCell (pageStart leafData st2.cntNew (st2.k - 1)) szCell.length ≤
              usableSpace ∧
            (leafData ≠ 0 ∨ st2.k = 1 →
              pageStart leafData st2.cntNew (st2.k - 1) < szCell.length))) := by
  intro fuel
  induction fuel with
  | zero => intro i subtotal st _ _ _ _ _ _ _ _ _ hf; omega
  | succ fuel ih =>
    intro i subtotal st hk hi0 hi1 hp0 hpi hsub hsubU hclosed hreads hf
    have hldc : (leafData : Int) = 0 ∨ (leafData : Int) = 1 := by omega
    rw [packFill]
    by_cases hlt : i < szCell.length
    · rw [if_pos hlt]
      have hw := szAt_nonneg szCell i
      have hfi := hfit1 i hi0 hlt
      have hreads2 : ∀ x : Int, x ∈ i :: st.reads → 0 ≤ x ∧ x < (szCell.length : Int) := by
        intro x hx
        rcases List.mem_cons.mp hx with hx | hx
        · rw [hx]; exact ⟨hi0, hlt⟩
        · exact hreads x hx
      by_cases hov : subtotal + (szAt szCell i + 2) > usableSpace
      · rw [if_pos hov]
        -- the page that is closed here
        have hstart : pageStart leafData st.cntNew st.k < i := by
          by_contra hcon
          have := cellBytes_empty szCell (pageStart leafData st.cntNew st.k) i (by omega)
          omega
        have hnew : ∀ st2 : PackState, st2.cntNew = setAt st.cntNew st.k i →
            st2.szNew = setAt st.szNew st.k (subtotal + (szAt szCell i + 2) - szAt szCell i) →
            (∀ j, j < st.k + 1 → ClosedPage szCell usableSpace leafData st2 j) := by
          intro st2 hc hs j hj
          by_cases hjk : j = st.k
          · rw [hjk]
            unfold ClosedPage
            have hps : pageStart leafData st2.cntNew st.k = pageStart leafData st.cntNew st.k :=
              pageStart_congr leafData st.cntNew st2.cntNew st.k (fun m hm => by
                rw [hc, setAt_other _ _ _ _ (by omega)])
            rw [hps, hc, hs, setAt_same, setAt_same, ← hsub]
            refine ⟨hp0, hstart, ?_, hlt, by ring, hsubU, hov⟩
            intro hl0
            by_contra hcon
            have he : i = pageStart leafData st.cntNew st.k + 1 := by omega
            have h1 := cellBytes_single szCell (pageStart leafData st.cntNew st.k)
            rw [← he, ← hsub] at h1
            have h4a := hfit4 hl0 i hi0 hlt
            have h4b := hfit4 hl0 (pageStart leafData st.cntNew st.k) hp0 (by omega)
            omega
          · apply closedPage_congr szCell usableSpace leafData st st2 j
            · intro m hm
              rw [hc, setAt_other _ _ _ _ (by omega)]
            · rw [hs, setAt_other _ _ _ _ hjk]
            · exact hclosed j (by omega)
        by_cases hk5 : st.k + 1 > NB + 1
        · rw [if_pos hk5]
          have hk4 : st.k = 4 := by
            have : NB = 3 := rfl
            omega
          refine ⟨_, _, rfl, hreads2, Or.inl ⟨rfl, by show st.k + 1 = 5; omega, ?_⟩⟩
          intro j hj
          exact hnew _ rfl rfl j (by omega)
        · rw [if_neg hk5]
          have hk3 : st.k + 1 ≤ 4 := by
            have : NB = 3 := rfl
            omega
          have hi' : (if leafData ≠ 0 then i - 1 else i) + 1 = i + 1 - (leafData : Int) := by
            by_cases hl : leafData = 0
            · rw [if_neg (by simpa using hl), hl]; simp
            · rw [if_pos hl]
              have : leafData = 1 := by omega
              rw [this]; simp
          rw [hi']
          have hps' : pageStart leafData (setAt st.cntNew st.k i) (st.k + 1) =
              i + 1 - (leafData : Int) := by
            rw [pageStart_succ, setAt_same]
          apply ih
          · exact hk3
          · omega
          · omega
          · show 0 ≤ pageStart leafData (setAt st.cntNew st.k i) (st.k + 1)
            rw [hps']; omega
          · show pageStart leafData (setAt st.cntNew st.k i) (st.k + 1) ≤ _
            rw [hps']
          · show (0 : Int) = cellBytes szCell
              (pageStart leafData (setAt st.cntNew st.k i) (st.k + 1)) _
            rw [hps', cellBytes_empty szCell _ _ (le_refl _)]
          · omega
          · exact hnew _ rfl rfl
          · exact hreads2
          · show (szCell.length - (i + 1 - (leafData : Int))).toNat + (5 - (st.k + 1)) + 1 ≤ fuel
            omega
      · rw [if_neg hov]
        apply ih
        · exact hk
        · omega
        · omega
        · exact hp0
        · show pageStart leafData st.cntNew st.k ≤ i + 1
          omega
        · show subtotal + (szAt szCell i + 2) =
            cellBytes szCell (pageStart leafData st.cntNew st.k) (i + 1)
          rw [cellBytes_succ szCell _ i hpi, hsub]
        · omega
        · intro j hj
          exact closedPage_congr szCell usableSpace leafData st _ j (fun _ _ => rfl) rfl
            (hclosed j hj)
        · exact hreads2
        · show (szCell.length - (i + 1)).toNat + (5 - st.k) + 1 ≤ fuel
          omega
    · rw [if_neg hlt]
      have hie : i = szCell.length := by omega
      have hps : pageStart leafData (setAt st.cntNew st.k (szCell.length : Int)) st.k =
          pageStart leafData st.cntNew st.k :=
        pageStart_congr leafData st.cntNew _ st.k (fun m hm => by
          rw [setAt_other _ _ _ _ (by omega)])
      refine ⟨_, _, rfl, hreads, Or.inr ⟨rfl, ?_, ?_, ?_, ?_, ?_, ?_, ?_, ?_, ?_⟩⟩
      · show 1 ≤ st.k + 1
        omega
      · show st.k + 1 ≤ 5
        omega
      · intro j hj
        have hj' : j < st.k := by
          have : j + 1 < st.k + 1 := hj
          omega
        apply closedPage_congr szCell usableSpace leafData st _ j
        · intro m hm
          show setAt st.cntNew st.k (szCell.length : Int) m = _
          rw [setAt_other _ _ _ _ (by omega)]
        · show setAt st.szNew st.k subtotal j = _
          rw [setAt_other _ _ _ _ (by omega)]
        · exact hclosed j hj'
      · show setAt st.cntNew st.k (szCell.length : Int) (st.k + 1 - 1) = _
        rw [Nat.add_sub_cancel, setAt_same]
      · show 0 ≤ pageStart leafData (setAt st.cntNew st.k (szCell.length : Int)) (st.k + 1 - 1)
        rw [Nat.add_sub_cancel, hps]; exact hp0
      · show pageStart leafData (setAt st.cntNew st.k (szCell.length : Int)) (st.k + 1 - 1) ≤ _
        rw [Nat.add_sub_cancel, hps]; omega
      · show setAt st.szNew st.k subtotal (st.k + 1 - 1) = cellBytes szCell
          (pageStart leafData (setAt st.cntNew st.k (szCell.length : Int)) (st.k + 1 - 1)) _
        rw [Nat.add_sub_cancel, hps, setAt_same, hsub, hie]
      · show cellBytes szCell
          (pageStart leafData (setAt st.cntNew st.k (szCell.length : Int)) (st.k + 1 - 1)) _ ≤ _
        rw [Nat.add_sub_cancel, hps, ← hie, ← hsub]; exact hsubU
      · intro hcase
        show pageStart leafData (setAt st.cntNew st.k (szCell.length : Int)) (st.k + 1 - 1) < _
        rw [Nat.add_sub_cancel, hps]
        by_cases hk0 : st.k = 0
        · unfold pageStart
          rw [if_pos hk0]
          omega
        · have hl : leafData ≠ 0 := by
            rcases hcase with h | h
            · exact h
            · have : st.k + 1 = 1 := h
              omega
          obtain ⟨_, _, _, c3, _⟩ := hclosed (st.k - 1) (by omega)
          unfold pageStart
          rw [if_neg hk0]
          omega

end Btree

namespace Btree

/-- The right-to-left adjustment returns and leaves every page with at least one cell and
with cells that fit. -/
theorem packAdjust_spec (szCell : List Nat) (usableSpace : Int) (leafData bBulk fuel : Nat)
    (hld : leafData ≤ 1)
    (hfit1 : ∀ i : Int, 0 ≤ i → i < szCell.length → szAt szCell i + 2 ≤ usableSpace)
    (k : Nat) (hfuel : szCell.length + 1 ≤ fuel) :
    ∀ n (st : PackState), n < k → st.cntNew (k - 1) = szCell.length →
      (∀ j, j < n → ClosedPage szCell usableSpace leafData st j) →
      0 ≤ pageStart leafData st.cntNew n →
      pageStart leafData st.cntNew n ≤ st.cntNew n → st.cntNew n ≤ szCell.length →
      cellBytes szCell (pageStart leafData st.cntNew n) (st.cntNew n) ≤ usableSpace →
      (∃ er : Int, (er = 0 ∨ er = 2) ∧
        st.szNew n = cellBytes szCell (pageStart leafData st.cntNew n) (st.cntNew n) + er ∧
        (er = 2 → pageStart leafData st.cntNew n < st.cntNew n)) →
      (leafData ≠ 0 ∨ n = 0 → pageStart leafData st.cntNew n < st.cntNew n) →
      (∀ j, n < j → j < k → FinalPage szCell usableSpace leafData st.cntNew j) →
      (∀ x : Int, x ∈ st.reads → 0 ≤ x ∧ x < (szCell.length : Int)) →
      ∃ st2, packAdjust szCell leafData bBulk fuel n st = some st2 ∧ st2.k = st.k ∧
        (∀ j, j < k → FinalPage szCell usableSpace leafData st2.cntNew j) ∧
        st2.cntNew (k - 1) = szCell.length ∧
        (∀ x : Int, x ∈ st2.reads → 0 ≤ x ∧ x < (szCell.length : Int)) := by
  intro n
  induction n with
  | zero =>
    intro st hn hlast _ hp0 _ _ hU _ hnonempty hfinal hreads
    refine ⟨st, rfl, rfl, ?_, hlast, hreads⟩
    intro j hj
    by_cases hj0 : j = 0
    · rw [hj0]
      exact ⟨hp0, hnonempty (Or.inr rfl), hU⟩
    · exact hfinal j (by omega) hj
  | succ n ih =>
    intro st hn hlast hclosed hp0 hple hle hU her hnonempty hfinal hreads
    obtain ⟨er, her1, her2, her3⟩ := her
    obtain ⟨l0, l1, l2, l3, l4, l5, _⟩ := hclosed n (by omega)
    have hps := pageStart_succ leafData st.cntNew n
    rw [hps] at hp0 hple hU her2 her3 hnonempty
    have hforced : st.szNew (n + 1) = 0 → pageStart leafData st.cntNew n + 2 ≤ st.cntNew n := by
      intro hz
      apply l2
      by_contra hl
      have hne := hnonempty (Or.inl hl)
      have := cellBytes_pos szCell _ _ hne
      rcases her1 with h | h <;> omega
    obtain ⟨szR, szL, c, rd, hrun, c1, c2, c3, c4, c5, c6, c7⟩ :=
      packShift_spec szCell usableSpace leafData bBulk hld hfit1
        (pageStart leafData st.cntNew n) (st.cntNew (n + 1)) er l0 hle her1 fuel
        (st.szNew (n + 1)) (st.szNew n) (st.cntNew n) st.reads
        l1 hple l4 l5 her2 her3 hU hforced hreads (by omega)
    rw [packAdjust, hrun]
    have hpsn : pageStart leafData (setAt st.cntNew n c) n = pageStart leafData st.cntNew n :=
      pageStart_congr leafData st.cntNew _ n (fun m hm => by
        rw [setAt_other _ _ _ _ (by omega)])
    obtain ⟨st2, hr, hk2, hf2, hl2, hrd2⟩ := ih
      { st with
        szNew := setAt (setAt st.szNew (n + 1) szR) n szL
        cntNew := setAt st.cntNew n c
        reads := rd }
      (by omega)
      (by
        show setAt st.cntNew n c (k - 1) = _
        rw [setAt_other _ _ _ _ (by omega)]; exact hlast)
      (by
        intro j hj
        apply closedPage_congr szCell usableSpace leafData st _ j
        · intro m hm
          show setAt st.cntNew n c m = _
          rw [setAt_other _ _ _ _ (by omega)]
        · show setAt (setAt st.szNew (n + 1) szR) n szL j = _
          rw [setAt_other _ _ _ _ (by omega), setAt_other _ _ _ _ (by omega)]
        · exact hclosed j (by omega))
      (by
        show 0 ≤ pageStart leafData (setAt st.cntNew n c) n
        rw [hpsn]; exact l0)
      (by
        show pageStart leafData (setAt st.cntNew n c) n ≤ setAt st.cntNew n c n
        rw [hpsn, setAt_same]; omega)
      (by
        show setAt st.cntNew n c n ≤ _
        rw [setAt_same]; omega)
      (by
        show cellBytes szCell (pageStart leafData (setAt st.cntNew n c) n)
          (setAt st.cntNew n c n) ≤ _
        rw [hpsn, setAt_same]; exact c4)
      ⟨2, Or.inr rfl, by
        show setAt (setAt st.szNew (n + 1) szR) n szL n =
          cellBytes szCell (pageStart leafData (setAt st.cntNew n c) n)
            (setAt st.cntNew n c n) + 2
        rw [hpsn, setAt_same, setAt_same]; exact c3, by
        intro _
        show pageStart leafData (setAt st.cntNew n c) n < setAt st.cntNew n c n
        rw [hpsn, setAt_same]; exact c1⟩
      (by
        intro _
        show pageStart leafData (setAt st.cntNew n c) n < setAt st.cntNew n c n
        rw [hpsn, setAt_same]; exact c1)
      (by
        intro j hj1 hj2
        show FinalPage szCell usableSpace leafData (setAt st.cntNew n c) j
        by_cases hjn : j = n + 1
        · rw [hjn]
          unfold FinalPage
          rw [pageStart_succ, setAt_same, setAt_other _ _ _ _ (by omega)]
          have hldc : (leafData : Int) = 0 ∨ (leafData : Int) = 1 := by omega
          exact ⟨by omega, c5, c6⟩
        · apply finalPage_congr szCell usableSpace leafData st.cntNew _ j
          · rw [setAt_other _ _ _ _ (by omega)]
          · intro m _ hm
            rw [setAt_other _ _ _ _ (by omega)]
          · exact hfinal j (by omega) hj2)
      c7
    exact ⟨st2, hr, hk2, hf2, hl2, hrd2⟩

/-- The boundaries of pages that all hold a cell increase, so each one before the last is
inside the array. -/
theorem finalPages_lt (szCell : List Nat) (usableSpace : Int) (leafData : Nat)
    (hld : leafData ≤ 1) (cntNew : Nat → Int) (k : Nat)
    (hfinal : ∀ j, j < k → FinalPage szCell usableSpace leafData cntNew j) :
    ∀ j, j + 1 < k → cntNew j < cntNew (j + 1) := by
  intro j hj
  obtain ⟨_, h, _⟩ := hfinal (j + 1) hj
  rw [pageStart_succ] at h
  omega

theorem finalPages_bound (szCell : List Nat) (usableSpace : Int) (leafData : Nat)
    (hld : leafData ≤ 1) (cntNew : Nat → Int) (k : Nat)
    (hfinal : ∀ j, j < k → FinalPage szCell usableSpace leafData cntNew j) :
    ∀ t j, j + t + 1 = k → cntNew j + t ≤ cntNew (k - 1) := by
  intro t
  induction t with
  | zero =>
    intro j hj
    have : k - 1 = j := by omega
    rw [this]
    simp
  | succ t ih =>
    intro j hj
    have h1 := finalPages_lt szCell usableSpace leafData hld cntNew k hfinal j (by omega)
    have h2 := ih (j + 1) (by omega)
    push_cast
    omega

/-- The distribution loop puts on page `i + t` the cells from `pageStart` to `cntNew`, and
uses every cell from `j` on exactly once and no cell before `j`. -/
theorem distributeCells_spec (szCell : List Nat) (usableSpace : Int) (leaf leafData : Nat)
    (hleaf : leaf ≤ 1) (hld : leafData ≤ leaf) (cntNew : Nat → Int) (k : Nat)
    (hfinal : ∀ j, j < k → FinalPage szCell usableSpace leafData cntNew j)
    (hlast : cntNew (k - 1) = szCell.length) :
    ∀ n i, i + n = k →
      (∀ r ∈ distributeCells szCell.length leaf leafData cntNew n i
          (pageStart leafData cntNew i),
        0 ≤ r.1 ∧ r.1 < r.2.1 ∧ r.2.1 ≤ szCell.length ∧
          cellBytes szCell r.1 r.2.1 ≤ usableSpace) ∧
      (distributeCells szCell.length leaf leafData cntNew n i
        (pageStart leafData cntNew i)).length = n ∧
      (∀ x : Int, x < pageStart leafData cntNew i →
        timesPlaced (distributeCells szCell.length leaf leafData cntNew n i
          (pageStart leafData cntNew i)) x = 0) ∧
      (0 < n → ∀ x : Int, pageStart leafData cntNew i ≤ x → x < szCell.length →
        timesPlaced (distributeCells szCell.length leaf leafData cntNew n i
          (pageStart leafData cntNew i)) x = 1) := by
  intro n
  induction n with
  | zero =>
    intro i _
    refine ⟨?_, rfl, ?_, ?_⟩
    · intro r hr
      cases hr
    · intro x _
      rfl
    · intro h
      omega
  | succ n ih =>
    intro i hi
    obtain ⟨f0, f1, f2⟩ := hfinal i (by omega)
    have hldc : (leafData : Int) = 0 ∨ (leafData : Int) = 1 := by omega
    have hbound := finalPages_bound szCell usableSpace leafData (by omega) cntNew k hfinal n i
      (by omega)
    rw [hlast] at hbound
    have hnext : ∀ hlt : cntNew i < szCell.length,
        (if cntNew i < (szCell.length : Int) then
          (if leaf = 0 then cntNew i else if leafData ≠ 0 then cntNew i - 1 else cntNew i) + 1
        else cntNew i) = pageStart leafData cntNew (i + 1) := by
      intro hlt
      rw [if_pos hlt, pageStart_succ]
      by_cases hl0 : leaf = 0
      · rw [if_pos hl0]
        have : leafData = 0 := by omega
        rw [this]; simp
      · rw [if_neg hl0]
        by_cases hd0 : leafData = 0
        · rw [if_neg (by simpa using hd0), hd0]; simp
        · rw [if_pos hd0]
          have : leafData = 1 := by omega
          rw [this]; simp
    have hdiv : (cntNew i < (szCell.length : Int) ∧ (leaf = 0 ∨ leafData = 0)) ↔
        (cntNew i < (szCell.length : Int) ∧ leafData = 0) := by
      constructor
      · intro ⟨h1, h2⟩
        refine ⟨h1, ?_⟩
        rcases h2 with h2 | h2
        · omega
        · exact h2
      · intro ⟨h1, h2⟩
        exact ⟨h1, Or.inr h2⟩
    rw [distributeCells]
    by_cases hn0 : n = 0
    · -- the last page
      subst hn0
      have hci : cntNew i = szCell.length := by
        have : k - 1 = i := by omega
        rw [← this]; exact hlast
      have hnodiv : ¬ (cntNew i < (szCell.length : Int) ∧ (leaf = 0 ∨ leafData = 0)) := by
        intro h; omega
      rw [if_neg hnodiv]
      simp only [distributeCells]
      refine ⟨?_, rfl, ?_, ?_⟩
      · intro r hr
        rw [List.mem_singleton] at hr
        rw [hr]
        exact ⟨f0, f1, by show cntNew i ≤ _; omega, f2⟩
      · intro x hx
        unfold timesPlaced
        rw [List.countP_cons_of_neg, List.countP_cons_of_neg]
        · rfl
        · simp
        · simp only [decide_eq_true_eq]
          intro h; omega
      · intro _ x hx1 hx2
        unfold timesPlaced
        rw [List.countP_cons_of_pos, List.countP_cons_of_neg]
        · rfl
        · simp
        · simp only [decide_eq_true_eq]
          exact ⟨hx1, by omega⟩
    · have hlt : cntNew i < szCell.length := by
        have : (1 : Int) ≤ n := by omega
        omega
      rw [hnext hlt]
      obtain ⟨i1, i2, i3, i4⟩ := ih (i + 1) (by omega)
      have i4' := i4 (by omega)
      have hps := pageStart_succ leafData cntNew i
      refine ⟨?_, ?_, ?_, ?_⟩
      · intro r hr
        rcases List.mem_cons.mp hr with hr | hr
        · rw [hr]
          exact ⟨f0, f1, by show cntNew i ≤ _; omega, f2⟩
        · exact i1 r hr
      · rw [List.length_cons, i2]
      · intro x hx
        have hrest := i3 x (by rw [hps]; omega)
        unfold timesPlaced at hrest ⊢
        rw [List.countP_cons_of_neg, List.countP_cons_of_neg]
        · exact hrest
        · simp only [decide_eq_true_eq]
          intro h
          split at h
          · have := Option.some.inj h
            omega
          · cases h
        · simp only [decide_eq_true_eq]
          intro h; omega
      · intro _ x hx1 hx2
        by_cases hon : x < cntNew i
        · -- on this page
          have hrest := i3 x (by rw [hps]; omega)
          unfold timesPlaced at hrest ⊢
          rw [List.countP_cons_of_pos, List.countP_cons_of_neg]
          · omega
          · simp only [decide_eq_true_eq]
            intro h
            split at h
            · have := Option.some.inj h
              omega
            · cases h
          · simp only [decide_eq_true_eq]
            exact ⟨hx1, hon⟩
        · by_cases hdv : x = cntNew i ∧ leafData = 0
          · -- the divider after this page
            have hrest := i3 x (by rw [hps]; omega)
            unfold timesPlaced at hrest ⊢
            rw [List.countP_cons_of_neg, List.countP_cons_of_pos]
            · omega
            · simp only [decide_eq_true_eq]
              rw [if_pos (hdiv.mpr ⟨hlt, hdv.2⟩), hdv.1]
            · simp only [decide_eq_true_eq]
              intro h; omega
          · -- on a later page or a later divider
            have hrest := i4' x (by
              rw [hps]
              by_cases hd0 : leafData = 0
              · have : x ≠ cntNew i := fun h => hdv ⟨h, hd0⟩
                omega
              · omega) hx2
            unfold timesPlaced at hrest ⊢
            rw [List.countP_cons_of_neg, List.countP_cons_of_neg]
            · exact hrest
            · simp only [decide_eq_true_eq]
              intro h
              split at h
              · rename_i hc
                have := Option.some.inj h
                exact hdv ⟨this.symm, (hdiv.mp hc).2⟩
              · cases h
            · simp only [decide_eq_true_eq]
              intro h; omega

end Btree

namespace Btree

/-- Claim C35: for a non-empty list of cell sizes of which each cell fits `usableSpace`
with its 2-byte pointer (table leaves, `leafData = 1`), or of which any four cells of the
largest size do (`leafData = 0`), the packing of `balance_nonroot` with `bBulk = 0` returns
when given fuel above the number of cells plus five, and it either reports
`SQLITE_CORRUPT` after the left-to-right fill has closed five pages with a cell left over,
or yields `k ≤ 5` pages with boundaries `cntNew[0] < ... < cntNew[k-1] = nCell` such that
the distribution loop puts at least one cell on every page, uses every cell exactly once
(on a page or as a divider), and puts on a page cells whose sizes plus 2 bytes each add up
to at most `usableSpace`; all indices at which `szCell` is read are in `[0, nCell)`. -/
theorem balance_nonroot_packing (szCell : List Nat) (usableSize leaf leafData fuel : Nat)
    (szNew0 cntNew0 : Nat → Int) (hne : szCell ≠ []) (hleaf : leaf ≤ 1)
    (hld : leafData ≤ leaf)
    (hfit : ∀ s ∈ szCell, (if leafData = 0 then 4 else 1) * ((s : Int) + 2) ≤
      balanceUsableSpace usableSize leaf)
    (hfuel : szCell.length + 6 ≤ fuel) :
    ∃ rc st, balancePacking szCell (balanceUsableSpace usableSize leaf) leafData 0 fuel
        szNew0 cntNew0 = some (rc, st) ∧
      (∀ x : Int, x ∈ st.reads → 0 ≤ x ∧ x < (szCell.length : Int)) ∧
      ((rc = SQLITE_CORRUPT ∧ st.k = 5 ∧
          ∀ j, j < 5 →
            ClosedPage szCell (balanceUsableSpace usableSize leaf) leafData st j) ∨
        (rc = SQLITE_OK ∧ 1 ≤ st.k ∧ st.k ≤ 5 ∧
          st.cntNew (st.k - 1) = szCell.length ∧
          (∀ j, j + 1 < st.k → st.cntNew j < st.cntNew (j + 1)) ∧
          (distributeCells szCell.length leaf leafData st.cntNew st.k 0 0).length = st.k ∧
          (∀ r ∈ distributeCells szCell.length leaf leafData st.cntNew st.k 0 0,
            0 ≤ r.1 ∧ r.1 < r.2.1 ∧ r.2.1 ≤ szCell.length ∧
              cellBytes szCell r.1 r.2.1 ≤ balanceUsableSpace usableSize leaf) ∧
          (∀ x : Int, 0 ≤ x → x < szCell.length →
            timesPlaced (distributeCells szCell.length leaf leafData st.cntNew st.k 0 0) x
              = 1))) := by
  have hlen : 0 < szCell.length := List.length_pos.mpr hne
  have hld1 : leafData ≤ 1 := by omega
  have hfit1 : ∀ i : Int, 0 ≤ i → i < szCell.length →
      szAt szCell i + 2 ≤ balanceUsableSpace usableSize leaf := by
    intro i h0 h1
    obtain ⟨s, hs, he⟩ := szAt_mem szCell i h0 h1
    have := hfit s hs
    rw [he]
    split at this <;> omega
  have hfit4 : leafData = 0 → ∀ i : Int, 0 ≤ i → i < szCell.length →
      4 * (szAt szCell i + 2) ≤ balanceUsableSpace usableSize leaf := by
    intro hl i h0 h1
    obtain ⟨s, hs, he⟩ := szAt_mem szCell i h0 h1
    have := hfit s hs
    rw [he]
    rw [if_pos hl] at this
    exact this
  have hU : 0 ≤ balanceUsableSpace usableSize leaf := by
    have h1 := hfit1 0 (le_refl _) (by omega)
    have h2 := szAt_nonneg szCell 0
    omega
  obtain ⟨rc, st, hrun, hreads, hcases⟩ :=
    packFill_spec szCell (balanceUsableSpace usableSize leaf) leafData hld1 hlen hfit1 hfit4
      fuel 0 0 { k := 0, szNew := szNew0, cntNew := cntNew0, reads := [] }
      (by show 0 ≤ 4; omega) (le_refl _) (by omega) (le_refl _) (le_refl _)
      (by
        show (0 : Int) = cellBytes szCell (pageStart leafData cntNew0 0) 0
        exact (cellBytes_empty szCell _ _ (le_refl _)).symm)
      hU
      (by intro j hj; exact absurd hj (Nat.not_lt_zero _))
      (by intro x hx; cases hx)
      (by show (szCell.length - (0 : Int)).toNat + (5 - 0) + 1 ≤ fuel; omega)
  unfold balancePacking
  rw [hrun]
  rcases hcases with ⟨hrc, hk, hclosed⟩ | ⟨hrc, hk1, hk5, hclosed, hlast, hp0, hple, hsz, hszU,
    hnonempty⟩
  · refine ⟨rc, st, ?_, hreads, Or.inl ⟨hrc, hk, hclosed⟩⟩
    show (if rc ≠ 0 then some (rc, st) else _) = _
    rw [if_pos (by rw [hrc]; decide)]
  · obtain ⟨st2, hr2, hk2, hfinal, hlast2, hreads2⟩ :=
      packAdjust_spec szCell (balanceUsableSpace usableSize leaf) leafData 0 fuel hld1 hfit1
        st.k (by omega) (st.k - 1) st (by omega) hlast
        (fun j hj => hclosed j (by omega)) hp0 (by rw [hlast]; exact hple)
        (by rw [hlast]) (by rw [hlast]; exact hszU)
        ⟨0, Or.inl rfl, by rw [hlast, hsz]; ring, by intro h; omega⟩
        (by
          intro h
          rw [hlast]
          apply hnonempty
          rcases h with h | h
          · exact Or.inl h
          · right; omega)
        (by intro j h1 h2; omega)
        hreads
    refine ⟨SQLITE_OK, st2, ?_, hreads2, Or.inr ⟨rfl, by omega, by omega, ?_, ?_, ?_, ?_, ?_⟩⟩
    · show (if rc ≠ 0 then some (rc, st) else _) = _
      rw [if_neg (by rw [hrc]; decide), hr2]
      rfl
    · rw [hk2]; exact hlast2
    · rw [hk2]
      exact finalPages_lt szCell _ leafData hld1 st2.cntNew st.k hfinal
    · rw [hk2]
      exact (distributeCells_spec szCell _ leaf leafData hleaf hld st2.cntNew st.k hfinal
        hlast2 st.k 0 (by omega)).2.1
    · rw [hk2]
      exact (distributeCells_spec szCell _ leaf leafData hleaf hld st2.cntNew st.k hfinal
        hlast2 st.k 0 (by omega)).1
    · rw [hk2]
      intro x hx0 hx1
      exact (distributeCells_spec szCell _ leaf leafData hleaf hld st2.cntNew st.k hfinal
        hlast2 st.k 0 (by omega)).2.2.2 (by omega) x hx0 hx1

/-- Witness for C35: twelve table-leaf cells of 300 bytes on pages of 1024 usable bytes. -/
theorem balance_nonroot_packing_witness :
    exSzCell ≠ [] ∧ (1 : Nat) ≤ 1 ∧
    (∀ s ∈ exSzCell, (if (1 : Nat) = 0 then 4 else 1) * ((s : Int) + 2) ≤
      balanceUsableSpace 1024 1) ∧
    exSzCell.length + 6 ≤ 18 ∧
    ∃ rc st, balancePacking exSzCell (balanceUsableSpace 1024 1) 1 0 18
        (fun _ => 0) (fun _ => 0) = some (rc, st) ∧
      (∀ x : Int, x ∈ st.reads → 0 ≤ x ∧ x < (exSzCell.length : Int)) ∧
      ((rc = SQLITE_CORRUPT ∧ st.k = 5 ∧
          ∀ j, j < 5 → ClosedPage exSzCell (balanceUsableSpace 1024 1) 1 st j) ∨
        (rc = SQLITE_OK ∧ 1 ≤ st.k ∧ st.k ≤ 5 ∧
          st.cntNew (st.k - 1) = exSzCell.length ∧
          (∀ j, j + 1 < st.k → st.cntNew j < st.cntNew (j + 1)) ∧
          (distributeCells exSzCell.length 1 1 st.cntNew st.k 0 0).length = st.k ∧
          (∀ r ∈ distributeCells exSzCell.length 1 1 st.cntNew st.k 0 0,
            0 ≤ r.1 ∧ r.1 < r.2.1 ∧ r.2.1 ≤ exSzCell.length ∧
              cellBytes exSzCell r.1 r.2.1 ≤ balanceUsableSpace 1024 1) ∧
          (∀ x : Int, 0 ≤ x → x < exSzCell.length →
            timesPlaced (distributeCells exSzCell.length 1 1 st.cntNew st.k 0 0) x = 1))) :=
  ⟨by decide, by decide, by decide, by decide,
    balance_nonroot_packing exSzCell 1024 1 1 18 (fun _ => 0) (fun _ => 0) (by decide)
      (by decide) (by decide) (by decide) (by decide)⟩

end Btree

namespace Btree

/-! ## Writing a payload past its end -/

/-- A write whose end, computed in `u32`, is past the end of the payload is refused with
`SQLITE_CORRUPT` before anything is written. -/
theorem accessPayloadWrite_past_end (fuel : Nat) (env : WriteEnv) (store : PageStore)
    (pCur : BtCursor) (offset amt : Nat) (pBuf : Bytes)
    (h : u32 (offset + amt) >
      u32 ((if (pCur.apPage pCur.iPage.toNat).intKey ≠ 0 then 0
        else u32 (u64i (getCellInfo pCur).info.nKey)) + (getCellInfo pCur).info.nData)) :
    accessPayloadWrite fuel env store pCur offset amt pBuf =
      some (SQLITE_CORRUPT, store, getCellInfo pCur) := by
  unfold accessPayloadWrite
  simp only []
  rw [if_pos (Or.inl h)]

set_option maxRecDepth 1000000 in
/-- Claim C33, evaluated on the row of `exBlobStore` (1200 bytes of data, 180 of them on the
B-tree page and 1020 on the overflow page 3): `sqlite3BtreePutData` with `offset = 180` and
`amt = 4294967116`, whose sum `2^32` exceeds the size of the data but is 0 in `u32`, returns
`SQLITE_CORRUPT` after it has overwritten the 1020 payload bytes of the overflow page with
the bytes of the buffer; with `amt = 1021`, where the sum does not wrap, it returns
`SQLITE_CORRUPT` and leaves the pages as they were. -/
theorem sqlite3BtreePutData_wrapped_past_end :
    ((getCellInfo exBlobCursor).info.nData, (getCellInfo exBlobCursor).info.nLocal) =
      (1200, 180) ∧
    180 + 4294967116 > 1200 ∧ 4294967116 < 4294967296 ∧
    (exBlobStore.page 3 4, exBlobStore.page 3 1023) = (34, 34) ∧
    (sqlite3BtreePutDataPages 65556 exWriteEnv exBlobStore exBlobCursor (fun _ _ => (0, 0))
        true true 180 4294967116 (fun _ => 85)).map
      (fun r => (r.1, r.2.1.page 3 4, r.2.1.page 3 1023)) = some (SQLITE_CORRUPT, 85, 85) ∧
    (sqlite3BtreePutDataPages 65556 exWriteEnv exBlobStore exBlobCursor (fun _ _ => (0, 0))
        true true 180 1021 (fun _ => 85)).map
      (fun r => (r.1, r.2.1.page 3 4, r.2.1.page 3 1023)) = some (SQLITE_CORRUPT, 34, 34) := by
  refine ⟨by decide, by decide, by decide, by decide, by decide, by decide⟩

end Btree

namespace Btree

/-! ## The sorter: reading a temporary file of more than 2 GiB -/

/-- Below `2^31` the cast of the count to `int` keeps the value. -/
theorem castIntWrap_small (x : Nat) (h : x < 2147483648) : castIntWrap x = x := by
  unfold castIntWrap toInt32
  have h1 : x % 4294967296 = x := Nat.mod_eq_of_lt (by omega)
  rw [h1, h1, if_pos h]

/-- The first record of `exBigTemp`: the 1022 bytes after the two varints are all 1. -/
theorem exBigTemp_first_record (i : Nat) (hi : i < 1022) : exBigTemp (4 + i) = 1 := by
  have h1 : (4 + i) % 11266 = 4 + i := Nat.mod_eq_of_lt (by omega)
  have h2 : (4 + i - 2) % 1024 = 2 + i := by omega
  simp only [exBigTemp]
  rw [if_pos (by omega), h1, if_neg (by omega), if_neg (by omega), h2, if_neg (by omega),
    if_neg (by omega)]

set_option maxRecDepth 1000000 in
/-- Claim C28, evaluated on the temporary file `exBigTemp` of `2^32 + 610` bytes that
4193560 equal records of 1022 bytes leave: when `vdbeSorterInitMerge` sets up the first
iterator, at offset 0, `vdbeSorterIterRead` computes the count `(int)(iEof - iReadOff)` as
610 and reads 610 bytes into the buffer of 1024; the key that the iterator then delivers has
1022 bytes of which the bytes 606 to 1019 are what the buffer held before (255) and not the
bytes of the record (1).  On a file that ends with the first run the same call delivers the
record. -/
theorem vdbeSorterIterRead_count_truncated :
    castIntWrap (4294967906 - 0) = 610 ∧
    (∀ i, i < 1022 → exBigTemp (4 + i) = 1) ∧
    (vdbeSorterIterInit exBigEnv exBigTemp 8 4294967906 0 iterZero 0).map
        (fun r => (r.1, r.2.1.nKey, r.2.1.iEof, r.2.2)) =
      some (SQLITE_OK, 1022, 11266, 11264) ∧
    (vdbeSorterIterInit exBigEnv exBigTemp 8 4294967906 0 iterZero 0).map
        (fun r => ((iterKey r.2.1).getD 605 0, (iterKey r.2.1).getD 606 0,
          (iterKey r.2.1).getD 1019 0, (iterKey r.2.1).getD 1020 0)) =
      some (1, 255, 255, 1) ∧
    (vdbeSorterIterInit exBigEnv exBigTemp 8 11266 0 iterZero 0).map
        (fun r => ((iterKey r.2.1).getD 605 0, (iterKey r.2.1).getD 606 0,
          (iterKey r.2.1).getD 1019 0, (iterKey r.2.1).getD 1020 0)) =
      some (1, 1, 1, 1) := by
  refine ⟨by decide, exBigTemp_first_record, by decide, by decide, by decide⟩

end Btree
